import Mathlib

/-!
# The IFJ25 compiler (`projects/compiler-ifj`): a shallow embedding

The development follows the C sources file by file: `scanner.c`, `symtable.c`,
`parser.c`, `semantic.c`, `codegen.c` and the normal mode of `main.c`.

Conventions of the embedding.

* A byte is a `Char`; the input stream is the list of bytes still to be read and
  `ungetc` puts a byte back in front of it.
* A C string is a `String`; functions of the C library that stop at the first NUL byte
  go through `cstr`.
* `malloc` never fails, so the branches that handle a failed allocation are left out.
* A `double` is the number of its 64 bits (IEEE 754 binary64).  `strtod` rounds to the
  nearest double, a tie to the even one, and `printf` writes `%a` as the GNU C library
  does.
* The reading functions of the scanner return the C result, 0 or 1.  A call in which
  the C program writes outside a buffer on the heap returns the mark `HEAP_OVERFLOW`
  instead, and the callers of the scanner turn it into `Err.undefinedBehaviour`.
* `errorExit code ..` ends the process: it is `Except.error (Err.exit code)`.  What C
  leaves undefined (a null pointer that is dereferenced, an index outside an array) is
  `Err.undefinedBehaviour`.
* Heap objects that are updated through pointers are addressed by an index: the
  `Symbol` records live in `SymTableStack.mem`, and the `expressionType` field of the
  syntax-tree nodes lives in a store that is indexed by the number of the node.
* Loops and recursions carry a fuel argument; `Err.outOfFuel` is returned when it is
  used up.
-/

namespace IFJ

/-! ## error.h -/

/-- How a run ends abnormally: `exit code`, undefined behaviour of the C program, or the
fuel of the model used up. -/
inductive Err where
  | exit (code : Nat)
  | undefinedBehaviour
  | outOfFuel
  deriving DecidableEq, Repr

abbrev LEXICAL_ERROR : Nat := 1
abbrev SYNTAX_ERROR : Nat := 2
abbrev SEM_UNDEF : Nat := 3
abbrev SEM_REDEF : Nat := 4
abbrev SEM_ARG : Nat := 5
abbrev SEM_TYPE : Nat := 6
abbrev SEM_OTHER : Nat := 10
abbrev INTERNAL_ERROR : Nat := 99
abbrev RUN_TYPE_ARG : Nat := 25
abbrev RUN_TYPE_COMPAT : Nat := 26

/-- The function `errorExit`: the message goes to standard error, the process ends with
the code. -/
def errorExit {α : Type} (code : Nat) : Except Err α := Except.error (Err.exit code)

/-! ## scanner.h -/

inductive TokenType where
  | KW_CLASS | KW_IF | KW_ELSE | KW_IS | KW_VAL_NULL | KW_RETURN | KW_VAR | KW_WHILE
  | KW_IFJ | KW_STATIC | KW_IMPORT | KW_FOR | KW_TYPE_NUM | KW_TYPE_STRING | KW_TYPE_NULL
  | KW_TYPE_BOOL | KW_VAL_TRUE | KW_VAL_FALSE
  | LPAR | RPAR | LCURLY | RCURLY | COMMA | ASSIGN | DOT | EOL | EOF_TOKEN
  | TERNARY_QUESTION | TERNARY_COLON
  | PLUS | MINUS | MULTIPLY | DIVIDE | IS_SMALLER | IS_BIGGER | IS_SMALLER_OR_EQUAL
  | IS_BIGGER_OR_EQUAL | IS_EQUAL | IS_NOT_EQUAL | LOGICAL_AND | LOGICAL_OR | LOGICAL_NOT
  | IDENTIFIER | GLOBAL_IDENTIFIER | INT_LITERAL | FLOAT_LITERAL | STRING_LITERAL
  | MULTILINE_STRING_LITERAL
  | TOKEN_ERROR | NONE
  deriving DecidableEq, Repr

/-- The struct `TokenValue`.  `floatVal` is the double, given by its 64 bits. -/
structure TokenValue where
  stringVal : Option String
  intVal : Int
  floatVal : Nat
  deriving DecidableEq, Repr

structure Token where
  type : TokenType
  value : Option TokenValue
  line : Nat
  deriving DecidableEq, Repr

/-- The result of `memset(token, 0, sizeof(Token))`: kind 0 is `KW_CLASS`. -/
def Token.zero : Token := { type := TokenType.KW_CLASS, value := none, line := 0 }

structure Scanner where
  source : List Char
  line : Nat
  prologueRead : Bool
  lookAheadToken : Token
  isLookingAhead : Bool
  lastWasEOL : Bool
  deriving DecidableEq, Repr

/-! ## scanner.c -/

/-- The bytes of a C string: everything before the first NUL byte. -/
def cstr (s : String) : String := String.mk (s.data.takeWhile (fun c => c.toNat != 0))

def chQuote : Char := Char.ofNat 34
def chBackslash : Char := Char.ofNat 92
def chLCurly : Char := Char.ofNat 123
def chRCurly : Char := Char.ofNat 125
def chNewline : Char := Char.ofNat 10

def isWhiteSpace (c : Char) : Bool := c == ' ' || c.toNat == 9

def isdigit (c : Char) : Bool := 48 ≤ c.toNat && c.toNat ≤ 57

def isalpha (c : Char) : Bool :=
  (65 ≤ c.toNat && c.toNat ≤ 90) || (97 ≤ c.toNat && c.toNat ≤ 122)

def isalnum (c : Char) : Bool := isalpha c || isdigit c

def isxdigit (c : Char) : Bool :=
  isdigit c || (65 ≤ c.toNat && c.toNat ≤ 70) || (97 ≤ c.toNat && c.toNat ≤ 102)

def isIdentifierStart (c : Char) : Bool := isalpha c || c == '_'

def isIdentifierPart (c : Char) : Bool := isalnum c || c == '_'

/-- The function `allocTokenValue`. -/
def allocTokenValue : TokenValue := { stringVal := none, intVal := 0, floatVal := 0 }

/-- The function `hexToInt`; `none` is the result -1. -/
def hexToInt (c : Char) : Option Nat :=
  if 48 ≤ c.toNat && c.toNat ≤ 57 then some (c.toNat - 48)
  else if 97 ≤ c.toNat && c.toNat ≤ 102 then some (c.toNat - 97 + 10)
  else if 65 ≤ c.toNat && c.toNat ≤ 70 then some (c.toNat - 65 + 10)
  else none

def initScanner (source : List Char) : Scanner :=
  { source := source, line := 1, prologueRead := false, lookAheadToken := Token.zero,
    isLookingAhead := false, lastWasEOL := false }

def KEYWORDS : List (String × TokenType) :=
  [("class", TokenType.KW_CLASS), ("if", TokenType.KW_IF), ("else", TokenType.KW_ELSE),
   ("is", TokenType.KW_IS), ("null", TokenType.KW_VAL_NULL),
   ("return", TokenType.KW_RETURN), ("var", TokenType.KW_VAR),
   ("while", TokenType.KW_WHILE), ("Ifj", TokenType.KW_IFJ),
   ("static", TokenType.KW_STATIC), ("import", TokenType.KW_IMPORT),
   ("for", TokenType.KW_FOR), ("Num", TokenType.KW_TYPE_NUM),
   ("String", TokenType.KW_TYPE_STRING), ("Null", TokenType.KW_TYPE_NULL),
   ("Bool", TokenType.KW_TYPE_BOOL), ("true", TokenType.KW_VAL_TRUE),
   ("false", TokenType.KW_VAL_FALSE)]

def identifyKeywordIn : List (String × TokenType) → String → TokenType
  | [], _ => TokenType.IDENTIFIER
  | (k, t) :: rest, s => if s = k then t else identifyKeywordIn rest s

def identifyKeyword (s : String) : TokenType := identifyKeywordIn KEYWORDS s

/-- The function `processEscape`, called after a backslash: the bytes left to read, and
the byte to append to the buffer or `none` for the result 1.  A byte read at the end of
the input is `EOF`, which is no escape character and no hexadecimal digit. -/
def processEscape : List Char → List Char × Option Char
  | [] => ([], none)
  | c :: rest =>
    if c == chQuote then (rest, some chQuote)
    else if c == 'n' then (rest, some (Char.ofNat 10))
    else if c == 'r' then (rest, some (Char.ofNat 13))
    else if c == 't' then (rest, some (Char.ofNat 9))
    else if c == chBackslash then (rest, some chBackslash)
    else if c == '0' then (rest, some (Char.ofNat 0))
    else if c == 'x' then
      match rest with
      | [] => ([], none)
      | [_] => ([], none)
      | h1 :: h2 :: rest2 =>
        match hexToInt h1, hexToInt h2 with
        | some v1, some v2 =>
          if (v1 * 16 + v2) % 256 > 127 then (rest2, none)
          else (rest2, some (Char.ofNat ((v1 * 16 + v2) % 256)))
        | _, _ => (rest2, none)
    else (rest, none)

/-- The loop of `readString`: the bytes left, and the buffer or `none` for the result 1. -/
def readStringLoop : Nat → List Char → List Char → List Char × Option String
  | 0, src, _ => (src, none)
  | _ + 1, [], _ => ([], none)
  | fuel + 1, c :: rest, buf =>
    if c == chQuote then (rest, some (String.mk buf))
    else if c == chNewline then (rest, none)
    else if c == chBackslash then
      match processEscape rest with
      | (rest2, none) => (rest2, none)
      | (rest2, some e) => readStringLoop fuel rest2 (buf ++ [e])
    else if c.toNat % 256 < 32 then (rest, none)
    else readStringLoop fuel rest (buf ++ [c])

/-- The function `readString`: the result code, the token and the bytes left. -/
def readString (src : List Char) (token : Token) : Nat × Token × List Char :=
  match readStringLoop (src.length + 1) src [] with
  | (rest, none) => (1, token, rest)
  | (rest, some s) =>
    (0, { token with type := TokenType.STRING_LITERAL,
                     value := some { allocTokenValue with stringVal := some s } }, rest)

/-- The loop of `readMultilineString`, with the line counter and the flag `firstLine`. -/
def readMultilineLoop :
    Nat → List Char → Nat → Bool → List Char → List Char × Nat × Option String
  | 0, src, line, _, _ => (src, line, none)
  | _ + 1, [], line, _, _ => ([], line, none)
  | fuel + 1, c :: rest, line, firstLine, buf =>
    if c == chQuote then
      match rest with
      | [] => readMultilineLoop fuel [] line firstLine (buf ++ [chQuote])
      | n1 :: rest1 =>
        if n1 == chQuote then
          match rest1 with
          | [] => readMultilineLoop fuel [] line firstLine (buf ++ [chQuote, n1])
          | n2 :: rest2 =>
            if n2 == chQuote then (rest2, line, some (String.mk buf))
            else readMultilineLoop fuel (n2 :: rest2) line firstLine (buf ++ [chQuote, n1])
        else readMultilineLoop fuel (n1 :: rest1) line firstLine (buf ++ [chQuote])
    else if c == chNewline then
      if firstLine then readMultilineLoop fuel rest (line + 1) false buf
      else readMultilineLoop fuel rest (line + 1) firstLine (buf ++ [c])
    else readMultilineLoop fuel rest line firstLine (buf ++ [c])

/-- The function `readMultilineString`: result code, token, bytes left, line counter. -/
def readMultilineString (src : List Char) (line : Nat) (token : Token) :
    Nat × Token × List Char × Nat :=
  match readMultilineLoop (src.length + 1) src line true [] with
  | (rest, line2, none) => (1, token, rest, line2)
  | (rest, line2, some s) =>
    (0, { token with type := TokenType.MULTILINE_STRING_LITERAL,
                     value := some { allocTokenValue with stringVal := some s } },
     rest, line2)

/-- The value `strtoll` gives for a text of digits in the base: the number, or
`LLONG_MAX` when it does not fit. -/
def strtollDigits (base : Nat) (digits : List Char) : Int :=
  let v := digits.foldl (fun acc c => acc * base + (hexToInt c).getD 0) 0
  if v > 2 ^ 63 - 1 then 2 ^ 63 - 1 else v

/-- The value of a text of decimal digits. -/
def decimalValue (digits : List Char) : Nat :=
  digits.foldl (fun acc c => acc * 10 + (c.toNat - 48)) 0

/-- The quotient `n / d` rounded to the nearest whole number, a tie to the even one. -/
def roundNearestEven (n d : Nat) : Nat :=
  if 2 * (n % d) < d then n / d
  else if d < 2 * (n % d) then n / d + 1
  else if n / d % 2 = 0 then n / d
  else n / d + 1

/-- The 64 bits of the double that is nearest to the quotient `n / d` of two positive
numbers (rounding to nearest, a tie to the even one); the bits of infinity when the
rounded value is too large.  `e` is the binary exponent of the quotient, and the
quotient is rounded to a multiple of `2 ^ (e - 52)`, of `2 ^ (-1074)` for a subnormal
number. -/
def doubleBits (n d : Nat) : Nat :=
  let e0 : Int := (Nat.log2 n : Int) - (Nat.log2 d : Int)
  let atLeast : Bool := if 0 ≤ e0 then d * 2 ^ e0.toNat ≤ n else d ≤ n * 2 ^ (-e0).toNat
  let e : Int := if atLeast then e0 else e0 - 1
  let e1 : Int := if e < -1022 then -1022 else e
  let k : Int := e1 - 52
  let m : Nat :=
    if 0 ≤ k then roundNearestEven n (d * 2 ^ k.toNat)
    else roundNearestEven (n * 2 ^ (-k).toNat) d
  let bits : Nat := (e1 + 1022).toNat * 2 ^ 52 + m
  if 2047 * 2 ^ 52 ≤ bits then 2047 * 2 ^ 52 else bits

/-- The function `strtod` of the C library on a text that starts with a decimal digit
and not with `0x`, as all texts do that `readNumber` hands to it: the digits, a fraction
after a point, and an exponent when `e` is followed by digits, with or without a sign;
what follows is not read.  The result is the double nearest to the decimal number.  A
number of at least `10 ^ 309` is rounded to infinity and a number below `10 ^ (-325)`
to zero without the power of ten being computed. -/
def strtod (text : List Char) : Nat :=
  let whole := text.takeWhile isdigit
  let rest := text.dropWhile isdigit
  let fraction : List Char :=
    match rest with
    | '.' :: r => r.takeWhile isdigit
    | _ => []
  let rest1 : List Char :=
    match rest with
    | '.' :: r => r.dropWhile isdigit
    | _ => rest
  let exponent : Int :=
    match rest1 with
    | e :: '-' :: d :: r =>
      if (e == 'e' || e == 'E') && isdigit d then
        - (decimalValue ((d :: r).takeWhile isdigit) : Int)
      else 0
    | e :: '+' :: d :: r =>
      if (e == 'e' || e == 'E') && isdigit d then decimalValue ((d :: r).takeWhile isdigit)
      else 0
    | e :: d :: r =>
      if (e == 'e' || e == 'E') && isdigit d then decimalValue ((d :: r).takeWhile isdigit)
      else 0
    | _ => 0
  let digits := (whole ++ fraction).dropWhile (fun c => c == '0')
  let e10 : Int := exponent - fraction.length
  if digits = [] then 0
  else if 310 ≤ (digits.length : Int) + e10 then 2047 * 2 ^ 52
  else if (digits.length : Int) + e10 ≤ -325 then 0
  else if 0 ≤ e10 then doubleBits (decimalValue digits * 10 ^ e10.toNat) 1
  else doubleBits (decimalValue digits) (10 ^ (-e10).toNat)

/-- The mark that a reading function returns in place of the C result when the call
wrote outside its buffer on the heap. -/
abbrev HEAP_OVERFLOW : Nat := 2

/-- How the main loop of `readNumber` ends: with the result 1, with a byte written
outside the buffer, or at the end of the number with the buffer, the flag `isFloat` and
the capacity of the buffer. -/
inductive NumberEnd where
  | invalid
  | overflow
  | text (buffer : List Char) (isFloat : Bool) (buffCapacity : Nat)
  deriving DecidableEq, Repr

/-- The assignment `buffer[strLen++] = c` on a buffer of `cap` bytes that holds `buf`:
`none` when the index `strLen` is outside the buffer. -/
def putByte (buf : List Char) (cap : Nat) (c : Char) : Option (List Char) :=
  if buf.length < cap then some (buf ++ [c]) else none

/-- The end of a round of the main loop of `readNumber` that keeps the byte: the buffer
is doubled when `strLen >= buffCapacity - 1`, then the byte is stored. -/
def growCapacity (buf : List Char) (cap : Nat) : Nat :=
  if buf.length ≥ cap - 1 then cap * 2 else cap

/-- The main loop of `readNumber` with the buffer and its capacity.  The branch of the
exponent stores the letter, the sign and the first digit without a look at the
capacity. -/
def readNumberLoop :
    Nat → List Char → Bool → Bool → List Char → Nat → List Char × NumberEnd
  | 0, src, _, _, _, _ => (src, NumberEnd.invalid)
  | _ + 1, [], _, isFloat, buf, cap => ([], NumberEnd.text buf isFloat cap)
  | fuel + 1, c :: rest, isHex, isFloat, buf, cap =>
    if isHex then
      if !isxdigit c then (c :: rest, NumberEnd.text buf isFloat cap)
      else
        match putByte buf (growCapacity buf cap) c with
        | none => (rest, NumberEnd.overflow)
        | some buf1 => readNumberLoop fuel rest isHex isFloat buf1 (growCapacity buf cap)
    else if isdigit c then
      match putByte buf (growCapacity buf cap) c with
      | none => (rest, NumberEnd.overflow)
      | some buf1 => readNumberLoop fuel rest isHex isFloat buf1 (growCapacity buf cap)
    else if c == '.' then
      if isFloat then (c :: rest, NumberEnd.text buf isFloat cap)
      else
        match rest with
        | [] => (c :: rest, NumberEnd.text buf isFloat cap)
        | n :: rest1 =>
          if !isdigit n then (c :: n :: rest1, NumberEnd.text buf isFloat cap)
          else
            match putByte buf (growCapacity buf cap) c with
            | none => (n :: rest1, NumberEnd.overflow)
            | some buf1 =>
              readNumberLoop fuel (n :: rest1) isHex true buf1 (growCapacity buf cap)
    else if c == 'e' || c == 'E' then
      match putByte buf cap c with
      | none => (rest, NumberEnd.overflow)
      | some buf1 =>
        let afterSign : List Char × Option (List Char) :=
          match rest with
          | [] => ([], some buf1)
          | s :: rest1 =>
            if s == '+' || s == '-' then (rest1, putByte buf1 cap s)
            else (s :: rest1, some buf1)
        match afterSign.2 with
        | none => (afterSign.1, NumberEnd.overflow)
        | some buf2 =>
          match afterSign.1 with
          | [] => ([], NumberEnd.invalid)
          | n :: rest2 =>
            if !isdigit n then (rest2, NumberEnd.invalid)
            else
              match putByte buf2 cap n with
              | none => (rest2, NumberEnd.overflow)
              | some buf3 => readNumberLoop fuel rest2 isHex true buf3 cap
    else (c :: rest, NumberEnd.text buf isFloat cap)

/-- The function `readNumber`: result code, token and the bytes left.  The buffer has
32 bytes at the start; the byte 0 that ends the text is stored at the index `strLen`. -/
def readNumber (src : List Char) (token : Token) (firstChar : Char) :
    Nat × Token × List Char :=
  let start : List Char × Bool × List Char :=
    if firstChar == '0' then
      match src with
      | [] => ([], false, [firstChar])
      | n :: rest =>
        if n == 'x' || n == 'X' then (rest, true, [firstChar, n])
        else (n :: rest, false, [firstChar])
    else (src, false, [firstChar])
  match readNumberLoop (src.length + 1) start.1 start.2.1 false start.2.2 32 with
  | (rest, NumberEnd.invalid) => (1, token, rest)
  | (rest, NumberEnd.overflow) => (HEAP_OVERFLOW, token, rest)
  | (rest, NumberEnd.text buf isFloat cap) =>
    if start.2.1 && buf.length ≤ 2 then (1, token, rest)
    else if (putByte buf cap (Char.ofNat 0)).isNone then (HEAP_OVERFLOW, token, rest)
    else if isFloat then
      (0, { token with type := TokenType.FLOAT_LITERAL,
                       value := some { allocTokenValue with floatVal := strtod buf } },
       rest)
    else
      (0, { token with type := TokenType.INT_LITERAL,
                       value := some { allocTokenValue with
                         intVal := if start.2.1 then strtollDigits 16 (buf.drop 2)
                                   else strtollDigits 10 buf } },
       rest)

/-- The function `skipLineComment`: the bytes left and the line counter. -/
def skipLineComment : List Char → Nat → List Char × Nat
  | [], line => ([], line)
  | c :: rest, line => if c == chNewline then (rest, line + 1) else skipLineComment rest line

/-- The loop of `skipBlockComment` with the nesting depth: the result code, the bytes
left and the line counter. -/
def skipBlockCommentLoop : Nat → List Char → Nat → Nat → Nat × List Char × Nat
  | 0, src, _, line => (1, src, line)
  | _ + 1, src, 0, line => (0, src, line)
  | _ + 1, [], _ + 1, line => (1, [], line)
  | fuel + 1, c :: rest, d + 1, line =>
    if c == chNewline then skipBlockCommentLoop fuel rest (d + 1) (line + 1)
    else if c == '/' then
      match rest with
      | [] => skipBlockCommentLoop fuel rest (d + 1) line
      | n :: rest1 =>
        if n == '*' then skipBlockCommentLoop fuel rest1 (d + 2) line
        else skipBlockCommentLoop fuel rest (d + 1) line
    else if c == '*' then
      match rest with
      | [] => skipBlockCommentLoop fuel rest (d + 1) line
      | n :: rest1 =>
        if n == '/' then skipBlockCommentLoop fuel rest1 d line
        else skipBlockCommentLoop fuel rest (d + 1) line
    else skipBlockCommentLoop fuel rest (d + 1) line

/-- The function `skipBlockComment`, entered after the opening of the comment with
depth 1.  Every round reads at least one byte. -/
def skipBlockComment (src : List Char) (line : Nat) : Nat × List Char × Nat :=
  skipBlockCommentLoop (src.length + 2) src 1 line

/-- One operator of one or two bytes: `two` when the next byte is `second`, else `one`
with the byte put back. -/
def twoCharToken (sc : Scanner) (token : Token) (second : Char) (two one : TokenType) :
    Nat × Token × Scanner :=
  match sc.source with
  | [] => (0, { token with type := one }, sc)
  | n :: rest =>
    if n == second then (0, { token with type := two }, { sc with source := rest })
    else (0, { token with type := one }, sc)

/-- The `switch (character)` of `getRawToken`, entered with the byte already read. -/
def processToken (c : Char) (sc : Scanner) (token : Token) : Nat × Token × Scanner :=
  if c == '(' then (0, { token with type := TokenType.LPAR }, sc)
  else if c == ')' then (0, { token with type := TokenType.RPAR }, sc)
  else if c == chLCurly then (0, { token with type := TokenType.LCURLY }, sc)
  else if c == chRCurly then (0, { token with type := TokenType.RCURLY }, sc)
  else if c == ',' then (0, { token with type := TokenType.COMMA }, sc)
  else if c == '.' then (0, { token with type := TokenType.DOT }, sc)
  else if c == '+' then (0, { token with type := TokenType.PLUS }, sc)
  else if c == '-' then (0, { token with type := TokenType.MINUS }, sc)
  else if c == '*' then (0, { token with type := TokenType.MULTIPLY }, sc)
  else if c == '?' then (0, { token with type := TokenType.TERNARY_QUESTION }, sc)
  else if c == ':' then (0, { token with type := TokenType.TERNARY_COLON }, sc)
  else if c == '=' then twoCharToken sc token '=' TokenType.IS_EQUAL TokenType.ASSIGN
  else if c == '<' then
    twoCharToken sc token '=' TokenType.IS_SMALLER_OR_EQUAL TokenType.IS_SMALLER
  else if c == '>' then
    twoCharToken sc token '=' TokenType.IS_BIGGER_OR_EQUAL TokenType.IS_BIGGER
  else if c == '!' then twoCharToken sc token '=' TokenType.IS_NOT_EQUAL TokenType.LOGICAL_NOT
  else if c == '&' then
    match sc.source with
    | [] => (1, { token with type := TokenType.TOKEN_ERROR }, sc)
    | n :: rest =>
      if n == '&' then (0, { token with type := TokenType.LOGICAL_AND }, { sc with source := rest })
      else (1, { token with type := TokenType.TOKEN_ERROR }, { sc with source := rest })
  else if c == '|' then
    match sc.source with
    | [] => (1, { token with type := TokenType.TOKEN_ERROR }, sc)
    | n :: rest =>
      if n == '|' then (0, { token with type := TokenType.LOGICAL_OR }, { sc with source := rest })
      else (1, { token with type := TokenType.TOKEN_ERROR }, { sc with source := rest })
  else if c == chQuote then
    match sc.source with
    | [] =>
      match readString [] token with
      | (r, t, rest) => (r, t, { sc with source := rest })
    | n1 :: rest1 =>
      if n1 == chQuote then
        match rest1 with
        | [] =>
          (0, { token with type := TokenType.STRING_LITERAL,
                           value := some { allocTokenValue with stringVal := some "" } },
           { sc with source := [] })
        | n2 :: rest2 =>
          if n2 == chQuote then
            match readMultilineString rest2 sc.line token with
            | (r, t, rest, line) => (r, t, { sc with source := rest, line := line })
          else
            (0, { token with type := TokenType.STRING_LITERAL,
                             value := some { allocTokenValue with stringVal := some "" } },
             { sc with source := n2 :: rest2 })
      else
        match readString (n1 :: rest1) token with
        | (r, t, rest) => (r, t, { sc with source := rest })
  else if isIdentifierStart c then
    let start : List Char × Bool × List Char :=
      if c == '_' then
        match sc.source with
        | [] => ([], false, [c])
        | n :: rest => if n == '_' then (rest, true, [c, n]) else (n :: rest, false, [c])
      else (sc.source, false, [c])
    let buffer := String.mk (start.2.2 ++ start.1.takeWhile isIdentifierPart)
    (0, { token with
            type := if start.2.1 then TokenType.GLOBAL_IDENTIFIER else identifyKeyword buffer,
            value := some { allocTokenValue with stringVal := some buffer } },
     { sc with source := start.1.dropWhile isIdentifierPart })
  else if isdigit c then
    match readNumber sc.source token c with
    | (r, t, rest) => (r, t, { sc with source := rest })
  else (1, { token with type := TokenType.TOKEN_ERROR }, sc)

/-- The loop of `getRawToken` that skips white space and comments, then the switch. -/
def getRawTokenLoop : Nat → Scanner → Token → Nat × Token × Scanner
  | 0, sc, token => (1, token, sc)
  | fuel + 1, sc, token =>
    match sc.source with
    | [] => (0, { token with type := TokenType.EOF_TOKEN }, sc)
    | c :: rest =>
      if isWhiteSpace c then getRawTokenLoop fuel { sc with source := rest } token
      else if c.toNat == 13 then getRawTokenLoop fuel { sc with source := rest } token
      else if c == chNewline then
        (0, { token with type := TokenType.EOL, line := sc.line },
         { sc with source := rest, line := sc.line + 1 })
      else if c == '/' then
        match rest with
        | [] => (0, { token with type := TokenType.DIVIDE }, { sc with source := rest })
        | n :: rest1 =>
          if n == '/' then
            match skipLineComment rest1 sc.line with
            | (rest2, line2) =>
              (0, { token with type := TokenType.EOL, line := line2 },
               { sc with source := rest2, line := line2 })
          else if n == '*' then
            match skipBlockComment rest1 sc.line with
            | (r, rest2, line2) =>
              if r != 0 then
                (1, { token with type := TokenType.TOKEN_ERROR },
                 { sc with source := rest2, line := line2 })
              else getRawTokenLoop fuel { sc with source := rest2, line := line2 } token
          else (0, { token with type := TokenType.DIVIDE }, { sc with source := rest })
      else processToken c { sc with source := rest } token

/-- The function `getRawToken`.  Every round of its loop reads at least one byte, so
the length of the input bounds the number of rounds. -/
def getRawToken (sc : Scanner) : Nat × Token × Scanner :=
  getRawTokenLoop (sc.source.length + 1) sc { Token.zero with line := sc.line }

/-- The function `getNextToken`; the fuel bounds its self-calls on repeated `EOL`. -/
def getNextTokenFuel : Nat → Scanner → Nat × Token × Scanner
  | 0, sc => (1, Token.zero, sc)
  | fuel + 1, sc =>
    if sc.isLookingAhead then
      (0, sc.lookAheadToken,
       { sc with isLookingAhead := false, lookAheadToken := Token.zero,
                 lastWasEOL := sc.lookAheadToken.type == TokenType.EOL })
    else
      match getRawToken sc with
      | (r, token, sc1) =>
        if r != 0 then (r, token, sc1)
        else if token.type == TokenType.EOL then
          if sc1.lastWasEOL then getNextTokenFuel fuel sc1
          else (0, token, { sc1 with lastWasEOL := true })
        else (0, token, { sc1 with lastWasEOL := false })

/-- The function `getNextToken`.  A self-call follows a raw token that read at least
one byte, so the length of the input bounds the depth. -/
def getNextToken (sc : Scanner) : Nat × Token × Scanner :=
  getNextTokenFuel (sc.source.length + 2) sc

/-- The function `lookAhead`: the token is read into the buffer of the scanner. -/
def lookAhead (sc : Scanner) : Nat × Token × Scanner :=
  if sc.isLookingAhead then (0, sc.lookAheadToken, sc)
  else
    match getNextToken sc with
    | (r, token, sc1) =>
      if r != 0 then (r, token, { sc1 with lookAheadToken := token })
      else (0, token, { sc1 with lookAheadToken := token, isLookingAhead := true })

/-- The first loop of `readPrologue`: tokens are read until one is not `EOL`. -/
def skipLeadingEOL : Nat → Scanner → Except Err (Token × Scanner)
  | 0, _ => Except.error Err.outOfFuel
  | fuel + 1, sc =>
    match getNextToken sc with
    | (r, token, sc1) =>
      if r == HEAP_OVERFLOW then Except.error Err.undefinedBehaviour
      else if r != 0 then errorExit LEXICAL_ERROR
      else if token.type == TokenType.EOL then skipLeadingEOL fuel sc1
      else Except.ok (token, sc1)

/-- One step of `readPrologue` after the first: a token is read, a lexical error ends
the run with code 1. -/
def prologueToken (sc : Scanner) : Except Err (Token × Scanner) :=
  match getNextToken sc with
  | (r, token, sc1) =>
    if r == HEAP_OVERFLOW then Except.error Err.undefinedBehaviour
    else if r != 0 then errorExit LEXICAL_ERROR
    else Except.ok (token, sc1)

/-- The function `readPrologue`. -/
def readPrologue (sc : Scanner) : Except Err Scanner := do
  let (t0, sc0) ← skipLeadingEOL (sc.source.length + 2) sc
  if t0.type != TokenType.KW_IMPORT then errorExit SYNTAX_ERROR
  else
    let (t1, sc1) ← prologueToken sc0
    if t1.type != TokenType.STRING_LITERAL then errorExit SYNTAX_ERROR
    else
      match t1.value with
      | none => errorExit SYNTAX_ERROR
      | some v =>
        match v.stringVal with
        | none => errorExit SYNTAX_ERROR
        | some s =>
          if cstr s != "ifj25" then errorExit SYNTAX_ERROR
          else
            let (t2, sc2) ← prologueToken sc1
            if t2.type != TokenType.KW_FOR then errorExit SYNTAX_ERROR
            else
              let (t3, sc3) ← prologueToken sc2
              if t3.type != TokenType.KW_IFJ then errorExit SYNTAX_ERROR
              else
                let (t4, sc4) ← prologueToken sc3
                if t4.type != TokenType.EOL && t4.type != TokenType.EOF_TOKEN then
                  errorExit SYNTAX_ERROR
                else Except.ok { sc4 with prologueRead := true }

/-! ## symtable.h, symtable.c -/

inductive SymbolKind where
  | SYM_VAR | SYM_PARAM | SYM_FUNC | SYM_GET | SYM_SET | SYM_CLASS | SYM_CONST
  deriving DecidableEq, Repr

/-- The enum `ExprType` is used as a set of bits. -/
abbrev ExprType := Nat

abbrev TYPE_UNKNOWN : ExprType := 1
abbrev TYPE_INT : ExprType := 2
abbrev TYPE_STRING : ExprType := 4
abbrev TYPE_FLOAT : ExprType := 8
abbrev TYPE_NULL : ExprType := 16
abbrev TYPE_BOOL : ExprType := 32

/-- The struct `Symbol`; `paramTypes` is empty for the null pointer. -/
structure Symbol where
  name : String
  kind : SymbolKind
  expressionType : ExprType
  paramTypes : List ExprType
  declared : Bool
  numOfParams : Nat
  deriving DecidableEq, Repr

/-- One entry of the array `Scope.symbols`: the null pointer, the mark `TOMBSTONE`, or
the address of a symbol. -/
inductive Slot where
  | null
  | tombstone
  | sym (address : Nat)
  deriving DecidableEq, Repr

structure Scope where
  symbols : List Slot
  size : Nat
  currentSize : Nat
  deriving DecidableEq, Repr

/-- The struct `SymTableStack`: `scopes` holds the entries 0 to `top`, so `top` is the
length minus one.  `mem` is the memory in which `symbolCreate` allocates: a symbol is
addressed by its index and is never moved. -/
structure SymTableStack where
  mem : List Symbol
  scopes : List Scope
  capacity : Nat
  deriving DecidableEq, Repr

def INITIAL_CAPACITY_STACK : Nat := 32
def INITIAL_CAPACITY_SCOPE : Nat := 64

/-- The symbol at an address. -/
def symAt (mem : List Symbol) (address : Nat) : Symbol :=
  mem.getD address
    { name := "", kind := SymbolKind.SYM_VAR, expressionType := 0, paramTypes := [],
      declared := false, numOfParams := 0 }

/-- The function `symbolGetUniqueName`. -/
def symbolGetUniqueName (name : String) (kind : SymbolKind) (paramCount : Nat) : String :=
  if kind = SymbolKind.SYM_GET then name ++ "#get"
  else if kind = SymbolKind.SYM_SET then name ++ "#set"
  else name ++ "$" ++ toString paramCount

/-- The function `symbolCreate`: the record that it fills in. -/
def symbolCreate (name : String) (type : ExprType) (kind : SymbolKind) (numOfParams : Nat) :
    Symbol :=
  { name :=
      if kind = SymbolKind.SYM_FUNC ∨ kind = SymbolKind.SYM_GET ∨ kind = SymbolKind.SYM_SET
      then symbolGetUniqueName name kind numOfParams else name,
    kind := kind,
    expressionType := type,
    paramTypes := List.replicate numOfParams TYPE_UNKNOWN,
    declared := false,
    numOfParams := numOfParams }

/-- The allocation inside `symbolCreate`: the address of the new symbol and the memory. -/
def memAlloc (mem : List Symbol) (s : Symbol) : Nat × List Symbol := (mem.length, mem ++ [s])

/-- An assignment through a pointer to a symbol. -/
def memUpdate (mem : List Symbol) (address : Nat) (f : Symbol → Symbol) : List Symbol :=
  mem.modify f address

/-- The function `symbolUpdate` applied to the symbol at `dest`. -/
def symbolUpdate (mem : List Symbol) (dest : Nat) (source : Symbol) : List Symbol :=
  memUpdate mem dest (fun d =>
    { d with kind := source.kind, numOfParams := source.numOfParams,
             expressionType := source.expressionType })

/-- One round of the loop of `getHash` on `unsigned long`; a `char` is signed, so a
byte above 127 is added as a negative number. -/
def hashStep (hash : Nat) (c : Char) : Nat :=
  (hash * 33 + (if c.toNat < 128 then c.toNat else 2 ^ 64 - 256 + c.toNat % 256)) % 2 ^ 64

/-- The function `getHash`. -/
def getHash (str : String) (size : Nat) : Nat := (str.data.foldl hashStep 5381) % size

/-- The function `scopeCreate`. -/
def scopeCreate (size : Nat) : Scope :=
  { symbols := List.replicate size Slot.null, size := size, currentSize := 0 }

/-- The inner `while` of `scopeDoubleCapacity`: the first index from `index` on whose
entry is null, within `fuel` rounds. -/
def probeNull : Nat → List Slot → Nat → Option Nat
  | 0, _, _ => none
  | fuel + 1, table, index =>
    if table.getD index Slot.null = Slot.null then some index
    else probeNull fuel table ((index + 1) % table.length)

/-- The `for` of `scopeDoubleCapacity` over the old entries. -/
def rehashInto (mem : List Symbol) : List Slot → List Slot → Option (List Slot)
  | [], newTable => some newTable
  | Slot.sym a :: rest, newTable =>
    match probeNull (newTable.length + 1) newTable
        (getHash (symAt mem a).name newTable.length) with
    | none => none
    | some index => rehashInto mem rest (newTable.set index (Slot.sym a))
  | _ :: rest, newTable => rehashInto mem rest newTable

/-- The function `scopeDoubleCapacity`; `none` when the inner `while` would not end. -/
def scopeDoubleCapacity (mem : List Symbol) (scope : Scope) : Option Scope :=
  match rehashInto mem scope.symbols (List.replicate (scope.size * 2) Slot.null) with
  | none => none
  | some newTable => some { scope with symbols := newTable, size := scope.size * 2 }

/-- The test `scope->currentSize + 1 > scope->size * 0.7` of `scopeAddSymbol`.  The C
program compares in `double`; every scope is created with 16 entries and only doubled,
and for a size 16 * 2^k the product is never within 0.2 of an integer, so the comparison
of integers decides the same. -/
def loadExceeded (currentSize size : Nat) : Bool := 10 * (currentSize + 1) > 7 * size

/-- The probing `for` of `scopeAddSymbol` from round `i`: the result code, the scope and
the memory. -/
def addProbe (sym : Nat) (index : Nat) :
    Nat → Nat → Scope → List Symbol → Int × Scope × List Symbol
  | 0, _, scope, mem => (-1, scope, mem)
  | fuel + 1, i, scope, mem =>
    if i < scope.size then
      let try_ := (index + i) % scope.size
      match scope.symbols.getD try_ Slot.null with
      | Slot.sym a =>
        if (symAt mem a).name = (symAt mem sym).name then
          (0, scope, symbolUpdate mem a (symAt mem sym))
        else addProbe sym index fuel (i + 1) scope mem
      | _ =>
        (0, { scope with symbols := scope.symbols.set try_ (Slot.sym sym),
                         currentSize := scope.currentSize + 1 }, mem)
    else (-1, scope, mem)

/-- The function `scopeAddSymbol` for the symbol at address `sym`. -/
def scopeAddSymbol (scope : Scope) (sym : Nat) (mem : List Symbol) :
    Except Err (Int × Scope × List Symbol) :=
  let grown : Option Scope :=
    if loadExceeded scope.currentSize scope.size then scopeDoubleCapacity mem scope
    else some scope
  match grown with
  | none => Except.error Err.undefinedBehaviour
  | some scope1 =>
    Except.ok (addProbe sym (getHash (symAt mem sym).name scope1.size) scope1.size 0 scope1 mem)

/-- The probing `for` of `scopeFindSymbol` from round `i`. -/
def findProbe (mem : List Symbol) (scope : Scope) (name : String) (index : Nat) :
    Nat → Nat → Option Nat
  | 0, _ => none
  | fuel + 1, i =>
    if i < scope.size then
      match scope.symbols.getD ((index + i) % scope.size) Slot.null with
      | Slot.null => none
      | Slot.tombstone => findProbe mem scope name index fuel (i + 1)
      | Slot.sym a =>
        if (symAt mem a).name = name then some a
        else findProbe mem scope name index fuel (i + 1)
    else none

/-- The function `scopeFindSymbol`: the address of the symbol, `none` for the null
pointer. -/
def scopeFindSymbol (mem : List Symbol) (scope : Scope) (name : String) : Option Nat :=
  findProbe mem scope name (getHash name scope.size) scope.size 0

/-- The function `symTableStackCreate`. -/
def symTableStackCreate (initial_capacity : Nat) : SymTableStack :=
  { mem := [], scopes := [], capacity := initial_capacity }

/-- The function `symTableStackPush`. -/
def symTableStackPush (stack : SymTableStack) : SymTableStack :=
  { stack with
      scopes := stack.scopes ++ [scopeCreate 16],
      capacity := if stack.scopes.length ≥ stack.capacity then stack.capacity * 2
                  else stack.capacity }

/-- The function `symTableStackPop`. -/
def symTableStackPop (stack : SymTableStack) : SymTableStack :=
  { stack with scopes := stack.scopes.dropLast }

/-- The loop of `symTableStackFindSymbol` over the scopes from the top down; the list
holds the scopes innermost first. -/
def findInScopes (mem : List Symbol) (name : String) : List Scope → Option Nat
  | [] => none
  | scope :: rest =>
    match scopeFindSymbol mem scope name with
    | some a => some a
    | none => findInScopes mem name rest

/-- The function `symTableStackFindSymbol`. -/
def symTableStackFindSymbol (stack : SymTableStack) (name : String) : Option Nat :=
  findInScopes stack.mem name stack.scopes.reverse

/-- The allocation of `symbolCreate` in the memory of the stack. -/
def allocSymbol (stack : SymTableStack) (s : Symbol) : Nat × SymTableStack :=
  (stack.mem.length, { stack with mem := stack.mem ++ [s] })

/-- The statement `scopeAddSymbol(stack->scopes[index], symbol)` for the symbol at an
address.  The result code of `scopeAddSymbol` is not read by any caller. -/
def scopeAddAt (stack : SymTableStack) (index : Nat) (address : Nat) :
    Except Err SymTableStack :=
  match stack.scopes.get? index with
  | none => Except.error Err.undefinedBehaviour
  | some scope =>
    match scopeAddSymbol scope address stack.mem with
    | Except.error e => Except.error e
    | Except.ok (_, scope1, mem1) =>
      Except.ok { stack with mem := mem1, scopes := stack.scopes.set index scope1 }

/-- A call of `symbolCreate` followed by `scopeAddSymbol(stack->scopes[index], ..)`: the
address of the new symbol and the stack. -/
def addSymbolAt (stack : SymTableStack) (index : Nat) (s : Symbol) :
    Except Err (Nat × SymTableStack) :=
  match scopeAddAt (allocSymbol stack s).2 index (allocSymbol stack s).1 with
  | Except.error e => Except.error e
  | Except.ok stack1 => Except.ok ((allocSymbol stack s).1, stack1)

/-- The value of `stack->top`, as an index of `scopes`, when the stack is not empty. -/
def stackTop (stack : SymTableStack) : Nat := stack.scopes.length - 1

/-! ## parser.h -/

inductive AstNodeType where
  | AST_CLASS_DEC | AST_VAR_DEC | AST_VAR_ASSIGN | AST_RETURN | AST_LITERAL | AST_TYPE
  | AST_IDENTIFIER | AST_EXPRESSION | AST_FUN_DEC | AST_FUN_SET | AST_FUN_GET
  | AST_FUN_CALL | AST_IF_STMT | AST_IF_ELSE_STMT | AST_ELSE_STMT | AST_WHILE | AST_IFJ
  | AST_BLOCK | AST_PARAMS | AST_OPERATOR
  deriving DecidableEq, Repr

/-- The struct `AstNode` with what `children` points to: nothing (`leaf`), an `AstBin`
(`bin`) or an `AstN` with its list (`list`).  `id` stands for the address of the node;
the field `expressionType` is kept in a store indexed by `id`. -/
inductive AstNode where
  | leaf (id : Nat) (type : AstNodeType) (token : Token)
  | bin (id : Nat) (type : AstNodeType) (token : Token) (left right : Option AstNode)
  | list (id : Nat) (type : AstNodeType) (token : Token) (items : List AstNode)
  deriving Repr

def AstNode.id : AstNode → Nat
  | .leaf i _ _ => i
  | .bin i _ _ _ _ => i
  | .list i _ _ _ => i

def AstNode.type : AstNode → AstNodeType
  | .leaf _ t _ => t
  | .bin _ t _ _ _ => t
  | .list _ t _ _ => t

def AstNode.token : AstNode → Token
  | .leaf _ _ t => t
  | .bin _ _ t _ _ => t
  | .list _ _ t _ => t

def AstNode.setType : AstNode → AstNodeType → AstNode
  | .leaf i _ k, t => .leaf i t k
  | .bin i _ k l r, t => .bin i t k l r
  | .list i _ k xs, t => .list i t k xs

def AstNode.setToken : AstNode → Token → AstNode
  | .leaf i t _, k => .leaf i t k
  | .bin i t _ l r, k => .bin i t k l r
  | .list i t _ xs, k => .list i t k xs

/-- The struct `Parser`.  `resolveLater` is the list of the nodes queued for the later
pass; `nodeTypes` is the store of the `expressionType` fields of all nodes created so
far. -/
structure Parser where
  scanner : Scanner
  symStack : SymTableStack
  current : Token
  lookAhead : Token
  root : Option AstNode
  resolveLater : List AstNode
  nodeTypes : List ExprType

abbrev ASTSTACK_MAX : Nat := 100

/-- The number of node pointers for which `astStackInit` allocates room: it asks for
`sizeof(char) * capacity`, 100 bytes, and a pointer takes 8. -/
abbrev ASTSTACK_SLOTS : Nat := 12

abbrev PREC_ID : Nat := 0
abbrev PREC_IS : Nat := 1
abbrev PREC_TYPE : Nat := 2
abbrev PREC_LPAREN : Nat := 3
abbrev PREC_RPAREN : Nat := 4
abbrev PREC_MULDIV : Nat := 5
abbrev PREC_PLUSMINUS : Nat := 6
abbrev PREC_CMP : Nat := 7
abbrev PREC_EQ : Nat := 8
abbrev PREC_AND : Nat := 9
abbrev PREC_OR : Nat := 10
abbrev PREC_NOT : Nat := 11
abbrev PREC_END : Nat := 12
abbrev NUM_PRECEDENCE : Nat := 13

/-! ## semantic.c: the checks of one operation -/

/-- The truth value of the C expression `a & b`. -/
def bitsMeet (a b : ExprType) : Bool := (a &&& b) != 0

/-- The function `multiplication` on the types of the two operands. -/
def multiplication (left right : ExprType) : Bool :=
  if bitsMeet left TYPE_STRING then bitsMeet right (TYPE_INT ||| TYPE_UNKNOWN)
  else if bitsMeet left (TYPE_INT ||| TYPE_FLOAT) then
    bitsMeet right (TYPE_INT ||| TYPE_FLOAT ||| TYPE_UNKNOWN)
  else if bitsMeet left TYPE_UNKNOWN then
    bitsMeet right (TYPE_INT ||| TYPE_FLOAT ||| TYPE_UNKNOWN)
  else false

/-- The function `divisionAndSubStraction`. -/
def divisionAndSubStraction (left right : ExprType) : Bool :=
  if bitsMeet left (TYPE_FLOAT ||| TYPE_INT) then
    bitsMeet right (TYPE_INT ||| TYPE_FLOAT ||| TYPE_UNKNOWN)
  else if bitsMeet left TYPE_UNKNOWN then
    bitsMeet right (TYPE_INT ||| TYPE_FLOAT ||| TYPE_UNKNOWN)
  else false

/-- The function `addition`. -/
def addition (left right : ExprType) : Bool :=
  if bitsMeet left TYPE_STRING then bitsMeet right (TYPE_STRING ||| TYPE_UNKNOWN)
  else if bitsMeet left (TYPE_INT ||| TYPE_FLOAT) then
    bitsMeet right (TYPE_INT ||| TYPE_FLOAT ||| TYPE_UNKNOWN)
  else if bitsMeet left TYPE_UNKNOWN then
    bitsMeet right (TYPE_INT ||| TYPE_FLOAT ||| TYPE_STRING ||| TYPE_UNKNOWN)
  else false

/-- The function `checkBinaryTypes` on the types of the operands and the token kind of
the operator node. -/
def checkBinaryTypes (left : ExprType) (op : TokenType) (right : ExprType) : Bool :=
  match op with
  | TokenType.MULTIPLY => multiplication left right
  | TokenType.DIVIDE => divisionAndSubStraction left right
  | TokenType.MINUS => divisionAndSubStraction left right
  | TokenType.PLUS => addition left right
  | TokenType.IS_EQUAL => true
  | TokenType.IS_NOT_EQUAL => true
  | TokenType.IS_BIGGER | TokenType.IS_BIGGER_OR_EQUAL | TokenType.IS_SMALLER
  | TokenType.IS_SMALLER_OR_EQUAL =>
    bitsMeet left (TYPE_INT ||| TYPE_FLOAT ||| TYPE_UNKNOWN) &&
      bitsMeet right (TYPE_INT ||| TYPE_FLOAT ||| TYPE_UNKNOWN)
  | TokenType.LOGICAL_AND | TokenType.LOGICAL_OR =>
    bitsMeet left TYPE_BOOL && bitsMeet right TYPE_BOOL
  | TokenType.KW_IS => true
  | _ => false

/-- The function `getBinaryResultType`. -/
def getBinaryResultType (left : ExprType) (op : TokenType) (right : ExprType) : ExprType :=
  match op with
  | TokenType.MULTIPLY | TokenType.DIVIDE | TokenType.PLUS | TokenType.MINUS =>
    if bitsMeet left TYPE_FLOAT && bitsMeet right TYPE_FLOAT then TYPE_FLOAT
    else if bitsMeet left TYPE_INT && bitsMeet right TYPE_INT then TYPE_INT
    else if bitsMeet left TYPE_STRING && bitsMeet right TYPE_INT then TYPE_STRING
    else if bitsMeet left TYPE_NULL && bitsMeet right (TYPE_NULL ||| TYPE_FLOAT ||| TYPE_INT)
    then TYPE_STRING
    else TYPE_UNKNOWN
  | TokenType.IS_EQUAL | TokenType.IS_NOT_EQUAL | TokenType.IS_BIGGER
  | TokenType.IS_BIGGER_OR_EQUAL | TokenType.IS_SMALLER | TokenType.IS_SMALLER_OR_EQUAL
  | TokenType.LOGICAL_AND | TokenType.LOGICAL_OR | TokenType.KW_IS => TYPE_BOOL
  | _ => TYPE_UNKNOWN

/-- The field `expressionType` of a node, read from the store. -/
def typeOf (types : List ExprType) (node : AstNode) : ExprType :=
  types.getD node.id TYPE_UNKNOWN

/-- The assignment `node->expressionType = t`. -/
def setTypeOf (types : List ExprType) (node : AstNode) (t : ExprType) : List ExprType :=
  types.set node.id t

/-! The number of nodes of a tree.  The functions that walk a tree recurse on the children
of a node, which are fewer nodes. -/
mutual
def nodeCount : AstNode → Nat
  | .leaf _ _ _ => 1
  | .bin _ _ _ l r => 1 + nodeCountOpt l + nodeCountOpt r
  | .list _ _ _ items => 1 + nodeCountList items
def nodeCountOpt : Option AstNode → Nat
  | none => 0
  | some a => nodeCount a
def nodeCountList : List AstNode → Nat
  | [] => 0
  | a :: rest => nodeCount a + nodeCountList rest
end

/-- The function `semanticExpression`: the store of expression types after the call. -/
def semanticExpression : Option AstNode → List ExprType → Except Err (List ExprType)
  | none, types => Except.ok types
  | some (.bin i AstNodeType.AST_EXPRESSION tok left right), types =>
    if tok.type = TokenType.LOGICAL_NOT then
      match semanticExpression right types with
      | Except.error e => Except.error e
      | Except.ok types1 =>
        match right with
        | none => Except.error Err.undefinedBehaviour
        | some r =>
          if !bitsMeet (typeOf types1 r) TYPE_BOOL && typeOf types1 r != TYPE_UNKNOWN then
            errorExit SEM_TYPE
          else Except.ok (types1.set i TYPE_BOOL)
    else
      match semanticExpression left types with
      | Except.error e => Except.error e
      | Except.ok types1 =>
        match semanticExpression right types1 with
        | Except.error e => Except.error e
        | Except.ok types2 =>
          match left, right with
          | some l, some r =>
            if !checkBinaryTypes (typeOf types2 l) tok.type (typeOf types2 r) then
              errorExit SEM_TYPE
            else
              Except.ok (types2.set i
                (getBinaryResultType (typeOf types2 l) tok.type (typeOf types2 r)))
          | _, _ => Except.error Err.undefinedBehaviour
  | some (.leaf _ AstNodeType.AST_EXPRESSION _), _ => Except.error Err.undefinedBehaviour
  | some (.list _ AstNodeType.AST_EXPRESSION _ _), _ => Except.error Err.undefinedBehaviour
  | some _, types => Except.ok types
termination_by node => nodeCountOpt node
decreasing_by
  all_goals simp only [nodeCountOpt, nodeCount]
  all_goals omega

/-- The function `semanticAssignment` on the children of an assignment node. -/
def semanticAssignment (left right : Option AstNode) (types : List ExprType) :
    Except Err (List ExprType) :=
  match semanticExpression right types with
  | Except.error e => Except.error e
  | Except.ok types1 =>
    match left, right with
    | some l, some r =>
      if typeOf types1 l != TYPE_UNKNOWN && typeOf types1 r != TYPE_UNKNOWN &&
          typeOf types1 l != typeOf types1 r then errorExit SEM_TYPE
      else if typeOf types1 l == TYPE_UNKNOWN then
        Except.ok (setTypeOf types1 l (typeOf types1 r))
      else Except.ok types1
    | _, _ => Except.error Err.undefinedBehaviour

/-! ## parser.c -/

/-- The function `parserInit`, with an empty list of queued nodes and no node created. -/
def parserInit (scanner : Scanner) (symStack : SymTableStack) : Parser :=
  { scanner := scanner, symStack := symStack,
    current := { Token.zero with type := TokenType.NONE },
    lookAhead := { Token.zero with type := TokenType.NONE },
    root := none, resolveLater := [], nodeTypes := [] }

/-- The function `parserAdvance`. -/
def parserAdvance (p : Parser) : Except Err Parser :=
  match getNextToken p.scanner with
  | (r, token, sc) =>
    if r == 1 then errorExit LEXICAL_ERROR
    else if r == HEAP_OVERFLOW then Except.error Err.undefinedBehaviour
    else Except.ok { p with scanner := sc, current := token }

/-- The function `parserLookAhead`. -/
def parserLookAhead (p : Parser) : Except Err Parser :=
  match lookAhead p.scanner with
  | (r, token, sc) =>
    if r == 1 then errorExit LEXICAL_ERROR
    else if r == HEAP_OVERFLOW then Except.error Err.undefinedBehaviour
    else Except.ok { p with scanner := sc, lookAhead := token }

/-- The function `parserValidate`. -/
def parserValidate (p : Parser) (type : TokenType) : Except Err Parser :=
  if p.current.type != type then errorExit SYNTAX_ERROR else Except.ok p

/-- The function `parserValidateSequence`. -/
def parserValidateSequence : Parser → List TokenType → Except Err Parser
  | p, [] => Except.ok p
  | p, t :: rest => do
    let p1 ← parserAdvance p
    let p2 ← parserValidate p1 t
    parserValidateSequence p2 rest

/-- The function `astCreateNode`: the new node gets the next free address and the
expression type `TYPE_UNKNOWN`; its token has kind `NONE` and no value. -/
def astCreateNode (p : Parser) (type : AstNodeType) : AstNode × Parser :=
  let tok : Token := { type := TokenType.NONE, value := none, line := 0 }
  let p1 : Parser := { p with nodeTypes := p.nodeTypes ++ [TYPE_UNKNOWN] }
  match type with
  | AstNodeType.AST_CLASS_DEC | AstNodeType.AST_BLOCK | AstNodeType.AST_PARAMS =>
    (AstNode.list p.nodeTypes.length type tok [], p1)
  | AstNodeType.AST_TYPE | AstNodeType.AST_IDENTIFIER | AstNodeType.AST_LITERAL =>
    (AstNode.leaf p.nodeTypes.length type tok, p1)
  | _ => (AstNode.bin p.nodeTypes.length type tok none none, p1)

/-- The expression `token.value->stringVal` used as a C string. -/
def tokenString (t : Token) : Except Err String :=
  match t.value with
  | none => Except.error Err.undefinedBehaviour
  | some v =>
    match v.stringVal with
    | none => Except.error Err.undefinedBehaviour
    | some s => Except.ok (cstr s)

/-- The assignment `node->expressionType = t` in the store of the parser. -/
def Parser.setType (p : Parser) (node : AstNode) (t : ExprType) : Parser :=
  { p with nodeTypes := setTypeOf p.nodeTypes node t }

/-- The function `assignTypeFromToken`. -/
def assignTypeFromToken (node : AstNode) (p : Parser) : Except Err Parser :=
  match node.token.type with
  | TokenType.INT_LITERAL => Except.ok (p.setType node TYPE_INT)
  | TokenType.FLOAT_LITERAL => Except.ok (p.setType node TYPE_FLOAT)
  | TokenType.STRING_LITERAL => Except.ok (p.setType node TYPE_STRING)
  | TokenType.KW_VAL_NULL => Except.ok (p.setType node TYPE_NULL)
  | TokenType.KW_VAL_FALSE => Except.ok (p.setType node TYPE_BOOL)
  | TokenType.KW_VAL_TRUE => Except.ok (p.setType node TYPE_BOOL)
  | TokenType.IDENTIFIER => do
    let name ← tokenString node.token
    match symTableStackFindSymbol p.symStack name with
    | some a => Except.ok (p.setType node (symAt p.symStack.mem a).expressionType)
    | none =>
      match symTableStackFindSymbol p.symStack
          (symbolCreate name TYPE_UNKNOWN SymbolKind.SYM_GET 1).name with
      | some g => Except.ok (p.setType node (symAt p.symStack.mem g).expressionType)
      | none => errorExit SEM_UNDEF
  | TokenType.GLOBAL_IDENTIFIER => do
    let name ← tokenString node.token
    match symTableStackFindSymbol p.symStack name with
    | some a => Except.ok (p.setType node (symAt p.symStack.mem a).expressionType)
    | none =>
      let (a, stack1) ←
        addSymbolAt p.symStack 0 (symbolCreate name TYPE_UNKNOWN SymbolKind.SYM_VAR 0)
      Except.ok ({ p with symStack := stack1 }.setType node (symAt stack1.mem a).expressionType)
  | _ => Except.ok (p.setType node TYPE_UNKNOWN)

/-- The stack `AstStack`: the list holds the entries from the top (index `topIndex`)
down to index 0. -/
abbrev AstStack := List AstNode

/-- The function `astStackPush`.  A push that would write outside the allocated array
is undefined behaviour. -/
def astStackPush (stack : AstStack) (node : AstNode) : Except Err AstStack :=
  if stack.length = ASTSTACK_MAX then errorExit INTERNAL_ERROR
  else if stack.length ≥ ASTSTACK_SLOTS then Except.error Err.undefinedBehaviour
  else Except.ok (node :: stack)

/-- The function `astStackNextOp`: the operator node nearest to the top. -/
def astStackNextOp : AstStack → Option AstNode
  | [] => none
  | node :: rest => if node.type = AstNodeType.AST_OPERATOR then some node else astStackNextOp rest

/-- The table `PRECEDENCE_TABLE`: -1 is shift, 1 is reduce, 0 is an error. -/
def PRECEDENCE_TABLE : List (List Int) :=
  [ [ 0, -1,  0,  0, -1, -1, -1, -1, -1, -1, -1,  0,  1],
    [ 0,  0, -1,  0, -1,  0,  0,  0,  1,  1,  1,  0,  1],
    [ 0,  0,  0,  0, -1,  0,  0,  0, -1, -1, -1,  0,  1],
    [-1, -1,  0, -1, -1, -1, -1, -1, -1, -1, -1, -1,  1],
    [ 0,  1,  0,  0, -1,  1,  1,  1,  1,  1,  1, -1,  1],
    [-1, -1,  0, -1, -1,  1,  1,  1,  1,  1,  1, -1,  1],
    [-1, -1,  0, -1, -1, -1,  1,  1,  1,  1,  1, -1,  1],
    [-1, -1,  0, -1, -1, -1, -1,  1,  1,  1,  1, -1,  1],
    [-1, -1,  0, -1, -1, -1, -1, -1,  1,  1,  1, -1,  1],
    [-1, -1,  0, -1, -1, -1, -1, -1, -1,  1,  1, -1,  1],
    [-1, -1,  0, -1, -1, -1, -1, -1, -1, -1,  1, -1,  1],
    [-1, -1,  0, -1,  1,  1,  1,  1,  1,  1,  1,  1,  1],
    [-1, -1, -1, -1,  1, -1, -1, -1, -1, -1, -1, -1,  1] ]

/-- The read `PRECEDENCE_TABLE[row][column]`; an index outside 0..12 is undefined
behaviour. -/
def tableAction (row column : Nat) : Except Err Int :=
  match PRECEDENCE_TABLE.get? row with
  | none => Except.error Err.undefinedBehaviour
  | some r =>
    match r.get? column with
    | none => Except.error Err.undefinedBehaviour
    | some a => Except.ok a

/-- The function `getPrecedenceSymbol`. -/
def getPrecedenceSymbol (tokenType : TokenType) : Nat :=
  match tokenType with
  | TokenType.IDENTIFIER | TokenType.GLOBAL_IDENTIFIER | TokenType.INT_LITERAL
  | TokenType.FLOAT_LITERAL | TokenType.STRING_LITERAL
  | TokenType.MULTILINE_STRING_LITERAL | TokenType.KW_VAL_NULL => PREC_ID
  | TokenType.KW_TYPE_NUM | TokenType.KW_TYPE_NULL | TokenType.KW_TYPE_BOOL
  | TokenType.KW_TYPE_STRING => PREC_TYPE
  | TokenType.IS_EQUAL | TokenType.IS_NOT_EQUAL => PREC_EQ
  | TokenType.IS_SMALLER | TokenType.IS_SMALLER_OR_EQUAL | TokenType.IS_BIGGER
  | TokenType.IS_BIGGER_OR_EQUAL => PREC_CMP
  | TokenType.PLUS | TokenType.MINUS => PREC_PLUSMINUS
  | TokenType.MULTIPLY | TokenType.DIVIDE => PREC_MULDIV
  | TokenType.LPAR => PREC_LPAREN
  | TokenType.LOGICAL_AND => PREC_AND
  | TokenType.LOGICAL_OR => PREC_OR
  | TokenType.LOGICAL_NOT => PREC_NOT
  | TokenType.KW_IS => PREC_IS
  | TokenType.EOL | TokenType.RPAR => PREC_END
  | _ => NUM_PRECEDENCE

/-- The function `popCheck`: the node and the rest of the stack. -/
def popCheck (stack : AstStack) : Except Err (AstNode × AstStack) :=
  match stack with
  | [] => errorExit SYNTAX_ERROR
  | node :: rest => Except.ok (node, rest)

/-- The function `reduceExpression`. -/
def reduceExpression (stack : AstStack) : Except Err (AstNode × AstStack) := do
  let (right, s1) ← popCheck stack
  let (op, s2) ← popCheck s1
  let (left, s3) ← popCheck s2
  if right.type = AstNodeType.AST_OPERATOR ∨ left.type = AstNodeType.AST_OPERATOR then
    errorExit SYNTAX_ERROR
  else
    match op with
    | .bin i _ tok _ _ =>
      Except.ok (.bin i AstNodeType.AST_EXPRESSION tok (some left) (some right), s3)
    | _ => Except.error Err.undefinedBehaviour

/-- The function `reduceNot`. -/
def reduceNot (stack : AstStack) : Except Err (AstNode × AstStack) := do
  let (right, s1) ← popCheck stack
  let (op, s2) ← popCheck s1
  match op with
  | .bin i _ tok l _ => Except.ok (.bin i AstNodeType.AST_EXPRESSION tok l (some right), s2)
  | _ => Except.error Err.undefinedBehaviour

/-- The function `reducePar`; the node popped second is disposed of. -/
def reducePar (stack : AstStack) : Except Err (AstNode × AstStack) := do
  let (op, s1) ← popCheck stack
  let (_, s2) ← popCheck s1
  Except.ok (op, s2)

/-- The function `createNodeFromToken`. -/
def createNodeFromToken (t : Token) (p : Parser) : Except Err (AstNode × Parser) :=
  let created : AstNode × Parser :=
    match t.type with
    | TokenType.IDENTIFIER | TokenType.GLOBAL_IDENTIFIER =>
      astCreateNode p AstNodeType.AST_IDENTIFIER
    | TokenType.KW_TYPE_BOOL | TokenType.KW_TYPE_NULL | TokenType.KW_TYPE_NUM
    | TokenType.KW_TYPE_STRING => astCreateNode p AstNodeType.AST_TYPE
    | TokenType.INT_LITERAL | TokenType.FLOAT_LITERAL | TokenType.STRING_LITERAL
    | TokenType.MULTILINE_STRING_LITERAL | TokenType.KW_VAL_NULL =>
      astCreateNode p AstNodeType.AST_LITERAL
    | _ => astCreateNode p AstNodeType.AST_OPERATOR
  match assignTypeFromToken (created.1.setToken t) created.2 with
  | Except.error e => Except.error e
  | Except.ok p1 => Except.ok (created.1.setToken t, p1)

def isTypeKeyword (t : TokenType) : Bool :=
  t == TokenType.KW_TYPE_NUM || t == TokenType.KW_TYPE_STRING ||
    t == TokenType.KW_TYPE_NULL || t == TokenType.KW_TYPE_BOOL

/-- One reduction as `parseExp` chooses it from the token of the nearest operator. -/
def reduceBy (top : AstNode) (stack : AstStack) : Except Err (AstNode × AstStack) :=
  if top.token.type = TokenType.LPAR then reducePar stack
  else if top.token.type = TokenType.LOGICAL_NOT then reduceNot stack
  else reduceExpression stack

/-- The first loop of `parseExp`: the parser, the stack and `parenCount` when the loop
is left by `break`. -/
def parseExpLoop : Nat → Parser → AstStack → Nat → Except Err (Parser × AstStack × Nat)
  | 0, _, _, _ => Except.error Err.outOfFuel
  | fuel + 1, p, stack, parenCount =>
    if p.current.type = TokenType.LCURLY then Except.ok (p, stack, parenCount)
    else if p.current.type = TokenType.EOL then Except.ok (p, stack, parenCount)
    else if p.current.type = TokenType.RPAR ∧ parenCount = 0 then
      Except.ok (p, stack, parenCount)
    else do
      let parenCount1 :=
        if p.current.type = TokenType.LPAR then parenCount + 1
        else if p.current.type = TokenType.RPAR then parenCount - 1
        else parenCount
      let p1 ←
        (if p.current.type = TokenType.KW_IS then
           match parserLookAhead p with
           | Except.error e => Except.error e
           | Except.ok q =>
             if !isTypeKeyword q.lookAhead.type then errorExit SYNTAX_ERROR else Except.ok q
         else Except.ok p)
      let top := astStackNextOp stack
      let currentIdx := getPrecedenceSymbol p1.current.type
      let stackIdx :=
        match top with
        | some t => getPrecedenceSymbol t.token.type
        | none => PREC_END
      let action ← tableAction stackIdx currentIdx
      let (node, p2) ← createNodeFromToken p1.current p1
      if action = -1 then do
        let p3 ← assignTypeFromToken node p2
        let stack1 ← astStackPush stack node
        let p4 ← parserAdvance p3
        parseExpLoop fuel p4 stack1 parenCount1
      else if action = 1 then
        match top with
        | none => Except.error Err.undefinedBehaviour
        | some t =>
          if t.token.type = TokenType.LPAR then do
            let (reduced, stack1) ← reducePar stack
            let p3 ← parserAdvance p2
            let stack2 ← astStackPush stack1 reduced
            parseExpLoop fuel p3 stack2 parenCount1
          else if t.token.type = TokenType.LOGICAL_NOT then do
            let (reduced, stack1) ← reduceNot stack
            let p3 ← parserAdvance p2
            let stack2 ← astStackPush stack1 reduced
            parseExpLoop fuel p3 stack2 parenCount1
          else do
            let parenCount2 :=
              if p2.current.type = TokenType.RPAR then parenCount1 + 1 else parenCount1
            let (reduced, stack1) ← reduceExpression stack
            let stack2 ← astStackPush stack1 reduced
            parseExpLoop fuel p2 stack2 parenCount2
      else errorExit SYNTAX_ERROR

/-- The second loop of `parseExp`, `while (stack.topIndex > 0)`. -/
def parseExpDrain : Nat → AstStack → Except Err AstStack
  | 0, _ => Except.error Err.outOfFuel
  | fuel + 1, stack =>
    if stack.length ≤ 1 then Except.ok stack
    else
      match astStackNextOp stack with
      | none => Except.error Err.undefinedBehaviour
      | some top => do
        let (reduced, stack1) ← reduceBy top stack
        let stack2 ← astStackPush stack1 reduced
        parseExpDrain fuel stack2

/-- The function `parseExp`: the expression, or `none` for the null pointer. -/
def parseExp (fuel : Nat) (p : Parser) : Except Err (Option AstNode × Parser) := do
  let (p1, stack, parenCount) ← parseExpLoop fuel p [] 0
  let stack1 ← parseExpDrain (stack.length + 1) stack
  if parenCount != 0 then errorExit SYNTAX_ERROR
  else Except.ok (stack1.head?, p1)

/-- An assignment through a pointer to a symbol, in the memory of the parser. -/
def Parser.updSym (p : Parser) (address : Nat) (f : Symbol → Symbol) : Parser :=
  { p with symStack := { p.symStack with mem := memUpdate p.symStack.mem address f } }

/-- The number of children of a node of the list shape (`childrenList->count`); reading
it from a node of another shape is undefined behaviour. -/
def childCount : AstNode → Except Err Nat
  | .list _ _ _ items => Except.ok items.length
  | _ => Except.error Err.undefinedBehaviour

/-- The loop of `parseParams` after the first look ahead: the leaves in source order. -/
def parseParamsLoop : Nat → Parser → List AstNode → Except Err (List AstNode × Parser)
  | 0, _, _ => Except.error Err.outOfFuel
  | fuel + 1, p, acc => do
    let p1 ← parserAdvance p
    let p2 ← parserValidate p1 TokenType.IDENTIFIER
    let (leaf, p3) := astCreateNode p2 AstNodeType.AST_IDENTIFIER
    let p4 ← parserLookAhead p3
    if p4.lookAhead.type = TokenType.COMMA then do
      let p5 ← parserAdvance p4
      let p6 ← parserLookAhead p5
      parseParamsLoop fuel p6 (acc ++ [leaf.setToken p2.current])
    else if p4.lookAhead.type = TokenType.RPAR then do
      let p5 ← parserAdvance p4
      let p6 ← parserValidate p5 TokenType.RPAR
      Except.ok (acc ++ [leaf.setToken p2.current], p6)
    else errorExit SYNTAX_ERROR

/-- The function `parseParams`. -/
def parseParams (fuel : Nat) (p : Parser) : Except Err (AstNode × Parser) := do
  let (node, p1) := astCreateNode p AstNodeType.AST_PARAMS
  let p2 ← parserAdvance p1
  let p3 ← parserValidate p2 TokenType.LPAR
  let p4 ← parserLookAhead p3
  if p4.lookAhead.type = TokenType.RPAR then do
    let p5 ← parserAdvance p4
    let p6 ← parserValidate p5 TokenType.RPAR
    Except.ok (node, p6)
  else do
    let (items, p5) ← parseParamsLoop fuel p4 []
    Except.ok (AstNode.list node.id node.type node.token items, p5)

/-- The loop of `parseArguments`. -/
def parseArgumentsLoop : Nat → Parser → List AstNode → Except Err (List AstNode × Parser)
  | 0, _, _ => Except.error Err.outOfFuel
  | fuel + 1, p, acc => do
    let p1 ← parserAdvance p
    let (leaf0, p2) ←
      (match p1.current.type with
       | TokenType.IDENTIFIER | TokenType.GLOBAL_IDENTIFIER =>
         Except.ok (astCreateNode p1 AstNodeType.AST_IDENTIFIER)
       | TokenType.INT_LITERAL | TokenType.STRING_LITERAL
       | TokenType.MULTILINE_STRING_LITERAL | TokenType.FLOAT_LITERAL
       | TokenType.KW_VAL_NULL => Except.ok (astCreateNode p1 AstNodeType.AST_LITERAL)
       | _ => errorExit SYNTAX_ERROR)
    let leaf := leaf0.setToken p1.current
    let p3 ← assignTypeFromToken leaf p2
    let p4 ← parserLookAhead p3
    if p4.lookAhead.type = TokenType.COMMA then do
      let p5 ← parserAdvance p4
      let p6 ← parserLookAhead p5
      parseArgumentsLoop fuel p6 (acc ++ [leaf])
    else if p4.lookAhead.type = TokenType.RPAR then do
      let p5 ← parserAdvance p4
      Except.ok (acc ++ [leaf], p5)
    else errorExit SYNTAX_ERROR

/-- The function `parseArguments`. -/
def parseArguments (fuel : Nat) (p : Parser) : Except Err (AstNode × Parser) := do
  let (node, p1) := astCreateNode p AstNodeType.AST_PARAMS
  let p2 ← parserLookAhead p1
  if p2.lookAhead.type = TokenType.RPAR then do
    let p3 ← parserAdvance p2
    Except.ok (node, p3)
  else do
    let (items, p3) ← parseArgumentsLoop fuel p2 []
    Except.ok (AstNode.list node.id node.type node.token items, p3)

/-- The function `parseFunCall`.  The symbol looked up is made by `symbolCreate` with
the local `argCount`, which is 0. -/
def parseFunCall (fuel : Nat) (p : Parser) : Except Err (AstNode × Parser) := do
  let p1 ← parserValidate p TokenType.IDENTIFIER
  let funcIdentifierToken := p1.current
  let p2 ← parserAdvance p1
  let p3 ← parserValidate p2 TokenType.LPAR
  let (node0, p4) := astCreateNode p3 AstNodeType.AST_FUN_CALL
  let (args, p5) ← parseArguments fuel p4
  let node := AstNode.bin node0.id AstNodeType.AST_FUN_CALL funcIdentifierToken none (some args)
  let argCount := 0
  let name ← tokenString node.token
  let funCall := symbolCreate name TYPE_UNKNOWN SymbolKind.SYM_FUNC argCount
  let p6 :=
    match symTableStackFindSymbol p5.symStack funCall.name with
    | none => { p5 with resolveLater := p5.resolveLater ++ [node] }
    | some funDec => p5.setType node (symAt p5.symStack.mem funDec).expressionType
  let p7 ← parserAdvance p6
  let p8 ← parserValidate p7 TokenType.EOL
  Except.ok (node, p8)

/-- The function `parseIfj`. -/
def parseIfj (fuel : Nat) (p : Parser) : Except Err (AstNode × Parser) := do
  let p1 ← parserAdvance p
  let p2 ← parserAdvance p1
  let p3 ← parserValidate p2 TokenType.DOT
  let p4 ← parserLookAhead p3
  let p5 ← (if p4.lookAhead.type = TokenType.EOL then parserAdvance p4 else Except.ok p4)
  let p6 ← parserAdvance p5
  let p7 ← parserValidate p6 TokenType.IDENTIFIER
  let (node0, p8) := astCreateNode p7 AstNodeType.AST_IFJ
  let (call, p9) ← parseFunCall fuel p8
  let node := AstNode.bin node0.id AstNodeType.AST_IFJ node0.token none (some call)
  Except.ok (node, p9.setType node (typeOf p9.nodeTypes call))

/-- The function `parseVarDec`. -/
def parseVarDec (p : Parser) : Except Err (AstNode × Parser) := do
  let p1 ← parserAdvance p
  let p2 ← parserAdvance p1
  let p3 ← parserValidate p2 TokenType.IDENTIFIER
  let top := stackTop p3.symStack
  let (leaf0, p4) := astCreateNode p3 AstNodeType.AST_VAR_DEC
  let leaf := leaf0.setToken p3.current
  let name ← tokenString leaf.token
  match p4.symStack.scopes.get? top with
  | none => Except.error Err.undefinedBehaviour
  | some scope =>
    match scopeFindSymbol p4.symStack.mem scope name with
    | some _ => errorExit SEM_REDEF
    | none => do
      let (symbol, stack1) ←
        addSymbolAt p4.symStack top (symbolCreate name TYPE_NULL SymbolKind.SYM_VAR 0)
      let p5 ← parserAdvance { p4 with symStack := stack1 }
      let p6 ← parserValidate p5 TokenType.EOL
      Except.ok (leaf, p6.setType leaf (symAt p6.symStack.mem symbol).expressionType)

/-- The function `parseVarAssign`. -/
def parseVarAssign (fuel : Nat) (p : Parser) : Except Err (AstNode × Parser) := do
  let p1 ← parserAdvance p
  let (leaf0, p2) := astCreateNode p1 AstNodeType.AST_IDENTIFIER
  let leaf := leaf0.setToken p1.current
  let p3 ← parserAdvance p2
  let p4 ← parserValidate p3 TokenType.ASSIGN
  let (node0, p5) := astCreateNode p4 AstNodeType.AST_VAR_ASSIGN
  let name ← tokenString leaf.token
  let (leafSymbol, p6) ←
    (match symTableStackFindSymbol p5.symStack name with
     | some a => Except.ok (some a, p5)
     | none =>
       if leaf.token.type != TokenType.GLOBAL_IDENTIFIER then
         match symTableStackFindSymbol p5.symStack
             (symbolCreate name TYPE_UNKNOWN SymbolKind.SYM_SET 1).name with
         | none => errorExit SEM_UNDEF
         | some _ => Except.ok (none, p5)
       else
         match addSymbolAt p5.symStack 0 (symbolCreate name TYPE_UNKNOWN SymbolKind.SYM_VAR 0) with
         | Except.error e => Except.error e
         | Except.ok (a, stack1) => Except.ok (some a, { p5 with symStack := stack1 }))
  let p7 ← parserLookAhead p6
  let (right, p8) ←
    (match p7.lookAhead.type with
     | TokenType.KW_IFJ =>
       match parseIfj fuel p7 with
       | Except.error e => Except.error e
       | Except.ok (r, q) => Except.ok (some r, q)
     | TokenType.IDENTIFIER => do
       let q1 ← parserAdvance p7
       let q2 ← parserLookAhead q1
       if q2.lookAhead.type = TokenType.LPAR then do
         let (r, q3) ← parseFunCall fuel q2
         let types ← semanticExpression (some r) q3.nodeTypes
         Except.ok (some r, { q3 with nodeTypes := types })
       else do
         let (r, q3) ← parseExp fuel q2
         let types ← semanticExpression r q3.nodeTypes
         Except.ok (r, { q3 with nodeTypes := types })
     | _ => do
       let q1 ← parserAdvance p7
       let (r, q2) ← parseExp fuel q1
       let types ← semanticExpression r q2.nodeTypes
       let types1 ← semanticAssignment (some leaf) r types
       Except.ok (r, { q2 with nodeTypes := types1 }))
  let node := AstNode.bin node0.id AstNodeType.AST_VAR_ASSIGN node0.token (some leaf) right
  let p9 :=
    match leafSymbol with
    | some a => p8.updSym a (fun sym => { sym with expressionType := typeOf p8.nodeTypes leaf })
    | none => p8
  match right with
  | none => Except.error Err.undefinedBehaviour
  | some r =>
    let p10 := p9.setType node (typeOf p9.nodeTypes r)
    if (typeOf p10.nodeTypes node) &&& TYPE_UNKNOWN = 1 then
      Except.ok (node, { p10 with resolveLater := p10.resolveLater ++ [node] })
    else Except.ok (node, p10)

/-- The function `parseReturn`; `funSym` is the address of the symbol of the function. -/
def parseReturn (fuel : Nat) (funSym : Nat) (p : Parser) : Except Err (AstNode × Parser) := do
  let p1 ← parserAdvance p
  let p2 ← parserAdvance p1
  let (node0, p3) := astCreateNode p2 AstNodeType.AST_RETURN
  let (right, p4) ← parseExp fuel p3
  match right with
  | none => errorExit SYNTAX_ERROR
  | some r => do
    let types ← semanticExpression right p4.nodeTypes
    let p5 : Parser := { p4 with nodeTypes := types }
    let p6 :=
      p5.updSym funSym (fun sym =>
        if sym.expressionType &&& TYPE_UNKNOWN = 1 then
          { sym with expressionType := typeOf types r }
        else { sym with expressionType := sym.expressionType ||| typeOf types r })
    Except.ok (AstNode.bin node0.id AstNodeType.AST_RETURN node0.token none right, p6)

/-- The type of the parser of a block, handed to the statement parsers that contain
blocks: `parseBlock` with less fuel. -/
abbrev BlockParser := Nat → Parser → Except Err (AstNode × Parser)

/-- The part that `parseIf`, `parseIfElse` and `parseWhile` share after their opening
tokens: the condition, the check for the closing parenthesis, and the block in a new
scope.  `needExp` is the test for a missing expression that only `parseWhile` makes. -/
def parseCondBlock (block : BlockParser) (fuel : Nat) (funSym : Nat) (type : AstNodeType)
    (needExp : Bool) (p : Parser) : Except Err (AstNode × Parser) := do
  let (node0, p1) := astCreateNode p type
  let (left, p2) ← parseExp fuel p1
  if needExp && left.isNone then errorExit SYNTAX_ERROR
  else do
    let types ← semanticExpression left p2.nodeTypes
    let p3 ← parserValidate { p2 with nodeTypes := types } TokenType.RPAR
    let (body, p4) ← block funSym { p3 with symStack := symTableStackPush p3.symStack }
    Except.ok (AstNode.bin node0.id type node0.token left (some body),
               { p4 with symStack := symTableStackPop p4.symStack })

/-- The function `parseIf`. -/
def parseIf (block : BlockParser) (fuel : Nat) (funSym : Nat) (p : Parser) :
    Except Err (AstNode × Parser) := do
  let p1 ← parserAdvance p
  let p2 ← parserAdvance p1
  let p3 ← parserValidate p2 TokenType.LPAR
  let p4 ← parserAdvance p3
  parseCondBlock block fuel funSym AstNodeType.AST_IF_STMT false p4

/-- The function `parseIfElse`. -/
def parseIfElse (block : BlockParser) (fuel : Nat) (funSym : Nat) (p : Parser) :
    Except Err (AstNode × Parser) := do
  let p1 ← parserAdvance p
  let p2 ← parserValidate p1 TokenType.LPAR
  let p3 ← parserAdvance p2
  parseCondBlock block fuel funSym AstNodeType.AST_IF_ELSE_STMT false p3

/-- The function `parseElse`. -/
def parseElse (block : BlockParser) (funSym : Nat) (p : Parser) :
    Except Err (AstNode × Parser) := do
  let (node0, p1) := astCreateNode p AstNodeType.AST_ELSE_STMT
  let (body, p2) ← block funSym { p1 with symStack := symTableStackPush p1.symStack }
  Except.ok (AstNode.bin node0.id AstNodeType.AST_ELSE_STMT node0.token none (some body),
             { p2 with symStack := symTableStackPop p2.symStack })

/-- The function `parseWhile`. -/
def parseWhile (block : BlockParser) (fuel : Nat) (funSym : Nat) (p : Parser) :
    Except Err (AstNode × Parser) := do
  let p1 ← parserAdvance p
  let p2 ← parserAdvance p1
  let p3 ← parserValidate p2 TokenType.LPAR
  let p4 ← parserAdvance p3
  parseCondBlock block fuel funSym AstNodeType.AST_WHILE true p4

/-- The `while` of `parseIfChain`: the nodes it appends to the list. -/
def parseIfChainLoop (block : BlockParser) (funSym : Nat) :
    Nat → Parser → List AstNode → Except Err (List AstNode × Parser)
  | 0, _, _ => Except.error Err.outOfFuel
  | fuel + 1, p, acc =>
    if p.lookAhead.type = TokenType.KW_ELSE then do
      let p1 ← parserAdvance p
      let p2 ← parserLookAhead p1
      let (node, p3) ←
        (if p2.lookAhead.type = TokenType.KW_IF then parseIfElse block fuel funSym p2
         else parseElse block funSym p2)
      let p4 ← parserLookAhead p3
      parseIfChainLoop block funSym fuel p4 (acc ++ [node])
    else Except.ok (acc, p)

/-- The function `parseIfChain`: the nodes it appends to the list. -/
def parseIfChain (block : BlockParser) (fuel : Nat) (funSym : Nat) (p : Parser) :
    Except Err (List AstNode × Parser) := do
  let (node, p1) ← parseIf block fuel funSym p
  let p2 ← parserLookAhead p1
  parseIfChainLoop block funSym fuel p2 [node]

/-- The `while` of `parseStList` after a look ahead: the statements appended to the
list. -/
def parseStListLoop (block : BlockParser) (funSym : Nat) :
    Nat → Parser → List AstNode → Except Err (List AstNode × Parser)
  | 0, _, _ => Except.error Err.outOfFuel
  | fuel + 1, p, acc =>
    if p.lookAhead.type != TokenType.RCURLY && p.lookAhead.type != TokenType.EOF_TOKEN then
      match p.lookAhead.type with
      | TokenType.KW_IF => do
        let (nodes, p1) ← parseIfChain block fuel funSym p
        let p2 ← parserLookAhead p1
        parseStListLoop block funSym fuel p2 (acc ++ nodes)
      | la => do
        let (node, p1) ←
          (match la with
           | TokenType.KW_IFJ => parseIfj fuel p
           | TokenType.LCURLY =>
             match block funSym { p with symStack := symTableStackPush p.symStack } with
             | Except.error e => Except.error e
             | Except.ok (n, q) =>
               Except.ok (n, { q with symStack := symTableStackPop q.symStack })
           | TokenType.KW_RETURN => parseReturn fuel funSym p
           | TokenType.KW_WHILE => parseWhile block fuel funSym p
           | TokenType.KW_VAR => parseVarDec p
           | TokenType.IDENTIFIER | TokenType.GLOBAL_IDENTIFIER => parseVarAssign fuel p
           | _ => errorExit SYNTAX_ERROR)
        let p2 ← parserLookAhead p1
        parseStListLoop block funSym fuel p2 (acc ++ [node])
    else Except.ok (acc, p)

/-- The function `parseStList`: the statements appended to the list of the block. -/
def parseStList (block : BlockParser) (fuel : Nat) (funSym : Nat) (p : Parser) :
    Except Err (List AstNode × Parser) := do
  let p1 ← parserLookAhead p
  parseStListLoop block funSym fuel p1 []

/-- The function `parseBlock`; the fuel bounds the nesting of blocks and every loop
inside. -/
def parseBlock : Nat → Nat → Parser → Except Err (AstNode × Parser)
  | 0, _, _ => Except.error Err.outOfFuel
  | fuel + 1, funSym, p => do
    let p1 ← parserValidateSequence p [TokenType.LCURLY, TokenType.EOL]
    let (node, p2) := astCreateNode p1 AstNodeType.AST_BLOCK
    let (items, p3) ← parseStList (parseBlock fuel) fuel funSym p2
    let p4 ← parserAdvance p3
    let p5 ← parserValidate p4 TokenType.RCURLY
    let p6 ← parserLookAhead p5
    let p7 ←
      (if p6.lookAhead.type != TokenType.KW_ELSE && p6.lookAhead.type != TokenType.EOF_TOKEN
       then do
         let q ← parserAdvance p6
         parserValidate q TokenType.EOL
       else Except.ok p6)
    Except.ok (AstNode.list node.id node.type node.token items, p7)

/-- The loop of `parseFunDec` that installs the parameters in the scope `top`. -/
def installParams (top : Nat) : List AstNode → Parser → Except Err Parser
  | [], p => Except.ok p
  | item :: rest, p => do
    let name ← tokenString item.token
    let symbol := symbolCreate name TYPE_UNKNOWN SymbolKind.SYM_PARAM 0
    match p.symStack.scopes.get? (stackTop p.symStack) with
    | none => Except.error Err.undefinedBehaviour
    | some scope =>
      match scopeFindSymbol p.symStack.mem scope symbol.name with
      | some _ => errorExit SEM_REDEF
      | none => do
        let (_, stack1) ← addSymbolAt p.symStack top symbol
        installParams top rest { p with symStack := stack1 }

/-- The children of a node of the list shape. -/
def childItems : AstNode → Except Err (List AstNode)
  | .list _ _ _ items => Except.ok items
  | _ => Except.error Err.undefinedBehaviour

/-- The function `parseFunDec`. -/
def parseFunDec (fuel : Nat) (p : Parser) : Except Err (AstNode × Parser) := do
  let p1 ← parserAdvance p
  let p2 ← parserValidate p1 TokenType.KW_STATIC
  let p3 ← parserAdvance p2
  let p4 ← parserValidate p3 TokenType.IDENTIFIER
  let (funNode0, p5) := astCreateNode p4 AstNodeType.AST_FUN_DEC
  let token := p4.current
  let p6 ← parserLookAhead p5
  let (type, left, p7) ←
    (if p6.lookAhead.type = TokenType.LPAR then
       match parseParams fuel p6 with
       | Except.error e => Except.error e
       | Except.ok (params, q) => Except.ok (AstNodeType.AST_FUN_DEC, some params, q)
     else if p6.lookAhead.type = TokenType.ASSIGN then do
       let q1 ← parserAdvance p6
       let (params, q2) ← parseParams fuel q1
       let paramCount ← childCount params
       if paramCount != 1 then errorExit SYNTAX_ERROR
       else Except.ok (AstNodeType.AST_FUN_SET, some params, q2)
     else if p6.lookAhead.type = TokenType.LCURLY then
       Except.ok (AstNodeType.AST_FUN_GET, none, p6)
     else errorExit SYNTAX_ERROR)
  let symType :=
    if type = AstNodeType.AST_FUN_GET then SymbolKind.SYM_GET
    else if type = AstNodeType.AST_FUN_SET then SymbolKind.SYM_SET
    else SymbolKind.SYM_FUNC
  let paramsCount ←
    (match left with
     | some params => childCount params
     | none => Except.ok 0)
  let name ← tokenString token
  let (funSymbol, stack1) :=
    allocSymbol p7.symStack (symbolCreate name TYPE_NULL symType paramsCount)
  let p8 : Parser := { p7 with symStack := stack1 }
  let found := symTableStackFindSymbol p8.symStack (symAt p8.symStack.mem funSymbol).name
  let p9 ←
    (match found with
     | some f =>
       if (symAt p8.symStack.mem f).numOfParams = paramsCount ∧
           (symAt p8.symStack.mem f).declared then errorExit SEM_REDEF
       else if !(symAt p8.symStack.mem f).declared then
         Except.ok (p8.updSym f (fun sym => { sym with declared := true }))
       else
         match scopeAddAt p8.symStack 0 funSymbol with
         | Except.error e => Except.error e
         | Except.ok stack2 =>
           Except.ok ({ p8 with symStack := stack2 }.updSym funSymbol
             (fun sym => { sym with declared := true }))
     | none =>
       match scopeAddAt p8.symStack 0 funSymbol with
       | Except.error e => Except.error e
       | Except.ok stack2 =>
         Except.ok ({ p8 with symStack := stack2 }.updSym funSymbol
           (fun sym => { sym with declared := true })))
  let p10 : Parser := { p9 with symStack := symTableStackPush p9.symStack }
  let top := stackTop p10.symStack
  let paramItems ←
    (match left with
     | some params => childItems params
     | none => Except.ok [])
  let p11 ← installParams top paramItems p10
  let (body, p12) ← parseBlock fuel funSymbol p11
  let funNode := AstNode.bin funNode0.id type token left (some body)
  let p13 := p12.setType funNode (symAt p12.symStack.mem funSymbol).expressionType
  Except.ok (funNode, { p13 with symStack := symTableStackPop p13.symStack })

/-- The `while` of `parseClassDec` over the declarations. -/
def parseClassDecLoop : Nat → Parser → List AstNode → Except Err (List AstNode × Parser)
  | 0, _, _ => Except.error Err.outOfFuel
  | fuel + 1, p, acc =>
    if p.lookAhead.type = TokenType.KW_STATIC then do
      let (node, p1) ← parseFunDec fuel p
      let p2 ← parserLookAhead p1
      parseClassDecLoop fuel p2 (acc ++ [node])
    else Except.ok (acc, p)

/-- The function `parseClassDec`. -/
def parseClassDec (fuel : Nat) (p : Parser) : Except Err (AstNode × Parser) := do
  let p1 ← parserValidateSequence p [TokenType.KW_CLASS, TokenType.IDENTIFIER]
  let (classNode, p2) := astCreateNode p1 AstNodeType.AST_CLASS_DEC
  let token := p1.current
  let p3 ← parserValidateSequence p2 [TokenType.LCURLY, TokenType.EOL]
  let p4 ← parserLookAhead p3
  let (items, p5) ← parseClassDecLoop fuel p4 []
  let p6 ← parserAdvance p5
  let p7 ← parserValidate p6 TokenType.RCURLY
  Except.ok (AstNode.list classNode.id AstNodeType.AST_CLASS_DEC token items, p7)

/-- The function `parseProgram`. -/
def parseProgram (fuel : Nat) (p : Parser) : Except Err Parser := do
  let (root, p1) ← parseClassDec fuel p
  let p2 : Parser := { p1 with root := some root }
  let p3 ← parserLookAhead p2
  let p4 ← (if p3.lookAhead.type = TokenType.EOL then parserAdvance p3 else Except.ok p3)
  let p5 ← parserAdvance p4
  let p6 ← parserValidate p5 TokenType.EOF_TOKEN
  match symTableStackFindSymbol p6.symStack "main$0" with
  | none => errorExit SEM_UNDEF
  | some _ => Except.ok p6

/-- One built-in of `loadIFJBuiltins`: created, marked as declared and added to the
global scope, with the parameter types that the function assigns afterwards. -/
def loadBuiltin (stack : SymTableStack) (name : String) (type : ExprType) (n : Nat)
    (paramTypes : List ExprType) : Except Err SymTableStack :=
  let created := allocSymbol stack (symbolCreate name type SymbolKind.SYM_FUNC n)
  let address := created.1
  let stack0 := created.2
  let declared : SymTableStack :=
    { stack0 with mem := memUpdate stack0.mem address (fun sym => { sym with declared := true }) }
  match scopeAddAt declared 0 address with
  | Except.error e => Except.error e
  | Except.ok stack1 =>
    Except.ok { stack1 with
      mem := memUpdate stack1.mem address (fun sym => { sym with paramTypes := paramTypes }) }

/-- The function `loadIFJBuiltins`.  The parameter types are those in force at its end:
the two assignments "str(term)" and "length(s:string)" both go to the symbol of
`length`, so the one parameter of `str` keeps `TYPE_UNKNOWN`. -/
def loadIFJBuiltins (stack : SymTableStack) : Except Err SymTableStack := do
  let s1 ← loadBuiltin stack "read_str" (TYPE_STRING ||| TYPE_NULL) 0 []
  let s2 ← loadBuiltin s1 "read_num" (TYPE_FLOAT ||| TYPE_NULL) 0 []
  let s3 ← loadBuiltin s2 "write" TYPE_NULL 1 [TYPE_UNKNOWN]
  let s5 ← loadBuiltin s3 "floor" TYPE_FLOAT 1 [TYPE_FLOAT ||| TYPE_INT ||| TYPE_UNKNOWN]
  let s6 ← loadBuiltin s5 "str" TYPE_STRING 1 [TYPE_UNKNOWN]
  let s7 ← loadBuiltin s6 "length" TYPE_INT 1 [TYPE_STRING ||| TYPE_UNKNOWN]
  let s8 ← loadBuiltin s7 "substring" (TYPE_STRING ||| TYPE_NULL) 3
    [TYPE_STRING ||| TYPE_UNKNOWN, TYPE_INT ||| TYPE_FLOAT ||| TYPE_UNKNOWN,
     TYPE_INT ||| TYPE_FLOAT ||| TYPE_UNKNOWN]
  let s9 ← loadBuiltin s8 "strcmp" TYPE_INT 2
    [TYPE_STRING ||| TYPE_UNKNOWN, TYPE_STRING ||| TYPE_UNKNOWN]
  let s10 ← loadBuiltin s9 "ord" TYPE_INT 2
    [TYPE_STRING ||| TYPE_UNKNOWN, TYPE_INT ||| TYPE_FLOAT ||| TYPE_UNKNOWN]
  loadBuiltin s10 "chr" TYPE_STRING 1 [TYPE_INT ||| TYPE_FLOAT ||| TYPE_UNKNOWN]

/-! ## semantic.c: the later pass -/

/-- The read `node->expressionType` through a pointer that may be null. -/
def derefType (types : List ExprType) : Option AstNode → Except Err ExprType
  | none => Except.error Err.undefinedBehaviour
  | some n => Except.ok (typeOf types n)

/-- The call `checkBinaryTypes(left, op, right)` with the operands given as pointers:
the operators that do not look at the operands accept a null pointer; for the others a
null operand is read, which is undefined. -/
def checkBinaryTypesAt (types : List ExprType) (left : Option AstNode) (op : TokenType)
    (right : Option AstNode) : Except Err Bool :=
  match op with
  | TokenType.MULTIPLY | TokenType.DIVIDE | TokenType.MINUS | TokenType.PLUS
  | TokenType.IS_BIGGER | TokenType.IS_BIGGER_OR_EQUAL | TokenType.IS_SMALLER
  | TokenType.IS_SMALLER_OR_EQUAL | TokenType.LOGICAL_AND | TokenType.LOGICAL_OR => do
    let l ← derefType types left
    let r ← derefType types right
    Except.ok (checkBinaryTypes l op r)
  | TokenType.IS_EQUAL | TokenType.IS_NOT_EQUAL | TokenType.KW_IS => Except.ok true
  | _ => Except.ok false

/-- The call `getBinaryResultType(left, op, right)` with the operands given as
pointers. -/
def getBinaryResultTypeAt (types : List ExprType) (left : Option AstNode) (op : TokenType)
    (right : Option AstNode) : Except Err ExprType :=
  match op with
  | TokenType.MULTIPLY | TokenType.DIVIDE | TokenType.PLUS | TokenType.MINUS => do
    let l ← derefType types left
    let r ← derefType types right
    Except.ok (getBinaryResultType l op r)
  | _ => Except.ok (getBinaryResultType 0 op 0)

/-- What `snprintf` leaves in a buffer of `size` bytes: the first `size - 1` bytes of
the formatted text. -/
def snprintf (size : Nat) (text : String) : String := String.mk (text.data.take (size - 1))

/-- The function `findFunctionExact`: the name is formatted into a buffer of 256 bytes. -/
def findFunctionExact (stack : SymTableStack) (base : String) (argc : Nat) : Option Nat :=
  symTableStackFindSymbol stack (snprintf 256 (base ++ "$" ++ toString argc))

/-- The test of `findFunctionAnyArity` on one name: it holds a `$`, and what stands
before the first `$` is `base`. -/
def baseMatches (name base : String) : Bool :=
  name.data.contains '$' && name.data.takeWhile (fun c => c != '$') == base.data

/-- The loop of `findFunctionAnyArity` over the entries of the global scope. -/
def findAnyArityIn (mem : List Symbol) (base : String) : List Slot → Option Nat
  | [] => none
  | Slot.sym a :: rest =>
    if ((symAt mem a).kind = SymbolKind.SYM_FUNC ∨ (symAt mem a).kind = SymbolKind.SYM_GET ∨
        (symAt mem a).kind = SymbolKind.SYM_SET) ∧ baseMatches (symAt mem a).name base
    then some a
    else findAnyArityIn mem base rest
  | _ :: rest => findAnyArityIn mem base rest

/-- The scope `stack->scopes[0]`. -/
def globalScope (stack : SymTableStack) : Except Err Scope :=
  match stack.scopes.head? with
  | none => Except.error Err.undefinedBehaviour
  | some g => Except.ok g

/-- The function `findFunctionAnyArity`. -/
def findFunctionAnyArity (stack : SymTableStack) (base : String) : Except Err (Option Nat) := do
  let g ← globalScope stack
  Except.ok (findAnyArityIn stack.mem base g.symbols)

/-- The function `findGetter`: it formats the name with "%s$set" into a buffer of 256
bytes. -/
def findGetter (stack : SymTableStack) (base : String) : Except Err (Option Nat) := do
  let g ← globalScope stack
  Except.ok (scopeFindSymbol stack.mem g (snprintf 256 (base ++ "$set")))

/-- The function `findSetter`: it formats the name with "%s$set" into a buffer of 256
bytes. -/
def findSetter (stack : SymTableStack) (base : String) : Except Err (Option Nat) := do
  let g ← globalScope stack
  Except.ok (scopeFindSymbol stack.mem g (snprintf 256 (base ++ "$set")))

/-- The loop of `checkFunctionCallNode` over the arguments, from index `i`. -/
def checkArgTypes (types : List ExprType) (paramTypes : List ExprType) :
    Nat → Nat → List AstNode → Except Err Unit
  | _, 0, _ => Except.ok ()
  | _, _ + 1, [] => Except.ok ()
  | i, n + 1, arg :: rest =>
    match paramTypes.get? i with
    | none => Except.error Err.undefinedBehaviour
    | some expected =>
      if (expected &&& typeOf types arg) = 0 ∧ expected ≠ TYPE_UNKNOWN then errorExit SEM_ARG
      else checkArgTypes types paramTypes (i + 1) n rest

/-- The function `checkFunctionCallNode`: the store of expression types after it. -/
def checkFunctionCallNode (node : AstNode) (stack : SymTableStack) (types : List ExprType) :
    Except Err (List ExprType) :=
  match node with
  | .bin _ AstNodeType.AST_FUN_CALL tok _ paramsNode => do
    let name ← tokenString tok
    let argc ←
      (match paramsNode with
       | some (.list _ AstNodeType.AST_PARAMS _ items) => Except.ok items.length
       | some (.leaf _ AstNodeType.AST_PARAMS _) => Except.error Err.undefinedBehaviour
       | some (.bin _ AstNodeType.AST_PARAMS _ _ _) => Except.error Err.undefinedBehaviour
       | _ => Except.ok 0)
    match findFunctionExact stack name argc with
    | some exact => do
      (match paramsNode with
       | none => Except.ok ()
       | some (.list _ _ _ items) =>
         checkArgTypes types (symAt stack.mem exact).paramTypes 0 argc items
       | some _ => Except.error Err.undefinedBehaviour)
      Except.ok (setTypeOf types node (symAt stack.mem exact).expressionType)
    | none => do
      let getter ← findGetter stack name
      match getter with
      | some g =>
        if argc != 0 then errorExit SEM_ARG
        else Except.ok (setTypeOf types node (symAt stack.mem g).expressionType)
      | none => do
        let setter ← findSetter stack name
        match setter with
        | some _ => errorExit SEM_TYPE
        | none => do
          let overload ← findFunctionAnyArity stack name
          match overload with
          | some _ => errorExit SEM_ARG
          | none => errorExit SEM_UNDEF
  | .leaf _ AstNodeType.AST_FUN_CALL _ => Except.error Err.undefinedBehaviour
  | .list _ AstNodeType.AST_FUN_CALL _ _ => Except.error Err.undefinedBehaviour
  | _ => Except.ok types

/-- The function `resolveRecursive`: the store of expression types and the symbol
table after it. -/
def resolveRecursive :
    Option AstNode → SymTableStack → List ExprType → Except Err (List ExprType × SymTableStack)
  | none, stack, types => Except.ok (types, stack)
  | some (.bin i AstNodeType.AST_VAR_ASSIGN _ left right), stack, types =>
    match resolveRecursive right stack types with
    | Except.error e => Except.error e
    | Except.ok (types1, stack1) =>
      match left with
      | none => Except.error Err.undefinedBehaviour
      | some l =>
        let propagated : Except Err (List ExprType × SymTableStack) :=
          if typeOf types1 l = TYPE_UNKNOWN then
            match right with
            | none => Except.error Err.undefinedBehaviour
            | some r =>
              let types2 := setTypeOf types1 l (typeOf types1 r)
              if l.type = AstNodeType.AST_IDENTIFIER then
                match tokenString l.token with
                | Except.error e => Except.error e
                | Except.ok name =>
                  match symTableStackFindSymbol stack1 name with
                  | some a =>
                    let mem1 := memUpdate stack1.mem a
                      (fun sym => { sym with expressionType := typeOf types2 r })
                    Except.ok (types2, { stack1 with mem := mem1 })
                  | none =>
                    match addSymbolAt stack1 (stackTop stack1)
                        (symbolCreate name (typeOf types2 r) SymbolKind.SYM_VAR 0) with
                    | Except.error e => Except.error e
                    | Except.ok (_, stack2) => Except.ok (types2, stack2)
              else Except.ok (types2, stack1)
          else Except.ok (types1, stack1)
        match propagated with
        | Except.error e => Except.error e
        | Except.ok (types3, stack3) =>
          match semanticAssignment left right types3 with
          | Except.error e => Except.error e
          | Except.ok types4 =>
            Except.ok (types4.set i (typeOf types4 l), stack3)
  | some (.bin i AstNodeType.AST_EXPRESSION tok left right), stack, types =>
    match resolveRecursive left stack types with
    | Except.error e => Except.error e
    | Except.ok (types1, stack1) =>
      match resolveRecursive right stack1 types1 with
      | Except.error e => Except.error e
      | Except.ok (types2, stack2) =>
        match checkBinaryTypesAt types2 left tok.type right with
        | Except.error e => Except.error e
        | Except.ok false => errorExit SEM_TYPE
        | Except.ok true =>
          match getBinaryResultTypeAt types2 left tok.type right with
          | Except.error e => Except.error e
          | Except.ok t => Except.ok (types2.set i t, stack2)
  | some (.bin i AstNodeType.AST_IFJ _ _ right), stack, types =>
    match right with
    | none => Except.error Err.undefinedBehaviour
    | some r => Except.ok (types.set i (typeOf types r), stack)
  | some (.leaf i AstNodeType.AST_IDENTIFIER tok), stack, types =>
    match tokenString tok with
    | Except.error e => Except.error e
    | Except.ok name =>
      match symTableStackFindSymbol stack name with
      | some a => Except.ok (types.set i (symAt stack.mem a).expressionType, stack)
      | none => Except.ok (types, stack)
  | some (.bin i AstNodeType.AST_FUN_CALL tok left right), stack, types =>
    match checkFunctionCallNode (.bin i AstNodeType.AST_FUN_CALL tok left right) stack types with
    | Except.error e => Except.error e
    | Except.ok types1 => Except.ok (types1, stack)
  | some (.leaf _ AstNodeType.AST_FUN_CALL _), _, _ => Except.error Err.undefinedBehaviour
  | some (.list _ AstNodeType.AST_FUN_CALL _ _), _, _ => Except.error Err.undefinedBehaviour
  | some (.leaf _ AstNodeType.AST_VAR_ASSIGN _), _, _ => Except.error Err.undefinedBehaviour
  | some (.list _ AstNodeType.AST_VAR_ASSIGN _ _), _, _ => Except.error Err.undefinedBehaviour
  | some (.leaf _ AstNodeType.AST_EXPRESSION _), _, _ => Except.error Err.undefinedBehaviour
  | some (.list _ AstNodeType.AST_EXPRESSION _ _), _, _ => Except.error Err.undefinedBehaviour
  | some (.leaf _ AstNodeType.AST_IFJ _), _, _ => Except.error Err.undefinedBehaviour
  | some (.list _ AstNodeType.AST_IFJ _ _), _, _ => Except.error Err.undefinedBehaviour
  | some (.bin _ AstNodeType.AST_IDENTIFIER _ _ _), _, _ => Except.error Err.undefinedBehaviour
  | some (.list _ AstNodeType.AST_IDENTIFIER _ _), _, _ => Except.error Err.undefinedBehaviour
  | some _, stack, types => Except.ok (types, stack)
termination_by node => nodeCountOpt node
decreasing_by
  all_goals simp only [nodeCountOpt, nodeCount]
  all_goals omega

/-- The function `semanticResolveCheckLater`. -/
def semanticResolveCheckLater :
    List AstNode → SymTableStack → List ExprType → Except Err (List ExprType × SymTableStack)
  | [], stack, types => Except.ok (types, stack)
  | node :: rest, stack, types =>
    match resolveRecursive (some node) stack types with
    | Except.error e => Except.error e
    | Except.ok (types1, stack1) => semanticResolveCheckLater rest stack1 types1

/-- The loop of `checkFunDec` over the entries of the scope. -/
def checkFunDecIn (mem : List Symbol) : List Slot → Except Err Bool
  | [] => Except.ok true
  | Slot.sym a :: rest =>
    if ((symAt mem a).kind = SymbolKind.SYM_FUNC ∨ (symAt mem a).kind = SymbolKind.SYM_GET ∨
        (symAt mem a).kind = SymbolKind.SYM_SET) ∧ !(symAt mem a).declared
    then errorExit SEM_UNDEF
    else checkFunDecIn mem rest
  | _ :: rest => checkFunDecIn mem rest

/-- The function `checkFunDec`. -/
def checkFunDec (mem : List Symbol) (globalScope : Scope) : Except Err Bool :=
  checkFunDecIn mem globalScope.symbols

/-! ## codegen.h, codegen.c

The text written by `emit` and `emitLine` is kept as the list of its lines.  Every call
of the two functions in `codegen.c` ends the line it writes; a format that starts or
ends with a further line feed adds an empty line before or after. -/

structure CodeGenerator where
  symStack : SymTableStack
  labelCounter : Nat
  tempVarCounter : Nat
  inFunction : Bool
  frameDepth : Nat
  deriving DecidableEq, Repr

/-- What a generating function gives back: the lines it emits and the state. -/
abbrev GenResult := Except Err (List String × CodeGenerator)

/-- The type of `genNode`, handed to the generating functions that call it on their
children: `genNode` with less fuel. -/
abbrev Gen := AstNode → CodeGenerator → GenResult

/-- The function `codeGeneratorInit`. -/
def codeGeneratorInit (symStack : SymTableStack) : CodeGenerator :=
  { symStack := symStack, labelCounter := 0, tempVarCounter := 0, inFunction := false,
    frameDepth := 0 }

/-- The function `genUniqueLabel`: the label and the state with the counter advanced. -/
def genUniqueLabel (gen : CodeGenerator) (base : String) : String × CodeGenerator :=
  ("$" ++ base ++ "_" ++ toString gen.labelCounter,
   { gen with labelCounter := gen.labelCounter + 1 })

/-- The function `genTempVar`. -/
def genTempVar (gen : CodeGenerator) : String × CodeGenerator :=
  ("$$tmp_" ++ toString gen.tempVarCounter,
   { gen with tempVarCounter := gen.tempVarCounter + 1 })

/-- The operand `LF@name$depth`. -/
def lfVar (name : String) (depth : Nat) : String := "LF@" ++ name ++ "$" ++ toString depth

/-- The hexadecimal digit of a number below 16, in lower case. -/
def lowerHexDigit (n : Nat) : Char := if n < 10 then Char.ofNat (48 + n) else Char.ofNat (87 + n)

/-- The fraction of a double in thirteen hexadecimal digits, without the zeros at the
end. -/
def hexFraction (fraction : Nat) : List Char :=
  (((List.range 13).map (fun i => lowerHexDigit (fraction / 16 ^ (12 - i) % 16))).reverse.dropWhile
    (fun c => c == '0')).reverse

/-- The text that `printf` writes for `%a` and a double that is not negative, given by
its 64 bits: the leading digit is 1 for a normal number and 0 for zero and for a
subnormal number, the fraction has no zeros at the end, and the point is left out when
the fraction is zero. -/
def formatHexFloat (bits : Nat) : String :=
  let field := bits / 2 ^ 52 % 2048
  let fraction := bits % 2 ^ 52
  let point : String :=
    if fraction = 0 then "" else "." ++ String.mk (hexFraction fraction)
  if field = 2047 then (if fraction = 0 then "inf" else "nan")
  else if field = 0 then (if fraction = 0 then "0x0p+0" else "0x0" ++ point ++ "p-1022")
  else if 1023 ≤ field then "0x1" ++ point ++ "p+" ++ toString (field - 1023)
  else "0x1" ++ point ++ "p-" ++ toString (1023 - field)

/-- The text that `printf` writes for `\\%03d` and a byte. -/
def escapeByte (c : Char) : String :=
  String.mk [chBackslash, Char.ofNat (48 + c.toNat / 100 % 10),
    Char.ofNat (48 + c.toNat / 10 % 10), Char.ofNat (48 + c.toNat % 10)]

/-- The loop of `genLiteral` over the bytes of a string literal. -/
def escapeLiteral : List Char → String
  | [] => ""
  | c :: rest =>
    (if c.toNat ≤ 32 ∨ c.toNat = 35 ∨ c.toNat = 92 then escapeByte c else String.mk [c]) ++
      escapeLiteral rest

/-- The function `genLiteral`. -/
def genLiteral (node : AstNode) : Except Err (List String) :=
  match node.token.type with
  | TokenType.INT_LITERAL =>
    match node.token.value with
    | none => Except.error Err.undefinedBehaviour
    | some v => Except.ok ["PUSHS int@" ++ toString v.intVal]
  | TokenType.FLOAT_LITERAL =>
    match node.token.value with
    | none => Except.error Err.undefinedBehaviour
    | some v => Except.ok ["PUSHS float@" ++ formatHexFloat v.floatVal]
  | TokenType.STRING_LITERAL | TokenType.MULTILINE_STRING_LITERAL => do
    let str ← tokenString node.token
    Except.ok ["PUSHS string@" ++ escapeLiteral str.data]
  | TokenType.KW_VAL_NULL => Except.ok ["PUSHS nil@nil"]
  | TokenType.KW_VAL_TRUE => Except.ok ["PUSHS bool@true"]
  | TokenType.KW_VAL_FALSE => Except.ok ["PUSHS bool@false"]
  | _ => Except.ok []

/-- The function `genType`. -/
def genType (node : AstNode) : List String :=
  match node.token.type with
  | TokenType.KW_TYPE_NUM => ["PUSHS string@float"]
  | TokenType.KW_TYPE_STRING => ["PUSHS string@string"]
  | TokenType.KW_TYPE_BOOL => ["PUSHS string@bool"]
  | TokenType.KW_TYPE_NULL | TokenType.KW_VAL_NULL => ["PUSHS string@nil"]
  | _ => []

/-- The function `genIdentifier`: the symbol is looked up under the name of the token. -/
def genIdentifier (node : AstNode) (codeGen : CodeGenerator) : Except Err (List String) := do
  let name ← tokenString node.token
  match symTableStackFindSymbol codeGen.symStack name with
  | some a =>
    if (symAt codeGen.symStack.mem a).kind = SymbolKind.SYM_GET then
      Except.ok ["CALL " ++ name ++ "_get"]
    else if node.token.type = TokenType.GLOBAL_IDENTIFIER then Except.ok ["PUSHS GF@" ++ name]
    else Except.ok ["PUSHS " ++ lfVar name codeGen.frameDepth]
  | none =>
    if node.token.type = TokenType.GLOBAL_IDENTIFIER then Except.ok ["PUSHS GF@" ++ name]
    else Except.ok ["PUSHS " ++ lfVar name codeGen.frameDepth]

/-- The function `genVarDec`. -/
def genVarDec (node : AstNode) (codeGen : CodeGenerator) : Except Err (List String) :=
  if node.token.type = TokenType.GLOBAL_IDENTIFIER then do
    let name ← tokenString node.token
    Except.ok ["MOVE GF@" ++ name ++ " nil@nil"]
  else if node.token.type = TokenType.IDENTIFIER then do
    let name ← tokenString node.token
    Except.ok ["DEFVAR " ++ lfVar name codeGen.frameDepth,
               "MOVE " ++ lfVar name codeGen.frameDepth ++ " nil@nil"]
  else Except.ok []

/-- A call `genNode(child, codeGen)` where the child may be the null pointer. -/
def genChild (rec : Gen) (child : Option AstNode) (codeGen : CodeGenerator) : GenResult :=
  match child with
  | none => Except.error Err.undefinedBehaviour
  | some n => rec n codeGen

/-- A loop that calls `genNode` on every node of a list, in order. -/
def genEach (rec : Gen) : List AstNode → CodeGenerator → GenResult
  | [], cg => Except.ok ([], cg)
  | n :: rest, cg =>
    match rec n cg with
    | Except.error e => Except.error e
    | Except.ok (out1, cg1) =>
      match genEach rec rest cg1 with
      | Except.error e => Except.error e
      | Except.ok (out2, cg2) => Except.ok (out1 ++ out2, cg2)

/-- The function `genVarAssign`. -/
def genVarAssign (rec : Gen) (node : AstNode) (codeGen : CodeGenerator) : GenResult :=
  match node with
  | .bin _ _ _ left right => do
    let (out, cg1) ← genChild rec right codeGen
    match left with
    | none => Except.error Err.undefinedBehaviour
    | some l => do
      let name ← tokenString l.token
      let isSetter : Bool :=
        match symTableStackFindSymbol cg1.symStack name with
        | some a => decide ((symAt cg1.symStack.mem a).kind = SymbolKind.SYM_SET)
        | none => false
      if isSetter then Except.ok (out ++ ["CALL " ++ name ++ "_set"], cg1)
      else if l.token.type = TokenType.GLOBAL_IDENTIFIER then
        Except.ok (out ++ ["POPS GF@" ++ name, ""], cg1)
      else Except.ok (out ++ ["POPS " ++ lfVar name cg1.frameDepth, ""], cg1)
  | _ => Except.error Err.undefinedBehaviour

/-- The function `genReturn`. -/
def genReturn (rec : Gen) (node : AstNode) (codeGen : CodeGenerator) : GenResult :=
  match node with
  | .bin _ _ _ _ (some r) => do
    let (out, cg1) ← rec r codeGen
    Except.ok (out ++ ["POPFRAME", "RETURN", ""], cg1)
  | .bin _ _ _ _ none => Except.ok (["PUSHS nil@nil", "POPFRAME", "RETURN", ""], codeGen)
  | .leaf _ _ _ => Except.ok (["PUSHS nil@nil", "POPFRAME", "RETURN", ""], codeGen)
  | .list _ _ _ _ => Except.error Err.undefinedBehaviour

/-- The function `genFunCall`. -/
def genFunCall (rec : Gen) (node : AstNode) (codeGen : CodeGenerator) : GenResult :=
  match node with
  | .bin _ _ tok _ argsNode => do
    let name ← tokenString tok
    match argsNode with
    | some (.list _ _ _ items) => do
      let (out, cg1) ← genEach rec items codeGen
      Except.ok (out ++ ["CALL " ++ name ++ "$" ++ toString items.length], cg1)
    | some (.leaf _ _ _) => Except.ok (["CALL " ++ name ++ "$" ++ toString 0], codeGen)
    | some (.bin _ _ _ _ _) => Except.error Err.undefinedBehaviour
    | none => Except.ok (["CALL " ++ name ++ "$" ++ toString 0], codeGen)
  | _ => Except.error Err.undefinedBehaviour

/-- The emission of `genParamsBackwardsRecursive`: last parameter first. -/
def genParamsBackwardsRecursive (depth : Nat) : List AstNode → Except Err (List String)
  | [] => Except.ok []
  | item :: rest => do
    let out ← genParamsBackwardsRecursive depth rest
    let name ← tokenString item.token
    Except.ok (out ++ ["DEFVAR " ++ lfVar name depth, "POPS " ++ lfVar name depth])

/-- The `while` of `genParams` outside a function. -/
def genParamsForward (codeGen : CodeGenerator) : List AstNode → Except Err (List String)
  | [] => Except.ok []
  | item :: rest => do
    let out1 ←
      (match item.token.type with
       | TokenType.IDENTIFIER => genIdentifier item codeGen
       | TokenType.INT_LITERAL | TokenType.FLOAT_LITERAL | TokenType.STRING_LITERAL
       | TokenType.MULTILINE_STRING_LITERAL | TokenType.KW_VAL_TRUE
       | TokenType.KW_VAL_FALSE => genLiteral item
       | _ => Except.ok [])
    let out2 ← genParamsForward codeGen rest
    Except.ok (out1 ++ out2)

/-- The function `genParams`. -/
def genParams (node : AstNode) (codeGen : CodeGenerator) : GenResult :=
  match node with
  | .list _ _ _ items =>
    if codeGen.inFunction then do
      let out ← genParamsBackwardsRecursive codeGen.frameDepth items
      Except.ok (out ++ [""], codeGen)
    else do
      let out ← genParamsForward codeGen items
      Except.ok (out, codeGen)
  | _ => Except.error Err.undefinedBehaviour

/-- The arithmetic instruction that `genDynamicArithmetic` writes for an operator, if
any. -/
def arithInstr (op : TokenType) (withDiv : Bool) : List String :=
  if op = TokenType.PLUS then ["ADDS"]
  else if op = TokenType.MINUS then ["SUBS"]
  else if op = TokenType.MULTIPLY then ["MULS"]
  else if withDiv ∧ op = TokenType.DIVIDE then ["DIVS"]
  else []

/-- The function `genDynamicArithmetic`. -/
def genDynamicArithmetic (op : TokenType) (codeGen : CodeGenerator) :
    List String × CodeGenerator :=
  let d := codeGen.frameDepth
  let (b, cg1) := genTempVar codeGen
  let (a, cg2) := genTempVar cg1
  let (tb, cg3) := genTempVar cg2
  let (ta, cg4) := genTempVar cg3
  let (lEnd, cg5) := genUniqueLabel cg4 "op_end"
  let (strPart, cg6) : List String × CodeGenerator :=
    if op = TokenType.PLUS then
      let (lNotStr, cg) := genUniqueLabel cg5 "not_str"
      (["JUMPIFNEQ " ++ lNotStr ++ " " ++ lfVar ta d ++ " string@string",
        "JUMPIFNEQ " ++ lNotStr ++ " " ++ lfVar tb d ++ " string@string",
        "CONCAT " ++ lfVar a d ++ " " ++ lfVar a d ++ " " ++ lfVar b d,
        "PUSHS " ++ lfVar a d,
        "JUMP " ++ lEnd,
        "LABEL " ++ lNotStr], cg)
    else ([], cg5)
  let (lFloat, cg7) := genUniqueLabel cg6 "op_flt"
  let (lInt, cg8) := genUniqueLabel cg7 "op_int"
  let (lAOk, cg9) := genUniqueLabel cg8 "a_ok"
  let (lBOk, cg10) := genUniqueLabel cg9 "b_ok"
  (["CREATEFRAME", "PUSHFRAME",
    "DEFVAR " ++ lfVar b d, "DEFVAR " ++ lfVar a d, "DEFVAR " ++ lfVar tb d,
    "DEFVAR " ++ lfVar ta d,
    "POPS " ++ lfVar b d, "POPS " ++ lfVar a d,
    "TYPE " ++ lfVar tb d ++ " " ++ lfVar b d,
    "TYPE " ++ lfVar ta d ++ " " ++ lfVar a d] ++
   strPart ++
   (if op = TokenType.DIVIDE then ["JUMP " ++ lFloat] else []) ++
   ["JUMPIFEQ " ++ lFloat ++ " " ++ lfVar ta d ++ " string@float",
    "JUMPIFEQ " ++ lFloat ++ " " ++ lfVar tb d ++ " string@float",
    "LABEL " ++ lInt,
    "PUSHS " ++ lfVar a d, "PUSHS " ++ lfVar b d] ++
   arithInstr op false ++
   ["JUMP " ++ lEnd,
    "LABEL " ++ lFloat,
    "JUMPIFEQ " ++ lAOk ++ " " ++ lfVar ta d ++ " string@float",
    "INT2FLOAT " ++ lfVar a d ++ " " ++ lfVar a d,
    "LABEL " ++ lAOk,
    "JUMPIFEQ " ++ lBOk ++ " " ++ lfVar tb d ++ " string@float",
    "INT2FLOAT " ++ lfVar b d ++ " " ++ lfVar b d,
    "LABEL " ++ lBOk,
    "PUSHS " ++ lfVar a d, "PUSHS " ++ lfVar b d] ++
   arithInstr op true ++
   ["LABEL " ++ lEnd, "POPFRAME"], cg10)

/-- The comparison instruction that `genDynamicComparison` writes for an operator. -/
def cmpInstr (op : TokenType) : List String :=
  if op = TokenType.IS_SMALLER then ["LTS"]
  else if op = TokenType.IS_BIGGER then ["GTS"]
  else if op = TokenType.IS_EQUAL then ["EQS"]
  else []

/-- The function `genDynamicComparison`. -/
def genDynamicComparison (op : TokenType) (codeGen : CodeGenerator) :
    List String × CodeGenerator :=
  let d := codeGen.frameDepth
  let (b, cg1) := genTempVar codeGen
  let (a, cg2) := genTempVar cg1
  let (tb, cg3) := genTempVar cg2
  let (ta, cg4) := genTempVar cg3
  let (lFloat, cg5) := genUniqueLabel cg4 "cmp_flt"
  let (lEnd, cg6) := genUniqueLabel cg5 "cmp_end"
  let (lAOk, cg7) := genUniqueLabel cg6 "cmp_a_ok"
  let (lBOk, cg8) := genUniqueLabel cg7 "cmp_b_ok"
  (["CREATEFRAME", "PUSHFRAME",
    "DEFVAR " ++ lfVar b d, "DEFVAR " ++ lfVar a d, "DEFVAR " ++ lfVar tb d,
    "DEFVAR " ++ lfVar ta d,
    "POPS " ++ lfVar b d, "POPS " ++ lfVar a d,
    "TYPE " ++ lfVar tb d ++ " " ++ lfVar b d,
    "TYPE " ++ lfVar ta d ++ " " ++ lfVar a d,
    "JUMPIFEQ " ++ lFloat ++ " " ++ lfVar ta d ++ " string@float",
    "JUMPIFEQ " ++ lFloat ++ " " ++ lfVar tb d ++ " string@float",
    "PUSHS " ++ lfVar a d, "PUSHS " ++ lfVar b d] ++
   cmpInstr op ++
   ["JUMP " ++ lEnd,
    "LABEL " ++ lFloat,
    "JUMPIFEQ " ++ lAOk ++ " " ++ lfVar ta d ++ " string@float",
    "INT2FLOAT " ++ lfVar a d ++ " " ++ lfVar a d,
    "LABEL " ++ lAOk,
    "JUMPIFEQ " ++ lBOk ++ " " ++ lfVar tb d ++ " string@float",
    "INT2FLOAT " ++ lfVar b d ++ " " ++ lfVar b d,
    "LABEL " ++ lBOk,
    "PUSHS " ++ lfVar a d, "PUSHS " ++ lfVar b d] ++
   cmpInstr op ++
   ["LABEL " ++ lEnd, "POPFRAME"], cg8)

/-- The code of `genOperator` for `&&`. -/
def genLogicalAnd (rec : Gen) (left right : Option AstNode) (codeGen : CodeGenerator) :
    GenResult := do
  let (labEnd, cg1) := genUniqueLabel codeGen "and_end"
  let (labFalse, cg2) := genUniqueLabel cg1 "and_false"
  let (outL, cg3) ← genChild rec left cg2
  let (tmp, cg4) := genTempVar cg3
  let d := cg4.frameDepth
  let (outR, cg5) ← genChild rec right cg4
  Except.ok (outL ++
    ["DEFVAR " ++ lfVar tmp d, "POPS " ++ lfVar tmp d,
     "JUMPIFEQ " ++ labFalse ++ " " ++ lfVar tmp d ++ " bool@false",
     "JUMPIFEQ " ++ labFalse ++ " " ++ lfVar tmp d ++ " nil@nil"] ++
    outR ++
    ["JUMP " ++ labEnd, "LABEL " ++ labFalse, "PUSHS bool@false", "LABEL " ++ labEnd], cg5)

/-- The code of `genOperator` for `||`. -/
def genLogicalOr (rec : Gen) (left right : Option AstNode) (codeGen : CodeGenerator) :
    GenResult := do
  let (labEnd, cg1) := genUniqueLabel codeGen "or_end"
  let (labTrue, cg2) := genUniqueLabel cg1 "or_true"
  let (outL, cg3) ← genChild rec left cg2
  let (tmp, cg4) := genTempVar cg3
  let d := cg4.frameDepth
  let (checkNil, cg5) := genUniqueLabel cg4 "or_check_nil"
  let (goCalcB, cg6) := genUniqueLabel cg5 "or_calc_b"
  let (outR, cg7) ← genChild rec right cg6
  Except.ok (outL ++
    ["DEFVAR " ++ lfVar tmp d, "POPS " ++ lfVar tmp d,
     "JUMPIFEQ " ++ checkNil ++ " " ++ lfVar tmp d ++ " bool@false",
     "JUMP " ++ labTrue,
     "LABEL " ++ checkNil,
     "JUMPIFEQ " ++ goCalcB ++ " " ++ lfVar tmp d ++ " nil@nil",
     "JUMP " ++ labTrue,
     "LABEL " ++ goCalcB] ++
    outR ++
    ["JUMP " ++ labEnd, "LABEL " ++ labTrue, "PUSHS bool@true", "LABEL " ++ labEnd], cg7)

/-- The code of `genOperator` for `is`. -/
def genIsOperator (codeGen : CodeGenerator) : List String × CodeGenerator :=
  let d := codeGen.frameDepth
  let (wantedType, cg1) := genTempVar codeGen
  let (val, cg2) := genTempVar cg1
  let (actualType, cg3) := genTempVar cg2
  let (labIsTrue, cg4) := genUniqueLabel cg3 "is_true"
  let (labIsFalse, cg5) := genUniqueLabel cg4 "is_false"
  let (endIs, cg6) := genUniqueLabel cg5 "is_end"
  let (checkExact, cg7) := genUniqueLabel cg6 "is_check_exact"
  (["DEFVAR " ++ lfVar wantedType d, "DEFVAR " ++ lfVar val d, "DEFVAR " ++ lfVar actualType d,
    "POPS " ++ lfVar wantedType d, "POPS " ++ lfVar val d,
    "TYPE " ++ lfVar actualType d ++ " " ++ lfVar val d,
    "JUMPIFNEQ " ++ checkExact ++ " " ++ lfVar wantedType d ++ " string@float",
    "JUMPIFEQ " ++ labIsTrue ++ " " ++ lfVar actualType d ++ " string@int",
    "JUMPIFEQ " ++ labIsTrue ++ " " ++ lfVar actualType d ++ " string@float",
    "JUMP " ++ labIsFalse,
    "LABEL " ++ checkExact,
    "JUMPIFEQ " ++ labIsTrue ++ " " ++ lfVar actualType d ++ " " ++ lfVar wantedType d,
    "LABEL " ++ labIsFalse,
    "PUSHS bool@false",
    "JUMP " ++ endIs,
    "LABEL " ++ labIsTrue,
    "PUSHS bool@true",
    "LABEL " ++ endIs], cg7)

/-- The function `genOperator`. -/
def genOperator (rec : Gen) (node : AstNode) (codeGen : CodeGenerator) : GenResult :=
  match node with
  | .bin _ _ tok left right =>
    if tok.type = TokenType.LOGICAL_AND then genLogicalAnd rec left right codeGen
    else if tok.type = TokenType.LOGICAL_OR then genLogicalOr rec left right codeGen
    else do
      let (outL, cg1) ← genChild rec left codeGen
      let (outR, cg2) ← genChild rec right cg1
      let (outOp, cg3) ←
        (match tok.type with
         | TokenType.PLUS | TokenType.MINUS | TokenType.MULTIPLY | TokenType.DIVIDE =>
           Except.ok (genDynamicArithmetic tok.type cg2)
         | TokenType.IS_SMALLER => Except.ok (genDynamicComparison TokenType.IS_SMALLER cg2)
         | TokenType.IS_BIGGER => Except.ok (genDynamicComparison TokenType.IS_BIGGER cg2)
         | TokenType.IS_EQUAL => Except.ok (genDynamicComparison TokenType.IS_EQUAL cg2)
         | TokenType.IS_NOT_EQUAL =>
           Except.ok ((genDynamicComparison TokenType.IS_EQUAL cg2).1 ++ ["NOTS"],
                      (genDynamicComparison TokenType.IS_EQUAL cg2).2)
         | TokenType.IS_SMALLER_OR_EQUAL =>
           Except.ok ((genDynamicComparison TokenType.IS_BIGGER cg2).1 ++ ["NOTS"],
                      (genDynamicComparison TokenType.IS_BIGGER cg2).2)
         | TokenType.IS_BIGGER_OR_EQUAL =>
           Except.ok ((genDynamicComparison TokenType.IS_SMALLER cg2).1 ++ ["NOTS"],
                      (genDynamicComparison TokenType.IS_SMALLER cg2).2)
         | TokenType.KW_IS => Except.ok (genIsOperator cg2)
         | _ => errorExit INTERNAL_ERROR)
      Except.ok (outL ++ outR ++ outOp, cg3)
  | _ => Except.error Err.undefinedBehaviour

/-- The head of a function, getter or setter: the depth is raised, `inFunction` set,
and the label and the frame are written. -/
def genFunHead (label : String) (codeGen : CodeGenerator) : List String × CodeGenerator :=
  (["", "LABEL " ++ label, "CREATEFRAME", "PUSHFRAME", ""],
   { codeGen with frameDepth := codeGen.frameDepth + 1, inFunction := true })

/-- The default end of a function: a nil result, then `inFunction` is cleared and the
depth lowered. -/
def genFunTail (codeGen : CodeGenerator) : List String × CodeGenerator :=
  (["PUSHS nil@nil", "POPFRAME", "RETURN", ""],
   { codeGen with inFunction := false, frameDepth := codeGen.frameDepth - 1 })

/-- The function `genFunDec`; `children` is `genNodeChildren`. -/
def genFunDec (children : Gen) (node : AstNode) (codeGen : CodeGenerator) : GenResult :=
  match node with
  | .bin _ _ tok left _ => do
    let paramCount ←
      (match left with
       | none => Except.ok 0
       | some (.list _ _ _ items) => Except.ok items.length
       | some _ => Except.error Err.undefinedBehaviour)
    let name ← tokenString tok
    let (head, cg1) := genFunHead (name ++ "$" ++ toString paramCount) codeGen
    let (body, cg2) ← children node cg1
    let (tail, cg3) := if cg2.inFunction then genFunTail cg2 else ([], cg2)
    Except.ok (head ++ body ++ tail ++
      (if name = "main" ∧ paramCount = 0 then ["EXIT int@0"] else []), cg3)
  | _ => Except.error Err.undefinedBehaviour

/-- The function `genFunSet`. -/
def genFunSet (children : Gen) (node : AstNode) (codeGen : CodeGenerator) : GenResult := do
  let name ← tokenString node.token
  let (head, cg1) := genFunHead (name ++ "_set") codeGen
  let (body, cg2) ← children node cg1
  let (tail, cg3) := genFunTail cg2
  Except.ok (head ++ body ++ tail, cg3)

/-- The function `genFunGet`. -/
def genFunGet (children : Gen) (node : AstNode) (codeGen : CodeGenerator) : GenResult := do
  let name ← tokenString node.token
  let (head, cg1) := genFunHead (name ++ "_get") codeGen
  let (body, cg2) ← children node cg1
  let (tail, cg3) := genFunTail cg2
  Except.ok (head ++ body ++ tail, cg3)

/-- The function `genIfStmt`. -/
def genIfStmt (rec : Gen) (node : AstNode) (codeGen : CodeGenerator) : GenResult :=
  match node with
  | .bin _ _ _ (some cond) (some body) => do
    let (labelEnd, cg1) := genUniqueLabel codeGen "if_end"
    let (outC, cg2) ← rec cond cg1
    let (condRes, cg3) := genTempVar cg2
    let d := cg3.frameDepth
    let (labelSkip, cg4) := genUniqueLabel cg3 "if_skip"
    let (outB, cg5) ← rec body cg4
    Except.ok (["# If statement"] ++ outC ++
      ["CREATEFRAME", "PUSHFRAME",
       "DEFVAR " ++ lfVar condRes d, "POPS " ++ lfVar condRes d,
       "JUMPIFEQ " ++ labelSkip ++ " " ++ lfVar condRes d ++ " bool@false",
       "JUMPIFEQ " ++ labelSkip ++ " " ++ lfVar condRes d ++ " nil@nil",
       "POPFRAME"] ++
      outB ++
      ["JUMP " ++ labelEnd, "LABEL " ++ labelSkip, "POPFRAME", "LABEL " ++ labelEnd], cg5)
  | .bin _ _ _ _ _ => Except.ok ([], codeGen)
  | .leaf _ _ _ => Except.ok ([], codeGen)
  | .list _ _ _ _ => Except.error Err.undefinedBehaviour

/-- The function `genIfElseStmt`: the right child is read as a pair of blocks. -/
def genIfElseStmt (rec : Gen) (node : AstNode) (codeGen : CodeGenerator) : GenResult :=
  match node with
  | .bin _ _ _ (some cond) (some (.bin _ _ _ trueBlock falseBlock)) => do
    let (labelElse, cg1) := genUniqueLabel codeGen "if_else"
    let (labelEnd, cg2) := genUniqueLabel cg1 "if_end"
    let (outC, cg3) ← rec cond cg2
    let (condRes, cg4) := genTempVar cg3
    let d := cg4.frameDepth
    let (labelFalseJump, cg5) := genUniqueLabel cg4 "if_fail_jump"
    let (outT, cg6) ← genChild rec trueBlock cg5
    let (outF, cg7) ← genChild rec falseBlock cg6
    Except.ok (outC ++
      ["CREATEFRAME", "PUSHFRAME",
       "DEFVAR " ++ lfVar condRes d, "POPS " ++ lfVar condRes d,
       "JUMPIFEQ " ++ labelFalseJump ++ " " ++ lfVar condRes d ++ " bool@false",
       "JUMPIFEQ " ++ labelFalseJump ++ " " ++ lfVar condRes d ++ " nil@nil",
       "POPFRAME"] ++
      outT ++
      ["JUMP " ++ labelEnd, "LABEL " ++ labelFalseJump, "POPFRAME", "LABEL " ++ labelElse] ++
      outF ++
      ["LABEL " ++ labelEnd], cg7)
  | .bin _ _ _ (some _) (some (.leaf _ _ _)) => Except.ok ([], codeGen)
  | .bin _ _ _ (some _) (some (.list _ _ _ _)) => Except.error Err.undefinedBehaviour
  | .bin _ _ _ _ _ => Except.ok ([], codeGen)
  | .leaf _ _ _ => Except.ok ([], codeGen)
  | .list _ _ _ _ => Except.error Err.undefinedBehaviour

/-- The function `genWhileStmt`. -/
def genWhileStmt (rec : Gen) (node : AstNode) (codeGen : CodeGenerator) : GenResult :=
  match node with
  | .bin _ _ _ (some cond) (some body) => do
    let (labelStart, cg1) := genUniqueLabel codeGen "while_start"
    let (labelEnd, cg2) := genUniqueLabel cg1 "while_end"
    let (condRes, cg3) := genTempVar cg2
    let d0 := cg3.frameDepth
    let (outC, cg4) ← rec cond cg3
    let d := cg4.frameDepth
    let (outB, cg5) ← rec body cg4
    Except.ok (["DEFVAR " ++ lfVar condRes d0, "# While loop", "LABEL " ++ labelStart] ++
      outC ++
      ["POPS " ++ lfVar condRes d,
       "JUMPIFEQ " ++ labelEnd ++ " " ++ lfVar condRes d ++ " bool@false",
       "JUMPIFEQ " ++ labelEnd ++ " " ++ lfVar condRes d ++ " nil@nil"] ++
      outB ++
      ["JUMP " ++ labelStart, "LABEL " ++ labelEnd], cg5)
  | .bin _ _ _ _ _ => Except.ok ([], codeGen)
  | .leaf _ _ _ => Except.ok ([], codeGen)
  | .list _ _ _ _ => Except.error Err.undefinedBehaviour

/-- The function `escapeString`, the encoder that `genIfj` uses for a string argument. -/
def escapeString : List Char → String
  | [] => ""
  | c :: rest =>
    (if c = chBackslash then String.mk [chBackslash, chBackslash]
     else if c = chQuote then String.mk [chBackslash, chQuote]
     else if c = chNewline then String.mk [chBackslash, '0', '1', '0']
     else if c.toNat = 9 then String.mk [chBackslash, '0', '0', '9']
     else if c.toNat ≤ 32 then escapeByte c
     else String.mk [c]) ++ escapeString rest

/-- The loop of `genIfj` that moves every argument into a new temporary: the lines,
the names of the temporaries and the state. -/
def genIfjArgs (rec : Gen) :
    List AstNode → CodeGenerator → Except Err (List String × List String × CodeGenerator)
  | [], cg => Except.ok ([], [], cg)
  | p :: rest, cg => do
    let (tmp, cg1) := genTempVar cg
    let d := cg1.frameDepth
    let (lines, cg2) ←
      (if p.type = AstNodeType.AST_IDENTIFIER then do
         let name ← tokenString p.token
         if p.token.type = TokenType.GLOBAL_IDENTIFIER then
           Except.ok (["MOVE " ++ lfVar tmp d ++ " GF@" ++ name], cg1)
         else Except.ok (["MOVE " ++ lfVar tmp d ++ " " ++ lfVar name d], cg1)
       else if p.type = AstNodeType.AST_LITERAL then
         match p.token.type with
         | TokenType.INT_LITERAL =>
           match p.token.value with
           | none => Except.error Err.undefinedBehaviour
           | some v => Except.ok (["MOVE " ++ lfVar tmp d ++ " int@" ++ toString v.intVal], cg1)
         | TokenType.FLOAT_LITERAL =>
           match p.token.value with
           | none => Except.error Err.undefinedBehaviour
           | some v =>
             Except.ok (["MOVE " ++ lfVar tmp d ++ " float@" ++ formatHexFloat v.floatVal], cg1)
         | TokenType.STRING_LITERAL | TokenType.MULTILINE_STRING_LITERAL => do
           let str ← tokenString p.token
           Except.ok (["MOVE " ++ lfVar tmp d ++ " string@" ++ escapeString str.data], cg1)
         | TokenType.KW_VAL_TRUE => Except.ok (["MOVE " ++ lfVar tmp d ++ " bool@true"], cg1)
         | TokenType.KW_VAL_FALSE => Except.ok (["MOVE " ++ lfVar tmp d ++ " bool@false"], cg1)
         | TokenType.KW_VAL_NULL => Except.ok (["MOVE " ++ lfVar tmp d ++ " nil@nil"], cg1)
         | _ => errorExit INTERNAL_ERROR
       else do
         let (out, cg) ← rec p cg1
         Except.ok (out ++ ["POPS " ++ lfVar tmp cg.frameDepth], cg))
    let (linesRest, tmps, cg3) ← genIfjArgs rec rest cg2
    Except.ok (["DEFVAR " ++ lfVar tmp d] ++ lines ++ linesRest, tmp :: tmps, cg3)

/-- The check that several templates of `genIfj` repeat: the type of `v` is read into
`t` and compared with `wanted`; a jump to `label` on a match, else exit 25. -/
def ifjTypeGuard (t v : String) (d : Nat) (wanted label : String) : List String :=
  ["DEFVAR " ++ lfVar t d,
   "TYPE " ++ lfVar t d ++ " " ++ lfVar v d,
   "JUMPIFEQ " ++ label ++ " " ++ lfVar t d ++ " string@" ++ wanted,
   "EXIT int@25",
   "LABEL " ++ label]

/-- The template of `Ifj.floor`.  (The source calls `ememitLineit` for the first line;
it is read as `emitLine`.) -/
def genIfjFloor (inp : String) (cg : CodeGenerator) : List String × CodeGenerator :=
  let d := cg.frameDepth
  let (res, cg1) := genTempVar cg
  let (typeTmp, cg2) := genTempVar cg1
  let (labelIsInt, cg3) := genUniqueLabel cg2 "is_int"
  let (labelIsFloat, cg4) := genUniqueLabel cg3 "is_float"
  let (labelDone, cg5) := genUniqueLabel cg4 "floor_done"
  (["DEFVAR " ++ lfVar res d,
    "DEFVAR " ++ lfVar typeTmp d,
    "TYPE " ++ lfVar typeTmp d ++ " " ++ lfVar inp d,
    "JUMPIFEQ " ++ labelIsInt ++ " " ++ lfVar typeTmp d ++ " string@int",
    "JUMPIFEQ " ++ labelIsFloat ++ " " ++ lfVar typeTmp d ++ " string@float",
    "EXIT int@25",
    "LABEL " ++ labelIsInt,
    "MOVE " ++ lfVar res d ++ " " ++ lfVar inp d, "",
    "JUMP " ++ labelDone,
    "LABEL " ++ labelIsFloat,
    "FLOAT2INT " ++ lfVar res d ++ " " ++ lfVar inp d,
    "LABEL " ++ labelDone,
    "PUSHS " ++ lfVar res d], cg5)

/-- The template of `Ifj.str`. -/
def genIfjStr (inp : String) (cg : CodeGenerator) : List String × CodeGenerator :=
  let d := cg.frameDepth
  let (res, cg1) := genTempVar cg
  let (typeTmp, cg2) := genTempVar cg1
  let (labelStrDone, cg3) := genUniqueLabel cg2 "str_done"
  let (labelIsStr, cg4) := genUniqueLabel cg3 "is_str"
  let (labelIsInt, cg5) := genUniqueLabel cg4 "is_int"
  let (labelIsFloat, cg6) := genUniqueLabel cg5 "is_float"
  let (labelIsBool, cg7) := genUniqueLabel cg6 "is_bool"
  let (labelIsNil, cg8) := genUniqueLabel cg7 "is_nil"
  let (boolLabel, cg9) := genUniqueLabel cg8 "bool_true"
  (["DEFVAR " ++ lfVar res d,
    "DEFVAR " ++ lfVar typeTmp d,
    "TYPE " ++ lfVar typeTmp d ++ " " ++ lfVar inp d,
    "JUMPIFEQ " ++ labelIsStr ++ " " ++ lfVar typeTmp d ++ " string@string",
    "JUMPIFEQ " ++ labelIsInt ++ " " ++ lfVar typeTmp d ++ " string@int",
    "JUMPIFEQ " ++ labelIsFloat ++ " " ++ lfVar typeTmp d ++ " string@float",
    "JUMPIFEQ " ++ labelIsBool ++ " " ++ lfVar typeTmp d ++ " string@bool",
    "JUMPIFEQ " ++ labelIsNil ++ " " ++ lfVar typeTmp d ++ " string@nil",
    "MOVE " ++ lfVar res d ++ " string@UNKNOWN",
    "JUMP " ++ labelStrDone,
    "LABEL " ++ labelIsStr,
    "MOVE " ++ lfVar res d ++ " " ++ lfVar inp d, "",
    "JUMP " ++ labelStrDone,
    "LABEL " ++ labelIsInt,
    "INT2STR " ++ lfVar res d ++ " " ++ lfVar inp d, "",
    "JUMP " ++ labelStrDone,
    "LABEL " ++ labelIsFloat,
    "FLOAT2STR " ++ lfVar res d ++ " " ++ lfVar inp d, "",
    "JUMP " ++ labelStrDone,
    "LABEL " ++ labelIsBool,
    "JUMPIFEQ " ++ boolLabel ++ " " ++ lfVar inp d ++ " bool@true",
    "MOVE " ++ lfVar res d ++ " string@false",
    "JUMP " ++ labelStrDone,
    "LABEL " ++ boolLabel,
    "MOVE " ++ lfVar res d ++ " string@true",
    "JUMP " ++ labelStrDone,
    "LABEL " ++ labelIsNil,
    "MOVE " ++ lfVar res d ++ " string@null",
    "LABEL " ++ labelStrDone,
    "PUSHS " ++ lfVar res d], cg9)

/-- The template of `Ifj.length`. -/
def genIfjLength (inp endLabel : String) (cg : CodeGenerator) : List String × CodeGenerator :=
  let d := cg.frameDepth
  let (res, cg1) := genTempVar cg
  let (typeTmp, cg2) := genTempVar cg1
  (["DEFVAR " ++ lfVar res d] ++ ifjTypeGuard typeTmp inp d "string" endLabel ++
   ["STRLEN " ++ lfVar res d ++ " " ++ lfVar inp d,
    "PUSHS " ++ lfVar res d], cg2)

/-- The template of `Ifj.strcmp`. -/
def genIfjStrcmp (a b endLabel : String) (cg : CodeGenerator) : List String × CodeGenerator :=
  let d := cg.frameDepth
  let (res, cg1) := genTempVar cg
  let (t1, cg2) := genTempVar cg1
  let (t2, cg3) := genTempVar cg2
  let (labelLt, cg4) := genUniqueLabel cg3 "strcmp_lt"
  let (labelEq, cg5) := genUniqueLabel cg4 "strcmp_eq"
  let (labelDone, cg6) := genUniqueLabel cg5 "strcmp_done"
  (["DEFVAR " ++ lfVar res d,
    "DEFVAR " ++ lfVar t1 d,
    "DEFVAR " ++ lfVar t2 d,
    "TYPE " ++ lfVar t1 d ++ " " ++ lfVar a d,
    "TYPE " ++ lfVar t2 d ++ " " ++ lfVar b d,
    "JUMPIFEQ " ++ endLabel ++ " " ++ lfVar t1 d ++ " string@string",
    "EXIT int@25",
    "LABEL " ++ endLabel,
    "JUMPIFEQ " ++ endLabel ++ " " ++ lfVar t2 d ++ " string@string",
    "EXIT int@25",
    "LABEL " ++ endLabel,
    "LT " ++ lfVar res d ++ " " ++ lfVar a d ++ " " ++ lfVar b d,
    "JUMPIFEQ " ++ labelLt ++ " " ++ lfVar res d ++ " bool@true",
    "EQ " ++ lfVar res d ++ " " ++ lfVar a d ++ " " ++ lfVar b d,
    "JUMPIFEQ " ++ labelEq ++ " " ++ lfVar res d ++ " bool@true",
    "MOVE " ++ lfVar res d ++ " int@1",
    "JUMP " ++ labelDone,
    "LABEL " ++ labelLt,
    "MOVE " ++ lfVar res d ++ " int@-1",
    "JUMP " ++ labelDone,
    "LABEL " ++ labelEq,
    "MOVE " ++ lfVar res d ++ " int@0",
    "LABEL " ++ labelDone,
    "PUSHS " ++ lfVar res d], cg6)

/-- The template of `Ifj.ord`. -/
def genIfjOrd (s i endLabel : String) (cg : CodeGenerator) : List String × CodeGenerator :=
  let d := cg.frameDepth
  let (res, cg1) := genTempVar cg
  let (tt, cg2) := genTempVar cg1
  let (tt2, cg3) := genTempVar cg2
  let (len, cg4) := genTempVar cg3
  let (cmpRes, cg5) := genTempVar cg4
  let (retZero, cg6) := genUniqueLabel cg5 "ord_zero"
  let (doOrd, cg7) := genUniqueLabel cg6 "ord_do"
  (["DEFVAR " ++ lfVar res d] ++ ifjTypeGuard tt s d "string" endLabel ++
   ifjTypeGuard tt2 i d "int" endLabel ++
   ["DEFVAR " ++ lfVar len d,
    "DEFVAR " ++ lfVar cmpRes d,
    "STRLEN " ++ lfVar len d ++ " " ++ lfVar s d,
    "LT " ++ lfVar cmpRes d ++ " " ++ lfVar i d ++ " int@0",
    "JUMPIFEQ " ++ retZero ++ " " ++ lfVar cmpRes d ++ " bool@true",
    "LT " ++ lfVar cmpRes d ++ " " ++ lfVar i d ++ " " ++ lfVar len d,
    "JUMPIFEQ " ++ retZero ++ " " ++ lfVar cmpRes d ++ " bool@false",
    "STRI2INT " ++ lfVar res d ++ " " ++ lfVar s d ++ " " ++ lfVar i d,
    "JUMP " ++ doOrd,
    "LABEL " ++ retZero,
    "MOVE " ++ lfVar res d ++ " int@0",
    "LABEL " ++ doOrd,
    "PUSHS " ++ lfVar res d], cg7)

/-- The template of `Ifj.chr`. -/
def genIfjChr (i endLabel : String) (cg : CodeGenerator) : List String × CodeGenerator :=
  let d := cg.frameDepth
  let (res, cg1) := genTempVar cg
  let (tt, cg2) := genTempVar cg1
  (["DEFVAR " ++ lfVar res d] ++ ifjTypeGuard tt i d "int" endLabel ++
   ["INT2CHAR " ++ lfVar res d ++ " " ++ lfVar i d,
    "PUSHS " ++ lfVar res d], cg2)

/-- The template of `Ifj.substring`.  The block declares a second `endLabel`, the label
"substr_end", which is the one in force from its declaration on. -/
def genIfjSubstring (s i j endLabel : String) (cg : CodeGenerator) :
    List String × CodeGenerator :=
  let d := cg.frameDepth
  let (tt, cg1) := genTempVar cg
  let (tt2, cg2) := genTempVar cg1
  let (tt3, cg3) := genTempVar cg2
  let (len, cg4) := genTempVar cg3
  let (_, cg5) := genUniqueLabel cg4 "substr_ok"
  let (returnNil, cg6) := genUniqueLabel cg5 "substr_nil"
  let (res, cg7) := genTempVar cg6
  let (idx, cg8) := genTempVar cg7
  let (loopLabel, cg9) := genUniqueLabel cg8 "substr_loop"
  let (endLabel2, cg10) := genUniqueLabel cg9 "substr_end"
  let (tmpchar, cg11) := genTempVar cg10
  let (one, cg12) := genTempVar cg11
  (ifjTypeGuard tt s d "string" endLabel ++
   ifjTypeGuard tt2 i d "int" endLabel ++
   ifjTypeGuard tt3 j d "int" endLabel ++
   ["DEFVAR " ++ lfVar len d,
    "STRLEN " ++ lfVar len d ++ " " ++ lfVar s d,
    "LT " ++ lfVar tt d ++ " " ++ lfVar i d ++ " int@0",
    "JUMPIFEQ " ++ returnNil ++ " " ++ lfVar tt d ++ " bool@true",
    "LT " ++ lfVar tt d ++ " " ++ lfVar j d ++ " int@0",
    "JUMPIFEQ " ++ returnNil ++ " " ++ lfVar tt d ++ " bool@true",
    "GT " ++ lfVar tt d ++ " " ++ lfVar i d ++ " " ++ lfVar j d,
    "JUMPIFEQ " ++ returnNil ++ " " ++ lfVar tt d ++ " bool@true",
    "LT " ++ lfVar tt d ++ " " ++ lfVar i d ++ " " ++ lfVar len d,
    "JUMPIFEQ " ++ returnNil ++ " " ++ lfVar tt d ++ " bool@false",
    "GT " ++ lfVar tt d ++ " " ++ lfVar j d ++ " " ++ lfVar len d,
    "JUMPIFEQ " ++ returnNil ++ " " ++ lfVar tt d ++ " bool@true",
    "DEFVAR " ++ lfVar res d,
    "MOVE " ++ lfVar res d ++ " string@",
    "DEFVAR " ++ lfVar idx d,
    "MOVE " ++ lfVar idx d ++ " " ++ lfVar i d,
    "LABEL " ++ loopLabel,
    "LT " ++ lfVar tt d ++ " " ++ lfVar idx d ++ " " ++ lfVar j d,
    "JUMPIFEQ " ++ endLabel2 ++ " " ++ lfVar tt d ++ " bool@false",
    "DEFVAR " ++ lfVar tmpchar d,
    "GETCHAR " ++ lfVar tmpchar d ++ " " ++ lfVar s d ++ " " ++ lfVar idx d,
    "CONCAT " ++ lfVar res d ++ " " ++ lfVar res d ++ " " ++ lfVar tmpchar d,
    "DEFVAR " ++ lfVar one d,
    "MOVE " ++ lfVar one d ++ " int@1",
    "ADD " ++ lfVar idx d ++ " " ++ lfVar idx d ++ " " ++ lfVar one d,
    "JUMP " ++ loopLabel,
    "LABEL " ++ endLabel2,
    "PUSHS " ++ lfVar res d], cg12)

/-- The templates of `genIfj` after the arguments are in their temporaries. -/
def genIfjTemplate (fname : String) (tmpNames : List String) (endLabel : String)
    (cg : CodeGenerator) : GenResult :=
  let d := cg.frameDepth
  if fname = "write" then
    match tmpNames with
    | [t0] => Except.ok (["WRITE " ++ lfVar t0 d, "PUSHS nil@nil"], cg)
    | _ => errorExit SYNTAX_ERROR
  else if fname = "read_str" then
    match tmpNames with
    | [] =>
      let (res, cg1) := genTempVar cg
      Except.ok (["DEFVAR " ++ lfVar res d, "READ " ++ lfVar res d ++ " string",
                  "PUSHS " ++ lfVar res d], cg1)
    | _ => errorExit SYNTAX_ERROR
  else if fname = "read_num" then
    match tmpNames with
    | [] =>
      let (res, cg1) := genTempVar cg
      Except.ok (["DEFVAR " ++ lfVar res d, "READ " ++ lfVar res d ++ " float",
                  "PUSHS " ++ lfVar res d], cg1)
    | _ => errorExit SYNTAX_ERROR
  else if fname = "floor" then
    match tmpNames with
    | [t0] => Except.ok (genIfjFloor t0 cg)
    | _ => errorExit SYNTAX_ERROR
  else if fname = "str" then
    match tmpNames with
    | [t0] => Except.ok (genIfjStr t0 cg)
    | _ => errorExit SYNTAX_ERROR
  else if fname = "length" then
    match tmpNames with
    | [t0] => Except.ok (genIfjLength t0 endLabel cg)
    | _ => errorExit SYNTAX_ERROR
  else if fname = "strcmp" then
    match tmpNames with
    | [t0, t1] => Except.ok (genIfjStrcmp t0 t1 endLabel cg)
    | _ => errorExit SYNTAX_ERROR
  else if fname = "ord" then
    match tmpNames with
    | [t0, t1] => Except.ok (genIfjOrd t0 t1 endLabel cg)
    | _ => errorExit SYNTAX_ERROR
  else if fname = "chr" then
    match tmpNames with
    | [t0] => Except.ok (genIfjChr t0 endLabel cg)
    | _ => errorExit SYNTAX_ERROR
  else if fname = "substring" then
    match tmpNames with
    | [t0, t1, t2] => Except.ok (genIfjSubstring t0 t1 t2 endLabel cg)
    | _ => errorExit SYNTAX_ERROR
  else errorExit INTERNAL_ERROR

/-- The function `genIfj`. -/
def genIfj (rec : Gen) (node : AstNode) (codeGen : CodeGenerator) : GenResult :=
  match node with
  | .bin _ _ _ _ (some funCall) => do
    let fname ← tokenString funCall.token
    let params ←
      (match funCall with
       | .bin _ _ _ _ (some (.list _ _ _ items)) => Except.ok items
       | .bin _ _ _ _ (some (.leaf _ _ _)) => Except.ok []
       | .bin _ _ _ _ (some (.bin _ _ _ _ _)) => Except.error Err.undefinedBehaviour
       | .bin _ _ _ _ none => Except.ok []
       | .leaf _ _ _ => Except.ok []
       | .list _ _ _ _ => Except.error Err.undefinedBehaviour)
    let (argLines, tmpNames, cg1) ← genIfjArgs rec params codeGen
    let (_, cg2) := genUniqueLabel cg1 "ifj_err"
    let (endLabel, cg3) := genUniqueLabel cg2 "ifj_ok"
    let (body, cg4) ← genIfjTemplate fname tmpNames endLabel cg3
    Except.ok (argLines ++ body, cg4)
  | _ => Except.error Err.undefinedBehaviour

/-- The test `isNextElse` of `genNodeChildren`: the next node has the kind
`AST_IF_STMT`, has children, and its left child is null. -/
def isNextElse : AstNode → Bool
  | .bin _ AstNodeType.AST_IF_STMT _ none _ => true
  | _ => false

/-- The merged code of `genNodeChildren` for an `if` followed by its `else`. -/
def genMergedIfElse (rec : Gen) (cond trueBlock falseBlock : AstNode)
    (codeGen : CodeGenerator) : GenResult := do
  let (labelElse, cg1) := genUniqueLabel codeGen "if_else"
  let (labelEnd, cg2) := genUniqueLabel cg1 "if_end"
  let (outC, cg3) ← rec cond cg2
  let (condRes, cg4) := genTempVar cg3
  let d := cg4.frameDepth
  let (outT, cg5) ← rec trueBlock cg4
  let (outF, cg6) ← rec falseBlock cg5
  Except.ok (["# If-Else statement (merged)"] ++ outC ++
    ["DEFVAR " ++ lfVar condRes d, "POPS " ++ lfVar condRes d,
     "JUMPIFEQ " ++ labelElse ++ " " ++ lfVar condRes d ++ " bool@false",
     "JUMPIFEQ " ++ labelElse ++ " " ++ lfVar condRes d ++ " nil@nil"] ++
    outT ++ ["JUMP " ++ labelEnd, "LABEL " ++ labelElse] ++ outF ++ ["LABEL " ++ labelEnd], cg6)

/-- The `while` of `genNodeChildren` over the list of children, with its look at the
node after an `if`. -/
def genChildrenList (rec : Gen) : List AstNode → CodeGenerator → GenResult
  | [], cg => Except.ok ([], cg)
  | [item], cg => rec item cg
  | item :: next :: rest, cg =>
    if item.type = AstNodeType.AST_IF_STMT ∧ isNextElse next then
      match item, next with
      | .bin _ _ _ (some cond) (some trueBlock), .bin _ _ _ _ (some falseBlock) =>
        match genMergedIfElse rec cond trueBlock falseBlock cg with
        | Except.error e => Except.error e
        | Except.ok (out1, cg1) =>
          match genChildrenList rec rest cg1 with
          | Except.error e => Except.error e
          | Except.ok (out2, cg2) => Except.ok (out1 ++ out2, cg2)
      | .list _ _ _ _, _ => Except.error Err.undefinedBehaviour
      | _, _ =>
        match rec item cg with
        | Except.error e => Except.error e
        | Except.ok (out1, cg1) =>
          match genChildrenList rec (next :: rest) cg1 with
          | Except.error e => Except.error e
          | Except.ok (out2, cg2) => Except.ok (out1 ++ out2, cg2)
    else
      match rec item cg with
      | Except.error e => Except.error e
      | Except.ok (out1, cg1) =>
        match genChildrenList rec (next :: rest) cg1 with
        | Except.error e => Except.error e
        | Except.ok (out2, cg2) => Except.ok (out1 ++ out2, cg2)

/-- The function `genNodeChildren`. -/
def genNodeChildren (rec : Gen) (node : AstNode) (codeGen : CodeGenerator) : GenResult :=
  match node.type with
  | AstNodeType.AST_CLASS_DEC | AstNodeType.AST_BLOCK | AstNodeType.AST_PARAMS =>
    match node with
    | .leaf _ _ _ => Except.ok ([], codeGen)
    | .list _ _ _ items => genChildrenList rec items codeGen
    | .bin _ _ _ _ _ => Except.error Err.undefinedBehaviour
  | AstNodeType.AST_IDENTIFIER | AstNodeType.AST_LITERAL => Except.ok ([], codeGen)
  | _ =>
    match node with
    | .leaf _ _ _ => Except.ok ([], codeGen)
    | .list _ _ _ _ => Except.error Err.undefinedBehaviour
    | .bin _ _ _ left right => do
      let (out1, cg1) ←
        (match left with
         | some l => rec l codeGen
         | none => Except.ok ([], codeGen))
      let (out2, cg2) ←
        (match right with
         | some r => rec r cg1
         | none => Except.ok ([], cg1))
      Except.ok (out1 ++ out2, cg2)

def isFunNode (n : AstNode) : Bool :=
  n.type == AstNodeType.AST_FUN_DEC || n.type == AstNodeType.AST_FUN_GET ||
    n.type == AstNodeType.AST_FUN_SET

/-- The third step of `genClassDec`: the two lines for every variable of the global
scope, in the order of the entries of its table. -/
def genGlobalVars (mem : List Symbol) : List Slot → List String
  | [] => []
  | Slot.sym a :: rest =>
    (if (symAt mem a).kind = SymbolKind.SYM_VAR then
       ["DEFVAR GF@" ++ (symAt mem a).name, "MOVE GF@" ++ (symAt mem a).name ++ " nil@nil"]
     else []) ++ genGlobalVars mem rest
  | _ :: rest => genGlobalVars mem rest

/-- The function `genClassDec`. -/
def genClassDec (rec : Gen) (node : AstNode) (codeGen : CodeGenerator) : GenResult := do
  let items ←
    (match node with
     | .leaf _ _ _ => Except.ok []
     | .list _ _ _ items => Except.ok items
     | .bin _ _ _ _ _ => Except.error Err.undefinedBehaviour)
  let (funs, cg1) ← genEach rec (items.filter isFunNode) codeGen
  let globals :=
    match cg1.symStack.scopes.head? with
    | some g => genGlobalVars cg1.symStack.mem g.symbols
    | none => []
  let (rest, cg2) ←
    genEach rec
      (items.filter (fun n => !isFunNode n && n.type != AstNodeType.AST_VAR_DEC)) cg1
  Except.ok ([".IFJcode25", "JUMP $$main_entry"] ++ funs ++ ["", "LABEL $$main_entry"] ++
    globals ++ rest ++ ["CALL main$0", "EXIT int@0"], cg2)

/-- The function `genNode`; `genBlock` and `genElseStmt` are calls of
`genNodeChildren`.  The fuel bounds the depth of the tree. -/
def genNode : Nat → AstNode → CodeGenerator → GenResult
  | 0, _, _ => Except.error Err.outOfFuel
  | fuel + 1, node, codeGen =>
    match node.type with
    | AstNodeType.AST_CLASS_DEC => genClassDec (genNode fuel) node codeGen
    | AstNodeType.AST_BLOCK => genNodeChildren (genNode fuel) node codeGen
    | AstNodeType.AST_VAR_DEC =>
      match genVarDec node codeGen with
      | Except.error e => Except.error e
      | Except.ok out => Except.ok (out, codeGen)
    | AstNodeType.AST_FUN_DEC => genFunDec (genNodeChildren (genNode fuel)) node codeGen
    | AstNodeType.AST_FUN_SET => genFunSet (genNodeChildren (genNode fuel)) node codeGen
    | AstNodeType.AST_FUN_GET => genFunGet (genNodeChildren (genNode fuel)) node codeGen
    | AstNodeType.AST_RETURN => genReturn (genNode fuel) node codeGen
    | AstNodeType.AST_PARAMS => genParams node codeGen
    | AstNodeType.AST_VAR_ASSIGN => genVarAssign (genNode fuel) node codeGen
    | AstNodeType.AST_IDENTIFIER =>
      match genIdentifier node codeGen with
      | Except.error e => Except.error e
      | Except.ok out => Except.ok (out, codeGen)
    | AstNodeType.AST_LITERAL =>
      match genLiteral node with
      | Except.error e => Except.error e
      | Except.ok out => Except.ok (out, codeGen)
    | AstNodeType.AST_OPERATOR => genOperator (genNode fuel) node codeGen
    | AstNodeType.AST_FUN_CALL => genFunCall (genNode fuel) node codeGen
    | AstNodeType.AST_IF_STMT => genIfStmt (genNode fuel) node codeGen
    | AstNodeType.AST_IF_ELSE_STMT => genIfElseStmt (genNode fuel) node codeGen
    | AstNodeType.AST_IFJ => genIfj (genNode fuel) node codeGen
    | AstNodeType.AST_ELSE_STMT => genNodeChildren (genNode fuel) node codeGen
    | AstNodeType.AST_WHILE => genWhileStmt (genNode fuel) node codeGen
    | AstNodeType.AST_TYPE => Except.ok (genType node, codeGen)
    | AstNodeType.AST_EXPRESSION => genOperator (genNode fuel) node codeGen

/-- The function `generate`: the lines written to standard output. -/
def generate (fuel : Nat) (astRoot : AstNode) (symStack : SymTableStack) :
    Except Err (List String) :=
  match genNode fuel astRoot (codeGeneratorInit symStack) with
  | Except.error e => Except.error e
  | Except.ok (out, _) => Except.ok out

/-! ## main.c -/

/-- The state of the compiler after parsing and the later pass, before code is
generated. -/
structure Analysed where
  root : Option AstNode
  symStack : SymTableStack
  nodeTypes : List ExprType
  resolveLater : List AstNode

/-- The normal mode of `main` up to the call of `generate`. -/
def analyse (fuel : Nat) (input : List Char) : Except Err Analysed := do
  let symStack := symTableStackPush (symTableStackCreate INITIAL_CAPACITY_STACK)
  let scanner ← readPrologue (initScanner input)
  let symStack1 ← loadIFJBuiltins symStack
  let parser ← parseProgram fuel (parserInit scanner symStack1)
  let symStack2 := symTableStackPush parser.symStack
  let (types, symStack3) ←
    semanticResolveCheckLater parser.resolveLater symStack2 parser.nodeTypes
  let g ← globalScope symStack3
  let _ ← checkFunDec symStack3.mem g
  Except.ok { root := parser.root, symStack := symStack3, nodeTypes := types,
              resolveLater := parser.resolveLater }

/-- The normal mode of `main`: the lines written to standard output when the exit
status is 0, else how the run ends. -/
def compile (fuel : Nat) (input : List Char) : Except Err (List String) := do
  let a ← analyse fuel input
  match a.root with
  | some root => generate fuel root a.symStack
  | none => Except.ok []

/-! ## Definitions used in the statements -/

instance instDecidableEqExcept {ε α : Type} [DecidableEq ε] [DecidableEq α] :
    DecidableEq (Except ε α)
  | Except.ok a, Except.ok b =>
    if h : a = b then isTrue (by rw [h]) else isFalse (fun h2 => h (Except.ok.inj h2))
  | Except.error a, Except.error b =>
    if h : a = b then isTrue (by rw [h]) else isFalse (fun h2 => h (Except.error.inj h2))
  | Except.ok _, Except.error _ => isFalse (fun h => by cases h)
  | Except.error _, Except.ok _ => isFalse (fun h => by cases h)

/-- The fuel of the runs on the programs below; each of them needs far less. -/
def runFuel : Nat := 100

/-- The minimal program written on two lines: prologue, then the class, the function
and both closing braces on one line. -/
def minimalOneLine : String :=
  "import \"ifj25\" for Ifj\nclass Main \x7b static main() \x7b \x7d \x7d\n"

/-- The minimal program with a line feed after every brace. -/
def minimalProgram : String :=
  "import \"ifj25\" for Ifj\nclass Main \x7b\nstatic main() \x7b\n\x7d\n\x7d\n"

/-- What the compiler writes for `minimalProgram`. -/
def minimalEmitted : List String :=
  [".IFJcode25", "JUMP $$main_entry", "", "LABEL main$0", "CREATEFRAME", "PUSHFRAME", "", "",
   "PUSHS nil@nil", "POPFRAME", "RETURN", "", "EXIT int@0", "", "LABEL $$main_entry",
   "CALL main$0", "EXIT int@0"]

/-- A program that declares `f` without parameters and calls it with one argument. -/
def wrongArityProgram : String :=
  "import \"ifj25\" for Ifj\nclass Main \x7b\nstatic f() \x7b\n\x7d\nstatic main() \x7b\n" ++
  "var x\nx = f(1)\n\x7d\n\x7d\n"

/-- What the compiler writes for `wrongArityProgram`. -/
def wrongArityEmitted : List String :=
  [".IFJcode25", "JUMP $$main_entry", "", "LABEL f$0", "CREATEFRAME", "PUSHFRAME", "", "",
   "PUSHS nil@nil", "POPFRAME", "RETURN", "", "", "LABEL main$0", "CREATEFRAME", "PUSHFRAME",
   "", "", "DEFVAR LF@x$1", "MOVE LF@x$1 nil@nil", "PUSHS int@1", "CALL f$1", "POPS LF@x$1", "",
   "PUSHS nil@nil", "POPFRAME", "RETURN", "", "EXIT int@0", "", "LABEL $$main_entry",
   "CALL main$0", "EXIT int@0"]

/-- A program whose `main` holds `if (a) { a = 10 } else { a = 20 }`. -/
def ifElseProgram : String :=
  "import \"ifj25\" for Ifj\nclass Main \x7b\nstatic main() \x7b\nvar a\nif (a) \x7b\n" ++
  "a = 10\n\x7d else \x7b\na = 20\n\x7d\n\x7d\n\x7d\n"

/-- What the compiler writes for `ifElseProgram`. -/
def ifElseEmitted : List String :=
  [".IFJcode25", "JUMP $$main_entry", "", "LABEL main$0", "CREATEFRAME", "PUSHFRAME", "", "",
   "DEFVAR LF@a$1", "MOVE LF@a$1 nil@nil",
   "# If statement", "PUSHS LF@a$1", "CREATEFRAME", "PUSHFRAME",
   "DEFVAR LF@$$tmp_0$1", "POPS LF@$$tmp_0$1",
   "JUMPIFEQ $if_skip_1 LF@$$tmp_0$1 bool@false",
   "JUMPIFEQ $if_skip_1 LF@$$tmp_0$1 nil@nil",
   "POPFRAME",
   "PUSHS int@10", "POPS LF@a$1", "",
   "JUMP $if_end_0", "LABEL $if_skip_1", "POPFRAME", "LABEL $if_end_0",
   "PUSHS int@20", "POPS LF@a$1", "",
   "PUSHS nil@nil", "POPFRAME", "RETURN", "", "EXIT int@0", "", "LABEL $$main_entry",
   "CALL main$0", "EXIT int@0"]

/-- A program with the getter `x` (it returns a string) and the assignment `y = x`. -/
def getterProgram : String :=
  "import \"ifj25\" for Ifj\nclass Main \x7b\nstatic x \x7b\nreturn \"a\"\n\x7d\n" ++
  "static main() \x7b\nvar y\ny = x\n\x7d\n\x7d\n"

/-- What the compiler writes for `getterProgram`. -/
def getterEmitted : List String :=
  [".IFJcode25", "JUMP $$main_entry", "", "LABEL x_get", "CREATEFRAME", "PUSHFRAME", "",
   "PUSHS string@a", "POPFRAME", "RETURN", "", "PUSHS nil@nil", "POPFRAME", "RETURN", "",
   "", "LABEL main$0", "CREATEFRAME", "PUSHFRAME", "", "",
   "DEFVAR LF@y$1", "MOVE LF@y$1 nil@nil", "PUSHS LF@x$1", "POPS LF@y$1", "",
   "PUSHS nil@nil", "POPFRAME", "RETURN", "", "EXIT int@0", "", "LABEL $$main_entry",
   "CALL main$0", "EXIT int@0"]

/-- A program with the setter `s` and the assignment `s = 1`. -/
def setterProgram : String :=
  "import \"ifj25\" for Ifj\nclass Main \x7b\nstatic s = (v) \x7b\n\x7d\n" ++
  "static main() \x7b\ns = 1\n\x7d\n\x7d\n"

/-- What the compiler writes for `setterProgram`. -/
def setterEmitted : List String :=
  [".IFJcode25", "JUMP $$main_entry", "", "LABEL s_set", "CREATEFRAME", "PUSHFRAME", "",
   "DEFVAR LF@v$1", "POPS LF@v$1", "", "PUSHS nil@nil", "POPFRAME", "RETURN", "",
   "", "LABEL main$0", "CREATEFRAME", "PUSHFRAME", "", "",
   "PUSHS int@1", "POPS LF@s$1", "",
   "PUSHS nil@nil", "POPFRAME", "RETURN", "", "EXIT int@0", "", "LABEL $$main_entry",
   "CALL main$0", "EXIT int@0"]

/-- The children of a class node that declare a function, a getter or a setter: the
nodes on which the first loop of `genClassDec` calls `genNode`. -/
def classFunctions : AstNode → List AstNode
  | .list _ _ _ items => items.filter isFunNode
  | _ => []

/-- The tree of a class whose only member is the function `main` without parameters and
with an empty body. -/
def mainOnlyClass : AstNode :=
  .list 0 AstNodeType.AST_CLASS_DEC
    { type := TokenType.IDENTIFIER,
      value := some { stringVal := some "Main", intVal := 0, floatVal := 0 }, line := 2 }
    [.bin 1 AstNodeType.AST_FUN_DEC
      { type := TokenType.IDENTIFIER,
        value := some { stringVal := some "main", intVal := 0, floatVal := 0 }, line := 3 }
      (some (.list 2 AstNodeType.AST_PARAMS Token.zero []))
      (some (.list 3 AstNodeType.AST_BLOCK Token.zero []))]

/-- The generator state at the start, over a symbol store with an empty global scope. -/
def emptyStackGen : CodeGenerator :=
  codeGeneratorInit (symTableStackPush (symTableStackCreate INITIAL_CAPACITY_STACK))

/-- What is observed of one call of `parseFunCall`: whether the symbol `base$k` was
visible in the scope stack, how many arguments the parsed call has, by how many nodes
the list of deferred nodes grew, whether the call node is its last node, and the
expression type of the call node afterwards. -/
structure CallOutcome where
  exactVisible : Bool
  arguments : Nat
  deferred : Nat
  nodeDeferred : Bool
  nodeType : ExprType
  deriving DecidableEq, Repr

/-- A call of `parseFunCall` on the text of a call, with the parser on its first token and
a scope stack whose global scope holds the one symbol `declared`; `base` and `k` are the
name and the number of arguments of the call in the text. -/
def parseFunCallOn (declared : Symbol) (text : String) (base : String) (k : Nat) :
    Except Err CallOutcome := do
  let (_, stack) ←
    addSymbolAt (symTableStackPush (symTableStackCreate INITIAL_CAPACITY_STACK)) 0 declared
  let p ← parserAdvance (parserInit (initScanner text.data) stack)
  let (node, p1) ← parseFunCall runFuel p
  let arguments :=
    match node with
    | .bin _ _ _ _ (some (.list _ _ _ items)) => items.length
    | _ => 0
  Except.ok
    { exactVisible :=
        (symTableStackFindSymbol p.symStack
          (symbolCreate base TYPE_UNKNOWN SymbolKind.SYM_FUNC k).name).isSome,
      arguments := arguments,
      deferred := p1.resolveLater.length - p.resolveLater.length,
      nodeDeferred := (p1.resolveLater.getLast?.map (fun n => n.id)) == some node.id,
      nodeType := typeOf p1.nodeTypes node }

/-- The pairs `DEFVAR LF@p$d`, `POPS LF@p$d` for the names of a list, in the order of
the list. -/
def paramPairs (d : Nat) : List String → List String
  | [] => []
  | p :: rest => ["DEFVAR " ++ lfVar p d, "POPS " ++ lfVar p d] ++ paramPairs d rest

/-- The lines `PUSHS x` for the operands of a list, in the order of the list. -/
def pushLines (xs : List String) : List String := xs.map (fun x => "PUSHS " ++ x)

/-- The data stack of the target machine (top first) and the record of what has been
popped: the variable and the value of every `POPS`, in the order of execution. -/
structure StackMachine where
  stack : List String
  popped : List (String × String)
  deriving DecidableEq, Repr

/-- The effect of one line on the data stack: `PUSHS x` pushes the operand, `POPS v`
takes the top value into `v` and fails on an empty stack; no other line that the
generator writes for a call or a parameter list touches the data stack. -/
def stackStep (m : StackMachine) (line : String) : Option StackMachine :=
  match line.data with
  | 'P' :: 'U' :: 'S' :: 'H' :: 'S' :: ' ' :: x =>
    some { m with stack := String.mk x :: m.stack }
  | 'P' :: 'O' :: 'P' :: 'S' :: ' ' :: v =>
    match m.stack with
    | [] => none
    | top :: below => some { stack := below, popped := m.popped ++ [(String.mk v, top)] }
  | _ => some m

/-- The lines of a list run one after the other. -/
def runStack : List String → StackMachine → Option StackMachine
  | [], m => some m
  | line :: rest, m =>
    match stackStep m line with
    | none => none
    | some m1 => runStack rest m1

/-- An identifier token with the given name. -/
def identifierToken (name : String) : Token :=
  { type := TokenType.IDENTIFIER,
    value := some { stringVal := some name, intVal := 0, floatVal := 0 }, line := 1 }

/-- The token of a whole-number literal. -/
def intToken (n : Int) : Token :=
  { type := TokenType.INT_LITERAL,
    value := some { stringVal := none, intVal := n, floatVal := 0 }, line := 1 }

/-- The parameters `a`, `b` of a declaration. -/
def twoParams : List AstNode :=
  [.leaf 3 AstNodeType.AST_IDENTIFIER (identifierToken "a"),
   .leaf 4 AstNodeType.AST_IDENTIFIER (identifierToken "b")]

/-- The arguments `1`, `2` of a call. -/
def twoArgs : List AstNode :=
  [.leaf 8 AstNodeType.AST_LITERAL (intToken 1), .leaf 9 AstNodeType.AST_LITERAL (intToken 2)]

/-- What `genNode` writes for the declaration of `f(a, b)` with an empty body. -/
def twoParamsEmitted : List String :=
  ["", "LABEL f$2", "CREATEFRAME", "PUSHFRAME", "",
   "DEFVAR LF@b$1", "POPS LF@b$1", "DEFVAR LF@a$1", "POPS LF@a$1", "",
   "PUSHS nil@nil", "POPFRAME", "RETURN", ""]

/-- A name as `symbolCreate` makes it from a base name without the character `$`: the
base name itself, or the base name followed by `$` and the number of parameters, by
`#get`, or by `#set`. -/
def createdName (name : String) : Prop :=
  ∃ (b : String) (kind : SymbolKind) (n : Nat),
    '$' ∉ b.data ∧ name = (symbolCreate b TYPE_UNKNOWN kind n).name

/-- The node of a call as `parseFunCall` builds it. -/
def callNode (id paramsId : Nat) (tok paramsTok : Token) (args : List AstNode) : AstNode :=
  .bin id AstNodeType.AST_FUN_CALL tok none
    (some (.list paramsId AstNodeType.AST_PARAMS paramsTok args))

/-- A scope stack whose global scope holds the one function `f` without parameters. -/
def oneFunctionStack : SymTableStack :=
  match addSymbolAt (symTableStackPush (symTableStackCreate INITIAL_CAPACITY_STACK)) 0
      (symbolCreate "f" TYPE_UNKNOWN SymbolKind.SYM_FUNC 0) with
  | Except.ok (_, stack) => stack
  | Except.error _ => symTableStackCreate INITIAL_CAPACITY_STACK

/-- The global scope of `oneFunctionStack`. -/
def oneFunctionGlobal : Scope := oneFunctionStack.scopes.headD (scopeCreate 16)

/-- An identifier of 255 bytes. -/
def longName : String := String.mk (List.replicate 255 'k')

/-- A program that calls the function `longName ++ "x"`, which no declaration names,
after an assignment to the variable `longName` that the later pass resolves. -/
def longNameProgram : String :=
  "import \"ifj25\" for Ifj\nclass Main \x7b\nstatic main() \x7b\nvar " ++ longName ++ "\n" ++
  longName ++ " = g()\n" ++ longName ++ " = " ++ longName ++ "x()\n\x7d\n" ++
  "static g() \x7b\nreturn 1\n\x7d\n\x7d\n"

/-- The program `longNameProgram` with a variable `y` of a short name in place of the
variable `longName`. -/
def longCallProgram : String :=
  "import \"ifj25\" for Ifj\nclass Main \x7b\nstatic main() \x7b\nvar y\n" ++
  "y = g()\ny = " ++ longName ++ "x()\n\x7d\n" ++
  "static g() \x7b\nreturn 1\n\x7d\n\x7d\n"

/-- The scope stack `oneFunctionStack` with a second scope on top that holds the
variable `longName`. -/
def longNameStack : SymTableStack :=
  match addSymbolAt (symTableStackPush oneFunctionStack) 1
      (symbolCreate longName TYPE_INT SymbolKind.SYM_VAR 0) with
  | Except.ok (_, stack) => stack
  | Except.error _ => oneFunctionStack

/-- The token of the identifier `longName ++ "x"`. -/
def longCallToken : Token := identifierToken (longName ++ "x")

/-! ## Definitions for the label lines of the functions -/

/-- The entry at index `p` can be reached by the probing that starts at index `h`: no
entry before it on the way is null. -/
def Reach (table : List Slot) (h p : Nat) : Prop :=
  ∃ d, d < table.length ∧ (h + d) % table.length = p ∧
    ∀ i, i < d → table.getD ((h + i) % table.length) Slot.null ≠ Slot.null

/-- The number of entries of a table that hold a symbol. -/
def symCount : List Slot → Nat
  | [] => 0
  | Slot.sym _ :: rest => symCount rest + 1
  | _ :: rest => symCount rest

/-- The state of a scope that `scopeAddSymbol` keeps: the array has `size` entries, one
of them is free, no entry is the mark `TOMBSTONE`, `currentSize` counts the symbols,
every symbol lies inside the memory and can be reached by the probing for its name, and
no two entries have the same name. -/
def TableOK (mem : List Symbol) (sc : Scope) : Prop :=
  sc.size = sc.symbols.length ∧ sc.currentSize < sc.size ∧
  (∀ s ∈ sc.symbols, s ≠ Slot.tombstone) ∧
  symCount sc.symbols = sc.currentSize ∧
  (∀ p a, sc.symbols.getD p Slot.null = Slot.sym a →
    a < mem.length ∧ Reach sc.symbols (getHash (symAt mem a).name sc.size) p) ∧
  (∀ p q a b, sc.symbols.getD p Slot.null = Slot.sym a →
    sc.symbols.getD q Slot.null = Slot.sym b →
    (symAt mem a).name = (symAt mem b).name → p = q)

/-- A name of identifier characters: not empty, every character a letter, a digit or the
underscore. -/
def identChars (s : String) : Prop :=
  s.data ≠ [] ∧ ∀ c ∈ s.data, isIdentifierPart c = true

/-- A token that, when its kind is `IDENTIFIER` or `GLOBAL_IDENTIFIER`, carries a name of
identifier characters. -/
def TokClean (t : Token) : Prop :=
  (t.type = TokenType.IDENTIFIER ∨ t.type = TokenType.GLOBAL_IDENTIFIER) →
    ∃ v s, t.value = some v ∧ v.stringVal = some s ∧ identChars s

/-- A result of a reading function of the scanner: the token is clean and the buffer of
the look ahead is the one of the scanner `sc`. -/
def CleanStep (sc : Scanner) (r : Nat × Token × Scanner) : Prop :=
  TokClean r.2.1 ∧ r.2.2.lookAheadToken = sc.lookAheadToken ∧
    r.2.2.isLookingAhead = sc.isLookingAhead

/-- A name that holds the character `$`: the name of a function with its number of
parameters. -/
def Dollar (X : String) : Prop := '$' ∈ X.data

/-- The state of the global scope that the parser keeps: the scope is there, its table is
in the kept state, and every symbol in it with a `$` in its name is declared. -/
def GlobalOK (s : SymTableStack) : Prop :=
  ∃ g rest, s.scopes = g :: rest ∧ TableOK s.mem g ∧
    ∀ a, Slot.sym a ∈ g.symbols → Dollar (symAt s.mem a).name →
      (symAt s.mem a).declared = true

/-- The search for a name in the global scope. -/
def globalFind (s : SymTableStack) (X : String) : Option Nat :=
  match s.scopes.head? with
  | some g => scopeFindSymbol s.mem g X
  | none => none

/-- What the memory keeps from one state to a later one: no symbol is lost, no name is
changed, no symbol stops being declared, and the symbols with a name in `P` keep their
number of parameters. -/
def MemKeep (P : String → Prop) (mem mem2 : List Symbol) : Prop :=
  mem.length ≤ mem2.length ∧
  ∀ a, a < mem.length →
    (symAt mem2 a).name = (symAt mem a).name ∧
    ((symAt mem a).declared = true → (symAt mem2 a).declared = true) ∧
    (P (symAt mem a).name → (symAt mem2 a).numOfParams = (symAt mem a).numOfParams)

/-- What the scope stack keeps from one state to a later one: the memory as in `MemKeep`,
the state of the global scope, and the symbols found in the global scope under the names
in `P`. -/
def StackRel (P : String → Prop) (s s2 : SymTableStack) : Prop :=
  MemKeep P s.mem s2.mem ∧
  (GlobalOK s → GlobalOK s2 ∧
    ∀ X a, P X → globalFind s X = some a → globalFind s2 X = some a)

/-- The function `name` with `k` parameters is declared: the global scope holds a
declared symbol under the name `X` with `k` parameters. -/
def Good (X : String) (k : Nat) (s : SymTableStack) : Prop :=
  ∃ a, globalFind s X = some a ∧ (symAt s.mem a).declared = true ∧
    (symAt s.mem a).numOfParams = k

/-- The kinds of the nodes that open a function, a getter, a setter or a class. -/
def isFunType (t : AstNodeType) : Bool :=
  t == AstNodeType.AST_FUN_DEC || t == AstNodeType.AST_FUN_GET ||
    t == AstNodeType.AST_FUN_SET || t == AstNodeType.AST_CLASS_DEC

mutual
/-- No node of the tree opens a function, a getter, a setter or a class. -/
def funFree : AstNode → Bool
  | .leaf _ t _ => !isFunType t
  | .bin _ t _ l r => !isFunType t && funFreeOpt l && funFreeOpt r
  | .list _ t _ items => !isFunType t && funFreeList items
/-- The same for a pointer to a node that may be null. -/
def funFreeOpt : Option AstNode → Bool
  | none => true
  | some n => funFree n
/-- The same for the nodes of a list. -/
def funFreeList : List AstNode → Bool
  | [] => true
  | n :: rest => funFree n && funFreeList rest
end

/-- The tokens that the parser holds are clean: the current one, the one looked ahead
and the one in the buffer of the scanner. -/
def TokOK (p : Parser) : Prop :=
  TokClean p.current ∧ TokClean p.lookAhead ∧ TokClean p.scanner.lookAheadToken

/-- What a parsing function keeps from the parser `p` it is called on to the parser `q`
it returns, when the tokens of `p` are clean: the tokens of `q` are clean, the scope
stack is kept for the names with `$`, and the number of scopes is the same. -/
def PStep (p q : Parser) : Prop :=
  TokOK p →
    TokOK q ∧ StackRel Dollar p.symStack q.symStack ∧
      q.symStack.scopes.length = p.symStack.scopes.length

/-- The items of a list of parameters: leaves with a clean identifier token. -/
def ParamItems (items : List AstNode) : Prop :=
  ∀ item ∈ items, TokClean item.token ∧ item.token.type = TokenType.IDENTIFIER ∧
    funFree item = true

/-- The shape of the node that `parseParams` returns. -/
def ParamsNode (n : AstNode) : Prop :=
  ∃ id tok items, n = AstNode.list id AstNodeType.AST_PARAMS tok items ∧ ParamItems items

/-- What is assumed of the parser of the inner blocks. -/
def BlockOK (block : BlockParser) : Prop :=
  ∀ (funSym : Nat) (p q : Parser) (n : AstNode),
    block funSym p = Except.ok (n, q) → PStep p q ∧ funFree n = true

/-- The assignment `symbol->declared = true`. -/
abbrev setDeclared : Symbol → Symbol := fun sym => { sym with declared := true }

/-- The name and the number of parameters of the function that a node declares, for a
node of the kind `AST_FUN_DEC` with a list of parameters. -/
def funKey : AstNode → Option (String × Nat)
  | .bin _ AstNodeType.AST_FUN_DEC tok (some (.list _ _ _ items)) _ =>
    match tokenString tok with
    | Except.ok name => some (name, items.length)
    | Except.error _ => none
  | _ => none

/-- The name of the symbol of a function: `name$k`. -/
def keyName (key : String × Nat) : String := key.1 ++ "$" ++ toString key.2

/-- The shape of a node that `parseFunDec` returns: a function, a getter or a setter with
a name of identifier characters, and a body and parameters free of function nodes; a
function has a list of parameters. -/
def DecNode (n : AstNode) : Prop :=
  ∃ id type tok left body name, n = AstNode.bin id type tok left (some body) ∧
    funFree body = true ∧ funFreeOpt left = true ∧
    tokenString tok = Except.ok name ∧ identChars name ∧
    ((type = AstNodeType.AST_FUN_DEC ∧
        ∃ pid ptype ptok items, left = some (AstNode.list pid ptype ptok items)) ∨
      type = AstNodeType.AST_FUN_GET ∨ type = AstNodeType.AST_FUN_SET)

/-- The number read back from decimal digits, continuing from `v`. -/
def digitsValue (v : Nat) (cs : List Char) : Nat :=
  cs.foldl (fun acc c => 10 * acc + (c.toNat - 48)) v

/-- The declarations of a class: every node has the shape of a declaration and no two
functions have the same name and number of parameters. -/
def DecList (items : List AstNode) : Prop :=
  (∀ n ∈ items, DecNode n) ∧ (items.filterMap funKey).Nodup

/-- The functions of the list are declared in the global scope. -/
def AllGood (items : List AstNode) (s : SymTableStack) : Prop :=
  ∀ key ∈ items.filterMap funKey, Good (keyName key) key.2 s

/-- The comparison of a text with the pattern of a label line: the text goes on after
the pattern with a character other than `$`. -/
def labelMatch : List Char → List Char → Bool
  | [], c :: _ => c != '$'
  | [], [] => false
  | _ :: _, [] => false
  | p :: ps, c :: cs => p == c && labelMatch ps cs

/-- A line `LABEL x` whose label does not start with `$`. -/
def funLabel (l : String) : Bool := labelMatch "LABEL ".data l.data

/-- No line of the list opens a function. -/
def NoFun (out : List String) : Prop := ∀ l ∈ out, funLabel l = false

/-- What is assumed of the generator of the children: a tree without function nodes
gives no line that opens a function. -/
def GenOK (rec : Gen) : Prop :=
  ∀ (node : AstNode) (cg cg2 : CodeGenerator) (out : List String),
    funFree node = true → rec node cg = Except.ok (out, cg2) → NoFun out

/-- The children of the node are free of function nodes. -/
def childrenFree : AstNode → Bool
  | .leaf _ _ _ => true
  | .bin _ _ _ l r => funFreeOpt l && funFreeOpt r
  | .list _ _ _ items => funFreeList items

/-- The line that opens the function with the name and the number of parameters. -/
def labelLine (key : String × Nat) : String := "LABEL " ++ keyName key

/-- The functions that the program declares: the name and the number of parameters of
every function of the class, as the parser reads them. -/
def declaredFunctions (fuel : Nat) (input : List Char) : List (String × Nat) :=
  match analyse fuel input with
  | Except.ok a =>
    match a.root with
    | some (.list _ _ _ items) => items.filterMap funKey
    | _ => []
  | Except.error _ => []

/-- A program with two functions of the name `f`, with one and with two parameters, and
the function `main`. -/
def overloadProgram : String :=
  "import \"ifj25\" for Ifj\nclass Program \x7b\nstatic f(a) \x7b\nreturn a\n\x7d\n" ++
  "static f(a, b) \x7b\nreturn b\n\x7d\nstatic main() \x7b\n\x7d\n\x7d\n"

/-- What the compiler writes for `overloadProgram`. -/
def overloadEmitted : List String :=
  [".IFJcode25", "JUMP $$main_entry", "", "LABEL f$1", "CREATEFRAME", "PUSHFRAME", "",
   "DEFVAR LF@a$1", "POPS LF@a$1", "", "PUSHS LF@a$1", "POPFRAME", "RETURN", "",
   "PUSHS nil@nil", "POPFRAME", "RETURN", "", "", "LABEL f$2", "CREATEFRAME", "PUSHFRAME",
   "", "DEFVAR LF@b$1", "POPS LF@b$1", "DEFVAR LF@a$1", "POPS LF@a$1", "", "PUSHS LF@b$1",
   "POPFRAME", "RETURN", "", "PUSHS nil@nil", "POPFRAME", "RETURN", "", "", "LABEL main$0",
   "CREATEFRAME", "PUSHFRAME", "", "", "PUSHS nil@nil", "POPFRAME", "RETURN", "",
   "EXIT int@0", "", "LABEL $$main_entry", "CALL main$0", "EXIT int@0"]

/-! ## Definitions for the later pass and for the table of the operators -/

/-- A program with the setter `base` and, in `main`, the call `base(1)`. -/
def setterCallProgram : String :=
  "import \"ifj25\" for Ifj\nclass Main \x7b\nstatic base = (v) \x7b\n\x7d\n" ++
  "static main() \x7b\nvar x\nx = base(1)\n\x7d\n\x7d\n"

/-- A scope stack whose global scope holds the one setter `base`, created and marked as
declared the way `parseFunDec` does it. -/
def oneSetterStack : SymTableStack :=
  match addSymbolAt (symTableStackPush (symTableStackCreate INITIAL_CAPACITY_STACK)) 0
      (setDeclared (symbolCreate "base" TYPE_NULL SymbolKind.SYM_SET 1)) with
  | Except.ok (_, stack) => stack
  | Except.error _ => symTableStackCreate INITIAL_CAPACITY_STACK

/-- The single known types. -/
def knownTypes : List ExprType := [TYPE_INT, TYPE_FLOAT, TYPE_STRING, TYPE_NULL, TYPE_BOOL]

/-- The unions of the six type bits that hold at least one of them. -/
def typeUnions : List ExprType := List.range' 1 63

/-- The binary operators of the type table. -/
def tableOperators : List TokenType :=
  [TokenType.MULTIPLY, TokenType.DIVIDE, TokenType.MINUS, TokenType.PLUS,
   TokenType.IS_SMALLER, TokenType.IS_SMALLER_OR_EQUAL, TokenType.IS_BIGGER,
   TokenType.IS_BIGGER_OR_EQUAL, TokenType.IS_EQUAL, TokenType.IS_NOT_EQUAL, TokenType.KW_IS,
   TokenType.LOGICAL_AND, TokenType.LOGICAL_OR]

/-- The type is `INT` or `FLOAT`. -/
def isNumeric (t : ExprType) : Bool := t == TYPE_INT || t == TYPE_FLOAT

/-- The operator table in the words of the specification, for operands of single known
types: the pairs that an operator accepts. -/
def tableAllows (left : ExprType) (op : TokenType) (right : ExprType) : Bool :=
  match op with
  | TokenType.MULTIPLY =>
    (left == TYPE_STRING && right == TYPE_INT) || (isNumeric left && isNumeric right)
  | TokenType.DIVIDE | TokenType.MINUS => isNumeric left && isNumeric right
  | TokenType.PLUS =>
    (left == TYPE_STRING && right == TYPE_STRING) || (isNumeric left && isNumeric right)
  | TokenType.IS_SMALLER | TokenType.IS_SMALLER_OR_EQUAL | TokenType.IS_BIGGER
  | TokenType.IS_BIGGER_OR_EQUAL => isNumeric left && isNumeric right
  | TokenType.IS_EQUAL | TokenType.IS_NOT_EQUAL | TokenType.KW_IS => true
  | TokenType.LOGICAL_AND | TokenType.LOGICAL_OR => left == TYPE_BOOL && right == TYPE_BOOL
  | _ => false

/-- The token of a string literal. -/
def stringToken (s : String) : Token :=
  { type := TokenType.STRING_LITERAL,
    value := some { stringVal := some s, intVal := 0, floatVal := 0 }, line := 1 }

/-- The tree of an expression with the operator `+` over two literals, the nodes numbered
0 (left), 1 (right) and 2 (operator). -/
def plusTree (left right : Token) : AstNode :=
  .bin 2 AstNodeType.AST_EXPRESSION { Token.zero with type := TokenType.PLUS }
    (some (.leaf 0 AstNodeType.AST_LITERAL left))
    (some (.leaf 1 AstNodeType.AST_LITERAL right))

/-- A program whose `main` holds the assignment `x = 1 + "a"`. -/
def typeMismatchProgram : String :=
  "import \"ifj25\" for Ifj\nclass Main \x7b\nstatic main() \x7b\nvar x\nx = 1 + \"a\"\n" ++
  "\x7d\n\x7d\n"

/-! ## Definitions for the tokens that the scanner delivers -/

/-- A run of calls on the scanner, `true` for a call of `getNextToken` and `false` for a
call of `lookAhead`: the tokens that the successful calls of `getNextToken` return, in the
order of the calls.  The run ends at a call that writes outside its buffer, where the
behaviour of the C program is undefined. -/
def deliveredTokens : List Bool → Scanner → List Token
  | [], _ => []
  | true :: rest, sc =>
    if (getNextToken sc).1 == HEAP_OVERFLOW then []
    else if (getNextToken sc).1 != 0 then deliveredTokens rest (getNextToken sc).2.2
    else (getNextToken sc).2.1 :: deliveredTokens rest (getNextToken sc).2.2
  | false :: rest, sc =>
    if (lookAhead sc).1 == HEAP_OVERFLOW then [] else deliveredTokens rest (lookAhead sc).2.2

/-- A result of a reading function of the scanner that leaves the flag `lastWasEOL` as it
is in the scanner `sc`. -/
def KeepsFlag (sc : Scanner) (r : Nat × Token × Scanner) : Prop :=
  r.2.2.lastWasEOL = sc.lastWasEOL ∧ r.2.2.isLookingAhead = sc.isLookingAhead

/-! ## Definitions for the prologue -/

/-- The bytes of the string that a token carries, all of them. -/
def tokenPayload (t : Token) : Option String := t.value.bind (fun v => v.stringVal)

/-- The arguments of a call: the children of the list of parameters on the right of the
node. -/
def callArgs : AstNode → List AstNode
  | .bin _ _ _ _ (some (.list _ _ _ items)) => items
  | _ => []

/-- The assignments `node->expressionType = v` of a list, done one after the other on a
store of expression types. -/
def setTypes (types : List ExprType) (ops : List (Nat × ExprType)) : List ExprType :=
  ops.foldl (fun t op => t.set op.1 op.2) types

/-- The state after parsing, before the later pass: the prologue is read, the built-in
functions are loaded and the program is parsed. -/
def parsed (fuel : Nat) (input : List Char) : Except Err Parser := do
  let symStack := symTableStackPush (symTableStackCreate INITIAL_CAPACITY_STACK)
  let scanner ← readPrologue (initScanner input)
  let symStack1 ← loadIFJBuiltins symStack
  parseProgram fuel (parserInit scanner symStack1)

/-- The later pass run twice on the deferred list of a program: the expression types of
the nodes after the first run and after the second run. -/
def resolveTwice (fuel : Nat) (input : List Char) :
    Except Err (List ExprType × List ExprType) := do
  let parser ← parsed fuel input
  let symStack2 := symTableStackPush parser.symStack
  let (types1, symStack3) ←
    semanticResolveCheckLater parser.resolveLater symStack2 parser.nodeTypes
  let (types2, _) ← semanticResolveCheckLater parser.resolveLater symStack3 types1
  Except.ok (types1, types2)

/-- A program whose function `f` assigns `a = b + p` and then `b = p`, with the parameter
`p` and the local variables `a` and `b`. -/
def reassignProgram : String :=
  "import \"ifj25\" for Ifj\nclass Main \x7b\nstatic f(p) \x7b\nvar b\nb = 1\nvar a\n" ++
  "a = b + p\nb = p\n\x7d\nstatic main() \x7b\n\x7d\n\x7d\n"

/-! ## Definitions for the declaration of a function -/

/-- The kind of the symbol that `parseFunDec` creates for a node of a kind. -/
def symbolKindOf (type : AstNodeType) : SymbolKind :=
  if type = AstNodeType.AST_FUN_GET then SymbolKind.SYM_GET
  else if type = AstNodeType.AST_FUN_SET then SymbolKind.SYM_SET
  else SymbolKind.SYM_FUNC

/-- What `parseFunDec` has read when it creates the symbol: the new node, its kind, the
token of the name, the list of parameters, their number and the name. -/
structure FunHeader where
  funNode : AstNode
  type : AstNodeType
  token : Token
  left : Option AstNode
  paramsCount : Nat
  name : String

/-- The first part of `parseFunDec`, up to the call of `symbolCreate`. -/
def parseFunDecHead (fuel : Nat) (p : Parser) : Except Err (FunHeader × Parser) := do
  let p1 ← parserAdvance p
  let p2 ← parserValidate p1 TokenType.KW_STATIC
  let p3 ← parserAdvance p2
  let p4 ← parserValidate p3 TokenType.IDENTIFIER
  let (funNode0, p5) := astCreateNode p4 AstNodeType.AST_FUN_DEC
  let token := p4.current
  let p6 ← parserLookAhead p5
  let (type, left, p7) ←
    (if p6.lookAhead.type = TokenType.LPAR then
       match parseParams fuel p6 with
       | Except.error e => Except.error e
       | Except.ok (params, q) => Except.ok (AstNodeType.AST_FUN_DEC, some params, q)
     else if p6.lookAhead.type = TokenType.ASSIGN then do
       let q1 ← parserAdvance p6
       let (params, q2) ← parseParams fuel q1
       let paramCount ← childCount params
       if paramCount != 1 then errorExit SYNTAX_ERROR
       else Except.ok (AstNodeType.AST_FUN_SET, some params, q2)
     else if p6.lookAhead.type = TokenType.LCURLY then
       Except.ok (AstNodeType.AST_FUN_GET, none, p6)
     else errorExit SYNTAX_ERROR)
  let paramsCount ←
    (match left with
     | some params => childCount params
     | none => Except.ok 0)
  let name ← tokenString token
  Except.ok ({ funNode := funNode0, type := type, token := token, left := left,
               paramsCount := paramsCount, name := name }, p7)

/-- The second part of `parseFunDec`: the symbol is created and looked up, a declared
symbol of its name with its number of parameters ends the run with the code 4, else the
symbol found is marked as declared or the new one is entered in the global scope and
marked.  The result is the address of the new symbol and the parser. -/
def declareFunction (h : FunHeader) (p7 : Parser) : Except Err (Nat × Parser) := do
  let (funSymbol, stack1) :=
    allocSymbol p7.symStack
      (symbolCreate h.name TYPE_NULL (symbolKindOf h.type) h.paramsCount)
  let p8 : Parser := { p7 with symStack := stack1 }
  let found := symTableStackFindSymbol p8.symStack (symAt p8.symStack.mem funSymbol).name
  let p9 ←
    (match found with
     | some f =>
       if (symAt p8.symStack.mem f).numOfParams = h.paramsCount ∧
           (symAt p8.symStack.mem f).declared then errorExit SEM_REDEF
       else if !(symAt p8.symStack.mem f).declared then
         Except.ok (p8.updSym f (fun sym => { sym with declared := true }))
       else
         match scopeAddAt p8.symStack 0 funSymbol with
         | Except.error e => Except.error e
         | Except.ok stack2 =>
           Except.ok ({ p8 with symStack := stack2 }.updSym funSymbol
             (fun sym => { sym with declared := true }))
     | none =>
       match scopeAddAt p8.symStack 0 funSymbol with
       | Except.error e => Except.error e
       | Except.ok stack2 =>
         Except.ok ({ p8 with symStack := stack2 }.updSym funSymbol
           (fun sym => { sym with declared := true })))
  Except.ok (funSymbol, p9)

/-- The third part of `parseFunDec`: the scope of the function is pushed, the parameters
are installed, the body is parsed and the scope is popped. -/
def parseFunDecBody (fuel : Nat) (h : FunHeader) (funSymbol : Nat) (p9 : Parser) :
    Except Err (AstNode × Parser) := do
  let p10 : Parser := { p9 with symStack := symTableStackPush p9.symStack }
  let top := stackTop p10.symStack
  let paramItems ←
    (match h.left with
     | some params => childItems params
     | none => Except.ok [])
  let p11 ← installParams top paramItems p10
  let (body, p12) ← parseBlock fuel funSymbol p11
  let funNode := AstNode.bin h.funNode.id h.type h.token h.left (some body)
  let p13 := p12.setType funNode (symAt p12.symStack.mem funSymbol).expressionType
  Except.ok (funNode, { p13 with symStack := symTableStackPop p13.symStack })

/-- The name under which the symbol of the declaration is stored. -/
def mangledName (h : FunHeader) : String :=
  (symbolCreate h.name TYPE_NULL (symbolKindOf h.type) h.paramsCount).name

/-- The global scope holds a declared symbol of the name. -/
def DeclaredIn (s : SymTableStack) (X : String) : Prop :=
  ∃ a, globalFind s X = some a ∧ (symAt s.mem a).declared = true

/-- The value of a result, or the given value after an error. -/
def resultOr {α : Type} (x : Except Err α) (d : α) : α :=
  match x with
  | Except.ok a => a
  | Except.error _ => d

/-- The result is a value. -/
def isValue {α : Type} (x : Except Err α) : Bool :=
  match x with
  | Except.ok _ => true
  | Except.error _ => false

/-- The scope stack at the start of the parser: one scope, with the built-in functions. -/
def builtinStack : SymTableStack :=
  resultOr (loadIFJBuiltins (symTableStackPush (symTableStackCreate INITIAL_CAPACITY_STACK)))
    (symTableStackCreate INITIAL_CAPACITY_STACK)

/-- The parser at the start of the text of a declaration, over the scope stack with the
built-in functions. -/
def declarationParser (text : String) : Parser :=
  parserInit (initScanner text.data) builtinStack

/-- The header of the declaration at the start of a text, and the parser after it. -/
def headerOf (text : String) : FunHeader × Parser :=
  resultOr (parseFunDecHead runFuel (declarationParser text))
    ({ funNode := mainOnlyClass, type := AstNodeType.AST_FUN_DEC, token := Token.zero,
       left := none, paramsCount := 0, name := "" }, declarationParser text)

/-- A program with the functions `f()` and `f(a)`. -/
def twoArityProgram : String :=
  "import \"ifj25\" for Ifj\nclass Main \x7b\nstatic f() \x7b\n\x7d\nstatic f(a) \x7b\n\x7d\n" ++
  "static main() \x7b\n\x7d\n\x7d\n"

/-- The names of the declared symbols of the global scope after the analysis of a
program, in the order of their creation. -/
def declaredNames (fuel : Nat) (input : List Char) : Except Err (List String) := do
  let a ← analyse fuel input
  Except.ok ((a.symStack.mem.filter (fun s =>
    s.declared && (globalFind a.symStack s.name).isSome)).map (fun s => s.name))

/-! ## Definitions for the type recorded on the symbol of a function -/

/-- The kinds of the statements that hold a block on their right: `if`, `else if`, `else`
and `while`. -/
def holdsBlock (t : AstNodeType) : Bool :=
  t == AstNodeType.AST_IF_STMT || t == AstNodeType.AST_IF_ELSE_STMT ||
    t == AstNodeType.AST_ELSE_STMT || t == AstNodeType.AST_WHILE

mutual
/-- The expressions of the `return` statements of a statement or a block, in the order
of the text. -/
def returnExprs : AstNode → List AstNode
  | .leaf _ _ _ => []
  | .bin _ t _ _ r =>
    if t = AstNodeType.AST_RETURN then
      match r with
      | some x => [x]
      | none => []
    else if holdsBlock t then returnExprsOpt r
    else []
  | .list _ t _ items => if t = AstNodeType.AST_BLOCK then returnExprsList items else []
/-- The same for a pointer to a node that may be null. -/
def returnExprsOpt : Option AstNode → List AstNode
  | none => []
  | some n => returnExprs n
/-- The same for the statements of a list. -/
def returnExprsList : List AstNode → List AstNode
  | [] => []
  | n :: rest => returnExprs n ++ returnExprsList rest
end

/-- What `parseReturn` does to the type recorded on the symbol of the function, for a
returned expression of the type `r`: the type is replaced when the recorded type and
`TYPE_UNKNOWN` have the value 1 in common, and united with `r` otherwise. -/
def returnStep (recorded r : ExprType) : ExprType :=
  if recorded &&& TYPE_UNKNOWN = 1 then r else recorded ||| r

/-- The types that the store holds for the expressions of the `return` statements of a
body. -/
def returnTypes (types : List ExprType) (body : AstNode) : List ExprType :=
  (returnExprs body).map (typeOf types)

/-- The body of the node of a declaration. -/
def bodyOf : AstNode → Option AstNode
  | .bin _ _ _ _ body => body
  | _ => none

mutual
/-- Every node of the tree has an address from `lo` on. -/
def idsGe (lo : Nat) : AstNode → Bool
  | .leaf i _ _ => decide (lo ≤ i)
  | .bin i _ _ l r => decide (lo ≤ i) && idsGeOpt lo l && idsGeOpt lo r
  | .list i _ _ items => decide (lo ≤ i) && idsGeList lo items
/-- The same for a pointer to a node that may be null. -/
def idsGeOpt (lo : Nat) : Option AstNode → Bool
  | none => true
  | some n => idsGe lo n
/-- The same for the nodes of a list. -/
def idsGeList (lo : Nat) : List AstNode → Bool
  | [] => true
  | n :: rest => idsGe lo n && idsGeList lo rest
end

/-- The nodes of a stack of `parseExp`: the trees have addresses from `lo` on, and the
address of every entry is below `hi`. -/
def StackIds (lo hi : Nat) (stack : List AstNode) : Prop :=
  idsGeList lo stack = true ∧ ∀ n ∈ stack, n.id < hi

/-- What a later store of expression types keeps of an earlier one: no entry is lost and
the entries below `b` are the same. -/
def FrameAt (b : Nat) (types types2 : List ExprType) : Prop :=
  types.length ≤ types2.length ∧
    ∀ i, i < b → types2.getD i TYPE_UNKNOWN = types.getD i TYPE_UNKNOWN

/-- What a later memory keeps of an earlier one, for the symbol at the address `A`: no
symbol is lost, no name is changed, and the symbol at `A` keeps its type when its name
is not made of identifier characters. -/
def MemStep (A : Nat) (mem mem2 : List Symbol) : Prop :=
  mem.length ≤ mem2.length ∧
  (∀ a, a < mem.length → (symAt mem2 a).name = (symAt mem a).name) ∧
  (A < mem.length → ¬ identChars (symAt mem A).name →
    (symAt mem2 A).expressionType = (symAt mem A).expressionType)

/-- The state in which the parser works on the body of the function whose symbol is at
the address `A`: the tokens are clean, the symbol is there, and its name is not made of
identifier characters only. -/
def BodyInv (A : Nat) (p : Parser) : Prop :=
  TokOK p ∧ A < p.symStack.mem.length ∧ ¬ identChars (symAt p.symStack.mem A).name

/-- What a parsing function does, from the parser `p` it is called on to the parser `q`
it returns, when `rs` are the expressions of the `return` statements it has parsed: the
state is kept, the types of the nodes that were there before are kept, the expressions
are nodes made meanwhile, and the type recorded on the symbol at `A` is the one before
combined with their types, in their order, by `returnStep`. -/
def RetStep (A : Nat) (p q : Parser) (rs : List AstNode) : Prop :=
  BodyInv A p →
    BodyInv A q ∧ FrameAt p.nodeTypes.length p.nodeTypes q.nodeTypes ∧
    (∀ r ∈ rs, p.nodeTypes.length ≤ r.id ∧ r.id < q.nodeTypes.length) ∧
    (symAt q.symStack.mem A).expressionType =
      (rs.map (typeOf q.nodeTypes)).foldl returnStep
        (symAt p.symStack.mem A).expressionType

/-- The token that the parser has looked ahead waits in the buffer of the scanner. -/
def Synced (p : Parser) : Prop :=
  p.scanner.isLookingAhead = true ∧ p.scanner.lookAheadToken = p.lookAhead

/-- What is assumed of the parser of the inner blocks, for the symbol at `A`. -/
def BlockRet (A : Nat) (block : BlockParser) : Prop :=
  ∀ (p q : Parser) (n : AstNode),
    block A p = Except.ok (n, q) → RetStep A p q (returnExprs n)

/-- The declaration at the start of a text as `parseFunDec` returns it over the built-in
functions, with the parser afterwards. -/
def declared (text : String) : AstNode × Parser :=
  resultOr (parseFunDec runFuel (declarationParser text))
    (mainOnlyClass, declarationParser text)

/-- What is observed of `parseFunDec` on the text of a declaration, over the built-in
functions: the type recorded on the symbol that `parseFunDec` created, and the types of
the expressions of the `return` statements of the body. -/
def recordedTypes (text : String) : Except Err (ExprType × List ExprType) := do
  let p := declarationParser text
  let (node, q) ← parseFunDec runFuel p
  Except.ok ((symAt q.symStack.mem p.symStack.mem.length).expressionType,
    (returnExprsOpt (bodyOf node)).map (typeOf q.nodeTypes))

/-- A declaration with a `return` statement in each branch of an `if` and one after it. -/
def branchReturns : String :=
  "static f(a) \x7b\nif (a) \x7b\nreturn 1\n\x7d else \x7b\nreturn \"s\"\n\x7d\n" ++
  "return 2.5\n\x7d\n"

/-! ## Definitions for the statements about expressions -/

/-- The parser with the first token of a text as its current token, over the scope stack
with the built-in functions: the state in which `parseExp` is entered. -/
def expressionParser (text : String) : Parser :=
  resultOr (parserAdvance (declarationParser text)) (declarationParser text)

/-- A program whose function `main` assigns `true` to a variable. -/
def trueProgram : String :=
  "import \"ifj25\" for Ifj\nclass Main \x7b\nstatic main() \x7b\nvar x\nx = true\n\x7d\n\x7d\n"

/-- A program whose function `main` has the statement `return` with no expression. -/
def bareReturnProgram : String :=
  "import \"ifj25\" for Ifj\nclass Main \x7b\nstatic main() \x7b\nreturn\n\x7d\n\x7d\n"

/-- The scanner after `k` tokens were taken from it with `getNextToken`. -/
def scannerAt : Nat → Scanner → Scanner
  | 0, sc => sc
  | k + 1, sc => (getNextToken (scannerAt k sc)).2.2

/-- The token that `getNextToken` delivers after `k` tokens were taken. -/
def tokenAt (k : Nat) (sc : Scanner) : Token := (getNextToken (scannerAt k sc)).2.1

/-- The result code with which `getNextToken` delivers the token `tokenAt k`. -/
def codeAt (k : Nat) (sc : Scanner) : Nat := (getNextToken (scannerAt k sc)).1

/-- The atoms: the tokens of the class `id` of the table whose node gets its type from
the kind of the token, or from a symbol that is in the table for an identifier. -/
def atomToken (stack : SymTableStack) (t : Token) : Bool :=
  match t.type with
  | TokenType.INT_LITERAL | TokenType.FLOAT_LITERAL | TokenType.STRING_LITERAL
  | TokenType.MULTILINE_STRING_LITERAL | TokenType.KW_VAL_NULL => true
  | TokenType.IDENTIFIER =>
    match tokenString t with
    | Except.ok name =>
      (symTableStackFindSymbol stack name).isSome ||
        (symTableStackFindSymbol stack
          (symbolCreate name TYPE_UNKNOWN SymbolKind.SYM_GET 1).name).isSome
    | Except.error _ => false
  | TokenType.GLOBAL_IDENTIFIER =>
    match tokenString t with
    | Except.ok name => (symTableStackFindSymbol stack name).isSome
    | Except.error _ => false
  | _ => false

/-- The kind of the node that `createNodeFromToken` makes for an atom. -/
def atomKind (t : TokenType) : AstNodeType :=
  if t = TokenType.IDENTIFIER ∨ t = TokenType.GLOBAL_IDENTIFIER then AstNodeType.AST_IDENTIFIER
  else AstNodeType.AST_LITERAL

/-- The leaf of an atom. -/
def atomLeaf (id : Nat) (t : Token) : AstNode := AstNode.leaf id (atomKind t.type) t

/-- The node of an operator with its two operands. -/
def operatorNode (id : Nat) (t : Token) (left right : AstNode) : AstNode :=
  AstNode.bin id AstNodeType.AST_EXPRESSION t (some left) (some right)

/-- The classes of the binary operators, numbered from the highest precedence to the
lowest: `*` `/`, then `+` `-`, then `<` `<=` `>` `>=`, then `==` `!=`, then `&&`, then
`||`. -/
def operatorClass : TokenType → Option Nat
  | TokenType.MULTIPLY | TokenType.DIVIDE => some 0
  | TokenType.PLUS | TokenType.MINUS => some 1
  | TokenType.IS_SMALLER | TokenType.IS_SMALLER_OR_EQUAL | TokenType.IS_BIGGER
  | TokenType.IS_BIGGER_OR_EQUAL => some 2
  | TokenType.IS_EQUAL | TokenType.IS_NOT_EQUAL => some 3
  | TokenType.LOGICAL_AND => some 4
  | TokenType.LOGICAL_OR => some 5
  | _ => none

/-- The tree of `(a p b) q c` for the tokens `a`, `p`, `b`, `q`, `c` with the first node
at the address `n`; the node at `n + 3` is the one that `parseExp` makes for `q` before
it reduces. -/
def leftTree (n : Nat) (a p b q c : Token) : AstNode :=
  operatorNode (n + 4) q (operatorNode (n + 1) p (atomLeaf n a) (atomLeaf (n + 2) b))
    (atomLeaf (n + 5) c)

/-- The tree of `a p (b q c)` for the tokens `a`, `p`, `b`, `q`, `c` with the first node
at the address `n`. -/
def rightTree (n : Nat) (a p b q c : Token) : AstNode :=
  operatorNode (n + 1) p (atomLeaf n a)
    (operatorNode (n + 3) q (atomLeaf (n + 2) b) (atomLeaf (n + 4) c))

/-- The row of the table that `parseExp` takes for a stack. -/
def stackIndex (stack : AstStack) : Nat :=
  match astStackNextOp stack with
  | some t => getPrecedenceSymbol t.token.type
  | none => PREC_END

/-- The parser while `parseExp` runs on the tokens after `p0`: `k` tokens were taken from
the scanner, the current token is `cur`, and `len` nodes exist. -/
def ExpState (p0 : Parser) (k : Nat) (cur : Token) (len : Nat) (p : Parser) : Prop :=
  p.scanner = scannerAt k p0.scanner ∧ p.current = cur ∧ p.symStack = p0.symStack ∧
    p.nodeTypes.length = len

/-- The tokens of an expression `a p b q c` before the end of the line: the current
token of the parser and the next three atoms are atoms, `p` and `q` are binary operators
of the classes `cp` and `cq`, and the five tokens after the current one are delivered
with the result code 0. -/
def ThreeAtoms (p : Parser) (cp cq : Nat) : Prop :=
  atomToken p.symStack p.current = true ∧
    operatorClass (tokenAt 0 p.scanner).type = some cp ∧
    atomToken p.symStack (tokenAt 1 p.scanner) = true ∧
    operatorClass (tokenAt 2 p.scanner).type = some cq ∧
    atomToken p.symStack (tokenAt 3 p.scanner) = true ∧
    (tokenAt 4 p.scanner).type = TokenType.EOL ∧
    ∀ k, k < 5 → codeAt k p.scanner = 0

/-- The tokens of an expression `! a q b` before the end of the line: the current token
is `!`, `a` and `b` are atoms, `q` is `&&` or `||`, and the four tokens after the current
one are delivered with the result code 0. -/
def NotAtoms (p : Parser) : Prop :=
  p.current.type = TokenType.LOGICAL_NOT ∧
    atomToken p.symStack (tokenAt 0 p.scanner) = true ∧
    ((tokenAt 1 p.scanner).type = TokenType.LOGICAL_AND ∨
      (tokenAt 1 p.scanner).type = TokenType.LOGICAL_OR) ∧
    atomToken p.symStack (tokenAt 2 p.scanner) = true ∧
    (tokenAt 3 p.scanner).type = TokenType.EOL ∧
    ∀ k, k < 4 → codeAt k p.scanner = 0

/-- A program whose function `main` assigns `1 == 2 != 3` to a variable. -/
def equalityChainProgram : String :=
  "import \"ifj25\" for Ifj\nclass Main \x7b\nstatic main() \x7b\nvar x\nx = 1 == 2 != 3\n\x7d\n\x7d\n"

/-- A program whose function `main` assigns `1 < 2 < 3` to a variable. -/
def relationChainProgram : String :=
  "import \"ifj25\" for Ifj\nclass Main \x7b\nstatic main() \x7b\nvar x\nx = 1 < 2 < 3\n\x7d\n\x7d\n"

/-- A program whose function `main` assigns `!1 && 2` to a variable. -/
def notAndProgram : String :=
  "import \"ifj25\" for Ifj\nclass Main \x7b\nstatic main() \x7b\nvar x\nx = !1 && 2\n\x7d\n\x7d\n"

/-! ## Definitions for the operand of a string literal -/

/-- The three decimal digits of a number below 1000, with leading zeros. -/
def threeDigits (n : Nat) : List Char :=
  [Char.ofNat (48 + n / 100 % 10), Char.ofNat (48 + n / 10 % 10), Char.ofNat (48 + n % 10)]

/-- The code of one byte in a string operand, as the rule states it: a backslash and the
three decimal digits of the byte when the byte is at most 32, `#` or a backslash, and
the byte itself otherwise. -/
def encodeByte (c : Char) : List Char :=
  if c.toNat ≤ 32 ∨ c.toNat = 35 ∨ c.toNat = 92 then chBackslash :: threeDigits c.toNat
  else [c]

/-- The operand for a sequence of bytes: the codes of the bytes in order. -/
def encodeBytes : List Char → List Char
  | [] => []
  | c :: rest => encodeByte c ++ encodeBytes rest

/-- The number that three decimal digits stand for. -/
def codeValue (d1 d2 d3 : Char) : Nat :=
  (d1.toNat - 48) * 100 + (d2.toNat - 48) * 10 + (d3.toNat - 48)

/-- The bytes that an operand stands for: a backslash with the three digits after it is
one byte, every other byte stands for itself. -/
def decodeOperand : List Char → List Char
  | [] => []
  | c :: d1 :: d2 :: d3 :: rest =>
    if c = chBackslash then Char.ofNat (codeValue d1 d2 d3) :: decodeOperand rest
    else c :: decodeOperand (d1 :: d2 :: d3 :: rest)
  | c :: rest => if c = chBackslash then [] else c :: decodeOperand rest

/-- An operand in which a backslash stands only before three decimal digits, and which
has no byte up to 32 and no `#`. -/
def operandOK : List Char → Bool
  | [] => true
  | c :: d1 :: d2 :: d3 :: rest =>
    if c = chBackslash then isdigit d1 && isdigit d2 && isdigit d3 && operandOK rest
    else decide (32 < c.toNat) && decide (c.toNat ≠ 35) && operandOK (d1 :: d2 :: d3 :: rest)
  | c :: rest =>
    if c = chBackslash then false
    else decide (32 < c.toNat) && decide (c.toNat ≠ 35) && operandOK rest

/-- A node of a string literal with the given buffer. -/
def stringLiteralNode (s : String) : AstNode :=
  AstNode.leaf 0 AstNodeType.AST_LITERAL
    { type := TokenType.STRING_LITERAL,
      value := some { allocTokenValue with stringVal := some s }, line := 1 }

/-- A program whose function `main` assigns the string literal `"a\0b"`, the bytes `a`,
0, `b`, to a variable. -/
def zeroByteStringProgram : String :=
  "import \"ifj25\" for Ifj\nclass Main \x7b\nstatic main() \x7b\nvar x\n" ++
  "x = \"a\\0b\"\n\x7d\n\x7d\n"

/-! ## Definitions for the two encoders of strings -/

/-- A program whose function `main` hands the string `a#b` to `Ifj.write`. -/
def hashArgumentProgram : String :=
  "import \"ifj25\" for Ifj\nclass Main \x7b\nstatic main() \x7b\nvar x\n" ++
  "x = Ifj.write(\"a#b\")\n\x7d\n\x7d\n"

/-- A program whose function `main` assigns the string `a#b` to a variable. -/
def hashLiteralProgram : String :=
  "import \"ifj25\" for Ifj\nclass Main \x7b\nstatic main() \x7b\nvar x\nx = \"a#b\"\n\x7d\n\x7d\n"

/-- The part of the text of `escapeString` for one byte. -/
def escapeStringByte (c : Char) : List Char :=
  (escapeString [c]).data

/-- The part of the text of the loop of `genLiteral` for one byte. -/
def escapeLiteralByte (c : Char) : List Char :=
  (escapeLiteral [c]).data

/-! ## Definitions for the statements about the scanner -/

/-- Three `"` in a row somewhere in the bytes. -/
def hasTripleQuote : List Char → Bool
  | a :: b :: c :: rest =>
    (a == chQuote && b == chQuote && c == chQuote) || hasTripleQuote (b :: c :: rest)
  | _ => false

/-- The text of a multi-line string literal with the body `b`, with `tail` after it. -/
def multilineLiteral (b tail : List Char) : List Char :=
  [chQuote, chQuote, chQuote] ++ b ++ [chQuote, chQuote, chQuote] ++ tail

/-- The bytes left after a block comment, as the rule states it: the bytes after the
opening are read from left to right with the nesting depth `d`; `/*` raises the depth by
one, `*/` lowers it by one, and the bytes after the `*/` that brings the depth to zero
are left.  `none` is the end of the input at a positive depth. -/
def commentRest : Nat → List Char → Option (List Char)
  | 0, src => some src
  | _ + 1, [] => none
  | _ + 1, [_] => none
  | d + 1, c :: n :: rest =>
    if c = '/' ∧ n = '*' then commentRest (d + 2) rest
    else if c = '*' ∧ n = '/' then commentRest d rest
    else commentRest (d + 1) (n :: rest)
termination_by _ src => src.length

/-! ## Definitions for the mangled names -/

/-- A base name as the scanner can deliver it: every character is an ASCII letter, a digit
or the underscore. -/
def baseChars (b : String) : Prop := ∀ c ∈ b.data, isIdentifierPart c = true

/-- An identifier of the source by the rule of the scanner: a letter or the underscore,
followed by letters, digits and underscores. -/
def sourceIdentifier (s : String) : Prop :=
  ∃ c rest, s.data = c :: rest ∧ isIdentifierStart c = true ∧
    ∀ x ∈ rest, isIdentifierPart x = true

/-- The kinds for which `symbolCreate` mangles the name. -/
def mangledKind (k : SymbolKind) : Prop :=
  k = SymbolKind.SYM_FUNC ∨ k = SymbolKind.SYM_GET ∨ k = SymbolKind.SYM_SET

/-- What `symbolGetUniqueName` appends to the base name. -/
def mangleSuffix (k : SymbolKind) (n : Nat) : List Char :=
  if k = SymbolKind.SYM_GET then "#get".data
  else if k = SymbolKind.SYM_SET then "#set".data
  else '$' :: (toString n).data

/-! ## Definitions for a sequence of insertions into one scope -/

/-- Successive calls of `scopeAddSymbol` on one scope for the symbols at the addresses of
the list, in order: the result codes of the calls, the scope and the memory afterwards. -/
def addSymbols : List Nat → Scope → List Symbol → Except Err (List Int × Scope × List Symbol)
  | [], scope, mem => Except.ok ([], scope, mem)
  | sym :: rest, scope, mem =>
    match scopeAddSymbol scope sym mem with
    | Except.error e => Except.error e
    | Except.ok (code, scope1, mem1) =>
      match addSymbols rest scope1 mem1 with
      | Except.error e => Except.error e
      | Except.ok (codes, scope2, mem2) => Except.ok (code :: codes, scope2, mem2)

/-- A memory with the symbols of thirteen variables `v0` to `v12`. -/
def thirteenSymbols : List Symbol :=
  (List.range 13).map (fun i => symbolCreate ("v" ++ toString i) TYPE_NULL SymbolKind.SYM_VAR 0)

/-! ## Definitions for the labels of the emitted code -/

/-- The text starts with the pattern. -/
def startsWith : List Char → List Char → Bool
  | [], _ => true
  | _ :: _, [] => false
  | p :: ps, c :: cs => p == c && startsWith ps cs

/-- A line that defines a label. -/
def isLabelLine (l : String) : Bool := startsWith "LABEL ".data l.data

/-- The lines of an emission that define a label, in order. -/
def labelLines (out : List String) : List String := out.filter isLabelLine

/-- A program whose function `main` calls `Ifj.substring("abc", 2, 1)`. -/
def substringProgram : String :=
  "import \"ifj25\" for Ifj\nclass Main \x7b\nstatic main() \x7b\nvar x\n" ++
  "x = Ifj.substring(\"abc\", 2, 1)\n\x7d\n\x7d\n"

/-- A program whose function `main` calls `Ifj.strcmp("a", "b")`. -/
def strcmpProgram : String :=
  "import \"ifj25\" for Ifj\nclass Main \x7b\nstatic main() \x7b\nvar x\n" ++
  "x = Ifj.strcmp(\"a\", \"b\")\n\x7d\n\x7d\n"

/-- A program whose function `main` calls `Ifj.ord("a", 0)`. -/
def ordProgram : String :=
  "import \"ifj25\" for Ifj\nclass Main \x7b\nstatic main() \x7b\nvar x\n" ++
  "x = Ifj.ord(\"a\", 0)\n\x7d\n\x7d\n"

/-! ## Definitions for variables of nested blocks -/

/-- A program whose function `main` declares `x` in its body and again in a nested
block. -/
def shadowProgram : String :=
  "import \"ifj25\" for Ifj\nclass Main \x7b\nstatic main() \x7b\nvar x\n\x7b\nvar x\n\x7d\n" ++
  "\x7d\n\x7d\n"

/-- The token of the identifier `x`. -/
def tokenX : Token :=
  { type := TokenType.IDENTIFIER,
    value := some { allocTokenValue with stringVal := some "x" }, line := 1 }

/-! ## Definitions for the logical operators -/

/-- The token of an operator. -/
def operatorToken (t : TokenType) : Token := { type := t, value := none, line := 1 }

/-! ## Definitions for the runs of `parseExp` that leave the table or the stack -/

/-- The tokens of two atoms in a row before the end of the line: the current token of
the parser and the next one are atoms, the end of the line follows, and the two tokens
after the current one are delivered with the result code 0. -/
def TwoAtoms (p : Parser) : Prop :=
  atomToken p.symStack p.current = true ∧
    atomToken p.symStack (tokenAt 0 p.scanner) = true ∧
    (tokenAt 1 p.scanner).type = TokenType.EOL ∧
    ∀ k, k < 2 → codeAt k p.scanner = 0

/-- A program whose function `main` assigns `1 2` to a variable. -/
def adjacentAtomsProgram : String :=
  "import \"ifj25\" for Ifj\nclass Main \x7b\nstatic main() \x7b\nvar x\nx = 1 2\n\x7d\n\x7d\n"

/-! ## Definitions for the end of an assignment -/

/-- A program in which `)` and a second assignment follow the assignment `x = 1` on its
line. -/
def strayParenProgram : String :=
  "import \"ifj25\" for Ifj\nclass Main \x7b\nstatic main() \x7b\nvar x\nx = 1 ) x = 2\n" ++
  "\x7d\n\x7d\n"

/-- A program in which `\x7b` and a second assignment follow the assignment `x = 1` on its
line. -/
def strayBraceProgram : String :=
  "import \"ifj25\" for Ifj\nclass Main \x7b\nstatic main() \x7b\nvar x\nx = 1 \x7b x = 2\n" ++
  "\x7d\n\x7d\n"

/-- A program in which `)` and the end of the line follow the assignment `x = 1`. -/
def strayParenLineProgram : String :=
  "import \"ifj25\" for Ifj\nclass Main \x7b\nstatic main() \x7b\nvar x\nx = 1 )\n\x7d\n\x7d\n"

/-- A program in which `)` follows the declaration `var x` on its line. -/
def strayParenDeclarationProgram : String :=
  "import \"ifj25\" for Ifj\nclass Main \x7b\nstatic main() \x7b\nvar x )\n\x7d\n\x7d\n"

/-- The lines between the head and the end of the function `main` in the code of a
program: what is written for the statements of its body. -/
def bodyLines (out : List String) : List String :=
  ((out.dropWhile (fun l => l != "PUSHFRAME")).drop 1).takeWhile (fun l => l != "POPFRAME")

/-- An atom followed by `)` or `\x7b`: the current token of the parser is an atom, and the
next token is delivered with the result code 0 and is one of the two. -/
def AtomThenStray (p : Parser) : Prop :=
  atomToken p.symStack p.current = true ∧
    ((tokenAt 0 p.scanner).type = TokenType.RPAR ∨
      (tokenAt 0 p.scanner).type = TokenType.LCURLY) ∧
    codeAt 0 p.scanner = 0

/-! ## Definitions for the look ahead of the scanner -/

/-- A result of a reading function of the scanner that leaves the buffer of the look
ahead as it is in the scanner `sc`. -/
def KeepsLook (sc : Scanner) (r : Nat × Token × Scanner) : Prop :=
  r.2.2.lookAheadToken = sc.lookAheadToken

/-- A call of the scanner: `getNextToken` or `lookAhead`. -/
inductive ScanCall where
  | next
  | peek
  deriving DecidableEq, Repr

/-- A sequence of calls of the scanner, up to the first call that reports an error: the
tokens that the calls of `getNextToken` returned, in order, and whether every call
returned 0. -/
def scanCalls : List ScanCall → Scanner → List Token × Bool
  | [], _ => ([], true)
  | ScanCall.next :: rest, sc =>
    if (getNextToken sc).1 != 0 then ([], false)
    else ((getNextToken sc).2.1 :: (scanCalls rest (getNextToken sc).2.2).1,
          (scanCalls rest (getNextToken sc).2.2).2)
  | ScanCall.peek :: rest, sc =>
    if (lookAhead sc).1 != 0 then ([], false) else scanCalls rest (lookAhead sc).2.2

/-- The calls of `getNextToken` of a sequence of calls. -/
def nextCalls (calls : List ScanCall) : List ScanCall :=
  calls.filter (fun c => c = ScanCall.next)

/-- A sequence of calls of the scanner that goes on after a call that reports a lexical
error: the tokens that the successful calls of `getNextToken` return, in order. -/
def returnedTokens (calls : List ScanCall) (sc : Scanner) : List Token :=
  deliveredTokens (calls.map (fun c => decide (c = ScanCall.next))) sc

/-- No token waits in the buffer of the look ahead, and the buffer is cleared. -/
def NoLook (sc : Scanner) : Prop :=
  sc.isLookingAhead = false ∧ sc.lookAheadToken = Token.zero

/-- The scanner with calls of `lookAhead` among the calls, `w`, and the scanner with the
calls of `getNextToken` alone, `s`, after the same calls of `getNextToken`: they are the
same, or `w` is `s` after one more call with the token of that call in the buffer. -/
def LookRel (w s : Scanner) : Prop :=
  NoLook s ∧
    (w = s ∨
      ((getNextToken s).1 = 0 ∧
        w = { (getNextToken s).2.2 with
                lookAheadToken := (getNextToken s).2.1, isLookingAhead := true }))

/-! ## Definitions for the flow of control in the emitted code

The instructions `JUMP`, `JUMPIFEQ` and `LABEL` of IFJcode25 are not part of the compiler;
their meaning is written down here as the target language defines it: `LABEL` marks a
place, `JUMP` goes on at the label, and `JUMPIFEQ label a b` goes on at the label when
the two operands are equal, where the operands have to be of the same type or one of them
`nil` (otherwise the run ends with the error 53). -/

/-- The values of IFJcode25, by their types. -/
inductive Value where
  | nil
  | bool (b : Bool)
  | int (n : Int)
  | float (text : String)
  | string (s : String)
  deriving DecidableEq, Repr

/-- The words of a line: the parts between its spaces. -/
def words : List Char → List (List Char)
  | [] => [[]]
  | c :: rest =>
    if c = ' ' then [] :: words rest
    else
      match words rest with
      | [] => [[c]]
      | w :: ws => (c :: w) :: ws

/-- An instruction as far as the flow of control goes: a jump, a conditional jump on
equality, a label, or any other instruction. -/
inductive Flow where
  | jump (label : List Char)
  | jumpIfEq (label first second : List Char)
  | label (name : List Char)
  | other
  deriving DecidableEq, Repr

/-- The instruction of a line of the emitted code. -/
def flowOf (line : String) : Flow :=
  match words line.data with
  | [op, l] =>
    if op = "JUMP".data then Flow.jump l
    else if op = "LABEL".data then Flow.label l
    else Flow.other
  | [op, l, a, b] => if op = "JUMPIFEQ".data then Flow.jumpIfEq l a b else Flow.other
  | _ => Flow.other

/-- The index of the first line that defines the label. -/
def labelIndex (l : List Char) : List String → Option Nat
  | [] => none
  | line :: rest =>
    if flowOf line = Flow.label l then some 0 else (labelIndex l rest).map (fun i => i + 1)

/-- The value of an operand: of the constants `bool@true`, `bool@false` and `nil@nil`,
and of a variable by the values `env` of the variables. -/
def operandValue (env : List Char → Option Value) (s : List Char) : Option Value :=
  if s = "bool@true".data then some (Value.bool true)
  else if s = "bool@false".data then some (Value.bool false)
  else if s = "nil@nil".data then some Value.nil
  else env s

/-- The comparison of `JUMPIFEQ`: `none` is the error 53 for operands of two types
neither of which is `nil`. -/
def sameValue : Value → Value → Option Bool
  | Value.nil, Value.nil => some true
  | Value.nil, _ => some false
  | _, Value.nil => some false
  | Value.bool a, Value.bool b => some (a == b)
  | Value.int a, Value.int b => some (a == b)
  | Value.float a, Value.float b => some (a == b)
  | Value.string a, Value.string b => some (a == b)
  | _, _ => none

/-- How a run of the instructions of control flow ends: control is at a line with another
instruction, the program is at its end, the run ends with an error code, or the fuel is
used up. -/
inductive FlowEnd where
  | reached (pc : Nat)
  | finished
  | exit (code : Nat)
  | outOfFuel
  deriving DecidableEq, Repr

/-- The run of the instructions of control flow from the line `pc` on, with the values
`env` of the variables: the indices of the lines executed, and how the run ends.  A label
that no line defines is the error 52, a variable without a value the error 54. -/
def runFlow (prog : List String) (env : List Char → Option Value) :
    Nat → Nat → List Nat × FlowEnd
  | 0, _ => ([], FlowEnd.outOfFuel)
  | fuel + 1, pc =>
    match prog.get? pc with
    | none => ([], FlowEnd.finished)
    | some line =>
      match flowOf line with
      | Flow.other => ([], FlowEnd.reached pc)
      | Flow.label _ => (pc :: (runFlow prog env fuel (pc + 1)).1,
                         (runFlow prog env fuel (pc + 1)).2)
      | Flow.jump l =>
        match labelIndex l prog with
        | none => ([pc], FlowEnd.exit 52)
        | some i => (pc :: (runFlow prog env fuel i).1, (runFlow prog env fuel i).2)
      | Flow.jumpIfEq l a b =>
        match operandValue env a, operandValue env b with
        | some x, some y =>
          match sameValue x y with
          | none => ([pc], FlowEnd.exit 53)
          | some true =>
            match labelIndex l prog with
            | none => ([pc], FlowEnd.exit 52)
            | some i => (pc :: (runFlow prog env fuel i).1, (runFlow prog env fuel i).2)
          | some false => (pc :: (runFlow prog env fuel (pc + 1)).1,
                           (runFlow prog env fuel (pc + 1)).2)
        | _, _ => ([pc], FlowEnd.exit 54)

/-- The values of the variables in which the variable `name` has the value `v` and no
other variable has one. -/
def oneVariable (name : String) (v : Value) : List Char → Option Value :=
  fun s => if s = name.data then some v else none

/-- A program whose function `main` assigns `2 < 1 || 2 < 1` to a variable. -/
def orProgram : String :=
  "import \"ifj25\" for Ifj\nclass Main \x7b\nstatic main() \x7b\nvar x\n" ++
  "x = 2 < 1 || 2 < 1\n\x7d\n\x7d\n"

/-- A program whose function `main` assigns `1 < 2 && 2 < 1` to a variable. -/
def andProgram : String :=
  "import \"ifj25\" for Ifj\nclass Main \x7b\nstatic main() \x7b\nvar x\n" ++
  "x = 1 < 2 && 2 < 1\n\x7d\n\x7d\n"

/-- The lines of a program, or no line when it is not compiled. -/
def compiledLines (program : String) : List String :=
  resultOr (compile runFuel program.data) []

/-- The lines of `genOperator` for `||` from the first conditional jump on, with the code
`outR` of the right operand among them. -/
def orLines (labEnd labTrue checkNil goCalcB tmp : String) (outR : List String) :
    List String :=
  ["JUMPIFEQ " ++ checkNil ++ " " ++ tmp ++ " bool@false",
   "JUMP " ++ labTrue,
   "LABEL " ++ checkNil,
   "JUMPIFEQ " ++ goCalcB ++ " " ++ tmp ++ " nil@nil",
   "JUMP " ++ labTrue,
   "LABEL " ++ goCalcB] ++
  (outR ++
    ["JUMP " ++ labEnd, "LABEL " ++ labTrue, "PUSHS bool@true", "LABEL " ++ labEnd])

/-- How the run of the code of `||` ends for the value `v` of the left operand, with `n`
lines before the first conditional jump and `m` lines of the right operand: the lines
executed and the line reached. -/
def orOutcome (n m : Nat) (v : Value) : List Nat × FlowEnd :=
  match v with
  | Value.bool false => ([n, n + 2, n + 3, n + 4, n + 7 + m], FlowEnd.reached (n + 7 + m + 1))
  | Value.bool true => ([n, n + 1, n + 7 + m], FlowEnd.reached (n + 7 + m + 1))
  | Value.nil => ([n, n + 1, n + 7 + m], FlowEnd.reached (n + 7 + m + 1))
  | _ => ([n], FlowEnd.exit 53)

/-- The token of the literal `null`. -/
def nullToken : Token := { type := TokenType.KW_VAL_NULL, value := none, line := 1 }

/-! ## Theorems -/

set_option maxRecDepth 100000 in
/-- Claim C1 as stated fails: the minimal program with the class header, the function
and both closing braces on one line ends with the syntax error code 2, because
`parseClassDec` requires a line feed after the opening brace of the class. -/
theorem minimal_one_line_rejected :
    compile runFuel minimalOneLine.data = Except.error (Err.exit SYNTAX_ERROR) := by
  decide!

set_option maxRecDepth 100000 in
/-- Claim C1, amended: the minimal program with a line feed after every opening and
every closing brace is accepted by the whole pipeline with exit status 0, and the text
written contains the lines `LABEL main$0`, `CALL main$0` and `EXIT int@0`. -/
theorem minimal_program_accepted :
    compile runFuel minimalProgram.data = Except.ok minimalEmitted ∧
      "LABEL main$0" ∈ minimalEmitted ∧ "CALL main$0" ∈ minimalEmitted ∧
      "EXIT int@0" ∈ minimalEmitted := by
  decide!

set_option maxRecDepth 100000 in
/-- Claim C3 fails on the code: the program that declares `f()` and calls `f(1)` is
accepted with exit status 0, the text written holds the line `CALL f$1`, and no line
`LABEL f$1` is written. -/
theorem call_without_label :
    compile runFuel wrongArityProgram.data = Except.ok wrongArityEmitted ∧
      "CALL f$1" ∈ wrongArityEmitted ∧ "LABEL f$1" ∉ wrongArityEmitted := by
  decide!

set_option maxRecDepth 100000 in
/-- Claim C5 fails on the code: for `if (a) { a = 10 } else { a = 20 }` the `JUMP` written
after the code of the first block goes to `$if_end_0`, the line `LABEL $if_end_0` stands
before the code of the else block (lines 25 to 28 of the text), and no jump stands
between them, so the else block also runs when the condition is true. -/
theorem else_block_not_skipped :
    compile runFuel ifElseProgram.data = Except.ok ifElseEmitted ∧
      (ifElseEmitted.drop 19).take 9 =
        ["PUSHS int@10", "POPS LF@a$1", "", "JUMP $if_end_0", "LABEL $if_skip_1", "POPFRAME",
         "LABEL $if_end_0", "PUSHS int@20", "POPS LF@a$1"] ∧
      ifElseEmitted.count "LABEL $if_end_0" = 1 := by
  decide!

set_option maxRecDepth 100000 in
/-- Claim C6 fails on the code: with the getter `x` declared (stored as `x#get`) and no
variable `x`, the assignment `y = x` is compiled to `PUSHS LF@x$1` followed by
`POPS LF@y$1`; no line `CALL x_get` is written. -/
theorem getter_read_not_called :
    compile runFuel getterProgram.data = Except.ok getterEmitted ∧
      (getterEmitted.drop 23).take 2 = ["PUSHS LF@x$1", "POPS LF@y$1"] ∧
      "CALL x_get" ∉ getterEmitted := by
  decide!

set_option maxRecDepth 100000 in
/-- Claim C7 fails on the code: with the setter `s` declared (stored as `s#set`) and no
variable `s`, the assignment `s = 1` is compiled to `PUSHS int@1` followed by
`POPS LF@s$1`; no line `CALL s_set` is written. -/
theorem setter_write_not_called :
    compile runFuel setterProgram.data = Except.ok setterEmitted ∧
      (setterEmitted.drop 20).take 2 = ["PUSHS int@1", "POPS LF@s$1"] ∧
      "CALL s_set" ∉ setterEmitted := by
  decide!

/-- Claim C2: whenever `genClassDec` completes on a class tree and a generator state, the
lines it emits start with `.IFJcode25` and `JUMP $$main_entry`, end with `CALL main$0`
and `EXIT int@0`, and consist of the two first lines, the code of all function, getter
and setter members, an empty line and `LABEL $$main_entry`, further lines, and the two
last lines: the entry label comes after every function body. -/
theorem genClassDec_layout (rec : Gen) (node : AstNode) (cg cg2 : CodeGenerator)
    (out : List String) (h : genClassDec rec node cg = Except.ok (out, cg2)) :
    out.take 2 = [".IFJcode25", "JUMP $$main_entry"] ∧
    out.drop (out.length - 2) = ["CALL main$0", "EXIT int@0"] ∧
    (∃ funs cg1 rest, genEach rec (classFunctions node) cg = Except.ok (funs, cg1) ∧
      out = [".IFJcode25", "JUMP $$main_entry"] ++ funs ++ ["", "LABEL $$main_entry"] ++ rest ++
        ["CALL main$0", "EXIT int@0"]) := by
  have key : ∃ funs cg1 rest, genEach rec (classFunctions node) cg = Except.ok (funs, cg1) ∧
      out = [".IFJcode25", "JUMP $$main_entry"] ++ funs ++ ["", "LABEL $$main_entry"] ++ rest ++
        ["CALL main$0", "EXIT int@0"] := by
    unfold genClassDec at h
    cases node with
    | leaf i t k =>
      simp only [bind, Except.bind, List.filter_nil, genEach] at h
      injection h with h
      injection h with h3 h4
      rw [List.append_nil] at h3
      exact ⟨[], cg, _, rfl, h3.symm⟩
    | bin i t k l r => simp [bind, Except.bind] at h
    | list i t k items =>
      simp only [bind, Except.bind] at h
      cases h1 : genEach rec (List.filter isFunNode items) cg with
      | error e => simp [h1] at h
      | ok r1 =>
        obtain ⟨funs, cg1⟩ := r1
        simp only [h1] at h
        cases h2 : genEach rec (List.filter
            (fun n => !isFunNode n && n.type != AstNodeType.AST_VAR_DEC) items) cg1 with
        | error e => simp [h2] at h
        | ok r2 =>
          simp only [h2] at h
          injection h with h
          injection h with h3 h4
          rw [List.append_assoc _ _ r2.1] at h3
          exact ⟨funs, cg1, _, h1, h3.symm⟩
  obtain ⟨funs, cg1, rest, hf, ho⟩ := key
  refine ⟨by rw [ho]; simp, ?_, funs, cg1, rest, hf, ho⟩
  have hl : out.length - 2 =
      ([".IFJcode25", "JUMP $$main_entry"] ++ funs ++ ["", "LABEL $$main_entry"] ++ rest).length := by
    rw [ho]; simp only [List.length_append, List.length_cons, List.length_nil]; omega
  rw [hl]
  conv => lhs; rw [ho]
  exact List.drop_left _ _

set_option maxRecDepth 100000 in
/-- The layout theorem of `genClassDec` applied to the class with the single function
`main`, on which the generation completes with the lines of `minimalEmitted`. -/
theorem genClassDec_layout_witness :
    genClassDec (genNode 10) mainOnlyClass emptyStackGen =
        Except.ok (minimalEmitted, emptyStackGen) ∧
      (minimalEmitted.take 2 = [".IFJcode25", "JUMP $$main_entry"] ∧
       minimalEmitted.drop (minimalEmitted.length - 2) = ["CALL main$0", "EXIT int@0"] ∧
       (∃ funs cg1 rest,
         genEach (genNode 10) (classFunctions mainOnlyClass) emptyStackGen =
           Except.ok (funs, cg1) ∧
         minimalEmitted = [".IFJcode25", "JUMP $$main_entry"] ++ funs ++
           ["", "LABEL $$main_entry"] ++ rest ++ ["CALL main$0", "EXIT int@0"])) :=
  ⟨by decide!,
   genClassDec_layout (genNode 10) mainOnlyClass emptyStackGen emptyStackGen minimalEmitted
     (by decide!)⟩

set_option maxRecDepth 100000 in
/-- Claim C9 fails on the code: `parseFunCall` looks the call up as `base$0` whatever the
number of arguments.  With only `f$0` declared, the call `f(1)` has one argument and no
symbol `f$1` is visible, yet the node is not appended to the deferred list and takes the
type of `f$0`; with only `g$1` declared, the call `g(1)` finds `g$1` visible, yet the
node is appended to the deferred list and keeps the unknown type. -/
theorem call_arity_not_used :
    parseFunCallOn (symbolCreate "f" TYPE_INT SymbolKind.SYM_FUNC 0) "f(1)\n" "f" 1 =
        Except.ok { exactVisible := false, arguments := 1, deferred := 0,
                    nodeDeferred := false, nodeType := TYPE_INT } ∧
      parseFunCallOn (symbolCreate "g" TYPE_INT SymbolKind.SYM_FUNC 1) "g(1)\n" "g" 1 =
        Except.ok { exactVisible := true, arguments := 1, deferred := 1,
                    nodeDeferred := true, nodeType := TYPE_UNKNOWN } := by
  decide!

/-- The pairs of a concatenation are the pairs of its parts. -/
theorem paramPairs_append (d : Nat) (xs ys : List String) :
    paramPairs d (xs ++ ys) = paramPairs d xs ++ paramPairs d ys := by
  induction xs with
  | nil => rfl
  | cons x xs ih => simp [paramPairs, ih]

/-- The recursion of `genParamsBackwardsRecursive` writes the pairs of the parameter names
from the last name to the first. -/
theorem genParamsBackwardsRecursive_eq (d : Nat) (items : List AstNode) (names : List String)
    (h : items.map (fun n => tokenString n.token) = names.map Except.ok) :
    genParamsBackwardsRecursive d items = Except.ok (paramPairs d names.reverse) := by
  induction items generalizing names with
  | nil =>
    cases names with
    | nil => rfl
    | cons a b => simp at h
  | cons item rest ih =>
    cases names with
    | nil => simp at h
    | cons p ps =>
      simp only [List.map_cons, List.cons.injEq] at h
      simp only [genParamsBackwardsRecursive, ih ps h.2, h.1, bind, Except.bind,
        List.reverse_cons, paramPairs_append, paramPairs, List.append_nil]

/-- A line `PUSHS x` pushes `x`. -/
theorem stackStep_push (m : StackMachine) (x : String) :
    stackStep m ("PUSHS " ++ x) = some { m with stack := x :: m.stack } := by
  have h : ("PUSHS " ++ x).data = 'P' :: 'U' :: 'S' :: 'H' :: 'S' :: ' ' :: x.data := by
    rw [String.data_append]; rfl
  simp [stackStep, h]

/-- A line `POPS v` on a stack that is not empty records the top value for `v`. -/
theorem stackStep_pop (m : StackMachine) (v top : String) (below : List String)
    (hs : m.stack = top :: below) :
    stackStep m ("POPS " ++ v) =
      some { stack := below, popped := m.popped ++ [(v, top)] } := by
  have h : ("POPS " ++ v).data = 'P' :: 'O' :: 'P' :: 'S' :: ' ' :: v.data := by
    rw [String.data_append]; rfl
  simp [stackStep, h, hs]

/-- A line `DEFVAR v` leaves the data stack as it is. -/
theorem stackStep_defvar (m : StackMachine) (v : String) :
    stackStep m ("DEFVAR " ++ v) = some m := by
  have h : ("DEFVAR " ++ v).data = 'D' :: 'E' :: 'F' :: 'V' :: 'A' :: 'R' :: ' ' :: v.data := by
    rw [String.data_append]; rfl
  simp [stackStep, h]

/-- A line `CALL l` leaves the data stack as it is. -/
theorem stackStep_call (m : StackMachine) (v : String) :
    stackStep m ("CALL " ++ v) = some m := by
  have h : ("CALL " ++ v).data = 'C' :: 'A' :: 'L' :: 'L' :: ' ' :: v.data := by
    rw [String.data_append]; rfl
  simp [stackStep, h]

/-- Running a concatenation is running its parts one after the other. -/
theorem runStack_append (xs ys : List String) (m : StackMachine) :
    runStack (xs ++ ys) m = (runStack xs m).bind (runStack ys) := by
  induction xs generalizing m with
  | nil => rfl
  | cons x xs ih =>
    simp only [List.cons_append, runStack]
    cases stackStep m x with
    | none => rfl
    | some m1 => exact ih m1

/-- Running the pushes of `xs` leaves the last operand on top. -/
theorem runStack_pushLines (xs : List String) (m : StackMachine) :
    runStack (pushLines xs) m = some { m with stack := xs.reverse ++ m.stack } := by
  induction xs generalizing m with
  | nil => rfl
  | cons x xs ih =>
    simp only [pushLines, List.map_cons, runStack, stackStep_push]
    have h := ih { m with stack := x :: m.stack }
    simp only [pushLines] at h
    rw [h]
    simp

/-- Running the pairs of `qs` on a stack with the values `ys` on top pops them in order:
the first name gets the top value. -/
theorem runStack_paramPairs (d : Nat) (qs ys : List String) (m : StackMachine)
    (st : List String) (hs : m.stack = ys ++ st) (hl : ys.length = qs.length) :
    runStack (paramPairs d qs) m =
      some { stack := st,
             popped := m.popped ++ List.zip (qs.map (fun p => lfVar p d)) ys } := by
  induction qs generalizing ys m with
  | nil =>
    cases ys with
    | nil => cases m; simp_all [paramPairs, runStack]
    | cons y ys => simp at hl
  | cons q qs ih =>
    cases ys with
    | nil => simp at hl
    | cons y ys =>
      simp only [paramPairs, List.cons_append, List.nil_append, runStack, stackStep_defvar]
      rw [stackStep_pop m _ y (ys ++ st) (by simpa using hs)]
      show runStack (paramPairs d qs)
          { stack := ys ++ st, popped := m.popped ++ [(lfVar q d, y)] } = _
      rw [ih ys { stack := ys ++ st, popped := m.popped ++ [(lfVar q d, y)] } rfl
        (by simpa using hl)]
      simp

/-- When the code of every node of a list is one push and leaves the state as it is, the
loop over the list writes the pushes in the order of the list. -/
theorem genEach_pushes (rec : Gen) (args : List AstNode) (xs : List String)
    (c : CodeGenerator)
    (h : List.Forall₂ (fun a x => ∀ c, rec a c = Except.ok (["PUSHS " ++ x], c)) args xs) :
    genEach rec args c = Except.ok (pushLines xs, c) := by
  induction h with
  | nil => rfl
  | cons hax _ ih => simp [genEach, hax c, ih, pushLines]

/-- Inside a function `genParams` writes the pairs of the parameter names from the last
to the first, then an empty line. -/
theorem genParams_inFunction (i : Nat) (t : AstNodeType) (k : Token) (items : List AstNode)
    (names : List String) (c : CodeGenerator)
    (h : items.map (fun n => tokenString n.token) = names.map Except.ok)
    (hin : c.inFunction = true) :
    genParams (.list i t k items) c =
      Except.ok (paramPairs c.frameDepth names.reverse ++ [""], c) := by
  simp [genParams, hin, genParamsBackwardsRecursive_eq _ _ _ h, bind, Except.bind]

/-- Claim C8: for a function declared with the parameters `names` (p1 .. pn), inside a
function `genParams` writes, for i = n down to 1, the pair `DEFVAR LF@pi$d`,
`POPS LF@pi$d` with d the frame depth, followed by an empty line, and the code of the
declaration is its head, these lines at the depth raised by one, and further lines; the
code of a call whose arguments are written as the pushes of x1 .. xn is `PUSHS x1`, ..,
`PUSHS xn`, then the `CALL` of the label of the declaration; and running the call code
followed by the head and the parameter code of the declaration pops xi into the variable
of pi for every i, leaving the rest of the stack as it was. -/
theorem params_popped_in_reverse_args_pushed_in_order
    (fuel : Nat) (rec : Gen) (cg cg2 cgc : CodeGenerator)
    (fi pi ci ai : Nat) (ftok ptok ctok atok : Token) (ct pt lt : AstNodeType)
    (body cleft : Option AstNode) (params args : List AstNode)
    (name : String) (names xs fout : List String)
    (hfun : tokenString ftok = Except.ok name)
    (hcall : tokenString ctok = Except.ok name)
    (hparams : params.map (fun n => tokenString n.token) = names.map Except.ok)
    (hargs : List.Forall₂ (fun a x => ∀ c, rec a c = Except.ok (["PUSHS " ++ x], c)) args xs)
    (harity : args.length = params.length)
    (hdone : genNode (fuel + 2)
      (.bin fi AstNodeType.AST_FUN_DEC ftok
        (some (.list pi AstNodeType.AST_PARAMS ptok params)) body) cg = Except.ok (fout, cg2)) :
    (∀ c : CodeGenerator, c.inFunction = true →
      genParams (.list pi pt ptok params) c =
        Except.ok (paramPairs c.frameDepth names.reverse ++ [""], c)) ∧
    (∃ rest, fout =
      ["", "LABEL " ++ name ++ "$" ++ toString names.length, "CREATEFRAME", "PUSHFRAME", ""] ++
        (paramPairs (cg.frameDepth + 1) names.reverse ++ [""]) ++ rest) ∧
    genFunCall rec (.bin ci ct ctok cleft (some (.list ai lt atok args))) cgc =
      Except.ok (pushLines xs ++ ["CALL " ++ name ++ "$" ++ toString names.length], cgc) ∧
    (∀ st : List String,
      runStack
        ((pushLines xs ++ ["CALL " ++ name ++ "$" ++ toString names.length]) ++
          (["", "LABEL " ++ name ++ "$" ++ toString names.length, "CREATEFRAME", "PUSHFRAME",
            ""] ++ (paramPairs (cg.frameDepth + 1) names.reverse ++ [""])))
        { stack := st, popped := [] } =
      some { stack := st,
             popped := (List.zip (names.map (fun p => lfVar p (cg.frameDepth + 1))) xs).reverse }) := by
  have hlenp : params.length = names.length := by
    have := congrArg List.length hparams
    simpa using this
  have hlenx : args.length = xs.length := hargs.length_eq
  refine ⟨fun c hin => genParams_inFunction _ _ _ _ _ c hparams hin, ?_, ?_, ?_⟩
  · have hp := genParams_inFunction pi AstNodeType.AST_PARAMS ptok params names
      (genFunHead (name ++ "$" ++ toString params.length) cg).2 hparams rfl
    have e1 : genNode (fuel + 2)
        (.bin fi AstNodeType.AST_FUN_DEC ftok
          (some (.list pi AstNodeType.AST_PARAMS ptok params)) body) cg =
        genFunDec (genNodeChildren (genNode (fuel + 1)))
          (.bin fi AstNodeType.AST_FUN_DEC ftok
            (some (.list pi AstNodeType.AST_PARAMS ptok params)) body) cg := rfl
    have e3 : ∀ c, genNode (fuel + 1) (.list pi AstNodeType.AST_PARAMS ptok params) c =
        genParams (.list pi AstNodeType.AST_PARAMS ptok params) c := fun _ => rfl
    rw [e1] at hdone
    simp only [AstNode.type, genFunDec, hfun, bind, Except.bind, genNodeChildren, e3,
      hp] at hdone
    have hhead : (genFunHead (name ++ "$" ++ toString params.length) cg) =
        (["", "LABEL " ++ name ++ "$" ++ toString names.length, "CREATEFRAME", "PUSHFRAME", ""],
         { cg with frameDepth := cg.frameDepth + 1, inFunction := true }) := by
      simp only [hlenp, genFunHead, String.append_assoc]
    rw [hhead] at hdone
    simp only at hdone
    cases body with
    | none =>
      simp only at hdone
      injection hdone with hdone
      injection hdone with h1 h2
      exact ⟨_, by rw [← h1]; simp only [List.append_assoc]; rfl⟩
    | some r =>
      simp only at hdone
      cases hr : genNode (fuel + 1) r
          { cg with frameDepth := cg.frameDepth + 1, inFunction := true } with
      | error e => simp [hr] at hdone
      | ok v =>
        simp only [hr] at hdone
        injection hdone with hdone
        injection hdone with h1 h2
        exact ⟨_, by rw [← h1]; simp only [List.append_assoc]; rfl⟩
  · simp [genFunCall, hcall, genEach_pushes rec args xs cgc hargs, bind, Except.bind, hlenp, harity]
  · intro st
    have hhead : ∀ m : StackMachine,
        runStack ["", "LABEL " ++ name ++ "$" ++ toString names.length, "CREATEFRAME",
          "PUSHFRAME", ""] m = some m := by
      intro m
      have hl : stackStep m ("LABEL " ++ name ++ "$" ++ toString names.length) = some m := by
        have h : ("LABEL " ++ name ++ "$" ++ toString names.length).data =
            'L' :: 'A' :: 'B' :: 'E' :: 'L' :: ' ' ::
              (name ++ "$" ++ toString names.length).data := by
          simp only [String.data_append]; rfl
        simp [stackStep, h]
      have h0 : stackStep m "" = some m := rfl
      have h1 : stackStep m "CREATEFRAME" = some m := rfl
      have h2 : stackStep m "PUSHFRAME" = some m := rfl
      simp only [runStack, hl, h0, h1, h2]
    have hcallStep : ∀ m : StackMachine,
        stackStep m ("CALL " ++ name ++ "$" ++ toString names.length) = some m := by
      intro m
      rw [String.append_assoc, String.append_assoc]
      exact stackStep_call m _
    have hcallRun : ∀ m : StackMachine,
        runStack ["CALL " ++ name ++ "$" ++ toString names.length] m = some m := by
      intro m
      simp only [runStack, hcallStep]
    have hblank : ∀ m : StackMachine, runStack [""] m = some m := fun _ => rfl
    rw [runStack_append, runStack_append, runStack_pushLines, Option.some_bind, hcallRun,
      Option.some_bind, runStack_append, hhead, Option.some_bind, runStack_append,
      runStack_paramPairs (cg.frameDepth + 1) names.reverse xs.reverse _ st rfl
        (by simp; omega),
      Option.some_bind, hblank]
    have hlen : (List.map (fun p => lfVar p (cg.frameDepth + 1)) names).length = xs.length := by
      simp; omega
    simp only [List.nil_append, List.map_reverse, List.zip]
    rw [List.reverse_zipWith hlen]

set_option maxRecDepth 100000 in
/-- The theorem on parameters and arguments applied to the declaration `f(a, b)` with an
empty body and the call `f(1, 2)`. -/
theorem params_popped_in_reverse_args_pushed_in_order_witness :
    (tokenString (identifierToken "f") = Except.ok "f" ∧
     twoParams.map (fun n => tokenString n.token) = ["a", "b"].map Except.ok ∧
     List.Forall₂ (fun a x => ∀ c, genNode 3 a c = Except.ok (["PUSHS " ++ x], c))
       twoArgs ["int@1", "int@2"] ∧
     twoArgs.length = twoParams.length ∧
     genNode (0 + 2)
       (.bin 1 AstNodeType.AST_FUN_DEC (identifierToken "f")
         (some (.list 2 AstNodeType.AST_PARAMS Token.zero twoParams))
         (some (.list 5 AstNodeType.AST_BLOCK Token.zero []))) emptyStackGen =
       Except.ok (twoParamsEmitted, emptyStackGen)) ∧
    ((∀ c : CodeGenerator, c.inFunction = true →
      genParams (.list 2 AstNodeType.AST_PARAMS Token.zero twoParams) c =
        Except.ok (paramPairs c.frameDepth ["a", "b"].reverse ++ [""], c)) ∧
    (∃ rest, twoParamsEmitted =
      ["", "LABEL " ++ "f" ++ "$" ++ toString ["a", "b"].length, "CREATEFRAME", "PUSHFRAME",
        ""] ++
        (paramPairs (emptyStackGen.frameDepth + 1) ["a", "b"].reverse ++ [""]) ++ rest) ∧
    genFunCall (genNode 3)
        (.bin 6 AstNodeType.AST_FUN_CALL (identifierToken "f") none
          (some (.list 7 AstNodeType.AST_PARAMS Token.zero twoArgs))) emptyStackGen =
      Except.ok (pushLines ["int@1", "int@2"] ++
        ["CALL " ++ "f" ++ "$" ++ toString ["a", "b"].length], emptyStackGen) ∧
    (∀ st : List String,
      runStack
        ((pushLines ["int@1", "int@2"] ++
            ["CALL " ++ "f" ++ "$" ++ toString ["a", "b"].length]) ++
          (["", "LABEL " ++ "f" ++ "$" ++ toString ["a", "b"].length, "CREATEFRAME",
            "PUSHFRAME", ""] ++
            (paramPairs (emptyStackGen.frameDepth + 1) ["a", "b"].reverse ++ [""])))
        { stack := st, popped := [] } =
      some { stack := st,
             popped := (List.zip (["a", "b"].map (fun p => lfVar p (emptyStackGen.frameDepth + 1)))
               ["int@1", "int@2"]).reverse })) :=
  have hargs : List.Forall₂ (fun a x => ∀ c, genNode 3 a c = Except.ok (["PUSHS " ++ x], c))
      twoArgs ["int@1", "int@2"] :=
    List.Forall₂.cons (fun _ => rfl) (List.Forall₂.cons (fun _ => rfl) List.Forall₂.nil)
  ⟨⟨by decide!, by decide!, hargs, by decide!, by decide!⟩,
   params_popped_in_reverse_args_pushed_in_order 0 (genNode 3) emptyStackGen emptyStackGen
     emptyStackGen 1 2 6 7 (identifierToken "f") Token.zero (identifierToken "f") Token.zero
     AstNodeType.AST_FUN_CALL AstNodeType.AST_PARAMS AstNodeType.AST_PARAMS
     (some (.list 5 AstNodeType.AST_BLOCK Token.zero [])) none twoParams twoArgs "f"
     ["a", "b"] ["int@1", "int@2"] twoParamsEmitted (by decide!) (by decide!) (by decide!)
     hargs (by decide!) (by decide!)⟩

/-- An entry read at an index that is the address of a symbol is an entry of the table. -/
theorem mem_of_getD_sym (table : List Slot) (j a : Nat)
    (h : table.getD j Slot.null = Slot.sym a) : Slot.sym a ∈ table := by
  by_cases hj : j < table.length
  · rw [List.getD_eq_getElem _ _ hj] at h
    rw [← h]
    exact List.getElem_mem _
  · rw [List.getD_eq_default _ _ (by omega)] at h
    cases h

/-- The symbol found by the probing of `scopeFindSymbol` is an entry of the table and has
the name looked for. -/
theorem findProbe_some (mem : List Symbol) (scope : Scope) (name : String) (index : Nat)
    (fuel i a : Nat) (h : findProbe mem scope name index fuel i = some a) :
    Slot.sym a ∈ scope.symbols ∧ (symAt mem a).name = name := by
  induction fuel generalizing i with
  | zero => simp [findProbe] at h
  | succ fuel ih =>
    unfold findProbe at h
    split at h
    · split at h
      · cases h
      · exact ih _ h
      · rename_i b hb
        split at h
        · rename_i hn
          injection h with h
          subst h
          exact ⟨mem_of_getD_sym _ _ _ hb, hn⟩
        · exact ih _ h
    · cases h

/-- The symbol found by `scopeFindSymbol` is an entry of the table and has the name looked
for. -/
theorem scopeFindSymbol_some (mem : List Symbol) (scope : Scope) (name : String) (a : Nat)
    (h : scopeFindSymbol mem scope name = some a) :
    Slot.sym a ∈ scope.symbols ∧ (symAt mem a).name = name :=
  findProbe_some mem scope name _ _ _ a h

/-- What stands before the first `$` of `b$rest` is `b` when `b` holds no `$`. -/
theorem takeWhile_dollar (b rest : List Char) (hb : '$' ∉ b) :
    (b ++ '$' :: rest).takeWhile (fun c => c != '$') = b := by
  induction b with
  | nil => simp [List.takeWhile]
  | cons c cs ih =>
    simp only [List.mem_cons, not_or] at hb
    have hc : (c != '$') = true := by
      simp only [bne_iff_ne, ne_eq]
      exact fun h => hb.1 h.symm
    simp [List.takeWhile, hc, ih hb.2]

/-- What stands from the first `$` of `b$rest` on is `$rest` when `b` holds no `$`. -/
theorem dropWhile_dollar (b rest : List Char) (hb : '$' ∉ b) :
    (b ++ '$' :: rest).dropWhile (fun c => c != '$') = '$' :: rest := by
  induction b with
  | nil => simp [List.dropWhile]
  | cons c cs ih =>
    simp only [List.mem_cons, not_or] at hb
    have hc : (c != '$') = true := by
      simp only [bne_iff_ne, ne_eq]
      exact fun h => hb.1 h.symm
    simp [List.dropWhile, hc, ih hb.2]

/-- A decimal digit is not the letter `s`. -/
theorem digitChar_ne_s (n : Nat) (h : n < 10) : Nat.digitChar n ≠ 's' := by
  interval_cases n <;> decide

/-- The digits of a number do not hold the letter `s`. -/
theorem toDigitsCore_no_s (fuel n : Nat) (ds : List Char) (hds : 's' ∉ ds) :
    's' ∉ Nat.toDigitsCore 10 fuel n ds := by
  induction fuel generalizing n ds with
  | zero => simpa [Nat.toDigitsCore] using hds
  | succ fuel ih =>
    have hd : 's' ∉ Nat.digitChar (n % 10) :: ds := by
      simp only [List.mem_cons, not_or]
      exact ⟨fun h => digitChar_ne_s (n % 10) (Nat.mod_lt _ (by decide)) h.symm, hds⟩
    unfold Nat.toDigitsCore
    simp only
    split
    · exact hd
    · exact ih _ _ hd

/-- The decimal text of a number does not hold the letter `s`. -/
theorem toString_no_s (n : Nat) : 's' ∉ (toString n).data := by
  show 's' ∉ (Nat.repr n).data
  unfold Nat.repr Nat.toDigits
  exact toDigitsCore_no_s _ _ _ (by simp)

/-- A name made by `symbolCreate` holds no `$`, or it is a base name without `$` followed
by `$` and a number. -/
theorem created_cases (name : String) (h : createdName name) :
    '$' ∉ name.data ∨
      ∃ (b : String) (n : Nat), '$' ∉ b.data ∧ name = b ++ "$" ++ toString n := by
  obtain ⟨b, kind, n, hb, hn⟩ := h
  have hdata : ∀ s : String, '$' ∉ s.data → '$' ∉ (b ++ s).data := by
    intro s hs
    simp only [String.data_append, List.mem_append, not_or]
    exact ⟨hb, hs⟩
  cases kind <;> simp only [symbolCreate, symbolGetUniqueName, reduceCtorEq, or_false, or_true,
      false_or, true_or, if_true, if_false] at hn
  · exact Or.inl (hn ▸ hb)
  · exact Or.inl (hn ▸ hb)
  · exact Or.inr ⟨b, n, hb, hn⟩
  · exact Or.inl (hn ▸ hdata "#get" (by decide))
  · exact Or.inl (hn ▸ hdata "#set" (by decide))
  · exact Or.inl (hn ▸ hb)
  · exact Or.inl (hn ▸ hb)

/-- No name made by `symbolCreate` is a base name followed by `$set`, the name that
`findGetter` and `findSetter` look up. -/
theorem created_ne_dollar_set (name base : String) (h : createdName name)
    (hbase : '$' ∉ base.data) : name ≠ base ++ "$set" := by
  intro heq
  rcases created_cases name h with hno | ⟨b, n, hb, hn⟩
  · apply hno
    rw [heq]
    simp [String.data_append]
  · have h1 : (b ++ "$" ++ toString n).data = (base ++ "$set").data := by rw [← hn, heq]
    have h2 : b.data ++ '$' :: (toString n).data = base.data ++ '$' :: ['s', 'e', 't'] := by
      simpa [String.data_append] using h1
    have h3 := congrArg (List.dropWhile (fun c => c != '$')) h2
    rw [dropWhile_dollar _ _ hb, dropWhile_dollar _ _ hbase] at h3
    injection h3 with _ h4
    exact toString_no_s n (by rw [h4]; simp)

/-- A name made by `symbolCreate` that passes the test of `findFunctionAnyArity` for
`base` is `base` followed by `$` and a number. -/
theorem baseMatches_created (name base : String) (h : createdName name)
    (hm : baseMatches name base = true) : ∃ n : Nat, name = base ++ "$" ++ toString n := by
  simp only [baseMatches, Bool.and_eq_true, List.contains_iff_exists_mem_beq] at hm
  rcases created_cases name h with hno | ⟨b, n, hb, hn⟩
  · exfalso
    obtain ⟨⟨c, hc, hc2⟩, _⟩ := hm
    have : '$' = c := by simpa using hc2
    exact hno (this ▸ hc)
  · refine ⟨n, ?_⟩
    have h2 : name.data = b.data ++ '$' :: (toString n).data := by
      rw [hn]; simp [String.data_append]
    have h3 := hm.2
    rw [h2, takeWhile_dollar _ _ hb] at h3
    have h4 : b.data = base.data := by simpa using h3
    have h5 : b = base := String.ext h4
    rw [hn, h5]

/-- The name of a function of `base` passes the test of `findFunctionAnyArity`. -/
theorem baseMatches_function (base : String) (n : Nat) (hbase : '$' ∉ base.data) :
    baseMatches (base ++ "$" ++ toString n) base = true := by
  have h2 : (base ++ "$" ++ toString n).data = base.data ++ '$' :: (toString n).data := by
    simp [String.data_append]
  simp only [baseMatches, h2, takeWhile_dollar _ _ hbase, Bool.and_eq_true, beq_self_eq_true,
    and_true]
  simp

/-- The loop of `findFunctionAnyArity` finds a symbol when the table holds a function whose
name passes the test. -/
theorem findAnyArityIn_isSome (mem : List Symbol) (base : String) (slots : List Slot) (a : Nat)
    (ha : Slot.sym a ∈ slots) (hk : (symAt mem a).kind = SymbolKind.SYM_FUNC)
    (hm : baseMatches (symAt mem a).name base = true) :
    ∃ b, findAnyArityIn mem base slots = some b := by
  induction slots with
  | nil => cases ha
  | cons s rest ih =>
    cases s with
    | null =>
      simp only [List.mem_cons, reduceCtorEq, false_or] at ha
      simpa [findAnyArityIn] using ih ha
    | tombstone =>
      simp only [List.mem_cons, reduceCtorEq, false_or] at ha
      simpa [findAnyArityIn] using ih ha
    | sym c =>
      unfold findAnyArityIn
      split
      · exact ⟨c, rfl⟩
      · rename_i hc
        simp only [List.mem_cons, Slot.sym.injEq] at ha
        rcases ha with hac | har
        · subst hac
          exact absurd ⟨Or.inl hk, hm⟩ hc
        · exact ih har

/-- The loop of `findFunctionAnyArity` finds nothing when no name of the table passes the
test. -/
theorem findAnyArityIn_none (mem : List Symbol) (base : String) (slots : List Slot)
    (h : ∀ a, Slot.sym a ∈ slots → baseMatches (symAt mem a).name base = false) :
    findAnyArityIn mem base slots = none := by
  induction slots with
  | nil => rfl
  | cons s rest ih =>
    have hrest := ih (fun a ha => h a (List.mem_cons_of_mem _ ha))
    cases s with
    | null => simpa [findAnyArityIn] using hrest
    | tombstone => simpa [findAnyArityIn] using hrest
    | sym c =>
      unfold findAnyArityIn
      simp [h c (List.mem_cons_self _ _), hrest]

/-- A text shorter than the buffer is left as it is by `snprintf`. -/
theorem snprintf_fits (size : Nat) (text : String) (h : text.length < size) :
    snprintf size text = text := by
  unfold snprintf
  rw [List.take_of_length_le]
  exact Nat.le_sub_one_of_lt h

/-- A base name of at least 255 bytes fills the buffer of 256 bytes: what is formatted
after it is cut off. -/
theorem snprintf_long (base rest : String) (h : 255 ≤ base.length) :
    snprintf 256 (base ++ rest) = String.mk (base.data.take 255) := by
  unfold snprintf
  rw [String.data_append, List.take_append_of_le_length h]

/-- Claim C10, for names that fit the buffer and for names that do not.  For a call node
of `base` with the arguments `args`, a global scope whose names were all made by
`symbolCreate` from base names without `$`, and no symbol `base$k` (k the number of
arguments) visible in the stack.  When `base$k` and `base$set` are shorter than the 256
bytes of the buffers of `findFunctionExact`, `findGetter` and `findSetter`: if the global
scope holds a function `base$j`, `checkFunctionCallNode` ends with the exit code 5, and if
it holds no symbol named as a function, getter or setter of `base`, it ends with the exit
code 3.  When `base` has 255 bytes or more, the name looked up is cut to the first 255
bytes of `base`: a call without arguments is then accepted as soon as a symbol of that
name is visible, whatever the global scope holds, with no exit code. -/
theorem deferred_call_error_codes (stack : SymTableStack) (types : List ExprType)
    (id paramsId : Nat) (tok paramsTok : Token) (args : List AstNode) (base : String)
    (g : Scope)
    (hname : tokenString tok = Except.ok base)
    (hbase : '$' ∉ base.data)
    (hglobal : stack.scopes.head? = some g)
    (hnames : ∀ a, Slot.sym a ∈ g.symbols → createdName (symAt stack.mem a).name)
    (hexact : symTableStackFindSymbol stack (base ++ "$" ++ toString args.length) = none) :
    ((base ++ "$" ++ toString args.length).length < 256 → (base ++ "$set").length < 256 →
      ((∃ a j, Slot.sym a ∈ g.symbols ∧ (symAt stack.mem a).kind = SymbolKind.SYM_FUNC ∧
          (symAt stack.mem a).name =
            (symbolCreate base TYPE_UNKNOWN SymbolKind.SYM_FUNC j).name) →
        checkFunctionCallNode (callNode id paramsId tok paramsTok args) stack types =
          errorExit SEM_ARG) ∧
      ((∀ a kind n, Slot.sym a ∈ g.symbols →
          (kind = SymbolKind.SYM_FUNC ∨ kind = SymbolKind.SYM_GET ∨
            kind = SymbolKind.SYM_SET) →
          (symAt stack.mem a).name ≠ (symbolCreate base TYPE_UNKNOWN kind n).name) →
        checkFunctionCallNode (callNode id paramsId tok paramsTok args) stack types =
          errorExit SEM_UNDEF)) ∧
    (255 ≤ base.length → args = [] →
      ∀ a, symTableStackFindSymbol stack (String.mk (base.data.take 255)) = some a →
        checkFunctionCallNode (callNode id paramsId tok paramsTok args) stack types =
          Except.ok (setTypeOf types (callNode id paramsId tok paramsTok args)
            (symAt stack.mem a).expressionType)) := by
  constructor
  · intro hfit hfitSet
    have hfind : findFunctionExact stack base args.length = none := by
      unfold findFunctionExact
      rw [snprintf_fits _ _ hfit]
      exact hexact
    have hset : scopeFindSymbol stack.mem g (snprintf 256 (base ++ "$set")) = none := by
      rw [snprintf_fits _ _ hfitSet]
      cases hf : scopeFindSymbol stack.mem g (base ++ "$set") with
      | none => rfl
      | some a =>
        obtain ⟨hmem, hn⟩ := scopeFindSymbol_some _ _ _ _ hf
        exact absurd hn (created_ne_dollar_set _ _ (hnames a hmem) hbase)
    have hcheck : ∀ r : Option Nat, findAnyArityIn stack.mem base g.symbols = r →
        checkFunctionCallNode (callNode id paramsId tok paramsTok args) stack types =
          match r with
          | some _ => errorExit SEM_ARG
          | none => errorExit SEM_UNDEF := by
      intro r hr
      simp only [checkFunctionCallNode, callNode, hname, bind, Except.bind, hfind, findGetter,
        findSetter, findFunctionAnyArity, globalScope, hglobal, hset, hr]
    constructor
    · rintro ⟨a, j, hmem, hk, hn⟩
      have hm : baseMatches (symAt stack.mem a).name base = true := by
        rw [hn]
        exact baseMatches_function base j hbase
      obtain ⟨b, hb⟩ := findAnyArityIn_isSome stack.mem base g.symbols a hmem hk hm
      exact hcheck _ hb
    · intro hnone
      refine hcheck none (findAnyArityIn_none _ _ _ (fun a hmem => ?_))
      cases hm : baseMatches (symAt stack.mem a).name base with
      | false => rfl
      | true =>
        obtain ⟨n, hn⟩ := baseMatches_created _ _ (hnames a hmem) hm
        exact absurd hn (hnone a SymbolKind.SYM_FUNC n hmem (Or.inl rfl))
  · intro hlong hargs a ha
    subst hargs
    have hfind : findFunctionExact stack base 0 = some a := by
      unfold findFunctionExact
      rw [String.append_assoc, snprintf_long _ _ hlong]
      exact ha
    simp only [checkFunctionCallNode, callNode, hname, bind, Except.bind, List.length_nil,
      hfind, checkArgTypes]

/-- The global scope of `oneFunctionStack` holds the symbol at address 0 and no other. -/
theorem oneFunctionGlobal_slots :
    ∀ s ∈ oneFunctionGlobal.symbols, s = Slot.null ∨ s = Slot.sym 0 := by
  decide!

/-- Every symbol of the global scope of `oneFunctionStack` is named `f$0`. -/
theorem oneFunctionGlobal_names :
    ∀ a, Slot.sym a ∈ oneFunctionGlobal.symbols →
      (symAt oneFunctionStack.mem a).name = "f$0" := by
  intro a ha
  rcases oneFunctionGlobal_slots _ ha with h | h
  · cases h
  · injection h with h
    subst h
    decide!

set_option maxRecDepth 100000 in
/-- The global scope of `longNameStack` holds the symbol at address 0, named `f$0`, and
no other. -/
theorem longNameStack_names :
    ∀ a, Slot.sym a ∈ oneFunctionGlobal.symbols →
      (symAt longNameStack.mem a).name = "f$0" := by
  intro a ha
  rcases oneFunctionGlobal_slots _ ha with h | h
  · cases h
  · injection h with h
    subst h
    decide!

set_option maxRecDepth 1000000 in
/-- The theorem on deferred calls applied to a global scope that holds only `f$0`: the
call `f(1, 2)` ends with the exit code 5, the call `h(1, 2)` with the exit code 3.  With
the variable `longName` of 255 bytes in a scope on top, the call of `longName ++ "x"`
without arguments is accepted, although no function, getter or setter has that name.
The compiler accepts `longNameProgram`, in which the later pass stores the variable
`longName` before it resolves the call, and writes the call of the function that is
declared nowhere; with a short name for the variable the same call ends with the exit
code 3. -/
theorem deferred_call_error_codes_witness :
    (tokenString (identifierToken "f") = Except.ok "f" ∧ '$' ∉ "f".data ∧
      tokenString (identifierToken "h") = Except.ok "h" ∧ '$' ∉ "h".data ∧
      oneFunctionStack.scopes.head? = some oneFunctionGlobal ∧
      (∀ a, Slot.sym a ∈ oneFunctionGlobal.symbols →
        createdName (symAt oneFunctionStack.mem a).name) ∧
      symTableStackFindSymbol oneFunctionStack ("f" ++ "$" ++ toString twoArgs.length) = none ∧
      symTableStackFindSymbol oneFunctionStack ("h" ++ "$" ++ toString twoArgs.length) = none) ∧
    checkFunctionCallNode (callNode 6 7 (identifierToken "f") Token.zero twoArgs)
        oneFunctionStack [] = errorExit SEM_ARG ∧
    checkFunctionCallNode (callNode 6 7 (identifierToken "h") Token.zero twoArgs)
        oneFunctionStack [] = errorExit SEM_UNDEF ∧
    ((∀ a kind n, Slot.sym a ∈ oneFunctionGlobal.symbols →
        (symAt longNameStack.mem a).name ≠
          (symbolCreate (longName ++ "x") TYPE_UNKNOWN kind n).name) ∧
      symTableStackFindSymbol longNameStack (longName ++ "x" ++ "$" ++ toString 0) = none ∧
      symTableStackFindSymbol longNameStack longName = some 1) ∧
    checkFunctionCallNode (callNode 6 7 longCallToken Token.zero []) longNameStack [] =
      Except.ok (setTypeOf [] (callNode 6 7 longCallToken Token.zero []) TYPE_INT) ∧
    (resultOr (compile runFuel longNameProgram.data) []).filter
        (fun l => startsWith "CALL ".data l.data) =
      ["CALL g$0", "CALL " ++ longName ++ "x$0", "CALL main$0"] ∧
    compile runFuel longCallProgram.data = Except.error (Err.exit SEM_UNDEF) :=
  have hnames : ∀ a, Slot.sym a ∈ oneFunctionGlobal.symbols →
      createdName (symAt oneFunctionStack.mem a).name :=
    fun a ha => ⟨"f", SymbolKind.SYM_FUNC, 0, by decide, by
      rw [oneFunctionGlobal_names a ha]; decide⟩
  have hlong : ∀ a, Slot.sym a ∈ oneFunctionGlobal.symbols →
      createdName (symAt longNameStack.mem a).name :=
    fun a ha => ⟨"f", SymbolKind.SYM_FUNC, 0, by decide, by
      rw [longNameStack_names a ha]; decide⟩
  ⟨⟨by decide!, by decide, by decide!, by decide, by decide!, hnames, by decide!, by decide!⟩,
   (deferred_call_error_codes oneFunctionStack [] 6 7 (identifierToken "f") Token.zero twoArgs
      "f" oneFunctionGlobal (by decide!) (by decide) (by decide!) hnames (by decide!)).1
     (by decide) (by decide) |>.1 ⟨0, 0, by decide!, by decide!, by decide!⟩,
   (deferred_call_error_codes oneFunctionStack [] 6 7 (identifierToken "h") Token.zero twoArgs
      "h" oneFunctionGlobal (by decide!) (by decide) (by decide!) hnames (by decide!)).1
     (by decide) (by decide) |>.2
     (fun a kind n ha _ heq => by
        rw [oneFunctionGlobal_names a ha] at heq
        have h2 := congrArg (fun s => s.data.head?) heq
        cases kind <;>
          simp [symbolCreate, symbolGetUniqueName, String.data_append] at h2),
   ⟨fun a kind n ha heq => by
      rw [longNameStack_names a ha] at heq
      have h2 := congrArg (fun s => s.data.head?) heq
      cases kind <;>
        simp [symbolCreate, symbolGetUniqueName, String.data_append, longName] at h2,
    by decide!, by decide!⟩,
   (deferred_call_error_codes longNameStack [] 6 7 longCallToken Token.zero []
      (longName ++ "x") oneFunctionGlobal (by decide!) (by decide!) (by decide!) hlong
      (by decide!)).2 (by decide) rfl 1 (by decide!),
   by decide!, by decide!⟩

/-! ### The label lines of the declared functions -/

/-- Two probes of the same start that land on one index are the same probe. -/
theorem probe_inj (n h i j : Nat) (hi : i < n) (hj : j < n)
    (heq : (h + i) % n = (h + j) % n) : i = j := by
  have h1 : h + i ≡ h + j [MOD n] := heq
  have h2 : i ≡ j [MOD n] := Nat.ModEq.add_left_cancel' h h1
  have h3 : i % n = j % n := h2
  rwa [Nat.mod_eq_of_lt hi, Nat.mod_eq_of_lt hj] at h3

/-- Every index of the table is landed on by some probe. -/
theorem probe_surj (n h p : Nat) (hp : p < n) : ∃ i, i < n ∧ (h + i) % n = p := by
  have hn : 0 < n := by omega
  refine ⟨(p + (n - h % n)) % n, Nat.mod_lt _ hn, ?_⟩
  have hh : h % n < n := Nat.mod_lt _ hn
  have h1 : (h + (p + (n - h % n)) % n) % n = (h % n + (p + (n - h % n))) % n := by
    rw [Nat.add_mod_mod, ← Nat.mod_add_mod]
  rw [h1]
  have h2 : h % n + (p + (n - h % n)) = p + n := by omega
  rw [h2, Nat.add_mod_right, Nat.mod_eq_of_lt hp]

/-- Reading a table after one entry was written. -/
theorem getD_set (l : List Slot) (i j : Nat) (v : Slot) :
    (l.set i v).getD j Slot.null =
      if i = j ∧ i < l.length then v else l.getD j Slot.null := by
  induction l generalizing i j with
  | nil => simp
  | cons x xs ih =>
    cases i with
    | zero =>
      cases j with
      | zero => simp
      | succ j => simp
    | succ i =>
      cases j with
      | zero => simp
      | succ j =>
        simp only [List.set_cons_succ, List.getD_cons_succ, ih, List.length_cons,
          Nat.add_lt_add_iff_right, Nat.add_right_cancel_iff]

/-- Writing a symbol over a null entry adds one to the number of symbols. -/
theorem symCount_set (l : List Slot) (i a : Nat) (hi : i < l.length)
    (hnull : l.getD i Slot.null = Slot.null) :
    symCount (l.set i (Slot.sym a)) = symCount l + 1 := by
  induction l generalizing i with
  | nil => simp at hi
  | cons x xs ih =>
    cases i with
    | zero =>
      simp only [List.getD_cons_zero] at hnull
      subst hnull
      simp [symCount]
    | succ i =>
      simp only [List.getD_cons_succ] at hnull
      have h := ih i (by simpa using hi) hnull
      cases x <;> simp [symCount, h]

/-- A table without a null entry and without the mark holds as many symbols as it has
entries. -/
theorem symCount_full (l : List Slot)
    (h : ∀ p, p < l.length → l.getD p Slot.null ≠ Slot.null)
    (ht : ∀ s ∈ l, s ≠ Slot.tombstone) : symCount l = l.length := by
  induction l with
  | nil => rfl
  | cons x xs ih =>
    have hx := h 0 (by simp)
    have hrest := ih (fun p hp => by simpa using h (p + 1) (by simpa using hp))
      (fun s hs => ht s (List.mem_cons_of_mem _ hs))
    cases x with
    | null => simp at hx
    | tombstone => exact absurd rfl (ht Slot.tombstone (List.mem_cons_self _ _))
    | sym a => simp [symCount, hrest]

/-- The probing of `scopeFindSymbol` returns the symbol at probe `d` when every entry
before it on the way holds a symbol of another name. -/
theorem findProbe_reach (mem : List Symbol) (sc : Scope) (X : String) (h a d : Nat)
    (hd : d < sc.size)
    (hslot : sc.symbols.getD ((h + d) % sc.size) Slot.null = Slot.sym a)
    (hname : (symAt mem a).name = X)
    (hbefore : ∀ i, i < d → ∃ b, sc.symbols.getD ((h + i) % sc.size) Slot.null = Slot.sym b ∧
      (symAt mem b).name ≠ X) :
    ∀ fuel i, i ≤ d → d < i + fuel → findProbe mem sc X h fuel i = some a := by
  intro fuel
  induction fuel with
  | zero => intro i h1 h2; omega
  | succ fuel ih =>
    intro i h1 h2
    unfold findProbe
    rw [if_pos (by omega)]
    by_cases hid : i = d
    · subst hid
      rw [hslot]
      simp [hname]
    · obtain ⟨b, hb, hbn⟩ := hbefore i (by omega)
      rw [hb]
      simp only [hbn, if_false]
      exact ih (i + 1) (by omega) (by omega)

/-- An entry that holds a symbol is an entry of the list. -/
theorem getD_sym_lt (table : List Slot) (p a : Nat)
    (h : table.getD p Slot.null = Slot.sym a) : p < table.length := by
  by_contra hp
  rw [List.getD_eq_default _ _ (by omega)] at h
  cases h

/-- A symbol of the list stands at some index. -/
theorem mem_sym_getD (table : List Slot) (a : Nat) (h : Slot.sym a ∈ table) :
    ∃ p, table.getD p Slot.null = Slot.sym a := by
  obtain ⟨n, hn, hget⟩ := List.mem_iff_getElem.mp h
  exact ⟨n, by rw [List.getD_eq_getElem _ _ hn, hget]⟩

/-- In a scope in the kept state `scopeFindSymbol` finds a name exactly when an entry
holds a symbol of that name, and it returns that symbol. -/
theorem scopeFindSymbol_iff (mem : List Symbol) (sc : Scope) (X : String) (a : Nat)
    (hok : TableOK mem sc) :
    scopeFindSymbol mem sc X = some a ↔
      ∃ p, sc.symbols.getD p Slot.null = Slot.sym a ∧ (symAt mem a).name = X := by
  constructor
  · intro h
    obtain ⟨hmem, hn⟩ := scopeFindSymbol_some mem sc X a h
    obtain ⟨p, hp⟩ := mem_sym_getD _ _ hmem
    exact ⟨p, hp, hn⟩
  · rintro ⟨p, hp, hn⟩
    obtain ⟨hsize, _, htomb, _, hchain, hdup⟩ := hok
    obtain ⟨_, d, hd, hdp, hnonnull⟩ := hchain p a hp
    rw [← hsize] at hd hdp hnonnull
    rw [hn] at hdp hnonnull
    unfold scopeFindSymbol
    refine findProbe_reach mem sc X _ a d hd (by rw [hdp]; exact hp) hn ?_ sc.size 0
      (by omega) (by omega)
    intro i hi
    have hnn := hnonnull i hi
    cases hs : sc.symbols.getD ((getHash X sc.size + i) % sc.size) Slot.null with
    | null => exact absurd hs hnn
    | tombstone =>
      have hlt : (getHash X sc.size + i) % sc.size < sc.symbols.length := by
        rw [← hsize]; exact Nat.mod_lt _ (by omega)
      rw [List.getD_eq_getElem _ _ hlt] at hs
      exact absurd hs (htomb _ (List.getElem_mem _))
    | sym b =>
      refine ⟨b, rfl, fun hbn => ?_⟩
      have hpq := hdup _ _ _ _ hs hp (hbn.trans hn.symm)
      rw [← hdp] at hpq
      have := probe_inj sc.size _ i d (by omega) hd hpq
      omega

/-- The probing of `scopeAddSymbol` walks over the entries that hold symbols of other
names and then acts on the entry at probe `d`. -/
theorem addProbe_skip (mem : List Symbol) (sc : Scope) (sym h d : Nat) (hd : d < sc.size)
    (hbefore : ∀ i, i < d → ∃ b, sc.symbols.getD ((h + i) % sc.size) Slot.null = Slot.sym b ∧
      (symAt mem b).name ≠ (symAt mem sym).name) :
    ∀ fuel i, i ≤ d → d < i + fuel →
      addProbe sym h fuel i sc mem = addProbe sym h (i + fuel - d) d sc mem := by
  intro fuel
  induction fuel with
  | zero => intro i h1 h2; omega
  | succ fuel ih =>
    intro i h1 h2
    by_cases hid : i = d
    · subst hid
      congr 1
      omega
    · obtain ⟨b, hb, hbn⟩ := hbefore i (by omega)
      have hstep : addProbe sym h (fuel + 1) i sc mem = addProbe sym h fuel (i + 1) sc mem := by
        conv => lhs; unfold addProbe
        rw [if_pos (by omega)]
        simp only [hb, hbn, if_false]
      rw [hstep, ih (i + 1) (by omega) (by omega)]
      congr 1
      omega

/-- A scope in the kept state has a null entry. -/
theorem exists_null (mem : List Symbol) (sc : Scope) (hok : TableOK mem sc) :
    ∃ q, q < sc.size ∧ sc.symbols.getD q Slot.null = Slot.null := by
  obtain ⟨hsize, hcur, htomb, hcount, _, _⟩ := hok
  by_contra hno
  have hfull := symCount_full sc.symbols
    (fun p hp hnull => hno ⟨p, by omega, hnull⟩) htomb
  omega

/-- In a scope in the kept state the probing from any start comes to a first null
entry. -/
theorem first_null (mem : List Symbol) (sc : Scope) (h : Nat) (hok : TableOK mem sc) :
    ∃ d, d < sc.size ∧ sc.symbols.getD ((h + d) % sc.size) Slot.null = Slot.null ∧
      ∀ i, i < d → sc.symbols.getD ((h + i) % sc.size) Slot.null ≠ Slot.null := by
  obtain ⟨q, hq, hnull⟩ := exists_null mem sc hok
  obtain ⟨j, hj, hjq⟩ := probe_surj sc.size h q hq
  have hex : ∃ j, sc.symbols.getD ((h + j) % sc.size) Slot.null = Slot.null :=
    ⟨j, by rw [hjq]; exact hnull⟩
  classical
  refine ⟨Nat.find hex, ?_, Nat.find_spec hex, fun i hi => Nat.find_min hex hi⟩
  have : Nat.find hex ≤ j := Nat.find_min' hex (by rw [hjq]; exact hnull)
  omega

/-- Writing a new symbol into the first null entry on the way of its name keeps the state
of the scope. -/
theorem tableOK_insert (mem : List Symbol) (sc : Scope) (sym d : Nat)
    (hok : TableOK mem sc) (hsym : sym < mem.length) (hroom : sc.currentSize + 1 < sc.size)
    (hd : d < sc.size)
    (hnull : sc.symbols.getD ((getHash (symAt mem sym).name sc.size + d) % sc.size) Slot.null =
      Slot.null)
    (hbefore : ∀ i, i < d →
      sc.symbols.getD ((getHash (symAt mem sym).name sc.size + i) % sc.size) Slot.null ≠
        Slot.null)
    (hfresh : ∀ p b, sc.symbols.getD p Slot.null = Slot.sym b →
      (symAt mem b).name ≠ (symAt mem sym).name) :
    TableOK mem
      { sc with
        symbols := sc.symbols.set ((getHash (symAt mem sym).name sc.size + d) % sc.size)
          (Slot.sym sym),
        currentSize := sc.currentSize + 1 } := by
  obtain ⟨hsize, hcur, htomb, hcount, hchain, hdup⟩ := hok
  have hpos : 0 < sc.size := by omega
  have ht : (getHash (symAt mem sym).name sc.size + d) % sc.size < sc.symbols.length := by
    rw [← hsize]; exact Nat.mod_lt _ hpos
  refine ⟨by simpa using hsize, hroom, ?_, ?_, ?_, ?_⟩
  · intro s hs
    rcases List.mem_or_eq_of_mem_set hs with h | h
    · exact htomb s h
    · rw [h]; simp
  · show symCount (sc.symbols.set _ _) = sc.currentSize + 1
    rw [symCount_set _ _ _ ht hnull, hcount]
  · intro p a hp
    simp only [getD_set] at hp
    split at hp
    · rename_i hcond
      injection hp with hp
      subst hp
      refine ⟨hsym, ?_⟩
      unfold Reach
      simp only [List.length_set, ← hsize]
      refine ⟨d, hd, hcond.1, ?_⟩
      intro i hi
      simp only [getD_set]
      split
      · simp
      · exact hbefore i hi
    · obtain ⟨ha, e, he, hep, hen⟩ := hchain p a hp
      refine ⟨ha, ?_⟩
      unfold Reach
      simp only [List.length_set]
      refine ⟨e, he, hep, ?_⟩
      intro i hi
      simp only [getD_set]
      split
      · simp
      · exact hen i hi
  · intro p q a b hp hq hab
    simp only [getD_set] at hp hq
    split at hp
    · rename_i hcp
      split at hq
      · rename_i hcq
        exact hcp.1.symm.trans hcq.1
      · injection hp with hp
        subst hp
        exact absurd hab.symm (hfresh q b hq)
    · split at hq
      · injection hq with hq
        subst hq
        exact absurd hab (hfresh p a hp)
      · exact hdup p q a b hp hq hab

/-- The state of a scope depends on the memory only through the names of the symbols:
it is kept when the memory grows and the names stay. -/
theorem tableOK_mem (mem mem2 : List Symbol) (sc : Scope) (hok : TableOK mem sc)
    (hlen : mem.length ≤ mem2.length)
    (hnames : ∀ a, a < mem.length → (symAt mem2 a).name = (symAt mem a).name) :
    TableOK mem2 sc := by
  obtain ⟨hsize, hcur, htomb, hcount, hchain, hdup⟩ := hok
  refine ⟨hsize, hcur, htomb, hcount, ?_, ?_⟩
  · intro p a hp
    obtain ⟨ha, hr⟩ := hchain p a hp
    exact ⟨by omega, by rw [hnames a ha]; exact hr⟩
  · intro p q a b hp hq hab
    rw [hnames a (hchain p a hp).1, hnames b (hchain q b hq).1] at hab
    exact hdup p q a b hp hq hab

/-- The probing of `scopeAddSymbol` in a scope in the kept state with room for one more
symbol: when no entry has the name of the symbol, the symbol is written into a null
entry and the state is kept; when an entry has the name, `symbolUpdate` is applied to
that entry and the scope is left as it is. -/
theorem addProbe_ok (mem : List Symbol) (sc : Scope) (sym : Nat)
    (hok : TableOK mem sc) (hsym : sym < mem.length) (hroom : sc.currentSize + 1 < sc.size) :
    ((∀ p b, sc.symbols.getD p Slot.null = Slot.sym b →
        (symAt mem b).name ≠ (symAt mem sym).name) ∧
      ∃ t, t < sc.size ∧ sc.symbols.getD t Slot.null = Slot.null ∧
        addProbe sym (getHash (symAt mem sym).name sc.size) sc.size 0 sc mem =
          (0, { sc with symbols := sc.symbols.set t (Slot.sym sym),
                        currentSize := sc.currentSize + 1 }, mem) ∧
        TableOK mem { sc with symbols := sc.symbols.set t (Slot.sym sym),
                              currentSize := sc.currentSize + 1 }) ∨
    (∃ p b, sc.symbols.getD p Slot.null = Slot.sym b ∧
      (symAt mem b).name = (symAt mem sym).name ∧
      addProbe sym (getHash (symAt mem sym).name sc.size) sc.size 0 sc mem =
        (0, sc, symbolUpdate mem b (symAt mem sym))) := by
  have hok2 := hok
  obtain ⟨hsize, hcur, htomb, hcount, hchain, hdup⟩ := hok
  have hpos : 0 < sc.size := by omega
  have hsymOf : ∀ q, q < sc.size → sc.symbols.getD q Slot.null ≠ Slot.null →
      ∃ c, sc.symbols.getD q Slot.null = Slot.sym c := by
    intro q hq hnn
    cases hs : sc.symbols.getD q Slot.null with
    | null => exact absurd hs hnn
    | tombstone =>
      rw [List.getD_eq_getElem _ _ (by omega)] at hs
      exact absurd hs (htomb _ (List.getElem_mem _))
    | sym c => exact ⟨c, rfl⟩
  by_cases hex : ∃ p b, sc.symbols.getD p Slot.null = Slot.sym b ∧
      (symAt mem b).name = (symAt mem sym).name
  · right
    obtain ⟨p, b, hp, hb⟩ := hex
    refine ⟨p, b, hp, hb, ?_⟩
    obtain ⟨_, d, hd, hdp, hnonnull⟩ := hchain p b hp
    rw [← hsize] at hd hdp hnonnull
    rw [hb] at hdp hnonnull
    rw [addProbe_skip mem sc sym _ d hd ?_ sc.size 0 (by omega) (by omega)]
    · obtain ⟨k, hk⟩ : ∃ k, 0 + sc.size - d = k + 1 := ⟨sc.size - d - 1, by omega⟩
      rw [hk]
      unfold addProbe
      rw [if_pos hd]
      simp only [hdp, hp, hb, if_true]
    · intro i hi
      obtain ⟨c, hc⟩ := hsymOf _ (Nat.mod_lt _ hpos) (hnonnull i hi)
      refine ⟨c, hc, fun hcn => ?_⟩
      have hpq := hdup _ _ _ _ hc hp (hcn.trans hb.symm)
      rw [← hdp] at hpq
      have := probe_inj sc.size _ i d (by omega) hd hpq
      omega
  · left
    have hfresh : ∀ p b, sc.symbols.getD p Slot.null = Slot.sym b →
        (symAt mem b).name ≠ (symAt mem sym).name :=
      fun p b hp hb => hex ⟨p, b, hp, hb⟩
    refine ⟨hfresh, ?_⟩
    obtain ⟨d, hd, hnull, hbefore⟩ :=
      first_null mem sc (getHash (symAt mem sym).name sc.size) hok2
    refine ⟨_, Nat.mod_lt _ hpos, hnull, ?_,
      tableOK_insert mem sc sym d hok2 hsym hroom hd hnull hbefore hfresh⟩
    rw [addProbe_skip mem sc sym _ d hd ?_ sc.size 0 (by omega) (by omega)]
    · obtain ⟨k, hk⟩ : ∃ k, 0 + sc.size - d = k + 1 := ⟨sc.size - d - 1, by omega⟩
      rw [hk]
      unfold addProbe
      rw [if_pos hd]
      simp only [hnull]
    · intro i hi
      obtain ⟨c, hc⟩ := hsymOf _ (Nat.mod_lt _ hpos) (hbefore i hi)
      exact ⟨c, hc, hfresh _ c hc⟩

/-- What `probeNull` returns is the first null entry on the way from the start. -/
theorem probeNull_some (table : List Slot) :
    ∀ fuel idx t, idx < table.length → probeNull fuel table idx = some t →
      ∃ d, (idx + d) % table.length = t ∧ table.getD t Slot.null = Slot.null ∧
        ∀ i, i < d → table.getD ((idx + i) % table.length) Slot.null ≠ Slot.null := by
  intro fuel
  induction fuel with
  | zero => intro idx t _ h; simp [probeNull] at h
  | succ fuel ih =>
    intro idx t hidx h
    unfold probeNull at h
    split at h
    · rename_i hnull
      injection h with h
      subst h
      exact ⟨0, by simp [Nat.mod_eq_of_lt hidx], hnull, fun i hi => by omega⟩
    · rename_i hnn
      have hlen : 0 < table.length := by omega
      obtain ⟨d, hd, hnull, hbefore⟩ := ih _ t (Nat.mod_lt _ hlen) h
      refine ⟨d + 1, ?_, hnull, ?_⟩
      · rw [← hd, Nat.mod_add_mod]
        congr 1
        omega
      · intro i hi
        cases i with
        | zero => simpa [Nat.mod_eq_of_lt hidx] using hnn
        | succ j =>
          have := hbefore j (by omega)
          rw [Nat.mod_add_mod] at this
          have e : idx + (j + 1) = idx + 1 + j := by omega
          rw [e]
          exact this

/-- The first null entry on a way lies within one round of the table. -/
theorem first_null_lt (table : List Slot) (idx d : Nat) (hlen : 0 < table.length)
    (hnull : table.getD ((idx + d) % table.length) Slot.null = Slot.null)
    (hbefore : ∀ i, i < d → table.getD ((idx + i) % table.length) Slot.null ≠ Slot.null) :
    d < table.length := by
  by_contra hd
  have h := hbefore (d - table.length) (by omega)
  apply h
  have e : idx + d = idx + (d - table.length) + table.length := by omega
  rw [e, Nat.add_mod_right] at hnull
  exact hnull

/-- The symbols of a table after a symbol was written over a null entry. -/
theorem mem_set_null (nt : List Slot) (idx a x : Nat) (hidx : idx < nt.length)
    (hnull : nt.getD idx Slot.null = Slot.null) :
    Slot.sym x ∈ nt.set idx (Slot.sym a) ↔ (x = a ∨ Slot.sym x ∈ nt) := by
  constructor
  · intro h
    rcases List.mem_or_eq_of_mem_set h with h1 | h1
    · exact Or.inr h1
    · injection h1 with h1
      exact Or.inl h1
  · rintro (h | h)
    · subst h
      have h2 : (nt.set idx (Slot.sym x)).getD idx Slot.null = Slot.sym x := by
        rw [getD_set, if_pos ⟨rfl, hidx⟩]
      exact mem_of_getD_sym _ _ _ h2
    · obtain ⟨p, hp⟩ := mem_sym_getD _ _ h
      have hne : idx ≠ p := by
        intro e
        rw [e, hp] at hnull
        cases hnull
      have h2 : (nt.set idx (Slot.sym a)).getD p Slot.null = Slot.sym x := by
        rw [getD_set, if_neg (fun hc => hne hc.1), hp]
      exact mem_of_getD_sym _ _ _ h2

/-- The loop of `scopeDoubleCapacity`: when it ends, the new table is in the kept state
and holds the symbols it held before together with those of the old entries. -/
theorem rehashInto_ok (mem : List Symbol) :
    ∀ (l nt res : List Slot), rehashInto mem l nt = some res →
      TableOK mem { symbols := nt, size := nt.length, currentSize := symCount nt } →
      symCount nt + symCount l < nt.length →
      (∀ a, Slot.sym a ∈ l → a < mem.length) →
      l.Pairwise (fun s s2 => ∀ a b, s = Slot.sym a → s2 = Slot.sym b →
        (symAt mem a).name ≠ (symAt mem b).name) →
      (∀ a b, Slot.sym a ∈ nt → Slot.sym b ∈ l → (symAt mem a).name ≠ (symAt mem b).name) →
      TableOK mem { symbols := res, size := res.length, currentSize := symCount res } ∧
        res.length = nt.length ∧ symCount res = symCount nt + symCount l ∧
        ∀ a, Slot.sym a ∈ res ↔ (Slot.sym a ∈ nt ∨ Slot.sym a ∈ l) := by
  intro l
  induction l with
  | nil =>
    intro nt res hres hok _ _ _ _
    simp only [rehashInto, Option.some.injEq] at hres
    subst hres
    exact ⟨hok, rfl, by simp [symCount], fun a => by simp⟩
  | cons s rest ih =>
    intro nt res hres hok hroom haddr hpair hcross
    have hpair2 := List.pairwise_cons.mp hpair
    cases s with
    | null =>
      simp only [rehashInto] at hres
      obtain ⟨h1, h2, h3, h4⟩ := ih nt res hres hok (by simpa [symCount] using hroom)
        (fun a ha => haddr a (List.mem_cons_of_mem _ ha)) hpair2.2
        (fun a b ha hb => hcross a b ha (List.mem_cons_of_mem _ hb))
      exact ⟨h1, h2, by simpa [symCount] using h3, fun a => by simp [h4]⟩
    | tombstone =>
      simp only [rehashInto] at hres
      obtain ⟨h1, h2, h3, h4⟩ := ih nt res hres hok (by simpa [symCount] using hroom)
        (fun a ha => haddr a (List.mem_cons_of_mem _ ha)) hpair2.2
        (fun a b ha hb => hcross a b ha (List.mem_cons_of_mem _ hb))
      exact ⟨h1, h2, by simpa [symCount] using h3, fun a => by simp [h4]⟩
    | sym a =>
      simp only [rehashInto] at hres
      have hlen : 0 < nt.length := by omega
      cases hp : probeNull (nt.length + 1) nt (getHash (symAt mem a).name nt.length) with
      | none => simp [hp] at hres
      | some idx =>
        simp only [hp] at hres
        obtain ⟨d, hd, hnull, hbefore⟩ := probeNull_some nt _ _ idx
          (by unfold getHash; exact Nat.mod_lt _ hlen) hp
        have hdlt : d < nt.length := first_null_lt nt _ d hlen (by rw [hd]; exact hnull) hbefore
        have hidx : idx < nt.length := by rw [← hd]; exact Nat.mod_lt _ hlen
        have hins := tableOK_insert mem
          { symbols := nt, size := nt.length, currentSize := symCount nt } a d hok
          (haddr a (List.mem_cons_self _ _))
          (by show symCount nt + 1 < nt.length; simp only [symCount] at hroom; omega) hdlt
          (by simp only; rw [hd]; exact hnull) hbefore
          (fun p b hpb => hcross b a (mem_of_getD_sym _ _ _ hpb) (List.mem_cons_self _ _))
        simp only [hd] at hins
        have hcnt : symCount (nt.set idx (Slot.sym a)) = symCount nt + 1 :=
          symCount_set nt idx a hidx hnull
        have hok2 : TableOK mem
            { symbols := nt.set idx (Slot.sym a), size := (nt.set idx (Slot.sym a)).length,
              currentSize := symCount (nt.set idx (Slot.sym a)) } := by
          rw [List.length_set, hcnt]
          exact hins
        obtain ⟨h1, h2, h3, h4⟩ := ih (nt.set idx (Slot.sym a)) res hres hok2
          (by rw [List.length_set, hcnt]; simp only [symCount] at hroom; omega)
          (fun b hb => haddr b (List.mem_cons_of_mem _ hb)) hpair2.2
          (fun c b hc hb => by
            rcases (mem_set_null nt idx a c hidx hnull).mp hc with h | h
            · subst h
              exact hpair2.1 _ hb c b rfl rfl
            · exact hcross c b h (List.mem_cons_of_mem _ hb))
        refine ⟨h1, by rw [h2, List.length_set], by rw [h3, hcnt]; simp only [symCount]; omega,
          fun x => ?_⟩
        rw [h4, mem_set_null nt idx a x hidx hnull]
        simp only [List.mem_cons, Slot.sym.injEq]
        tauto

/-- Reading the memory after an assignment through a pointer. -/
theorem symAt_memUpdate (mem : List Symbol) (b a : Nat) (f : Symbol → Symbol) :
    symAt (memUpdate mem b f) a =
      if a = b ∧ a < mem.length then f (symAt mem a) else symAt mem a := by
  unfold symAt memUpdate
  simp only [List.getD_eq_getElem?_getD, List.getElem?_modify]
  by_cases ha : a < mem.length
  · rw [List.getElem?_eq_getElem ha]
    by_cases hab : a = b
    · subst hab
      simp [ha]
    · have : ¬ b = a := fun h => hab h.symm
      simp [hab, this]
  · rw [List.getElem?_eq_none (by omega)]
    simp [ha]

/-- An assignment through a pointer keeps the size of the memory. -/
theorem length_memUpdate (mem : List Symbol) (b : Nat) (f : Symbol → Symbol) :
    (memUpdate mem b f).length = mem.length := by
  unfold memUpdate
  simp

/-- The function `symbolUpdate` keeps the names. -/
theorem name_symbolUpdate (mem : List Symbol) (b a : Nat) (s : Symbol) :
    (symAt (symbolUpdate mem b s) a).name = (symAt mem a).name := by
  unfold symbolUpdate
  rw [symAt_memUpdate]
  split <;> rfl

/-- No entry of a table of null entries holds a symbol. -/
theorem getD_replicate_null (n p : Nat) :
    (List.replicate n Slot.null).getD p Slot.null = Slot.null := by
  by_cases hp : p < n
  · rw [List.getD_eq_getElem _ _ (by simpa using hp)]
    simp
  · rw [List.getD_eq_default _ _ (by simpa using hp)]

/-- A table of null entries holds no symbol. -/
theorem symCount_replicate_null (n : Nat) : symCount (List.replicate n Slot.null) = 0 := by
  induction n with
  | zero => rfl
  | succ n ih => simp [List.replicate_succ, symCount, ih]

/-- A new scope is in the kept state. -/
theorem tableOK_empty (mem : List Symbol) (n : Nat) (hn : 0 < n) :
    TableOK mem { symbols := List.replicate n Slot.null, size := n, currentSize := 0 } := by
  refine ⟨by simp, hn, ?_, symCount_replicate_null n, ?_, ?_⟩
  · intro s hs
    rw [List.eq_of_mem_replicate hs]
    simp
  · intro p a hp
    rw [getD_replicate_null] at hp
    cases hp
  · intro p q a b hp
    rw [getD_replicate_null] at hp
    cases hp

/-- The function `scopeDoubleCapacity` keeps the state of the scope and its symbols. -/
theorem scopeDoubleCapacity_ok (mem : List Symbol) (sc sc2 : Scope) (hok : TableOK mem sc)
    (h : scopeDoubleCapacity mem sc = some sc2) :
    TableOK mem sc2 ∧ sc2.size = sc.size * 2 ∧ sc2.currentSize = sc.currentSize ∧
      ∀ a, Slot.sym a ∈ sc2.symbols ↔ Slot.sym a ∈ sc.symbols := by
  unfold scopeDoubleCapacity at h
  cases hr : rehashInto mem sc.symbols (List.replicate (sc.size * 2) Slot.null) with
  | none => simp [hr] at h
  | some res =>
    simp only [hr, Option.some.injEq] at h
    subst h
    obtain ⟨hsize, hcur, htomb, hcount, hchain, hdup⟩ := hok
    have hempty := tableOK_empty mem (sc.size * 2) (by omega)
    have hpair : sc.symbols.Pairwise (fun s s2 => ∀ a b, s = Slot.sym a → s2 = Slot.sym b →
        (symAt mem a).name ≠ (symAt mem b).name) := by
      rw [List.pairwise_iff_getElem]
      intro i j hi hj hij a b ha hb hab
      have hp : sc.symbols.getD i Slot.null = Slot.sym a := by
        rw [List.getD_eq_getElem _ _ hi, ha]
      have hq : sc.symbols.getD j Slot.null = Slot.sym b := by
        rw [List.getD_eq_getElem _ _ hj, hb]
      have := hdup i j a b hp hq hab
      omega
    obtain ⟨h1, h2, h3, h4⟩ := rehashInto_ok mem sc.symbols
      (List.replicate (sc.size * 2) Slot.null) res hr
      (by simpa [symCount_replicate_null] using hempty)
      (by simp [symCount_replicate_null]; omega)
      (fun a ha => by
        obtain ⟨p, hp⟩ := mem_sym_getD _ _ ha
        exact (hchain p a hp).1)
      hpair
      (fun a b ha => absurd (List.eq_of_mem_replicate ha) (by simp))
    have hlen : res.length = sc.size * 2 := by simpa using h2
    have hcnt : symCount res = sc.currentSize := by
      rw [h3, symCount_replicate_null, hcount]; omega
    obtain ⟨_, _, t3, _, t5, t6⟩ := h1
    refine ⟨⟨hlen.symm, by show sc.currentSize < sc.size * 2; omega, t3, hcnt, ?_, t6⟩, rfl, rfl,
      fun a => ?_⟩
    · intro p a hp
      have := t5 p a hp
      simp only [hlen] at this
      exact this
    · rw [h4]
      constructor
      · rintro (h | h)
        · exact absurd (List.eq_of_mem_replicate h) (by simp)
        · exact h
      · exact Or.inr

/-- The function `scopeAddSymbol` on a scope in the kept state, for a symbol of the
memory: the state is kept and the names in the memory stay; either no entry had the name
of the symbol, and then the symbol is a new entry and the memory is as before, or an
entry had the name, and then `symbolUpdate` was applied to it and the entries are as
before. -/
theorem scopeAddSymbol_ok (mem mem2 : List Symbol) (sc sc2 : Scope) (sym : Nat) (code : Int)
    (hok : TableOK mem sc) (hsym : sym < mem.length)
    (h : scopeAddSymbol sc sym mem = Except.ok (code, sc2, mem2)) :
    TableOK mem2 sc2 ∧
    (((∀ b, Slot.sym b ∈ sc.symbols → (symAt mem b).name ≠ (symAt mem sym).name) ∧
        mem2 = mem ∧ ∀ a, Slot.sym a ∈ sc2.symbols ↔ (a = sym ∨ Slot.sym a ∈ sc.symbols)) ∨
      (∃ b, Slot.sym b ∈ sc.symbols ∧ (symAt mem b).name = (symAt mem sym).name ∧
        mem2 = symbolUpdate mem b (symAt mem sym) ∧
        ∀ a, Slot.sym a ∈ sc2.symbols ↔ Slot.sym a ∈ sc.symbols)) := by
  have key : ∀ sc1 : Scope, TableOK mem sc1 → sc1.currentSize + 1 < sc1.size →
      (∀ a, Slot.sym a ∈ sc1.symbols ↔ Slot.sym a ∈ sc.symbols) →
      addProbe sym (getHash (symAt mem sym).name sc1.size) sc1.size 0 sc1 mem =
        (code, sc2, mem2) →
      TableOK mem2 sc2 ∧
      (((∀ b, Slot.sym b ∈ sc.symbols → (symAt mem b).name ≠ (symAt mem sym).name) ∧
          mem2 = mem ∧ ∀ a, Slot.sym a ∈ sc2.symbols ↔ (a = sym ∨ Slot.sym a ∈ sc.symbols)) ∨
        (∃ b, Slot.sym b ∈ sc.symbols ∧ (symAt mem b).name = (symAt mem sym).name ∧
          mem2 = symbolUpdate mem b (symAt mem sym) ∧
          ∀ a, Slot.sym a ∈ sc2.symbols ↔ Slot.sym a ∈ sc.symbols)) := by
    intro sc1 hok1 hroom hmem hadd
    rcases addProbe_ok mem sc1 sym hok1 hsym hroom with
      ⟨hfresh, t, ht, hnull, hres, hok2⟩ | ⟨p, b, hp, hb, hres⟩
    · rw [hres] at hadd
      injection hadd with _ hadd
      injection hadd with hsc hm
      subst hsc hm
      refine ⟨hok2, Or.inl ⟨fun b hb => ?_, rfl, fun a => ?_⟩⟩
      · obtain ⟨p, hp⟩ := mem_sym_getD _ _ ((hmem b).mpr hb)
        exact hfresh p b hp
      · show Slot.sym a ∈ sc1.symbols.set t (Slot.sym sym) ↔ _
        rw [mem_set_null _ _ _ _ (by rw [← hok1.1]; exact ht) hnull, hmem]
    · rw [hres] at hadd
      injection hadd with _ hadd
      injection hadd with hsc hm
      subst hsc hm
      refine ⟨tableOK_mem mem _ sc1 hok1 (by rw [symbolUpdate, length_memUpdate])
        (fun a _ => name_symbolUpdate mem b a _), Or.inr ⟨b, ?_, hb, rfl, hmem⟩⟩
      exact (hmem b).mp (mem_of_getD_sym _ _ _ hp)
  unfold scopeAddSymbol at h
  simp only at h
  by_cases hl : loadExceeded sc.currentSize sc.size = true
  · simp only [hl, if_true] at h
    cases hd : scopeDoubleCapacity mem sc with
    | none => simp [hd] at h
    | some sc1 =>
      simp only [hd, Except.ok.injEq] at h
      obtain ⟨h1, h2, h3, h4⟩ := scopeDoubleCapacity_ok mem sc sc1 hok hd
      exact key sc1 h1 (by have := hok.2.1; omega) h4 h
  · have hl2 : loadExceeded sc.currentSize sc.size = false := by simpa using hl
    simp only [hl2, Bool.false_eq_true, if_false, Except.ok.injEq] at h
    refine key sc hok ?_ (fun a => Iff.rfl) h
    have hcur := hok.2.1
    simp only [loadExceeded, decide_eq_true_eq, not_lt] at hl
    omega

/-- The memory after the probing of `scopeAddSymbol`, in any scope: it is as before, or
`symbolUpdate` was applied to a symbol with the name of the added one. -/
theorem addProbe_mem (mem : List Symbol) (sym h : Nat) :
    ∀ fuel i (sc : Scope),
      (addProbe sym h fuel i sc mem).2.2 = mem ∨
        ∃ b, (symAt mem b).name = (symAt mem sym).name ∧
          (addProbe sym h fuel i sc mem).2.2 = symbolUpdate mem b (symAt mem sym) := by
  intro fuel
  induction fuel with
  | zero => intro i sc; exact Or.inl rfl
  | succ fuel ih =>
    intro i sc
    unfold addProbe
    split
    · simp only
      split
      · rename_i a ha
        split
        · rename_i hn
          exact Or.inr ⟨a, hn, rfl⟩
        · exact ih _ _
      · exact Or.inl rfl
    · exact Or.inl rfl

/-- The memory after `scopeAddSymbol`, in any scope. -/
theorem scopeAddSymbol_mem (mem mem2 : List Symbol) (sc sc2 : Scope) (sym : Nat) (code : Int)
    (h : scopeAddSymbol sc sym mem = Except.ok (code, sc2, mem2)) :
    mem2 = mem ∨ ∃ b, (symAt mem b).name = (symAt mem sym).name ∧
      mem2 = symbolUpdate mem b (symAt mem sym) := by
  unfold scopeAddSymbol at h
  simp only at h
  split at h
  · cases h
  · rename_i sc1 _
    simp only [Except.ok.injEq] at h
    have := addProbe_mem mem sym (getHash (symAt mem sym).name sc1.size) sc1.size 0 sc1
    rw [h] at this
    exact this

/-- A token of another kind than the two identifier kinds is clean. -/
theorem tokClean_of_type (t : Token) (h1 : t.type ≠ TokenType.IDENTIFIER)
    (h2 : t.type ≠ TokenType.GLOBAL_IDENTIFIER) : TokClean t := by
  intro h
  rcases h with h | h
  · exact absurd h h1
  · exact absurd h h2

/-- A character that may start an identifier may stand inside one. -/
theorem isIdentifierPart_of_start (c : Char) (h : isIdentifierStart c = true) :
    isIdentifierPart c = true := by
  simp only [isIdentifierStart, isIdentifierPart, isalnum, Bool.or_eq_true] at *
  rcases h with h | h
  · exact Or.inl (Or.inl h)
  · exact Or.inr h

/-- The token of `readString` has the kind of the token it was given or is a string
literal. -/
theorem readString_clean (src : List Char) (token : Token) (h : TokClean token) :
    TokClean (readString src token).2.1 := by
  unfold readString
  split
  · exact h
  · exact tokClean_of_type _ (by simp) (by simp)

/-- The token of `readMultilineString` is clean. -/
theorem readMultilineString_clean (src : List Char) (line : Nat) (token : Token)
    (h : TokClean token) : TokClean (readMultilineString src line token).2.1 := by
  unfold readMultilineString
  split
  · exact h
  · exact tokClean_of_type _ (by simp) (by simp)

/-- The token of `readNumber` is clean. -/
theorem readNumber_clean (src : List Char) (token : Token) (c : Char) (h : TokClean token) :
    TokClean (readNumber src token c).2.1 := by
  unfold readNumber
  simp only
  repeat' split
  all_goals first | exact h | exact tokClean_of_type _ (by simp) (by simp)

/-- The token of `twoCharToken` is clean. -/
theorem twoCharToken_clean (sc : Scanner) (token : Token) (c : Char) (two one : TokenType)
    (h1 : two ≠ TokenType.IDENTIFIER) (h2 : two ≠ TokenType.GLOBAL_IDENTIFIER)
    (h3 : one ≠ TokenType.IDENTIFIER) (h4 : one ≠ TokenType.GLOBAL_IDENTIFIER) :
    CleanStep sc (twoCharToken sc token c two one) := by
  unfold twoCharToken
  split
  · exact ⟨tokClean_of_type _ h3 h4, rfl, rfl⟩
  · split
    · exact ⟨tokClean_of_type _ h1 h2, rfl, rfl⟩
    · exact ⟨tokClean_of_type _ h3 h4, rfl, rfl⟩

/-- The token made from an identifier is clean. -/
theorem identToken_clean (token : Token) (ty : TokenType) (pre rest : List Char)
    (hpre : pre ≠ []) (hall : ∀ c ∈ pre, isIdentifierPart c = true) :
    TokClean { token with
      type := ty,
      value := some { allocTokenValue with
        stringVal := some (String.mk (pre ++ rest.takeWhile isIdentifierPart)) } } := by
  intro _
  refine ⟨_, _, rfl, rfl, ?_, ?_⟩
  · intro hnil
    simp only [List.append_eq_nil] at hnil
    exact hpre hnil.1
  · intro c hc
    simp only [List.mem_append] at hc
    rcases hc with hc | hc
    · exact hall c hc
    · exact List.mem_takeWhile_imp hc

/-- The token that `readString` gives back is clean. -/
theorem readString_eq_clean (src : List Char) (token t : Token) (r : Nat) (rest : List Char)
    (h : TokClean token) (heq : readString src token = (r, t, rest)) : TokClean t := by
  have hc := readString_clean src token h
  rw [heq] at hc
  exact hc

/-- The token that `readMultilineString` gives back is clean. -/
theorem readMultilineString_eq_clean (src : List Char) (line line2 : Nat) (token t : Token)
    (r : Nat) (rest : List Char) (h : TokClean token)
    (heq : readMultilineString src line token = (r, t, rest, line2)) : TokClean t := by
  have hc := readMultilineString_clean src line token h
  rw [heq] at hc
  exact hc

/-- The token that `readNumber` gives back is clean. -/
theorem readNumber_eq_clean (src : List Char) (token t : Token) (c : Char) (r : Nat)
    (rest : List Char) (h : TokClean token) (heq : readNumber src token c = (r, t, rest)) :
    TokClean t := by
  have hc := readNumber_clean src token c h
  rw [heq] at hc
  exact hc

/-- A choice between two results of a reading function. -/
theorem cleanStep_ite (sc : Scanner) (c : Prop) [Decidable c] (a b : Nat × Token × Scanner)
    (ha : c → CleanStep sc a) (hb : ¬c → CleanStep sc b) :
    CleanStep sc (if c then a else b) := by
  split
  · exact ha (by assumption)
  · exact hb (by assumption)

/-- The characters put in front of an identifier are identifier characters. -/
theorem identStart_all (c n : Char) (pre : List Char) (hc : isIdentifierStart c = true)
    (hpre : pre = [c] ∨ (pre = [c, n] ∧ (n == '_') = true)) :
    pre ≠ [] ∧ ∀ x ∈ pre, isIdentifierPart x = true := by
  rcases hpre with h | ⟨h, hn⟩
  · subst h
    refine ⟨by simp, fun x hx => ?_⟩
    simp only [List.mem_singleton] at hx
    subst hx
    exact isIdentifierPart_of_start _ hc
  · subst h
    refine ⟨by simp, fun x hx => ?_⟩
    simp only [List.mem_cons, List.mem_singleton, List.not_mem_nil, or_false] at hx
    rcases hx with hx | hx
    · subst hx
      exact isIdentifierPart_of_start _ hc
    · subst hx
      have : x = '_' := by simpa using hn
      subst this
      decide

/-- The token of `processToken` is clean, and the buffer of the scanner is left as it
is. -/
theorem processToken_clean (c : Char) (sc : Scanner) (token : Token) (h : TokClean token) :
    CleanStep sc (processToken c sc token) := by
  unfold processToken
  repeat' (first | (apply cleanStep_ite <;> intro _) | split)
  all_goals first
    | (rename_i heq; exact ⟨readString_eq_clean _ _ _ _ _ h heq, rfl, rfl⟩)
    | (rename_i heq; exact ⟨readMultilineString_eq_clean _ _ _ _ _ _ _ h heq, rfl, rfl⟩)
    | (rename_i heq; exact ⟨readNumber_eq_clean _ _ _ _ _ _ h heq, rfl, rfl⟩)
    | exact twoCharToken_clean _ _ _ _ _ (by decide) (by decide) (by decide) (by decide)
    | (refine ⟨tokClean_of_type _ ?_ ?_, rfl, rfl⟩ <;> (simp; done))
    | (have hs := identStart_all c c _ (by assumption) (Or.inl rfl)
       exact ⟨identToken_clean token _ _ _ hs.1 hs.2, rfl, rfl⟩)
    | (rename_i hn
       have hs := identStart_all c _ _ (by assumption) (Or.inr ⟨rfl, hn⟩)
       exact ⟨identToken_clean token _ _ _ hs.1 hs.2, rfl, rfl⟩)

/-- The token of `getRawToken` is clean when the one it starts from is. -/
theorem getRawTokenLoop_clean :
    ∀ (fuel : Nat) (sc : Scanner) (token : Token), TokClean token →
      CleanStep sc (getRawTokenLoop fuel sc token) := by
  intro fuel
  induction fuel with
  | zero => intro sc token h; exact ⟨h, rfl, rfl⟩
  | succ fuel ih =>
    intro sc token h
    unfold getRawTokenLoop
    repeat' (first
      | exact ih _ _ h
      | exact processToken_clean _ _ _ h
      | (apply cleanStep_ite <;> intro _)
      | split)
    all_goals (refine ⟨tokClean_of_type _ ?_ ?_, rfl, rfl⟩ <;> simp)

/-- The token of `getNextToken` is clean, and so is the buffer of the look ahead
afterwards, when the buffer was clean before. -/
theorem getNextTokenFuel_clean :
    ∀ (fuel : Nat) (sc : Scanner), TokClean sc.lookAheadToken →
      TokClean (getNextTokenFuel fuel sc).2.1 ∧
        TokClean (getNextTokenFuel fuel sc).2.2.lookAheadToken := by
  intro fuel
  induction fuel with
  | zero =>
    intro sc h
    exact ⟨tokClean_of_type _ (by simp [getNextTokenFuel, Token.zero])
      (by simp [getNextTokenFuel, Token.zero]), h⟩
  | succ fuel ih =>
    intro sc h
    unfold getNextTokenFuel
    split
    · exact ⟨h, tokClean_of_type _ (by simp [Token.zero]) (by simp [Token.zero])⟩
    · have hraw := getRawTokenLoop_clean (sc.source.length + 1) sc
        { Token.zero with line := sc.line }
        (tokClean_of_type _ (by simp [Token.zero]) (by simp [Token.zero]))
      unfold getRawToken
      obtain ⟨h1, h2, _⟩ := hraw
      split
      rename_i r token sc1 heq
      rw [heq] at h1 h2
      simp only at h1 h2
      split
      · exact ⟨h1, by rw [h2]; exact h⟩
      · split
        · split
          · exact ih sc1 (by rw [h2]; exact h)
          · exact ⟨h1, by show TokClean sc1.lookAheadToken; rw [h2]; exact h⟩
        · exact ⟨h1, by show TokClean sc1.lookAheadToken; rw [h2]; exact h⟩

/-- The function `getNextToken` gives a clean token and keeps the buffer clean. -/
theorem getNextToken_clean (sc : Scanner) (h : TokClean sc.lookAheadToken) :
    TokClean (getNextToken sc).2.1 ∧ TokClean (getNextToken sc).2.2.lookAheadToken :=
  getNextTokenFuel_clean _ sc h

/-- The function `lookAhead` gives a clean token and keeps the buffer clean. -/
theorem lookAhead_clean (sc : Scanner) (h : TokClean sc.lookAheadToken) :
    TokClean (lookAhead sc).2.1 ∧ TokClean (lookAhead sc).2.2.lookAheadToken := by
  unfold lookAhead
  split
  · exact ⟨h, h⟩
  · have hn := getNextToken_clean sc h
    split
    rename_i r token sc1 heq
    rw [heq] at hn
    split
    · exact ⟨hn.1, hn.1⟩
    · exact ⟨hn.1, hn.1⟩

/-- The memory keeps itself. -/
theorem memKeep_refl (P : String → Prop) (mem : List Symbol) : MemKeep P mem mem :=
  ⟨Nat.le_refl _, fun _ _ => ⟨rfl, id, fun _ => rfl⟩⟩

/-- What the memory keeps goes through two steps. -/
theorem memKeep_trans (P : String → Prop) (m1 m2 m3 : List Symbol)
    (h12 : MemKeep P m1 m2) (h23 : MemKeep P m2 m3) : MemKeep P m1 m3 := by
  refine ⟨Nat.le_trans h12.1 h23.1, fun a ha => ?_⟩
  obtain ⟨n1, d1, p1⟩ := h12.2 a ha
  obtain ⟨n2, d2, p2⟩ := h23.2 a (Nat.lt_of_lt_of_le ha h12.1)
  refine ⟨n2.trans n1, fun h => d2 (d1 h), fun h => ?_⟩
  rw [p2 (by rw [n1]; exact h), p1 h]

/-- The scope stack keeps itself. -/
theorem stackRel_refl (P : String → Prop) (s : SymTableStack) : StackRel P s s :=
  ⟨memKeep_refl P _, fun h => ⟨h, fun _ _ _ h2 => h2⟩⟩

/-- What the scope stack keeps goes through two steps. -/
theorem stackRel_trans (P : String → Prop) (s1 s2 s3 : SymTableStack)
    (h12 : StackRel P s1 s2) (h23 : StackRel P s2 s3) : StackRel P s1 s3 := by
  refine ⟨memKeep_trans P _ _ _ h12.1 h23.1, fun h => ?_⟩
  obtain ⟨g2, f2⟩ := h12.2 h
  obtain ⟨g3, f3⟩ := h23.2 g2
  exact ⟨g3, fun X a hP hf => f3 X a hP (f2 X a hP hf)⟩

/-- What the scope stack keeps for a set of names it keeps for a smaller set. -/
theorem stackRel_mono (P Q : String → Prop) (s s2 : SymTableStack)
    (hQP : ∀ X, Q X → P X) (h : StackRel P s s2) : StackRel Q s s2 := by
  refine ⟨⟨h.1.1, fun a ha => ?_⟩, fun hg => ?_⟩
  · obtain ⟨n1, d1, p1⟩ := h.1.2 a ha
    exact ⟨n1, d1, fun hq => p1 (hQP _ hq)⟩
  · obtain ⟨g2, f2⟩ := h.2 hg
    exact ⟨g2, fun X a hq hf => f2 X a (hQP X hq) hf⟩

/-- A declared function stays declared along `StackRel`. -/
theorem good_of_stackRel (P : String → Prop) (s s2 : SymTableStack) (X : String) (k : Nat)
    (hP : P X) (hg : GlobalOK s) (h : StackRel P s s2) (hgood : Good X k s) :
    Good X k s2 := by
  obtain ⟨a, hf, hd, hn⟩ := hgood
  obtain ⟨g, rest, hs, hok, _⟩ := hg
  have hfa : scopeFindSymbol s.mem g X = some a := by
    simpa [globalFind, hs] using hf
  obtain ⟨hmem, hname⟩ := scopeFindSymbol_some _ _ _ _ hfa
  obtain ⟨p, hp⟩ := mem_sym_getD _ _ hmem
  have ha : a < s.mem.length := (hok.2.2.2.2.1 p a hp).1
  obtain ⟨n1, d1, p1⟩ := h.1.2 a ha
  obtain ⟨_, f2⟩ := h.2 ⟨g, rest, hs, hok, by assumption⟩
  exact ⟨a, f2 X a hP hf, d1 hd, by rw [p1 (by rw [hname]; exact hP), hn]⟩

/-- The way `StackRel` is shown: the memory is kept, and when the global scope was in the
kept state it is so afterwards, it holds the symbols it held, and every symbol it holds
that it did not hold before has no `$` in its name or is declared. -/
theorem stackRel_intro (P : String → Prop) (s s2 : SymTableStack)
    (hmem : MemKeep P s.mem s2.mem)
    (hglob : ∀ g rest, s.scopes = g :: rest → TableOK s.mem g →
      ∃ g2 rest2, s2.scopes = g2 :: rest2 ∧ TableOK s2.mem g2 ∧
        (∀ a, Slot.sym a ∈ g.symbols → Slot.sym a ∈ g2.symbols) ∧
        (∀ a, Slot.sym a ∈ g2.symbols → Slot.sym a ∈ g.symbols ∨
          ¬ Dollar (symAt s2.mem a).name ∨ (symAt s2.mem a).declared = true)) :
    StackRel P s s2 := by
  refine ⟨hmem, ?_⟩
  rintro ⟨g, rest, hs, hok, hdecl⟩
  obtain ⟨g2, rest2, hs2, hok2, hsub, hnew⟩ := hglob g rest hs hok
  have hlt : ∀ a, Slot.sym a ∈ g.symbols → a < s.mem.length := by
    intro a ha
    obtain ⟨p, hp⟩ := mem_sym_getD _ _ ha
    exact (hok.2.2.2.2.1 p a hp).1
  refine ⟨⟨g2, rest2, hs2, hok2, fun a ha hd => ?_⟩, fun X a _ hf => ?_⟩
  · rcases hnew a ha with h | h | h
    · obtain ⟨n1, d1, _⟩ := hmem.2 a (hlt a h)
      exact d1 (hdecl a h (by rw [← n1]; exact hd))
    · exact absurd hd h
    · exact h
  · have hfa : scopeFindSymbol s.mem g X = some a := by
      simpa [globalFind, hs] using hf
    obtain ⟨hin, hname⟩ := scopeFindSymbol_some _ _ _ _ hfa
    obtain ⟨n1, _, _⟩ := hmem.2 a (hlt a hin)
    obtain ⟨p, hp⟩ := mem_sym_getD _ _ (hsub a hin)
    have : scopeFindSymbol s2.mem g2 X = some a :=
      (scopeFindSymbol_iff s2.mem g2 X a hok2).mpr ⟨p, hp, by rw [n1, hname]⟩
    simpa [globalFind, hs2] using this

/-- Reading the memory below its old size after an allocation. -/
theorem symAt_append (mem : List Symbol) (x : Symbol) (a : Nat) (ha : a < mem.length) :
    symAt (mem ++ [x]) a = symAt mem a := by
  unfold symAt
  rw [List.getD_eq_getElem _ _ (by simp; omega), List.getD_eq_getElem _ _ ha,
    List.getElem_append_left ha]

/-- The memory is kept by an allocation. -/
theorem memKeep_append (P : String → Prop) (mem : List Symbol) (x : Symbol) :
    MemKeep P mem (mem ++ [x]) :=
  ⟨by simp, fun a ha => by rw [symAt_append mem x a ha]; exact ⟨rfl, id, fun _ => rfl⟩⟩

/-- The memory is kept by an assignment that leaves the name and the number of parameters
and does not take back the declaration. -/
theorem memKeep_update (P : String → Prop) (mem : List Symbol) (b : Nat) (f : Symbol → Symbol)
    (hf : ∀ x, (f x).name = x.name ∧ (x.declared = true → (f x).declared = true) ∧
      (f x).numOfParams = x.numOfParams) :
    MemKeep P mem (memUpdate mem b f) := by
  refine ⟨by rw [length_memUpdate], fun a _ => ?_⟩
  rw [symAt_memUpdate]
  split
  · exact ⟨(hf _).1, (hf _).2.1, fun _ => (hf _).2.2⟩
  · exact ⟨rfl, id, fun _ => rfl⟩

/-- The memory is kept by `symbolUpdate` on a symbol whose name is not in `P`. -/
theorem memKeep_symbolUpdate (P : String → Prop) (mem : List Symbol) (b : Nat) (x : Symbol)
    (hb : ¬ P (symAt mem b).name) : MemKeep P mem (symbolUpdate mem b x) := by
  unfold symbolUpdate
  refine ⟨by rw [length_memUpdate], fun a _ => ?_⟩
  rw [symAt_memUpdate]
  split
  · rename_i h
    rw [h.1]
    exact ⟨rfl, id, fun hp => absurd hp hb⟩
  · exact ⟨rfl, id, fun _ => rfl⟩

/-- A change of the memory alone that keeps it keeps the scope stack. -/
theorem stackRel_mem (P : String → Prop) (s : SymTableStack) (mem2 : List Symbol)
    (hmem : MemKeep P s.mem mem2) : StackRel P s { s with mem := mem2 } := by
  refine stackRel_intro P s _ hmem (fun g rest hs hok => ⟨g, rest, hs, ?_, fun a h => h,
    fun a h => Or.inl h⟩)
  exact tableOK_mem s.mem mem2 g hok hmem.1 (fun a ha => (hmem.2 a ha).1)

/-- The function `symTableStackPush` keeps the scope stack. -/
theorem stackRel_push (P : String → Prop) (s : SymTableStack) :
    StackRel P s (symTableStackPush s) := by
  refine stackRel_intro P s _ (memKeep_refl P _) (fun g rest hs hok =>
    ⟨g, rest ++ [scopeCreate 16], ?_, hok, fun a h => h, fun a h => Or.inl h⟩)
  simp [symTableStackPush, hs]

/-- The function `symTableStackPop` keeps the scope stack when a scope above the global
one is there. -/
theorem stackRel_pop (P : String → Prop) (s : SymTableStack) (h2 : 2 ≤ s.scopes.length) :
    StackRel P s (symTableStackPop s) := by
  refine stackRel_intro P s _ (memKeep_refl P _) (fun g rest hs hok =>
    ⟨g, rest.dropLast, ?_, hok, fun a h => h, fun a h => Or.inl h⟩)
  cases rest with
  | nil => simp [hs] at h2
  | cons r rs => simp [symTableStackPop, hs, List.dropLast]

/-- The symbol at the address that an allocation returns. -/
theorem symAt_append_self (mem : List Symbol) (x : Symbol) :
    symAt (mem ++ [x]) mem.length = x := by
  unfold symAt
  rw [List.getD_eq_getElem _ _ (by simp)]
  simp

/-- The memory after `scopeAddSymbol` for a symbol whose name is not in `P` is kept. -/
theorem memKeep_scopeAddSymbol (P : String → Prop) (mem mem2 : List Symbol) (sc sc2 : Scope)
    (sym : Nat) (code : Int) (hsym : ¬ P (symAt mem sym).name)
    (h : scopeAddSymbol sc sym mem = Except.ok (code, sc2, mem2)) : MemKeep P mem mem2 := by
  rcases scopeAddSymbol_mem mem mem2 sc sc2 sym code h with h1 | ⟨b, hb, h1⟩
  · rw [h1]; exact memKeep_refl P _
  · rw [h1]; exact memKeep_symbolUpdate P mem b _ (by rw [hb]; exact hsym)

/-- A call of `symbolCreate` followed by `scopeAddSymbol` on some scope of the stack, for
a name without `$`, keeps the scope stack and the number of scopes. -/
theorem stackRel_addSymbolAt (P : String → Prop) (s s2 : SymTableStack) (i a : Nat)
    (x : Symbol) (hx : ¬ Dollar x.name) (hP : ∀ X, P X → Dollar X)
    (h : addSymbolAt s i x = Except.ok (a, s2)) :
    StackRel P s s2 ∧ s2.scopes.length = s.scopes.length := by
  unfold addSymbolAt scopeAddAt allocSymbol at h
  simp only [List.get?_eq_getElem?] at h
  cases hget : s.scopes[i]? with
  | none => simp [hget] at h
  | some scope =>
    simp only [hget] at h
    cases hadd : scopeAddSymbol scope s.mem.length (s.mem ++ [x]) with
    | error e => simp [hadd] at h
    | ok r =>
      obtain ⟨code, scope1, mem1⟩ := r
      simp only [hadd, Except.ok.injEq, Prod.mk.injEq] at h
      obtain ⟨_, hs2⟩ := h
      subst hs2
      have hname : (symAt (s.mem ++ [x]) s.mem.length).name = x.name := by
        rw [symAt_append_self]
      have hk1 : MemKeep P (s.mem ++ [x]) mem1 :=
        memKeep_scopeAddSymbol P _ _ _ _ _ _ (by rw [hname]; exact fun hp => hx (hP _ hp)) hadd
      have hk : MemKeep P s.mem mem1 := memKeep_trans P _ _ _ (memKeep_append P s.mem x) hk1
      refine ⟨stackRel_intro P s _ hk (fun g rest hs hok => ?_), by simp⟩
      have hok1 : TableOK (s.mem ++ [x]) g :=
        tableOK_mem s.mem _ g hok (by simp) (fun b hb => by rw [symAt_append _ _ _ hb])
      cases i with
      | zero =>
        have hg : scope = g := by
          simp only [hs, List.getElem?_cons_zero, Option.some.injEq] at hget
          exact hget.symm
        subst hg
        obtain ⟨hok2, hcase⟩ := scopeAddSymbol_ok _ _ _ _ _ _ hok1 (by simp) hadd
        refine ⟨scope1, rest, by simp [hs], hok2, ?_, ?_⟩
        · intro b hb
          rcases hcase with ⟨_, _, hm⟩ | ⟨_, _, _, _, hm⟩
          · exact (hm b).mpr (Or.inr hb)
          · exact (hm b).mpr hb
        · intro b hb
          rcases hcase with ⟨_, hmem, hm⟩ | ⟨_, _, _, _, hm⟩
          · rcases (hm b).mp hb with h1 | h1
            · right; left
              subst h1
              rw [(hk1.2 _ (by simp)).1, hname]
              exact hx
            · exact Or.inl h1
          · exact Or.inl ((hm b).mp hb)
      | succ j =>
        refine ⟨g, rest.set j scope1, by simp [hs], ?_, fun b hb => hb, fun b hb => Or.inl hb⟩
        exact tableOK_mem _ mem1 g hok1 hk1.1 (fun b hb => (hk1.2 b hb).1)

/-- A sequence of two steps that ends well: the first step ended well. -/
theorem bind_ok {α β : Type} (x : Except Err α) (f : α → Except Err β) (b : β)
    (h : (x >>= f) = Except.ok b) : ∃ a, x = Except.ok a ∧ f a = Except.ok b := by
  cases x with
  | error e => cases h
  | ok a => exact ⟨a, rfl, h⟩

/-- A parser that is not changed is kept. -/
theorem pstep_refl (p : Parser) : PStep p p :=
  fun h => ⟨h, stackRel_refl _ _, rfl⟩

/-- What a parsing function keeps goes through two steps. -/
theorem pstep_trans (p q r : Parser) (h1 : PStep p q) (h2 : PStep q r) : PStep p r := by
  intro h
  obtain ⟨t1, s1, l1⟩ := h1 h
  obtain ⟨t2, s2, l2⟩ := h2 t1
  exact ⟨t2, stackRel_trans _ _ _ _ s1 s2, l2.trans l1⟩

/-- A change of the parser that leaves the tokens, the scanner and the scope stack. -/
theorem pstep_same (p q : Parser) (h1 : q.symStack = p.symStack) (h2 : q.current = p.current)
    (h3 : q.lookAhead = p.lookAhead) (h4 : q.scanner = p.scanner) : PStep p q := by
  intro h
  unfold TokOK at *
  rw [h1, h2, h3, h4]
  exact ⟨h, stackRel_refl _ _, rfl⟩

/-- The function `parserAdvance` keeps the tokens clean and leaves the scope stack. -/
theorem parserAdvance_step (p q : Parser) (h : parserAdvance p = Except.ok q) : PStep p q := by
  intro ht
  unfold parserAdvance at h
  have hc := getNextToken_clean p.scanner ht.2.2
  split at h
  rename_i r token sc heq
  rw [heq] at hc
  split at h
  · cases h
  · split at h
    · cases h
    · injection h with h
      subst h
      exact ⟨⟨hc.1, ht.2.1, hc.2⟩, stackRel_refl _ _, rfl⟩

/-- The function `parserLookAhead` keeps the tokens clean and leaves the scope stack. -/
theorem parserLookAhead_step (p q : Parser) (h : parserLookAhead p = Except.ok q) :
    PStep p q := by
  intro ht
  unfold parserLookAhead at h
  have hc := lookAhead_clean p.scanner ht.2.2
  split at h
  rename_i r token sc heq
  rw [heq] at hc
  split at h
  · cases h
  · split at h
    · cases h
    · injection h with h
      subst h
      exact ⟨⟨ht.1, hc.1, hc.2⟩, stackRel_refl _ _, rfl⟩

/-- The function `parserValidate` returns its parser when the current token has the
kind. -/
theorem parserValidate_eq (p q : Parser) (t : TokenType)
    (h : parserValidate p t = Except.ok q) : q = p ∧ p.current.type = t := by
  unfold parserValidate at h
  split at h
  · cases h
  · rename_i hne
    injection h with h
    exact ⟨h.symm, by simpa using hne⟩

/-- The function `parserValidateSequence` keeps the tokens clean and leaves the scope
stack. -/
theorem parserValidateSequence_step :
    ∀ (ts : List TokenType) (p q : Parser),
      parserValidateSequence p ts = Except.ok q → PStep p q := by
  intro ts
  induction ts with
  | nil =>
    intro p q h
    simp only [parserValidateSequence, Except.ok.injEq] at h
    subst h
    exact pstep_refl _
  | cons t rest ih =>
    intro p q h
    simp only [parserValidateSequence, bind, Except.bind] at h
    split at h
    · cases h
    · rename_i p1 h1
      split at h
      · cases h
      · rename_i p2 h2
        obtain ⟨e, _⟩ := parserValidate_eq _ _ _ h2
        subst e
        exact pstep_trans _ _ _ (parserAdvance_step _ _ h1) (ih _ _ h)

/-- An identifier character is not the NUL byte and not `$`. -/
theorem identPart_facts (c : Char) (h : isIdentifierPart c = true) :
    (c.toNat != 0) = true ∧ c ≠ '$' := by
  constructor
  · simp only [isIdentifierPart, isalnum, isalpha, isdigit, Bool.or_eq_true, Bool.and_eq_true,
      decide_eq_true_eq, beq_iff_eq] at h
    simp only [bne_iff_ne, ne_eq]
    rcases h with ((h | h) | h) | h
    · omega
    · omega
    · omega
    · subst h; decide
  · intro hc
    subst hc
    revert h
    decide

/-- A name of identifier characters is a whole C string. -/
theorem cstr_identChars (s : String) (h : identChars s) : cstr s = s := by
  unfold cstr
  have : s.data.takeWhile (fun c => c.toNat != 0) = s.data := by
    rw [List.takeWhile_eq_self_iff]
    intro c hc
    exact (identPart_facts c (h.2 c hc)).1
  rw [this]

/-- A name of identifier characters holds no `$`. -/
theorem not_dollar_of_identChars (s : String) (h : identChars s) : ¬ Dollar s := by
  intro hd
  exact (identPart_facts '$' (h.2 '$' hd)).2 rfl

/-- The name read from a clean identifier token is made of identifier characters. -/
theorem tokenString_clean (t : Token) (name : String) (hc : TokClean t)
    (ht : t.type = TokenType.IDENTIFIER ∨ t.type = TokenType.GLOBAL_IDENTIFIER)
    (h : tokenString t = Except.ok name) : identChars name := by
  obtain ⟨v, s, hv, hs, hi⟩ := hc ht
  unfold tokenString at h
  simp only [hv, hs, Except.ok.injEq] at h
  rw [← h, cstr_identChars s hi]
  exact hi

/-- Setting the token of a node does not change the kinds in the tree. -/
theorem funFree_setToken (n : AstNode) (t : Token) : funFree (n.setToken t) = funFree n := by
  cases n <;> simp [AstNode.setToken, funFree]

/-- A node made by `astCreateNode` has no children. -/
theorem funFree_astCreateNode (p : Parser) (ty : AstNodeType) :
    funFree (astCreateNode p ty).1 = !isFunType ty := by
  unfold astCreateNode
  cases ty <;> simp [funFree, funFreeOpt, funFreeList, isFunType]

/-- The function `astCreateNode` leaves the tokens and the scope stack. -/
theorem astCreateNode_step (p : Parser) (ty : AstNodeType) :
    PStep p (astCreateNode p ty).2 := by
  apply pstep_same <;> (unfold astCreateNode; cases ty <;> rfl)

/-- The assignment of an expression type leaves the tokens and the scope stack. -/
theorem setType_step (p : Parser) (n : AstNode) (t : ExprType) : PStep p (p.setType n t) :=
  pstep_same _ _ rfl rfl rfl rfl

/-- The function `assignTypeFromToken` for a node with a clean token. -/
theorem assignTypeFromToken_step (node : AstNode) (p q : Parser) (hc : TokClean node.token)
    (h : assignTypeFromToken node p = Except.ok q) : PStep p q := by
  unfold assignTypeFromToken at h
  split at h
  all_goals try (injection h with h; subst h; exact setType_step _ _ _)
  · simp only [bind, Except.bind] at h
    repeat' split at h
    all_goals (cases h <;> exact setType_step _ _ _)
  · rename_i htype
    simp only [bind, Except.bind] at h
    split at h
    · cases h
    · rename_i name hname
      have hid := tokenString_clean _ _ hc (Or.inr htype) hname
      split at h
      · injection h with h; subst h; exact setType_step _ _ _
      · split at h
        · cases h
        · rename_i r hadd
          obtain ⟨a, stack1⟩ := r
          injection h with h
          subst h
          intro ht
          obtain ⟨hrel, hlen⟩ := stackRel_addSymbolAt Dollar p.symStack stack1 0 a _
            (by
              show ¬ Dollar (symbolCreate name TYPE_UNKNOWN SymbolKind.SYM_VAR 0).name
              simpa [symbolCreate] using not_dollar_of_identChars _ hid)
            (fun _ h => h) hadd
          exact ⟨ht, hrel, hlen⟩

/-- The function `assignTypeFromToken` for a node that carries the current token. -/
theorem assignTypeFromToken_cur (node : AstNode) (p q : Parser) (hn : node.token = p.current)
    (h : assignTypeFromToken node p = Except.ok q) : PStep p q :=
  fun ht => assignTypeFromToken_step node p q (by rw [hn]; exact ht.1) h ht

/-- The token of a node after `setToken`. -/
theorem token_setToken (n : AstNode) (t : Token) : (n.setToken t).token = t := by
  cases n <;> rfl

/-- The function `assignTypeFromToken` leaves the current token. -/
theorem assignTypeFromToken_current (node : AstNode) (p q : Parser)
    (h : assignTypeFromToken node p = Except.ok q) : q.current = p.current := by
  unfold assignTypeFromToken at h
  simp only [bind, Except.bind] at h
  repeat' split at h
  all_goals (cases h <;> rfl)

/-- The function `astCreateNode` leaves the current token. -/
theorem astCreateNode_current (p : Parser) (ty : AstNodeType) :
    (astCreateNode p ty).2.current = p.current := by
  unfold astCreateNode; cases ty <;> rfl

/-- The body of `createNodeFromToken` once the kind of the node is chosen. -/
theorem createNode_with (p q : Parser) (n : AstNode) (ty : AstNodeType)
    (hty : isFunType ty = false)
    (h : (match assignTypeFromToken ((astCreateNode p ty).1.setToken p.current)
            (astCreateNode p ty).2 with
          | Except.error e => Except.error e
          | Except.ok p1 => Except.ok ((astCreateNode p ty).1.setToken p.current, p1)) =
        Except.ok (n, q)) :
    PStep p q ∧ funFree n = true ∧ n.token = p.current ∧ q.current = p.current := by
  split at h
  · cases h
  · rename_i p1 hassign
    simp only [Except.ok.injEq, Prod.mk.injEq] at h
    obtain ⟨hn, hq⟩ := h
    subst hn hq
    have hstep := assignTypeFromToken_cur _ _ _
      (by rw [token_setToken, astCreateNode_current]) hassign
    refine ⟨pstep_trans _ _ _ (astCreateNode_step p ty) hstep, ?_, token_setToken _ _, ?_⟩
    · rw [funFree_setToken, funFree_astCreateNode, hty]; rfl
    · rw [assignTypeFromToken_current _ _ _ hassign, astCreateNode_current]

/-- The function `createNodeFromToken` on the current token: the node has no children and
carries the token. -/
theorem createNodeFromToken_spec (p q : Parser) (n : AstNode)
    (h : createNodeFromToken p.current p = Except.ok (n, q)) :
    PStep p q ∧ funFree n = true ∧ n.token = p.current ∧ q.current = p.current := by
  unfold createNodeFromToken at h
  simp only at h
  cases htt : p.current.type <;> simp only [htt] at h <;>
    (refine createNode_with p q n _ ?_ h; rfl)

/-- The result of `popCheck` is the top of the stack and the stack below it. -/
theorem popCheck_eq (stack rest : AstStack) (n : AstNode)
    (h : popCheck stack = Except.ok (n, rest)) : stack = n :: rest := by
  unfold popCheck at h
  split at h
  · cases h
  · cases h; rfl

/-- A list is free of function nodes when its head and its tail are. -/
theorem funFreeList_cons (n : AstNode) (rest : List AstNode) :
    funFreeList (n :: rest) = true ↔ funFree n = true ∧ funFreeList rest = true := by
  simp [funFreeList]

/-- Two lists joined are free of function nodes when both are. -/
theorem funFreeList_append (xs ys : List AstNode) :
    funFreeList (xs ++ ys) = true ↔ funFreeList xs = true ∧ funFreeList ys = true := by
  induction xs with
  | nil => simp [funFreeList]
  | cons x xs ih => simp [funFreeList, ih, and_assoc]

/-- The function `reduceExpression` on a stack free of function nodes gives such a node
and such a stack. -/
theorem reduceExpression_free (stack rest : AstStack) (n : AstNode)
    (hs : funFreeList stack = true) (h : reduceExpression stack = Except.ok (n, rest)) :
    funFree n = true ∧ funFreeList rest = true := by
  unfold reduceExpression at h
  simp only [bind, Except.bind] at h
  split at h
  · cases h
  · rename_i r1 h1
    obtain ⟨right, s1⟩ := r1
    split at h
    · cases h
    · rename_i r2 h2
      obtain ⟨op, s2⟩ := r2
      split at h
      · cases h
      · rename_i r3 h3
        obtain ⟨left, s3⟩ := r3
        have e1 := popCheck_eq _ _ _ h1
        have e2 := popCheck_eq _ _ _ h2
        have e3 := popCheck_eq _ _ _ h3
        simp only at e1 e2 e3
        subst e1 e2 e3
        simp only [funFreeList_cons] at hs
        split at h
        · cases h
        · split at h
          · simp only [Except.ok.injEq, Prod.mk.injEq] at h
            obtain ⟨hn, hr⟩ := h
            subst hn hr
            simp [funFree, funFreeOpt, isFunType, hs.1, hs.2.2.1, hs.2.2.2]
          · cases h

/-- The function `reduceNot` on a stack free of function nodes gives such a node and
such a stack. -/
theorem reduceNot_free (stack rest : AstStack) (n : AstNode)
    (hs : funFreeList stack = true) (h : reduceNot stack = Except.ok (n, rest)) :
    funFree n = true ∧ funFreeList rest = true := by
  unfold reduceNot at h
  simp only [bind, Except.bind] at h
  split at h
  · cases h
  · rename_i r1 h1
    obtain ⟨right, s1⟩ := r1
    split at h
    · cases h
    · rename_i r2 h2
      obtain ⟨op, s2⟩ := r2
      have e1 := popCheck_eq _ _ _ h1
      have e2 := popCheck_eq _ _ _ h2
      simp only at e1 e2
      subst e1 e2
      simp only [funFreeList_cons] at hs
      split at h
      · rename_i heq
        simp only at heq
        subst heq
        simp only [Except.ok.injEq, Prod.mk.injEq] at h
        obtain ⟨hn, hr⟩ := h
        subst hn hr
        have hop := hs.2.1
        simp only [funFree, Bool.and_eq_true] at hop
        simp [funFree, funFreeOpt, isFunType, hs.1, hs.2.2, hop.1.2]
      · cases h

/-- The function `reducePar` on a stack free of function nodes gives such a node and
such a stack. -/
theorem reducePar_free (stack rest : AstStack) (n : AstNode)
    (hs : funFreeList stack = true) (h : reducePar stack = Except.ok (n, rest)) :
    funFree n = true ∧ funFreeList rest = true := by
  unfold reducePar at h
  simp only [bind, Except.bind] at h
  split at h
  · cases h
  · rename_i r1 h1
    obtain ⟨op, s1⟩ := r1
    split at h
    · cases h
    · rename_i r2 h2
      obtain ⟨x, s2⟩ := r2
      have e1 := popCheck_eq _ _ _ h1
      have e2 := popCheck_eq _ _ _ h2
      simp only at e1 e2
      subst e1 e2
      simp only [funFreeList_cons] at hs
      simp only [Except.ok.injEq, Prod.mk.injEq] at h
      obtain ⟨hn, hr⟩ := h
      subst hn hr
      exact ⟨hs.1, hs.2.2⟩

/-- The reduction chosen by the operator on top, on a stack free of function nodes,
gives such a node and such a stack. -/
theorem reduceBy_free (top : AstNode) (stack rest : AstStack) (n : AstNode)
    (hs : funFreeList stack = true) (h : reduceBy top stack = Except.ok (n, rest)) :
    funFree n = true ∧ funFreeList rest = true := by
  unfold reduceBy at h
  split at h
  · exact reducePar_free _ _ _ hs h
  · split at h
    · exact reduceNot_free _ _ _ hs h
    · exact reduceExpression_free _ _ _ hs h

/-- The stack after `astStackPush` is the node on top of the old stack. -/
theorem astStackPush_eq (stack s2 : AstStack) (n : AstNode)
    (h : astStackPush stack n = Except.ok s2) : s2 = n :: stack := by
  unfold astStackPush at h
  split at h
  · cases h
  · split at h
    · cases h
    · cases h; rfl

/-- The first loop of `parseExp` keeps the parser and a stack free of function nodes. -/
theorem parseExpLoop_spec :
    ∀ (fuel : Nat) (p q : Parser) (stack stack2 : AstStack) (pc pc2 : Nat),
      parseExpLoop fuel p stack pc = Except.ok (q, stack2, pc2) →
      funFreeList stack = true → PStep p q ∧ funFreeList stack2 = true := by
  intro fuel
  induction fuel with
  | zero => intro p q stack stack2 pc pc2 h; simp [parseExpLoop] at h
  | succ fuel ih =>
    intro p q stack stack2 pc pc2 h hs
    unfold parseExpLoop at h
    by_cases c1 : p.current.type = TokenType.LCURLY
    · rw [if_pos c1] at h
      cases h; exact ⟨pstep_refl _, hs⟩
    rw [if_neg c1] at h
    by_cases c2 : p.current.type = TokenType.EOL
    · rw [if_pos c2] at h
      cases h; exact ⟨pstep_refl _, hs⟩
    rw [if_neg c2] at h
    by_cases c3 : p.current.type = TokenType.RPAR ∧ pc = 0
    · rw [if_pos c3] at h
      cases h; exact ⟨pstep_refl _, hs⟩
    rw [if_neg c3] at h
    replace h := bind_ok _ _ _ h
    obtain ⟨p1, hp1, h⟩ := h
    have hstep1 : PStep p p1 := by
      split at hp1
      · split at hp1
        · cases hp1
        · rename_i q1 hq1
          split at hp1
          · cases hp1
          · cases hp1
            exact parserLookAhead_step _ _ hq1
      · cases hp1
        exact pstep_refl _
    replace h := bind_ok _ _ _ h
    obtain ⟨action, haction, h⟩ := h
    replace h := bind_ok _ _ _ h
    obtain ⟨r, hcreate, h⟩ := h
    obtain ⟨node, p2⟩ := r
    obtain ⟨hstep2, hfree, htok, hcur⟩ := createNodeFromToken_spec _ _ _ hcreate
    have h12 := pstep_trans _ _ _ hstep1 hstep2
    dsimp only at h
    by_cases ha : action = -1
    · rw [if_pos ha] at h
      replace h := bind_ok _ _ _ h
      obtain ⟨p3, hp3, h⟩ := h
      replace h := bind_ok _ _ _ h
      obtain ⟨stack1, hpush, h⟩ := h
      replace h := bind_ok _ _ _ h
      obtain ⟨p4, hp4, h⟩ := h
      have e := astStackPush_eq _ _ _ hpush
      subst e
      obtain ⟨hrest, hfin⟩ := ih _ _ _ _ _ _ h ((funFreeList_cons _ _).mpr ⟨hfree, hs⟩)
      exact ⟨pstep_trans _ _ _ h12 (pstep_trans _ _ _
        (assignTypeFromToken_cur _ _ _ (by rw [htok, hcur]) hp3)
        (pstep_trans _ _ _ (parserAdvance_step _ _ hp4) hrest)), hfin⟩
    rw [if_neg ha] at h
    by_cases hb : action = 1
    · rw [if_pos hb] at h
      cases htop : astStackNextOp stack with
      | none => rw [htop] at h; cases h
      | some t =>
        rw [htop] at h
        dsimp only at h
        by_cases hl : t.token.type = TokenType.LPAR
        · rw [if_pos hl] at h
          replace h := bind_ok _ _ _ h
          obtain ⟨r, hred, h⟩ := h
          obtain ⟨reduced, stack1⟩ := r
          dsimp only at h
          replace h := bind_ok _ _ _ h
          obtain ⟨p3, hp3, h⟩ := h
          replace h := bind_ok _ _ _ h
          obtain ⟨stack3, hpush, h⟩ := h
          have e := astStackPush_eq _ _ _ hpush
          subst e
          obtain ⟨hf1, hf2⟩ := reducePar_free _ _ _ hs hred
          obtain ⟨hrest, hfin⟩ := ih _ _ _ _ _ _ h ((funFreeList_cons _ _).mpr ⟨hf1, hf2⟩)
          exact ⟨pstep_trans _ _ _ h12 (pstep_trans _ _ _ (parserAdvance_step _ _ hp3) hrest),
            hfin⟩
        rw [if_neg hl] at h
        by_cases hn : t.token.type = TokenType.LOGICAL_NOT
        · rw [if_pos hn] at h
          replace h := bind_ok _ _ _ h
          obtain ⟨r, hred, h⟩ := h
          obtain ⟨reduced, stack1⟩ := r
          dsimp only at h
          replace h := bind_ok _ _ _ h
          obtain ⟨p3, hp3, h⟩ := h
          replace h := bind_ok _ _ _ h
          obtain ⟨stack3, hpush, h⟩ := h
          have e := astStackPush_eq _ _ _ hpush
          subst e
          obtain ⟨hf1, hf2⟩ := reduceNot_free _ _ _ hs hred
          obtain ⟨hrest, hfin⟩ := ih _ _ _ _ _ _ h ((funFreeList_cons _ _).mpr ⟨hf1, hf2⟩)
          exact ⟨pstep_trans _ _ _ h12 (pstep_trans _ _ _ (parserAdvance_step _ _ hp3) hrest),
            hfin⟩
        rw [if_neg hn] at h
        replace h := bind_ok _ _ _ h
        obtain ⟨r, hred, h⟩ := h
        obtain ⟨reduced, stack1⟩ := r
        dsimp only at h
        replace h := bind_ok _ _ _ h
        obtain ⟨stack3, hpush, h⟩ := h
        have e := astStackPush_eq _ _ _ hpush
        subst e
        obtain ⟨hf1, hf2⟩ := reduceExpression_free _ _ _ hs hred
        obtain ⟨hrest, hfin⟩ := ih _ _ _ _ _ _ h ((funFreeList_cons _ _).mpr ⟨hf1, hf2⟩)
        exact ⟨pstep_trans _ _ _ h12 hrest, hfin⟩
    · rw [if_neg hb] at h
      cases h

/-- The function `astCreateNode`, from its result. -/
theorem astCreateNode_spec (p q : Parser) (ty : AstNodeType) (n : AstNode)
    (h : astCreateNode p ty = (n, q)) :
    PStep p q ∧ funFree n = (!isFunType ty) ∧ q.current = p.current := by
  have h1 : n = (astCreateNode p ty).1 := by rw [h]
  have h2 : q = (astCreateNode p ty).2 := by rw [h]
  subst h1 h2
  exact ⟨astCreateNode_step _ _, funFree_astCreateNode _ _, astCreateNode_current _ _⟩

/-- The second loop of `parseExp` keeps the stack free of function nodes. -/
theorem parseExpDrain_free :
    ∀ (fuel : Nat) (stack stack2 : AstStack),
      parseExpDrain fuel stack = Except.ok stack2 → funFreeList stack = true →
      funFreeList stack2 = true := by
  intro fuel
  induction fuel with
  | zero => intro stack stack2 h; simp [parseExpDrain] at h
  | succ fuel ih =>
    intro stack stack2 h hs
    unfold parseExpDrain at h
    split at h
    · cases h; exact hs
    · split at h
      · cases h
      · obtain ⟨r, hred, h⟩ := bind_ok _ _ _ h
        obtain ⟨reduced, stack1⟩ := r
        dsimp only at h
        replace h := bind_ok _ _ _ h
        obtain ⟨stack3, hpush, h⟩ := h
        have e := astStackPush_eq _ _ _ hpush
        subst e
        obtain ⟨hf1, hf2⟩ := reduceBy_free _ _ _ _ hs hred
        exact ih _ _ h ((funFreeList_cons _ _).mpr ⟨hf1, hf2⟩)

/-- The head of a list free of function nodes. -/
theorem funFreeOpt_head (l : List AstNode) (h : funFreeList l = true) :
    funFreeOpt l.head? = true := by
  cases l with
  | nil => rfl
  | cons a rest => exact ((funFreeList_cons _ _).mp h).1

/-- The function `parseExp`. -/
theorem parseExp_spec (fuel : Nat) (p q : Parser) (r : Option AstNode)
    (h : parseExp fuel p = Except.ok (r, q)) : PStep p q ∧ funFreeOpt r = true := by
  unfold parseExp at h
  replace h := bind_ok _ _ _ h
  obtain ⟨x, hloop, h⟩ := h
  obtain ⟨p1, stack, pc⟩ := x
  dsimp only at h
  replace h := bind_ok _ _ _ h
  obtain ⟨stack1, hdrain, h⟩ := h
  obtain ⟨hstep, hfree⟩ := parseExpLoop_spec _ _ _ _ _ _ _ hloop rfl
  have hfree1 := parseExpDrain_free _ _ _ hdrain hfree
  split at h
  · cases h
  · cases h
    exact ⟨hstep, funFreeOpt_head _ hfree1⟩

/-- The loop of `parseParams`. -/
theorem parseParamsLoop_spec :
    ∀ (fuel : Nat) (p q : Parser) (acc items : List AstNode),
      parseParamsLoop fuel p acc = Except.ok (items, q) →
      PStep p q ∧ (TokOK p → ParamItems acc → ParamItems items) := by
  intro fuel
  induction fuel with
  | zero => intro p q acc items h; simp [parseParamsLoop] at h
  | succ fuel ih =>
    intro p q acc items h
    unfold parseParamsLoop at h
    replace h := bind_ok _ _ _ h
    obtain ⟨p1, hp1, h⟩ := h
    replace h := bind_ok _ _ _ h
    obtain ⟨p2, hp2, h⟩ := h
    obtain ⟨e2, ht2⟩ := parserValidate_eq _ _ _ hp2
    subst e2
    cases hc : astCreateNode p2 AstNodeType.AST_IDENTIFIER with
    | mk leaf p3 =>
      rw [hc] at h
      dsimp only at h
      obtain ⟨hs3, hf3, hcur3⟩ := astCreateNode_spec _ _ _ _ hc
      replace h := bind_ok _ _ _ h
      obtain ⟨p4, hp4, h⟩ := h
      have hs1 := parserAdvance_step _ _ hp1
      have hs4 := parserLookAhead_step _ _ hp4
      have h14 : PStep p p4 := pstep_trans _ _ _ hs1 (pstep_trans _ _ _ hs3 hs4)
      have hitem : TokOK p → ParamItems acc → ParamItems (acc ++ [leaf.setToken p2.current]) := by
        intro ht hacc item hi
        rcases List.mem_append.mp hi with hi | hi
        · exact hacc item hi
        · rw [List.mem_singleton] at hi
          subst hi
          rw [token_setToken, funFree_setToken, hf3]
          exact ⟨(hs1 ht).1.1, ht2, rfl⟩
      by_cases c1 : p4.lookAhead.type = TokenType.COMMA
      · rw [if_pos c1] at h
        replace h := bind_ok _ _ _ h
        obtain ⟨p5, hp5, h⟩ := h
        replace h := bind_ok _ _ _ h
        obtain ⟨p6, hp6, h⟩ := h
        obtain ⟨hrest, hitems⟩ := ih _ _ _ _ h
        have h16 : PStep p p6 := pstep_trans _ _ _ h14
          (pstep_trans _ _ _ (parserAdvance_step _ _ hp5) (parserLookAhead_step _ _ hp6))
        exact ⟨pstep_trans _ _ _ h16 hrest, fun ht hacc => hitems (h16 ht).1 (hitem ht hacc)⟩
      rw [if_neg c1] at h
      by_cases c2 : p4.lookAhead.type = TokenType.RPAR
      · rw [if_pos c2] at h
        replace h := bind_ok _ _ _ h
        obtain ⟨p5, hp5, h⟩ := h
        replace h := bind_ok _ _ _ h
        obtain ⟨p6, hp6, h⟩ := h
        obtain ⟨e6, _⟩ := parserValidate_eq _ _ _ hp6
        subst e6
        cases h
        exact ⟨pstep_trans _ _ _ h14 (parserAdvance_step _ _ hp5), hitem⟩
      rw [if_neg c2] at h
      cases h

/-- The function `parseParams`. -/
theorem parseParams_spec (fuel : Nat) (p q : Parser) (n : AstNode)
    (h : parseParams fuel p = Except.ok (n, q)) :
    PStep p q ∧ (TokOK p → ParamsNode n) := by
  unfold parseParams at h
  cases hc : astCreateNode p AstNodeType.AST_PARAMS with
  | mk node p1 =>
    rw [hc] at h
    dsimp only at h
    obtain ⟨hs1, _, _⟩ := astCreateNode_spec _ _ _ _ hc
    have hnode : ∃ id tok, node = AstNode.list id AstNodeType.AST_PARAMS tok [] := by
      have e : node = (astCreateNode p AstNodeType.AST_PARAMS).1 := by rw [hc]
      exact ⟨_, _, e⟩
    obtain ⟨id, tok, hnode⟩ := hnode
    subst hnode
    replace h := bind_ok _ _ _ h
    obtain ⟨p2, hp2, h⟩ := h
    replace h := bind_ok _ _ _ h
    obtain ⟨p3, hp3, h⟩ := h
    obtain ⟨e3, _⟩ := parserValidate_eq _ _ _ hp3
    subst e3
    replace h := bind_ok _ _ _ h
    obtain ⟨p4, hp4, h⟩ := h
    have h14 : PStep p p4 := pstep_trans _ _ _ hs1
      (pstep_trans _ _ _ (parserAdvance_step _ _ hp2) (parserLookAhead_step _ _ hp4))
    by_cases c1 : p4.lookAhead.type = TokenType.RPAR
    · rw [if_pos c1] at h
      replace h := bind_ok _ _ _ h
      obtain ⟨p5, hp5, h⟩ := h
      replace h := bind_ok _ _ _ h
      obtain ⟨p6, hp6, h⟩ := h
      obtain ⟨e6, _⟩ := parserValidate_eq _ _ _ hp6
      subst e6
      cases h
      exact ⟨pstep_trans _ _ _ h14 (parserAdvance_step _ _ hp5),
        fun _ => ⟨_, _, _, rfl, fun _ hi => by cases hi⟩⟩
    rw [if_neg c1] at h
    replace h := bind_ok _ _ _ h
    obtain ⟨x, hloop, h⟩ := h
    obtain ⟨items, p5⟩ := x
    cases h
    obtain ⟨hrest, hitems⟩ := parseParamsLoop_spec _ _ _ _ _ hloop
    exact ⟨pstep_trans _ _ _ h14 hrest,
      fun ht => ⟨_, _, _, rfl, hitems (h14 ht).1 (fun _ hi => by cases hi)⟩⟩

/-- A parser whose scope stack is replaced by one that keeps the first. -/
theorem pstep_symStack (p : Parser) (s2 : SymTableStack)
    (h : StackRel Dollar p.symStack s2 ∧ s2.scopes.length = p.symStack.scopes.length) :
    PStep p { p with symStack := s2 } :=
  fun ht => ⟨ht, h.1, h.2⟩

/-- An assignment to a symbol that leaves its name, its number of parameters and does not
take back its declaration. -/
theorem updSym_step (p : Parser) (a : Nat) (f : Symbol → Symbol)
    (hf : ∀ x, (f x).name = x.name ∧ (x.declared = true → (f x).declared = true) ∧
      (f x).numOfParams = x.numOfParams) : PStep p (p.updSym a f) :=
  fun ht => ⟨ht, stackRel_mem _ _ _ (memKeep_update _ _ _ _ hf), rfl⟩

/-- The name of a variable made by `symbolCreate` has no `$`. -/
theorem not_dollar_var (name : String) (t : ExprType) (k : SymbolKind) (n : Nat)
    (hk : k = SymbolKind.SYM_VAR ∨ k = SymbolKind.SYM_PARAM) (hid : identChars name) :
    ¬ Dollar (symbolCreate name t k n).name := by
  rcases hk with hk | hk <;> subst hk <;>
    simpa [symbolCreate] using not_dollar_of_identChars _ hid

/-- The loop of `parseArguments`. -/
theorem parseArgumentsLoop_spec :
    ∀ (fuel : Nat) (p q : Parser) (acc items : List AstNode),
      parseArgumentsLoop fuel p acc = Except.ok (items, q) → funFreeList acc = true →
      PStep p q ∧ funFreeList items = true := by
  intro fuel
  induction fuel with
  | zero => intro p q acc items h; simp [parseArgumentsLoop] at h
  | succ fuel ih =>
    intro p q acc items h hacc
    unfold parseArgumentsLoop at h
    replace h := bind_ok _ _ _ h
    obtain ⟨p1, hp1, h⟩ := h
    replace h := bind_ok _ _ _ h
    obtain ⟨x, hx, h⟩ := h
    obtain ⟨leaf0, p2⟩ := x
    dsimp only at h
    have hleaf : PStep p1 p2 ∧ funFree leaf0 = true ∧ p2.current = p1.current := by
      split at hx
      all_goals first
        | exact astCreateNode_spec _ _ _ _ (Except.ok.inj hx)
        | cases hx
    obtain ⟨hs2, hf0, hcur2⟩ := hleaf
    replace h := bind_ok _ _ _ h
    obtain ⟨p3, hp3, h⟩ := h
    replace h := bind_ok _ _ _ h
    obtain ⟨p4, hp4, h⟩ := h
    have hs3 : PStep p2 p3 :=
      assignTypeFromToken_cur _ _ _ (by rw [token_setToken, hcur2]) hp3
    have h14 : PStep p p4 := pstep_trans _ _ _ (parserAdvance_step _ _ hp1)
      (pstep_trans _ _ _ hs2 (pstep_trans _ _ _ hs3 (parserLookAhead_step _ _ hp4)))
    have hitems : funFreeList (acc ++ [leaf0.setToken p1.current]) = true := by
      rw [funFreeList_append, hacc, funFreeList_cons, funFree_setToken, hf0]
      simp [funFreeList]
    by_cases c1 : p4.lookAhead.type = TokenType.COMMA
    · rw [if_pos c1] at h
      replace h := bind_ok _ _ _ h
      obtain ⟨p5, hp5, h⟩ := h
      replace h := bind_ok _ _ _ h
      obtain ⟨p6, hp6, h⟩ := h
      obtain ⟨hrest, hfin⟩ := ih _ _ _ _ h hitems
      exact ⟨pstep_trans _ _ _ h14 (pstep_trans _ _ _ (parserAdvance_step _ _ hp5)
        (pstep_trans _ _ _ (parserLookAhead_step _ _ hp6) hrest)), hfin⟩
    rw [if_neg c1] at h
    by_cases c2 : p4.lookAhead.type = TokenType.RPAR
    · rw [if_pos c2] at h
      replace h := bind_ok _ _ _ h
      obtain ⟨p5, hp5, h⟩ := h
      cases h
      exact ⟨pstep_trans _ _ _ h14 (parserAdvance_step _ _ hp5), hitems⟩
    rw [if_neg c2] at h
    cases h

/-- The function `parseArguments`. -/
theorem parseArguments_spec (fuel : Nat) (p q : Parser) (n : AstNode)
    (h : parseArguments fuel p = Except.ok (n, q)) : PStep p q ∧ funFree n = true := by
  unfold parseArguments at h
  cases hc : astCreateNode p AstNodeType.AST_PARAMS with
  | mk node p1 =>
    rw [hc] at h
    dsimp only at h
    obtain ⟨hs1, hf1, _⟩ := astCreateNode_spec _ _ _ _ hc
    replace h := bind_ok _ _ _ h
    obtain ⟨p2, hp2, h⟩ := h
    have h12 : PStep p p2 := pstep_trans _ _ _ hs1 (parserLookAhead_step _ _ hp2)
    by_cases c1 : p2.lookAhead.type = TokenType.RPAR
    · rw [if_pos c1] at h
      replace h := bind_ok _ _ _ h
      obtain ⟨p3, hp3, h⟩ := h
      cases h
      exact ⟨pstep_trans _ _ _ h12 (parserAdvance_step _ _ hp3), hf1⟩
    rw [if_neg c1] at h
    replace h := bind_ok _ _ _ h
    obtain ⟨x, hloop, h⟩ := h
    obtain ⟨items, p3⟩ := x
    cases h
    obtain ⟨hrest, hitems⟩ := parseArgumentsLoop_spec _ _ _ _ _ hloop rfl
    have hty : node.type = AstNodeType.AST_PARAMS := by
      have e : node = (astCreateNode p AstNodeType.AST_PARAMS).1 := by rw [hc]
      rw [e]; rfl
    refine ⟨pstep_trans _ _ _ h12 hrest, ?_⟩
    simp [funFree, hty, hitems, isFunType]

/-- The function `parseFunCall`. -/
theorem parseFunCall_spec (fuel : Nat) (p q : Parser) (n : AstNode)
    (h : parseFunCall fuel p = Except.ok (n, q)) : PStep p q ∧ funFree n = true := by
  unfold parseFunCall at h
  replace h := bind_ok _ _ _ h
  obtain ⟨p1, hp1, h⟩ := h
  obtain ⟨e1, _⟩ := parserValidate_eq _ _ _ hp1
  replace h := bind_ok _ _ _ h
  obtain ⟨p2, hp2, h⟩ := h
  replace h := bind_ok _ _ _ h
  obtain ⟨p3, hp3, h⟩ := h
  obtain ⟨e3, _⟩ := parserValidate_eq _ _ _ hp3
  cases hc : astCreateNode p3 AstNodeType.AST_FUN_CALL with
  | mk node0 p4 =>
    rw [hc] at h
    dsimp only at h
    obtain ⟨hs4, _, _⟩ := astCreateNode_spec _ _ _ _ hc
    replace h := bind_ok _ _ _ h
    obtain ⟨x, hargs, h⟩ := h
    obtain ⟨args, p5⟩ := x
    dsimp only at h
    replace h := bind_ok _ _ _ h
    obtain ⟨name, hname, h⟩ := h
    replace h := bind_ok _ _ _ h
    obtain ⟨p7, hp7, h⟩ := h
    replace h := bind_ok _ _ _ h
    obtain ⟨p8, hp8, h⟩ := h
    obtain ⟨e8, _⟩ := parserValidate_eq _ _ _ hp8
    cases h
    obtain ⟨hs5, hfa⟩ := parseArguments_spec _ _ _ _ hargs
    have hs6 : ∀ p6, p6 = (match symTableStackFindSymbol p5.symStack
          (symbolCreate name TYPE_UNKNOWN SymbolKind.SYM_FUNC 0).name with
        | none => { p5 with resolveLater := p5.resolveLater ++
            [AstNode.bin node0.id AstNodeType.AST_FUN_CALL p1.current none (some args)] }
        | some funDec => p5.setType
            (AstNode.bin node0.id AstNodeType.AST_FUN_CALL p1.current none (some args))
            (symAt p5.symStack.mem funDec).expressionType) → PStep p5 p6 := by
      intro p6 h6
      subst h6
      split
      · exact pstep_same _ _ rfl rfl rfl rfl
      · exact setType_step _ _ _
    have h7 := pstep_trans _ _ _ (hs6 _ rfl) (parserAdvance_step _ _ hp7)
    subst e1 e3 e8
    refine ⟨pstep_trans _ _ _ (parserAdvance_step _ _ hp2) (pstep_trans _ _ _ hs4
      (pstep_trans _ _ _ hs5 h7)), ?_⟩
    simp [funFree, funFreeOpt, hfa, isFunType]

/-- The function `parseIfj`. -/
theorem parseIfj_spec (fuel : Nat) (p q : Parser) (n : AstNode)
    (h : parseIfj fuel p = Except.ok (n, q)) : PStep p q ∧ funFree n = true := by
  unfold parseIfj at h
  replace h := bind_ok _ _ _ h
  obtain ⟨p1, hp1, h⟩ := h
  replace h := bind_ok _ _ _ h
  obtain ⟨p2, hp2, h⟩ := h
  replace h := bind_ok _ _ _ h
  obtain ⟨p3, hp3, h⟩ := h
  obtain ⟨e3, _⟩ := parserValidate_eq _ _ _ hp3
  replace h := bind_ok _ _ _ h
  obtain ⟨p4, hp4, h⟩ := h
  replace h := bind_ok _ _ _ h
  obtain ⟨p5, hp5, h⟩ := h
  replace h := bind_ok _ _ _ h
  obtain ⟨p6, hp6, h⟩ := h
  replace h := bind_ok _ _ _ h
  obtain ⟨p7, hp7, h⟩ := h
  obtain ⟨e7, _⟩ := parserValidate_eq _ _ _ hp7
  cases hc : astCreateNode p7 AstNodeType.AST_IFJ with
  | mk node0 p8 =>
    rw [hc] at h
    dsimp only at h
    obtain ⟨hs8, _, _⟩ := astCreateNode_spec _ _ _ _ hc
    replace h := bind_ok _ _ _ h
    obtain ⟨x, hcall, h⟩ := h
    obtain ⟨call, p9⟩ := x
    cases h
    obtain ⟨hs9, hfc⟩ := parseFunCall_spec _ _ _ _ hcall
    have hs5 : PStep p4 p5 := by
      split at hp5
      · exact parserAdvance_step _ _ hp5
      · cases hp5; exact pstep_refl _
    subst e3 e7
    refine ⟨pstep_trans _ _ _ (parserAdvance_step _ _ hp1)
      (pstep_trans _ _ _ (parserAdvance_step _ _ hp2)
      (pstep_trans _ _ _ (parserLookAhead_step _ _ hp4)
      (pstep_trans _ _ _ hs5 (pstep_trans _ _ _ (parserAdvance_step _ _ hp6)
      (pstep_trans _ _ _ hs8 (pstep_trans _ _ _ hs9 (setType_step _ _ _))))))), ?_⟩
    simp [funFree, funFreeOpt, hfc, isFunType]

/-- The function `parseVarDec`. -/
theorem parseVarDec_spec (p q : Parser) (n : AstNode)
    (h : parseVarDec p = Except.ok (n, q)) : PStep p q ∧ funFree n = true := by
  unfold parseVarDec at h
  replace h := bind_ok _ _ _ h
  obtain ⟨p1, hp1, h⟩ := h
  replace h := bind_ok _ _ _ h
  obtain ⟨p2, hp2, h⟩ := h
  replace h := bind_ok _ _ _ h
  obtain ⟨p3, hp3, h⟩ := h
  obtain ⟨e3, ht3⟩ := parserValidate_eq _ _ _ hp3
  cases hc : astCreateNode p3 AstNodeType.AST_VAR_DEC with
  | mk leaf0 p4 =>
    rw [hc] at h
    dsimp only at h
    obtain ⟨hs4, hf4, hcur4⟩ := astCreateNode_spec _ _ _ _ hc
    replace h := bind_ok _ _ _ h
    obtain ⟨name, hname, h⟩ := h
    rw [token_setToken] at hname
    split at h
    · cases h
    · split at h
      · cases h
      · obtain ⟨x, hadd, h⟩ := bind_ok _ _ _ h
        obtain ⟨symbol, stack1⟩ := x
        dsimp only at h
        replace h := bind_ok _ _ _ h
        obtain ⟨p5, hp5, h⟩ := h
        replace h := bind_ok _ _ _ h
        obtain ⟨p6, hp6, h⟩ := h
        obtain ⟨e6, _⟩ := parserValidate_eq _ _ _ hp6
        cases h
        subst e3 e6
        have h13 : PStep p p3 := pstep_trans _ _ _ (parserAdvance_step _ _ hp1)
          (parserAdvance_step _ _ hp2)
        have h14 : PStep p p4 := pstep_trans _ _ _ h13 hs4
        refine ⟨?_, ?_⟩
        · intro ht
          have hid := tokenString_clean _ _ (h13 ht).1.1 (Or.inl ht3) hname
          have hadd2 := stackRel_addSymbolAt Dollar _ _ _ _ _
            (not_dollar_var name _ _ _ (Or.inl rfl) hid) (fun _ hx => hx) hadd
          exact pstep_trans _ _ _ h14 (pstep_trans _ _ _ (pstep_symStack p4 stack1 hadd2)
            (pstep_trans _ _ _ (parserAdvance_step _ _ hp5) (setType_step _ _ _))) ht
        · rw [funFree_setToken, hf4]; rfl

/-- The function `parseReturn`. -/
theorem parseReturn_spec (fuel : Nat) (funSym : Nat) (p q : Parser) (n : AstNode)
    (h : parseReturn fuel funSym p = Except.ok (n, q)) : PStep p q ∧ funFree n = true := by
  unfold parseReturn at h
  replace h := bind_ok _ _ _ h
  obtain ⟨p1, hp1, h⟩ := h
  replace h := bind_ok _ _ _ h
  obtain ⟨p2, hp2, h⟩ := h
  cases hc : astCreateNode p2 AstNodeType.AST_RETURN with
  | mk node0 p3 =>
    rw [hc] at h
    dsimp only at h
    obtain ⟨hs3, _, _⟩ := astCreateNode_spec _ _ _ _ hc
    replace h := bind_ok _ _ _ h
    obtain ⟨x, hexp, h⟩ := h
    obtain ⟨right, p4⟩ := x
    dsimp only at h
    obtain ⟨hs4, hfr⟩ := parseExp_spec _ _ _ _ hexp
    split at h
    · cases h
    · obtain ⟨types, htypes, h⟩ := bind_ok _ _ _ h
      cases h
      have hs5 : PStep p4 { p4 with nodeTypes := types } := pstep_same _ _ rfl rfl rfl rfl
      refine ⟨pstep_trans _ _ _ (parserAdvance_step _ _ hp1)
        (pstep_trans _ _ _ (parserAdvance_step _ _ hp2) (pstep_trans _ _ _ hs3
        (pstep_trans _ _ _ hs4 (pstep_trans _ _ _ hs5 (updSym_step _ _ _ ?_))))), ?_⟩
      · intro x
        split <;> exact ⟨rfl, id, rfl⟩
      · simp only [funFreeOpt] at hfr
        simp [funFree, funFreeOpt, hfr, isFunType]

/-- An assignment to a symbol behind a pointer that may be null. -/
theorem pstep_optUpd (p : Parser) (o : Option Nat) (f : Nat → Parser)
    (hf : ∀ a, PStep p (f a)) :
    PStep p (match o with
      | some a => f a
      | none => p) := by
  cases o with
  | none => exact pstep_refl _
  | some a => exact hf a

/-- The function `parseVarAssign`. -/
theorem parseVarAssign_spec (fuel : Nat) (p q : Parser) (n : AstNode)
    (h : parseVarAssign fuel p = Except.ok (n, q)) : PStep p q ∧ funFree n = true := by
  unfold parseVarAssign at h
  replace h := bind_ok _ _ _ h
  obtain ⟨p1, hp1, h⟩ := h
  cases hc : astCreateNode p1 AstNodeType.AST_IDENTIFIER with
  | mk leaf0 p2 =>
    rw [hc] at h
    dsimp only at h
    obtain ⟨hs2, hf2, hcur2⟩ := astCreateNode_spec _ _ _ _ hc
    replace h := bind_ok _ _ _ h
    obtain ⟨p3, hp3, h⟩ := h
    replace h := bind_ok _ _ _ h
    obtain ⟨p4, hp4, h⟩ := h
    obtain ⟨e4, _⟩ := parserValidate_eq _ _ _ hp4
    subst e4
    cases hc5 : astCreateNode p4 AstNodeType.AST_VAR_ASSIGN with
    | mk node0 p5 =>
      rw [hc5] at h
      dsimp only at h
      obtain ⟨hs5, _, _⟩ := astCreateNode_spec _ _ _ _ hc5
      replace h := bind_ok _ _ _ h
      obtain ⟨name, hname, h⟩ := h
      rw [token_setToken] at hname
      replace h := bind_ok _ _ _ h
      obtain ⟨x, hsym, h⟩ := h
      obtain ⟨leafSymbol, p6⟩ := x
      dsimp only at h
      replace h := bind_ok _ _ _ h
      obtain ⟨p7, hp7, h⟩ := h
      replace h := bind_ok _ _ _ h
      obtain ⟨y, hright, h⟩ := h
      obtain ⟨right, p8⟩ := y
      dsimp only at h
      have h15 : PStep p p5 := pstep_trans _ _ _ (parserAdvance_step _ _ hp1)
        (pstep_trans _ _ _ hs2 (pstep_trans _ _ _ (parserAdvance_step _ _ hp3) hs5))
      have hs6 : TokOK p → PStep p5 p6 := by
        intro ht
        split at hsym
        · cases hsym; exact pstep_refl _
        · split at hsym
          · split at hsym
            · cases hsym
            · cases hsym; exact pstep_refl _
          · rename_i hglobal
            rw [token_setToken] at hglobal
            have hty : p1.current.type = TokenType.GLOBAL_IDENTIFIER := by
              simpa using hglobal
            have hid := tokenString_clean _ _ ((parserAdvance_step _ _ hp1) ht).1.1
              (Or.inr hty) hname
            split at hsym
            · cases hsym
            · rename_i r hadd
              cases hsym
              exact pstep_symStack p5 _ (stackRel_addSymbolAt Dollar _ _ _ _ _
                (not_dollar_var name _ _ _ (Or.inl rfl) hid) (fun _ hx => hx) hadd)
      have hs8 : PStep p7 p8 ∧ funFreeOpt right = true := by
        split at hright
        · split at hright
          · cases hright
          · rename_i r0 q0 hifj
            cases hright
            exact parseIfj_spec _ _ _ _ hifj
        · obtain ⟨q1, hq1, hright⟩ := bind_ok _ _ _ hright
          obtain ⟨q2, hq2, hright⟩ := bind_ok _ _ _ hright
          have h12 := pstep_trans _ _ _ (parserAdvance_step _ _ hq1)
            (parserLookAhead_step _ _ hq2)
          split at hright
          · obtain ⟨z, hcall, hright⟩ := bind_ok _ _ _ hright
            obtain ⟨r, q3⟩ := z
            dsimp only at hright
            obtain ⟨types, _, hright⟩ := bind_ok _ _ _ hright
            cases hright
            obtain ⟨hs, hf⟩ := parseFunCall_spec _ _ _ _ hcall
            exact ⟨pstep_trans _ _ _ h12 (pstep_trans _ _ _ hs
              (pstep_same _ _ rfl rfl rfl rfl)), hf⟩
          · obtain ⟨z, hexp, hright⟩ := bind_ok _ _ _ hright
            obtain ⟨r, q3⟩ := z
            dsimp only at hright
            obtain ⟨types, _, hright⟩ := bind_ok _ _ _ hright
            cases hright
            obtain ⟨hs, hf⟩ := parseExp_spec _ _ _ _ hexp
            exact ⟨pstep_trans _ _ _ h12 (pstep_trans _ _ _ hs
              (pstep_same _ _ rfl rfl rfl rfl)), hf⟩
        · obtain ⟨q1, hq1, hright⟩ := bind_ok _ _ _ hright
          obtain ⟨z, hexp, hright⟩ := bind_ok _ _ _ hright
          obtain ⟨r, q2⟩ := z
          dsimp only at hright
          obtain ⟨types, _, hright⟩ := bind_ok _ _ _ hright
          obtain ⟨types1, _, hright⟩ := bind_ok _ _ _ hright
          cases hright
          obtain ⟨hs, hf⟩ := parseExp_spec _ _ _ _ hexp
          exact ⟨pstep_trans _ _ _ (parserAdvance_step _ _ hq1) (pstep_trans _ _ _ hs
            (pstep_same _ _ rfl rfl rfl rfl)), hf⟩
      obtain ⟨hs8, hfr⟩ := hs8
      have h18 : TokOK p → PStep p p8 := fun ht =>
        pstep_trans _ _ _ h15 (pstep_trans _ _ _ (hs6 ht)
          (pstep_trans _ _ _ (parserLookAhead_step _ _ hp7) hs8))
      have hs9 := pstep_optUpd p8 leafSymbol (fun a => p8.updSym a (fun sym =>
        { sym with expressionType := typeOf p8.nodeTypes (leaf0.setToken p1.current) }))
        (fun a => updSym_step _ _ _ (fun _ => ⟨rfl, id, rfl⟩))
      cases right with
      | none => cases h
      | some r =>
        dsimp only at h
        simp only [funFreeOpt] at hfr
        have hfn : funFree (AstNode.bin node0.id AstNodeType.AST_VAR_ASSIGN node0.token
            (some (leaf0.setToken p1.current)) (some r)) = true := by
          simp [funFree, funFreeOpt, hfr, isFunType, funFree_setToken, hf2]
        split at h
        · cases h
          exact ⟨fun ht => pstep_trans _ _ _ (h18 ht) (pstep_trans _ _ _ hs9
            (pstep_same _ _ rfl rfl rfl rfl)) ht, hfn⟩
        · cases h
          exact ⟨fun ht => pstep_trans _ _ _ (h18 ht) (pstep_trans _ _ _ hs9
            (setType_step _ _ _)) ht, hfn⟩

/-- A parsing function run between `symTableStackPush` and `symTableStackPop`. -/
theorem pstep_scope (p q : Parser)
    (h : PStep { p with symStack := symTableStackPush p.symStack } q) :
    PStep p { q with symStack := symTableStackPop q.symStack } := by
  intro ht
  obtain ⟨htq, hrel, hlen⟩ := h ht
  have hlen2 : q.symStack.scopes.length = p.symStack.scopes.length + 1 := by
    rw [hlen]; simp [symTableStackPush]
  have hrel2 : StackRel Dollar p.symStack q.symStack :=
    stackRel_trans _ _ _ _ (stackRel_push _ _) hrel
  refine ⟨htq, ⟨?_, fun hg => ?_⟩, ?_⟩
  · exact hrel2.1
  · have h1 : 1 ≤ p.symStack.scopes.length := by
      obtain ⟨g, rest, hs, _⟩ := hg
      rw [hs]; simp
    exact (stackRel_trans _ _ _ _ hrel2 (stackRel_pop _ _ (by omega))).2 hg
  · show (symTableStackPop q.symStack).scopes.length = _
    simp [symTableStackPop, hlen2]

/-- The part that `parseIf`, `parseIfElse` and `parseWhile` share. -/
theorem parseCondBlock_spec (block : BlockParser) (hb : BlockOK block) (fuel : Nat)
    (funSym : Nat) (type : AstNodeType) (needExp : Bool) (p q : Parser) (n : AstNode)
    (h : parseCondBlock block fuel funSym type needExp p = Except.ok (n, q))
    (hty : isFunType type = false) :
    PStep p q ∧ funFree n = true := by
  unfold parseCondBlock at h
  cases hc : astCreateNode p type with
  | mk node0 p1 =>
    rw [hc] at h
    dsimp only at h
    obtain ⟨hs1, _, _⟩ := astCreateNode_spec _ _ _ _ hc
    replace h := bind_ok _ _ _ h
    obtain ⟨x, hexp, h⟩ := h
    obtain ⟨left, p2⟩ := x
    dsimp only at h
    obtain ⟨hs2, hfl⟩ := parseExp_spec _ _ _ _ hexp
    split at h
    · cases h
    · obtain ⟨types, _, h⟩ := bind_ok _ _ _ h
      replace h := bind_ok _ _ _ h
      obtain ⟨p3, hp3, h⟩ := h
      obtain ⟨e3, _⟩ := parserValidate_eq _ _ _ hp3
      replace h := bind_ok _ _ _ h
      obtain ⟨y, hblock, h⟩ := h
      obtain ⟨body, p4⟩ := y
      cases h
      obtain ⟨hs4, hfb⟩ := hb _ _ _ _ hblock
      subst e3
      refine ⟨pstep_trans _ _ _ hs1 (pstep_trans _ _ _ hs2
        (pstep_trans _ _ _ (pstep_same _ { p2 with nodeTypes := types } rfl rfl rfl rfl)
        (pstep_scope _ _ hs4))), ?_⟩
      simp [funFree, funFreeOpt, hfb, hty, hfl]

/-- The function `parseIf`. -/
theorem parseIf_spec (block : BlockParser) (hb : BlockOK block) (fuel : Nat)
    (funSym : Nat) (p q : Parser) (n : AstNode)
    (h : parseIf block fuel funSym p = Except.ok (n, q)) : PStep p q ∧ funFree n = true := by
  unfold parseIf at h
  replace h := bind_ok _ _ _ h
  obtain ⟨p1, hp1, h⟩ := h
  replace h := bind_ok _ _ _ h
  obtain ⟨p2, hp2, h⟩ := h
  replace h := bind_ok _ _ _ h
  obtain ⟨p3, hp3, h⟩ := h
  obtain ⟨e3, _⟩ := parserValidate_eq _ _ _ hp3
  replace h := bind_ok _ _ _ h
  obtain ⟨p4, hp4, h⟩ := h
  obtain ⟨hs, hf⟩ := parseCondBlock_spec _ hb _ _ _ _ _ _ _ h rfl
  subst e3
  exact ⟨pstep_trans _ _ _ (parserAdvance_step _ _ hp1) (pstep_trans _ _ _
    (parserAdvance_step _ _ hp2) (pstep_trans _ _ _ (parserAdvance_step _ _ hp4) hs)), hf⟩

/-- The function `parseWhile`. -/
theorem parseWhile_spec (block : BlockParser) (hb : BlockOK block) (fuel : Nat)
    (funSym : Nat) (p q : Parser) (n : AstNode)
    (h : parseWhile block fuel funSym p = Except.ok (n, q)) :
    PStep p q ∧ funFree n = true := by
  unfold parseWhile at h
  replace h := bind_ok _ _ _ h
  obtain ⟨p1, hp1, h⟩ := h
  replace h := bind_ok _ _ _ h
  obtain ⟨p2, hp2, h⟩ := h
  replace h := bind_ok _ _ _ h
  obtain ⟨p3, hp3, h⟩ := h
  obtain ⟨e3, _⟩ := parserValidate_eq _ _ _ hp3
  replace h := bind_ok _ _ _ h
  obtain ⟨p4, hp4, h⟩ := h
  obtain ⟨hs, hf⟩ := parseCondBlock_spec _ hb _ _ _ _ _ _ _ h rfl
  subst e3
  exact ⟨pstep_trans _ _ _ (parserAdvance_step _ _ hp1) (pstep_trans _ _ _
    (parserAdvance_step _ _ hp2) (pstep_trans _ _ _ (parserAdvance_step _ _ hp4) hs)), hf⟩

/-- The function `parseIfElse`. -/
theorem parseIfElse_spec (block : BlockParser) (hb : BlockOK block) (fuel : Nat)
    (funSym : Nat) (p q : Parser) (n : AstNode)
    (h : parseIfElse block fuel funSym p = Except.ok (n, q)) :
    PStep p q ∧ funFree n = true := by
  unfold parseIfElse at h
  replace h := bind_ok _ _ _ h
  obtain ⟨p1, hp1, h⟩ := h
  replace h := bind_ok _ _ _ h
  obtain ⟨p2, hp2, h⟩ := h
  obtain ⟨e2, _⟩ := parserValidate_eq _ _ _ hp2
  replace h := bind_ok _ _ _ h
  obtain ⟨p3, hp3, h⟩ := h
  obtain ⟨hs, hf⟩ := parseCondBlock_spec _ hb _ _ _ _ _ _ _ h rfl
  subst e2
  exact ⟨pstep_trans _ _ _ (parserAdvance_step _ _ hp1)
    (pstep_trans _ _ _ (parserAdvance_step _ _ hp3) hs), hf⟩

/-- The function `parseElse`. -/
theorem parseElse_spec (block : BlockParser) (hb : BlockOK block)
    (funSym : Nat) (p q : Parser) (n : AstNode)
    (h : parseElse block funSym p = Except.ok (n, q)) : PStep p q ∧ funFree n = true := by
  unfold parseElse at h
  cases hc : astCreateNode p AstNodeType.AST_ELSE_STMT with
  | mk node0 p1 =>
    rw [hc] at h
    dsimp only at h
    obtain ⟨hs1, _, _⟩ := astCreateNode_spec _ _ _ _ hc
    replace h := bind_ok _ _ _ h
    obtain ⟨y, hblock, h⟩ := h
    obtain ⟨body, p2⟩ := y
    cases h
    obtain ⟨hs2, hfb⟩ := hb _ _ _ _ hblock
    refine ⟨pstep_trans _ _ _ hs1 (pstep_scope _ _ hs2), ?_⟩
    simp [funFree, funFreeOpt, hfb, isFunType]

/-- The `while` of `parseIfChain`. -/
theorem parseIfChainLoop_spec (block : BlockParser) (hb : BlockOK block) (funSym : Nat) :
    ∀ (fuel : Nat) (p q : Parser) (acc items : List AstNode),
      parseIfChainLoop block funSym fuel p acc = Except.ok (items, q) →
      funFreeList acc = true → PStep p q ∧ funFreeList items = true := by
  intro fuel
  induction fuel with
  | zero => intro p q acc items h; simp [parseIfChainLoop] at h
  | succ fuel ih =>
    intro p q acc items h hacc
    unfold parseIfChainLoop at h
    by_cases c1 : p.lookAhead.type = TokenType.KW_ELSE
    · rw [if_pos c1] at h
      replace h := bind_ok _ _ _ h
      obtain ⟨p1, hp1, h⟩ := h
      replace h := bind_ok _ _ _ h
      obtain ⟨p2, hp2, h⟩ := h
      replace h := bind_ok _ _ _ h
      obtain ⟨x, hnode, h⟩ := h
      obtain ⟨node, p3⟩ := x
      dsimp only at h
      replace h := bind_ok _ _ _ h
      obtain ⟨p4, hp4, h⟩ := h
      have hn : PStep p2 p3 ∧ funFree node = true := by
        split at hnode
        · exact parseIfElse_spec _ hb _ _ _ _ _ hnode
        · exact parseElse_spec _ hb _ _ _ _ hnode
      obtain ⟨hrest, hfin⟩ := ih _ _ _ _ h (by
        rw [funFreeList_append, hacc, funFreeList_cons, hn.2]; simp [funFreeList])
      exact ⟨pstep_trans _ _ _ (parserAdvance_step _ _ hp1) (pstep_trans _ _ _
        (parserLookAhead_step _ _ hp2) (pstep_trans _ _ _ hn.1
        (pstep_trans _ _ _ (parserLookAhead_step _ _ hp4) hrest))), hfin⟩
    · rw [if_neg c1] at h
      cases h
      exact ⟨pstep_refl _, hacc⟩

/-- The function `parseIfChain`. -/
theorem parseIfChain_spec (block : BlockParser) (hb : BlockOK block) (fuel : Nat)
    (funSym : Nat) (p q : Parser) (items : List AstNode)
    (h : parseIfChain block fuel funSym p = Except.ok (items, q)) :
    PStep p q ∧ funFreeList items = true := by
  unfold parseIfChain at h
  replace h := bind_ok _ _ _ h
  obtain ⟨x, hif, h⟩ := h
  obtain ⟨node, p1⟩ := x
  dsimp only at h
  replace h := bind_ok _ _ _ h
  obtain ⟨p2, hp2, h⟩ := h
  obtain ⟨hs1, hf1⟩ := parseIf_spec _ hb _ _ _ _ _ hif
  obtain ⟨hrest, hfin⟩ := parseIfChainLoop_spec _ hb _ _ _ _ _ _ h (by
    rw [funFreeList_cons, hf1]; simp [funFreeList])
  exact ⟨pstep_trans _ _ _ hs1 (pstep_trans _ _ _ (parserLookAhead_step _ _ hp2) hrest), hfin⟩

/-- The `while` of `parseStList`. -/
theorem parseStListLoop_spec (block : BlockParser) (hb : BlockOK block) (funSym : Nat) :
    ∀ (fuel : Nat) (p q : Parser) (acc items : List AstNode),
      parseStListLoop block funSym fuel p acc = Except.ok (items, q) →
      funFreeList acc = true → PStep p q ∧ funFreeList items = true := by
  intro fuel
  induction fuel with
  | zero => intro p q acc items h; simp [parseStListLoop] at h
  | succ fuel ih =>
    intro p q acc items h hacc
    unfold parseStListLoop at h
    split at h
    · split at h
      · obtain ⟨x, hchain, h⟩ := bind_ok _ _ _ h
        obtain ⟨nodes, p1⟩ := x
        dsimp only at h
        replace h := bind_ok _ _ _ h
        obtain ⟨p2, hp2, h⟩ := h
        obtain ⟨hs1, hf1⟩ := parseIfChain_spec _ hb _ _ _ _ _ hchain
        obtain ⟨hrest, hfin⟩ := ih _ _ _ _ h (by rw [funFreeList_append, hacc, hf1]; simp)
        exact ⟨pstep_trans _ _ _ hs1 (pstep_trans _ _ _ (parserLookAhead_step _ _ hp2) hrest),
          hfin⟩
      · obtain ⟨x, hnode, h⟩ := bind_ok _ _ _ h
        obtain ⟨node, p1⟩ := x
        dsimp only at h
        replace h := bind_ok _ _ _ h
        obtain ⟨p2, hp2, h⟩ := h
        have hn : PStep p p1 ∧ funFree node = true := by
          split at hnode
          · exact parseIfj_spec _ _ _ _ hnode
          · split at hnode
            · cases hnode
            · rename_i n0 q0 hblock
              cases hnode
              obtain ⟨hs, hf⟩ := hb _ _ _ _ hblock
              exact ⟨pstep_scope _ _ hs, hf⟩
          · exact parseReturn_spec _ _ _ _ _ hnode
          · exact parseWhile_spec _ hb _ _ _ _ _ hnode
          · exact parseVarDec_spec _ _ _ hnode
          · exact parseVarAssign_spec _ _ _ _ hnode
          · exact parseVarAssign_spec _ _ _ _ hnode
          · cases hnode
        obtain ⟨hrest, hfin⟩ := ih _ _ _ _ h (by
          rw [funFreeList_append, hacc, funFreeList_cons, hn.2]; simp [funFreeList])
        exact ⟨pstep_trans _ _ _ hn.1 (pstep_trans _ _ _ (parserLookAhead_step _ _ hp2) hrest),
          hfin⟩
    · cases h
      exact ⟨pstep_refl _, hacc⟩

/-- The function `parseStList`. -/
theorem parseStList_spec (block : BlockParser) (hb : BlockOK block) (fuel : Nat)
    (funSym : Nat) (p q : Parser) (items : List AstNode)
    (h : parseStList block fuel funSym p = Except.ok (items, q)) :
    PStep p q ∧ funFreeList items = true := by
  unfold parseStList at h
  replace h := bind_ok _ _ _ h
  obtain ⟨p1, hp1, h⟩ := h
  obtain ⟨hrest, hfin⟩ := parseStListLoop_spec _ hb _ _ _ _ _ _ h rfl
  exact ⟨pstep_trans _ _ _ (parserLookAhead_step _ _ hp1) hrest, hfin⟩

/-- The function `parseBlock`. -/
theorem parseBlock_spec : ∀ (fuel : Nat), BlockOK (parseBlock fuel) := by
  intro fuel
  induction fuel with
  | zero => intro funSym p q n h; simp [parseBlock] at h
  | succ fuel ih =>
    intro funSym p q n h
    unfold parseBlock at h
    replace h := bind_ok _ _ _ h
    obtain ⟨p1, hp1, h⟩ := h
    cases hc : astCreateNode p1 AstNodeType.AST_BLOCK with
    | mk node p2 =>
      rw [hc] at h
      dsimp only at h
      obtain ⟨hs2, _, _⟩ := astCreateNode_spec _ _ _ _ hc
      have hty : node.type = AstNodeType.AST_BLOCK := by
        have e : node = (astCreateNode p1 AstNodeType.AST_BLOCK).1 := by rw [hc]
        rw [e]; rfl
      replace h := bind_ok _ _ _ h
      obtain ⟨x, hlist, h⟩ := h
      obtain ⟨items, p3⟩ := x
      dsimp only at h
      replace h := bind_ok _ _ _ h
      obtain ⟨p4, hp4, h⟩ := h
      replace h := bind_ok _ _ _ h
      obtain ⟨p5, hp5, h⟩ := h
      obtain ⟨e5, _⟩ := parserValidate_eq _ _ _ hp5
      replace h := bind_ok _ _ _ h
      obtain ⟨p6, hp6, h⟩ := h
      replace h := bind_ok _ _ _ h
      obtain ⟨p7, hp7, h⟩ := h
      obtain ⟨hs3, hf3⟩ := parseStList_spec _ ih _ _ _ _ _ hlist
      have hs7 : PStep p6 p7 := by
        split at hp7
        · obtain ⟨q1, hq1, hp7⟩ := bind_ok _ _ _ hp7
          obtain ⟨e7, _⟩ := parserValidate_eq _ _ _ hp7
          subst e7
          exact parserAdvance_step _ _ hq1
        · cases hp7; exact pstep_refl _
      subst e5
      cases h
      refine ⟨pstep_trans _ _ _ (parserValidateSequence_step _ _ _ hp1) (pstep_trans _ _ _ hs2
        (pstep_trans _ _ _ hs3 (pstep_trans _ _ _ (parserAdvance_step _ _ hp4)
        (pstep_trans _ _ _ (parserLookAhead_step _ _ hp6) hs7)))), ?_⟩
      simp [funFree, hty, hf3, isFunType]

/-- With one scope on the stack `symTableStackFindSymbol` searches the global scope. -/
theorem find_single (s : SymTableStack) (X : String) (h : s.scopes.length = 1) :
    symTableStackFindSymbol s X = globalFind s X := by
  unfold symTableStackFindSymbol globalFind
  cases hs : s.scopes with
  | nil => rw [hs] at h; cases h
  | cons g rest =>
    cases rest with
    | nil =>
      simp only [List.reverse_cons, List.reverse_nil, List.nil_append, findInScopes,
        List.head?_cons]
      cases scopeFindSymbol s.mem g X <;> rfl
    | cons g2 rest2 => rw [hs] at h; simp at h

/-- The symbol read at the address of an assignment of `declared`. -/
theorem symAt_declare (mem : List Symbol) (a : Nat) (ha : a < mem.length) :
    symAt (memUpdate mem a setDeclared) a =
      { symAt mem a with declared := true } := by
  rw [symAt_memUpdate, if_pos ⟨rfl, ha⟩]

/-- The memory is kept by an assignment of `declared`. -/
theorem memKeep_declare (P : String → Prop) (mem : List Symbol) (a : Nat) :
    MemKeep P mem (memUpdate mem a setDeclared) :=
  memKeep_update P mem a _ (fun _ => ⟨rfl, fun _ => rfl, rfl⟩)

/-- The symbol made by `symbolCreate` added to the global scope and then declared: the
scope stack is kept for the names other than its own, and with a `$` in its name the
global scope then holds a declared symbol of that name with its number of parameters. -/
theorem declare_add (P : String → Prop) (s s2 : SymTableStack) (x : Symbol)
    (hPx : ¬ P x.name)
    (hadd : scopeAddAt (allocSymbol s x).2 0 (allocSymbol s x).1 = Except.ok s2) :
    StackRel P s { s2 with mem := memUpdate s2.mem (allocSymbol s x).1 setDeclared } ∧
      s2.scopes.length = s.scopes.length ∧
      (GlobalOK s → Dollar x.name →
        Good x.name x.numOfParams { s2 with mem := memUpdate s2.mem (allocSymbol s x).1 setDeclared }) := by
  unfold scopeAddAt allocSymbol at hadd
  simp only [List.get?_eq_getElem?] at hadd
  cases hget : s.scopes[0]? with
  | none => simp [hget] at hadd
  | some scope =>
    simp only [hget] at hadd
    cases hadd2 : scopeAddSymbol scope s.mem.length (s.mem ++ [x]) with
    | error e => simp [hadd2] at hadd
    | ok r =>
      obtain ⟨code, scope1, mem1⟩ := r
      simp only [hadd2, Except.ok.injEq] at hadd
      subst hadd
      have hname : (symAt (s.mem ++ [x]) s.mem.length).name = x.name := by
        rw [symAt_append_self]
      have hk1 : MemKeep P (s.mem ++ [x]) mem1 :=
        memKeep_scopeAddSymbol P _ _ _ _ _ _ (by rw [hname]; exact hPx) hadd2
      have hk3 : MemKeep P s.mem (memUpdate mem1 s.mem.length setDeclared) :=
        memKeep_trans P _ _ _ (memKeep_append P s.mem x)
          (memKeep_trans P _ _ _ hk1 (memKeep_declare P _ _))
      have hlen1 : s.mem.length < mem1.length := by
        have := hk1.1
        simp at this
        omega
      have hfacts : ∀ g rest, s.scopes = g :: rest → TableOK s.mem g →
          scope = g ∧ TableOK (memUpdate mem1 s.mem.length setDeclared) scope1 ∧
          (((∀ b, Slot.sym b ∈ g.symbols →
                (symAt (s.mem ++ [x]) b).name ≠ (symAt (s.mem ++ [x]) s.mem.length).name) ∧
              mem1 = s.mem ++ [x] ∧
              ∀ a, Slot.sym a ∈ scope1.symbols ↔ (a = s.mem.length ∨ Slot.sym a ∈ g.symbols)) ∨
            (∃ b, Slot.sym b ∈ g.symbols ∧
              (symAt (s.mem ++ [x]) b).name = (symAt (s.mem ++ [x]) s.mem.length).name ∧
              mem1 = symbolUpdate (s.mem ++ [x]) b (symAt (s.mem ++ [x]) s.mem.length) ∧
              ∀ a, Slot.sym a ∈ scope1.symbols ↔ Slot.sym a ∈ g.symbols)) := by
        intro g rest hs hok
        have hg : scope = g := by
          simp only [hs, List.getElem?_cons_zero, Option.some.injEq] at hget
          exact hget.symm
        subst hg
        have hok1 : TableOK (s.mem ++ [x]) scope :=
          tableOK_mem s.mem _ scope hok (by simp) (fun b hb => by rw [symAt_append _ _ _ hb])
        obtain ⟨hok2, hcase⟩ := scopeAddSymbol_ok _ _ _ _ _ _ hok1 (by simp) hadd2
        refine ⟨rfl, ?_, hcase⟩
        exact tableOK_mem _ _ _ hok2 (by rw [length_memUpdate])
          (fun b hb => ((memKeep_declare P mem1 s.mem.length).2 b hb).1)
      refine ⟨stackRel_intro P s _ hk3 (fun g rest hs hok => ?_), by simp, ?_⟩
      · obtain ⟨hg, hok3, hcase⟩ := hfacts g rest hs hok
        subst hg
        refine ⟨scope1, rest, by simp [hs], hok3, ?_, ?_⟩
        · intro b hb
          rcases hcase with ⟨_, _, hm⟩ | ⟨_, _, _, _, hm⟩
          · exact (hm b).mpr (Or.inr hb)
          · exact (hm b).mpr hb
        · intro b hb
          rcases hcase with ⟨_, hmem, hm⟩ | ⟨_, _, _, _, hm⟩
          · rcases (hm b).mp hb with h1 | h1
            · right; right
              subst h1
              show (symAt (memUpdate mem1 s.mem.length _) s.mem.length).declared = true
              rw [symAt_declare _ _ hlen1]
            · exact Or.inl h1
          · exact Or.inl ((hm b).mp hb)
      · rintro ⟨g, rest, hs, hok, hdecl⟩ hdollar
        obtain ⟨hg, hok3, hcase⟩ := hfacts g rest hs hok
        subst hg
        have hlt : ∀ a, Slot.sym a ∈ scope.symbols → a < s.mem.length := by
          intro a ha
          obtain ⟨p, hp⟩ := mem_sym_getD _ _ ha
          exact (hok.2.2.2.2.1 p a hp).1
        have hfind : ∀ M, TableOK M scope1 → ∀ c, Slot.sym c ∈ scope1.symbols →
            (symAt M c).name = x.name →
            globalFind { s with mem := M, scopes := s.scopes.set 0 scope1 } x.name = some c := by
          intro M hok3 c hc hn
          obtain ⟨p, hp⟩ := mem_sym_getD _ _ hc
          have := (scopeFindSymbol_iff _ scope1 x.name c hok3).mpr ⟨p, hp, hn⟩
          simpa [globalFind, hs] using this
        rcases hcase with ⟨_, hmem, hm⟩ | ⟨b, hb, hbn, hmem, hm⟩
        · refine ⟨s.mem.length, hfind _ hok3 _ ((hm _).mpr (Or.inl rfl)) ?_, ?_, ?_⟩
          · rw [symAt_declare _ _ hlen1, hmem, symAt_append_self]
          · show (symAt (memUpdate mem1 s.mem.length _) s.mem.length).declared = true
            rw [symAt_declare _ _ hlen1]
          · show (symAt (memUpdate mem1 s.mem.length _) s.mem.length).numOfParams = _
            rw [symAt_declare _ _ hlen1, hmem, symAt_append_self]
        · have hbl := hlt b hb
          have hb1 : symAt (memUpdate mem1 s.mem.length setDeclared) b = symAt mem1 b := by
            rw [symAt_memUpdate, if_neg (by omega)]
          have hb2 : (symAt mem1 b).name = (symAt s.mem b).name ∧
              (symAt mem1 b).declared = (symAt s.mem b).declared ∧
              (symAt mem1 b).numOfParams = x.numOfParams := by
            rw [hmem]
            unfold symbolUpdate
            rw [symAt_memUpdate, if_pos ⟨rfl, by simp; omega⟩, symAt_append _ _ _ hbl,
              symAt_append_self]
            exact ⟨rfl, rfl, rfl⟩
          have hbname : (symAt s.mem b).name = x.name := by
            rw [symAt_append _ _ _ hbl, symAt_append_self] at hbn
            exact hbn
          refine ⟨b, hfind _ hok3 _ ((hm _).mpr hb) ?_, ?_, ?_⟩
          · rw [hb1, hb2.1]; exact hbname
          · show (symAt (memUpdate mem1 s.mem.length _) b).declared = true
            rw [hb1, hb2.2.1]
            exact hdecl b hb (by rw [hbname]; exact hdollar)
          · show (symAt (memUpdate mem1 s.mem.length _) b).numOfParams = _
            rw [hb1, hb2.2.2]

/-- What is found under a name in the global scope after an allocation. -/
theorem globalFind_alloc (s : SymTableStack) (x : Symbol) (X : String) (c : Nat)
    (hg : GlobalOK s) (h : globalFind s X = some c) :
    globalFind (allocSymbol s x).2 X = some c ∧
      (symAt (allocSymbol s x).2.mem c).declared = (symAt s.mem c).declared ∧
      (symAt (allocSymbol s x).2.mem c).numOfParams = (symAt s.mem c).numOfParams := by
  have hrel : StackRel (fun _ => True) s (allocSymbol s x).2 :=
    stackRel_mem _ s _ (memKeep_append _ s.mem x)
  obtain ⟨g, rest, hs, hok, _⟩ := hg
  have hfa : scopeFindSymbol s.mem g X = some c := by
    simpa [globalFind, hs] using h
  obtain ⟨hin, _⟩ := scopeFindSymbol_some _ _ _ _ hfa
  obtain ⟨p, hp⟩ := mem_sym_getD _ _ hin
  have hc : c < s.mem.length := (hok.2.2.2.2.1 p c hp).1
  have e : symAt (allocSymbol s x).2.mem c = symAt s.mem c := symAt_append _ _ _ hc
  exact ⟨(hrel.2 ⟨g, rest, hs, hok, by assumption⟩).2 X c trivial h, by rw [e], by rw [e]⟩

/-- The part of `parseFunDec` that enters the function in the global scope: the scope
stack is kept for the names other than that of the function, and with a `$` in the name,
one scope on the stack and the global scope in the kept state, the function was not
declared with this number of parameters before and is so afterwards. -/
theorem declare_spec (P : String → Prop) (p7 p9 : Parser) (x : Symbol) (k : Nat)
    (s1 : SymTableStack) (hs1 : s1 = (allocSymbol p7.symStack x).2)
    (a : Nat) (ha : a = (allocSymbol p7.symStack x).1)
    (h : (match symTableStackFindSymbol s1 (symAt s1.mem a).name with
          | some f =>
            if (symAt s1.mem f).numOfParams = k ∧ (symAt s1.mem f).declared = true then
              errorExit SEM_REDEF
            else if (!(symAt s1.mem f).declared) = true then
              Except.ok ({ p7 with symStack := s1 }.updSym f setDeclared)
            else
              match scopeAddAt s1 0 a with
              | Except.error e => Except.error e
              | Except.ok stack2 => Except.ok ({ p7 with symStack := stack2 }.updSym a setDeclared)
          | none =>
            match scopeAddAt s1 0 a with
            | Except.error e => Except.error e
            | Except.ok stack2 => Except.ok ({ p7 with symStack := stack2 }.updSym a setDeclared)) =
        Except.ok p9) (hPx : ¬ P x.name) :
    p9.current = p7.current ∧ p9.lookAhead = p7.lookAhead ∧ p9.scanner = p7.scanner ∧
      StackRel P p7.symStack p9.symStack ∧
      p9.symStack.scopes.length = p7.symStack.scopes.length ∧
      (GlobalOK p7.symStack → p7.symStack.scopes.length = 1 → Dollar x.name →
        x.numOfParams = k → ¬ Good x.name k p7.symStack ∧ Good x.name k p9.symStack) := by
  subst hs1 ha
  have hname : (symAt (allocSymbol p7.symStack x).2.mem (allocSymbol p7.symStack x).1).name =
      x.name := by
    show (symAt (p7.symStack.mem ++ [x]) p7.symStack.mem.length).name = _
    rw [symAt_append_self]
  rw [hname] at h
  have hnot : GlobalOK p7.symStack → p7.symStack.scopes.length = 1 →
      Good x.name k p7.symStack →
      ∃ f, symTableStackFindSymbol (allocSymbol p7.symStack x).2 x.name = some f ∧
        (symAt (allocSymbol p7.symStack x).2.mem f).numOfParams = k ∧
        (symAt (allocSymbol p7.symStack x).2.mem f).declared = true := by
    rintro hg hlen ⟨c, hf, hd, hn⟩
    obtain ⟨h1, h2, h3⟩ := globalFind_alloc _ x _ _ hg hf
    exact ⟨c, by rw [find_single _ _ (by exact hlen)]; exact h1, by rw [h3, hn],
      by rw [h2, hd]⟩
  have haddcase : ∀ stack2,
      scopeAddAt (allocSymbol p7.symStack x).2 0 (allocSymbol p7.symStack x).1 =
        Except.ok stack2 →
      p9 = { p7 with symStack := stack2 }.updSym (allocSymbol p7.symStack x).1 setDeclared →
      StackRel P p7.symStack p9.symStack ∧
        p9.symStack.scopes.length = p7.symStack.scopes.length ∧
        (GlobalOK p7.symStack → Dollar x.name → Good x.name x.numOfParams p9.symStack) := by
    intro stack2 hadd h9
    subst h9
    exact declare_add P _ _ x hPx hadd
  split at h
  · rename_i f hfound
    split at h
    · cases h
    · rename_i hnotredef
      split at h
      · rename_i hundecl
        cases h
        refine ⟨rfl, rfl, rfl, ?_, rfl, ?_⟩
        · exact stackRel_trans P _ _ _ (stackRel_mem P _ _ (memKeep_append P _ x))
            (stackRel_mem P (allocSymbol p7.symStack x).2 _ (memKeep_declare P _ _))
        · intro hg hlen hdollar hk
          exfalso
          have hg1 : GlobalOK (allocSymbol p7.symStack x).2 :=
            ((stackRel_mem P _ _ (memKeep_append P _ x)).2 hg).1
          obtain ⟨g, rest, hs, hok, hdecl⟩ := hg1
          rw [find_single _ _ (by exact hlen)] at hfound
          have hfa : scopeFindSymbol (allocSymbol p7.symStack x).2.mem g x.name = some f := by
            simpa [globalFind, hs] using hfound
          obtain ⟨hin, hn⟩ := scopeFindSymbol_some _ _ _ _ hfa
          have := hdecl f hin (by rw [hn]; exact hdollar)
          rw [this] at hundecl
          simp at hundecl
      · split at h
        · cases h
        · rename_i stack2 hadd
          obtain ⟨h1, h2, h3⟩ := haddcase stack2 hadd (Except.ok.inj h).symm
          cases h
          refine ⟨rfl, rfl, rfl, h1, h2, fun hg hlen hdollar hk => ⟨fun hgood => ?_, ?_⟩⟩
          · obtain ⟨f2, hf2, hn2, hd2⟩ := hnot hg hlen hgood
            rw [hfound] at hf2
            cases hf2
            exact hnotredef ⟨hn2, hd2⟩
          · rw [← hk]; exact h3 hg hdollar
  · rename_i hfound
    split at h
    · cases h
    · rename_i stack2 hadd
      obtain ⟨h1, h2, h3⟩ := haddcase stack2 hadd (Except.ok.inj h).symm
      cases h
      refine ⟨rfl, rfl, rfl, h1, h2, fun hg hlen hdollar hk => ⟨fun hgood => ?_, ?_⟩⟩
      · obtain ⟨f2, hf2, _, _⟩ := hnot hg hlen hgood
        rw [hfound] at hf2
        cases hf2
      · rw [← hk]; exact h3 hg hdollar

/-- The loop of `parseFunDec` that installs the parameters. -/
theorem installParams_spec (top : Nat) :
    ∀ (items : List AstNode) (p q : Parser),
      installParams top items p = Except.ok q → ParamItems items → PStep p q := by
  intro items
  induction items with
  | nil => intro p q h _; simp only [installParams] at h; cases h; exact pstep_refl _
  | cons item rest ih =>
    intro p q h hitems
    unfold installParams at h
    replace h := bind_ok _ _ _ h
    obtain ⟨name, hname, h⟩ := h
    dsimp only at h
    obtain ⟨hclean, htype, _⟩ := hitems item (List.mem_cons_self _ _)
    have hid := tokenString_clean _ _ hclean (Or.inl htype) hname
    split at h
    · cases h
    · split at h
      · cases h
      · obtain ⟨x, hadd, h⟩ := bind_ok _ _ _ h
        obtain ⟨a, stack1⟩ := x
        dsimp only at h
        have hrest := ih _ _ h (fun i hi => hitems i (List.mem_cons_of_mem _ hi))
        exact pstep_trans _ _ _ (pstep_symStack p stack1
          (stackRel_addSymbolAt Dollar _ _ _ _ _
            (not_dollar_var name _ _ _ (Or.inr rfl) hid) (fun _ hx => hx) hadd)) hrest

/-- The names of getters and setters have no `$`. -/
theorem not_dollar_accessor (name : String) (t : ExprType) (n : Nat) (hid : identChars name) :
    ¬ Dollar (symbolCreate name t SymbolKind.SYM_GET n).name ∧
    ¬ Dollar (symbolCreate name t SymbolKind.SYM_SET n).name := by
  have h := not_dollar_of_identChars _ hid
  unfold Dollar at *
  constructor <;>
    simp [symbolCreate, symbolGetUniqueName, String.data_append, h]

/-- The name of a function made by `symbolCreate`. -/
theorem name_fun (name : String) (t : ExprType) (n : Nat) :
    (symbolCreate name t SymbolKind.SYM_FUNC n).name = keyName (name, n) ∧
    Dollar (symbolCreate name t SymbolKind.SYM_FUNC n).name := by
  unfold Dollar
  simp [symbolCreate, symbolGetUniqueName, keyName, String.data_append]

/-- The items of a list of parameters are free of function nodes. -/
theorem paramItems_free (items : List AstNode) (hi : ParamItems items) :
    funFreeList items = true := by
  induction items with
  | nil => rfl
  | cons i rest ih =>
    rw [funFreeList_cons]
    exact ⟨(hi i (List.mem_cons_self _ _)).2.2,
      ih (fun j hj => hi j (List.mem_cons_of_mem _ hj))⟩

/-- The function `parseFunDec`: the tokens stay clean, the number of scopes is kept, the
node has the shape of a declaration; for a getter or a setter the scope stack is kept,
and for a function it is kept for the other names, and from one scope in the kept state
the function was not declared with this number of parameters before and is so
afterwards. -/
theorem parseFunDec_spec (fuel : Nat) (p q : Parser) (n : AstNode)
    (h : parseFunDec fuel p = Except.ok (n, q)) (ht : TokOK p) :
    TokOK q ∧ q.symStack.scopes.length = p.symStack.scopes.length ∧ DecNode n ∧
      (funKey n = none → StackRel Dollar p.symStack q.symStack) ∧
      (∀ key, funKey n = some key →
        StackRel (fun X => Dollar X ∧ X ≠ keyName key) p.symStack q.symStack ∧
        (GlobalOK p.symStack → p.symStack.scopes.length = 1 →
          ¬ Good (keyName key) key.2 p.symStack ∧ Good (keyName key) key.2 q.symStack)) := by
  unfold parseFunDec at h
  replace h := bind_ok _ _ _ h
  obtain ⟨p1, hp1, h⟩ := h
  replace h := bind_ok _ _ _ h
  obtain ⟨p2, hp2, h⟩ := h
  obtain ⟨e2, _⟩ := parserValidate_eq _ _ _ hp2
  subst e2
  replace h := bind_ok _ _ _ h
  obtain ⟨p3, hp3, h⟩ := h
  replace h := bind_ok _ _ _ h
  obtain ⟨p4, hp4, h⟩ := h
  obtain ⟨e4, ht4⟩ := parserValidate_eq _ _ _ hp4
  subst e4
  have h14 : PStep p p4 :=
    pstep_trans _ _ _ (parserAdvance_step _ _ hp1) (parserAdvance_step _ _ hp3)
  cases hc : astCreateNode p4 AstNodeType.AST_FUN_DEC with
  | mk funNode0 p5 =>
    rw [hc] at h
    dsimp only at h
    obtain ⟨hs5, _, _⟩ := astCreateNode_spec _ _ _ _ hc
    replace h := bind_ok _ _ _ h
    obtain ⟨p6, hp6, h⟩ := h
    have h16 : PStep p p6 :=
      pstep_trans _ _ _ h14 (pstep_trans _ _ _ hs5 (parserLookAhead_step _ _ hp6))
    replace h := bind_ok _ _ _ h
    obtain ⟨x, hx, h⟩ := h
    obtain ⟨type, left, p7⟩ := x
    dsimp only at h
    replace h := bind_ok _ _ _ h
    obtain ⟨paramsCount, hcount, h⟩ := h
    replace h := bind_ok _ _ _ h
    obtain ⟨name, hname, h⟩ := h
    replace h := bind_ok _ _ _ h
    obtain ⟨p9, hp9, h⟩ := h
    replace h := bind_ok _ _ _ h
    obtain ⟨paramItems, hitems, h⟩ := h
    replace h := bind_ok _ _ _ h
    obtain ⟨p11, hp11, h⟩ := h
    replace h := bind_ok _ _ _ h
    obtain ⟨y, hblock, h⟩ := h
    obtain ⟨body, p12⟩ := y
    dsimp only at h
    have hid : identChars name := tokenString_clean _ _ (h14 ht).1.1 (Or.inl ht4) hname
    -- the parameters
    have hleft : PStep p6 p7 ∧
        ((type = AstNodeType.AST_FUN_DEC ∧ ∃ params, left = some params ∧ ParamsNode params) ∨
         (type = AstNodeType.AST_FUN_SET ∧ ∃ params, left = some params ∧ ParamsNode params) ∨
         (type = AstNodeType.AST_FUN_GET ∧ left = none)) := by
      split at hx
      · split at hx
        · cases hx
        · rename_i params q0 hpar
          cases hx
          obtain ⟨hs, hn⟩ := parseParams_spec _ _ _ _ hpar
          exact ⟨hs, Or.inl ⟨rfl, params, rfl, hn (h16 ht).1⟩⟩
      · split at hx
        · obtain ⟨q1, hq1, hx⟩ := bind_ok _ _ _ hx
          obtain ⟨z, hpar, hx⟩ := bind_ok _ _ _ hx
          obtain ⟨params, q2⟩ := z
          dsimp only at hx
          obtain ⟨c, _, hx⟩ := bind_ok _ _ _ hx
          split at hx
          · cases hx
          · cases hx
            obtain ⟨hs, hn⟩ := parseParams_spec _ _ _ _ hpar
            have hs1 := parserAdvance_step _ _ hq1
            exact ⟨pstep_trans _ _ _ hs1 hs,
              Or.inr (Or.inl ⟨rfl, params, rfl, hn (hs1 (h16 ht).1).1⟩)⟩
        · split at hx
          · cases hx
            exact ⟨pstep_refl _, Or.inr (Or.inr ⟨rfl, rfl⟩)⟩
          · cases hx
    obtain ⟨hs7, hkind⟩ := hleft
    have h17 : PStep p p7 := pstep_trans _ _ _ h16 hs7
    obtain ⟨ht7, hrel7, hlen7⟩ := h17 ht
    -- the symbol of the function
    have hdecl := fun P => declare_spec P p7 p9 _ paramsCount _ rfl _ rfl hp9
    obtain ⟨hcur9, hla9, hsc9, _, hlen9, _⟩ := hdecl (fun _ => False) (fun hf => hf)
    have ht9 : TokOK p9 := by
      unfold TokOK
      rw [hcur9, hla9, hsc9]
      exact ht7
    -- the parameters in the scope of the function and the body
    have hpitems : ParamItems paramItems := by
      rcases hkind with ⟨_, params, hl, hpn⟩ | ⟨_, params, hl, hpn⟩ | ⟨_, hl⟩
      · subst hl
        obtain ⟨_, _, items, hp, hi⟩ := hpn
        subst hp
        cases hitems
        exact hi
      · subst hl
        obtain ⟨_, _, items, hp, hi⟩ := hpn
        subst hp
        cases hitems
        exact hi
      · subst hl
        cases hitems
        exact fun _ hi => by cases hi
    have hs11 := installParams_spec _ _ _ _ hp11 hpitems
    obtain ⟨hs12, hfbody⟩ := parseBlock_spec _ _ _ _ _ hblock
    have hs9q := pstep_scope p9 p12 (pstep_trans _ _ _ hs11 hs12)
    cases h
    obtain ⟨htq, hrelq, hlenq⟩ := hs9q ht9
    have hfleft : funFreeOpt left = true := by
      rcases hkind with ⟨_, params, hl, hpn⟩ | ⟨_, params, hl, hpn⟩ | ⟨_, hl⟩
      · subst hl
        obtain ⟨_, _, items, hp, hi⟩ := hpn
        subst hp
        have := paramItems_free items hi
        simp [funFreeOpt, funFree, isFunType, this]
      · subst hl
        obtain ⟨_, _, items, hp, hi⟩ := hpn
        subst hp
        have := paramItems_free items hi
        simp [funFreeOpt, funFree, isFunType, this]
      · subst hl; rfl
    refine ⟨htq, hlenq.trans (hlen9.trans hlen7), ?_⟩
    rcases hkind with ⟨hty, params, hl, hpn⟩ | ⟨hty, params, hl, hpn⟩ | ⟨hty, hl⟩
    · -- a function
      subst hty hl
      obtain ⟨pid, ptok, items, hp, hi⟩ := hpn
      subst hp
      have hpc : paramsCount = items.length := by
        simp only [childCount] at hcount
        exact (Except.ok.inj hcount).symm
      subst hpc
      have hkey : funKey (AstNode.bin funNode0.id AstNodeType.AST_FUN_DEC p4.current
          (some (AstNode.list pid AstNodeType.AST_PARAMS ptok items)) (some body)) =
          some (name, items.length) := by
        simp only [funKey, hname]
      obtain ⟨hxn, hxd⟩ := name_fun name TYPE_NULL items.length
      obtain ⟨_, _, _, hrel9, _, hgood9⟩ :=
        hdecl (fun X => Dollar X ∧ X ≠ keyName (name, items.length))
          (fun hf => hf.2 hxn)
      refine ⟨⟨_, _, _, _, _, _, rfl, hfbody, hfleft, hname, hid, Or.inl ⟨rfl, _, _, _, _, rfl⟩⟩,
        ?_, ?_⟩
      · intro hnone
        rw [hkey] at hnone
        cases hnone
      · intro key hk
        rw [hkey] at hk
        cases hk
        have hmono : ∀ s s2, StackRel Dollar s s2 →
            StackRel (fun X => Dollar X ∧ X ≠ keyName (name, items.length)) s s2 :=
          fun s s2 hr => stackRel_mono _ _ _ _ (fun _ hX => hX.1) hr
        refine ⟨stackRel_trans _ _ _ _ (hmono _ _ hrel7)
          (stackRel_trans _ _ _ _ hrel9 (hmono _ _ hrelq)), fun hg hlen => ?_⟩
        have hg7 : GlobalOK p7.symStack := (hrel7.2 hg).1
        have hg9 : GlobalOK p9.symStack := (hrel9.2 hg7).1
        obtain ⟨hno, hyes⟩ := hgood9 hg7 (by rw [hlen7, hlen]) hxd rfl
        replace hno : ¬ Good (keyName (name, items.length)) items.length p7.symStack := by
          rw [← hxn]; exact hno
        replace hyes : Good (keyName (name, items.length)) items.length p9.symStack := by
          rw [← hxn]; exact hyes
        refine ⟨fun hgood => hno ?_, ?_⟩
        · exact good_of_stackRel Dollar _ _ _ _ (by rw [← hxn]; exact hxd) hg hrel7 hgood
        · exact good_of_stackRel Dollar _ _ _ _ (by rw [← hxn]; exact hxd) hg9 hrelq hyes
    · -- a setter
      subst hty hl
      have hrel9 := (hdecl Dollar (not_dollar_accessor name _ _ hid).2).2.2.2.1
      have hkey : funKey (AstNode.bin funNode0.id AstNodeType.AST_FUN_SET p4.current
          (some params) (some body)) = none := by
        simp only [funKey]
      refine ⟨⟨_, _, _, _, _, _, rfl, hfbody, hfleft, hname, hid, Or.inr (Or.inr rfl)⟩, ?_, ?_⟩
      · intro _
        exact stackRel_trans _ _ _ _ hrel7 (stackRel_trans _ _ _ _ hrel9 hrelq)
      · intro key hk
        rw [hkey] at hk
        cases hk
    · -- a getter
      subst hty hl
      have hrel9 := (hdecl Dollar (not_dollar_accessor name _ _ hid).1).2.2.2.1
      have hkey : funKey (AstNode.bin funNode0.id AstNodeType.AST_FUN_GET p4.current
          none (some body)) = none := by
        simp only [funKey]
      refine ⟨⟨_, _, _, _, _, _, rfl, hfbody, hfleft, hname, hid, Or.inr (Or.inl rfl)⟩, ?_, ?_⟩
      · intro _
        exact stackRel_trans _ _ _ _ hrel7 (stackRel_trans _ _ _ _ hrel9 hrelq)
      · intro key hk
        rw [hkey] at hk
        cases hk

/-- The value of a decimal digit. -/
theorem digitChar_value (n : Nat) (h : n < 10) : (Nat.digitChar n).toNat - 48 = n := by
  interval_cases n <;> rfl

/-- The digits written by `Nat.toDigitsCore` read back as the number. -/
theorem digitsValue_toDigitsCore (fuel : Nat) :
    ∀ (n : Nat) (ds : List Char), n < fuel →
      digitsValue 0 (Nat.toDigitsCore 10 fuel n ds) = digitsValue n ds := by
  induction fuel with
  | zero => intro n ds h; omega
  | succ fuel ih =>
    intro n ds h
    unfold Nat.toDigitsCore
    simp only
    have hd : digitsValue (n / 10) (Nat.digitChar (n % 10) :: ds) = digitsValue n ds := by
      unfold digitsValue
      simp only [List.foldl_cons]
      rw [digitChar_value _ (Nat.mod_lt _ (by decide))]
      congr 1
      omega
    split
    · rename_i h0
      rw [← hd, h0]
    · rename_i h0
      rw [ih _ _ (by omega), hd]

/-- The decimal text of a number reads back as the number. -/
theorem digitsValue_toString (n : Nat) : digitsValue 0 (toString n).data = n := by
  show digitsValue 0 (Nat.repr n).data = n
  unfold Nat.repr Nat.toDigits
  show digitsValue 0 (Nat.toDigitsCore 10 (n + 1) n []) = n
  rw [digitsValue_toDigitsCore _ _ _ (by omega)]
  rfl

/-- Two numbers with the same decimal text are the same. -/
theorem toString_nat_inj (m n : Nat) (h : toString m = toString n) : m = n := by
  rw [← digitsValue_toString m, ← digitsValue_toString n, h]

/-- The name `name$k` of a function gives back the name and the number of parameters,
for names without `$`. -/
theorem keyName_inj (a b : String × Nat) (ha : identChars a.1) (hb : identChars b.1)
    (h : keyName a = keyName b) : a = b := by
  obtain ⟨an, ak⟩ := a
  obtain ⟨bn, bk⟩ := b
  have hda : '$' ∉ an.data := not_dollar_of_identChars _ ha
  have hdb : '$' ∉ bn.data := not_dollar_of_identChars _ hb
  have hdata : an.data ++ '$' :: (toString ak).data = bn.data ++ '$' :: (toString bk).data := by
    have := congrArg String.data h
    simpa [keyName, String.data_append] using this
  have h1 := congrArg (List.takeWhile (fun c => c != '$')) hdata
  rw [takeWhile_dollar _ _ hda, takeWhile_dollar _ _ hdb] at h1
  have h2 := congrArg (List.dropWhile (fun c => c != '$')) hdata
  rw [dropWhile_dollar _ _ hda, dropWhile_dollar _ _ hdb] at h2
  have h3 : (toString ak).data = (toString bk).data := by
    simpa using h2
  have h4 : toString ak = toString bk := String.ext h3
  have h5 : an = bn := String.ext h1
  rw [h5, toString_nat_inj _ _ h4]

/-- The name `name$k` has a `$`. -/
theorem dollar_keyName (a : String × Nat) : Dollar (keyName a) := by
  unfold Dollar keyName
  simp [String.data_append]

/-- The name of the function that a declaration declares is made of identifier
characters. -/
theorem decNode_key (n : AstNode) (h : DecNode n) (key : String × Nat)
    (hkey : funKey n = some key) : identChars key.1 := by
  obtain ⟨id, type, tok, left, body, name, hn, _, _, hname, hid, hcase⟩ := h
  subst hn
  rcases hcase with ⟨hty, pid, ptype, ptok, items, hl⟩ | hty | hty
  · subst hty hl
    simp only [funKey, hname, Option.some.injEq] at hkey
    rw [← hkey]
    exact hid
  · subst hty
    simp only [funKey] at hkey
    cases hkey
  · subst hty
    simp only [funKey] at hkey
    cases hkey

/-- The name of a function of a list of declarations is made of identifier
characters. -/
theorem decList_ident (items : List AstNode) (h : ∀ n ∈ items, DecNode n)
    (key : String × Nat) (hk : key ∈ items.filterMap funKey) : identChars key.1 := by
  obtain ⟨n, hn, hkey⟩ := List.mem_filterMap.mp hk
  exact decNode_key n (h n hn) key hkey

/-- The `while` of `parseClassDec`. -/
theorem parseClassDecLoop_spec :
    ∀ (fuel : Nat) (p q : Parser) (acc items : List AstNode),
      parseClassDecLoop fuel p acc = Except.ok (items, q) →
      TokOK p → GlobalOK p.symStack → p.symStack.scopes.length = 1 →
      DecList acc → AllGood acc p.symStack →
      TokOK q ∧ GlobalOK q.symStack ∧ q.symStack.scopes.length = 1 ∧
        DecList items ∧ AllGood items q.symStack := by
  intro fuel
  induction fuel with
  | zero => intro p q acc items h; simp [parseClassDecLoop] at h
  | succ fuel ih =>
    intro p q acc items h ht hg hlen hacc hgood
    unfold parseClassDecLoop at h
    split at h
    · obtain ⟨x, hdec, h⟩ := bind_ok _ _ _ h
      obtain ⟨node, p1⟩ := x
      dsimp only at h
      replace h := bind_ok _ _ _ h
      obtain ⟨p2, hp2, h⟩ := h
      obtain ⟨ht1, hlen1, hnode, hnone, hsome⟩ := parseFunDec_spec _ _ _ _ hdec ht
      obtain ⟨ht2, hrel2, hlen2⟩ := parserLookAhead_step _ _ hp2 ht1
      have hdecs : ∀ n ∈ acc ++ [node], DecNode n := by
        intro n hn
        rcases List.mem_append.mp hn with hn | hn
        · exact hacc.1 n hn
        · rw [List.mem_singleton] at hn
          rw [hn]; exact hnode
      have hfm : (acc ++ [node]).filterMap funKey =
          acc.filterMap funKey ++ (funKey node).toList := by
        rw [List.filterMap_append]
        cases hk : funKey node <;> simp [List.filterMap, hk]
      have hstep : GlobalOK p1.symStack ∧ DecList (acc ++ [node]) ∧
          AllGood (acc ++ [node]) p1.symStack := by
        cases hkey : funKey node with
        | none =>
          have hrel := hnone hkey
          refine ⟨(hrel.2 hg).1, ⟨hdecs, ?_⟩, ?_⟩
          · rw [hfm, hkey]; simpa using hacc.2
          · intro key hk
            rw [hfm, hkey] at hk
            simp only [Option.toList, List.append_nil] at hk
            exact good_of_stackRel Dollar _ _ _ _ (dollar_keyName _) hg hrel (hgood key hk)
        | some key =>
          obtain ⟨hrel, hgd⟩ := hsome key hkey
          obtain ⟨hno, hyes⟩ := hgd hg hlen
          have hid : identChars key.1 :=
            decList_ident (acc ++ [node]) hdecs key (by rw [hfm, hkey]; simp)
          have hnew : key ∉ acc.filterMap funKey := fun hin => hno (hgood key hin)
          refine ⟨(hrel.2 hg).1, ⟨hdecs, ?_⟩, ?_⟩
          · rw [hfm, hkey]
            simp only [Option.toList]
            exact List.nodup_append.mpr ⟨hacc.2, List.nodup_singleton _, by
              intro a ha hb
              rw [List.mem_singleton] at hb
              exact hnew (hb ▸ ha)⟩
          · intro key2 hk
            rw [hfm, hkey] at hk
            simp only [Option.toList, List.mem_append, List.mem_singleton] at hk
            rcases hk with hk | hk
            · have hne : keyName key2 ≠ keyName key := by
                intro he
                have := keyName_inj _ _ (decList_ident acc hacc.1 key2 hk) hid he
                exact hnew (this ▸ hk)
              exact good_of_stackRel _ _ _ _ _ ⟨dollar_keyName _, hne⟩ hg hrel (hgood key2 hk)
            · rw [hk]; exact hyes
      obtain ⟨hg1, hdl, hag⟩ := hstep
      have hg2 : GlobalOK p2.symStack := (hrel2.2 hg1).1
      exact ih _ _ _ _ h ht2 hg2 (by rw [hlen2, hlen1, hlen]) hdl
        (fun key hk => good_of_stackRel Dollar _ _ _ _ (dollar_keyName _) hg1 hrel2 (hag key hk))
    · cases h
      exact ⟨ht, hg, hlen, hacc, hgood⟩

/-- The function `parseClassDec`. -/
theorem parseClassDec_spec (fuel : Nat) (p q : Parser) (n : AstNode)
    (h : parseClassDec fuel p = Except.ok (n, q))
    (ht : TokOK p) (hg : GlobalOK p.symStack) (hlen : p.symStack.scopes.length = 1) :
    ∃ id tok items, n = AstNode.list id AstNodeType.AST_CLASS_DEC tok items ∧
      DecList items := by
  unfold parseClassDec at h
  replace h := bind_ok _ _ _ h
  obtain ⟨p1, hp1, h⟩ := h
  cases hc : astCreateNode p1 AstNodeType.AST_CLASS_DEC with
  | mk classNode p2 =>
    rw [hc] at h
    dsimp only at h
    obtain ⟨hs2, _, _⟩ := astCreateNode_spec _ _ _ _ hc
    replace h := bind_ok _ _ _ h
    obtain ⟨p3, hp3, h⟩ := h
    replace h := bind_ok _ _ _ h
    obtain ⟨p4, hp4, h⟩ := h
    replace h := bind_ok _ _ _ h
    obtain ⟨x, hloop, h⟩ := h
    obtain ⟨items, p5⟩ := x
    dsimp only at h
    replace h := bind_ok _ _ _ h
    obtain ⟨p6, hp6, h⟩ := h
    replace h := bind_ok _ _ _ h
    obtain ⟨p7, hp7, h⟩ := h
    cases h
    have h14 : PStep p p4 := pstep_trans _ _ _ (parserValidateSequence_step _ _ _ hp1)
      (pstep_trans _ _ _ hs2 (pstep_trans _ _ _ (parserValidateSequence_step _ _ _ hp3)
      (parserLookAhead_step _ _ hp4)))
    obtain ⟨ht4, hrel4, hlen4⟩ := h14 ht
    obtain ⟨_, _, _, hdl, _⟩ := parseClassDecLoop_spec _ _ _ _ _ hloop ht4 (hrel4.2 hg).1
      (by rw [hlen4, hlen]) ⟨fun _ hn => (nomatch hn), List.nodup_nil⟩
      (fun _ hk => nomatch hk)
    exact ⟨_, _, _, rfl, hdl⟩

/-- The function `parserAdvance` leaves the root. -/
theorem parserAdvance_root (p q : Parser) (h : parserAdvance p = Except.ok q) :
    q.root = p.root := by
  unfold parserAdvance at h
  split at h
  split at h
  · cases h
  · split at h
    · cases h
    · cases h; rfl

/-- The function `parserLookAhead` leaves the root. -/
theorem parserLookAhead_root (p q : Parser) (h : parserLookAhead p = Except.ok q) :
    q.root = p.root := by
  unfold parserLookAhead at h
  split at h
  split at h
  · cases h
  · split at h
    · cases h
    · cases h; rfl

/-- The function `parseProgram`: the root is the node of the class. -/
theorem parseProgram_spec (fuel : Nat) (p q : Parser)
    (h : parseProgram fuel p = Except.ok q)
    (ht : TokOK p) (hg : GlobalOK p.symStack) (hlen : p.symStack.scopes.length = 1) :
    ∃ id tok items, q.root = some (AstNode.list id AstNodeType.AST_CLASS_DEC tok items) ∧
      DecList items := by
  unfold parseProgram at h
  replace h := bind_ok _ _ _ h
  obtain ⟨x, hclass, h⟩ := h
  obtain ⟨root, p1⟩ := x
  dsimp only at h
  replace h := bind_ok _ _ _ h
  obtain ⟨p3, hp3, h⟩ := h
  replace h := bind_ok _ _ _ h
  obtain ⟨p4, hp4, h⟩ := h
  replace h := bind_ok _ _ _ h
  obtain ⟨p5, hp5, h⟩ := h
  replace h := bind_ok _ _ _ h
  obtain ⟨p6, hp6, h⟩ := h
  obtain ⟨e6, _⟩ := parserValidate_eq _ _ _ hp6
  subst e6
  obtain ⟨id, tok, items, hroot, hdl⟩ := parseClassDec_spec _ _ _ _ hclass ht hg hlen
  have h4 : p4.root = p3.root := by
    split at hp4
    · exact parserAdvance_root _ _ hp4
    · cases hp4; rfl
  have hr : p6.root = some root := by
    rw [parserAdvance_root _ _ hp5, h4, parserLookAhead_root _ _ hp3]
  split at h
  · cases h
  · cases h
    exact ⟨id, tok, items, by rw [hr, hroot], hdl⟩

/-- An assignment to the symbol just allocated. -/
theorem memUpdate_append_self (mem : List Symbol) (x : Symbol) (f : Symbol → Symbol) :
    memUpdate (mem ++ [x]) mem.length f = mem ++ [f x] := by
  unfold memUpdate
  apply List.ext_getElem?
  intro i
  rw [List.getElem?_modify]
  by_cases hi : i < mem.length
  · rw [List.getElem?_append_left hi, List.getElem?_append_left hi]
    simp [Nat.ne_of_gt hi]
  · by_cases h2 : i = mem.length
    · subst h2
      simp
    · have h3 : mem.length + 1 ≤ i := by omega
      rw [List.getElem?_eq_none (by simp; omega), List.getElem?_eq_none (by simp; omega)]
      simp

/-- A declared symbol allocated and added to the global scope keeps the scope stack. -/
theorem stackRel_addDeclared (s s2 : SymTableStack) (x : Symbol) (hx : x.declared = true)
    (hadd : scopeAddAt (allocSymbol s x).2 0 (allocSymbol s x).1 = Except.ok s2) :
    StackRel (fun _ => False) s s2 ∧ s2.scopes.length = s.scopes.length := by
  unfold scopeAddAt allocSymbol at hadd
  simp only [List.get?_eq_getElem?] at hadd
  cases hget : s.scopes[0]? with
  | none => simp [hget] at hadd
  | some scope =>
    simp only [hget] at hadd
    cases hadd2 : scopeAddSymbol scope s.mem.length (s.mem ++ [x]) with
    | error e => simp [hadd2] at hadd
    | ok r =>
      obtain ⟨code, scope1, mem1⟩ := r
      simp only [hadd2, Except.ok.injEq] at hadd
      subst hadd
      have hk1 : MemKeep (fun _ => False) (s.mem ++ [x]) mem1 :=
        memKeep_scopeAddSymbol _ _ _ _ _ _ _ (fun hf => hf) hadd2
      have hk : MemKeep (fun _ => False) s.mem mem1 :=
        memKeep_trans _ _ _ _ (memKeep_append _ s.mem x) hk1
      refine ⟨stackRel_intro _ s _ hk (fun g rest hs hok => ?_), by simp⟩
      have hg : scope = g := by
        simp only [hs, List.getElem?_cons_zero, Option.some.injEq] at hget
        exact hget.symm
      subst hg
      have hok1 : TableOK (s.mem ++ [x]) scope :=
        tableOK_mem s.mem _ scope hok (by simp) (fun b hb => by rw [symAt_append _ _ _ hb])
      obtain ⟨hok2, hcase⟩ := scopeAddSymbol_ok _ _ _ _ _ _ hok1 (by simp) hadd2
      refine ⟨scope1, rest, by simp [hs], hok2, ?_, ?_⟩
      · intro b hb
        rcases hcase with ⟨_, _, hm⟩ | ⟨_, _, _, _, hm⟩
        · exact (hm b).mpr (Or.inr hb)
        · exact (hm b).mpr hb
      · intro b hb
        rcases hcase with ⟨_, hmem, hm⟩ | ⟨_, _, _, _, hm⟩
        · rcases (hm b).mp hb with h1 | h1
          · right; right
            subst h1
            show (symAt mem1 s.mem.length).declared = true
            rw [hmem, symAt_append_self]
            exact hx
          · exact Or.inl h1
        · exact Or.inl ((hm b).mp hb)

/-- One built-in of `loadIFJBuiltins` keeps the state of the global scope. -/
theorem loadBuiltin_ok (s s2 : SymTableStack) (name : String) (type : ExprType) (n : Nat)
    (pts : List ExprType) (h : loadBuiltin s name type n pts = Except.ok s2)
    (hg : GlobalOK s) : GlobalOK s2 ∧ s2.scopes.length = s.scopes.length := by
  unfold loadBuiltin at h
  dsimp only at h
  have e : ({ (allocSymbol s (symbolCreate name type SymbolKind.SYM_FUNC n)).2 with
      mem := memUpdate (allocSymbol s (symbolCreate name type SymbolKind.SYM_FUNC n)).2.mem
        (allocSymbol s (symbolCreate name type SymbolKind.SYM_FUNC n)).1 setDeclared } :
        SymTableStack) =
      (allocSymbol s (setDeclared (symbolCreate name type SymbolKind.SYM_FUNC n))).2 := by
    show ({ s with mem := memUpdate (s.mem ++ [_]) s.mem.length setDeclared } : SymTableStack) = _
    rw [memUpdate_append_self]
    rfl
  split at h
  · cases h
  · rename_i stack1 hadd
    cases h
    have hadd2 : scopeAddAt
        (allocSymbol s (setDeclared (symbolCreate name type SymbolKind.SYM_FUNC n))).2 0
        (allocSymbol s (setDeclared (symbolCreate name type SymbolKind.SYM_FUNC n))).1 =
        Except.ok stack1 := by
      rw [← e]; exact hadd
    obtain ⟨hrel, hlen⟩ := stackRel_addDeclared _ _ _ rfl hadd2
    have hrel2 := stackRel_trans _ _ _ _ hrel
      (stackRel_mem (fun _ => False) stack1 _ (memKeep_update _ stack1.mem
        (allocSymbol s (symbolCreate name type SymbolKind.SYM_FUNC n)).1
        (fun sym => { sym with paramTypes := pts }) (fun _ => ⟨rfl, id, rfl⟩)))
    exact ⟨(hrel2.2 hg).1, hlen⟩

/-- The function `loadIFJBuiltins` keeps the state of the global scope. -/
theorem loadIFJBuiltins_ok (s s2 : SymTableStack) (h : loadIFJBuiltins s = Except.ok s2)
    (hg : GlobalOK s) : GlobalOK s2 ∧ s2.scopes.length = s.scopes.length := by
  unfold loadIFJBuiltins at h
  replace h := bind_ok _ _ _ h
  obtain ⟨s1, h1, h⟩ := h
  obtain ⟨g1, l1⟩ := loadBuiltin_ok _ _ _ _ _ _ h1 hg
  replace h := bind_ok _ _ _ h
  obtain ⟨s2, h2, h⟩ := h
  obtain ⟨g2, l2⟩ := loadBuiltin_ok _ _ _ _ _ _ h2 g1
  replace h := bind_ok _ _ _ h
  obtain ⟨s3, h3, h⟩ := h
  obtain ⟨g3, l3⟩ := loadBuiltin_ok _ _ _ _ _ _ h3 g2
  replace h := bind_ok _ _ _ h
  obtain ⟨s5, h5, h⟩ := h
  obtain ⟨g5, l5⟩ := loadBuiltin_ok _ _ _ _ _ _ h5 g3
  replace h := bind_ok _ _ _ h
  obtain ⟨s6, h6, h⟩ := h
  obtain ⟨g6, l6⟩ := loadBuiltin_ok _ _ _ _ _ _ h6 g5
  replace h := bind_ok _ _ _ h
  obtain ⟨s7, h7, h⟩ := h
  obtain ⟨g7, l7⟩ := loadBuiltin_ok _ _ _ _ _ _ h7 g6
  replace h := bind_ok _ _ _ h
  obtain ⟨s8, h8, h⟩ := h
  obtain ⟨g8, l8⟩ := loadBuiltin_ok _ _ _ _ _ _ h8 g7
  replace h := bind_ok _ _ _ h
  obtain ⟨s9, h9, h⟩ := h
  obtain ⟨g9, l9⟩ := loadBuiltin_ok _ _ _ _ _ _ h9 g8
  replace h := bind_ok _ _ _ h
  obtain ⟨s10, h10, h⟩ := h
  obtain ⟨g10, l10⟩ := loadBuiltin_ok _ _ _ _ _ _ h10 g9
  obtain ⟨g11, l11⟩ := loadBuiltin_ok _ _ _ _ _ _ h g10
  exact ⟨g11, by omega⟩

/-- The scope stack that `main` makes: one scope, in the kept state. -/
theorem globalOK_init (cap : Nat) :
    GlobalOK (symTableStackPush (symTableStackCreate cap)) ∧
      (symTableStackPush (symTableStackCreate cap)).scopes.length = 1 := by
  refine ⟨⟨scopeCreate 16, [], rfl, tableOK_empty _ 16 (by decide), ?_⟩, rfl⟩
  intro a ha
  exact absurd (List.eq_of_mem_replicate ha) (by simp)

/-- The first loop of `readPrologue` keeps the buffer of the scanner clean. -/
theorem skipLeadingEOL_clean :
    ∀ (fuel : Nat) (sc sc2 : Scanner) (t : Token),
      skipLeadingEOL fuel sc = Except.ok (t, sc2) → TokClean sc.lookAheadToken →
      TokClean sc2.lookAheadToken := by
  intro fuel
  induction fuel with
  | zero => intro sc sc2 t h; simp [skipLeadingEOL] at h
  | succ fuel ih =>
    intro sc sc2 t h hc
    unfold skipLeadingEOL at h
    have hn := (getNextToken_clean sc hc).2
    split at h
    rename_i r token sc1 heq
    rw [heq] at hn
    split at h
    · cases h
    · split at h
      · cases h
      · split at h
        · exact ih _ _ _ h hn
        · cases h; exact hn

/-- One step of `readPrologue` keeps the buffer of the scanner clean. -/
theorem prologueToken_clean (sc sc2 : Scanner) (t : Token)
    (h : prologueToken sc = Except.ok (t, sc2)) (hc : TokClean sc.lookAheadToken) :
    TokClean sc2.lookAheadToken := by
  unfold prologueToken at h
  have hn := (getNextToken_clean sc hc).2
  split at h
  rename_i r token sc1 heq
  rw [heq] at hn
  split at h
  · cases h
  · split at h
    · cases h
    · cases h; exact hn

/-- The function `readPrologue` keeps the buffer of the scanner clean. -/
theorem readPrologue_clean (sc sc2 : Scanner) (h : readPrologue sc = Except.ok sc2)
    (hc : TokClean sc.lookAheadToken) : TokClean sc2.lookAheadToken := by
  unfold readPrologue at h
  replace h := bind_ok _ _ _ h
  obtain ⟨x0, h0, h⟩ := h
  obtain ⟨t0, sc0⟩ := x0
  dsimp only at h
  have c0 := skipLeadingEOL_clean _ _ _ _ h0 hc
  split at h
  · cases h
  replace h := bind_ok _ _ _ h
  obtain ⟨x1, h1, h⟩ := h
  obtain ⟨t1, sc1⟩ := x1
  dsimp only at h
  have c1 := prologueToken_clean _ _ _ h1 c0
  split at h
  · cases h
  split at h
  · cases h
  split at h
  · cases h
  split at h
  · cases h
  replace h := bind_ok _ _ _ h
  obtain ⟨x2, h2, h⟩ := h
  obtain ⟨t2, sc2⟩ := x2
  dsimp only at h
  have c2 := prologueToken_clean _ _ _ h2 c1
  split at h
  · cases h
  replace h := bind_ok _ _ _ h
  obtain ⟨x3, h3, h⟩ := h
  obtain ⟨t3, sc3⟩ := x3
  dsimp only at h
  have c3 := prologueToken_clean _ _ _ h3 c2
  split at h
  · cases h
  replace h := bind_ok _ _ _ h
  obtain ⟨x4, h4, h⟩ := h
  obtain ⟨t4, sc4⟩ := x4
  dsimp only at h
  have c4 := prologueToken_clean _ _ _ h4 c3
  split at h
  · cases h
  · cases h; exact c4

/-- A token of a kind other than the identifiers is clean. -/
theorem tokClean_zero : TokClean Token.zero ∧ TokClean { Token.zero with type := TokenType.NONE } :=
  ⟨tokClean_of_type _ (by decide) (by decide), tokClean_of_type _ (by decide) (by decide)⟩

/-- The tree that the compiler hands to the code generator: the root is the node of a
class whose declarations have the shape that `parseFunDec` gives them, with no two
functions of the same name and number of parameters. -/
theorem analyse_spec (fuel : Nat) (input : List Char) (a : Analysed)
    (h : analyse fuel input = Except.ok a) :
    ∃ id tok items, a.root = some (AstNode.list id AstNodeType.AST_CLASS_DEC tok items) ∧
      DecList items := by
  unfold analyse at h
  dsimp only at h
  replace h := bind_ok _ _ _ h
  obtain ⟨scanner, hsc, h⟩ := h
  replace h := bind_ok _ _ _ h
  obtain ⟨symStack1, hload, h⟩ := h
  replace h := bind_ok _ _ _ h
  obtain ⟨parser, hparse, h⟩ := h
  replace h := bind_ok _ _ _ h
  obtain ⟨x, _, h⟩ := h
  obtain ⟨types, symStack3⟩ := x
  dsimp only at h
  replace h := bind_ok _ _ _ h
  obtain ⟨g, _, h⟩ := h
  replace h := bind_ok _ _ _ h
  obtain ⟨u, _, h⟩ := h
  cases h
  obtain ⟨hg0, hl0⟩ := globalOK_init INITIAL_CAPACITY_STACK
  obtain ⟨hg1, hl1⟩ := loadIFJBuiltins_ok _ _ hload hg0
  have hclean := readPrologue_clean _ _ hsc tokClean_zero.1
  exact parseProgram_spec _ _ _ hparse ⟨tokClean_zero.2, tokClean_zero.2, hclean⟩ hg1
    (hl1.trans hl0)

/-- No line, so no line that opens a function. -/
theorem noFun_nil : NoFun [] := fun _ h => nomatch h

/-- Two lists of lines joined open no function when neither does. -/
theorem noFun_append (a b : List String) : NoFun (a ++ b) ↔ NoFun a ∧ NoFun b := by
  unfold NoFun
  simp only [List.mem_append]
  constructor
  · intro h; exact ⟨fun l hl => h l (Or.inl hl), fun l hl => h l (Or.inr hl)⟩
  · rintro ⟨h1, h2⟩ l (hl | hl)
    · exact h1 l hl
    · exact h2 l hl

/-- A line followed by a list opens no function when neither does. -/
theorem noFun_cons (a : String) (b : List String) :
    NoFun (a :: b) ↔ funLabel a = false ∧ NoFun b := by
  unfold NoFun
  simp only [List.mem_cons, forall_eq_or_imp]

/-- A list of lines that is one of two lists. -/
theorem noFun_ite (c : Prop) [Decidable c] (a b : List String) (ha : NoFun a) (hb : NoFun b) :
    NoFun (if c then a else b) := by
  split <;> assumption

/-- The function `genLiteral` writes no line that opens a function, for a node free of
function nodes. -/
theorem genLiteral_noFun (node : AstNode) (out : List String)
    (h : genLiteral node = Except.ok out) : NoFun out := by
  unfold genLiteral at h
  split at h
  all_goals first
    | (split at h
       · cases h
       · cases h
         simp only [noFun_cons, noFun_nil, and_true]
         rfl)
    | (obtain ⟨str, _, h⟩ := bind_ok _ _ _ h
       cases h
       simp only [noFun_cons, noFun_nil, and_true]
       rfl)
    | (cases h
       simp only [noFun_cons, noFun_nil, and_true]
       try rfl)

/-- The function `genType` writes no line that opens a function, for a node free of
function nodes. -/
theorem genType_noFun (node : AstNode) : NoFun (genType node) := by
  unfold genType
  split <;> (simp only [noFun_cons, noFun_nil, and_true]; try rfl)

/-- The function `genIdentifier` writes no line that opens a function, for a node free
of function nodes. -/
theorem genIdentifier_noFun (node : AstNode) (cg : CodeGenerator) (out : List String)
    (h : genIdentifier node cg = Except.ok out) : NoFun out := by
  unfold genIdentifier at h
  replace h := bind_ok _ _ _ h
  obtain ⟨name, _, h⟩ := h
  repeat' split at h
  all_goals
    (cases h
     simp only [noFun_cons, noFun_nil, and_true]
     rfl)

/-- The function `genVarDec` writes no line that opens a function, for a node free of
function nodes. -/
theorem genVarDec_noFun (node : AstNode) (cg : CodeGenerator) (out : List String)
    (h : genVarDec node cg = Except.ok out) : NoFun out := by
  unfold genVarDec at h
  split at h
  · obtain ⟨name, _, h⟩ := bind_ok _ _ _ h
    cases h
    simp only [noFun_cons, noFun_nil, and_true]
    rfl
  · split at h
    · obtain ⟨name, _, h⟩ := bind_ok _ _ _ h
      cases h
      simp only [noFun_cons, noFun_nil, and_true]
      exact ⟨rfl, rfl⟩
    · cases h
      exact noFun_nil

/-- The function `genParamsBackwardsRecursive` writes no line that opens a function. -/
theorem genParamsBackwardsRecursive_noFun (depth : Nat) :
    ∀ (items : List AstNode) (out : List String),
      genParamsBackwardsRecursive depth items = Except.ok out → NoFun out := by
  intro items
  induction items with
  | nil => intro out h; simp only [genParamsBackwardsRecursive] at h; cases h; exact noFun_nil
  | cons item rest ih =>
    intro out h
    unfold genParamsBackwardsRecursive at h
    replace h := bind_ok _ _ _ h
    obtain ⟨out1, h1, h⟩ := h
    replace h := bind_ok _ _ _ h
    obtain ⟨name, _, h⟩ := h
    cases h
    simp only [noFun_append, noFun_cons, noFun_nil, and_true, and_assoc]
    exact ⟨ih _ h1, rfl, rfl⟩

/-- The function `genParamsForward` writes no line that opens a function. -/
theorem genParamsForward_noFun (cg : CodeGenerator) :
    ∀ (items : List AstNode) (out : List String),
      genParamsForward cg items = Except.ok out → NoFun out := by
  intro items
  induction items with
  | nil => intro out h; simp only [genParamsForward] at h; cases h; exact noFun_nil
  | cons item rest ih =>
    intro out h
    unfold genParamsForward at h
    replace h := bind_ok _ _ _ h
    obtain ⟨out1, h1, h⟩ := h
    replace h := bind_ok _ _ _ h
    obtain ⟨out2, h2, h⟩ := h
    cases h
    rw [noFun_append]
    refine ⟨?_, ih _ h2⟩
    split at h1
    · exact genIdentifier_noFun _ _ _ h1
    all_goals first
      | exact genLiteral_noFun _ _ h1
      | (cases h1; exact noFun_nil)

/-- The function `genParams` writes no line that opens a function, for a node free of
function nodes. -/
theorem genParams_noFun (node : AstNode) (cg cg2 : CodeGenerator) (out : List String)
    (h : genParams node cg = Except.ok (out, cg2)) : NoFun out := by
  unfold genParams at h
  split at h
  · split at h
    · obtain ⟨out1, h1, h⟩ := bind_ok _ _ _ h
      cases h
      simp only [noFun_append, noFun_cons, noFun_nil, and_true, and_assoc]
      exact ⟨genParamsBackwardsRecursive_noFun _ _ _ h1, rfl⟩
    · obtain ⟨out1, h1, h⟩ := bind_ok _ _ _ h
      cases h
      exact genParamsForward_noFun _ _ _ h1
  · cases h

/-- The function `genDynamicArithmetic` writes no line that opens a function. -/
theorem genDynamicArithmetic_noFun (op : TokenType) (cg : CodeGenerator) :
    NoFun (genDynamicArithmetic op cg).1 := by
  unfold genDynamicArithmetic
  simp only [genTempVar, genUniqueLabel, arithInstr]
  split_ifs <;>
  (simp only [noFun_append, noFun_cons, noFun_nil, String.append_assoc, and_true, and_assoc]
   repeat' constructor)

/-- The function `genDynamicComparison` writes no line that opens a function. -/
theorem genDynamicComparison_noFun (op : TokenType) (cg : CodeGenerator) :
    NoFun (genDynamicComparison op cg).1 := by
  unfold genDynamicComparison
  simp only [genTempVar, genUniqueLabel, cmpInstr]
  split_ifs <;>
  (simp only [noFun_append, noFun_cons, noFun_nil, String.append_assoc, and_true, and_assoc]
   repeat' constructor)

/-- The function `genIsOperator` writes no line that opens a function. -/
theorem genIsOperator_noFun (cg : CodeGenerator) : NoFun (genIsOperator cg).1 := by
  unfold genIsOperator
  simp only [genTempVar, genUniqueLabel]
  simp only [noFun_append, noFun_cons, noFun_nil, String.append_assoc, and_true, and_assoc]
  repeat' constructor

/-- The function `genFunTail` writes no line that opens a function. -/
theorem genFunTail_noFun (cg : CodeGenerator) : NoFun (genFunTail cg).1 := by
  unfold genFunTail
  simp only [noFun_cons, noFun_nil, and_true]
  repeat' constructor

/-- The check `ifjTypeGuard` with a label that starts with `$` writes no line that opens
a function. -/
theorem ifjTypeGuard_noFun (t v : String) (d : Nat) (wanted label : String)
    (hl : funLabel ("LABEL " ++ label) = false) : NoFun (ifjTypeGuard t v d wanted label) := by
  unfold ifjTypeGuard
  simp only [noFun_cons, noFun_nil, and_true]
  exact ⟨rfl, rfl, rfl, rfl, hl⟩

/-- The function `genIfjFloor` writes no line that opens a function. -/
theorem genIfjFloor_noFun (inp : String) (cg : CodeGenerator) :
    NoFun (genIfjFloor inp cg).1 := by
  unfold genIfjFloor
  simp only [genTempVar, genUniqueLabel]
  simp only [noFun_append, noFun_cons, noFun_nil, String.append_assoc, and_true, and_assoc]
  repeat' constructor

/-- The function `genIfjStr` writes no line that opens a function. -/
theorem genIfjStr_noFun (inp : String) (cg : CodeGenerator) :
    NoFun (genIfjStr inp cg).1 := by
  unfold genIfjStr
  simp only [genTempVar, genUniqueLabel]
  simp only [noFun_append, noFun_cons, noFun_nil, String.append_assoc, and_true, and_assoc]
  repeat' constructor

/-- The function `genIfjLength` with a label that starts with `$` writes no line that
opens a function. -/
theorem genIfjLength_noFun (inp endLabel : String) (cg : CodeGenerator)
    (hl : funLabel ("LABEL " ++ endLabel) = false) : NoFun (genIfjLength inp endLabel cg).1 := by
  unfold genIfjLength
  simp only [genTempVar]
  simp only [noFun_append, noFun_cons, noFun_nil, and_true, and_assoc]
  exact ⟨rfl, ifjTypeGuard_noFun _ _ _ _ _ hl, rfl, rfl⟩

/-- The function `genIfjStrcmp` with a label that starts with `$` writes no line that
opens a function. -/
theorem genIfjStrcmp_noFun (a b endLabel : String) (cg : CodeGenerator)
    (hl : funLabel ("LABEL " ++ endLabel) = false) :
    NoFun (genIfjStrcmp a b endLabel cg).1 := by
  unfold genIfjStrcmp
  simp only [genTempVar, genUniqueLabel]
  simp only [noFun_append, noFun_cons, noFun_nil, String.append_assoc, and_true, and_assoc]
  repeat' constructor
  all_goals exact hl

/-- The function `genIfjOrd` with a label that starts with `$` writes no line that opens
a function. -/
theorem genIfjOrd_noFun (s i endLabel : String) (cg : CodeGenerator)
    (hl : funLabel ("LABEL " ++ endLabel) = false) :
    NoFun (genIfjOrd s i endLabel cg).1 := by
  unfold genIfjOrd
  simp only [genTempVar, genUniqueLabel]
  simp only [noFun_append, noFun_cons, noFun_nil, String.append_assoc, and_true, and_assoc]
  refine ⟨rfl, ifjTypeGuard_noFun _ _ _ _ _ hl, ifjTypeGuard_noFun _ _ _ _ _ hl, ?_⟩
  repeat' constructor

/-- The function `genIfjChr` with a label that starts with `$` writes no line that opens
a function. -/
theorem genIfjChr_noFun (i endLabel : String) (cg : CodeGenerator)
    (hl : funLabel ("LABEL " ++ endLabel) = false) : NoFun (genIfjChr i endLabel cg).1 := by
  unfold genIfjChr
  simp only [genTempVar]
  simp only [noFun_append, noFun_cons, noFun_nil, and_true, and_assoc]
  exact ⟨rfl, ifjTypeGuard_noFun _ _ _ _ _ hl, rfl, rfl⟩

/-- The function `genIfjSubstring` with a label that starts with `$` writes no line that
opens a function. -/
theorem genIfjSubstring_noFun (s i j endLabel : String) (cg : CodeGenerator)
    (hl : funLabel ("LABEL " ++ endLabel) = false) :
    NoFun (genIfjSubstring s i j endLabel cg).1 := by
  unfold genIfjSubstring
  simp only [genTempVar, genUniqueLabel]
  simp only [noFun_append, noFun_cons, noFun_nil, String.append_assoc, and_true, and_assoc]
  refine ⟨ifjTypeGuard_noFun _ _ _ _ _ hl, ifjTypeGuard_noFun _ _ _ _ _ hl,
    ifjTypeGuard_noFun _ _ _ _ _ hl, ?_⟩
  repeat' constructor

/-- The lines for the global variables open no function. -/
theorem genGlobalVars_noFun (mem : List Symbol) :
    ∀ slots : List Slot, NoFun (genGlobalVars mem slots) := by
  intro slots
  induction slots with
  | nil => exact noFun_nil
  | cons s rest ih =>
    cases s with
    | sym a =>
      simp only [genGlobalVars, noFun_append]
      refine ⟨noFun_ite _ _ _ ?_ noFun_nil, ih⟩
      simp only [noFun_cons, noFun_nil, and_true]
      exact ⟨rfl, rfl⟩
    | null => simpa [genGlobalVars] using ih
    | tombstone => simpa [genGlobalVars] using ih

/-- The children of a node with two children that is free of function nodes. -/
theorem funFree_bin (id : Nat) (t : AstNodeType) (tok : Token) (l r : Option AstNode)
    (h : funFree (AstNode.bin id t tok l r) = true) :
    isFunType t = false ∧ funFreeOpt l = true ∧ funFreeOpt r = true := by
  simpa [funFree, and_assoc] using h

/-- The children of a node with a list that is free of function nodes. -/
theorem funFree_list (id : Nat) (t : AstNodeType) (tok : Token) (items : List AstNode)
    (h : funFree (AstNode.list id t tok items) = true) :
    isFunType t = false ∧ funFreeList items = true := by
  simpa [funFree] using h

/-- The children of a node with a list behind a pointer, free of function nodes. -/
theorem funFreeOpt_list (id : Nat) (t : AstNodeType) (tok : Token) (items : List AstNode)
    (h : funFreeOpt (some (AstNode.list id t tok items)) = true) :
    funFreeList items = true :=
  (funFree_list id t tok items h).2

/-- The children of a node with two children behind a pointer, free of function nodes. -/
theorem funFreeOpt_bin (id : Nat) (t : AstNodeType) (tok : Token) (l r : Option AstNode)
    (h : funFreeOpt (some (AstNode.bin id t tok l r)) = true) :
    isFunType t = false ∧ funFreeOpt l = true ∧ funFreeOpt r = true :=
  funFree_bin id t tok l r h

/-- The lines of a result that is given as a pair. -/
theorem noFun_of_pair (r : List String × CodeGenerator) (out : List String)
    (cg : CodeGenerator) (h : (Except.ok r : GenResult) = Except.ok (out, cg))
    (hr : NoFun r.1) : NoFun out := by
  cases h
  exact hr

/-- A call of `genNode` on a child free of function nodes writes no line that opens a
function. -/
theorem genChild_noFun (rec : Gen) (hr : GenOK rec) (child : Option AstNode)
    (cg cg2 : CodeGenerator) (out : List String) (hf : funFreeOpt child = true)
    (h : genChild rec child cg = Except.ok (out, cg2)) : NoFun out := by
  cases child with
  | none => cases h
  | some n => exact hr n _ _ _ hf h

/-- The loop `genEach` over nodes free of function nodes writes no line that opens a
function. -/
theorem genEach_noFun (rec : Gen) (hr : GenOK rec) :
    ∀ (items : List AstNode) (cg cg2 : CodeGenerator) (out : List String),
      funFreeList items = true → genEach rec items cg = Except.ok (out, cg2) → NoFun out := by
  intro items
  induction items with
  | nil => intro cg cg2 out _ h; simp only [genEach] at h; cases h; exact noFun_nil
  | cons n rest ih =>
    intro cg cg2 out hf h
    rw [funFreeList_cons] at hf
    unfold genEach at h
    split at h
    · cases h
    · rename_i out1 cg1 h1
      split at h
      · cases h
      · rename_i out2 cg3 h2
        cases h
        exact (noFun_append _ _).mpr ⟨hr _ _ _ _ hf.1 h1, ih _ _ _ hf.2 h2⟩

/-- The function `genVarAssign` writes no line that opens a function, for a node free of
function nodes. -/
theorem genVarAssign_noFun (rec : Gen) (hr : GenOK rec) (node : AstNode)
    (cg cg2 : CodeGenerator) (out : List String) (hf : funFree node = true)
    (h : genVarAssign rec node cg = Except.ok (out, cg2)) : NoFun out := by
  unfold genVarAssign at h
  split at h
  · rename_i id t tok left right
    obtain ⟨_, hl, hrr⟩ := funFree_bin _ _ _ _ _ hf
    replace h := bind_ok _ _ _ h
    obtain ⟨x, hx, h⟩ := h
    obtain ⟨out1, cg1⟩ := x
    dsimp only at h
    have h1 := genChild_noFun rec hr _ _ _ _ hrr hx
    split at h
    · cases h
    · obtain ⟨name, _, h⟩ := bind_ok _ _ _ h
      repeat' split at h
      all_goals
        (cases h
         simp only [noFun_append, noFun_cons, noFun_nil, and_true]
         exact ⟨h1, by repeat' constructor⟩)
  · cases h

/-- The function `genReturn` writes no line that opens a function, for a node free of
function nodes. -/
theorem genReturn_noFun (rec : Gen) (hr : GenOK rec) (node : AstNode)
    (cg cg2 : CodeGenerator) (out : List String) (hf : funFree node = true)
    (h : genReturn rec node cg = Except.ok (out, cg2)) : NoFun out := by
  unfold genReturn at h
  split at h
  · obtain ⟨_, _, hrr⟩ := funFree_bin _ _ _ _ _ hf
    replace h := bind_ok _ _ _ h
    obtain ⟨x, hx, h⟩ := h
    obtain ⟨out1, cg1⟩ := x
    cases h
    simp only [noFun_append, noFun_cons, noFun_nil, and_true]
    exact ⟨hr _ _ _ _ hrr hx, by repeat' constructor⟩
  · cases h
    simp only [noFun_cons, noFun_nil, and_true]
    repeat' constructor
  · cases h
    simp only [noFun_cons, noFun_nil, and_true]
    repeat' constructor
  · cases h

/-- The function `genFunCall` writes no line that opens a function, for a node free of
function nodes. -/
theorem genFunCall_noFun (rec : Gen) (hr : GenOK rec) (node : AstNode)
    (cg cg2 : CodeGenerator) (out : List String) (hf : funFree node = true)
    (h : genFunCall rec node cg = Except.ok (out, cg2)) : NoFun out := by
  unfold genFunCall at h
  split at h
  · obtain ⟨_, _, hrr⟩ := funFree_bin _ _ _ _ _ hf
    replace h := bind_ok _ _ _ h
    obtain ⟨name, _, h⟩ := h
    split at h
    · obtain ⟨x, hx, h⟩ := bind_ok _ _ _ h
      obtain ⟨out1, cg1⟩ := x
      cases h
      simp only [noFun_append, noFun_cons, noFun_nil, and_true]
      exact ⟨genEach_noFun rec hr _ _ _ _ (funFreeOpt_list _ _ _ _ hrr) hx, rfl⟩
    · cases h
      simp only [noFun_cons, noFun_nil, and_true]
      rfl
    · cases h
    · cases h
      simp only [noFun_cons, noFun_nil, and_true]
      rfl
  · cases h

/-- The function `genLogicalAnd` writes no line that opens a function, for a node free
of function nodes. -/
theorem genLogicalAnd_noFun (rec : Gen) (hr : GenOK rec) (left right : Option AstNode)
    (cg cg2 : CodeGenerator) (out : List String) (hl : funFreeOpt left = true)
    (hrr : funFreeOpt right = true)
    (h : genLogicalAnd rec left right cg = Except.ok (out, cg2)) : NoFun out := by
  unfold genLogicalAnd at h
  simp only [genUniqueLabel, genTempVar] at h
  replace h := bind_ok _ _ _ h
  obtain ⟨x, hx, h⟩ := h
  obtain ⟨outL, cg3⟩ := x
  dsimp only at h
  replace h := bind_ok _ _ _ h
  obtain ⟨y, hy, h⟩ := h
  obtain ⟨outR, cg5⟩ := y
  cases h
  simp only [noFun_append, noFun_cons, noFun_nil, String.append_assoc, and_true, and_assoc]
  refine ⟨genChild_noFun rec hr _ _ _ _ hl hx, rfl, rfl, rfl, rfl,
    genChild_noFun rec hr _ _ _ _ hrr hy, rfl, rfl, rfl, rfl⟩

/-- The function `genLogicalOr` writes no line that opens a function, for a node free of
function nodes. -/
theorem genLogicalOr_noFun (rec : Gen) (hr : GenOK rec) (left right : Option AstNode)
    (cg cg2 : CodeGenerator) (out : List String) (hl : funFreeOpt left = true)
    (hrr : funFreeOpt right = true)
    (h : genLogicalOr rec left right cg = Except.ok (out, cg2)) : NoFun out := by
  unfold genLogicalOr at h
  simp only [genUniqueLabel, genTempVar] at h
  replace h := bind_ok _ _ _ h
  obtain ⟨x, hx, h⟩ := h
  obtain ⟨outL, cg3⟩ := x
  dsimp only at h
  replace h := bind_ok _ _ _ h
  obtain ⟨y, hy, h⟩ := h
  obtain ⟨outR, cg5⟩ := y
  cases h
  simp only [noFun_append, noFun_cons, noFun_nil, String.append_assoc, and_true, and_assoc]
  refine ⟨genChild_noFun rec hr _ _ _ _ hl hx, rfl, rfl, rfl, rfl, rfl, rfl, rfl, rfl,
    genChild_noFun rec hr _ _ _ _ hrr hy, rfl, rfl, rfl, rfl⟩

/-- The function `genOperator` writes no line that opens a function, for a node free of
function nodes. -/
theorem genOperator_noFun (rec : Gen) (hr : GenOK rec) (node : AstNode)
    (cg cg2 : CodeGenerator) (out : List String) (hf : funFree node = true)
    (h : genOperator rec node cg = Except.ok (out, cg2)) : NoFun out := by
  unfold genOperator at h
  split at h
  · obtain ⟨_, hl, hrr⟩ := funFree_bin _ _ _ _ _ hf
    split at h
    · exact genLogicalAnd_noFun rec hr _ _ _ _ _ hl hrr h
    · split at h
      · exact genLogicalOr_noFun rec hr _ _ _ _ _ hl hrr h
      · obtain ⟨x, hx, h⟩ := bind_ok _ _ _ h
        obtain ⟨outL, cg1⟩ := x
        dsimp only at h
        replace h := bind_ok _ _ _ h
        obtain ⟨y, hy, h⟩ := h
        obtain ⟨outR, cg3⟩ := y
        dsimp only at h
        replace h := bind_ok _ _ _ h
        obtain ⟨z, hz, h⟩ := h
        obtain ⟨outOp, cg4⟩ := z
        cases h
        have hnots : ∀ r : List String × CodeGenerator, NoFun r.1 → NoFun (r.1 ++ ["NOTS"]) := by
          intro r h1
          rw [noFun_append]
          exact ⟨h1, by simp only [noFun_cons, noFun_nil, and_true]; rfl⟩
        have hop : NoFun outOp := by
          split at hz
          · exact noFun_of_pair _ _ _ hz (genDynamicArithmetic_noFun _ _)
          · exact noFun_of_pair _ _ _ hz (genDynamicArithmetic_noFun _ _)
          · exact noFun_of_pair _ _ _ hz (genDynamicArithmetic_noFun _ _)
          · exact noFun_of_pair _ _ _ hz (genDynamicArithmetic_noFun _ _)
          · exact noFun_of_pair _ _ _ hz (genDynamicComparison_noFun _ _)
          · exact noFun_of_pair _ _ _ hz (genDynamicComparison_noFun _ _)
          · exact noFun_of_pair _ _ _ hz (genDynamicComparison_noFun _ _)
          · exact noFun_of_pair _ _ _ hz (hnots _ (genDynamicComparison_noFun _ _))
          · exact noFun_of_pair _ _ _ hz (hnots _ (genDynamicComparison_noFun _ _))
          · exact noFun_of_pair _ _ _ hz (hnots _ (genDynamicComparison_noFun _ _))
          · exact noFun_of_pair _ _ _ hz (genIsOperator_noFun _)
          · cases hz
        exact (noFun_append _ _).mpr ⟨(noFun_append _ _).mpr
          ⟨genChild_noFun rec hr _ _ _ _ hl hx, genChild_noFun rec hr _ _ _ _ hrr hy⟩, hop⟩
  · cases h

/-- The function `genIfStmt` writes no line that opens a function, for a node free of
function nodes. -/
theorem genIfStmt_noFun (rec : Gen) (hr : GenOK rec) (node : AstNode)
    (cg cg2 : CodeGenerator) (out : List String) (hf : funFree node = true)
    (h : genIfStmt rec node cg = Except.ok (out, cg2)) : NoFun out := by
  unfold genIfStmt at h
  split at h
  · obtain ⟨_, hl, hrr⟩ := funFree_bin _ _ _ _ _ hf
    simp only [genUniqueLabel, genTempVar] at h
    replace h := bind_ok _ _ _ h
    obtain ⟨x, hx, h⟩ := h
    obtain ⟨outC, cg3⟩ := x
    dsimp only at h
    replace h := bind_ok _ _ _ h
    obtain ⟨y, hy, h⟩ := h
    obtain ⟨outB, cg5⟩ := y
    cases h
    simp only [noFun_append, noFun_cons, noFun_nil, String.append_assoc, and_true, and_assoc]
    exact ⟨rfl, hr _ _ _ _ hl hx, rfl, rfl, rfl, rfl, rfl, rfl, rfl, hr _ _ _ _ hrr hy,
      rfl, rfl, rfl, rfl⟩
  · cases h; exact noFun_nil
  · cases h; exact noFun_nil
  · cases h

/-- The function `genIfElseStmt` writes no line that opens a function, for a node free
of function nodes. -/
theorem genIfElseStmt_noFun (rec : Gen) (hr : GenOK rec) (node : AstNode)
    (cg cg2 : CodeGenerator) (out : List String) (hf : funFree node = true)
    (h : genIfElseStmt rec node cg = Except.ok (out, cg2)) : NoFun out := by
  unfold genIfElseStmt at h
  split at h
  · obtain ⟨_, hl, hrr⟩ := funFree_bin _ _ _ _ _ hf
    obtain ⟨_, ht, hfb⟩ := funFreeOpt_bin _ _ _ _ _ hrr
    simp only [genUniqueLabel, genTempVar] at h
    replace h := bind_ok _ _ _ h
    obtain ⟨x, hx, h⟩ := h
    obtain ⟨outC, cg3⟩ := x
    dsimp only at h
    replace h := bind_ok _ _ _ h
    obtain ⟨y, hy, h⟩ := h
    obtain ⟨outT, cg6⟩ := y
    dsimp only at h
    replace h := bind_ok _ _ _ h
    obtain ⟨z, hz, h⟩ := h
    obtain ⟨outF, cg7⟩ := z
    cases h
    simp only [noFun_append, noFun_cons, noFun_nil, String.append_assoc, and_true, and_assoc]
    exact ⟨hr _ _ _ _ hl hx, rfl, rfl, rfl, rfl, rfl, rfl, rfl,
      genChild_noFun rec hr _ _ _ _ ht hy, rfl, rfl, rfl, rfl,
      genChild_noFun rec hr _ _ _ _ hfb hz, rfl⟩
  · cases h; exact noFun_nil
  · cases h
  · cases h; exact noFun_nil
  · cases h; exact noFun_nil
  · cases h

/-- The function `genWhileStmt` writes no line that opens a function, for a node free of
function nodes. -/
theorem genWhileStmt_noFun (rec : Gen) (hr : GenOK rec) (node : AstNode)
    (cg cg2 : CodeGenerator) (out : List String) (hf : funFree node = true)
    (h : genWhileStmt rec node cg = Except.ok (out, cg2)) : NoFun out := by
  unfold genWhileStmt at h
  split at h
  · obtain ⟨_, hl, hrr⟩ := funFree_bin _ _ _ _ _ hf
    simp only [genUniqueLabel, genTempVar] at h
    replace h := bind_ok _ _ _ h
    obtain ⟨x, hx, h⟩ := h
    obtain ⟨outC, cg4⟩ := x
    dsimp only at h
    replace h := bind_ok _ _ _ h
    obtain ⟨y, hy, h⟩ := h
    obtain ⟨outB, cg5⟩ := y
    cases h
    simp only [noFun_append, noFun_cons, noFun_nil, String.append_assoc, and_true, and_assoc]
    exact ⟨rfl, rfl, rfl, hr _ _ _ _ hl hx, rfl, rfl, rfl, hr _ _ _ _ hrr hy, rfl, rfl⟩
  · cases h; exact noFun_nil
  · cases h; exact noFun_nil
  · cases h

/-- The merged code for an `if` and its `else`, free of function nodes, writes no line
that opens a function. -/
theorem genMergedIfElse_noFun (rec : Gen) (hr : GenOK rec) (cond tb fb : AstNode)
    (cg cg2 : CodeGenerator) (out : List String) (hc : funFree cond = true)
    (ht : funFree tb = true) (hfb : funFree fb = true)
    (h : genMergedIfElse rec cond tb fb cg = Except.ok (out, cg2)) : NoFun out := by
  unfold genMergedIfElse at h
  simp only [genUniqueLabel, genTempVar] at h
  replace h := bind_ok _ _ _ h
  obtain ⟨x, hx, h⟩ := h
  obtain ⟨outC, cg3⟩ := x
  dsimp only at h
  replace h := bind_ok _ _ _ h
  obtain ⟨y, hy, h⟩ := h
  obtain ⟨outT, cg5⟩ := y
  dsimp only at h
  replace h := bind_ok _ _ _ h
  obtain ⟨z, hz, h⟩ := h
  obtain ⟨outF, cg6⟩ := z
  cases h
  simp only [noFun_append, noFun_cons, noFun_nil, String.append_assoc, and_true, and_assoc]
  exact ⟨rfl, hr _ _ _ _ hc hx, rfl, rfl, rfl, rfl, hr _ _ _ _ ht hy, rfl, rfl,
    hr _ _ _ _ hfb hz, rfl⟩

theorem genIfjArgs_noFun (rec : Gen) (hr : GenOK rec) :
    ∀ (items : List AstNode) (cg cg2 : CodeGenerator) (lines tmps : List String),
      funFreeList items = true →
      genIfjArgs rec items cg = Except.ok (lines, tmps, cg2) → NoFun lines := by
  intro items
  induction items with
  | nil =>
    intro cg cg2 lines tmps _ h
    simp only [genIfjArgs] at h
    cases h
    exact noFun_nil
  | cons p rest ih =>
    intro cg cg2 lines tmps hf h
    rw [funFreeList_cons] at hf
    unfold genIfjArgs at h
    simp only [genTempVar] at h
    replace h := bind_ok _ _ _ h
    obtain ⟨x, hx, h⟩ := h
    obtain ⟨lines1, cg3⟩ := x
    dsimp only at h
    replace h := bind_ok _ _ _ h
    obtain ⟨y, hy, h⟩ := h
    obtain ⟨linesRest, tmps2, cg4⟩ := y
    cases h
    have h1 : NoFun lines1 := by
      split at hx
      · obtain ⟨name, _, hx⟩ := bind_ok _ _ _ hx
        split at hx <;>
          (cases hx
           simp only [noFun_cons, noFun_nil, and_true]
           rfl)
      · split at hx
        · repeat' split at hx
          all_goals first
            | (obtain ⟨str, _, hx⟩ := bind_ok _ _ _ hx
               cases hx
               simp only [noFun_cons, noFun_nil, and_true]
               rfl)
            | (cases hx
               simp only [noFun_cons, noFun_nil, and_true]
               rfl)
            | cases hx
        · obtain ⟨z, hz, hx⟩ := bind_ok _ _ _ hx
          obtain ⟨out, cg5⟩ := z
          cases hx
          simp only [noFun_append, noFun_cons, noFun_nil, and_true]
          exact ⟨hr _ _ _ _ hf.1 hz, rfl⟩
    simp only [noFun_append, noFun_cons, noFun_nil, and_true, and_assoc]
    exact ⟨rfl, h1, ih _ _ _ _ hf.2 hy⟩

/-- The function `genIfjTemplate` with a label that starts with `$` writes no line that
opens a function. -/
theorem genIfjTemplate_noFun (fname : String) (tmpNames : List String) (endLabel : String)
    (cg cg2 : CodeGenerator) (out : List String)
    (h : genIfjTemplate fname tmpNames endLabel cg = Except.ok (out, cg2))
    (hl : funLabel ("LABEL " ++ endLabel) = false) : NoFun out := by
  unfold genIfjTemplate at h
  simp only [genTempVar] at h
  by_cases c1 : fname = "write"
  · rw [if_pos c1] at h
    split at h
    · cases h
      simp only [noFun_cons, noFun_nil, and_true]
      exact ⟨rfl, rfl⟩
    · cases h
  rw [if_neg c1] at h
  by_cases c2 : fname = "read_str"
  · rw [if_pos c2] at h
    split at h
    · cases h
      simp only [noFun_cons, noFun_nil, and_true]
      exact ⟨rfl, rfl, rfl⟩
    · cases h
  rw [if_neg c2] at h
  by_cases c3 : fname = "read_num"
  · rw [if_pos c3] at h
    split at h
    · cases h
      simp only [noFun_cons, noFun_nil, and_true]
      exact ⟨rfl, rfl, rfl⟩
    · cases h
  rw [if_neg c3] at h
  by_cases c4 : fname = "floor"
  · rw [if_pos c4] at h
    split at h
    · exact noFun_of_pair _ _ _ h (genIfjFloor_noFun _ _)
    · cases h
  rw [if_neg c4] at h
  by_cases c5 : fname = "str"
  · rw [if_pos c5] at h
    split at h
    · exact noFun_of_pair _ _ _ h (genIfjStr_noFun _ _)
    · cases h
  rw [if_neg c5] at h
  by_cases c6 : fname = "length"
  · rw [if_pos c6] at h
    split at h
    · exact noFun_of_pair _ _ _ h (genIfjLength_noFun _ _ _ hl)
    · cases h
  rw [if_neg c6] at h
  by_cases c7 : fname = "strcmp"
  · rw [if_pos c7] at h
    split at h
    · exact noFun_of_pair _ _ _ h (genIfjStrcmp_noFun _ _ _ _ hl)
    · cases h
  rw [if_neg c7] at h
  by_cases c8 : fname = "ord"
  · rw [if_pos c8] at h
    split at h
    · exact noFun_of_pair _ _ _ h (genIfjOrd_noFun _ _ _ _ hl)
    · cases h
  rw [if_neg c8] at h
  by_cases c9 : fname = "chr"
  · rw [if_pos c9] at h
    split at h
    · exact noFun_of_pair _ _ _ h (genIfjChr_noFun _ _ _ hl)
    · cases h
  rw [if_neg c9] at h
  by_cases c10 : fname = "substring"
  · rw [if_pos c10] at h
    split at h
    · exact noFun_of_pair _ _ _ h (genIfjSubstring_noFun _ _ _ _ _ hl)
    · cases h
  rw [if_neg c10] at h
  cases h

/-- The function `genIfj` writes no line that opens a function, for a node free of
function nodes. -/
theorem genIfj_noFun (rec : Gen) (hr : GenOK rec) (node : AstNode)
    (cg cg2 : CodeGenerator) (out : List String) (hf : funFree node = true)
    (h : genIfj rec node cg = Except.ok (out, cg2)) : NoFun out := by
  unfold genIfj at h
  split at h
  · rename_i id t tok l funCall
    obtain ⟨_, _, hcall⟩ := funFree_bin _ _ _ _ _ hf
    replace h := bind_ok _ _ _ h
    obtain ⟨fname, _, h⟩ := h
    replace h := bind_ok _ _ _ h
    obtain ⟨params, hparams, h⟩ := h
    replace h := bind_ok _ _ _ h
    obtain ⟨x, hargs, h⟩ := h
    obtain ⟨argLines, tmpNames, cg1⟩ := x
    simp only [genUniqueLabel] at h
    replace h := bind_ok _ _ _ h
    obtain ⟨y, hbody, h⟩ := h
    obtain ⟨body, cg4⟩ := y
    cases h
    have hp : funFreeList params = true := by
      split at hparams
      · rename_i id2 t2 tok2 l2 id3 t3 tok3 items
        cases hparams
        exact funFreeOpt_list _ _ _ _ (funFreeOpt_bin _ _ _ _ _ hcall).2.2
      all_goals first
        | (cases hparams; rfl)
        | cases hparams
    rw [noFun_append]
    exact ⟨genIfjArgs_noFun rec hr _ _ _ _ _ hp hargs,
      genIfjTemplate_noFun _ _ _ _ _ _ hbody rfl⟩
  · cases h

/-- The loop of `genNodeChildren` over nodes free of function nodes writes no line that
opens a function. -/
theorem genChildrenList_noFun (rec : Gen) (hr : GenOK rec) :
    ∀ (n : Nat) (items : List AstNode), items.length = n →
      ∀ (cg cg2 : CodeGenerator) (out : List String),
      funFreeList items = true →
      genChildrenList rec items cg = Except.ok (out, cg2) → NoFun out := by
  intro n
  induction n using Nat.strong_induction_on with
  | _ n ih =>
    intro items hn cg cg2 out hf h
    cases items with
    | nil =>
      simp only [genChildrenList] at h
      cases h
      exact noFun_nil
    | cons item tl =>
    cases tl with
    | nil =>
      simp only [genChildrenList] at h
      exact hr _ _ _ _ ((funFreeList_cons _ _).mp hf).1 h
    | cons next rest =>
      obtain ⟨hfi, hfr⟩ := (funFreeList_cons _ _).mp hf
      obtain ⟨hfn, hfrest⟩ := (funFreeList_cons _ _).mp hfr
      have hstep : ∀ cg1 out1 out2 cg3, rec item cg = Except.ok (out1, cg1) →
          genChildrenList rec (next :: rest) cg1 = Except.ok (out2, cg3) →
          NoFun (out1 ++ out2) := by
        intro cg1 out1 out2 cg3 h1 h2
        exact (noFun_append _ _).mpr ⟨hr _ _ _ _ hfi h1,
          ih (next :: rest).length (by rw [← hn]; simp) _ rfl _ _ _ hfr h2⟩
      unfold genChildrenList at h
      split at h
      · split at h
        · obtain ⟨_, hc, htb⟩ := funFree_bin _ _ _ _ _ hfi
          obtain ⟨_, _, hfb⟩ := funFree_bin _ _ _ _ _ hfn
          split at h
          · cases h
          · rename_i out1 cg1 h1
            split at h
            · cases h
            · rename_i out2 cg3 h2
              cases h
              exact (noFun_append _ _).mpr
                ⟨genMergedIfElse_noFun rec hr _ _ _ _ _ _ hc htb hfb h1,
                  ih rest.length (by rw [← hn]; simp; omega) _ rfl _ _ _ hfrest h2⟩
        · cases h
        · split at h
          · cases h
          · rename_i out1 cg1 h1
            split at h
            · cases h
            · rename_i out2 cg3 h2
              cases h
              exact hstep _ _ _ _ h1 h2
      · split at h
        · cases h
        · rename_i out1 cg1 h1
          split at h
          · cases h
          · rename_i out2 cg3 h2
            cases h
            exact hstep _ _ _ _ h1 h2

theorem funFree_type (node : AstNode) (h : funFree node = true) :
    isFunType node.type = false := by
  cases node with
  | leaf id t tok => simpa [funFree] using h
  | bin id t tok l r => exact (funFree_bin _ _ _ _ _ h).1
  | list id t tok items => exact (funFree_list _ _ _ _ h).1

/-- The children of a node free of function nodes are free of them. -/
theorem childrenFree_of_funFree (node : AstNode) (h : funFree node = true) :
    childrenFree node = true := by
  cases node with
  | leaf id t tok => rfl
  | bin id t tok l r =>
    obtain ⟨_, hl, hr⟩ := funFree_bin _ _ _ _ _ h
    simp [childrenFree, hl, hr]
  | list id t tok items => exact (funFree_list _ _ _ _ h).2

/-- The function `genNodeChildren` on a node whose children are free of function nodes
writes no line that opens a function. -/
theorem genNodeChildren_free (rec : Gen) (hr : GenOK rec) (node : AstNode)
    (cg cg2 : CodeGenerator) (out : List String) (hf : childrenFree node = true)
    (h : genNodeChildren rec node cg = Except.ok (out, cg2)) : NoFun out := by
  unfold genNodeChildren at h
  have hlist : ∀ id t tok items, node = AstNode.list id t tok items →
      genChildrenList rec items cg = Except.ok (out, cg2) → NoFun out := by
    intro id t tok items e h2
    subst e
    exact genChildrenList_noFun rec hr _ _ rfl _ _ _ hf h2
  have hbin : (match node with
      | AstNode.leaf _ _ _ => Except.ok ([], cg)
      | AstNode.list _ _ _ _ => Except.error Err.undefinedBehaviour
      | AstNode.bin _ _ _ left right => do
        let (out1, cg1) ←
          (match left with
           | some l => rec l cg
           | none => Except.ok ([], cg))
        let (out2, cg2) ←
          (match right with
           | some r => rec r cg1
           | none => Except.ok ([], cg1))
        Except.ok (out1 ++ out2, cg2)) = Except.ok (out, cg2) → NoFun out := by
    intro h2
    split at h2
    · cases h2; exact noFun_nil
    · cases h2
    · obtain ⟨hl, hrr⟩ : funFreeOpt _ = true ∧ funFreeOpt _ = true := by
        simpa [childrenFree] using hf
      replace h2 := bind_ok _ _ _ h2
      obtain ⟨x, hx, h2⟩ := h2
      obtain ⟨out1, cg1⟩ := x
      dsimp only at h2
      replace h2 := bind_ok _ _ _ h2
      obtain ⟨y, hy, h2⟩ := h2
      obtain ⟨out2, cg3⟩ := y
      cases h2
      rw [noFun_append]
      constructor
      · split at hx
        · exact hr _ _ _ _ hl hx
        · cases hx; exact noFun_nil
      · split at hy
        · exact hr _ _ _ _ hrr hy
        · cases hy; exact noFun_nil
  split at h
  · split at h
    · cases h; exact noFun_nil
    · exact hlist _ _ _ _ rfl h
    · cases h
  · split at h
    · cases h; exact noFun_nil
    · exact hlist _ _ _ _ rfl h
    · cases h
  · split at h
    · cases h; exact noFun_nil
    · exact hlist _ _ _ _ rfl h
    · cases h
  · cases h; exact noFun_nil
  · cases h; exact noFun_nil
  · exact hbin h

/-- The function `genNodeChildren` on a node free of function nodes writes no line that
opens a function. -/
theorem genNodeChildren_noFun (rec : Gen) (hr : GenOK rec) (node : AstNode)
    (cg cg2 : CodeGenerator) (out : List String) (hf : funFree node = true)
    (h : genNodeChildren rec node cg = Except.ok (out, cg2)) : NoFun out :=
  genNodeChildren_free rec hr node cg cg2 out (childrenFree_of_funFree node hf) h

/-- The function `genNode` on a tree without function nodes writes no line that opens a
function. -/
theorem genNode_noFun : ∀ fuel : Nat, GenOK (genNode fuel) := by
  intro fuel
  induction fuel with
  | zero => intro node cg cg2 out _ h; simp [genNode] at h
  | succ fuel ih =>
    intro node cg cg2 out hf h
    have hty := funFree_type node hf
    unfold genNode at h
    split at h
    · rename_i e; rw [e] at hty; cases hty
    · exact genNodeChildren_noFun _ ih _ _ _ _ hf h
    · split at h
      · cases h
      · rename_i o ho
        cases h
        exact genVarDec_noFun _ _ _ ho
    · rename_i e; rw [e] at hty; cases hty
    · rename_i e; rw [e] at hty; cases hty
    · rename_i e; rw [e] at hty; cases hty
    · exact genReturn_noFun _ ih _ _ _ _ hf h
    · exact genParams_noFun _ _ _ _ h
    · exact genVarAssign_noFun _ ih _ _ _ _ hf h
    · split at h
      · cases h
      · rename_i o ho
        cases h
        exact genIdentifier_noFun _ _ _ ho
    · split at h
      · cases h
      · rename_i o ho
        cases h
        exact genLiteral_noFun _ _ ho
    · exact genOperator_noFun _ ih _ _ _ _ hf h
    · exact genFunCall_noFun _ ih _ _ _ _ hf h
    · exact genIfStmt_noFun _ ih _ _ _ _ hf h
    · exact genIfElseStmt_noFun _ ih _ _ _ _ hf h
    · exact genIfj_noFun _ ih _ _ _ _ hf h
    · exact genNodeChildren_noFun _ ih _ _ _ _ hf h
    · exact genWhileStmt_noFun _ ih _ _ _ _ hf h
    · cases h; exact genType_noFun _
    · exact genOperator_noFun _ ih _ _ _ _ hf h

/-- A line that opens a function is not among lines that open none. -/
theorem count_noFun (out : List String) (t : String) (h : NoFun out)
    (ht : funLabel t = true) : out.count t = 0 := by
  rw [List.count_eq_zero]
  intro hin
  rw [h t hin] at ht
  cases ht

/-- The line that opens a function with a name of identifier characters is a label line
whose label does not start with `$`. -/
theorem funLabel_labelLine (key : String × Nat) (hid : identChars key.1) :
    funLabel (labelLine key) = true := by
  obtain ⟨name, k⟩ := key
  obtain ⟨hne, hall⟩ := hid
  unfold funLabel labelLine keyName
  simp only [String.data_append]
  cases hd : name.data with
  | nil => exact absurd hd hne
  | cons c cs =>
    have hc : c ≠ '$' := (identPart_facts c (hall c (by rw [hd]; simp))).2
    show labelMatch "LABEL ".data ("LABEL ".data ++ ((c :: cs) ++ "$".data ++ (toString k).data)) = true
    simp [labelMatch, hc]

/-- Two functions with the same opening line have the same name and number of
parameters. -/
theorem labelLine_inj (a b : String × Nat) (ha : identChars a.1) (hb : identChars b.1)
    (h : labelLine a = labelLine b) : a = b := by
  apply keyName_inj a b ha hb
  unfold labelLine at h
  have hd := congrArg String.data h
  simp only [String.data_append] at hd
  exact String.ext (List.append_cancel_left hd)

/-- The lines of a function, a getter or a setter hold the line that opens it once and
no other line that opens a function. -/
theorem count_fun_out (lbl t : String) (body tail extra : List String) (hb : NoFun body)
    (htl : NoFun tail) (he : NoFun extra) (ht : funLabel t = true) :
    (["", "LABEL " ++ lbl, "CREATEFRAME", "PUSHFRAME", ""] ++ body ++ tail ++ extra).count t =
      if "LABEL " ++ lbl = t then 1 else 0 := by
  have h1 : t ≠ "" := by intro e; rw [e] at ht; cases ht
  have h2 : t ≠ "CREATEFRAME" := by intro e; rw [e] at ht; cases ht
  have h3 : t ≠ "PUSHFRAME" := by intro e; rw [e] at ht; cases ht
  simp only [List.count_append, count_noFun _ _ hb ht, count_noFun _ _ htl ht,
    count_noFun _ _ he ht, Nat.add_zero]
  simp only [List.count_cons, List.count_nil, beq_iff_eq]
  rw [if_neg (Ne.symm h1), if_neg (Ne.symm h2), if_neg (Ne.symm h3)]
  simp

/-- The line that opens a getter or a setter is not the line that opens a function. -/
theorem accessor_ne_labelLine (name suffix : String) (key : String × Nat)
    (hid : identChars name) (hs : '$' ∉ suffix.data) :
    "LABEL " ++ (name ++ suffix) ≠ labelLine key := by
  intro h
  unfold labelLine keyName at h
  have hd := congrArg String.data h
  simp only [String.data_append] at hd
  have hd2 := List.append_cancel_left hd
  have hin : '$' ∈ name.data ++ suffix.data := by
    rw [hd2]
    simp
  rcases List.mem_append.mp hin with h1 | h1
  · exact not_dollar_of_identChars _ hid h1
  · exact hs h1

/-- The lines that `genNode` writes for a declaration hold the line of a function once
when the declaration is that function, and else not at all. -/
theorem genNode_decNode (fuel : Nat) (item : AstNode) (hd : DecNode item)
    (key : String × Nat) (hid : identChars key.1) (cg cg2 : CodeGenerator)
    (out : List String) (h : genNode fuel item cg = Except.ok (out, cg2)) :
    out.count (labelLine key) = if funKey item = some key then 1 else 0 := by
  have hT := funLabel_labelLine key hid
  obtain ⟨id, type, tok, left, body, name, hn, hfb, hfl, hname, hidn, hcase⟩ := hd
  subst hn
  have hcf : childrenFree (AstNode.bin id type tok left (some body)) = true := by
    simp [childrenFree, hfl, funFreeOpt, hfb]
  cases fuel with
  | zero => simp [genNode] at h
  | succ fuel =>
    have hch : ∀ cg1 cg3 o,
        genNodeChildren (genNode fuel) (AstNode.bin id type tok left (some body)) cg1 =
          Except.ok (o, cg3) → NoFun o :=
      fun cg1 cg3 o hc => genNodeChildren_free _ (genNode_noFun fuel) _ _ _ _ hcf hc
    rcases hcase with ⟨hty, pid, ptype, ptok, items, hl⟩ | hty | hty
    · subst hty hl
      have hk : funKey (AstNode.bin id AstNodeType.AST_FUN_DEC tok
          (some (AstNode.list pid ptype ptok items)) (some body)) = some (name, items.length) := by
        simp only [funKey, hname]
      rw [hk]
      simp only [genNode, AstNode.type] at h
      unfold genFunDec at h
      simp only [genFunHead] at h
      replace h := bind_ok _ _ _ h
      obtain ⟨pc, hpc, h⟩ := h
      cases hpc
      replace h := bind_ok _ _ _ h
      obtain ⟨nm, hnm, h⟩ := h
      rw [hname] at hnm
      cases hnm
      replace h := bind_ok _ _ _ h
      obtain ⟨x, hx, h⟩ := h
      obtain ⟨bodyOut, cg3⟩ := x
      dsimp only at h
      have htail : NoFun (if cg3.inFunction = true then genFunTail cg3 else ([], cg3)).1 := by
        split
        · exact genFunTail_noFun _
        · exact noFun_nil
      have hexit : NoFun (if name = "main" ∧ items.length = 0 then ["EXIT int@0"] else []) := by
        split
        · simp only [noFun_cons, noFun_nil, and_true]; rfl
        · exact noFun_nil
      cases h
      rw [count_fun_out _ _ _ _ _ (hch _ _ _ hx) htail hexit hT]
      by_cases hkk : (name, items.length) = key
      · rw [if_pos (by rw [← hkk]; rfl), if_pos (by rw [hkk])]
      · rw [if_neg, if_neg]
        · intro e; exact hkk (Option.some.inj e)
        · intro e
          exact hkk (labelLine_inj (name, items.length) key hidn hid e)
    · subst hty
      have hk : funKey (AstNode.bin id AstNodeType.AST_FUN_GET tok left (some body)) = none := by
        simp only [funKey]
      rw [hk]
      simp only [genNode, AstNode.type] at h
      unfold genFunGet at h
      simp only [genFunHead, AstNode.token] at h
      replace h := bind_ok _ _ _ h
      obtain ⟨nm, hnm, h⟩ := h
      rw [hname] at hnm
      cases hnm
      replace h := bind_ok _ _ _ h
      obtain ⟨x, hx, h⟩ := h
      obtain ⟨bodyOut, cg3⟩ := x
      cases h
      have := count_fun_out (name ++ "_get") (labelLine key) bodyOut (genFunTail cg3).1 []
        (hch _ _ _ hx) (genFunTail_noFun _) noFun_nil hT
      rw [List.append_nil] at this
      rw [this, if_neg (accessor_ne_labelLine name "_get" key hidn (by decide))]
      rfl
    · subst hty
      have hk : funKey (AstNode.bin id AstNodeType.AST_FUN_SET tok left (some body)) = none := by
        simp only [funKey]
      rw [hk]
      simp only [genNode, AstNode.type] at h
      unfold genFunSet at h
      simp only [genFunHead, AstNode.token] at h
      replace h := bind_ok _ _ _ h
      obtain ⟨nm, hnm, h⟩ := h
      rw [hname] at hnm
      cases hnm
      replace h := bind_ok _ _ _ h
      obtain ⟨x, hx, h⟩ := h
      obtain ⟨bodyOut, cg3⟩ := x
      cases h
      have := count_fun_out (name ++ "_set") (labelLine key) bodyOut (genFunTail cg3).1 []
        (hch _ _ _ hx) (genFunTail_noFun _) noFun_nil hT
      rw [List.append_nil] at this
      rw [this, if_neg (accessor_ne_labelLine name "_set" key hidn (by decide))]
      rfl

/-- The lines that `genEach` writes for a list of declarations hold the line of a
function as many times as the list declares it. -/
theorem genEach_count (fuel : Nat) (key : String × Nat) (hid : identChars key.1) :
    ∀ (items : List AstNode) (cg cg2 : CodeGenerator) (out : List String),
      (∀ n ∈ items, DecNode n) → genEach (genNode fuel) items cg = Except.ok (out, cg2) →
      out.count (labelLine key) = (items.filterMap funKey).count key := by
  intro items
  induction items with
  | nil =>
    intro cg cg2 out _ h
    simp only [genEach] at h
    cases h
    rfl
  | cons n rest ih =>
    intro cg cg2 out hd h
    unfold genEach at h
    split at h
    · cases h
    · rename_i out1 cg1 h1
      split at h
      · cases h
      · rename_i out2 cg3 h2
        cases h
        rw [List.count_append, genNode_decNode fuel n (hd n (List.mem_cons_self _ _)) key hid
          _ _ _ h1, ih _ _ _ (fun m hm => hd m (List.mem_cons_of_mem _ hm)) h2]
        cases hk : funKey n with
        | none => simp [List.filterMap_cons, hk]
        | some k2 =>
          simp only [List.filterMap_cons, hk, List.count_cons, Option.some.injEq, beq_iff_eq]
          omega

/-- A declaration is a node of a function, a getter or a setter. -/
theorem isFunNode_decNode (n : AstNode) (h : DecNode n) : isFunNode n = true := by
  obtain ⟨id, type, tok, left, body, name, hn, _, _, _, _, hcase⟩ := h
  subst hn
  rcases hcase with ⟨hty, _⟩ | hty | hty <;> subst hty <;> rfl

/-- The lines that `genNode` writes for a class of declarations hold the line of a
function as many times as the class declares it. -/
theorem genNode_class_count (fuel : Nat) (id : Nat) (tok : Token) (items : List AstNode)
    (hd : ∀ n ∈ items, DecNode n) (key : String × Nat) (hid : identChars key.1)
    (cg cg2 : CodeGenerator) (out : List String)
    (h : genNode fuel (AstNode.list id AstNodeType.AST_CLASS_DEC tok items) cg =
      Except.ok (out, cg2)) :
    out.count (labelLine key) = (items.filterMap funKey).count key := by
  have hT := funLabel_labelLine key hid
  cases fuel with
  | zero => simp [genNode] at h
  | succ fuel =>
    simp only [genNode, AstNode.type] at h
    unfold genClassDec at h
    replace h := bind_ok _ _ _ h
    obtain ⟨its, hits, h⟩ := h
    cases hits
    have hall : items.filter isFunNode = items :=
      List.filter_eq_self.mpr (fun n hn => isFunNode_decNode n (hd n hn))
    have hnone : items.filter (fun n => !isFunNode n && n.type != AstNodeType.AST_VAR_DEC) =
        [] := by
      rw [List.filter_eq_nil_iff]
      intro n hn
      simp [isFunNode_decNode n (hd n hn)]
    rw [hall, hnone] at h
    replace h := bind_ok _ _ _ h
    obtain ⟨x, hx, h⟩ := h
    obtain ⟨funs, cg1⟩ := x
    dsimp only at h
    replace h := bind_ok _ _ _ h
    obtain ⟨y, hy, h⟩ := h
    obtain ⟨rest, cg3⟩ := y
    simp only [genEach] at hy
    cases hy
    cases h
    have h1 : NoFun [".IFJcode25", "JUMP $$main_entry"] := by
      simp only [noFun_cons, noFun_nil, and_true]; exact ⟨rfl, rfl⟩
    have h2 : NoFun ["", "LABEL $$main_entry"] := by
      simp only [noFun_cons, noFun_nil, and_true]; exact ⟨rfl, rfl⟩
    have h3 : NoFun ["CALL main$0", "EXIT int@0"] := by
      simp only [noFun_cons, noFun_nil, and_true]; exact ⟨rfl, rfl⟩
    simp only [List.count_append, count_noFun _ _ h1 hT, count_noFun _ _ h2 hT,
      count_noFun _ _ h3 hT, count_noFun _ _ noFun_nil hT, Nat.add_zero, Nat.zero_add]
    have hg0 : ∀ l, NoFun l →
        List.count (labelLine key) funs + List.count (labelLine key) l =
          List.count (labelLine key) funs := by
      intro l hl
      rw [count_noFun _ _ hl hT]
      rfl
    refine (hg0 _ ?_).trans (genEach_count fuel key hid _ _ _ _ hd hx)
    split
    · exact genGlobalVars_noFun _ _
    · exact noFun_nil

/-- A member of a list without repetition is counted once. -/
theorem count_eq_one_nodup {α : Type} [BEq α] [LawfulBEq α] (l : List α) (a : α)
    (hn : l.Nodup) (ha : a ∈ l) : l.count a = 1 := by
  induction l with
  | nil => cases ha
  | cons b rest ih =>
    rw [List.nodup_cons] at hn
    rw [List.count_cons]
    by_cases hab : b = a
    · subst hab
      rw [List.count_eq_zero.mpr hn.1]
      simp
    · rcases List.mem_cons.mp ha with h1 | h1
      · exact absurd h1.symm hab
      · rw [ih hn.2 h1]
        simp [hab]

/-- The text of the line in the statement of the claim. -/
theorem labelLine_eq (n : String) (k : Nat) :
    "LABEL " ++ n ++ "$" ++ toString k = labelLine (n, k) := by
  simp only [labelLine, keyName, String.append_assoc]

/-- The count of the label line of a declared function in what `compile` writes. -/
theorem compile_label_count (fuel : Nat) (input : List Char) (out : List String)
    (key : String × Nat) (h : compile fuel input = Except.ok out)
    (hd : key ∈ declaredFunctions fuel input) : out.count (labelLine key) = 1 := by
  unfold compile at h
  replace h := bind_ok _ _ _ h
  obtain ⟨a, ha, h⟩ := h
  obtain ⟨id, tok, items, hroot, hdl⟩ := analyse_spec fuel input a ha
  unfold declaredFunctions at hd
  rw [ha] at hd
  simp only [hroot] at hd h
  unfold generate at h
  split at h
  · cases h
  · rename_i o cg2 hgen
    cases h
    rw [genNode_class_count fuel id tok items hdl.1 key (decList_ident items hdl.1 key hd)
      _ _ _ hgen]
    exact count_eq_one_nodup _ _ hdl.2 hd

/-- Claim C4: for every input that the compiler accepts, with the lines `out` written,
and every function that the class declares with the name `n` and `k` parameters, as the
parser reads the declarations, exactly one line of `out` is `LABEL n$k`. -/
theorem declared_function_has_one_label (fuel : Nat) (input : List Char)
    (out : List String) (n : String) (k : Nat)
    (h : compile fuel input = Except.ok out)
    (hd : (n, k) ∈ declaredFunctions fuel input) :
    out.count ("LABEL " ++ n ++ "$" ++ toString k) = 1 := by
  rw [labelLine_eq]
  exact compile_label_count fuel input out (n, k) h hd

set_option maxRecDepth 100000 in
/-- The claim C4 on `overloadProgram`, which declares `f` with one and with two
parameters: the program is accepted, the function `f` with two parameters is among the
declared ones, and the line `LABEL f$2` is written once. -/
theorem declared_function_has_one_label_witness :
    compile runFuel overloadProgram.data = Except.ok overloadEmitted ∧
      ("f", 2) ∈ declaredFunctions runFuel overloadProgram.data ∧
      overloadEmitted.count ("LABEL " ++ "f" ++ "$" ++ toString 2) = 1 :=
  ⟨by decide!, by decide!,
   declared_function_has_one_label runFuel overloadProgram.data overloadEmitted "f" 2
     (by decide!) (by decide!)⟩

/-! ### The later pass: a call of a setter -/

set_option maxRecDepth 100000 in
/-- Claim C11, the run of the code: the program declares the setter `base`, no function
`base`, and calls `base(1)`.  The compiler ends with the code 3 of an undefined function,
not with the code 6: the setter is stored as `base#set`, `findSetter` looks for `base$set`
and returns the null pointer, also on a scope stack that holds nothing but the setter. -/
theorem setter_call_reported_undefined :
    compile runFuel setterCallProgram.data = Except.error (Err.exit SEM_UNDEF) ∧
      symTableStackFindSymbol oneSetterStack "base#set" = some 0 ∧
      findSetter oneSetterStack "base" = Except.ok none ∧
      checkFunctionCallNode
        (callNode 6 7 (identifierToken "base") Token.zero
          [.leaf 8 AstNodeType.AST_LITERAL (intToken 1)]) oneSetterStack [] =
        Except.error (Err.exit SEM_UNDEF) :=
  ⟨by decide!, by decide!, by decide!, by decide!⟩

/-! ### The names that `symbolCreate` stores -/

/-- Claim C13: `symbolCreate(name, type, kind, n)` stores the name followed by `$` and the
decimal digits of `n` for the kind FUNC, by `#get` for GET, by `#set` for SET, and the
name itself for every other kind; the symbol is not declared, and its parameter types are
`n` entries `UNKNOWN`. -/
theorem symbolCreate_fields (name : String) (type : ExprType) (kind : SymbolKind) (n : Nat) :
    (symbolCreate name type kind n).name =
        (match kind with
         | SymbolKind.SYM_FUNC => name ++ "$" ++ String.mk (Nat.toDigits 10 n)
         | SymbolKind.SYM_GET => name ++ "#get"
         | SymbolKind.SYM_SET => name ++ "#set"
         | _ => name) ∧
      (symbolCreate name type kind n).declared = false ∧
      (symbolCreate name type kind n).paramTypes = List.replicate n TYPE_UNKNOWN := by
  refine ⟨?_, rfl, rfl⟩
  cases kind <;> rfl

/-! ### The table of the binary operators -/

/-- On single known types `checkBinaryTypes` decides as the table of the specification. -/
theorem checkBinaryTypes_eq_table : ∀ op ∈ tableOperators, ∀ a ∈ knownTypes,
    ∀ b ∈ knownTypes, checkBinaryTypes a op b = tableAllows a op b := by decide

/-- The operator `!` is not one of the binary operators of the table. -/
theorem tableOperators_not : ∀ op ∈ tableOperators, op ≠ TokenType.LOGICAL_NOT := by decide

/-- Claim C14: for operands of single known types `checkBinaryTypes` accepts a pair
exactly when the table of the specification allows it, and for a pair that the table
rejects `semanticExpression` ends with the code 6 on the node of the operation, once both
operands have been checked and have these types. -/
theorem checkBinaryTypes_table (op : TokenType) (a b : ExprType) (hop : op ∈ tableOperators)
    (ha : a ∈ knownTypes) (hb : b ∈ knownTypes) :
    checkBinaryTypes a op b = tableAllows a op b ∧
      ∀ (i : Nat) (tok : Token) (l r : AstNode) (types types1 types2 : List ExprType),
        tok.type = op → semanticExpression (some l) types = Except.ok types1 →
        semanticExpression (some r) types1 = Except.ok types2 →
        typeOf types2 l = a → typeOf types2 r = b → tableAllows a op b = false →
        semanticExpression (some (.bin i AstNodeType.AST_EXPRESSION tok (some l) (some r)))
          types = Except.error (Err.exit SEM_TYPE) := by
  have htab := checkBinaryTypes_eq_table op hop a ha b hb
  refine ⟨htab, ?_⟩
  intro i tok l r types types1 types2 htok hl hr hta htb hrej
  have hnot : tok.type ≠ TokenType.LOGICAL_NOT := by
    rw [htok]
    exact tableOperators_not op hop
  rw [semanticExpression, if_neg hnot, hl]
  simp only
  rw [hr]
  simp only
  rw [htok, hta, htb, htab, hrej]
  rfl

set_option maxRecDepth 100000 in
/-- The claim C14 at the operation `1 + "a"`: the table rejects the pair of INT and STRING,
`semanticExpression` ends with the code 6 on the tree, and so does the compiler on a
program with the assignment `x = 1 + "a"`. -/
theorem checkBinaryTypes_table_witness :
    TokenType.PLUS ∈ tableOperators ∧ TYPE_INT ∈ knownTypes ∧ TYPE_STRING ∈ knownTypes ∧
      checkBinaryTypes TYPE_INT TokenType.PLUS TYPE_STRING = false ∧
      semanticExpression (some (plusTree (intToken 1) (stringToken "a")))
          [TYPE_INT, TYPE_STRING, TYPE_UNKNOWN] = Except.error (Err.exit SEM_TYPE) ∧
      compile runFuel typeMismatchProgram.data = Except.error (Err.exit SEM_TYPE) :=
  ⟨by decide, by decide, by decide, by decide,
   (checkBinaryTypes_table TokenType.PLUS TYPE_INT TYPE_STRING (by decide) (by decide)
      (by decide)).2 2 _ _ _ [TYPE_INT, TYPE_STRING, TYPE_UNKNOWN]
      [TYPE_INT, TYPE_STRING, TYPE_UNKNOWN] [TYPE_INT, TYPE_STRING, TYPE_UNKNOWN] rfl
      (by decide!) (by decide!) rfl rfl rfl,
   by decide!⟩

/-- The claim C15 fails: `*` rejects an operand of unknown type on the left of a string,
and `+` rejects one on the right of null. -/
theorem unknown_operand_rejected :
    TokenType.MULTIPLY ∈ tableOperators ∧
      checkBinaryTypes TYPE_UNKNOWN TokenType.MULTIPLY TYPE_STRING = false ∧
      TokenType.PLUS ∈ tableOperators ∧
      checkBinaryTypes TYPE_NULL TokenType.PLUS TYPE_UNKNOWN = false := by decide

/-- The table of `checkBinaryTypes` for an operand of unknown type, over all operators but
`&&` and `||` and all unions of type bits. -/
theorem unknown_operand_all : ∀ op ∈ tableOperators, op ≠ TokenType.LOGICAL_AND →
    op ≠ TokenType.LOGICAL_OR → ∀ t ∈ typeUnions,
    (checkBinaryTypes TYPE_UNKNOWN op t = true ↔
      (bitsMeet t TYPE_UNKNOWN = true ∨
        ∃ b ∈ knownTypes, bitsMeet t b = true ∧
          ∃ a ∈ knownTypes, checkBinaryTypes a op b = true)) ∧
    (checkBinaryTypes t op TYPE_UNKNOWN = true ↔
      (bitsMeet t TYPE_UNKNOWN = true ∨
        ∃ a ∈ knownTypes, bitsMeet t a = true ∧
          ∃ b ∈ knownTypes, checkBinaryTypes a op b = true)) := by
  decide

/-- Claim C15, amended: for every operator of the table other than `&&` and `||`, a pair
with the type `UNKNOWN` on one side is accepted exactly when the type on the other side
holds `UNKNOWN` or a known type that the operator accepts on that side in some pair of
known types. -/
theorem unknown_operand_table (op : TokenType) (t : ExprType) (hop : op ∈ tableOperators)
    (hand : op ≠ TokenType.LOGICAL_AND) (hor : op ≠ TokenType.LOGICAL_OR)
    (ht : t ∈ typeUnions) :
    (checkBinaryTypes TYPE_UNKNOWN op t = true ↔
      (bitsMeet t TYPE_UNKNOWN = true ∨
        ∃ b ∈ knownTypes, bitsMeet t b = true ∧
          ∃ a ∈ knownTypes, checkBinaryTypes a op b = true)) ∧
    (checkBinaryTypes t op TYPE_UNKNOWN = true ↔
      (bitsMeet t TYPE_UNKNOWN = true ∨
        ∃ a ∈ knownTypes, bitsMeet t a = true ∧
          ∃ b ∈ knownTypes, checkBinaryTypes a op b = true)) :=
  unknown_operand_all op hop hand hor t ht

/-- The amended claim C15 at the operator `+` and a string: accepted on both sides of an
operand of unknown type. -/
theorem unknown_operand_table_witness :
    checkBinaryTypes TYPE_UNKNOWN TokenType.PLUS TYPE_STRING = true ∧
      checkBinaryTypes TYPE_STRING TokenType.PLUS TYPE_UNKNOWN = true :=
  ⟨(unknown_operand_table TokenType.PLUS TYPE_STRING (by decide) (by decide) (by decide)
      (by decide)).1.2 (Or.inr ⟨TYPE_STRING, by decide, by decide, TYPE_STRING, by decide,
        by decide⟩),
   (unknown_operand_table TokenType.PLUS TYPE_STRING (by decide) (by decide) (by decide)
      (by decide)).2.2 (Or.inr ⟨TYPE_STRING, by decide, by decide, TYPE_STRING, by decide,
        by decide⟩)⟩

set_option maxRecDepth 100000 in
/-- Claim C16, the run of the code: `+` on two strings and the arithmetic operators on
an INT and a FLOAT are accepted, and `getBinaryResultType` gives `UNKNOWN` for them, as
does `semanticExpression` on the tree of `"a" + "b"`; two FLOAT give FLOAT, two INT give
INT, and `*` on a string and an INT gives STRING. -/
theorem known_operands_unknown_result :
    (checkBinaryTypes TYPE_STRING TokenType.PLUS TYPE_STRING = true ∧
      getBinaryResultType TYPE_STRING TokenType.PLUS TYPE_STRING = TYPE_UNKNOWN) ∧
    [TokenType.PLUS, TokenType.MINUS, TokenType.DIVIDE, TokenType.MULTIPLY].all (fun op =>
      checkBinaryTypes TYPE_INT op TYPE_FLOAT &&
      getBinaryResultType TYPE_INT op TYPE_FLOAT == TYPE_UNKNOWN &&
      checkBinaryTypes TYPE_FLOAT op TYPE_INT &&
      getBinaryResultType TYPE_FLOAT op TYPE_INT == TYPE_UNKNOWN &&
      getBinaryResultType TYPE_FLOAT op TYPE_FLOAT == TYPE_FLOAT &&
      getBinaryResultType TYPE_INT op TYPE_INT == TYPE_INT) = true ∧
    getBinaryResultType TYPE_STRING TokenType.MULTIPLY TYPE_INT = TYPE_STRING ∧
    semanticExpression (some (plusTree (stringToken "a") (stringToken "b")))
        [TYPE_STRING, TYPE_STRING, TYPE_NULL] =
      Except.ok [TYPE_STRING, TYPE_STRING, TYPE_UNKNOWN] :=
  ⟨by decide, by decide, by decide, by decide!⟩

/-! ### No two tokens `EOL` in a row -/

/-- A choice between two results that keep the flag. -/
theorem keepsFlag_ite (sc : Scanner) (c : Prop) [Decidable c] (a b : Nat × Token × Scanner)
    (ha : c → KeepsFlag sc a) (hb : ¬c → KeepsFlag sc b) :
    KeepsFlag sc (if c then a else b) := by
  split
  · exact ha (by assumption)
  · exact hb (by assumption)

/-- The function `twoCharToken` keeps the flag. -/
theorem twoCharToken_flag (sc : Scanner) (token : Token) (c : Char) (two one : TokenType) :
    KeepsFlag sc (twoCharToken sc token c two one) := by
  unfold twoCharToken
  split
  · exact ⟨rfl, rfl⟩
  · split
    · exact ⟨rfl, rfl⟩
    · exact ⟨rfl, rfl⟩

/-- The function `processToken` keeps the flag. -/
theorem processToken_flag (c : Char) (sc : Scanner) (token : Token) :
    KeepsFlag sc (processToken c sc token) := by
  unfold processToken
  repeat' (first | (apply keepsFlag_ite <;> intro _) | split)
  all_goals first
    | exact twoCharToken_flag _ _ _ _ _
    | exact ⟨rfl, rfl⟩

/-- The loop of `getRawToken` keeps the flag. -/
theorem getRawTokenLoop_flag :
    ∀ (fuel : Nat) (sc : Scanner) (token : Token),
      KeepsFlag sc (getRawTokenLoop fuel sc token) := by
  intro fuel
  induction fuel with
  | zero => intro sc token; exact ⟨rfl, rfl⟩
  | succ fuel ih =>
    intro sc token
    unfold getRawTokenLoop
    repeat' (first
      | exact ih _ _
      | exact processToken_flag _ _ _
      | (apply keepsFlag_ite <;> intro _)
      | split)
    all_goals exact ⟨rfl, rfl⟩

set_option maxRecDepth 100000 in
/-- The claim C18 fails on the deferred list of a program: in `a = b + p` the identifier
`b` keeps the type INT in the first run, because no symbol `b` is visible; the deferred
assignment `b = p` later in the list then creates the symbol `b` with the type `UNKNOWN`,
and the second run gives this type to the node of the identifier (node 12). -/
theorem second_run_changes_type :
    resolveTwice runFuel reassignProgram.data =
      Except.ok
        ([1, 16, 1, 1, 1, 16, 2, 2, 2, 16, 1, 1, 2, 1, 1, 1, 1, 1, 16, 1, 1],
         [1, 16, 1, 1, 1, 16, 2, 2, 2, 16, 1, 1, 1, 1, 1, 1, 1, 1, 16, 1, 1]) := by
  decide!

/-- The type of a node after an assignment to another node. -/
theorem typeOf_set (types : List ExprType) (i : Nat) (v : ExprType) (a : AstNode)
    (h : a.id ≠ i) : typeOf (types.set i v) a = typeOf types a := by
  unfold typeOf
  simp only [List.getD_eq_getElem?_getD]
  rw [List.getElem?_set_ne (fun e => h e.symm)]

/-- The type of a node after assignments to other nodes. -/
theorem typeOf_setTypes (a : AstNode) :
    ∀ (ops : List (Nat × ExprType)) (types : List ExprType),
      (∀ op ∈ ops, a.id ≠ op.1) → typeOf (setTypes types ops) a = typeOf types a := by
  intro ops
  induction ops with
  | nil => intro types _; rfl
  | cons op rest ih =>
    intro types h
    show typeOf (setTypes (types.set op.1 op.2) rest) a = _
    rw [ih _ (fun o ho => h o (List.mem_cons_of_mem _ ho)),
      typeOf_set _ _ _ _ (h op (List.mem_cons_self _ _))]

/-- An assignment to a node before a list of assignments that ends with an assignment to
the same node has no effect. -/
theorem setTypes_absorb (i : Nat) (v : ExprType) :
    ∀ (ops : List (Nat × ExprType)) (types : List ExprType) (w : ExprType),
      (setTypes (types.set i w) ops).set i v = (setTypes types ops).set i v := by
  intro ops
  induction ops with
  | nil => intro types w; exact List.set_set _ _ _ _
  | cons op rest ih =>
    intro types w
    show (setTypes ((types.set i w).set op.1 op.2) rest).set i v =
      (setTypes (types.set op.1 op.2) rest).set i v
    by_cases e : i = op.1
    · rw [← e, List.set_set]
    · rw [List.set_comm _ _ _ e, ih]

/-- The assignments of a list, done a second time, change nothing. -/
theorem setTypes_twice :
    ∀ (ops : List (Nat × ExprType)) (types : List ExprType),
      setTypes (setTypes types ops) ops = setTypes types ops := by
  intro ops
  induction ops using List.reverseRecOn with
  | nil => intro types; rfl
  | append_singleton rest op ih =>
    intro types
    have hs : ∀ t : List ExprType, setTypes t (rest ++ [op]) = (setTypes t rest).set op.1 op.2 := by
      intro t
      simp [setTypes, List.foldl_append]
    rw [hs types, hs, setTypes_absorb, ih]

/-- The loop of `checkFunctionCallNode` over the arguments reads the types of the
arguments only. -/
theorem checkArgTypes_agree (types types2 : List ExprType) (paramTypes : List ExprType) :
    ∀ (items : List AstNode) (i n : Nat),
      (∀ a ∈ items, typeOf types2 a = typeOf types a) →
      checkArgTypes types2 paramTypes i n items = checkArgTypes types paramTypes i n items := by
  intro items
  induction items with
  | nil =>
    intro i n _
    cases n <;> simp [checkArgTypes]
  | cons a rest ih =>
    intro i n h
    cases n with
    | zero => simp [checkArgTypes]
    | succ n =>
      simp only [checkArgTypes]
      rw [h a (List.mem_cons_self _ _), ih _ _ (fun b hb => h b (List.mem_cons_of_mem _ hb))]

/-- The function `checkFunctionCallNode` on a call: when it returns, it has assigned a type
to the node of the call, and on a store with the same types of the arguments it assigns
the same type. -/
theorem checkFunctionCallNode_set (i : Nat) (tok : Token) (l r : Option AstNode)
    (stack : SymTableStack) (types types1 : List ExprType)
    (h : checkFunctionCallNode (.bin i AstNodeType.AST_FUN_CALL tok l r) stack types =
      Except.ok types1) :
    ∃ v, types1 = types.set i v ∧
      ∀ types2 : List ExprType,
        (∀ a ∈ callArgs (.bin i AstNodeType.AST_FUN_CALL tok l r),
          typeOf types2 a = typeOf types a) →
        checkFunctionCallNode (.bin i AstNodeType.AST_FUN_CALL tok l r) stack types2 =
          Except.ok (types2.set i v) := by
  simp only [checkFunctionCallNode] at h
  replace h := bind_ok _ _ _ h
  obtain ⟨name, hname, h⟩ := h
  replace h := bind_ok _ _ _ h
  obtain ⟨argc, hargc, h⟩ := h
  cases hf : findFunctionExact stack name argc with
  | some exact =>
    rw [hf] at h
    replace h := bind_ok _ _ _ h
    obtain ⟨u, hu, h⟩ := h
    refine ⟨(symAt stack.mem exact).expressionType, (Except.ok.inj h).symm, fun types2 hag => ?_⟩
    simp only [checkFunctionCallNode, hname, bind, Except.bind, hargc, hf]
    rcases r with _ | n
    · rfl
    · rcases n with ⟨_, _, _⟩ | ⟨_, _, _, _, _⟩ | ⟨_, _, _, items⟩
      · simp at hu
      · simp at hu
      · simp only [callArgs] at hag
        simp only at hu ⊢
        rw [checkArgTypes_agree _ _ _ _ _ _ hag, hu]
        rfl
  | none =>
    rw [hf] at h
    replace h := bind_ok _ _ _ h
    obtain ⟨getter, hg, h⟩ := h
    cases getter with
    | some g =>
      simp only at h
      by_cases hz : (argc != 0) = true
      · rw [if_pos hz] at h
        cases h
      · rw [if_neg hz] at h
        refine ⟨(symAt stack.mem g).expressionType, (Except.ok.inj h).symm, fun types2 _ => ?_⟩
        simp only [checkFunctionCallNode, hname, bind, Except.bind, hargc, hf, hg, if_neg hz]
        rfl
    | none =>
      simp only at h
      replace h := bind_ok _ _ _ h
      obtain ⟨setter, hs, h⟩ := h
      cases setter with
      | some s => cases h
      | none =>
        simp only at h
        replace h := bind_ok _ _ _ h
        obtain ⟨ov, ho, h⟩ := h
        cases ov <;> cases h

/-- The function `resolveRecursive` on a node of a call. -/
theorem resolveRecursive_call (n : AstNode) (hn : n.type = AstNodeType.AST_FUN_CALL)
    (stack : SymTableStack) (types : List ExprType) :
    resolveRecursive (some n) stack types =
      match checkFunctionCallNode n stack types with
      | Except.error e => Except.error e
      | Except.ok types1 => Except.ok (types1, stack) := by
  cases n with
  | leaf i t tok =>
    simp only [AstNode.type] at hn
    subst hn
    simp [resolveRecursive, checkFunctionCallNode]
  | list i t tok items =>
    simp only [AstNode.type] at hn
    subst hn
    simp [resolveRecursive, checkFunctionCallNode]
  | bin i t tok l r =>
    simp only [AstNode.type] at hn
    subst hn
    rw [resolveRecursive]

/-- The later pass on a list of calls leaves the scope stack as it is and assigns a type
to the node of every call; on a store with the same types of the arguments it assigns the
same types. -/
theorem resolve_calls :
    ∀ (calls : List AstNode) (stack stack1 : SymTableStack) (types types1 : List ExprType),
      (∀ n ∈ calls, n.type = AstNodeType.AST_FUN_CALL) →
      semanticResolveCheckLater calls stack types = Except.ok (types1, stack1) →
      stack1 = stack ∧ ∃ ops : List (Nat × ExprType),
        (∀ op ∈ ops, ∃ n ∈ calls, op.1 = n.id) ∧ types1 = setTypes types ops ∧
        ∀ types2 : List ExprType,
          (∀ n ∈ calls, ∀ a ∈ callArgs n, typeOf types2 a = typeOf types a) →
          (∀ n ∈ calls, ∀ m ∈ calls, ∀ a ∈ callArgs m, a.id ≠ n.id) →
          semanticResolveCheckLater calls stack types2 =
            Except.ok (setTypes types2 ops, stack) := by
  intro calls
  induction calls with
  | nil =>
    intro stack stack1 types types1 _ h
    simp only [semanticResolveCheckLater, Except.ok.injEq, Prod.mk.injEq] at h
    exact ⟨h.2.symm, [], fun _ ho => (by cases ho), h.1.symm, fun _ _ _ => rfl⟩
  | cons n rest ih =>
    intro stack stack1 types types1 hcalls h
    have hn := hcalls n (List.mem_cons_self _ _)
    rw [semanticResolveCheckLater, resolveRecursive_call n hn] at h
    cases hc : checkFunctionCallNode n stack types with
    | error e => rw [hc] at h; cases h
    | ok t1 =>
      rw [hc] at h
      simp only at h
      cases n with
      | leaf i t tok =>
        simp only [AstNode.type] at hn
        subst hn
        simp [checkFunctionCallNode] at hc
      | list i t tok items =>
        simp only [AstNode.type] at hn
        subst hn
        simp [checkFunctionCallNode] at hc
      | bin i t tok l r =>
        simp only [AstNode.type] at hn
        subst hn
        obtain ⟨v, hv, hsame⟩ := checkFunctionCallNode_set i tok l r stack types t1 hc
        obtain ⟨hs, ops, hops, ht, hrun⟩ := ih stack stack1 t1 types1
          (fun m hm => hcalls m (List.mem_cons_of_mem _ hm)) h
        refine ⟨hs, (i, v) :: ops, ?_, ?_, ?_⟩
        · intro op ho
          rcases List.mem_cons.1 ho with e | e
          · exact ⟨_, List.mem_cons_self _ _, by rw [e]; rfl⟩
          · obtain ⟨m, hm, hid⟩ := hops op e
            exact ⟨m, List.mem_cons_of_mem _ hm, hid⟩
        · rw [ht, hv]
          rfl
        · intro types2 hag hsep
          rw [semanticResolveCheckLater,
            resolveRecursive_call (.bin i AstNodeType.AST_FUN_CALL tok l r) rfl,
            hsame types2 (hag _ (List.mem_cons_self _ _))]
          simp only
          have hne : ∀ m ∈ rest, ∀ a ∈ callArgs m, a.id ≠ i := fun m hm a ha =>
            hsep _ (List.mem_cons_self _ _) m (List.mem_cons_of_mem _ hm) a ha
          rw [hrun (types2.set i v)
            (fun m hm a ha => by
              rw [hv, typeOf_set _ _ _ _ (hne m hm a ha), typeOf_set _ _ _ _ (hne m hm a ha)]
              exact hag m (List.mem_cons_of_mem _ hm) a ha)
            (fun m hm m2 hm2 a ha =>
              hsep m (List.mem_cons_of_mem _ hm) m2 (List.mem_cons_of_mem _ hm2) a ha)]
          rfl

/-- Claim C18, amended: for a deferred list that holds nodes of calls only, none of them
an argument of a call of the list, and every store of types and scope stack on which
`semanticResolveCheckLater` returns, a second run on the result returns as well and leaves
the expression type of every node, and the scope stack, as they are. -/
theorem second_run_of_calls (calls : List AstNode) (stack stack1 : SymTableStack)
    (types types1 : List ExprType)
    (hcalls : ∀ n ∈ calls, n.type = AstNodeType.AST_FUN_CALL)
    (hsep : ∀ n ∈ calls, ∀ m ∈ calls, ∀ a ∈ callArgs m, a.id ≠ n.id)
    (h : semanticResolveCheckLater calls stack types = Except.ok (types1, stack1)) :
    semanticResolveCheckLater calls stack1 types1 = Except.ok (types1, stack1) := by
  obtain ⟨hs, ops, hops, ht, hrun⟩ := resolve_calls calls stack stack1 types types1 hcalls h
  subst hs
  have h2 := hrun types1
    (fun m hm a ha => by
      rw [ht]
      refine typeOf_setTypes a ops types (fun op ho => ?_)
      obtain ⟨n, hn, hid⟩ := hops op ho
      rw [hid]
      exact hsep n hn m hm a ha)
    hsep
  rw [h2, ht, setTypes_twice]

/-- The amended claim C18 on a list with the call `f()`, over a scope stack that holds
the function `f` without parameters: the first run gives the type of `f` to the node of
the call, and the second run returns the same store. -/
theorem second_run_of_calls_witness :
    semanticResolveCheckLater [callNode 6 7 (identifierToken "f") Token.zero []]
        oneFunctionStack (List.replicate 10 TYPE_NULL) =
      Except.ok ((List.replicate 10 TYPE_NULL).set 6 TYPE_UNKNOWN, oneFunctionStack) ∧
    semanticResolveCheckLater [callNode 6 7 (identifierToken "f") Token.zero []]
        oneFunctionStack ((List.replicate 10 TYPE_NULL).set 6 TYPE_UNKNOWN) =
      Except.ok ((List.replicate 10 TYPE_NULL).set 6 TYPE_UNKNOWN, oneFunctionStack) :=
  have h1 : semanticResolveCheckLater [callNode 6 7 (identifierToken "f") Token.zero []]
        oneFunctionStack (List.replicate 10 TYPE_NULL) =
      Except.ok ((List.replicate 10 TYPE_NULL).set 6 TYPE_UNKNOWN, oneFunctionStack) := by
    decide!
  ⟨h1, second_run_of_calls _ _ _ _ _
    (fun n hn => by rw [List.mem_singleton.1 hn]; rfl)
    (fun n hn m hm a ha => by
      rw [List.mem_singleton.1 hm] at ha
      cases ha)
    h1⟩

/-! ### The declaration of a function -/

/-- The probing of `scopeDoubleCapacity` finds a null entry that lies within its rounds. -/
theorem probeNull_total (table : List Slot) :
    ∀ (d idx : Nat), table.getD ((idx + d) % table.length) Slot.null = Slot.null →
      idx < table.length → ∀ fuel, d < fuel → ∃ t, probeNull fuel table idx = some t := by
  intro d
  induction d with
  | zero =>
    intro idx hnull hidx fuel hf
    cases fuel with
    | zero => omega
    | succ f =>
      rw [Nat.add_zero, Nat.mod_eq_of_lt hidx] at hnull
      exact ⟨idx, by rw [probeNull, if_pos hnull]⟩
  | succ d ih =>
    intro idx hnull hidx fuel hf
    cases fuel with
    | zero => omega
    | succ f =>
      rw [probeNull]
      by_cases h0 : table.getD idx Slot.null = Slot.null
      · exact ⟨idx, by rw [if_pos h0]⟩
      · rw [if_neg h0]
        have hlen : 0 < table.length := by omega
        refine ih ((idx + 1) % table.length) ?_ (Nat.mod_lt _ hlen) f (by omega)
        rw [Nat.mod_add_mod]
        have e : idx + 1 + d = idx + (d + 1) := by omega
        rw [e]
        exact hnull

/-- The loop of `scopeDoubleCapacity` ends: every old entry finds a null entry in the new
table. -/
theorem rehashInto_some (mem : List Symbol) :
    ∀ (l nt : List Slot),
      TableOK mem { symbols := nt, size := nt.length, currentSize := symCount nt } →
      symCount nt + symCount l < nt.length →
      (∀ a, Slot.sym a ∈ l → a < mem.length) →
      l.Pairwise (fun s s2 => ∀ a b, s = Slot.sym a → s2 = Slot.sym b →
        (symAt mem a).name ≠ (symAt mem b).name) →
      (∀ a b, Slot.sym a ∈ nt → Slot.sym b ∈ l → (symAt mem a).name ≠ (symAt mem b).name) →
      ∃ res, rehashInto mem l nt = some res := by
  intro l
  induction l with
  | nil => intro nt _ _ _ _ _; exact ⟨nt, rfl⟩
  | cons s rest ih =>
    intro nt hok hroom haddr hpair hcross
    have hpair2 := List.pairwise_cons.mp hpair
    cases s with
    | null =>
      simp only [rehashInto]
      exact ih nt hok (by simpa [symCount] using hroom)
        (fun a ha => haddr a (List.mem_cons_of_mem _ ha)) hpair2.2
        (fun a b ha hb => hcross a b ha (List.mem_cons_of_mem _ hb))
    | tombstone =>
      simp only [rehashInto]
      exact ih nt hok (by simpa [symCount] using hroom)
        (fun a ha => haddr a (List.mem_cons_of_mem _ ha)) hpair2.2
        (fun a b ha hb => hcross a b ha (List.mem_cons_of_mem _ hb))
    | sym a =>
      simp only [rehashInto]
      have hlen : 0 < nt.length := by omega
      have hh : getHash (symAt mem a).name nt.length < nt.length := by
        unfold getHash
        exact Nat.mod_lt _ hlen
      obtain ⟨d0, hd0, hnull0, _⟩ := first_null mem _ (getHash (symAt mem a).name nt.length) hok
      obtain ⟨idx, hp⟩ := probeNull_total nt d0 _ hnull0 hh (nt.length + 1)
        (by have : d0 < nt.length := hd0; omega)
      rw [hp]
      simp only
      obtain ⟨d, hd, hnull, hbefore⟩ := probeNull_some nt _ _ idx hh hp
      have hdlt : d < nt.length := first_null_lt nt _ d hlen (by rw [hd]; exact hnull) hbefore
      have hidx : idx < nt.length := by rw [← hd]; exact Nat.mod_lt _ hlen
      have hins := tableOK_insert mem
        { symbols := nt, size := nt.length, currentSize := symCount nt } a d hok
        (haddr a (List.mem_cons_self _ _))
        (by show symCount nt + 1 < nt.length; simp only [symCount] at hroom; omega) hdlt
        (by simp only; rw [hd]; exact hnull) hbefore
        (fun p b hpb => hcross b a (mem_of_getD_sym _ _ _ hpb) (List.mem_cons_self _ _))
      simp only [hd] at hins
      have hcnt : symCount (nt.set idx (Slot.sym a)) = symCount nt + 1 :=
        symCount_set nt idx a hidx hnull
      have hok2 : TableOK mem
          { symbols := nt.set idx (Slot.sym a), size := (nt.set idx (Slot.sym a)).length,
            currentSize := symCount (nt.set idx (Slot.sym a)) } := by
        rw [List.length_set, hcnt]
        exact hins
      exact ih (nt.set idx (Slot.sym a)) hok2
        (by rw [List.length_set, hcnt]; simp only [symCount] at hroom; omega)
        (fun b hb => haddr b (List.mem_cons_of_mem _ hb)) hpair2.2
        (fun c b hc hb => by
          rcases (mem_set_null nt idx a c hidx hnull).mp hc with h | h
          · subst h
            exact hpair2.1 _ hb c b rfl rfl
          · exact hcross c b h (List.mem_cons_of_mem _ hb))

/-- The function `scopeDoubleCapacity` returns on a scope in the kept state. -/
theorem scopeDoubleCapacity_some (mem : List Symbol) (sc : Scope) (hok : TableOK mem sc) :
    ∃ sc2, scopeDoubleCapacity mem sc = some sc2 := by
  obtain ⟨hsize, hcur, htomb, hcount, hchain, hdup⟩ := hok
  have hempty := tableOK_empty mem (sc.size * 2) (by omega)
  have hpair : sc.symbols.Pairwise (fun s s2 => ∀ a b, s = Slot.sym a → s2 = Slot.sym b →
      (symAt mem a).name ≠ (symAt mem b).name) := by
    rw [List.pairwise_iff_getElem]
    intro i j hi hj hij a b ha hb hab
    have hp : sc.symbols.getD i Slot.null = Slot.sym a := by
      rw [List.getD_eq_getElem _ _ hi, ha]
    have hq : sc.symbols.getD j Slot.null = Slot.sym b := by
      rw [List.getD_eq_getElem _ _ hj, hb]
    have := hdup i j a b hp hq hab
    omega
  obtain ⟨res, hres⟩ := rehashInto_some mem sc.symbols
    (List.replicate (sc.size * 2) Slot.null)
    (by simpa [symCount_replicate_null] using hempty)
    (by simp [symCount_replicate_null]; omega)
    (fun a ha => by
      obtain ⟨p, hp⟩ := mem_sym_getD _ _ ha
      exact (hchain p a hp).1)
    hpair
    (fun a b ha => absurd (List.eq_of_mem_replicate ha) (by simp))
  exact ⟨_, by rw [scopeDoubleCapacity, hres]⟩

/-- The function `scopeAddSymbol` returns on a scope in the kept state. -/
theorem scopeAddSymbol_total (mem : List Symbol) (sc : Scope) (sym : Nat)
    (hok : TableOK mem sc) :
    ∃ code sc2 mem2, scopeAddSymbol sc sym mem = Except.ok (code, sc2, mem2) := by
  unfold scopeAddSymbol
  simp only
  by_cases hl : loadExceeded sc.currentSize sc.size = true
  · obtain ⟨sc1, h1⟩ := scopeDoubleCapacity_some mem sc hok
    simp only [hl, if_true, h1]
    exact ⟨_, _, _, rfl⟩
  · have hl2 : loadExceeded sc.currentSize sc.size = false := by simpa using hl
    simp only [hl2, Bool.false_eq_true, if_false]
    exact ⟨_, _, _, rfl⟩

/-- The search in a scope in the kept state reads the names only: it gives the same in a
memory that has grown and kept the names. -/
theorem scopeFindSymbol_names (mem mem2 : List Symbol) (sc : Scope) (X : String)
    (hok : TableOK mem sc) (hlen : mem.length ≤ mem2.length)
    (hnames : ∀ a, a < mem.length → (symAt mem2 a).name = (symAt mem a).name) :
    scopeFindSymbol mem2 sc X = scopeFindSymbol mem sc X := by
  have hok2 := tableOK_mem mem mem2 sc hok hlen hnames
  have key : ∀ c, scopeFindSymbol mem2 sc X = some c ↔ scopeFindSymbol mem sc X = some c := by
    intro c
    rw [scopeFindSymbol_iff _ _ _ _ hok2, scopeFindSymbol_iff _ _ _ _ hok]
    constructor
    · rintro ⟨p, hp, hn⟩
      exact ⟨p, hp, by rw [← hnames c (hok.2.2.2.2.1 p c hp).1]; exact hn⟩
    · rintro ⟨p, hp, hn⟩
      exact ⟨p, hp, by rw [hnames c (hok.2.2.2.2.1 p c hp).1]; exact hn⟩
  cases h2 : scopeFindSymbol mem2 sc X with
  | none =>
    cases h1 : scopeFindSymbol mem sc X with
    | none => rfl
    | some c => rw [(key c).2 h1] at h2; cases h2
  | some c => exact ((key c).1 h2).symm

/-- A value bound to a function is the function applied to it. -/
theorem ok_bind {α β : Type} (a : α) (f : α → Except Err β) : (Except.ok a >>= f) = f a := rfl

/-- The function `parseFunDec` is its three parts one after the other. -/
theorem parseFunDec_parts (fuel : Nat) (p : Parser) :
    parseFunDec fuel p =
      (parseFunDecHead fuel p >>= fun x =>
        declareFunction x.1 x.2 >>= fun y => parseFunDecBody fuel x.1 y.1 y.2) := by
  simp only [parseFunDec, parseFunDecHead, declareFunction, parseFunDecBody, bind_assoc,
    ok_bind, symbolKindOf]

/-- The function `parserAdvance` leaves the scope stack as it is. -/
theorem parserAdvance_symStack (p q : Parser) (h : parserAdvance p = Except.ok q) :
    q.symStack = p.symStack := by
  unfold parserAdvance at h
  split at h
  split at h
  · cases h
  · split at h
    · cases h
    · cases h
      rfl

/-- The function `parserLookAhead` leaves the scope stack as it is. -/
theorem parserLookAhead_symStack (p q : Parser) (h : parserLookAhead p = Except.ok q) :
    q.symStack = p.symStack := by
  unfold parserLookAhead at h
  split at h
  split at h
  · cases h
  · split at h
    · cases h
    · cases h
      rfl

/-- The function `astCreateNode` leaves the scope stack as it is. -/
theorem astCreateNode_symStack (p : Parser) (t : AstNodeType) :
    (astCreateNode p t).2.symStack = p.symStack := by
  unfold astCreateNode
  cases t <;> rfl

/-- The loop of `parseParams` leaves the scope stack as it is. -/
theorem parseParamsLoop_symStack :
    ∀ (fuel : Nat) (p q : Parser) (acc items : List AstNode),
      parseParamsLoop fuel p acc = Except.ok (items, q) → q.symStack = p.symStack := by
  intro fuel
  induction fuel with
  | zero => intro p q acc items h; simp [parseParamsLoop] at h
  | succ fuel ih =>
    intro p q acc items h
    unfold parseParamsLoop at h
    replace h := bind_ok _ _ _ h
    obtain ⟨p1, hp1, h⟩ := h
    replace h := bind_ok _ _ _ h
    obtain ⟨p2, hp2, h⟩ := h
    obtain ⟨e2, _⟩ := parserValidate_eq _ _ _ hp2
    subst e2
    dsimp only at h
    replace h := bind_ok _ _ _ h
    obtain ⟨p4, hp4, h⟩ := h
    have h4 : p4.symStack = p.symStack := by
      rw [parserLookAhead_symStack _ _ hp4, astCreateNode_symStack,
        parserAdvance_symStack _ _ hp1]
    by_cases c1 : p4.lookAhead.type = TokenType.COMMA
    · rw [if_pos c1] at h
      replace h := bind_ok _ _ _ h
      obtain ⟨p5, hp5, h⟩ := h
      replace h := bind_ok _ _ _ h
      obtain ⟨p6, hp6, h⟩ := h
      rw [ih _ _ _ _ h, parserLookAhead_symStack _ _ hp6, parserAdvance_symStack _ _ hp5, h4]
    · rw [if_neg c1] at h
      by_cases c2 : p4.lookAhead.type = TokenType.RPAR
      · rw [if_pos c2] at h
        replace h := bind_ok _ _ _ h
        obtain ⟨p5, hp5, h⟩ := h
        replace h := bind_ok _ _ _ h
        obtain ⟨p6, hp6, h⟩ := h
        obtain ⟨e6, _⟩ := parserValidate_eq _ _ _ hp6
        subst e6
        cases h
        rw [parserAdvance_symStack _ _ hp5, h4]
      · rw [if_neg c2] at h
        cases h

/-- The function `parseParams` leaves the scope stack as it is. -/
theorem parseParams_symStack (fuel : Nat) (p q : Parser) (n : AstNode)
    (h : parseParams fuel p = Except.ok (n, q)) : q.symStack = p.symStack := by
  unfold parseParams at h
  dsimp only at h
  replace h := bind_ok _ _ _ h
  obtain ⟨p2, hp2, h⟩ := h
  replace h := bind_ok _ _ _ h
  obtain ⟨p3, hp3, h⟩ := h
  obtain ⟨e3, _⟩ := parserValidate_eq _ _ _ hp3
  subst e3
  replace h := bind_ok _ _ _ h
  obtain ⟨p4, hp4, h⟩ := h
  have h4 : p4.symStack = p.symStack := by
    rw [parserLookAhead_symStack _ _ hp4, parserAdvance_symStack _ _ hp2,
      astCreateNode_symStack]
  by_cases c1 : p4.lookAhead.type = TokenType.RPAR
  · rw [if_pos c1] at h
    replace h := bind_ok _ _ _ h
    obtain ⟨p5, hp5, h⟩ := h
    replace h := bind_ok _ _ _ h
    obtain ⟨p6, hp6, h⟩ := h
    obtain ⟨e6, _⟩ := parserValidate_eq _ _ _ hp6
    subst e6
    cases h
    rw [parserAdvance_symStack _ _ hp5, h4]
  · rw [if_neg c1] at h
    replace h := bind_ok _ _ _ h
    obtain ⟨x, hx, h⟩ := h
    obtain ⟨items, p5⟩ := x
    cases h
    rw [parseParamsLoop_symStack _ _ _ _ _ hx, h4]

/-- The first part of `parseFunDec` leaves the scope stack as it is. -/
theorem parseFunDecHead_symStack (fuel : Nat) (p p7 : Parser) (hd : FunHeader)
    (h : parseFunDecHead fuel p = Except.ok (hd, p7)) : p7.symStack = p.symStack := by
  unfold parseFunDecHead at h
  replace h := bind_ok _ _ _ h
  obtain ⟨p1, hp1, h⟩ := h
  replace h := bind_ok _ _ _ h
  obtain ⟨p2, hp2, h⟩ := h
  obtain ⟨e2, _⟩ := parserValidate_eq _ _ _ hp2
  subst e2
  replace h := bind_ok _ _ _ h
  obtain ⟨p3, hp3, h⟩ := h
  replace h := bind_ok _ _ _ h
  obtain ⟨p4, hp4, h⟩ := h
  obtain ⟨e4, _⟩ := parserValidate_eq _ _ _ hp4
  subst e4
  dsimp only at h
  replace h := bind_ok _ _ _ h
  obtain ⟨p6, hp6, h⟩ := h
  have h6 : p6.symStack = p.symStack := by
    rw [parserLookAhead_symStack _ _ hp6, astCreateNode_symStack,
      parserAdvance_symStack _ _ hp3, parserAdvance_symStack _ _ hp1]
  replace h := bind_ok _ _ _ h
  obtain ⟨x, hx, h⟩ := h
  obtain ⟨type, left, q7⟩ := x
  dsimp only at h
  replace h := bind_ok _ _ _ h
  obtain ⟨k, hk, h⟩ := h
  replace h := bind_ok _ _ _ h
  obtain ⟨name, hname, h⟩ := h
  cases h
  by_cases c1 : p6.lookAhead.type = TokenType.LPAR
  · rw [if_pos c1] at hx
    cases hpp : parseParams fuel p6 with
    | error e => rw [hpp] at hx; cases hx
    | ok r =>
      obtain ⟨params, q⟩ := r
      rw [hpp] at hx
      cases hx
      rw [parseParams_symStack _ _ _ _ hpp, h6]
  · rw [if_neg c1] at hx
    by_cases c2 : p6.lookAhead.type = TokenType.ASSIGN
    · rw [if_pos c2] at hx
      replace hx := bind_ok _ _ _ hx
      obtain ⟨q1, hq1, hx⟩ := hx
      replace hx := bind_ok _ _ _ hx
      obtain ⟨r, hr, hx⟩ := hx
      obtain ⟨params, q2⟩ := r
      dsimp only at hx
      replace hx := bind_ok _ _ _ hx
      obtain ⟨pc, hpc, hx⟩ := hx
      by_cases c3 : (pc != 1) = true
      · rw [if_pos c3] at hx
        cases hx
      · rw [if_neg c3] at hx
        cases hx
        rw [parseParams_symStack _ _ _ _ hr, parserAdvance_symStack _ _ hq1, h6]
    · rw [if_neg c2] at hx
      by_cases c3 : p6.lookAhead.type = TokenType.LCURLY
      · rw [if_pos c3] at hx
        cases hx
        exact h6
      · rw [if_neg c3] at hx
        cases hx

/-- The search in the global scope gives the same after an allocation. -/
theorem globalFind_alloc_eq (s : SymTableStack) (x : Symbol) (X : String) (hg : GlobalOK s) :
    globalFind (allocSymbol s x).2 X = globalFind s X := by
  obtain ⟨g, rest, hs, hok, _⟩ := hg
  have e := scopeFindSymbol_names s.mem (s.mem ++ [x]) g X hok (by simp)
    (fun a ha => by rw [symAt_append _ _ _ ha])
  simpa [globalFind, allocSymbol, hs] using e

/-- The second part of `parseFunDec` on a global scope in the kept state, with one scope
on the stack: a declared symbol of the name ends the run with the code 4, and otherwise
the part returns and the global scope holds a declared symbol of the name. -/
theorem declareFunction_spec (h : FunHeader) (p7 : Parser)
    (hg : GlobalOK p7.symStack) (hone : p7.symStack.scopes.length = 1)
    (hk : ∀ a, globalFind p7.symStack (mangledName h) = some a →
      (symAt p7.symStack.mem a).numOfParams = h.paramsCount) :
    (DeclaredIn p7.symStack (mangledName h) →
      declareFunction h p7 = Except.error (Err.exit SEM_REDEF)) ∧
    (¬DeclaredIn p7.symStack (mangledName h) →
      ∃ sym p9, declareFunction h p7 = Except.ok (sym, p9) ∧
        DeclaredIn p9.symStack (mangledName h)) := by
  have hfound : symTableStackFindSymbol
      (allocSymbol p7.symStack
        (symbolCreate h.name TYPE_NULL (symbolKindOf h.type) h.paramsCount)).2
      (symAt (allocSymbol p7.symStack
        (symbolCreate h.name TYPE_NULL (symbolKindOf h.type) h.paramsCount)).2.mem
        (allocSymbol p7.symStack
          (symbolCreate h.name TYPE_NULL (symbolKindOf h.type) h.paramsCount)).1).name =
      globalFind p7.symStack (mangledName h) := by
    have hn : (symAt (allocSymbol p7.symStack
        (symbolCreate h.name TYPE_NULL (symbolKindOf h.type) h.paramsCount)).2.mem
        (allocSymbol p7.symStack
          (symbolCreate h.name TYPE_NULL (symbolKindOf h.type) h.paramsCount)).1).name =
        mangledName h := by
      show (symAt (p7.symStack.mem ++ [_]) p7.symStack.mem.length).name = _
      rw [symAt_append_self]
      rfl
    rw [hn, find_single _ _ (by exact hone), globalFind_alloc_eq _ _ _ hg]
  obtain ⟨g, rest, hs, hok, hdecl⟩ := hg
  have hlt : ∀ c, globalFind p7.symStack (mangledName h) = some c → c < p7.symStack.mem.length := by
    intro c hc
    have hfa : scopeFindSymbol p7.symStack.mem g (mangledName h) = some c := by
      simpa [globalFind, hs] using hc
    obtain ⟨hin, _⟩ := scopeFindSymbol_some _ _ _ _ hfa
    obtain ⟨p, hp⟩ := mem_sym_getD _ _ hin
    exact (hok.2.2.2.2.1 p c hp).1
  unfold declareFunction
  dsimp only
  rw [hfound]
  constructor
  · rintro ⟨a, ha, hd⟩
    rw [ha]
    have e : symAt (allocSymbol p7.symStack
        (symbolCreate h.name TYPE_NULL (symbolKindOf h.type) h.paramsCount)).2.mem a =
        symAt p7.symStack.mem a := symAt_append _ _ _ (hlt a ha)
    simp only [e, hk a ha, hd, and_self, if_true]
    rfl
  · intro hnd
    have hok1 : TableOK (p7.symStack.mem ++
        [symbolCreate h.name TYPE_NULL (symbolKindOf h.type) h.paramsCount]) g :=
      tableOK_mem p7.symStack.mem _ g hok (by simp) (fun b hb => by rw [symAt_append _ _ _ hb])
    cases hf : globalFind p7.symStack (mangledName h) with
    | none =>
      dsimp only
      obtain ⟨code, g1, mem1, hadd⟩ := scopeAddSymbol_total _ g p7.symStack.mem.length hok1
      have hsa : scopeAddAt (allocSymbol p7.symStack
            (symbolCreate h.name TYPE_NULL (symbolKindOf h.type) h.paramsCount)).2 0
          (allocSymbol p7.symStack
            (symbolCreate h.name TYPE_NULL (symbolKindOf h.type) h.paramsCount)).1 =
          Except.ok { (allocSymbol p7.symStack
            (symbolCreate h.name TYPE_NULL (symbolKindOf h.type) h.paramsCount)).2 with
            mem := mem1, scopes := p7.symStack.scopes.set 0 g1 } := by
        unfold scopeAddAt allocSymbol
        simp only [List.get?_eq_getElem?, hs, List.getElem?_cons_zero, hadd]
      rw [hsa]
      refine ⟨_, _, rfl, p7.symStack.mem.length, ?_, ?_⟩
      · obtain ⟨hok2, hcase⟩ := scopeAddSymbol_ok _ _ _ _ _ _ hok1 (by simp) hadd
        have hok3 : TableOK (memUpdate mem1 p7.symStack.mem.length setDeclared) g1 :=
          tableOK_mem _ _ _ hok2 (by rw [length_memUpdate])
            (fun b hb => ((memKeep_declare (fun _ => True) mem1 p7.symStack.mem.length).2 b hb).1)
        rcases hcase with ⟨_, hmem, hm⟩ | ⟨b, hb, hbn, _, _⟩
        · obtain ⟨q, hq⟩ := mem_sym_getD _ _ ((hm p7.symStack.mem.length).mpr (Or.inl rfl))
          have hlen1 : p7.symStack.mem.length < mem1.length := by
            rw [hmem]
            simp
          have hfind := (scopeFindSymbol_iff _ g1 (mangledName h) p7.symStack.mem.length
            hok3).mpr ⟨q, hq, by
              rw [symAt_declare _ _ hlen1, hmem, symAt_append_self]
              rfl⟩
          simpa [globalFind, Parser.updSym, hs] using hfind
        · exfalso
          obtain ⟨q, hq⟩ := mem_sym_getD _ _ hb
          have hbl : b < p7.symStack.mem.length := (hok.2.2.2.2.1 q b hq).1
          rw [symAt_append _ _ _ hbl, symAt_append_self] at hbn
          have := (scopeFindSymbol_iff _ g (mangledName h) b hok).mpr ⟨q, hq, hbn⟩
          have hf2 : scopeFindSymbol p7.symStack.mem g (mangledName h) = none := by
            simpa [globalFind, hs] using hf
          rw [hf2] at this
          cases this
      · obtain ⟨hok2, hcase⟩ := scopeAddSymbol_ok _ _ _ _ _ _ hok1 (by simp) hadd
        have hlen1 : p7.symStack.mem.length < mem1.length := by
          rcases scopeAddSymbol_mem _ _ _ _ _ _ hadd with e | ⟨b, _, e⟩
          · rw [e]
            simp
          · rw [e, symbolUpdate, length_memUpdate]
            simp
        show (symAt (memUpdate mem1 p7.symStack.mem.length _) p7.symStack.mem.length).declared
          = true
        rw [symAt_declare _ _ hlen1]
    | some f =>
      dsimp only
      have hfl := hlt f hf
      have e : symAt (allocSymbol p7.symStack
          (symbolCreate h.name TYPE_NULL (symbolKindOf h.type) h.paramsCount)).2.mem f =
          symAt p7.symStack.mem f := symAt_append _ _ _ hfl
      have hdf : (symAt p7.symStack.mem f).declared = false := by
        cases hd : (symAt p7.symStack.mem f).declared with
        | false => rfl
        | true => exact absurd ⟨f, hf, hd⟩ hnd
      simp only [e, hdf, Bool.false_eq_true, and_false, if_false, Bool.not_false, if_true]
      refine ⟨_, _, rfl, f, ?_, ?_⟩
      · have hfa : scopeFindSymbol p7.symStack.mem g (mangledName h) = some f := by
          simpa [globalFind, hs] using hf
        have e2 := scopeFindSymbol_names p7.symStack.mem
          (memUpdate (p7.symStack.mem ++
            [symbolCreate h.name TYPE_NULL (symbolKindOf h.type) h.paramsCount]) f setDeclared)
          g (mangledName h) hok (by rw [length_memUpdate]; simp)
          (fun a ha => by
            rw [((memKeep_declare (fun _ => True) _ f).2 a (by simp; omega)).1,
              symAt_append _ _ _ ha])
        rw [hfa] at e2
        simpa [globalFind, Parser.updSym, allocSymbol, hs] using e2
      · show (symAt (memUpdate (p7.symStack.mem ++ [_]) f _) f).declared = true
        rw [symAt_declare _ _ (by simp; omega)]

/-- The claim C12 fails: the declaration `static f(a, a)` ends with the code 4 although
the global scope holds no symbol `f$2`; the code comes from the second parameter `a`. -/
theorem duplicate_parameter_redefinition :
    (parseFunDec runFuel (declarationParser "static f(a, a) \x7b\n\x7d\n")).map (fun _ => ()) =
        Except.error (Err.exit SEM_REDEF) ∧
      globalFind (declarationParser "static f(a, a) \x7b\n\x7d\n").symStack "f$2" = none ∧
      isValue (parseFunDecHead runFuel (declarationParser "static f(a, a) \x7b\n\x7d\n")) = true :=
  ⟨by decide!, by decide!, by decide!⟩

/-- Claim C12, amended: when `parseFunDec` has read the header of a declaration, over one
scope in the kept state in which a symbol stored under the mangled name has the number of
parameters of the declaration, it ends with the code 4 if a declared symbol of the mangled
name is in the global scope, and otherwise it enters the symbol, so that the global scope
holds a declared symbol of that name, and goes on with the parameters and the body. -/
theorem parseFunDec_redefinition (fuel : Nat) (p p7 : Parser) (h : FunHeader)
    (hh : parseFunDecHead fuel p = Except.ok (h, p7))
    (hg : GlobalOK p.symStack) (hone : p.symStack.scopes.length = 1)
    (hk : ∀ a, globalFind p.symStack (mangledName h) = some a →
      (symAt p.symStack.mem a).numOfParams = h.paramsCount) :
    (DeclaredIn p.symStack (mangledName h) →
      parseFunDec fuel p = Except.error (Err.exit SEM_REDEF)) ∧
    (¬DeclaredIn p.symStack (mangledName h) →
      ∃ sym p9, declareFunction h p7 = Except.ok (sym, p9) ∧
        DeclaredIn p9.symStack (mangledName h) ∧
        parseFunDec fuel p = parseFunDecBody fuel h sym p9) := by
  have hst := parseFunDecHead_symStack fuel p p7 h hh
  rw [← hst] at hg hone hk
  obtain ⟨h1, h2⟩ := declareFunction_spec h p7 hg hone hk
  rw [← hst]
  constructor
  · intro hd
    rw [parseFunDec_parts, hh, ok_bind, h1 hd]
    rfl
  · intro hnd
    obtain ⟨sym, p9, hdec, hin⟩ := h2 hnd
    refine ⟨sym, p9, hdec, hin, ?_⟩
    rw [parseFunDec_parts, hh, ok_bind, hdec]
    rfl

/-- A result that is a value is the value that `resultOr` takes from it. -/
theorem value_resultOr {α : Type} (x : Except Err α) (d : α) (h : isValue x = true) :
    x = Except.ok (resultOr x d) := by
  cases x with
  | error e => cases h
  | ok a => rfl

set_option maxRecDepth 100000 in
/-- The scope stack with the built-in functions has one scope, in the kept state. -/
theorem builtinStack_ok : GlobalOK builtinStack ∧ builtinStack.scopes.length = 1 := by
  have h := value_resultOr
    (loadIFJBuiltins (symTableStackPush (symTableStackCreate INITIAL_CAPACITY_STACK)))
    (symTableStackCreate INITIAL_CAPACITY_STACK) (by decide!)
  obtain ⟨h1, h2⟩ := loadIFJBuiltins_ok _ _ h (globalOK_init _).1
  exact ⟨h1, h2.trans (globalOK_init _).2⟩

/-- The header read at the start of a text, when `parseFunDecHead` returns. -/
theorem headerOf_eq (text : String)
    (h : isValue (parseFunDecHead runFuel (declarationParser text)) = true) :
    parseFunDecHead runFuel (declarationParser text) =
      Except.ok ((headerOf text).1, (headerOf text).2) :=
  value_resultOr _ _ h

set_option maxRecDepth 100000 in
/-- The amended claim C12 on two declarations over the built-in functions: `static
write(x)` ends with the code 4, because the global scope holds the declared symbol
`write$1`; `static f(a)` is entered, and the global scope then holds the declared symbol
`f$1`.  The program with `f()` and `f(a)` is accepted, and the global scope holds the
declared symbols `f$0` and `f$1` in the end. -/
theorem parseFunDec_redefinition_witness :
    (mangledName (headerOf "static write(x) \x7b\n\x7d\n").1 = "write$1" ∧
      DeclaredIn builtinStack "write$1" ∧
      parseFunDec runFuel (declarationParser "static write(x) \x7b\n\x7d\n") =
        Except.error (Err.exit SEM_REDEF)) ∧
    (mangledName (headerOf "static f(a) \x7b\n\x7d\n").1 = "f$1" ∧
      ¬DeclaredIn builtinStack "f$1" ∧
      ∃ sym p9, declareFunction (headerOf "static f(a) \x7b\n\x7d\n").1
          (headerOf "static f(a) \x7b\n\x7d\n").2 = Except.ok (sym, p9) ∧
        DeclaredIn p9.symStack "f$1") ∧
    declaredNames runFuel twoArityProgram.data =
      Except.ok ["read_str$0", "read_num$0", "write$1", "floor$1", "str$1", "length$1",
        "substring$3", "strcmp$2", "ord$2", "chr$1", "f$0", "f$1", "main$0"] :=
  have n1 : mangledName (headerOf "static write(x) \x7b\n\x7d\n").1 = "write$1" := by decide!
  have n2 : mangledName (headerOf "static f(a) \x7b\n\x7d\n").1 = "f$1" := by decide!
  have f1 : globalFind builtinStack "write$1" = some 2 := by decide!
  have f2 : globalFind builtinStack "f$1" = none := by decide!
  have hw : DeclaredIn builtinStack "write$1" := ⟨2, f1, by decide!⟩
  have hf : ¬DeclaredIn builtinStack "f$1" := fun ⟨a, ha, _⟩ => by
    rw [f2] at ha
    cases ha
  have h1 := (parseFunDec_redefinition runFuel
    (declarationParser "static write(x) \x7b\n\x7d\n")
    (headerOf "static write(x) \x7b\n\x7d\n").2 (headerOf "static write(x) \x7b\n\x7d\n").1
    (headerOf_eq _ (by decide!)) builtinStack_ok.1 builtinStack_ok.2
    (fun a ha => by
      rw [n1] at ha
      rw [show (declarationParser "static write(x) \x7b\n\x7d\n").symStack = builtinStack
        from rfl, f1] at ha
      cases ha
      decide!)).1 (by rw [n1]; exact hw)
  have h2 := (parseFunDec_redefinition runFuel
    (declarationParser "static f(a) \x7b\n\x7d\n")
    (headerOf "static f(a) \x7b\n\x7d\n").2 (headerOf "static f(a) \x7b\n\x7d\n").1
    (headerOf_eq _ (by decide!)) builtinStack_ok.1 builtinStack_ok.2
    (fun a ha => by
      rw [n2] at ha
      rw [show (declarationParser "static f(a) \x7b\n\x7d\n").symStack = builtinStack
        from rfl, f2] at ha
      cases ha)).2 (by rw [n2]; exact hf)
  ⟨⟨n1, hw, h1⟩,
   ⟨n2, hf, h2.elim (fun sym h3 => h3.elim (fun p9 h4 =>
      ⟨sym, p9, h4.1, by rw [← n2]; exact h4.2.1⟩))⟩,
   by decide!⟩

/-! ## The type recorded on the symbol of a function -/

/-- A store keeps itself. -/
theorem frameAt_refl (b : Nat) (T : List ExprType) : FrameAt b T T :=
  ⟨le_refl _, fun _ _ => rfl⟩

/-- What a store keeps goes through two steps. -/
theorem frameAt_trans (b : Nat) (T1 T2 T3 : List ExprType) (h1 : FrameAt b T1 T2)
    (h2 : FrameAt b T2 T3) : FrameAt b T1 T3 :=
  ⟨h1.1.trans h2.1, fun i hi => (h2.2 i hi).trans (h1.2 i hi)⟩

/-- What is kept below an address is kept below a smaller one. -/
theorem frameAt_mono (b c : Nat) (T1 T2 : List ExprType) (hc : c ≤ b) (h : FrameAt b T1 T2) :
    FrameAt c T1 T2 :=
  ⟨h.1, fun i hi => h.2 i (lt_of_lt_of_le hi hc)⟩

/-- A new entry at the end keeps the store below its length. -/
theorem frameAt_append (T : List ExprType) (x : ExprType) :
    FrameAt T.length T (T ++ [x]) := by
  refine ⟨by simp, fun i hi => ?_⟩
  rw [List.getD_eq_getElem _ _ (by simp; omega), List.getD_eq_getElem _ _ hi,
    List.getElem_append_left hi]

/-- An assignment at an address from `b` on keeps the store below `b`. -/
theorem frameAt_set (b j : Nat) (T : List ExprType) (x : ExprType) (h : b ≤ j) :
    FrameAt b T (T.set j x) := by
  refine ⟨by simp, fun i hi => ?_⟩
  simp only [List.getD_eq_getElem?_getD]
  rw [List.getElem?_set_ne (by omega)]

/-- The type of a node below `b` is read the same from a store that keeps these. -/
theorem typeOf_frame (b : Nat) (T T2 : List ExprType) (n : AstNode) (h : FrameAt b T T2)
    (hn : n.id < b) : typeOf T2 n = typeOf T n :=
  h.2 _ hn

/-- A memory keeps itself. -/
theorem memStep_refl (A : Nat) (mem : List Symbol) : MemStep A mem mem :=
  ⟨le_refl _, fun _ _ => rfl, fun _ _ => rfl⟩

/-- What a memory keeps goes through two steps. -/
theorem memStep_trans (A : Nat) (m1 m2 m3 : List Symbol) (h1 : MemStep A m1 m2)
    (h2 : MemStep A m2 m3) : MemStep A m1 m3 := by
  refine ⟨h1.1.trans h2.1, fun a ha => ?_, fun hA hn => ?_⟩
  · rw [h2.2.1 a (lt_of_lt_of_le ha h1.1), h1.2.1 a ha]
  · rw [h2.2.2 (lt_of_lt_of_le hA h1.1) (by rw [h1.2.1 A hA]; exact hn), h1.2.2 hA hn]

/-- An allocation keeps the memory. -/
theorem memStep_append (A : Nat) (mem : List Symbol) (x : Symbol) :
    MemStep A mem (mem ++ [x]) := by
  refine ⟨by simp, fun a ha => ?_, fun hA _ => ?_⟩
  · rw [symAt_append _ _ _ ha]
  · rw [symAt_append _ _ _ hA]

/-- An assignment through a pointer keeps the memory when it leaves the names, and the
symbol at `A` is another one or keeps its type. -/
theorem memStep_update (A : Nat) (mem : List Symbol) (b : Nat) (f : Symbol → Symbol)
    (hname : ∀ x, (f x).name = x.name)
    (hA : b = A → ¬ identChars (symAt mem A).name →
      (f (symAt mem A)).expressionType = (symAt mem A).expressionType) :
    MemStep A mem (memUpdate mem b f) := by
  refine ⟨by simp [memUpdate], fun a _ => ?_, fun _ hn => ?_⟩
  · rw [symAt_memUpdate]
    split
    · exact hname _
    · rfl
  · rw [symAt_memUpdate]
    split
    · rename_i hc
      exact hA hc.1.symm hn
    · rfl

/-- The function `symbolUpdate` on a symbol with a name of identifier characters keeps
the memory. -/
theorem memStep_symbolUpdate (A : Nat) (mem : List Symbol) (b : Nat) (x : Symbol)
    (hb : identChars (symAt mem b).name) : MemStep A mem (symbolUpdate mem b x) := by
  unfold symbolUpdate
  apply memStep_update
  · intro y; rfl
  · intro hbA hn
    subst hbA
    exact absurd hb hn

/-- The function `symbolUpdate` with the values of the symbol at `A` keeps the memory. -/
theorem memStep_symbolUpdate_self (A : Nat) (mem : List Symbol) (b : Nat) :
    MemStep A mem (symbolUpdate mem b (symAt mem A)) := by
  unfold symbolUpdate
  apply memStep_update
  · intro y; rfl
  · intro _ _; rfl

/-- The function `scopeAddSymbol` for a symbol with a name of identifier characters keeps
the memory. -/
theorem memStep_scopeAddSymbol (A : Nat) (mem mem2 : List Symbol) (sc sc2 : Scope)
    (sym : Nat) (code : Int) (hsym : identChars (symAt mem sym).name)
    (h : scopeAddSymbol sc sym mem = Except.ok (code, sc2, mem2)) : MemStep A mem mem2 := by
  rcases scopeAddSymbol_mem mem mem2 sc sc2 sym code h with h1 | ⟨b, hb, h1⟩
  · rw [h1]; exact memStep_refl A _
  · rw [h1]; exact memStep_symbolUpdate A mem b _ (by rw [hb]; exact hsym)

/-- The function `scopeAddSymbol` for the symbol at `A` keeps the memory. -/
theorem memStep_scopeAddSelf (A : Nat) (mem mem2 : List Symbol) (sc sc2 : Scope)
    (code : Int) (h : scopeAddSymbol sc A mem = Except.ok (code, sc2, mem2)) :
    MemStep A mem mem2 := by
  rcases scopeAddSymbol_mem mem mem2 sc sc2 A code h with h1 | ⟨b, _, h1⟩
  · rw [h1]; exact memStep_refl A _
  · rw [h1]; exact memStep_symbolUpdate_self A mem b

/-- A call of `symbolCreate` followed by `scopeAddSymbol`, for a name of identifier
characters, keeps the memory. -/
theorem memStep_addSymbolAt (A : Nat) (s s2 : SymTableStack) (i a : Nat) (x : Symbol)
    (hx : identChars x.name) (h : addSymbolAt s i x = Except.ok (a, s2)) :
    MemStep A s.mem s2.mem := by
  unfold addSymbolAt scopeAddAt allocSymbol at h
  simp only [List.get?_eq_getElem?] at h
  cases hget : s.scopes[i]? with
  | none => simp [hget] at h
  | some scope =>
    simp only [hget] at h
    cases hadd : scopeAddSymbol scope s.mem.length (s.mem ++ [x]) with
    | error e => simp [hadd] at h
    | ok r =>
      obtain ⟨code, scope1, mem1⟩ := r
      simp only [hadd, Except.ok.injEq, Prod.mk.injEq] at h
      obtain ⟨_, hs2⟩ := h
      subst hs2
      exact memStep_trans A _ _ _ (memStep_append A s.mem x)
        (memStep_scopeAddSymbol A _ _ _ _ _ _ (by rw [symAt_append_self]; exact hx) hadd)

/-- A step that keeps the tokens clean, the memory and the store of types, with no
`return` statement parsed. -/
theorem retStep_intro (A : Nat) (p q : Parser) (htok : TokOK p → TokOK q)
    (hmem : MemStep A p.symStack.mem q.symStack.mem)
    (hT : FrameAt p.nodeTypes.length p.nodeTypes q.nodeTypes) : RetStep A p q [] := by
  intro hi
  obtain ⟨ht, hA, hn⟩ := hi
  refine ⟨⟨htok ht, lt_of_lt_of_le hA hmem.1, by rw [hmem.2.1 A hA]; exact hn⟩, hT, ?_, ?_⟩
  · intro r hr; cases hr
  · exact hmem.2.2 hA hn

/-- A parser that is not changed. -/
theorem retStep_refl (A : Nat) (p : Parser) : RetStep A p p [] :=
  retStep_intro A p p id (memStep_refl _ _) (frameAt_refl _ _)

/-- A step that leaves the scope stack and the store of types. -/
theorem retStep_same (A : Nat) (p q : Parser) (htok : TokOK p → TokOK q)
    (hs : q.symStack = p.symStack) (hT : q.nodeTypes = p.nodeTypes) : RetStep A p q [] := by
  apply retStep_intro A p q htok
  · rw [hs]; exact memStep_refl _ _
  · rw [hT]; exact frameAt_refl _ _

/-- Two steps one after the other: the expressions of the first, then the ones of the
second. -/
theorem retStep_trans (A : Nat) (p q r : Parser) (rs rs2 : List AstNode)
    (h1 : RetStep A p q rs) (h2 : RetStep A q r rs2) : RetStep A p r (rs ++ rs2) := by
  intro hi
  obtain ⟨i1, f1, b1, t1⟩ := h1 hi
  obtain ⟨i2, f2, b2, t2⟩ := h2 i1
  refine ⟨i2, frameAt_trans _ _ _ _ f1 (frameAt_mono _ _ _ _ f1.1 f2), ?_, ?_⟩
  · intro x hx
    rcases List.mem_append.mp hx with hx | hx
    · exact ⟨(b1 x hx).1, lt_of_lt_of_le (b1 x hx).2 f2.1⟩
    · exact ⟨f1.1.trans (b2 x hx).1, (b2 x hx).2⟩
  · have hmap : rs.map (typeOf r.nodeTypes) = rs.map (typeOf q.nodeTypes) :=
      List.map_congr_left (fun x hx => typeOf_frame _ _ _ _ f2 (b1 x hx).2)
    rw [t2, t1, List.map_append, List.foldl_append, hmap]

/-- A step without `return` statements before another step. -/
theorem retStep_first (A : Nat) (p q r : Parser) (rs : List AstNode)
    (h1 : RetStep A p q []) (h2 : RetStep A q r rs) : RetStep A p r rs :=
  retStep_trans A p q r [] rs h1 h2

/-- A step without `return` statements after another step. -/
theorem retStep_then (A : Nat) (p q r : Parser) (rs : List AstNode)
    (h1 : RetStep A p q rs) (h2 : RetStep A q r []) : RetStep A p r rs := by
  have h := retStep_trans A p q r rs [] h1 h2
  rwa [List.append_nil] at h

/-- After a step, a change of the store of types that keeps the entries from before the
step. -/
theorem retStep_types (A : Nat) (p q : Parser) (T2 : List ExprType)
    (h : RetStep A p q [])
    (hf : BodyInv A p → FrameAt p.nodeTypes.length q.nodeTypes T2) :
    RetStep A p { q with nodeTypes := T2 } [] := by
  intro hi
  obtain ⟨i1, f1, _, t1⟩ := h hi
  exact ⟨i1, frameAt_trans _ _ _ _ f1 (hf hi), (fun r hr => by cases hr), t1⟩

/-- After a step, an assignment of a type to a node made during the step. -/
theorem retStep_setType (A : Nat) (p q : Parser) (n : AstNode) (t : ExprType)
    (h : RetStep A p q []) (hn : BodyInv A p → p.nodeTypes.length ≤ n.id) :
    RetStep A p (q.setType n t) [] :=
  retStep_types A p q _ h (fun hi => frameAt_set _ _ _ _ (hn hi))

/-- After a step, a change of the scope stack that keeps the memory. -/
theorem retStep_mem (A : Nat) (p q : Parser) (s2 : SymTableStack)
    (h : RetStep A p q [])
    (hm : BodyInv A q → MemStep A q.symStack.mem s2.mem) :
    RetStep A p { q with symStack := s2 } [] := by
  intro hi
  obtain ⟨i1, f1, _, t1⟩ := h hi
  have m := hm i1
  refine ⟨⟨i1.1, lt_of_lt_of_le i1.2.1 m.1, ?_⟩, f1, (fun r hr => by cases hr), ?_⟩
  · show ¬ identChars (symAt s2.mem A).name
    rw [m.2.1 A i1.2.1]; exact i1.2.2
  · exact (m.2.2 i1.2.1 i1.2.2).trans t1

/-- After a step, an assignment through a pointer to another symbol than the one at `A`
that leaves the name. -/
theorem retStep_updSym (A : Nat) (p q : Parser) (a : Nat) (f : Symbol → Symbol)
    (h : RetStep A p q []) (hne : BodyInv A p → a ≠ A) (hname : ∀ x, (f x).name = x.name) :
    RetStep A p (q.updSym a f) [] :=
  fun hi => retStep_mem A p q _ h (fun _ =>
    memStep_update A _ a f hname (fun hEq _ => absurd hEq (hne hi))) hi

/-- The function `parserAdvance` leaves the store of types. -/
theorem parserAdvance_types (p q : Parser) (h : parserAdvance p = Except.ok q) :
    q.nodeTypes = p.nodeTypes := by
  unfold parserAdvance at h
  split at h
  split at h
  · cases h
  · split at h
    · cases h
    · cases h; rfl

/-- The function `parserLookAhead` leaves the store of types. -/
theorem parserLookAhead_types (p q : Parser) (h : parserLookAhead p = Except.ok q) :
    q.nodeTypes = p.nodeTypes := by
  unfold parserLookAhead at h
  split at h
  split at h
  · cases h
  · split at h
    · cases h
    · cases h; rfl

/-- The function `parserAdvance` as a step. -/
theorem parserAdvance_ret (A : Nat) (p q : Parser) (h : parserAdvance p = Except.ok q) :
    RetStep A p q [] :=
  retStep_same A p q (fun ht => (parserAdvance_step p q h ht).1)
    (parserAdvance_symStack p q h) (parserAdvance_types p q h)

/-- The function `parserLookAhead` as a step. -/
theorem parserLookAhead_ret (A : Nat) (p q : Parser) (h : parserLookAhead p = Except.ok q) :
    RetStep A p q [] :=
  retStep_same A p q (fun ht => (parserLookAhead_step p q h ht).1)
    (parserLookAhead_symStack p q h) (parserLookAhead_types p q h)

/-- The function `parserValidateSequence` as a step. -/
theorem parserValidateSequence_ret (A : Nat) :
    ∀ (ts : List TokenType) (p q : Parser),
      parserValidateSequence p ts = Except.ok q → RetStep A p q [] := by
  intro ts
  induction ts with
  | nil =>
    intro p q h
    simp only [parserValidateSequence, Except.ok.injEq] at h
    subst h
    exact retStep_refl _ _
  | cons t rest ih =>
    intro p q h
    simp only [parserValidateSequence, bind, Except.bind] at h
    split at h
    · cases h
    · rename_i p1 h1
      split at h
      · cases h
      · rename_i p2 h2
        obtain ⟨e, _⟩ := parserValidate_eq _ _ _ h2
        subst e
        exact retStep_first _ _ _ _ _ (parserAdvance_ret A _ _ h1) (ih _ _ h)

/-- The address of the node that `astCreateNode` makes is the size of the store. -/
theorem astCreateNode_id (p : Parser) (ty : AstNodeType) :
    (astCreateNode p ty).1.id = p.nodeTypes.length := by
  unfold astCreateNode; cases ty <;> rfl

/-- The store after `astCreateNode` has one more entry. -/
theorem astCreateNode_types (p : Parser) (ty : AstNodeType) :
    (astCreateNode p ty).2.nodeTypes = p.nodeTypes ++ [TYPE_UNKNOWN] := by
  unfold astCreateNode; cases ty <;> rfl

/-- The node that `astCreateNode` makes has no children. -/
theorem astCreateNode_idsGe (p : Parser) (ty : AstNodeType) (lo : Nat)
    (h : lo ≤ p.nodeTypes.length) : idsGe lo (astCreateNode p ty).1 = true := by
  unfold astCreateNode; cases ty <;> simp [idsGe, idsGeOpt, idsGeList, h]

/-- The function `astCreateNode` as a step. -/
theorem astCreateNode_ret (A : Nat) (p : Parser) (ty : AstNodeType) :
    RetStep A p (astCreateNode p ty).2 [] := by
  apply retStep_intro A p _ (fun ht => (astCreateNode_step p ty ht).1)
  · rw [astCreateNode_symStack]; exact memStep_refl _ _
  · rw [astCreateNode_types]; exact frameAt_append _ _

/-- The function `astCreateNode`, from its result. -/
theorem astCreateNode_facts (A : Nat) (p q : Parser) (ty : AstNodeType) (n : AstNode)
    (h : astCreateNode p ty = (n, q)) :
    RetStep A p q [] ∧ n.id = p.nodeTypes.length ∧
      q.nodeTypes.length = p.nodeTypes.length + 1 ∧
      ∀ lo, lo ≤ p.nodeTypes.length → idsGe lo n = true := by
  have h1 : n = (astCreateNode p ty).1 := by rw [h]
  have h2 : q = (astCreateNode p ty).2 := by rw [h]
  subst h1 h2
  refine ⟨astCreateNode_ret A p ty, astCreateNode_id p ty, ?_, fun lo hlo =>
    astCreateNode_idsGe p ty lo hlo⟩
  rw [astCreateNode_types]; simp

/-- The address of a node after `setToken`. -/
theorem id_setToken (n : AstNode) (t : Token) : (n.setToken t).id = n.id := by
  cases n <;> rfl

/-- The addresses in a tree after `setToken`. -/
theorem idsGe_setToken (lo : Nat) (n : AstNode) (t : Token) :
    idsGe lo (n.setToken t) = idsGe lo n := by
  cases n <;> simp [AstNode.setToken, idsGe]

/-- The addresses in a tree with two children. -/
theorem idsGe_bin (lo i : Nat) (t : AstNodeType) (tok : Token) (l r : Option AstNode) :
    idsGeOpt lo (some (.bin i t tok l r)) = true ↔
      lo ≤ i ∧ idsGeOpt lo l = true ∧ idsGeOpt lo r = true := by
  simp [idsGeOpt, idsGe, and_assoc]

/-- The function `semanticExpression` on a tree with addresses from `lo` on keeps the
store below `lo`. -/
theorem semanticExpression_frame (lo : Nat) :
    ∀ (r : Option AstNode) (T T2 : List ExprType),
      semanticExpression r T = Except.ok T2 → idsGeOpt lo r = true → FrameAt lo T T2 := by
  intro r T
  induction r, T using semanticExpression.induct with
  | case1 T =>
    intro T2 h _
    rw [semanticExpression] at h
    cases h
    exact frameAt_refl _ _
  | case2 i tok l r T hnot e he ih =>
    intro T2 h _
    rw [semanticExpression, if_pos hnot, he] at h
    cases h
  | case3 i tok l T hnot T1 h1 ih =>
    intro T2 h _
    rw [semanticExpression, if_pos hnot, h1] at h
    cases h
  | case4 i tok l T hnot T1 r hbad h1 ih =>
    intro T2 h _
    rw [semanticExpression, if_pos hnot, h1] at h
    simp only [hbad, if_true] at h
    cases h
  | case5 i tok l T hnot T1 r hgood h1 ih =>
    intro T2 h hid
    rw [semanticExpression, if_pos hnot, h1] at h
    simp only [hgood, if_false] at h
    cases h
    obtain ⟨hi, _, hr⟩ := (idsGe_bin _ _ _ _ _ _).mp hid
    exact frameAt_trans _ _ _ _ (ih _ h1 hr) (frameAt_set _ _ _ _ hi)
  | case6 i tok l r T hnot e he ih =>
    intro T2 h _
    rw [semanticExpression, if_neg hnot, he] at h
    cases h
  | case7 i tok l r T hnot T1 h1 e he ih1 ih2 =>
    intro T2 h _
    rw [semanticExpression, if_neg hnot, h1] at h
    simp only [he] at h
    cases h
  | case8 i tok T hnot T1 T3 l r hbad h1 h2 ih1 ih2 =>
    intro T2 h _
    rw [semanticExpression, if_neg hnot, h1] at h
    simp only [h2, hbad, if_true] at h
    cases h
  | case9 i tok T hnot T1 T3 l r hgood h1 h2 ih1 ih2 =>
    intro T2 h hid
    rw [semanticExpression, if_neg hnot, h1] at h
    simp only [h2, hgood, if_false] at h
    cases h
    obtain ⟨hi, hl, hr⟩ := (idsGe_bin _ _ _ _ _ _).mp hid
    exact frameAt_trans _ _ _ _ (ih1 _ h1 hl)
      (frameAt_trans _ _ _ _ (ih2 _ h2 hr) (frameAt_set _ _ _ _ hi))
  | case10 i tok l r T hnot T1 h1 T3 h2 hno ih1 ih2 =>
    intro T2 h _
    rw [semanticExpression, if_neg hnot, h1] at h
    simp only [h2] at h
    cases h
  | case11 id tok T =>
    intro T2 h _
    rw [semanticExpression] at h
    cases h
  | case12 id tok items T =>
    intro T2 h _
    rw [semanticExpression] at h
    cases h
  | case13 val T h1 h2 h3 =>
    intro T2 h _
    rw [semanticExpression] at h
    · cases h
      exact frameAt_refl _ _
    · exact h1
    · exact h2
    · exact h3

/-- The function `semanticAssignment` on a node and a tree with addresses from `lo` on
keeps the store below `lo`. -/
theorem semanticAssignment_frame (lo : Nat) (l : AstNode) (r : Option AstNode)
    (T T2 : List ExprType) (h : semanticAssignment (some l) r T = Except.ok T2)
    (hl : lo ≤ l.id) (hr : idsGeOpt lo r = true) : FrameAt lo T T2 := by
  unfold semanticAssignment at h
  split at h
  · cases h
  · rename_i T1 h1
    have f1 := semanticExpression_frame lo _ _ _ h1 hr
    cases r with
    | none => cases h
    | some r0 =>
      simp only at h
      split at h
      · cases h
      · split at h
        · cases h
          exact frameAt_trans _ _ _ _ f1 (frameAt_set _ _ _ _ hl)
        · cases h
          exact f1

/-- The function `assignTypeFromToken` leaves the size of the store. -/
theorem assignTypeFromToken_length (node : AstNode) (p q : Parser)
    (h : assignTypeFromToken node p = Except.ok q) :
    q.nodeTypes.length = p.nodeTypes.length := by
  unfold assignTypeFromToken at h
  simp only [bind, Except.bind] at h
  repeat' split at h
  all_goals (cases h <;> simp [Parser.setType, setTypeOf])

/-- After a step, the function `assignTypeFromToken` on a node made during the step. -/
theorem assignTypeFromToken_ret (A : Nat) (p0 p q : Parser) (node : AstNode)
    (hprev : RetStep A p0 p []) (hid : BodyInv A p0 → p0.nodeTypes.length ≤ node.id)
    (hc : BodyInv A p → TokClean node.token)
    (h : assignTypeFromToken node p = Except.ok q) : RetStep A p0 q [] := by
  unfold assignTypeFromToken at h
  split at h
  all_goals try (injection h with h; subst h; exact retStep_setType _ _ _ _ _ hprev hid)
  · simp only [bind, Except.bind] at h
    repeat' split at h
    all_goals (cases h <;> exact retStep_setType _ _ _ _ _ hprev hid)
  · rename_i htype
    simp only [bind, Except.bind] at h
    split at h
    · cases h
    · rename_i name hname
      split at h
      · injection h with h; subst h; exact retStep_setType _ _ _ _ _ hprev hid
      · split at h
        · cases h
        · rename_i r hadd
          obtain ⟨a, stack1⟩ := r
          injection h with h
          subst h
          refine retStep_setType _ _ _ _ _ (retStep_mem A p0 p stack1 hprev (fun hi => ?_)) hid
          have hidn := tokenString_clean _ _ (hc hi) (Or.inr htype) hname
          exact memStep_addSymbolAt A _ _ _ _ _ (by simpa [symbolCreate] using hidn) hadd

/-- The body of `createNodeFromToken` once the kind of the node is chosen. -/
theorem createNode_with_ret (A : Nat) (p q : Parser) (n : AstNode) (ty : AstNodeType)
    (h : (match assignTypeFromToken ((astCreateNode p ty).1.setToken p.current)
            (astCreateNode p ty).2 with
          | Except.error e => Except.error e
          | Except.ok p1 => Except.ok ((astCreateNode p ty).1.setToken p.current, p1)) =
        Except.ok (n, q)) :
    RetStep A p q [] ∧ n.id = p.nodeTypes.length ∧
      q.nodeTypes.length = p.nodeTypes.length + 1 ∧
      ∀ lo, lo ≤ p.nodeTypes.length → idsGe lo n = true := by
  split at h
  · cases h
  · rename_i p1 hassign
    simp only [Except.ok.injEq, Prod.mk.injEq] at h
    obtain ⟨hn, hq⟩ := h
    subst hn hq
    refine ⟨?_, ?_, ?_, ?_⟩
    · refine assignTypeFromToken_ret A p _ _ _ (astCreateNode_ret A p ty) (fun _ => ?_)
        (fun hi => ?_) hassign
      · rw [id_setToken, astCreateNode_id]
      · rw [token_setToken, ← astCreateNode_current p ty]
        exact hi.1.1
    · rw [id_setToken, astCreateNode_id]
    · rw [assignTypeFromToken_length _ _ _ hassign, astCreateNode_types]; simp
    · intro lo hlo
      rw [idsGe_setToken]
      exact astCreateNode_idsGe p ty lo hlo

/-- The function `createNodeFromToken` on the current token: a step, and a node without
children at the address that was the size of the store. -/
theorem createNodeFromToken_ret (A : Nat) (p q : Parser) (n : AstNode)
    (h : createNodeFromToken p.current p = Except.ok (n, q)) :
    RetStep A p q [] ∧ n.id = p.nodeTypes.length ∧
      q.nodeTypes.length = p.nodeTypes.length + 1 ∧
      ∀ lo, lo ≤ p.nodeTypes.length → idsGe lo n = true := by
  unfold createNodeFromToken at h
  simp only at h
  cases htt : p.current.type <;> simp only [htt] at h <;>
    exact createNode_with_ret A p q n _ h

/-- The entries of a stack with a node on top. -/
theorem stackIds_cons (lo hi : Nat) (n : AstNode) (rest : List AstNode) :
    StackIds lo hi (n :: rest) ↔
      (idsGe lo n = true ∧ n.id < hi) ∧ StackIds lo hi rest := by
  unfold StackIds
  simp only [idsGeList, Bool.and_eq_true, List.mem_cons, forall_eq_or_imp]
  tauto

/-- The entries of a stack stay below a larger bound. -/
theorem stackIds_mono (lo hi hi2 : Nat) (stack : List AstNode) (h : StackIds lo hi stack)
    (hle : hi ≤ hi2) : StackIds lo hi2 stack :=
  ⟨h.1, fun n hn => lt_of_lt_of_le (h.2 n hn) hle⟩

/-- The address of the root of a tree with addresses from `lo` on. -/
theorem idsGe_root (lo : Nat) (n : AstNode) (h : idsGe lo n = true) : lo ≤ n.id := by
  cases n <;> simp [idsGe] at h <;> simp [AstNode.id] <;> omega

/-- The function `reduceExpression` keeps the addresses of the stack. -/
theorem reduceExpression_ids (lo hi : Nat) (stack rest : AstStack) (n : AstNode)
    (hs : StackIds lo hi stack) (h : reduceExpression stack = Except.ok (n, rest)) :
    (idsGe lo n = true ∧ n.id < hi) ∧ StackIds lo hi rest := by
  unfold reduceExpression at h
  simp only [bind, Except.bind] at h
  split at h
  · cases h
  · rename_i r1 h1
    obtain ⟨right, s1⟩ := r1
    split at h
    · cases h
    · rename_i r2 h2
      obtain ⟨op, s2⟩ := r2
      split at h
      · cases h
      · rename_i r3 h3
        obtain ⟨left, s3⟩ := r3
        have e1 := popCheck_eq _ _ _ h1
        have e2 := popCheck_eq _ _ _ h2
        have e3 := popCheck_eq _ _ _ h3
        simp only at e1 e2 e3
        subst e1 e2 e3
        simp only [stackIds_cons] at hs
        obtain ⟨⟨hr1, _⟩, ⟨hop1, hop2⟩, ⟨hl1, _⟩, hrest⟩ := hs
        split at h
        · cases h
        · cases op with
          | bin i t tok l r =>
            simp only [Except.ok.injEq, Prod.mk.injEq] at h
            obtain ⟨hn, hr⟩ := h
            subst hn hr
            have hop3 := idsGe_root _ _ hop1
            refine ⟨⟨?_, hop2⟩, hrest⟩
            simp only [idsGe, idsGeOpt, Bool.and_eq_true, decide_eq_true_eq]
            exact ⟨⟨hop3, hl1⟩, hr1⟩
          | leaf i t tok => cases h
          | list i t tok items => cases h

/-- The function `reduceNot` keeps the addresses of the stack. -/
theorem reduceNot_ids (lo hi : Nat) (stack rest : AstStack) (n : AstNode)
    (hs : StackIds lo hi stack) (h : reduceNot stack = Except.ok (n, rest)) :
    (idsGe lo n = true ∧ n.id < hi) ∧ StackIds lo hi rest := by
  unfold reduceNot at h
  simp only [bind, Except.bind] at h
  split at h
  · cases h
  · rename_i r1 h1
    obtain ⟨right, s1⟩ := r1
    split at h
    · cases h
    · rename_i r2 h2
      obtain ⟨op, s2⟩ := r2
      have e1 := popCheck_eq _ _ _ h1
      have e2 := popCheck_eq _ _ _ h2
      simp only at e1 e2
      subst e1 e2
      simp only [stackIds_cons] at hs
      obtain ⟨⟨hr1, _⟩, ⟨hop1, hop2⟩, hrest⟩ := hs
      cases op with
      | bin i t tok l r =>
        simp only [Except.ok.injEq, Prod.mk.injEq] at h
        obtain ⟨hn, hr⟩ := h
        subst hn hr
        simp only [idsGe, Bool.and_eq_true, decide_eq_true_eq] at hop1
        refine ⟨⟨?_, hop2⟩, hrest⟩
        simp only [idsGe, idsGeOpt, Bool.and_eq_true, decide_eq_true_eq]
        exact ⟨⟨hop1.1.1, hop1.1.2⟩, hr1⟩
      | leaf i t tok => cases h
      | list i t tok items => cases h

/-- The function `reducePar` keeps the addresses of the stack. -/
theorem reducePar_ids (lo hi : Nat) (stack rest : AstStack) (n : AstNode)
    (hs : StackIds lo hi stack) (h : reducePar stack = Except.ok (n, rest)) :
    (idsGe lo n = true ∧ n.id < hi) ∧ StackIds lo hi rest := by
  unfold reducePar at h
  simp only [bind, Except.bind] at h
  split at h
  · cases h
  · rename_i r1 h1
    obtain ⟨op, s1⟩ := r1
    split at h
    · cases h
    · rename_i r2 h2
      obtain ⟨x, s2⟩ := r2
      have e1 := popCheck_eq _ _ _ h1
      have e2 := popCheck_eq _ _ _ h2
      simp only at e1 e2
      subst e1 e2
      simp only [stackIds_cons] at hs
      simp only [Except.ok.injEq, Prod.mk.injEq] at h
      obtain ⟨hn, hr⟩ := h
      subst hn hr
      exact ⟨hs.1, hs.2.2⟩

/-- The reduction chosen by the operator on top keeps the addresses of the stack. -/
theorem reduceBy_ids (lo hi : Nat) (top : AstNode) (stack rest : AstStack) (n : AstNode)
    (hs : StackIds lo hi stack) (h : reduceBy top stack = Except.ok (n, rest)) :
    (idsGe lo n = true ∧ n.id < hi) ∧ StackIds lo hi rest := by
  unfold reduceBy at h
  split at h
  · exact reducePar_ids _ _ _ _ _ hs h
  · split at h
    · exact reduceNot_ids _ _ _ _ _ hs h
    · exact reduceExpression_ids _ _ _ _ _ hs h

/-- The first loop of `parseExp`: a step, and the stack keeps its addresses. -/
theorem parseExpLoop_ret (A : Nat) :
    ∀ (fuel : Nat) (p q : Parser) (stack stack2 : AstStack) (pc pc2 : Nat),
      parseExpLoop fuel p stack pc = Except.ok (q, stack2, pc2) →
      RetStep A p q [] ∧
        (BodyInv A p → ∀ lo, lo ≤ p.nodeTypes.length →
          StackIds lo p.nodeTypes.length stack → StackIds lo q.nodeTypes.length stack2) := by
  intro fuel
  induction fuel with
  | zero => intro p q stack stack2 pc pc2 h; simp [parseExpLoop] at h
  | succ fuel ih =>
    intro p q stack stack2 pc pc2 h
    unfold parseExpLoop at h
    by_cases c1 : p.current.type = TokenType.LCURLY
    · rw [if_pos c1] at h
      cases h; exact ⟨retStep_refl _ _, fun _ _ _ hs => hs⟩
    rw [if_neg c1] at h
    by_cases c2 : p.current.type = TokenType.EOL
    · rw [if_pos c2] at h
      cases h; exact ⟨retStep_refl _ _, fun _ _ _ hs => hs⟩
    rw [if_neg c2] at h
    by_cases c3 : p.current.type = TokenType.RPAR ∧ pc = 0
    · rw [if_pos c3] at h
      cases h; exact ⟨retStep_refl _ _, fun _ _ _ hs => hs⟩
    rw [if_neg c3] at h
    replace h := bind_ok _ _ _ h
    obtain ⟨p1, hp1, h⟩ := h
    have hstep1 : RetStep A p p1 [] ∧ p1.nodeTypes = p.nodeTypes := by
      split at hp1
      · split at hp1
        · cases hp1
        · rename_i q1 hq1
          split at hp1
          · cases hp1
          · cases hp1
            exact ⟨parserLookAhead_ret A _ _ hq1, parserLookAhead_types _ _ hq1⟩
      · cases hp1
        exact ⟨retStep_refl _ _, rfl⟩
    obtain ⟨hs01, hT1⟩ := hstep1
    replace h := bind_ok _ _ _ h
    obtain ⟨action, haction, h⟩ := h
    replace h := bind_ok _ _ _ h
    obtain ⟨r, hcreate, h⟩ := h
    obtain ⟨node, p2⟩ := r
    obtain ⟨_, _, htok, hcur⟩ := createNodeFromToken_spec _ _ _ hcreate
    obtain ⟨hs12, hnid, hlen2, hnids⟩ := createNodeFromToken_ret A _ _ _ hcreate
    have hs02 := retStep_first _ _ _ _ _ hs01 hs12
    rw [hT1] at hnid hlen2 hnids
    dsimp only at h
    by_cases ha : action = -1
    · rw [if_pos ha] at h
      replace h := bind_ok _ _ _ h
      obtain ⟨p3, hp3, h⟩ := h
      replace h := bind_ok _ _ _ h
      obtain ⟨stack1, hpush, h⟩ := h
      replace h := bind_ok _ _ _ h
      obtain ⟨p4, hp4, h⟩ := h
      have e := astStackPush_eq _ _ _ hpush
      subst e
      have hs03 : RetStep A p p3 [] :=
        assignTypeFromToken_ret A p p2 p3 node hs02 (fun _ => by rw [hnid])
          (fun hi => by rw [htok, ← hcur]; exact hi.1.1) hp3
      have hlen3 := assignTypeFromToken_length _ _ _ hp3
      have hlen4 := parserAdvance_types _ _ hp4
      have hs04 := retStep_then _ _ _ _ _ hs03 (parserAdvance_ret A _ _ hp4)
      obtain ⟨hrest, hfin⟩ := ih _ _ _ _ _ _ h
      refine ⟨retStep_first _ _ _ _ _ hs04 hrest, fun hi lo hlo hs => ?_⟩
      have hl4 : p4.nodeTypes.length = p.nodeTypes.length + 1 := by
        rw [hlen4, hlen3, hlen2]
      refine hfin (hs04 hi).1 lo (by omega) ((stackIds_cons _ _ _ _).mpr
        ⟨⟨hnids lo hlo, by omega⟩, stackIds_mono _ _ _ _ hs (by omega)⟩)
    rw [if_neg ha] at h
    by_cases hb : action = 1
    · rw [if_pos hb] at h
      cases htop : astStackNextOp stack with
      | none => rw [htop] at h; cases h
      | some t =>
        rw [htop] at h
        dsimp only at h
        by_cases hl : t.token.type = TokenType.LPAR
        · rw [if_pos hl] at h
          replace h := bind_ok _ _ _ h
          obtain ⟨r, hred, h⟩ := h
          obtain ⟨reduced, stack1⟩ := r
          dsimp only at h
          replace h := bind_ok _ _ _ h
          obtain ⟨p3, hp3, h⟩ := h
          replace h := bind_ok _ _ _ h
          obtain ⟨stack3, hpush, h⟩ := h
          have e := astStackPush_eq _ _ _ hpush
          subst e
          have hlen3 := parserAdvance_types _ _ hp3
          have hs03 := retStep_then _ _ _ _ _ hs02 (parserAdvance_ret A _ _ hp3)
          obtain ⟨hrest, hfin⟩ := ih _ _ _ _ _ _ h
          refine ⟨retStep_first _ _ _ _ _ hs03 hrest, fun hi lo hlo hs => ?_⟩
          have hl3 : p3.nodeTypes.length = p.nodeTypes.length + 1 := by rw [hlen3, hlen2]
          obtain ⟨hf1, hf2⟩ := reducePar_ids _ _ _ _ _ hs hred
          refine hfin (hs03 hi).1 lo (by omega) (stackIds_mono _ _ _ _
            ((stackIds_cons _ _ _ _).mpr ⟨hf1, hf2⟩) (by omega))
        rw [if_neg hl] at h
        by_cases hn : t.token.type = TokenType.LOGICAL_NOT
        · rw [if_pos hn] at h
          replace h := bind_ok _ _ _ h
          obtain ⟨r, hred, h⟩ := h
          obtain ⟨reduced, stack1⟩ := r
          dsimp only at h
          replace h := bind_ok _ _ _ h
          obtain ⟨p3, hp3, h⟩ := h
          replace h := bind_ok _ _ _ h
          obtain ⟨stack3, hpush, h⟩ := h
          have e := astStackPush_eq _ _ _ hpush
          subst e
          have hlen3 := parserAdvance_types _ _ hp3
          have hs03 := retStep_then _ _ _ _ _ hs02 (parserAdvance_ret A _ _ hp3)
          obtain ⟨hrest, hfin⟩ := ih _ _ _ _ _ _ h
          refine ⟨retStep_first _ _ _ _ _ hs03 hrest, fun hi lo hlo hs => ?_⟩
          have hl3 : p3.nodeTypes.length = p.nodeTypes.length + 1 := by rw [hlen3, hlen2]
          obtain ⟨hf1, hf2⟩ := reduceNot_ids _ _ _ _ _ hs hred
          refine hfin (hs03 hi).1 lo (by omega) (stackIds_mono _ _ _ _
            ((stackIds_cons _ _ _ _).mpr ⟨hf1, hf2⟩) (by omega))
        rw [if_neg hn] at h
        replace h := bind_ok _ _ _ h
        obtain ⟨r, hred, h⟩ := h
        obtain ⟨reduced, stack1⟩ := r
        dsimp only at h
        replace h := bind_ok _ _ _ h
        obtain ⟨stack3, hpush, h⟩ := h
        have e := astStackPush_eq _ _ _ hpush
        subst e
        obtain ⟨hrest, hfin⟩ := ih _ _ _ _ _ _ h
        refine ⟨retStep_first _ _ _ _ _ hs02 hrest, fun hi lo hlo hs => ?_⟩
        obtain ⟨hf1, hf2⟩ := reduceExpression_ids _ _ _ _ _ hs hred
        refine hfin (hs02 hi).1 lo (by omega) (stackIds_mono _ _ _ _
          ((stackIds_cons _ _ _ _).mpr ⟨hf1, hf2⟩) (by omega))
    · rw [if_neg hb] at h
      cases h

/-- The second loop of `parseExp` keeps the addresses of the stack. -/
theorem parseExpDrain_ids (lo hi : Nat) :
    ∀ (fuel : Nat) (stack stack2 : AstStack),
      parseExpDrain fuel stack = Except.ok stack2 → StackIds lo hi stack →
      StackIds lo hi stack2 := by
  intro fuel
  induction fuel with
  | zero => intro stack stack2 h; simp [parseExpDrain] at h
  | succ fuel ih =>
    intro stack stack2 h hs
    unfold parseExpDrain at h
    split at h
    · cases h; exact hs
    · split at h
      · cases h
      · obtain ⟨r, hred, h⟩ := bind_ok _ _ _ h
        obtain ⟨reduced, stack1⟩ := r
        dsimp only at h
        replace h := bind_ok _ _ _ h
        obtain ⟨stack3, hpush, h⟩ := h
        have e := astStackPush_eq _ _ _ hpush
        subst e
        obtain ⟨hf1, hf2⟩ := reduceBy_ids _ _ _ _ _ _ hs hred
        exact ih _ _ h ((stackIds_cons _ _ _ _).mpr ⟨hf1, hf2⟩)

/-- The function `parseExp`: a step, and the expression is a tree of nodes made
meanwhile. -/
theorem parseExp_ret (A : Nat) (fuel : Nat) (p q : Parser) (r : Option AstNode)
    (h : parseExp fuel p = Except.ok (r, q)) :
    RetStep A p q [] ∧
      (BodyInv A p → ∀ lo, lo ≤ p.nodeTypes.length →
        idsGeOpt lo r = true ∧ ∀ n, r = some n → n.id < q.nodeTypes.length) := by
  unfold parseExp at h
  replace h := bind_ok _ _ _ h
  obtain ⟨x, hloop, h⟩ := h
  obtain ⟨p1, stack, pc⟩ := x
  dsimp only at h
  replace h := bind_ok _ _ _ h
  obtain ⟨stack1, hdrain, h⟩ := h
  obtain ⟨hstep, hids⟩ := parseExpLoop_ret A _ _ _ _ _ _ _ hloop
  split at h
  · cases h
  · cases h
    refine ⟨hstep, fun hi lo hlo => ?_⟩
    have hs1 := parseExpDrain_ids lo _ _ _ _ hdrain
      (hids hi lo hlo ⟨rfl, fun n hn => by cases hn⟩)
    cases stack1 with
    | nil => exact ⟨rfl, fun n hn => by cases hn⟩
    | cons a rest =>
      obtain ⟨⟨ha1, ha2⟩, _⟩ := (stackIds_cons _ _ _ _).mp hs1
      refine ⟨ha1, fun n hn => ?_⟩
      simp only [List.head?_cons, Option.some.injEq] at hn
      subst hn
      exact ha2

/-- A result code of a conditional is 0, 1 or the mark of an overflow when it is so on both sides. -/
theorem code_ite {α : Type} (c : Prop) [Decidable c] (a b : Nat × α)
    (ha : c → a.1 ≤ 2) (hb : ¬c → b.1 ≤ 2) : (if c then a else b).1 ≤ 2 := by
  split
  · exact ha (by assumption)
  · exact hb (by assumption)

/-- The result code of `readString` is 0, 1 or the mark of an overflow. -/
theorem readString_code (src : List Char) (token : Token) : (readString src token).1 ≤ 2 := by
  unfold readString
  split <;> simp

/-- The result code of `readMultilineString` is 0, 1 or the mark of an overflow. -/
theorem readMultilineString_code (src : List Char) (line : Nat) (token : Token) :
    (readMultilineString src line token).1 ≤ 2 := by
  unfold readMultilineString
  split <;> simp

/-- The result code of `readNumber` is 0, 1 or the mark of an overflow. -/
theorem readNumber_code (src : List Char) (token : Token) (c : Char) :
    (readNumber src token c).1 ≤ 2 := by
  unfold readNumber
  simp only
  split
  · simp
  · simp
  · repeat' (apply code_ite <;> intro _)
    all_goals simp

/-- The result code of `readString`, from its result. -/
theorem readString_res (src : List Char) (token t : Token) (r : Nat) (rest : List Char)
    (h : readString src token = (r, t, rest)) : r ≤ 2 := by
  have hx := readString_code src token
  rw [h] at hx
  exact hx

/-- The result code of `readMultilineString`, from its result. -/
theorem readMultilineString_res (src : List Char) (line : Nat) (token t : Token) (r : Nat)
    (rest : List Char) (line2 : Nat)
    (h : readMultilineString src line token = (r, t, rest, line2)) : r ≤ 2 := by
  have hx := readMultilineString_code src line token
  rw [h] at hx
  exact hx

/-- The result code of `readNumber`, from its result. -/
theorem readNumber_res (src : List Char) (token t : Token) (c : Char) (r : Nat)
    (rest : List Char) (h : readNumber src token c = (r, t, rest)) : r ≤ 2 := by
  have hx := readNumber_code src token c
  rw [h] at hx
  exact hx

/-- The result code of `twoCharToken` is 0. -/
theorem twoCharToken_code (sc : Scanner) (token : Token) (c : Char) (two one : TokenType) :
    (twoCharToken sc token c two one).1 ≤ 2 := by
  unfold twoCharToken
  split
  · simp
  · split <;> simp

/-- The result code of `processToken` is 0, 1 or the mark of an overflow. -/
theorem processToken_code (c : Char) (sc : Scanner) (token : Token) :
    (processToken c sc token).1 ≤ 2 := by
  unfold processToken
  repeat' (first | (apply code_ite <;> intro _) | split)
  all_goals first
    | exact twoCharToken_code _ _ _ _ _
    | exact readString_res _ _ _ _ _ (by assumption)
    | exact readMultilineString_res _ _ _ _ _ _ _ (by assumption)
    | exact readNumber_res _ _ _ _ _ _ (by assumption)
    | simp

/-- The result code of the loop of `getRawToken` is 0, 1 or the mark of an overflow. -/
theorem getRawTokenLoop_code :
    ∀ (fuel : Nat) (sc : Scanner) (token : Token), (getRawTokenLoop fuel sc token).1 ≤ 2 := by
  intro fuel
  induction fuel with
  | zero => intro sc token; simp [getRawTokenLoop]
  | succ fuel ih =>
    intro sc token
    unfold getRawTokenLoop
    repeat' (first
      | exact ih _ _
      | exact processToken_code _ _ _
      | (apply code_ite <;> intro _)
      | split)
    all_goals simp

/-- The result code of `getNextToken` is 0, 1 or the mark of an overflow. -/
theorem getNextTokenFuel_code :
    ∀ (fuel : Nat) (sc : Scanner), (getNextTokenFuel fuel sc).1 ≤ 2 := by
  intro fuel
  induction fuel with
  | zero => intro sc; simp [getNextTokenFuel]
  | succ fuel ih =>
    intro sc
    unfold getNextTokenFuel
    split
    · simp
    · have hraw := getRawTokenLoop_code (sc.source.length + 1) sc
        { Token.zero with line := sc.line }
      unfold getRawToken
      generalize getRawTokenLoop (sc.source.length + 1) sc { Token.zero with line := sc.line }
        = res at hraw
      obtain ⟨r, token, sc1⟩ := res
      simp only at hraw ⊢
      split
      · exact hraw
      · split
        · split
          · exact ih _
          · simp
        · simp

/-- After `lookAhead` without an error the token returned waits in the buffer. -/
theorem lookAhead_synced (sc : Scanner) :
    (lookAhead sc).1 = 1 ∨ (lookAhead sc).1 = HEAP_OVERFLOW ∨
      ((lookAhead sc).2.2.isLookingAhead = true ∧
        (lookAhead sc).2.2.lookAheadToken = (lookAhead sc).2.1) := by
  unfold lookAhead
  split
  · rename_i h
    exact Or.inr (Or.inr ⟨h, rfl⟩)
  · have hc := getNextTokenFuel_code (sc.source.length + 2) sc
    unfold getNextToken
    generalize getNextTokenFuel (sc.source.length + 2) sc = res at hc
    obtain ⟨r, token, sc1⟩ := res
    simp only at hc ⊢
    split
    · rename_i hr
      simp only [bne_iff_ne, ne_eq] at hr
      simp only [HEAP_OVERFLOW]
      omega
    · exact Or.inr (Or.inr ⟨rfl, rfl⟩)

/-- After `parserLookAhead` the token looked ahead waits in the buffer of the scanner. -/
theorem parserLookAhead_synced (p q : Parser) (h : parserLookAhead p = Except.ok q) :
    Synced q := by
  unfold parserLookAhead at h
  have hs := lookAhead_synced p.scanner
  generalize lookAhead p.scanner = res at h hs
  obtain ⟨r, token, sc⟩ := res
  simp only at h hs
  split at h
  · cases h
  · rename_i hr
    split at h
    · cases h
    · rename_i hr2
      cases h
      rcases hs with hs | hs | hs
      · simp [hs] at hr
      · simp [hs] at hr2
      · exact hs

/-- The token that `parserAdvance` makes current is the one that waited in the buffer. -/
theorem parserAdvance_synced (p q : Parser) (hs : Synced p)
    (h : parserAdvance p = Except.ok q) : q.current = p.lookAhead := by
  unfold parserAdvance getNextToken at h
  rw [getNextTokenFuel, if_pos hs.1] at h
  simp only at h
  split at h
  · cases h
  · cases h
    exact hs.2

/-- The expressions of `return` statements in a node after `setToken`. -/
theorem returnExprs_setToken (n : AstNode) (t : Token) :
    returnExprs (n.setToken t) = returnExprs n := by
  cases n <;> simp [AstNode.setToken, returnExprs]

/-- A node made by `astCreateNode` holds no `return` statement. -/
theorem returnExprs_astCreateNode (p : Parser) (ty : AstNodeType) :
    returnExprs (astCreateNode p ty).1 = [] := by
  unfold astCreateNode
  cases ty <;> simp [returnExprs, returnExprsOpt, returnExprsList, holdsBlock]

/-- The expressions of `return` statements of two lists joined. -/
theorem returnExprsList_append (xs ys : List AstNode) :
    returnExprsList (xs ++ ys) = returnExprsList xs ++ returnExprsList ys := by
  induction xs with
  | nil => simp [returnExprsList]
  | cons x xs ih => simp [returnExprsList, ih]

/-- The expressions of `return` statements of a list of one node. -/
theorem returnExprsList_one (n : AstNode) : returnExprsList [n] = returnExprs n := by
  simp [returnExprsList]

/-- The loop of `parseArguments` as a step. -/
theorem parseArgumentsLoop_ret (A : Nat) :
    ∀ (fuel : Nat) (p q : Parser) (acc items : List AstNode),
      parseArgumentsLoop fuel p acc = Except.ok (items, q) → RetStep A p q [] := by
  intro fuel
  induction fuel with
  | zero => intro p q acc items h; simp [parseArgumentsLoop] at h
  | succ fuel ih =>
    intro p q acc items h
    unfold parseArgumentsLoop at h
    replace h := bind_ok _ _ _ h
    obtain ⟨p1, hp1, h⟩ := h
    replace h := bind_ok _ _ _ h
    obtain ⟨x, hx, h⟩ := h
    obtain ⟨leaf0, p2⟩ := x
    dsimp only at h
    have hleaf : (RetStep A p1 p2 [] ∧ leaf0.id = p1.nodeTypes.length ∧
        p2.nodeTypes.length = p1.nodeTypes.length + 1 ∧
        ∀ lo, lo ≤ p1.nodeTypes.length → idsGe lo leaf0 = true) ∧
        p2.current = p1.current := by
      split at hx
      all_goals first
        | exact ⟨astCreateNode_facts A _ _ _ _ (Except.ok.inj hx),
            (astCreateNode_spec _ _ _ _ (Except.ok.inj hx)).2.2⟩
        | cases hx
    obtain ⟨⟨hs2, hid0, _, _⟩, hcur2⟩ := hleaf
    replace h := bind_ok _ _ _ h
    obtain ⟨p3, hp3, h⟩ := h
    replace h := bind_ok _ _ _ h
    obtain ⟨p4, hp4, h⟩ := h
    have hs3 : RetStep A p1 p3 [] :=
      assignTypeFromToken_ret A p1 p2 p3 _ hs2 (fun _ => by rw [id_setToken, hid0])
        (fun hi => by rw [token_setToken, ← hcur2]; exact hi.1.1) hp3
    have h14 : RetStep A p p4 [] := retStep_first _ _ _ _ _ (parserAdvance_ret A _ _ hp1)
      (retStep_then _ _ _ _ _ hs3 (parserLookAhead_ret A _ _ hp4))
    by_cases c1 : p4.lookAhead.type = TokenType.COMMA
    · rw [if_pos c1] at h
      replace h := bind_ok _ _ _ h
      obtain ⟨p5, hp5, h⟩ := h
      replace h := bind_ok _ _ _ h
      obtain ⟨p6, hp6, h⟩ := h
      exact retStep_first _ _ _ _ _ h14 (retStep_first _ _ _ _ _ (parserAdvance_ret A _ _ hp5)
        (retStep_first _ _ _ _ _ (parserLookAhead_ret A _ _ hp6) (ih _ _ _ _ h)))
    rw [if_neg c1] at h
    by_cases c2 : p4.lookAhead.type = TokenType.RPAR
    · rw [if_pos c2] at h
      replace h := bind_ok _ _ _ h
      obtain ⟨p5, hp5, h⟩ := h
      cases h
      exact retStep_then _ _ _ _ _ h14 (parserAdvance_ret A _ _ hp5)
    rw [if_neg c2] at h
    cases h

/-- The function `parseArguments` as a step. -/
theorem parseArguments_ret (A : Nat) (fuel : Nat) (p q : Parser) (n : AstNode)
    (h : parseArguments fuel p = Except.ok (n, q)) : RetStep A p q [] := by
  unfold parseArguments at h
  cases hc : astCreateNode p AstNodeType.AST_PARAMS with
  | mk node p1 =>
    rw [hc] at h
    dsimp only at h
    obtain ⟨hs1, _, _, _⟩ := astCreateNode_facts A _ _ _ _ hc
    replace h := bind_ok _ _ _ h
    obtain ⟨p2, hp2, h⟩ := h
    have h12 : RetStep A p p2 [] := retStep_then _ _ _ _ _ hs1 (parserLookAhead_ret A _ _ hp2)
    by_cases c1 : p2.lookAhead.type = TokenType.RPAR
    · rw [if_pos c1] at h
      replace h := bind_ok _ _ _ h
      obtain ⟨p3, hp3, h⟩ := h
      cases h
      exact retStep_then _ _ _ _ _ h12 (parserAdvance_ret A _ _ hp3)
    rw [if_neg c1] at h
    replace h := bind_ok _ _ _ h
    obtain ⟨x, hloop, h⟩ := h
    obtain ⟨items, p3⟩ := x
    cases h
    exact retStep_then _ _ _ _ _ h12 (parseArgumentsLoop_ret A _ _ _ _ _ hloop)

/-- The function `parseFunCall`: a step, and the node of a call. -/
theorem parseFunCall_ret (A : Nat) (fuel : Nat) (p q : Parser) (n : AstNode)
    (h : parseFunCall fuel p = Except.ok (n, q)) :
    RetStep A p q [] ∧ ∃ id tok args, n = AstNode.bin id AstNodeType.AST_FUN_CALL tok none args := by
  unfold parseFunCall at h
  replace h := bind_ok _ _ _ h
  obtain ⟨p1, hp1, h⟩ := h
  obtain ⟨e1, _⟩ := parserValidate_eq _ _ _ hp1
  replace h := bind_ok _ _ _ h
  obtain ⟨p2, hp2, h⟩ := h
  replace h := bind_ok _ _ _ h
  obtain ⟨p3, hp3, h⟩ := h
  obtain ⟨e3, _⟩ := parserValidate_eq _ _ _ hp3
  cases hc : astCreateNode p3 AstNodeType.AST_FUN_CALL with
  | mk node0 p4 =>
    rw [hc] at h
    dsimp only at h
    obtain ⟨hs4, hid0, _, _⟩ := astCreateNode_facts A _ _ _ _ hc
    replace h := bind_ok _ _ _ h
    obtain ⟨x, hargs, h⟩ := h
    obtain ⟨args, p5⟩ := x
    dsimp only at h
    replace h := bind_ok _ _ _ h
    obtain ⟨name, hname, h⟩ := h
    replace h := bind_ok _ _ _ h
    obtain ⟨p7, hp7, h⟩ := h
    replace h := bind_ok _ _ _ h
    obtain ⟨p8, hp8, h⟩ := h
    obtain ⟨e8, _⟩ := parserValidate_eq _ _ _ hp8
    cases h
    have hs5 : RetStep A p3 p5 [] :=
      retStep_then _ _ _ _ _ hs4 (parseArguments_ret A _ _ _ _ hargs)
    have hs6 : ∀ p6, p6 = (match symTableStackFindSymbol p5.symStack
          (symbolCreate name TYPE_UNKNOWN SymbolKind.SYM_FUNC 0).name with
        | none => { p5 with resolveLater := p5.resolveLater ++
            [AstNode.bin node0.id AstNodeType.AST_FUN_CALL p1.current none (some args)] }
        | some funDec => p5.setType
            (AstNode.bin node0.id AstNodeType.AST_FUN_CALL p1.current none (some args))
            (symAt p5.symStack.mem funDec).expressionType) → RetStep A p3 p6 [] := by
      intro p6 h6
      subst h6
      split
      · exact retStep_then _ _ _ _ _ hs5 (retStep_same A _ _ id rfl rfl)
      · exact retStep_setType _ _ _ _ _ hs5 (fun _ => le_of_eq hid0.symm)
    have h7 := retStep_then _ _ _ _ _ (hs6 _ rfl) (parserAdvance_ret A _ _ hp7)
    subst e1 e3 e8
    exact ⟨retStep_first _ _ _ _ _ (parserAdvance_ret A _ _ hp2) h7, _, _, _, rfl⟩

/-- The function `parseIfj`: a step, and a node without `return` statements. -/
theorem parseIfj_ret (A : Nat) (fuel : Nat) (p q : Parser) (n : AstNode)
    (h : parseIfj fuel p = Except.ok (n, q)) : RetStep A p q [] ∧ returnExprs n = [] := by
  unfold parseIfj at h
  replace h := bind_ok _ _ _ h
  obtain ⟨p1, hp1, h⟩ := h
  replace h := bind_ok _ _ _ h
  obtain ⟨p2, hp2, h⟩ := h
  replace h := bind_ok _ _ _ h
  obtain ⟨p3, hp3, h⟩ := h
  obtain ⟨e3, _⟩ := parserValidate_eq _ _ _ hp3
  replace h := bind_ok _ _ _ h
  obtain ⟨p4, hp4, h⟩ := h
  replace h := bind_ok _ _ _ h
  obtain ⟨p5, hp5, h⟩ := h
  replace h := bind_ok _ _ _ h
  obtain ⟨p6, hp6, h⟩ := h
  replace h := bind_ok _ _ _ h
  obtain ⟨p7, hp7, h⟩ := h
  obtain ⟨e7, _⟩ := parserValidate_eq _ _ _ hp7
  cases hc : astCreateNode p7 AstNodeType.AST_IFJ with
  | mk node0 p8 =>
    rw [hc] at h
    dsimp only at h
    obtain ⟨hs8, hid0, _, _⟩ := astCreateNode_facts A _ _ _ _ hc
    replace h := bind_ok _ _ _ h
    obtain ⟨x, hcall, h⟩ := h
    obtain ⟨call, p9⟩ := x
    cases h
    obtain ⟨hs9, _⟩ := parseFunCall_ret A _ _ _ _ hcall
    have hs5 : RetStep A p4 p5 [] := by
      split at hp5
      · exact parserAdvance_ret A _ _ hp5
      · cases hp5; exact retStep_refl _ _
    subst e3 e7
    have h79 : RetStep A p7 (p9.setType
        (AstNode.bin node0.id AstNodeType.AST_IFJ node0.token none (some call))
        (typeOf p9.nodeTypes call)) [] :=
      retStep_setType _ _ _ _ _ (retStep_then _ _ _ _ _ hs8 hs9)
        (fun _ => le_of_eq hid0.symm)
    refine ⟨retStep_first _ _ _ _ _ (parserAdvance_ret A _ _ hp1)
      (retStep_first _ _ _ _ _ (parserAdvance_ret A _ _ hp2)
      (retStep_first _ _ _ _ _ (parserLookAhead_ret A _ _ hp4)
      (retStep_first _ _ _ _ _ hs5 (retStep_first _ _ _ _ _ (parserAdvance_ret A _ _ hp6)
      h79)))), ?_⟩
    simp [returnExprs, holdsBlock]

/-- The function `parseVarDec`: a step, and a node without `return` statements. -/
theorem parseVarDec_ret (A : Nat) (p q : Parser) (n : AstNode)
    (h : parseVarDec p = Except.ok (n, q)) : RetStep A p q [] ∧ returnExprs n = [] := by
  unfold parseVarDec at h
  replace h := bind_ok _ _ _ h
  obtain ⟨p1, hp1, h⟩ := h
  replace h := bind_ok _ _ _ h
  obtain ⟨p2, hp2, h⟩ := h
  replace h := bind_ok _ _ _ h
  obtain ⟨p3, hp3, h⟩ := h
  obtain ⟨e3, ht3⟩ := parserValidate_eq _ _ _ hp3
  cases hc : astCreateNode p3 AstNodeType.AST_VAR_DEC with
  | mk leaf0 p4 =>
    rw [hc] at h
    dsimp only at h
    obtain ⟨_, _, hcur4⟩ := astCreateNode_spec _ _ _ _ hc
    obtain ⟨hs4, hid0, _, _⟩ := astCreateNode_facts A _ _ _ _ hc
    have hre : returnExprs leaf0 = [] := by
      have e : leaf0 = (astCreateNode p3 AstNodeType.AST_VAR_DEC).1 := by rw [hc]
      rw [e]; exact returnExprs_astCreateNode _ _
    replace h := bind_ok _ _ _ h
    obtain ⟨name, hname, h⟩ := h
    rw [token_setToken] at hname
    split at h
    · cases h
    · split at h
      · cases h
      · obtain ⟨x, hadd, h⟩ := bind_ok _ _ _ h
        obtain ⟨symbol, stack1⟩ := x
        dsimp only at h
        replace h := bind_ok _ _ _ h
        obtain ⟨p5, hp5, h⟩ := h
        replace h := bind_ok _ _ _ h
        obtain ⟨p6, hp6, h⟩ := h
        obtain ⟨e6, _⟩ := parserValidate_eq _ _ _ hp6
        cases h
        subst e3 e6
        have h13 : RetStep A p p3 [] := retStep_first _ _ _ _ _ (parserAdvance_ret A _ _ hp1)
          (parserAdvance_ret A _ _ hp2)
        have h34 : RetStep A p3 { p4 with symStack := stack1 } [] :=
          retStep_mem A _ _ _ hs4 (fun hi => memStep_addSymbolAt A _ _ _ _ _
            (by
              have hid := tokenString_clean _ _ (by rw [← hcur4]; exact hi.1.1)
                (Or.inl ht3) hname
              simpa [symbolCreate] using hid) hadd)
        have h36 := retStep_setType A _ _ (leaf0.setToken p3.current)
          (symAt p6.symStack.mem symbol).expressionType
          (retStep_then _ _ _ _ _ h34 (parserAdvance_ret A _ _ hp5))
          (fun _ => by rw [id_setToken, hid0])
        exact ⟨retStep_first _ _ _ _ _ h13 h36, by rw [returnExprs_setToken, hre]⟩

/-- The function `parseReturn` for the symbol at `A`: the type recorded on the symbol is
combined with the type of the expression. -/
theorem parseReturn_ret (A : Nat) (fuel : Nat) (p q : Parser) (n : AstNode)
    (h : parseReturn fuel A p = Except.ok (n, q)) : RetStep A p q (returnExprs n) := by
  unfold parseReturn at h
  replace h := bind_ok _ _ _ h
  obtain ⟨p1, hp1, h⟩ := h
  replace h := bind_ok _ _ _ h
  obtain ⟨p2, hp2, h⟩ := h
  cases hc : astCreateNode p2 AstNodeType.AST_RETURN with
  | mk node0 p3 =>
    rw [hc] at h
    dsimp only at h
    obtain ⟨hs3, _, _, _⟩ := astCreateNode_facts A _ _ _ _ hc
    replace h := bind_ok _ _ _ h
    obtain ⟨x, hexp, h⟩ := h
    obtain ⟨right, p4⟩ := x
    dsimp only at h
    obtain ⟨hs4, hids⟩ := parseExp_ret A _ _ _ _ hexp
    have h03 : RetStep A p p3 [] := retStep_first _ _ _ _ _ (parserAdvance_ret A _ _ hp1)
      (retStep_first _ _ _ _ _ (parserAdvance_ret A _ _ hp2) hs3)
    have h04 : RetStep A p p4 [] := retStep_then _ _ _ _ _ h03 hs4
    cases right with
    | none => cases h
    | some r =>
      dsimp only at h
      obtain ⟨types, htypes, h⟩ := bind_ok _ _ _ h
      cases h
      intro hi
      obtain ⟨i3, f3, _, _⟩ := h03 hi
      obtain ⟨hr1, hr2⟩ := hids i3 p.nodeTypes.length f3.1
      have hfr := semanticExpression_frame p.nodeTypes.length _ _ _ htypes hr1
      obtain ⟨i5, f5, _, t5⟩ := retStep_types A p p4 types h04 (fun _ => hfr) hi
      have hlen : A < p4.symStack.mem.length := i5.2.1
      refine ⟨⟨i5.1, ?_, ?_⟩, f5, ?_, ?_⟩
      · show A < (memUpdate p4.symStack.mem A _).length
        simpa [memUpdate] using hlen
      · show ¬ identChars (symAt (memUpdate p4.symStack.mem A _) A).name
        rw [symAt_memUpdate, if_pos ⟨rfl, hlen⟩]
        have hn : ¬ identChars (symAt p4.symStack.mem A).name := i5.2.2
        split <;> exact hn
      · intro x hx
        simp only [returnExprs, if_true, List.mem_singleton] at hx
        subst hx
        exact ⟨idsGe_root _ _ hr1, lt_of_lt_of_le (hr2 _ rfl) hfr.1⟩
      · show (symAt (memUpdate p4.symStack.mem A _) A).expressionType = _
        rw [symAt_memUpdate, if_pos ⟨rfl, hlen⟩]
        have t5b : (symAt p4.symStack.mem A).expressionType =
            (symAt p.symStack.mem A).expressionType := t5
        simp only [returnExprs, if_true, List.map_cons, List.map_nil, List.foldl_cons,
          List.foldl_nil, returnStep, ← t5b]
        split <;> rfl

/-- A symbol found in a list of scopes has the name looked for. -/
theorem findInScopes_name (mem : List Symbol) (name : String) :
    ∀ (scopes : List Scope) (a : Nat), findInScopes mem name scopes = some a →
      (symAt mem a).name = name := by
  intro scopes
  induction scopes with
  | nil => intro a h; simp [findInScopes] at h
  | cons sc rest ih =>
    intro a h
    unfold findInScopes at h
    split at h
    · rename_i b hb
      cases h
      exact (scopeFindSymbol_some _ _ _ _ hb).2
    · exact ih a h

/-- A symbol found by `symTableStackFindSymbol` has the name looked for. -/
theorem symTableStackFindSymbol_name (s : SymTableStack) (name : String) (a : Nat)
    (h : symTableStackFindSymbol s name = some a) : (symAt s.mem a).name = name :=
  findInScopes_name _ _ _ _ h

/-- The address that `addSymbolAt` returns is the size of the memory before. -/
theorem addSymbolAt_address (s s2 : SymTableStack) (i a : Nat) (x : Symbol)
    (h : addSymbolAt s i x = Except.ok (a, s2)) : a = s.mem.length := by
  unfold addSymbolAt at h
  split at h
  · cases h
  · cases h
    rfl

/-- The function `semanticExpression` on the node of a call leaves the store. -/
theorem semanticExpression_call (id : Nat) (tok : Token) (l r : Option AstNode)
    (T : List ExprType) :
    semanticExpression (some (AstNode.bin id AstNodeType.AST_FUN_CALL tok l r)) T =
      Except.ok T := by
  rw [semanticExpression] <;> intros <;> simp_all

/-- The function `parseVarAssign`, called when the token looked ahead is an identifier: a
step, and a node without `return` statements. -/
theorem parseVarAssign_ret (A : Nat) (fuel : Nat) (p q : Parser) (n : AstNode)
    (hsync : Synced p)
    (hla : p.lookAhead.type = TokenType.IDENTIFIER ∨
      p.lookAhead.type = TokenType.GLOBAL_IDENTIFIER)
    (h : parseVarAssign fuel p = Except.ok (n, q)) :
    RetStep A p q [] ∧ returnExprs n = [] := by
  unfold parseVarAssign at h
  replace h := bind_ok _ _ _ h
  obtain ⟨p1, hp1, h⟩ := h
  have hty1 : p1.current.type = TokenType.IDENTIFIER ∨
      p1.current.type = TokenType.GLOBAL_IDENTIFIER := by
    rw [parserAdvance_synced _ _ hsync hp1]; exact hla
  have h01 : RetStep A p p1 [] := parserAdvance_ret A _ _ hp1
  cases hc : astCreateNode p1 AstNodeType.AST_IDENTIFIER with
  | mk leaf0 p2 =>
    rw [hc] at h
    dsimp only at h
    obtain ⟨hs2, hid0, _, _⟩ := astCreateNode_facts A _ _ _ _ hc
    replace h := bind_ok _ _ _ h
    obtain ⟨p3, hp3, h⟩ := h
    replace h := bind_ok _ _ _ h
    obtain ⟨p4, hp4, h⟩ := h
    obtain ⟨e4, _⟩ := parserValidate_eq _ _ _ hp4
    subst e4
    cases hc5 : astCreateNode p4 AstNodeType.AST_VAR_ASSIGN with
    | mk node0 p5 =>
      rw [hc5] at h
      dsimp only at h
      obtain ⟨hs5, hid5, _, _⟩ := astCreateNode_facts A _ _ _ _ hc5
      replace h := bind_ok _ _ _ h
      obtain ⟨name, hname, h⟩ := h
      rw [token_setToken] at hname
      replace h := bind_ok _ _ _ h
      obtain ⟨x, hsym, h⟩ := h
      obtain ⟨leafSymbol, p6⟩ := x
      dsimp only at h
      replace h := bind_ok _ _ _ h
      obtain ⟨p7, hp7, h⟩ := h
      replace h := bind_ok _ _ _ h
      obtain ⟨y, hright, h⟩ := h
      obtain ⟨right, p8⟩ := y
      dsimp only at h
      have h04 : RetStep A p p4 [] := retStep_first _ _ _ _ _ h01
        (retStep_then _ _ _ _ _ hs2 (parserAdvance_ret A _ _ hp3))
      have h05 : RetStep A p p5 [] := retStep_then _ _ _ _ _ h04 hs5
      have hleaf : BodyInv A p → p.nodeTypes.length ≤ (leaf0.setToken p1.current).id := by
        intro hi
        rw [id_setToken, hid0]
        exact (h01 hi).2.1.1
      have hnode : BodyInv A p → p.nodeTypes.length ≤ node0.id := by
        intro hi
        rw [hid5]
        exact (h04 hi).2.1.1
      have hident : BodyInv A p → identChars name := fun hi =>
        tokenString_clean _ _ (h01 hi).1.1.1 hty1 hname
      have hs6 : (BodyInv A p → RetStep A p5 p6 []) ∧
          (∀ a, leafSymbol = some a → BodyInv A p → a ≠ A) := by
        split at hsym
        · rename_i a hfind
          cases hsym
          refine ⟨fun _ => retStep_refl _ _, fun a2 ha2 hi hEq => ?_⟩
          cases ha2
          subst hEq
          have hn := symTableStackFindSymbol_name _ _ _ hfind
          exact (h05 hi).1.2.2 (by rw [hn]; exact hident hi)
        · split at hsym
          · split at hsym
            · cases hsym
            · cases hsym
              exact ⟨fun _ => retStep_refl _ _, fun a2 ha2 => by cases ha2⟩
          · split at hsym
            · cases hsym
            · rename_i r hadd
              cases hsym
              refine ⟨fun hi => retStep_mem A _ _ _ (retStep_refl _ _) (fun _ =>
                memStep_addSymbolAt A _ _ _ _ _
                  (by simpa [symbolCreate] using hident hi) hadd), fun a2 ha2 hi hEq => ?_⟩
              cases ha2
              have haddr := addSymbolAt_address _ _ _ _ _ hadd
              have hlt := (h05 hi).1.2.1
              omega
      obtain ⟨hs6, hne⟩ := hs6
      have h07 : RetStep A p p7 [] := fun hi =>
        retStep_then _ _ _ _ _ (retStep_then _ _ _ _ _ h05 (hs6 hi))
          (parserLookAhead_ret A _ _ hp7) hi
      have hs8 : RetStep A p p8 [] := by
        split at hright
        · split at hright
          · cases hright
          · rename_i r0 q0 hifj
            cases hright
            exact retStep_then _ _ _ _ _ h07 (parseIfj_ret A _ _ _ _ hifj).1
        · obtain ⟨q1, hq1, hright⟩ := bind_ok _ _ _ hright
          obtain ⟨q2, hq2, hright⟩ := bind_ok _ _ _ hright
          have h0q2 : RetStep A p q2 [] := retStep_then _ _ _ _ _ (retStep_then _ _ _ _ _ h07
            (parserAdvance_ret A _ _ hq1)) (parserLookAhead_ret A _ _ hq2)
          split at hright
          · obtain ⟨z, hcall, hright⟩ := bind_ok _ _ _ hright
            obtain ⟨r, q3⟩ := z
            dsimp only at hright
            obtain ⟨types, htypes, hright⟩ := bind_ok _ _ _ hright
            cases hright
            obtain ⟨hs, id1, tok1, args1, hshape⟩ := parseFunCall_ret A _ _ _ _ hcall
            subst hshape
            rw [semanticExpression_call] at htypes
            cases htypes
            exact retStep_then _ _ _ _ _ h0q2 hs
          · obtain ⟨z, hexp, hright⟩ := bind_ok _ _ _ hright
            obtain ⟨r, q3⟩ := z
            dsimp only at hright
            obtain ⟨types, htypes, hright⟩ := bind_ok _ _ _ hright
            cases hright
            obtain ⟨hs, hids⟩ := parseExp_ret A _ _ _ _ hexp
            exact retStep_types A _ _ _ (retStep_then _ _ _ _ _ h0q2 hs) (fun hi =>
              semanticExpression_frame _ _ _ _ htypes
                (hids (h0q2 hi).1 _ (h0q2 hi).2.1.1).1)
        · obtain ⟨q1, hq1, hright⟩ := bind_ok _ _ _ hright
          obtain ⟨z, hexp, hright⟩ := bind_ok _ _ _ hright
          obtain ⟨r, q2⟩ := z
          dsimp only at hright
          obtain ⟨types, htypes, hright⟩ := bind_ok _ _ _ hright
          obtain ⟨types1, htypes1, hright⟩ := bind_ok _ _ _ hright
          cases hright
          obtain ⟨hs, hids⟩ := parseExp_ret A _ _ _ _ hexp
          have h0q1 : RetStep A p q1 [] :=
            retStep_then _ _ _ _ _ h07 (parserAdvance_ret A _ _ hq1)
          exact retStep_types A _ _ _ (retStep_then _ _ _ _ _ h0q1 hs) (fun hi =>
            frameAt_trans _ _ _ _
              (semanticExpression_frame _ _ _ _ htypes
                (hids (h0q1 hi).1 _ (h0q1 hi).2.1.1).1)
              (semanticAssignment_frame _ _ _ _ _ htypes1 (hleaf hi)
                (hids (h0q1 hi).1 _ (h0q1 hi).2.1.1).1))
      cases right with
      | none => cases h
      | some r =>
        cases leafSymbol with
        | none =>
          dsimp only at h
          have hs10 := retStep_setType A _ _
            (AstNode.bin node0.id AstNodeType.AST_VAR_ASSIGN node0.token
              (some (leaf0.setToken p1.current)) (some r))
            (typeOf p8.nodeTypes r) hs8 hnode
          split at h
          · cases h
            exact ⟨retStep_then _ _ _ _ _ hs10 (retStep_same A _ _ id rfl rfl),
              by simp [returnExprs, holdsBlock]⟩
          · cases h
            exact ⟨hs10, by simp [returnExprs, holdsBlock]⟩
        | some a =>
          dsimp only at h
          have hs9 := retStep_updSym A p p8 a (fun sym =>
            { sym with expressionType := typeOf p8.nodeTypes (leaf0.setToken p1.current) })
            hs8 (hne a rfl) (fun _ => rfl)
          have hs10 := retStep_setType A _ _
            (AstNode.bin node0.id AstNodeType.AST_VAR_ASSIGN node0.token
              (some (leaf0.setToken p1.current)) (some r))
            (typeOf p8.nodeTypes r) hs9 hnode
          split at h
          · cases h
            exact ⟨retStep_then _ _ _ _ _ hs10 (retStep_same A _ _ id rfl rfl),
              by simp [returnExprs, holdsBlock]⟩
          · cases h
            exact ⟨hs10, by simp [returnExprs, holdsBlock]⟩

/-- A step into a new scope. -/
theorem retStep_push (A : Nat) (p : Parser) :
    RetStep A p { p with symStack := symTableStackPush p.symStack } [] :=
  retStep_mem A p p _ (retStep_refl A p) (fun _ => memStep_refl A _)

/-- A step out of a scope. -/
theorem retStep_pop (A : Nat) (p : Parser) :
    RetStep A p { p with symStack := symTableStackPop p.symStack } [] :=
  retStep_mem A p p _ (retStep_refl A p) (fun _ => memStep_refl A _)

/-- A block parsed between `symTableStackPush` and `symTableStackPop`. -/
theorem retStep_scope (A : Nat) (block : BlockParser) (hb : BlockRet A block)
    (p q : Parser) (n : AstNode)
    (h : block A { p with symStack := symTableStackPush p.symStack } = Except.ok (n, q)) :
    RetStep A p { q with symStack := symTableStackPop q.symStack } (returnExprs n) :=
  retStep_first _ _ _ _ _ (retStep_push A p)
    (retStep_then _ _ _ _ _ (hb _ _ _ h) (retStep_pop A q))

/-- The expressions of `return` statements of a statement that holds a block. -/
theorem returnExprs_holds (id : Nat) (type : AstNodeType) (tok : Token)
    (left : Option AstNode) (body : AstNode) (hty : holdsBlock type = true) :
    returnExprs (AstNode.bin id type tok left (some body)) = returnExprs body := by
  have hne : type ≠ AstNodeType.AST_RETURN := by
    intro e
    subst e
    simp [holdsBlock] at hty
  simp [returnExprs, returnExprsOpt, hne, hty]

/-- The part that `parseIf`, `parseIfElse` and `parseWhile` share. -/
theorem parseCondBlock_ret (A : Nat) (block : BlockParser) (hb : BlockRet A block)
    (fuel : Nat) (type : AstNodeType) (needExp : Bool) (p q : Parser) (n : AstNode)
    (h : parseCondBlock block fuel A type needExp p = Except.ok (n, q))
    (hty : holdsBlock type = true) : RetStep A p q (returnExprs n) := by
  unfold parseCondBlock at h
  cases hc : astCreateNode p type with
  | mk node0 p1 =>
    rw [hc] at h
    dsimp only at h
    obtain ⟨hs1, _, _, _⟩ := astCreateNode_facts A _ _ _ _ hc
    replace h := bind_ok _ _ _ h
    obtain ⟨x, hexp, h⟩ := h
    obtain ⟨left, p2⟩ := x
    dsimp only at h
    obtain ⟨hs2, hids⟩ := parseExp_ret A _ _ _ _ hexp
    split at h
    · cases h
    · obtain ⟨types, htypes, h⟩ := bind_ok _ _ _ h
      replace h := bind_ok _ _ _ h
      obtain ⟨p3, hp3, h⟩ := h
      obtain ⟨e3, _⟩ := parserValidate_eq _ _ _ hp3
      replace h := bind_ok _ _ _ h
      obtain ⟨y, hblock, h⟩ := h
      obtain ⟨body, p4⟩ := y
      cases h
      subst e3
      have h03 : RetStep A p { p2 with nodeTypes := types } [] :=
        retStep_types A _ _ _ (retStep_then _ _ _ _ _ hs1 hs2) (fun hi =>
          semanticExpression_frame _ _ _ _ htypes
            (hids (hs1 hi).1 _ (hs1 hi).2.1.1).1)
      rw [returnExprs_holds _ _ _ _ _ hty]
      exact retStep_first _ _ _ _ _ h03 (retStep_scope A block hb _ _ _ hblock)

/-- The function `parseIf`. -/
theorem parseIf_ret (A : Nat) (block : BlockParser) (hb : BlockRet A block) (fuel : Nat)
    (p q : Parser) (n : AstNode)
    (h : parseIf block fuel A p = Except.ok (n, q)) : RetStep A p q (returnExprs n) := by
  unfold parseIf at h
  replace h := bind_ok _ _ _ h
  obtain ⟨p1, hp1, h⟩ := h
  replace h := bind_ok _ _ _ h
  obtain ⟨p2, hp2, h⟩ := h
  replace h := bind_ok _ _ _ h
  obtain ⟨p3, hp3, h⟩ := h
  obtain ⟨e3, _⟩ := parserValidate_eq _ _ _ hp3
  replace h := bind_ok _ _ _ h
  obtain ⟨p4, hp4, h⟩ := h
  have hs := parseCondBlock_ret A _ hb _ _ _ _ _ _ h rfl
  subst e3
  exact retStep_first _ _ _ _ _ (parserAdvance_ret A _ _ hp1) (retStep_first _ _ _ _ _
    (parserAdvance_ret A _ _ hp2) (retStep_first _ _ _ _ _ (parserAdvance_ret A _ _ hp4) hs))

/-- The function `parseWhile`. -/
theorem parseWhile_ret (A : Nat) (block : BlockParser) (hb : BlockRet A block) (fuel : Nat)
    (p q : Parser) (n : AstNode)
    (h : parseWhile block fuel A p = Except.ok (n, q)) : RetStep A p q (returnExprs n) := by
  unfold parseWhile at h
  replace h := bind_ok _ _ _ h
  obtain ⟨p1, hp1, h⟩ := h
  replace h := bind_ok _ _ _ h
  obtain ⟨p2, hp2, h⟩ := h
  replace h := bind_ok _ _ _ h
  obtain ⟨p3, hp3, h⟩ := h
  obtain ⟨e3, _⟩ := parserValidate_eq _ _ _ hp3
  replace h := bind_ok _ _ _ h
  obtain ⟨p4, hp4, h⟩ := h
  have hs := parseCondBlock_ret A _ hb _ _ _ _ _ _ h rfl
  subst e3
  exact retStep_first _ _ _ _ _ (parserAdvance_ret A _ _ hp1) (retStep_first _ _ _ _ _
    (parserAdvance_ret A _ _ hp2) (retStep_first _ _ _ _ _ (parserAdvance_ret A _ _ hp4) hs))

/-- The function `parseIfElse`. -/
theorem parseIfElse_ret (A : Nat) (block : BlockParser) (hb : BlockRet A block) (fuel : Nat)
    (p q : Parser) (n : AstNode)
    (h : parseIfElse block fuel A p = Except.ok (n, q)) : RetStep A p q (returnExprs n) := by
  unfold parseIfElse at h
  replace h := bind_ok _ _ _ h
  obtain ⟨p1, hp1, h⟩ := h
  replace h := bind_ok _ _ _ h
  obtain ⟨p2, hp2, h⟩ := h
  obtain ⟨e2, _⟩ := parserValidate_eq _ _ _ hp2
  replace h := bind_ok _ _ _ h
  obtain ⟨p3, hp3, h⟩ := h
  have hs := parseCondBlock_ret A _ hb _ _ _ _ _ _ h rfl
  subst e2
  exact retStep_first _ _ _ _ _ (parserAdvance_ret A _ _ hp1)
    (retStep_first _ _ _ _ _ (parserAdvance_ret A _ _ hp3) hs)

/-- The function `parseElse`. -/
theorem parseElse_ret (A : Nat) (block : BlockParser) (hb : BlockRet A block)
    (p q : Parser) (n : AstNode)
    (h : parseElse block A p = Except.ok (n, q)) : RetStep A p q (returnExprs n) := by
  unfold parseElse at h
  cases hc : astCreateNode p AstNodeType.AST_ELSE_STMT with
  | mk node0 p1 =>
    rw [hc] at h
    dsimp only at h
    obtain ⟨hs1, _, _, _⟩ := astCreateNode_facts A _ _ _ _ hc
    replace h := bind_ok _ _ _ h
    obtain ⟨y, hblock, h⟩ := h
    obtain ⟨body, p2⟩ := y
    cases h
    rw [returnExprs_holds _ AstNodeType.AST_ELSE_STMT _ _ _ rfl]
    exact retStep_first _ _ _ _ _ hs1 (retStep_scope A block hb _ _ _ hblock)

/-- The `while` of `parseIfChain`: the nodes appended, and the step over them. -/
theorem parseIfChainLoop_ret (A : Nat) (block : BlockParser) (hb : BlockRet A block) :
    ∀ (fuel : Nat) (p q : Parser) (acc items : List AstNode),
      parseIfChainLoop block A fuel p acc = Except.ok (items, q) →
      ∃ rest, items = acc ++ rest ∧ RetStep A p q (returnExprsList rest) := by
  intro fuel
  induction fuel with
  | zero => intro p q acc items h; simp [parseIfChainLoop] at h
  | succ fuel ih =>
    intro p q acc items h
    unfold parseIfChainLoop at h
    by_cases c1 : p.lookAhead.type = TokenType.KW_ELSE
    · rw [if_pos c1] at h
      replace h := bind_ok _ _ _ h
      obtain ⟨p1, hp1, h⟩ := h
      replace h := bind_ok _ _ _ h
      obtain ⟨p2, hp2, h⟩ := h
      replace h := bind_ok _ _ _ h
      obtain ⟨x, hnode, h⟩ := h
      obtain ⟨node, p3⟩ := x
      dsimp only at h
      replace h := bind_ok _ _ _ h
      obtain ⟨p4, hp4, h⟩ := h
      have hn : RetStep A p2 p3 (returnExprs node) := by
        split at hnode
        · exact parseIfElse_ret A _ hb _ _ _ _ hnode
        · exact parseElse_ret A _ hb _ _ _ hnode
      obtain ⟨rest, hitems, hrest⟩ := ih _ _ _ _ h
      refine ⟨node :: rest, by rw [hitems]; simp, ?_⟩
      show RetStep A p q (returnExprs node ++ returnExprsList rest)
      exact retStep_first _ _ _ _ _ (parserAdvance_ret A _ _ hp1) (retStep_first _ _ _ _ _
        (parserLookAhead_ret A _ _ hp2) (retStep_trans _ _ _ _ _ _ hn
        (retStep_first _ _ _ _ _ (parserLookAhead_ret A _ _ hp4) hrest)))
    · rw [if_neg c1] at h
      cases h
      exact ⟨[], by simp, retStep_refl _ _⟩

/-- The function `parseIfChain`. -/
theorem parseIfChain_ret (A : Nat) (block : BlockParser) (hb : BlockRet A block) (fuel : Nat)
    (p q : Parser) (items : List AstNode)
    (h : parseIfChain block fuel A p = Except.ok (items, q)) :
    RetStep A p q (returnExprsList items) := by
  unfold parseIfChain at h
  replace h := bind_ok _ _ _ h
  obtain ⟨x, hif, h⟩ := h
  obtain ⟨node, p1⟩ := x
  dsimp only at h
  replace h := bind_ok _ _ _ h
  obtain ⟨p2, hp2, h⟩ := h
  have hs1 := parseIf_ret A _ hb _ _ _ _ hif
  obtain ⟨rest, hitems, hrest⟩ := parseIfChainLoop_ret A _ hb _ _ _ _ _ h
  rw [hitems]
  show RetStep A p q (returnExprs node ++ returnExprsList rest)
  exact retStep_trans _ _ _ _ _ _ hs1
    (retStep_first _ _ _ _ _ (parserLookAhead_ret A _ _ hp2) hrest)

/-- The `while` of `parseStList`: the statements appended, and the step over them. -/
theorem parseStListLoop_ret (A : Nat) (block : BlockParser) (hb : BlockRet A block) :
    ∀ (fuel : Nat) (p q : Parser) (acc items : List AstNode),
      parseStListLoop block A fuel p acc = Except.ok (items, q) → Synced p →
      ∃ rest, items = acc ++ rest ∧ RetStep A p q (returnExprsList rest) := by
  intro fuel
  induction fuel with
  | zero => intro p q acc items h; simp [parseStListLoop] at h
  | succ fuel ih =>
    intro p q acc items h hsync
    unfold parseStListLoop at h
    split at h
    · split at h
      · obtain ⟨x, hchain, h⟩ := bind_ok _ _ _ h
        obtain ⟨nodes, p1⟩ := x
        dsimp only at h
        replace h := bind_ok _ _ _ h
        obtain ⟨p2, hp2, h⟩ := h
        have hs1 := parseIfChain_ret A _ hb _ _ _ _ hchain
        obtain ⟨rest, hitems, hrest⟩ := ih _ _ _ _ h (parserLookAhead_synced _ _ hp2)
        refine ⟨nodes ++ rest, by rw [hitems]; simp, ?_⟩
        rw [returnExprsList_append]
        exact retStep_trans _ _ _ _ _ _ hs1
          (retStep_first _ _ _ _ _ (parserLookAhead_ret A _ _ hp2) hrest)
      · obtain ⟨x, hnode, h⟩ := bind_ok _ _ _ h
        obtain ⟨node, p1⟩ := x
        dsimp only at h
        replace h := bind_ok _ _ _ h
        obtain ⟨p2, hp2, h⟩ := h
        have hn : RetStep A p p1 (returnExprs node) := by
          split at hnode
          · obtain ⟨hs, he⟩ := parseIfj_ret A _ _ _ _ hnode
            rw [he]; exact hs
          · split at hnode
            · cases hnode
            · rename_i n0 q0 hblock
              cases hnode
              exact retStep_scope A block hb _ _ _ hblock
          · exact parseReturn_ret A _ _ _ _ hnode
          · exact parseWhile_ret A _ hb _ _ _ _ hnode
          · obtain ⟨hs, he⟩ := parseVarDec_ret A _ _ _ hnode
            rw [he]; exact hs
          · obtain ⟨hs, he⟩ := parseVarAssign_ret A _ _ _ _ hsync (Or.inl (by assumption)) hnode
            rw [he]; exact hs
          · obtain ⟨hs, he⟩ := parseVarAssign_ret A _ _ _ _ hsync (Or.inr (by assumption)) hnode
            rw [he]; exact hs
          · cases hnode
        obtain ⟨rest, hitems, hrest⟩ := ih _ _ _ _ h (parserLookAhead_synced _ _ hp2)
        refine ⟨node :: rest, by rw [hitems]; simp, ?_⟩
        show RetStep A p q (returnExprs node ++ returnExprsList rest)
        exact retStep_trans _ _ _ _ _ _ hn
          (retStep_first _ _ _ _ _ (parserLookAhead_ret A _ _ hp2) hrest)
    · cases h
      exact ⟨[], by simp, retStep_refl _ _⟩

/-- The function `parseStList`. -/
theorem parseStList_ret (A : Nat) (block : BlockParser) (hb : BlockRet A block) (fuel : Nat)
    (p q : Parser) (items : List AstNode)
    (h : parseStList block fuel A p = Except.ok (items, q)) :
    RetStep A p q (returnExprsList items) := by
  unfold parseStList at h
  replace h := bind_ok _ _ _ h
  obtain ⟨p1, hp1, h⟩ := h
  obtain ⟨rest, hitems, hrest⟩ :=
    parseStListLoop_ret A _ hb _ _ _ _ _ h (parserLookAhead_synced _ _ hp1)
  rw [hitems]
  exact retStep_first _ _ _ _ _ (parserLookAhead_ret A _ _ hp1) hrest

/-- The function `parseBlock` for the symbol at `A`: the type recorded on the symbol is
combined with the types of the expressions of the `return` statements of the block, in
their order. -/
theorem parseBlock_ret (A : Nat) : ∀ (fuel : Nat), BlockRet A (parseBlock fuel) := by
  intro fuel
  induction fuel with
  | zero => intro p q n h; simp [parseBlock] at h
  | succ fuel ih =>
    intro p q n h
    unfold parseBlock at h
    replace h := bind_ok _ _ _ h
    obtain ⟨p1, hp1, h⟩ := h
    cases hc : astCreateNode p1 AstNodeType.AST_BLOCK with
    | mk node p2 =>
      rw [hc] at h
      dsimp only at h
      obtain ⟨hs2, _, _, _⟩ := astCreateNode_facts A _ _ _ _ hc
      have hty : node.type = AstNodeType.AST_BLOCK := by
        have e : node = (astCreateNode p1 AstNodeType.AST_BLOCK).1 := by rw [hc]
        rw [e]; rfl
      replace h := bind_ok _ _ _ h
      obtain ⟨x, hlist, h⟩ := h
      obtain ⟨items, p3⟩ := x
      dsimp only at h
      replace h := bind_ok _ _ _ h
      obtain ⟨p4, hp4, h⟩ := h
      replace h := bind_ok _ _ _ h
      obtain ⟨p5, hp5, h⟩ := h
      obtain ⟨e5, _⟩ := parserValidate_eq _ _ _ hp5
      replace h := bind_ok _ _ _ h
      obtain ⟨p6, hp6, h⟩ := h
      replace h := bind_ok _ _ _ h
      obtain ⟨p7, hp7, h⟩ := h
      have hs3 := parseStList_ret A _ ih _ _ _ _ hlist
      have hs7 : RetStep A p6 p7 [] := by
        split at hp7
        · obtain ⟨q1, hq1, hp7⟩ := bind_ok _ _ _ hp7
          obtain ⟨e7, _⟩ := parserValidate_eq _ _ _ hp7
          subst e7
          exact parserAdvance_ret A _ _ hq1
        · cases hp7; exact retStep_refl _ _
      subst e5
      cases h
      have hre : returnExprs (AstNode.list node.id node.type node.token items) =
          returnExprsList items := by
        simp [returnExprs, hty]
      rw [hre]
      exact retStep_first _ _ _ _ _ (parserValidateSequence_ret A _ _ _ hp1)
        (retStep_first _ _ _ _ _ hs2 (retStep_then _ _ _ _ _ hs3
        (retStep_first _ _ _ _ _ (parserAdvance_ret A _ _ hp4)
        (retStep_first _ _ _ _ _ (parserLookAhead_ret A _ _ hp6) hs7))))

/-- A name that holds a character that is no identifier character. -/
theorem not_ident_of_mem (s : String) (c : Char) (hc : c ∈ s.data)
    (hp : isIdentifierPart c = false) : ¬ identChars s := by
  intro h
  have h2 := h.2 c hc
  rw [hp] at h2
  cases h2

/-- The name under which the symbol of a declaration is stored is not made of identifier
characters only: it holds `#` or `$`. -/
theorem not_ident_mangled (hd : FunHeader) : ¬ identChars (mangledName hd) := by
  unfold mangledName symbolCreate symbolKindOf symbolGetUniqueName
  by_cases c1 : hd.type = AstNodeType.AST_FUN_GET
  · simp only [c1, if_true, true_or, or_true]
    exact not_ident_of_mem _ '#' (by simp [String.data_append]) (by decide)
  · by_cases c2 : hd.type = AstNodeType.AST_FUN_SET
    · simp only [c2, if_true, true_or, or_true]
      simp only [reduceCtorEq, if_false, or_true, if_true]
      exact not_ident_of_mem _ '#' (by simp [String.data_append]) (by decide)
    · simp only [if_neg c1, if_neg c2, true_or, if_true, reduceCtorEq, if_false]
      exact not_ident_of_mem _ '$' (by simp [String.data_append]) (by decide)

/-- The statement `scopeAddSymbol(stack->scopes[index], symbol)` for the symbol at `A`
keeps the memory. -/
theorem scopeAddAt_self (A : Nat) (s s2 : SymTableStack) (i : Nat)
    (h : scopeAddAt s i A = Except.ok s2) : MemStep A s.mem s2.mem := by
  unfold scopeAddAt at h
  split at h
  · cases h
  · split at h
    · cases h
    · rename_i code scope1 mem1 hadd
      cases h
      exact memStep_scopeAddSelf A _ _ _ _ _ hadd

/-- The memory after the symbol of a declaration is entered: the symbol at the new
address keeps its name and its type. -/
theorem declare_mem (p7 p9 : Parser) (x : Symbol) (k : Nat)
    (s1 : SymTableStack) (hs1 : s1 = (allocSymbol p7.symStack x).2)
    (a : Nat) (ha : a = (allocSymbol p7.symStack x).1)
    (h : (match symTableStackFindSymbol s1 (symAt s1.mem a).name with
          | some f =>
            if (symAt s1.mem f).numOfParams = k ∧ (symAt s1.mem f).declared = true then
              errorExit SEM_REDEF
            else if (!(symAt s1.mem f).declared) = true then
              Except.ok ({ p7 with symStack := s1 }.updSym f setDeclared)
            else
              match scopeAddAt s1 0 a with
              | Except.error e => Except.error e
              | Except.ok stack2 => Except.ok ({ p7 with symStack := stack2 }.updSym a setDeclared)
          | none =>
            match scopeAddAt s1 0 a with
            | Except.error e => Except.error e
            | Except.ok stack2 => Except.ok ({ p7 with symStack := stack2 }.updSym a setDeclared)) =
        Except.ok p9) (hx : ¬ identChars x.name) :
    a = p7.symStack.mem.length ∧ a < p9.symStack.mem.length ∧
      (symAt p9.symStack.mem a).name = x.name ∧
      (symAt p9.symStack.mem a).expressionType = x.expressionType ∧
      p9.nodeTypes = p7.nodeTypes ∧ p9.current = p7.current ∧
      p9.lookAhead = p7.lookAhead ∧ p9.scanner = p7.scanner := by
  subst hs1 ha
  have hself : symAt (p7.symStack.mem ++ [x]) p7.symStack.mem.length = x :=
    symAt_append_self _ _
  have hkey : MemStep p7.symStack.mem.length (p7.symStack.mem ++ [x]) p9.symStack.mem ∧
      p9.nodeTypes = p7.nodeTypes ∧ p9.current = p7.current ∧
      p9.lookAhead = p7.lookAhead ∧ p9.scanner = p7.scanner := by
    have hadd : ∀ stack2, scopeAddAt (allocSymbol p7.symStack x).2 0
        (allocSymbol p7.symStack x).1 = Except.ok stack2 →
        MemStep p7.symStack.mem.length (p7.symStack.mem ++ [x])
          (memUpdate stack2.mem p7.symStack.mem.length setDeclared) := by
      intro stack2 h2
      exact memStep_trans _ _ _ _ (scopeAddAt_self _ _ _ _ h2)
        (memStep_update _ _ _ _ (fun _ => rfl) (fun _ _ => rfl))
    split at h
    · split at h
      · cases h
      · split at h
        · cases h
          exact ⟨memStep_update _ _ _ _ (fun _ => rfl) (fun _ _ => rfl), rfl, rfl, rfl, rfl⟩
        · split at h
          · cases h
          · rename_i stack2 h2
            cases h
            exact ⟨hadd _ h2, rfl, rfl, rfl, rfl⟩
    · split at h
      · cases h
      · rename_i stack2 h2
        cases h
        exact ⟨hadd _ h2, rfl, rfl, rfl, rfl⟩
  obtain ⟨hm, hT, hc, hl, hsc⟩ := hkey
  have hlt : p7.symStack.mem.length < (p7.symStack.mem ++ [x]).length := by simp
  refine ⟨rfl, lt_of_lt_of_le hlt hm.1, ?_, ?_, hT, hc, hl, hsc⟩
  · show (symAt p9.symStack.mem p7.symStack.mem.length).name = x.name
    rw [hm.2.1 _ hlt, hself]
  · show (symAt p9.symStack.mem p7.symStack.mem.length).expressionType = x.expressionType
    rw [hm.2.2 hlt (by rw [hself]; exact hx), hself]

/-- The second part of `parseFunDec`: the new symbol is at the address that was the size
of the memory, with the name of the declaration and the type `TYPE_NULL`. -/
theorem declareFunction_mem (hd : FunHeader) (p7 p9 : Parser) (sym : Nat)
    (h : declareFunction hd p7 = Except.ok (sym, p9)) :
    sym = p7.symStack.mem.length ∧ sym < p9.symStack.mem.length ∧
      (symAt p9.symStack.mem sym).name = mangledName hd ∧
      (symAt p9.symStack.mem sym).expressionType = TYPE_NULL ∧
      p9.nodeTypes = p7.nodeTypes ∧ p9.current = p7.current ∧
      p9.lookAhead = p7.lookAhead ∧ p9.scanner = p7.scanner := by
  unfold declareFunction at h
  dsimp only at h
  replace h := bind_ok _ _ _ h
  obtain ⟨p9b, hp9, h⟩ := h
  cases h
  exact declare_mem p7 p9 _ hd.paramsCount _ rfl _ rfl hp9 (not_ident_mangled hd)

/-- The loop of `parseParams` does not shorten the store of types. -/
theorem parseParamsLoop_length :
    ∀ (fuel : Nat) (p q : Parser) (acc items : List AstNode),
      parseParamsLoop fuel p acc = Except.ok (items, q) →
      p.nodeTypes.length ≤ q.nodeTypes.length := by
  intro fuel
  induction fuel with
  | zero => intro p q acc items h; simp [parseParamsLoop] at h
  | succ fuel ih =>
    intro p q acc items h
    unfold parseParamsLoop at h
    replace h := bind_ok _ _ _ h
    obtain ⟨p1, hp1, h⟩ := h
    replace h := bind_ok _ _ _ h
    obtain ⟨p2, hp2, h⟩ := h
    obtain ⟨e2, _⟩ := parserValidate_eq _ _ _ hp2
    subst e2
    dsimp only at h
    replace h := bind_ok _ _ _ h
    obtain ⟨p4, hp4, h⟩ := h
    have h4 : p.nodeTypes.length ≤ p4.nodeTypes.length := by
      rw [parserLookAhead_types _ _ hp4, astCreateNode_types, parserAdvance_types _ _ hp1]
      simp
    by_cases c1 : p4.lookAhead.type = TokenType.COMMA
    · rw [if_pos c1] at h
      replace h := bind_ok _ _ _ h
      obtain ⟨p5, hp5, h⟩ := h
      replace h := bind_ok _ _ _ h
      obtain ⟨p6, hp6, h⟩ := h
      have h6 := ih _ _ _ _ h
      rw [parserLookAhead_types _ _ hp6, parserAdvance_types _ _ hp5] at h6
      exact h4.trans h6
    rw [if_neg c1] at h
    by_cases c2 : p4.lookAhead.type = TokenType.RPAR
    · rw [if_pos c2] at h
      replace h := bind_ok _ _ _ h
      obtain ⟨p5, hp5, h⟩ := h
      replace h := bind_ok _ _ _ h
      obtain ⟨p6, hp6, h⟩ := h
      obtain ⟨e6, _⟩ := parserValidate_eq _ _ _ hp6
      subst e6
      cases h
      rw [parserAdvance_types _ _ hp5]
      exact h4
    rw [if_neg c2] at h
    cases h

/-- The function `parseParams` does not shorten the store of types. -/
theorem parseParams_length (fuel : Nat) (p q : Parser) (n : AstNode)
    (h : parseParams fuel p = Except.ok (n, q)) :
    p.nodeTypes.length ≤ q.nodeTypes.length := by
  unfold parseParams at h
  dsimp only at h
  replace h := bind_ok _ _ _ h
  obtain ⟨p2, hp2, h⟩ := h
  replace h := bind_ok _ _ _ h
  obtain ⟨p3, hp3, h⟩ := h
  obtain ⟨e3, _⟩ := parserValidate_eq _ _ _ hp3
  subst e3
  replace h := bind_ok _ _ _ h
  obtain ⟨p4, hp4, h⟩ := h
  have h4 : p.nodeTypes.length ≤ p4.nodeTypes.length := by
    rw [parserLookAhead_types _ _ hp4, parserAdvance_types _ _ hp2, astCreateNode_types]
    simp
  by_cases c1 : p4.lookAhead.type = TokenType.RPAR
  · rw [if_pos c1] at h
    replace h := bind_ok _ _ _ h
    obtain ⟨p5, hp5, h⟩ := h
    replace h := bind_ok _ _ _ h
    obtain ⟨p6, hp6, h⟩ := h
    obtain ⟨e6, _⟩ := parserValidate_eq _ _ _ hp6
    subst e6
    cases h
    rw [parserAdvance_types _ _ hp5]
    exact h4
  · rw [if_neg c1] at h
    replace h := bind_ok _ _ _ h
    obtain ⟨x, hx, h⟩ := h
    obtain ⟨items, p5⟩ := x
    cases h
    exact h4.trans (parseParamsLoop_length _ _ _ _ _ hx)

/-- The first part of `parseFunDec` on clean tokens: the tokens stay clean, the new node
is in the store of types, and the items of the list of parameters are leaves with clean
identifier tokens. -/
theorem parseFunDecHead_facts (fuel : Nat) (p p7 : Parser) (hd : FunHeader) (ht : TokOK p)
    (h : parseFunDecHead fuel p = Except.ok (hd, p7)) :
    TokOK p7 ∧ hd.funNode.id < p7.nodeTypes.length ∧
      ∀ items, (match hd.left with
        | some params => childItems params
        | none => Except.ok []) = Except.ok items → ParamItems items := by
  unfold parseFunDecHead at h
  replace h := bind_ok _ _ _ h
  obtain ⟨p1, hp1, h⟩ := h
  replace h := bind_ok _ _ _ h
  obtain ⟨p2, hp2, h⟩ := h
  obtain ⟨e2, _⟩ := parserValidate_eq _ _ _ hp2
  subst e2
  replace h := bind_ok _ _ _ h
  obtain ⟨p3, hp3, h⟩ := h
  replace h := bind_ok _ _ _ h
  obtain ⟨p4, hp4, h⟩ := h
  obtain ⟨e4, _⟩ := parserValidate_eq _ _ _ hp4
  subst e4
  dsimp only at h
  replace h := bind_ok _ _ _ h
  obtain ⟨p6, hp6, h⟩ := h
  have h16 : PStep p p6 := pstep_trans _ _ _ (parserAdvance_step _ _ hp1)
    (pstep_trans _ _ _ (parserAdvance_step _ _ hp3)
    (pstep_trans _ _ _ (astCreateNode_step _ _) (parserLookAhead_step _ _ hp6)))
  have hT6 : (astCreateNode p4 AstNodeType.AST_FUN_DEC).1.id < p6.nodeTypes.length := by
    rw [parserLookAhead_types _ _ hp6, astCreateNode_types, astCreateNode_id]
    simp
  replace h := bind_ok _ _ _ h
  obtain ⟨x, hx, h⟩ := h
  obtain ⟨type, left, q7⟩ := x
  dsimp only at h
  replace h := bind_ok _ _ _ h
  obtain ⟨k, hk, h⟩ := h
  replace h := bind_ok _ _ _ h
  obtain ⟨name, hname, h⟩ := h
  cases h
  dsimp only
  have hleft : PStep p6 p7 ∧ p6.nodeTypes.length ≤ p7.nodeTypes.length ∧
      ((∃ params, left = some params ∧ ParamsNode params) ∨ left = none) := by
    split at hx
    · split at hx
      · cases hx
      · rename_i params q0 hpar
        cases hx
        obtain ⟨hs, hn⟩ := parseParams_spec _ _ _ _ hpar
        exact ⟨hs, parseParams_length _ _ _ _ hpar, Or.inl ⟨params, rfl, hn (h16 ht).1⟩⟩
    · split at hx
      · obtain ⟨q1, hq1, hx⟩ := bind_ok _ _ _ hx
        obtain ⟨z, hpar, hx⟩ := bind_ok _ _ _ hx
        obtain ⟨params, q2⟩ := z
        dsimp only at hx
        obtain ⟨c, _, hx⟩ := bind_ok _ _ _ hx
        split at hx
        · cases hx
        · cases hx
          obtain ⟨hs, hn⟩ := parseParams_spec _ _ _ _ hpar
          have hs1 := parserAdvance_step _ _ hq1
          have hl := parseParams_length _ _ _ _ hpar
          rw [parserAdvance_types _ _ hq1] at hl
          exact ⟨pstep_trans _ _ _ hs1 hs, hl,
            Or.inl ⟨params, rfl, hn (hs1 (h16 ht).1).1⟩⟩
      · split at hx
        · cases hx
          exact ⟨pstep_refl _, le_refl _, Or.inr rfl⟩
        · cases hx
  obtain ⟨hs7, hl7, hkind⟩ := hleft
  refine ⟨(hs7 (h16 ht).1).1, lt_of_lt_of_le hT6 hl7, fun items hitems => ?_⟩
  rcases hkind with ⟨params, hl, hpn⟩ | hl
  · subst hl
    obtain ⟨_, _, its, hp, hi⟩ := hpn
    subst hp
    cases hitems
    exact hi
  · subst hl
    cases hitems
    exact fun _ hi => by cases hi

/-- The loop of `parseFunDec` that installs the parameters, as a step. -/
theorem installParams_ret (A : Nat) (top : Nat) :
    ∀ (items : List AstNode) (p q : Parser),
      installParams top items p = Except.ok q → ParamItems items → RetStep A p q [] := by
  intro items
  induction items with
  | nil => intro p q h _; simp only [installParams] at h; cases h; exact retStep_refl _ _
  | cons item rest ih =>
    intro p q h hitems
    unfold installParams at h
    replace h := bind_ok _ _ _ h
    obtain ⟨name, hname, h⟩ := h
    dsimp only at h
    obtain ⟨hclean, htype, _⟩ := hitems item (List.mem_cons_self _ _)
    have hid := tokenString_clean _ _ hclean (Or.inl htype) hname
    split at h
    · cases h
    · split at h
      · cases h
      · obtain ⟨x, hadd, h⟩ := bind_ok _ _ _ h
        obtain ⟨a, stack1⟩ := x
        dsimp only at h
        have hrest := ih _ _ h (fun i hi => hitems i (List.mem_cons_of_mem _ hi))
        exact retStep_first _ _ _ _ _ (retStep_mem A p p stack1 (retStep_refl _ _)
          (fun _ => memStep_addSymbolAt A _ _ _ _ _
            (by simpa [symbolCreate] using hid) hadd)) hrest

/-- The types of the return expressions combined by `returnStep` from a type without the
bit of `TYPE_UNKNOWN`, when none of them has the value 1 in common with `TYPE_UNKNOWN`:
the union of all. -/
theorem foldl_returnStep_union :
    ∀ (ts : List ExprType) (t0 : ExprType), t0 &&& TYPE_UNKNOWN ≠ 1 →
      (∀ t ∈ ts, t &&& TYPE_UNKNOWN ≠ 1) →
      ts.foldl returnStep t0 = ts.foldl (fun a b => a ||| b) t0 := by
  intro ts
  induction ts with
  | nil => intro t0 _ _; rfl
  | cons t rest ih =>
    intro t0 h0 hts
    have ht := hts t (List.mem_cons_self _ _)
    have hstep : returnStep t0 t = t0 ||| t := by
      unfold returnStep
      rw [if_neg h0]
    simp only [List.foldl_cons, hstep]
    refine ih _ ?_ (fun x hx => hts x (List.mem_cons_of_mem _ hx))
    intro hor
    have h1 : (t0 ||| t) % 2 = 1 := by
      simpa [TYPE_UNKNOWN, Nat.and_one_is_mod] using hor
    rcases Nat.or_mod_two_eq_one.mp h1 with hh | hh
    · apply h0
      simpa [TYPE_UNKNOWN, Nat.and_one_is_mod] using hh
    · apply ht
      simpa [TYPE_UNKNOWN, Nat.and_one_is_mod] using hh

/-- The tokens of the parser at the start of a text are clean. -/
theorem tokOK_declarationParser (text : String) : TokOK (declarationParser text) :=
  ⟨tokClean_zero.2, tokClean_zero.2, tokClean_zero.1⟩

/-- The declaration at the start of a text, when `parseFunDec` returns. -/
theorem declared_eq (text : String)
    (h : isValue (parseFunDec runFuel (declarationParser text)) = true) :
    parseFunDec runFuel (declarationParser text) =
      Except.ok ((declared text).1, (declared text).2) :=
  value_resultOr (parseFunDec runFuel (declarationParser text))
    (mainOnlyClass, declarationParser text) h

set_option maxRecDepth 100000 in
/-- Claim C17 fails as it is written.  After `static f()` with the body `return 1` the
type recorded on the symbol is 18, `TYPE_NULL` with `TYPE_INT`, and the union of the
types of the returned expressions is 2, `TYPE_INT`.  After `static f(a)` with the body
`return a`, `return 1` the type recorded is 2, and the union is 3, `TYPE_UNKNOWN` with
`TYPE_INT`. -/
theorem recorded_type_not_union :
    (recordedTypes "static f() \x7b\nreturn 1\n\x7d\n").map
        (fun x => (x.1, x.2, x.2.foldl (fun a b => a ||| b) 0)) =
      Except.ok (18, [2], 2) ∧
    (recordedTypes "static f(a) \x7b\nreturn a\nreturn 1\n\x7d\n").map
        (fun x => (x.1, x.2, x.2.foldl (fun a b => a ||| b) 0)) =
      Except.ok (2, [1, 2], 3) := by
  constructor <;> decide!

/-- Claim C17, amended.  When `parseFunDec` returns the node of a declaration, the symbol
that it created, at the address that was the size of the memory, has the name of the
declaration, and the type recorded on it is `TYPE_NULL` combined with the types of the
expressions of all `return` statements of the body, in the order of the text, by
`returnStep`: a recorded type that has the value 1 in common with `TYPE_UNKNOWN` is
replaced by the next type, every other one is united with it.  The node of the
declaration has the same type.  When no type of a returned expression has the value 1 in
common with `TYPE_UNKNOWN`, the type recorded is the union of `TYPE_NULL` and these
types. -/
theorem parseFunDec_recorded_type (fuel : Nat) (p q : Parser) (node : AstNode)
    (ht : TokOK p) (h : parseFunDec fuel p = Except.ok (node, q)) :
    ∃ hd p7 body, parseFunDecHead fuel p = Except.ok (hd, p7) ∧
      bodyOf node = some body ∧
      (symAt q.symStack.mem p.symStack.mem.length).name = mangledName hd ∧
      (symAt q.symStack.mem p.symStack.mem.length).expressionType =
        (returnTypes q.nodeTypes body).foldl returnStep TYPE_NULL ∧
      typeOf q.nodeTypes node =
        (symAt q.symStack.mem p.symStack.mem.length).expressionType ∧
      ((∀ t ∈ returnTypes q.nodeTypes body, t &&& TYPE_UNKNOWN ≠ 1) →
        (symAt q.symStack.mem p.symStack.mem.length).expressionType =
          (returnTypes q.nodeTypes body).foldl (fun a b => a ||| b) TYPE_NULL) := by
  rw [parseFunDec_parts] at h
  obtain ⟨x, hhead, h⟩ := bind_ok _ _ _ h
  obtain ⟨hd, p7⟩ := x
  dsimp only at h
  obtain ⟨y, hdecl, h⟩ := bind_ok _ _ _ h
  obtain ⟨sym, p9⟩ := y
  dsimp only at h
  obtain ⟨ht7, hid7, hitems⟩ := parseFunDecHead_facts fuel p p7 hd ht hhead
  have hstack := parseFunDecHead_symStack fuel p p7 hd hhead
  obtain ⟨hsym, hlt9, hname9, htype9, hT9, hc9, hl9, hs9⟩ :=
    declareFunction_mem hd p7 p9 sym hdecl
  rw [hstack] at hsym
  subst hsym
  unfold parseFunDecBody at h
  dsimp only at h
  obtain ⟨items, hit, h⟩ := bind_ok _ _ _ h
  obtain ⟨p11, hp11, h⟩ := bind_ok _ _ _ h
  obtain ⟨z, hblock, h⟩ := bind_ok _ _ _ h
  obtain ⟨body, p12⟩ := z
  dsimp only at h
  cases h
  have ht9 : TokOK p9 := by
    unfold TokOK
    rw [hc9, hl9, hs9]
    exact ht7
  have hinv10 : BodyInv p.symStack.mem.length
      { p9 with symStack := symTableStackPush p9.symStack } :=
    ⟨ht9, hlt9, by
      show ¬ identChars (symAt p9.symStack.mem p.symStack.mem.length).name
      rw [hname9]
      exact not_ident_mangled hd⟩
  have hpi := hitems _ hit
  have hs11 := installParams_ret p.symStack.mem.length _ _ _ _ hp11 hpi
  have hs12 := parseBlock_ret p.symStack.mem.length fuel _ _ _ hblock
  obtain ⟨i12, f12, b12, t12⟩ := retStep_first _ _ _ _ _ hs11 hs12 hinv10
  -- the names are kept
  have hk11 := (installParams_spec _ _ _ _ hp11 hpi ht9).2.1.1
  have hk12 := ((parseBlock_spec fuel _ _ _ _ hblock).1
    ((installParams_spec _ _ _ _ hp11 hpi ht9).1)).2.1.1
  have hname12 : (symAt p12.symStack.mem p.symStack.mem.length).name = mangledName hd := by
    rw [(hk12.2 _ (lt_of_lt_of_le hlt9 hk11.1)).1, (hk11.2 _ hlt9).1]
    exact hname9
  -- the store of types after the type of the node is set
  have hj : hd.funNode.id < p9.nodeTypes.length := by rw [hT9]; exact hid7
  have hj12 : hd.funNode.id < p12.nodeTypes.length := lt_of_lt_of_le hj f12.1
  have hmap : returnTypes (p12.nodeTypes.set hd.funNode.id
        (symAt p12.symStack.mem p.symStack.mem.length).expressionType) body =
      (returnExprs body).map (typeOf p12.nodeTypes) := by
    unfold returnTypes
    apply List.map_congr_left
    intro r hr
    have hr1 : p9.nodeTypes.length ≤ r.id := (b12 r hr).1
    unfold typeOf
    simp only [List.getD_eq_getElem?_getD]
    rw [List.getElem?_set_ne (by omega)]
  have htype12 : (symAt p12.symStack.mem p.symStack.mem.length).expressionType =
      ((returnExprs body).map (typeOf p12.nodeTypes)).foldl returnStep TYPE_NULL := by
    rw [t12]
    show _ = List.foldl returnStep TYPE_NULL _
    congr 1
  refine ⟨hd, p7, body, hhead, rfl, hname12, ?_, ?_, ?_⟩
  · show (symAt p12.symStack.mem p.symStack.mem.length).expressionType =
      (returnTypes (p12.nodeTypes.set hd.funNode.id _) body).foldl returnStep TYPE_NULL
    rw [hmap]
    exact htype12
  · show (p12.nodeTypes.set hd.funNode.id _).getD hd.funNode.id TYPE_UNKNOWN = _
    simp only [List.getD_eq_getElem?_getD]
    rw [List.getElem?_set_self hj12]
    rfl
  · intro hall
    show (symAt p12.symStack.mem p.symStack.mem.length).expressionType =
      (returnTypes (p12.nodeTypes.set hd.funNode.id _) body).foldl
        (fun a b => a ||| b) TYPE_NULL
    have hall2 : ∀ t ∈ (returnExprs body).map (typeOf p12.nodeTypes),
        t &&& TYPE_UNKNOWN ≠ 1 := by
      rw [← hmap]
      exact hall
    rw [hmap, htype12]
    exact foldl_returnStep_union _ _ (by decide) hall2

set_option maxRecDepth 100000 in
/-- The amended claim C17 on the declaration `static f(a)` whose body returns 1 in the
branch of an `if`, `"s"` in the branch of the `else` and 2.5 after them, over the
built-in functions: the tokens of the parser are clean and `parseFunDec` returns; the
types of the returned expressions are 2, 4 and 8, and the type recorded on the symbol is
30, `TYPE_NULL` with `TYPE_INT`, `TYPE_STRING` and `TYPE_FLOAT`. -/
theorem parseFunDec_recorded_type_witness :
    TokOK (declarationParser branchReturns) ∧
    parseFunDec runFuel (declarationParser branchReturns) =
      Except.ok ((declared branchReturns).1, (declared branchReturns).2) ∧
    recordedTypes branchReturns = Except.ok (30, [2, 4, 8]) ∧
    ∃ hd p7 body, parseFunDecHead runFuel (declarationParser branchReturns) =
        Except.ok (hd, p7) ∧
      bodyOf (declared branchReturns).1 = some body ∧
      (symAt (declared branchReturns).2.symStack.mem
        (declarationParser branchReturns).symStack.mem.length).name = mangledName hd ∧
      (symAt (declared branchReturns).2.symStack.mem
        (declarationParser branchReturns).symStack.mem.length).expressionType =
        (returnTypes (declared branchReturns).2.nodeTypes body).foldl returnStep TYPE_NULL ∧
      typeOf (declared branchReturns).2.nodeTypes (declared branchReturns).1 =
        (symAt (declared branchReturns).2.symStack.mem
          (declarationParser branchReturns).symStack.mem.length).expressionType ∧
      ((∀ t ∈ returnTypes (declared branchReturns).2.nodeTypes body,
          t &&& TYPE_UNKNOWN ≠ 1) →
        (symAt (declared branchReturns).2.symStack.mem
          (declarationParser branchReturns).symStack.mem.length).expressionType =
          (returnTypes (declared branchReturns).2.nodeTypes body).foldl
            (fun a b => a ||| b) TYPE_NULL) :=
  ⟨tokOK_declarationParser branchReturns, declared_eq branchReturns (by decide!),
    (by decide!),
    parseFunDec_recorded_type runFuel (declarationParser branchReturns)
      (declared branchReturns).2 (declared branchReturns).1
      (tokOK_declarationParser branchReturns) (declared_eq branchReturns (by decide!))⟩

/-! ## The precedence loop of `parseExp` -/

theorem expState_start (p : Parser) : ExpState p 0 p.current p.nodeTypes.length p :=
  ⟨rfl, rfl, rfl, rfl⟩

/-- The function `parserAdvance` in a state of the run. -/
theorem parserAdvance_expState (p0 p : Parser) (k len : Nat) (cur : Token)
    (hs : ExpState p0 k cur len p) (hcode : codeAt k p0.scanner = 0) :
    ∃ q, parserAdvance p = Except.ok q ∧ ExpState p0 (k + 1) (tokenAt k p0.scanner) len q := by
  obtain ⟨h1, h2, h3, h4⟩ := hs
  unfold codeAt at hcode
  refine ⟨{ p with scanner := scannerAt (k + 1) p0.scanner, current := tokenAt k p0.scanner },
    ?_, ⟨rfl, rfl, h3, h4⟩⟩
  unfold parserAdvance
  rw [h1]
  cases hg : getNextToken (scannerAt k p0.scanner) with
  | mk r rest =>
    cases rest with
    | mk tok sc =>
      rw [hg] at hcode
      simp only at hcode
      subst hcode
      simp only [tokenAt, scannerAt, hg]
      rfl

/-- An atom is none of the tokens that `parseExp` treats before the table. -/
theorem atomToken_type (stack : SymTableStack) (t : Token) (h : atomToken stack t = true) :
    t.type ≠ TokenType.LCURLY ∧ t.type ≠ TokenType.EOL ∧ t.type ≠ TokenType.RPAR ∧
      t.type ≠ TokenType.LPAR ∧ t.type ≠ TokenType.KW_IS ∧
      getPrecedenceSymbol t.type = PREC_ID ∧ atomKind t.type ≠ AstNodeType.AST_OPERATOR := by
  unfold atomToken at h
  cases ht : t.type <;> rw [ht] at h <;> simp at h <;> simp [getPrecedenceSymbol, atomKind]

/-- The type that `assignTypeFromToken` gives to the node of an atom. -/
theorem atomToken_assign (stack : SymTableStack) (t : Token) (h : atomToken stack t = true) :
    ∃ ty, ∀ (node : AstNode) (q : Parser), node.token = t → q.symStack = stack →
      assignTypeFromToken node q = Except.ok (q.setType node ty) := by
  unfold atomToken at h
  cases ht : t.type
  case IDENTIFIER =>
    rw [ht] at h
    simp only at h
    cases hn : tokenString t with
    | error e => rw [hn] at h; cases h
    | ok name =>
      rw [hn] at h
      simp only at h
      cases hf : symTableStackFindSymbol stack name with
      | some a =>
        refine ⟨(symAt stack.mem a).expressionType, fun node q hnode hq => ?_⟩
        simp only [assignTypeFromToken, hnode, ht, hn, hq, hf, bind, Except.bind]
      | none =>
        rw [hf] at h
        simp only [Option.isSome_none, Bool.false_or] at h
        cases hg : symTableStackFindSymbol stack
            (symbolCreate name TYPE_UNKNOWN SymbolKind.SYM_GET 1).name with
        | none => rw [hg] at h; simp at h
        | some g =>
          refine ⟨(symAt stack.mem g).expressionType, fun node q hnode hq => ?_⟩
          simp only [assignTypeFromToken, hnode, ht, hn, hq, hf, hg, bind, Except.bind]
  case GLOBAL_IDENTIFIER =>
    rw [ht] at h
    simp only at h
    cases hn : tokenString t with
    | error e => rw [hn] at h; cases h
    | ok name =>
      rw [hn] at h
      simp only at h
      cases hf : symTableStackFindSymbol stack name with
      | none => rw [hf] at h; simp at h
      | some a =>
        refine ⟨(symAt stack.mem a).expressionType, fun node q hnode hq => ?_⟩
        simp only [assignTypeFromToken, hnode, ht, hn, hq, hf, bind, Except.bind]
  case INT_LITERAL =>
    exact ⟨TYPE_INT, fun node q hnode _ => by simp only [assignTypeFromToken, hnode, ht]⟩
  case FLOAT_LITERAL =>
    exact ⟨TYPE_FLOAT, fun node q hnode _ => by simp only [assignTypeFromToken, hnode, ht]⟩
  case STRING_LITERAL =>
    exact ⟨TYPE_STRING, fun node q hnode _ => by simp only [assignTypeFromToken, hnode, ht]⟩
  case MULTILINE_STRING_LITERAL =>
    exact ⟨TYPE_UNKNOWN, fun node q hnode _ => by simp only [assignTypeFromToken, hnode, ht]⟩
  case KW_VAL_NULL =>
    exact ⟨TYPE_NULL, fun node q hnode _ => by simp only [assignTypeFromToken, hnode, ht]⟩
  all_goals (rw [ht] at h; simp at h)
theorem setType_expState (p0 p : Parser) (k len : Nat) (cur : Token) (node : AstNode)
    (ty : ExprType) (hs : ExpState p0 k cur len p) : ExpState p0 k cur len (p.setType node ty) := by
  obtain ⟨h1, h2, h3, h4⟩ := hs
  exact ⟨h1, h2, h3, by simp [Parser.setType, setTypeOf, h4]⟩

/-- What `createNodeFromToken` and the second `assignTypeFromToken` give for an atom. -/
theorem createNodeFromToken_atom (p0 p : Parser) (k len : Nat) (cur : Token)
    (hs : ExpState p0 k cur len p) (ha : atomToken p0.symStack cur = true) :
    ∃ p2 p3, createNodeFromToken p.current p = Except.ok (atomLeaf len cur, p2) ∧
      assignTypeFromToken (atomLeaf len cur) p2 = Except.ok p3 ∧
      ExpState p0 k cur (len + 1) p2 ∧ ExpState p0 k cur (len + 1) p3 := by
  obtain ⟨ty, hty⟩ := atomToken_assign _ _ ha
  obtain ⟨h1, h2, h3, h4⟩ := hs
  have hnode : ∀ kind, (kind = AstNodeType.AST_IDENTIFIER ∨ kind = AstNodeType.AST_LITERAL) →
      kind = atomKind cur.type →
      ((astCreateNode p kind).1.setToken cur = atomLeaf len cur ∧
        ExpState p0 k cur (len + 1) (astCreateNode p kind).2) := by
    intro kind hk he
    rcases hk with hk | hk <;> subst hk <;>
      exact ⟨by simp only [astCreateNode, AstNode.setToken, atomLeaf, h4, he],
        ⟨h1, h2, h3, by simp [astCreateNode, h4]⟩⟩
  have hkind : ∃ kind, (kind = AstNodeType.AST_IDENTIFIER ∨ kind = AstNodeType.AST_LITERAL) ∧
      kind = atomKind cur.type ∧
      createNodeFromToken cur p =
        (match assignTypeFromToken ((astCreateNode p kind).1.setToken cur)
            (astCreateNode p kind).2 with
         | Except.error e => Except.error e
         | Except.ok p1 => Except.ok ((astCreateNode p kind).1.setToken cur, p1)) := by
    unfold atomToken at ha
    cases ht : cur.type <;> rw [ht] at ha <;> simp at ha
    case IDENTIFIER =>
      exact ⟨AstNodeType.AST_IDENTIFIER, Or.inl rfl, by simp [atomKind, ht],
        by simp only [createNodeFromToken, ht]; try rfl⟩
    case GLOBAL_IDENTIFIER =>
      exact ⟨AstNodeType.AST_IDENTIFIER, Or.inl rfl, by simp [atomKind, ht],
        by simp only [createNodeFromToken, ht]; try rfl⟩
    all_goals
      exact ⟨AstNodeType.AST_LITERAL, Or.inr rfl, by simp [atomKind, ht],
        by simp only [createNodeFromToken, ht]; try rfl⟩
  obtain ⟨kind, hk, he, hc⟩ := hkind
  obtain ⟨hn, hst⟩ := hnode kind hk he
  rw [h2, hc, hn, hty (atomLeaf len cur) _ rfl hst.2.2.1]
  refine ⟨_, _, rfl, hty (atomLeaf len cur) _ rfl ?_, setType_expState _ _ _ _ _ _ _ hst, ?_⟩
  · exact hst.2.2.1
  · exact setType_expState _ _ _ _ _ _ _ (setType_expState _ _ _ _ _ _ _ hst)

/-- The kinds of the binary operators and of `!`. -/
theorem operator_cases (t : TokenType)
    (h : (∃ c, operatorClass t = some c) ∨ t = TokenType.LOGICAL_NOT) :
    t = TokenType.MULTIPLY ∨ t = TokenType.DIVIDE ∨ t = TokenType.PLUS ∨ t = TokenType.MINUS ∨
      t = TokenType.IS_SMALLER ∨ t = TokenType.IS_SMALLER_OR_EQUAL ∨ t = TokenType.IS_BIGGER ∨
      t = TokenType.IS_BIGGER_OR_EQUAL ∨ t = TokenType.IS_EQUAL ∨ t = TokenType.IS_NOT_EQUAL ∨
      t = TokenType.LOGICAL_AND ∨ t = TokenType.LOGICAL_OR ∨ t = TokenType.LOGICAL_NOT := by
  rcases h with ⟨c, h⟩ | h
  · cases t <;> simp [operatorClass] at h <;> simp
  · subst h; simp

/-- The binary operators and `!`: no test before the table applies to them, and
`assignTypeFromToken` gives their node the type `UNKNOWN`. -/
theorem operator_token (t : TokenType)
    (h : (∃ c, operatorClass t = some c) ∨ t = TokenType.LOGICAL_NOT) :
    t ≠ TokenType.LCURLY ∧ t ≠ TokenType.EOL ∧ t ≠ TokenType.RPAR ∧ t ≠ TokenType.LPAR ∧
      t ≠ TokenType.KW_IS ∧
      (∀ (node : AstNode) (p : Parser), node.token.type = t →
        assignTypeFromToken node p = Except.ok (p.setType node TYPE_UNKNOWN)) := by
  have hc := operator_cases t h
  rcases hc with e | e | e | e | e | e | e | e | e | e | e | e | e <;> subst e <;>
    exact ⟨by simp, by simp, by simp, by simp, by simp,
      fun node p hn => by simp only [assignTypeFromToken, hn]⟩

/-- What `createNodeFromToken` gives for a binary operator or `!`. -/
theorem createNodeFromToken_operator (t : TokenType)
    (h : (∃ c, operatorClass t = some c) ∨ t = TokenType.LOGICAL_NOT)
    (p : Parser) (cur : Token) (hcur : cur.type = t) :
    createNodeFromToken cur p =
      Except.ok (AstNode.bin p.nodeTypes.length AstNodeType.AST_OPERATOR cur none none,
        ({ p with nodeTypes := p.nodeTypes ++ [TYPE_UNKNOWN] } : Parser).setType
          (AstNode.bin p.nodeTypes.length AstNodeType.AST_OPERATOR cur none none)
          TYPE_UNKNOWN) := by
  have ha := (operator_token t h).2.2.2.2.2
  have hc := operator_cases t h
  have hnode : createNodeFromToken cur p =
      (match assignTypeFromToken
          ((astCreateNode p AstNodeType.AST_OPERATOR).1.setToken cur)
          (astCreateNode p AstNodeType.AST_OPERATOR).2 with
       | Except.error e => Except.error e
       | Except.ok p1 =>
         Except.ok ((astCreateNode p AstNodeType.AST_OPERATOR).1.setToken cur, p1)) := by
    rcases hc with e | e | e | e | e | e | e | e | e | e | e | e | e <;>
      (rw [e] at hcur; simp only [createNodeFromToken, hcur]; try rfl)
  rw [hnode]
  have hn : (astCreateNode p AstNodeType.AST_OPERATOR).1.setToken cur =
      AstNode.bin p.nodeTypes.length AstNodeType.AST_OPERATOR cur none none := rfl
  rw [hn, ha _ _ (by simp only [AstNode.token]; exact hcur)]
  rfl
theorem astStackPush_ok (stack : AstStack) (node : AstNode) (h : stack.length < ASTSTACK_SLOTS) :
    astStackPush stack node = Except.ok (node :: stack) := by
  unfold astStackPush
  have h1 : ¬ stack.length = ASTSTACK_MAX := by
    simp only [ASTSTACK_SLOTS, ASTSTACK_MAX] at h ⊢; omega
  have h2 : ¬ stack.length ≥ ASTSTACK_SLOTS := by omega
  rw [if_neg h1, if_neg h2]

/-- The loop of `parseExp` at the end of the line. -/
theorem parseExpLoop_eol (fuel : Nat) (p : Parser) (stack : AstStack) (pc : Nat)
    (h : p.current.type = TokenType.EOL) :
    parseExpLoop (fuel + 1) p stack pc = Except.ok (p, stack, pc) := by
  rw [parseExpLoop, h]
  simp

/-- One round of the loop of `parseExp` that shifts. -/
theorem parseExpLoop_shift (fuel : Nat) (p p2 p3 p4 : Parser) (stack : AstStack) (pc : Nat)
    (node : AstNode)
    (h1 : p.current.type ≠ TokenType.LCURLY) (h2 : p.current.type ≠ TokenType.EOL)
    (h3 : p.current.type ≠ TokenType.RPAR) (h4 : p.current.type ≠ TokenType.LPAR)
    (h5 : p.current.type ≠ TokenType.KW_IS)
    (hact : tableAction (stackIndex stack) (getPrecedenceSymbol p.current.type) =
      Except.ok (-1))
    (hc : createNodeFromToken p.current p = Except.ok (node, p2))
    (ha : assignTypeFromToken node p2 = Except.ok p3)
    (hlen : stack.length < ASTSTACK_SLOTS)
    (hadv : parserAdvance p3 = Except.ok p4) :
    parseExpLoop (fuel + 1) p stack pc = parseExpLoop fuel p4 (node :: stack) pc := by
  unfold stackIndex at hact
  rw [parseExpLoop]
  simp only [if_neg h1, if_neg h2, if_neg (fun h : p.current.type = TokenType.RPAR ∧ pc = 0 => h3 h.1),
    if_neg h4, if_neg h3, if_neg h5, ok_bind, hc, ha, astStackPush_ok stack node hlen, hadv]
  generalize astStackNextOp stack = top at hact ⊢
  cases top with
  | none => simp only at hact ⊢; rw [hact, ok_bind, if_pos rfl]
  | some t => simp only at hact ⊢; rw [hact, ok_bind, if_pos rfl]

/-- One round of the loop of `parseExp` that reduces an operator with two operands. -/
theorem parseExpLoop_reduce (fuel : Nat) (p p2 : Parser) (stack stack1 : AstStack) (pc : Nat)
    (node t reduced : AstNode)
    (h1 : p.current.type ≠ TokenType.LCURLY) (h2 : p.current.type ≠ TokenType.EOL)
    (h3 : p.current.type ≠ TokenType.RPAR) (h4 : p.current.type ≠ TokenType.LPAR)
    (h5 : p.current.type ≠ TokenType.KW_IS)
    (hact : tableAction (stackIndex stack) (getPrecedenceSymbol p.current.type) = Except.ok 1)
    (htop : astStackNextOp stack = some t)
    (ht1 : t.token.type ≠ TokenType.LPAR) (ht2 : t.token.type ≠ TokenType.LOGICAL_NOT)
    (hc : createNodeFromToken p.current p = Except.ok (node, p2))
    (hcur : p2.current.type ≠ TokenType.RPAR)
    (hred : reduceExpression stack = Except.ok (reduced, stack1))
    (hlen : stack1.length < ASTSTACK_SLOTS) :
    parseExpLoop (fuel + 1) p stack pc = parseExpLoop fuel p2 (reduced :: stack1) pc := by
  unfold stackIndex at hact
  rw [parseExpLoop]
  simp only [if_neg h1, if_neg h2, if_neg (fun h : p.current.type = TokenType.RPAR ∧ pc = 0 => h3 h.1),
    if_neg h4, if_neg h3, if_neg h5, ok_bind, hc]
  rw [htop] at hact ⊢
  simp only at hact ⊢
  rw [hact, ok_bind, if_neg (by decide), if_pos rfl]
  simp only [if_neg ht1, if_neg ht2, hred, ok_bind, astStackPush_ok stack1 reduced hlen,
    if_neg hcur]

/-- One round of the loop of `parseExp` that reduces `!` with its operand: the current
token is passed over. -/
theorem parseExpLoop_reduceNot (fuel : Nat) (p p2 p3 : Parser) (stack stack1 : AstStack)
    (pc : Nat) (node t reduced : AstNode)
    (h1 : p.current.type ≠ TokenType.LCURLY) (h2 : p.current.type ≠ TokenType.EOL)
    (h3 : p.current.type ≠ TokenType.RPAR) (h4 : p.current.type ≠ TokenType.LPAR)
    (h5 : p.current.type ≠ TokenType.KW_IS)
    (hact : tableAction (stackIndex stack) (getPrecedenceSymbol p.current.type) = Except.ok 1)
    (htop : astStackNextOp stack = some t)
    (ht : t.token.type = TokenType.LOGICAL_NOT)
    (hc : createNodeFromToken p.current p = Except.ok (node, p2))
    (hred : reduceNot stack = Except.ok (reduced, stack1))
    (hadv : parserAdvance p2 = Except.ok p3)
    (hlen : stack1.length < ASTSTACK_SLOTS) :
    parseExpLoop (fuel + 1) p stack pc = parseExpLoop fuel p3 (reduced :: stack1) pc := by
  unfold stackIndex at hact
  rw [parseExpLoop]
  have ht1 : t.token.type ≠ TokenType.LPAR := by rw [ht]; simp
  simp only [if_neg h1, if_neg h2, if_neg (fun h : p.current.type = TokenType.RPAR ∧ pc = 0 => h3 h.1),
    if_neg h4, if_neg h3, if_neg h5, ok_bind, hc]
  rw [htop] at hact ⊢
  simp only at hact ⊢
  rw [hact, ok_bind, if_neg (by decide), if_pos rfl]
  simp only [if_neg ht1, if_pos ht, hred, ok_bind, hadv,
    astStackPush_ok stack1 reduced hlen]

/-- The class of a binary operator and its column of the table. -/
theorem operatorClass_facts (t : TokenType) (c : Nat) (h : operatorClass t = some c) :
    c < 6 ∧ getPrecedenceSymbol t = 5 + c ∧ t ≠ TokenType.LPAR ∧ t ≠ TokenType.LOGICAL_NOT := by
  cases t <;> simp [operatorClass] at h <;> subst h <;> simp [getPrecedenceSymbol]

/-- The entries of the table for the binary operators: over an empty stack and over an
operator an atom is shifted, over an empty stack an operator is shifted, and over an
operator of the class `c1` an operator of the class `c2` reduces when `c1` is as high as
`c2` or higher, and is shifted otherwise. -/
theorem table_binary :
    tableAction PREC_END PREC_ID = Except.ok (-1) ∧
      (∀ c, c < 6 → tableAction PREC_END (5 + c) = Except.ok (-1) ∧
        tableAction (5 + c) PREC_ID = Except.ok (-1)) ∧
      (∀ c1, c1 < 6 → ∀ c2, c2 < 6 →
        tableAction (5 + c1) (5 + c2) = Except.ok (if c1 ≤ c2 then 1 else -1)) := by
  decide

/-- The entries of the table for `!`: it is shifted over an empty stack, an atom is
shifted over it, and a binary operator reduces it. -/
theorem table_not :
    tableAction PREC_END PREC_NOT = Except.ok (-1) ∧
      tableAction PREC_NOT PREC_ID = Except.ok (-1) ∧
      (∀ c, c < 6 → tableAction PREC_NOT (5 + c) = Except.ok 1) := by
  decide

theorem stackIndex_nil : stackIndex [] = PREC_END := rfl

theorem stackIndex_skip (node : AstNode) (rest : AstStack)
    (h : node.type ≠ AstNodeType.AST_OPERATOR) : stackIndex (node :: rest) = stackIndex rest := by
  simp only [stackIndex, astStackNextOp, if_neg h]

theorem stackIndex_operator (i : Nat) (tok : Token) (l r : Option AstNode) (rest : AstStack) :
    stackIndex (AstNode.bin i AstNodeType.AST_OPERATOR tok l r :: rest) =
      getPrecedenceSymbol tok.type := by
  simp only [stackIndex, astStackNextOp, AstNode.type, if_true, AstNode.token]

theorem atomLeaf_type (stack : SymTableStack) (n : Nat) (t : Token)
    (h : atomToken stack t = true) : (atomLeaf n t).type ≠ AstNodeType.AST_OPERATOR :=
  (atomToken_type stack t h).2.2.2.2.2.2

theorem operatorNode_type (i : Nat) (t : Token) (l r : AstNode) :
    (operatorNode i t l r).type ≠ AstNodeType.AST_OPERATOR := by
  simp [operatorNode, AstNode.type]

/-- A round of the loop that shifts an atom. -/
theorem shift_atom (fuel : Nat) (p0 p : Parser) (k len pc : Nat) (cur : Token)
    (stack : AstStack) (hs : ExpState p0 k cur len p) (ha : atomToken p0.symStack cur = true)
    (hact : tableAction (stackIndex stack) PREC_ID = Except.ok (-1))
    (hlen : stack.length < ASTSTACK_SLOTS) (hcode : codeAt k p0.scanner = 0) :
    ∃ q, ExpState p0 (k + 1) (tokenAt k p0.scanner) (len + 1) q ∧
      parseExpLoop (fuel + 1) p stack pc =
        parseExpLoop fuel q (atomLeaf len cur :: stack) pc := by
  obtain ⟨p2, p3, hc, hassign, _, hs3⟩ := createNodeFromToken_atom p0 p k len cur hs ha
  obtain ⟨q, hadv, hq⟩ := parserAdvance_expState p0 p3 k (len + 1) cur hs3 hcode
  obtain ⟨t1, t2, t3, t4, t5, t6, _⟩ := atomToken_type _ _ ha
  have hcur : p.current = cur := hs.2.1
  rw [← hcur] at t1 t2 t3 t4 t5 t6
  exact ⟨q, hq, parseExpLoop_shift fuel p p2 p3 q stack pc _ t1 t2 t3 t4 t5
    (by rw [t6]; exact hact) hc hassign hlen hadv⟩

/-- A round of the loop that shifts a binary operator or `!`. -/
theorem shift_operator (fuel : Nat) (p0 p : Parser) (k len pc : Nat) (cur : Token)
    (stack : AstStack) (hs : ExpState p0 k cur len p)
    (hop : (∃ c, operatorClass cur.type = some c) ∨ cur.type = TokenType.LOGICAL_NOT)
    (hact : tableAction (stackIndex stack) (getPrecedenceSymbol cur.type) = Except.ok (-1))
    (hlen : stack.length < ASTSTACK_SLOTS) (hcode : codeAt k p0.scanner = 0) :
    ∃ q, ExpState p0 (k + 1) (tokenAt k p0.scanner) (len + 1) q ∧
      parseExpLoop (fuel + 1) p stack pc =
        parseExpLoop fuel q (AstNode.bin len AstNodeType.AST_OPERATOR cur none none :: stack)
          pc := by
  obtain ⟨h1, h2, h3, h4⟩ := hs
  subst h2
  obtain ⟨t1, t2, t3, t4, t5, hassign⟩ := operator_token p.current.type hop
  have hc := createNodeFromToken_operator p.current.type hop p p.current rfl
  rw [h4] at hc
  have hs2 : ExpState p0 k p.current (len + 1)
      (({ p with nodeTypes := p.nodeTypes ++ [TYPE_UNKNOWN] } : Parser).setType
        (AstNode.bin len AstNodeType.AST_OPERATOR p.current none none) TYPE_UNKNOWN) :=
    setType_expState _ _ _ _ _ _ _ ⟨h1, rfl, h3, by simp [h4]⟩
  have hs3 := setType_expState p0 _ k (len + 1) p.current
    (AstNode.bin len AstNodeType.AST_OPERATOR p.current none none) TYPE_UNKNOWN hs2
  obtain ⟨q, hadv, hq⟩ := parserAdvance_expState p0 _ k (len + 1) p.current hs3 hcode
  exact ⟨q, hq, parseExpLoop_shift fuel p _ _ q stack pc _ t1 t2 t3 t4 t5 hact
    hc (hassign _ _ rfl) hlen hadv⟩

/-- A round of the loop that reduces a binary operator with its two operands. -/
theorem reduce_binary (fuel : Nat) (p0 p : Parser) (k len pc i : Nat) (cur tok : Token)
    (l r : AstNode) (rest : AstStack) (hs : ExpState p0 k cur len p)
    (hop : (∃ c, operatorClass cur.type = some c) ∨ cur.type = TokenType.LOGICAL_NOT)
    (htok : ∃ c, operatorClass tok.type = some c)
    (hl : l.type ≠ AstNodeType.AST_OPERATOR) (hr : r.type ≠ AstNodeType.AST_OPERATOR)
    (hact : tableAction (getPrecedenceSymbol tok.type) (getPrecedenceSymbol cur.type) =
      Except.ok 1)
    (hlen : rest.length < ASTSTACK_SLOTS) :
    ∃ q, ExpState p0 k cur (len + 1) q ∧
      parseExpLoop (fuel + 1) p
          (r :: AstNode.bin i AstNodeType.AST_OPERATOR tok none none :: l :: rest) pc =
        parseExpLoop fuel q (operatorNode i tok l r :: rest) pc := by
  obtain ⟨h1, h2, h3, h4⟩ := hs
  subst h2
  obtain ⟨t1, t2, t3, t4, t5, _⟩ := operator_token p.current.type hop
  obtain ⟨c, hc0⟩ := htok
  obtain ⟨_, _, k1, k2⟩ := operatorClass_facts _ _ hc0
  have hc := createNodeFromToken_operator p.current.type hop p p.current rfl
  rw [h4] at hc
  have hs2 : ExpState p0 k p.current (len + 1)
      (({ p with nodeTypes := p.nodeTypes ++ [TYPE_UNKNOWN] } : Parser).setType
        (AstNode.bin len AstNodeType.AST_OPERATOR p.current none none) TYPE_UNKNOWN) :=
    setType_expState _ _ _ _ _ _ _ ⟨h1, rfl, h3, by simp [h4]⟩
  have htop : astStackNextOp
      (r :: AstNode.bin i AstNodeType.AST_OPERATOR tok none none :: l :: rest) =
      some (AstNode.bin i AstNodeType.AST_OPERATOR tok none none) := by
    rw [astStackNextOp, if_neg hr, astStackNextOp]; exact if_pos rfl
  have hred : reduceExpression
      (r :: AstNode.bin i AstNodeType.AST_OPERATOR tok none none :: l :: rest) =
      Except.ok (operatorNode i tok l r, rest) := by
    simp only [reduceExpression, popCheck, ok_bind, if_neg (not_or.2 ⟨hr, hl⟩), operatorNode]
  exact ⟨_, hs2, parseExpLoop_reduce fuel p _ _ rest pc _ _ _ t1 t2 t3 t4 t5
    (by rw [stackIndex_skip _ _ hr, stackIndex_operator]; exact hact) htop k1 k2
    hc (by rw [hs2.2.1]; exact t3) hred hlen⟩

/-- A round of the loop that reduces `!` with its operand; the current token is passed
over. -/
theorem reduce_not (fuel : Nat) (p0 p : Parser) (k len pc i : Nat) (cur tok : Token)
    (r : AstNode) (rest : AstStack) (hs : ExpState p0 k cur len p)
    (hop : (∃ c, operatorClass cur.type = some c) ∨ cur.type = TokenType.LOGICAL_NOT)
    (htok : tok.type = TokenType.LOGICAL_NOT) (hr : r.type ≠ AstNodeType.AST_OPERATOR)
    (hact : tableAction PREC_NOT (getPrecedenceSymbol cur.type) = Except.ok 1)
    (hlen : rest.length < ASTSTACK_SLOTS) (hcode : codeAt k p0.scanner = 0) :
    ∃ q, ExpState p0 (k + 1) (tokenAt k p0.scanner) (len + 1) q ∧
      parseExpLoop (fuel + 1) p
          (r :: AstNode.bin i AstNodeType.AST_OPERATOR tok none none :: rest) pc =
        parseExpLoop fuel q
          (AstNode.bin i AstNodeType.AST_EXPRESSION tok none (some r) :: rest) pc := by
  obtain ⟨h1, h2, h3, h4⟩ := hs
  subst h2
  obtain ⟨t1, t2, t3, t4, t5, _⟩ := operator_token p.current.type hop
  have hc := createNodeFromToken_operator p.current.type hop p p.current rfl
  rw [h4] at hc
  have hs2 : ExpState p0 k p.current (len + 1)
      (({ p with nodeTypes := p.nodeTypes ++ [TYPE_UNKNOWN] } : Parser).setType
        (AstNode.bin len AstNodeType.AST_OPERATOR p.current none none) TYPE_UNKNOWN) :=
    setType_expState _ _ _ _ _ _ _ ⟨h1, rfl, h3, by simp [h4]⟩
  obtain ⟨q, hadv, hq⟩ := parserAdvance_expState p0 _ k (len + 1) p.current hs2 hcode
  have htop : astStackNextOp
      (r :: AstNode.bin i AstNodeType.AST_OPERATOR tok none none :: rest) =
      some (AstNode.bin i AstNodeType.AST_OPERATOR tok none none) := by
    rw [astStackNextOp, if_neg hr, astStackNextOp]; exact if_pos rfl
  have hred : reduceNot (r :: AstNode.bin i AstNodeType.AST_OPERATOR tok none none :: rest) =
      Except.ok (AstNode.bin i AstNodeType.AST_EXPRESSION tok none (some r), rest) := by
    simp only [reduceNot, popCheck, ok_bind]
  exact ⟨q, hq, parseExpLoop_reduceNot fuel p _ q _ rest pc _ _ _ t1 t2 t3 t4 t5
    (by rw [stackIndex_skip _ _ hr, stackIndex_operator, htok]; exact hact) htop htok
    hc hred hadv hlen⟩
theorem slots_bound (s : AstStack) (h : s.length ≤ 5) : s.length < ASTSTACK_SLOTS := by
  simp only [ASTSTACK_SLOTS]; omega

/-- The second loop of `parseExp` on an operator between its two operands. -/
theorem parseExpDrain_binary (fuel i : Nat) (tok : Token) (l r : AstNode) (rest : AstStack)
    (hl : l.type ≠ AstNodeType.AST_OPERATOR) (hr : r.type ≠ AstNodeType.AST_OPERATOR)
    (htok : ∃ c, operatorClass tok.type = some c) (hlen : rest.length < ASTSTACK_SLOTS) :
    parseExpDrain (fuel + 1)
        (r :: AstNode.bin i AstNodeType.AST_OPERATOR tok none none :: l :: rest) =
      parseExpDrain fuel (operatorNode i tok l r :: rest) := by
  obtain ⟨c, hc0⟩ := htok
  obtain ⟨_, _, k1, k2⟩ := operatorClass_facts _ _ hc0
  have htop : astStackNextOp
      (r :: AstNode.bin i AstNodeType.AST_OPERATOR tok none none :: l :: rest) =
      some (AstNode.bin i AstNodeType.AST_OPERATOR tok none none) := by
    rw [astStackNextOp, if_neg hr, astStackNextOp]; exact if_pos rfl
  have hred : reduceExpression
      (r :: AstNode.bin i AstNodeType.AST_OPERATOR tok none none :: l :: rest) =
      Except.ok (operatorNode i tok l r, rest) := by
    simp only [reduceExpression, popCheck, ok_bind, if_neg (not_or.2 ⟨hr, hl⟩), operatorNode]
  rw [parseExpDrain, if_neg (by simp), htop]
  simp only [reduceBy, AstNode.token, if_neg k1, if_neg k2, hred, ok_bind,
    astStackPush_ok rest _ hlen]

theorem parseExpDrain_single (fuel : Nat) (node : AstNode) :
    parseExpDrain (fuel + 1) [node] = Except.ok [node] := by
  rw [parseExpDrain, if_pos (by simp)]

/-- The function `parseExp` from the result of its first loop. -/
theorem parseExp_of_loop (fuel : Nat) (p q : Parser) (stack stack1 : AstStack)
    (h1 : parseExpLoop fuel p [] 0 = Except.ok (q, stack, 0))
    (h2 : parseExpDrain (stack.length + 1) stack = Except.ok stack1) :
    parseExp fuel p = Except.ok (stack1.head?, q) := by
  simp only [parseExp, h1, ok_bind, h2]
  rfl

/-- The expression `a p b q c` when the table reduces `p` at `q`: the tree of
`(a p b) q c`. -/
theorem parseExp_reduce_first (fuel : Nat) (p : Parser) (cp cq : Nat)
    (h : ThreeAtoms p cp cq) (hle : cp ≤ cq) :
    ∃ q, parseExp (fuel + 7) p =
        Except.ok (some (leftTree p.nodeTypes.length p.current (tokenAt 0 p.scanner)
          (tokenAt 1 p.scanner) (tokenAt 2 p.scanner) (tokenAt 3 p.scanner)), q) ∧
      ExpState p 5 (tokenAt 4 p.scanner) (p.nodeTypes.length + 6) q := by
  obtain ⟨ha, hp, hb, hq, hc, he, hcode⟩ := h
  obtain ⟨tb0, tb1, tb2⟩ := table_binary
  obtain ⟨cp6, ep, _, _⟩ := operatorClass_facts _ _ hp
  obtain ⟨cq6, eq, _, _⟩ := operatorClass_facts _ _ hq
  have la := fun n => atomLeaf_type _ n _ ha
  have lb := fun n => atomLeaf_type _ n _ hb
  have lc := fun n => atomLeaf_type _ n _ hc
  obtain ⟨q1, s1, e1⟩ := shift_atom (fuel + 6) p p 0 _ 0 _ [] (expState_start p) ha
    (by rw [stackIndex_nil]; exact tb0) (slots_bound _ (by simp)) (hcode 0 (by decide))
  obtain ⟨q2, s2, e2⟩ := shift_operator (fuel + 5) p q1 1 _ 0 _
    [atomLeaf p.nodeTypes.length p.current] s1 (Or.inl ⟨cp, hp⟩)
    (by rw [stackIndex_skip _ _ (la _), stackIndex_nil, ep]; exact (tb1 cp cp6).1) (slots_bound _ (by simp))
    (hcode 1 (by decide))
  obtain ⟨q3, s3, e3⟩ := shift_atom (fuel + 4) p q2 2 _ 0 _
    [AstNode.bin (p.nodeTypes.length + 1) AstNodeType.AST_OPERATOR (tokenAt 0 p.scanner)
      none none, atomLeaf p.nodeTypes.length p.current] s2 hb
    (by rw [stackIndex_operator, ep]; exact (tb1 cp cp6).2) (slots_bound _ (by simp)) (hcode 2 (by decide))
  obtain ⟨q4, s4, e4⟩ := reduce_binary (fuel + 3) p q3 3 _ 0 (p.nodeTypes.length + 1) _
    (tokenAt 0 p.scanner) (atomLeaf p.nodeTypes.length p.current)
    (atomLeaf (p.nodeTypes.length + 1 + 1) (tokenAt 1 p.scanner)) [] s3 (Or.inl ⟨cq, hq⟩)
    ⟨cp, hp⟩ (la _) (lb _) (by rw [ep, eq, tb2 cp cp6 cq cq6, if_pos hle]) (slots_bound _ (by simp))
  obtain ⟨q5, s5, e5⟩ := shift_operator (fuel + 2) p q4 3 _ 0 _
    [operatorNode (p.nodeTypes.length + 1) (tokenAt 0 p.scanner)
      (atomLeaf p.nodeTypes.length p.current)
      (atomLeaf (p.nodeTypes.length + 1 + 1) (tokenAt 1 p.scanner))] s4 (Or.inl ⟨cq, hq⟩)
    (by rw [stackIndex_skip _ _ (operatorNode_type _ _ _ _), stackIndex_nil, eq]
        exact (tb1 cq cq6).1) (slots_bound _ (by simp)) (hcode 3 (by decide))
  obtain ⟨q6, s6, e6⟩ := shift_atom (fuel + 1) p q5 4 _ 0 _
    [AstNode.bin (p.nodeTypes.length + 1 + 1 + 1 + 1) AstNodeType.AST_OPERATOR
      (tokenAt 2 p.scanner) none none,
     operatorNode (p.nodeTypes.length + 1) (tokenAt 0 p.scanner)
      (atomLeaf p.nodeTypes.length p.current)
      (atomLeaf (p.nodeTypes.length + 1 + 1) (tokenAt 1 p.scanner))] s5 hc
    (by rw [stackIndex_operator, eq]; exact (tb1 cq cq6).2) (slots_bound _ (by simp)) (hcode 4 (by decide))
  have e7 := parseExpLoop_eol fuel q6
    [atomLeaf (p.nodeTypes.length + 1 + 1 + 1 + 1 + 1) (tokenAt 3 p.scanner),
     AstNode.bin (p.nodeTypes.length + 1 + 1 + 1 + 1) AstNodeType.AST_OPERATOR
      (tokenAt 2 p.scanner) none none,
     operatorNode (p.nodeTypes.length + 1) (tokenAt 0 p.scanner)
      (atomLeaf p.nodeTypes.length p.current)
      (atomLeaf (p.nodeTypes.length + 1 + 1) (tokenAt 1 p.scanner))] 0
    (by rw [s6.2.1]; exact he)
  refine ⟨q6, ?_, s6⟩
  have hloop := e1.trans (e2.trans (e3.trans (e4.trans (e5.trans (e6.trans e7)))))
  have hdrain := (parseExpDrain_binary 3 (p.nodeTypes.length + 1 + 1 + 1 + 1)
    (tokenAt 2 p.scanner)
    (operatorNode (p.nodeTypes.length + 1) (tokenAt 0 p.scanner)
      (atomLeaf p.nodeTypes.length p.current)
      (atomLeaf (p.nodeTypes.length + 1 + 1) (tokenAt 1 p.scanner)))
    (atomLeaf (p.nodeTypes.length + 1 + 1 + 1 + 1 + 1) (tokenAt 3 p.scanner)) []
    (operatorNode_type _ _ _ _) (lc _) ⟨cq, hq⟩ (slots_bound _ (by simp))).trans (parseExpDrain_single 2 _)
  exact parseExp_of_loop _ _ _ _ _ hloop hdrain

/-- The expression `a p b q c` when the table shifts `q` over `p`: the tree of
`a p (b q c)`. -/
theorem parseExp_shift_first (fuel : Nat) (p : Parser) (cp cq : Nat)
    (h : ThreeAtoms p cp cq) (hlt : cq < cp) :
    ∃ q, parseExp (fuel + 6) p =
        Except.ok (some (rightTree p.nodeTypes.length p.current (tokenAt 0 p.scanner)
          (tokenAt 1 p.scanner) (tokenAt 2 p.scanner) (tokenAt 3 p.scanner)), q) ∧
      ExpState p 5 (tokenAt 4 p.scanner) (p.nodeTypes.length + 5) q := by
  obtain ⟨ha, hp, hb, hq, hc, he, hcode⟩ := h
  obtain ⟨tb0, tb1, tb2⟩ := table_binary
  obtain ⟨cp6, ep, _, _⟩ := operatorClass_facts _ _ hp
  obtain ⟨cq6, eq, _, _⟩ := operatorClass_facts _ _ hq
  have la := fun n => atomLeaf_type _ n _ ha
  have lb := fun n => atomLeaf_type _ n _ hb
  have lc := fun n => atomLeaf_type _ n _ hc
  obtain ⟨q1, s1, e1⟩ := shift_atom (fuel + 5) p p 0 _ 0 _ [] (expState_start p) ha
    (by rw [stackIndex_nil]; exact tb0) (slots_bound _ (by simp)) (hcode 0 (by decide))
  obtain ⟨q2, s2, e2⟩ := shift_operator (fuel + 4) p q1 1 _ 0 _
    [atomLeaf p.nodeTypes.length p.current] s1 (Or.inl ⟨cp, hp⟩)
    (by rw [stackIndex_skip _ _ (la _), stackIndex_nil, ep]; exact (tb1 cp cp6).1) (slots_bound _ (by simp))
    (hcode 1 (by decide))
  obtain ⟨q3, s3, e3⟩ := shift_atom (fuel + 3) p q2 2 _ 0 _
    [AstNode.bin (p.nodeTypes.length + 1) AstNodeType.AST_OPERATOR (tokenAt 0 p.scanner)
      none none, atomLeaf p.nodeTypes.length p.current] s2 hb
    (by rw [stackIndex_operator, ep]; exact (tb1 cp cp6).2) (slots_bound _ (by simp)) (hcode 2 (by decide))
  obtain ⟨q4, s4, e4⟩ := shift_operator (fuel + 2) p q3 3 _ 0 _
    [atomLeaf (p.nodeTypes.length + 1 + 1) (tokenAt 1 p.scanner),
     AstNode.bin (p.nodeTypes.length + 1) AstNodeType.AST_OPERATOR (tokenAt 0 p.scanner)
      none none, atomLeaf p.nodeTypes.length p.current] s3 (Or.inl ⟨cq, hq⟩)
    (by rw [stackIndex_skip _ _ (lb _), stackIndex_operator, ep, eq, tb2 cp cp6 cq cq6,
          if_neg (by omega)])
    (slots_bound _ (by simp)) (hcode 3 (by decide))
  obtain ⟨q5, s5, e5⟩ := shift_atom (fuel + 1) p q4 4 _ 0 _
    [AstNode.bin (p.nodeTypes.length + 1 + 1 + 1) AstNodeType.AST_OPERATOR
      (tokenAt 2 p.scanner) none none,
     atomLeaf (p.nodeTypes.length + 1 + 1) (tokenAt 1 p.scanner),
     AstNode.bin (p.nodeTypes.length + 1) AstNodeType.AST_OPERATOR (tokenAt 0 p.scanner)
      none none, atomLeaf p.nodeTypes.length p.current] s4 hc
    (by rw [stackIndex_operator, eq]; exact (tb1 cq cq6).2) (slots_bound _ (by simp)) (hcode 4 (by decide))
  have e6 := parseExpLoop_eol fuel q5
    [atomLeaf (p.nodeTypes.length + 1 + 1 + 1 + 1) (tokenAt 3 p.scanner),
     AstNode.bin (p.nodeTypes.length + 1 + 1 + 1) AstNodeType.AST_OPERATOR
      (tokenAt 2 p.scanner) none none,
     atomLeaf (p.nodeTypes.length + 1 + 1) (tokenAt 1 p.scanner),
     AstNode.bin (p.nodeTypes.length + 1) AstNodeType.AST_OPERATOR (tokenAt 0 p.scanner)
      none none, atomLeaf p.nodeTypes.length p.current] 0
    (by rw [s5.2.1]; exact he)
  refine ⟨q5, ?_, s5⟩
  have hloop := e1.trans (e2.trans (e3.trans (e4.trans (e5.trans e6))))
  have hdrain := (parseExpDrain_binary 5 (p.nodeTypes.length + 1 + 1 + 1)
    (tokenAt 2 p.scanner) (atomLeaf (p.nodeTypes.length + 1 + 1) (tokenAt 1 p.scanner))
    (atomLeaf (p.nodeTypes.length + 1 + 1 + 1 + 1) (tokenAt 3 p.scanner))
    [AstNode.bin (p.nodeTypes.length + 1) AstNodeType.AST_OPERATOR (tokenAt 0 p.scanner)
      none none, atomLeaf p.nodeTypes.length p.current]
    (lb _) (lc _) ⟨cq, hq⟩ (slots_bound _ (by simp))).trans
    ((parseExpDrain_binary 4 (p.nodeTypes.length + 1) (tokenAt 0 p.scanner)
      (atomLeaf p.nodeTypes.length p.current)
      (operatorNode (p.nodeTypes.length + 1 + 1 + 1) (tokenAt 2 p.scanner)
        (atomLeaf (p.nodeTypes.length + 1 + 1) (tokenAt 1 p.scanner))
        (atomLeaf (p.nodeTypes.length + 1 + 1 + 1 + 1) (tokenAt 3 p.scanner))) []
      (la _) (operatorNode_type _ _ _ _) ⟨cp, hp⟩ (slots_bound _ (by simp))).trans
      (parseExpDrain_single 3 _))
  exact parseExp_of_loop _ _ _ _ _ hloop hdrain

/-! ## Precedence and associativity of the binary operators -/

/-- Claim C24: for atoms `a`, `b`, `c` and binary operators `p` and `q` of the classes
`cp` and `cq` (0 for `*` `/`, 1 for `+` `-`, 2 for the relations, 3 for `==` `!=`, 4 for
`&&`, 5 for `||`), with the end of the line after `c`, `parseExp` returns the tree of
`(a p b) q c` when the class of `p` is higher than the class of `q`, the tree of
`a p (b q c)` when the class of `q` is higher, and the tree of `(a p b) q c` when both
are in the same class among `*` `/`, `+` `-`, `&&` and `||`. -/
theorem parseExp_precedence (fuel : Nat) (p : Parser) (cp cq : Nat)
    (h : ThreeAtoms p cp cq) (hfuel : 7 ≤ fuel) :
    (cp < cq → ∃ q, parseExp fuel p =
        Except.ok (some (leftTree p.nodeTypes.length p.current (tokenAt 0 p.scanner)
          (tokenAt 1 p.scanner) (tokenAt 2 p.scanner) (tokenAt 3 p.scanner)), q)) ∧
      (cq < cp → ∃ q, parseExp fuel p =
        Except.ok (some (rightTree p.nodeTypes.length p.current (tokenAt 0 p.scanner)
          (tokenAt 1 p.scanner) (tokenAt 2 p.scanner) (tokenAt 3 p.scanner)), q)) ∧
      (cp = cq → (cp = 0 ∨ cp = 1 ∨ cp = 4 ∨ cp = 5) → ∃ q, parseExp fuel p =
        Except.ok (some (leftTree p.nodeTypes.length p.current (tokenAt 0 p.scanner)
          (tokenAt 1 p.scanner) (tokenAt 2 p.scanner) (tokenAt 3 p.scanner)), q)) := by
  obtain ⟨f, rfl⟩ : ∃ f, fuel = f + 7 := ⟨fuel - 7, by omega⟩
  refine ⟨fun hlt => ?_, fun hlt => ?_, fun he _ => ?_⟩
  · obtain ⟨q, hq, _⟩ := parseExp_reduce_first f p cp cq h (Nat.le_of_lt hlt)
    exact ⟨q, hq⟩
  · obtain ⟨q, hq, _⟩ := parseExp_shift_first (f + 1) p cp cq h hlt
    exact ⟨q, hq⟩
  · obtain ⟨q, hq, _⟩ := parseExp_reduce_first f p cp cq h (Nat.le_of_eq he)
    exact ⟨q, hq⟩

set_option maxRecDepth 100000 in
/-- The theorem `parseExp_precedence` on `1 + 2 * 3`, where the class of `*` is higher,
on `1 * 2 + 3`, where the class of `*` is higher, and on `1 - 2 - 3`. -/
theorem parseExp_precedence_witness :
    (∃ q, parseExp runFuel (expressionParser "1 + 2 * 3\n") =
        Except.ok (some (rightTree 0 (expressionParser "1 + 2 * 3\n").current
          (tokenAt 0 (expressionParser "1 + 2 * 3\n").scanner)
          (tokenAt 1 (expressionParser "1 + 2 * 3\n").scanner)
          (tokenAt 2 (expressionParser "1 + 2 * 3\n").scanner)
          (tokenAt 3 (expressionParser "1 + 2 * 3\n").scanner)), q)) ∧
      (∃ q, parseExp runFuel (expressionParser "1 * 2 + 3\n") =
        Except.ok (some (leftTree 0 (expressionParser "1 * 2 + 3\n").current
          (tokenAt 0 (expressionParser "1 * 2 + 3\n").scanner)
          (tokenAt 1 (expressionParser "1 * 2 + 3\n").scanner)
          (tokenAt 2 (expressionParser "1 * 2 + 3\n").scanner)
          (tokenAt 3 (expressionParser "1 * 2 + 3\n").scanner)), q)) ∧
      (∃ q, parseExp runFuel (expressionParser "1 - 2 - 3\n") =
        Except.ok (some (leftTree 0 (expressionParser "1 - 2 - 3\n").current
          (tokenAt 0 (expressionParser "1 - 2 - 3\n").scanner)
          (tokenAt 1 (expressionParser "1 - 2 - 3\n").scanner)
          (tokenAt 2 (expressionParser "1 - 2 - 3\n").scanner)
          (tokenAt 3 (expressionParser "1 - 2 - 3\n").scanner)), q)) :=
  ⟨(parseExp_precedence runFuel (expressionParser "1 + 2 * 3\n") 1 0
      ⟨by decide!, by decide!, by decide!, by decide!, by decide!, by decide!, by decide!⟩
      (by decide)).2.1 (by decide),
   (parseExp_precedence runFuel (expressionParser "1 * 2 + 3\n") 0 1
      ⟨by decide!, by decide!, by decide!, by decide!, by decide!, by decide!, by decide!⟩
      (by decide)).1 (by decide),
   (parseExp_precedence runFuel (expressionParser "1 - 2 - 3\n") 1 1
      ⟨by decide!, by decide!, by decide!, by decide!, by decide!, by decide!, by decide!⟩
      (by decide)).2.2 rfl (Or.inr (Or.inl rfl))⟩

/-! ## Chains of relations and of equalities -/

set_option maxRecDepth 100000 in
/-- Claim C26 fails on the code: `parseExp` returns a tree for `1 < 2 < 3` and for
`1 == 2 != 3`; the program with `x = 1 == 2 != 3` is accepted by the whole pipeline, and
the program with `x = 1 < 2 < 3` ends with the code 6 of a type error, not with the
code 2 of a syntax error. -/
theorem chained_relations_parsed :
    isValue (parseExp runFuel (expressionParser "1 < 2 < 3\n")) = true ∧
      isValue (parseExp runFuel (expressionParser "1 == 2 != 3\n")) = true ∧
      isValue (compile runFuel equalityChainProgram.data) = true ∧
      compile runFuel relationChainProgram.data = Except.error (Err.exit SEM_TYPE) := by
  decide!

/-- Claim C26, amended: for atoms `a`, `b`, `c` and operators `p` and `q` that are both
relations (class 2) or both among `==` and `!=` (class 3), with the end of the line
after `c`, `parseExp` returns the tree of `(a p b) q c`. -/
theorem parseExp_relation_chain (fuel : Nat) (p : Parser) (c : Nat)
    (h : ThreeAtoms p c c) (_hc : c = 2 ∨ c = 3) (hfuel : 7 ≤ fuel) :
    ∃ q, parseExp fuel p =
      Except.ok (some (leftTree p.nodeTypes.length p.current (tokenAt 0 p.scanner)
        (tokenAt 1 p.scanner) (tokenAt 2 p.scanner) (tokenAt 3 p.scanner)), q) := by
  obtain ⟨f, rfl⟩ : ∃ f, fuel = f + 7 := ⟨fuel - 7, by omega⟩
  obtain ⟨q, hq, _⟩ := parseExp_reduce_first f p c c h (Nat.le_refl c)
  exact ⟨q, hq⟩

set_option maxRecDepth 100000 in
/-- The theorem `parseExp_relation_chain` on `1 < 2 <= 3`. -/
theorem parseExp_relation_chain_witness :
    ∃ q, parseExp runFuel (expressionParser "1 < 2 <= 3\n") =
      Except.ok (some (leftTree 0 (expressionParser "1 < 2 <= 3\n").current
        (tokenAt 0 (expressionParser "1 < 2 <= 3\n").scanner)
        (tokenAt 1 (expressionParser "1 < 2 <= 3\n").scanner)
        (tokenAt 2 (expressionParser "1 < 2 <= 3\n").scanner)
        (tokenAt 3 (expressionParser "1 < 2 <= 3\n").scanner)), q) :=
  parseExp_relation_chain runFuel (expressionParser "1 < 2 <= 3\n") 2
    ⟨by decide!, by decide!, by decide!, by decide!, by decide!, by decide!, by decide!⟩
    (Or.inl rfl) (by decide)

/-! ## The operator `!` before `&&` and `||` -/

/-- Claim C25 fails on the code: for `! a q b` with `q` one of `&&` and `||`, the round
of the first loop that reduces `!` at `q` also calls `parserAdvance`, so `q` is passed
over and no node is made from it; the loop ends with the two nodes `b` and `!a` on the
stack and no operator, and the second loop reads the token of the null pointer that
`astStackNextOp` returns, which is undefined behaviour. -/
theorem not_before_and_drops_operator (fuel : Nat) (p : Parser) (h : NotAtoms p) :
    (∃ q, parseExpLoop (fuel + 5) p [] 0 =
        Except.ok (q,
          [atomLeaf (p.nodeTypes.length + 3) (tokenAt 2 p.scanner),
           AstNode.bin p.nodeTypes.length AstNodeType.AST_EXPRESSION p.current none
             (some (atomLeaf (p.nodeTypes.length + 1) (tokenAt 0 p.scanner)))], 0)) ∧
      parseExp (fuel + 5) p = Except.error Err.undefinedBehaviour := by
  obtain ⟨hn, ha, hq, hb, he, hcode⟩ := h
  obtain ⟨tn0, tn1, tn2⟩ := table_not
  obtain ⟨tb0, _, _⟩ := table_binary
  have la := fun n => atomLeaf_type _ n _ ha
  have lb := fun n => atomLeaf_type _ n _ hb
  have hqc : ∃ c, operatorClass (tokenAt 1 p.scanner).type = some c := by
    rcases hq with e | e
    · exact ⟨4, by rw [e]; rfl⟩
    · exact ⟨5, by rw [e]; rfl⟩
  obtain ⟨c, hc⟩ := hqc
  obtain ⟨c6, ec, _, _⟩ := operatorClass_facts _ _ hc
  have hnot : (AstNode.bin p.nodeTypes.length AstNodeType.AST_EXPRESSION p.current none
      (some (atomLeaf (p.nodeTypes.length + 1) (tokenAt 0 p.scanner)))).type ≠
      AstNodeType.AST_OPERATOR := by
    simp [AstNode.type]
  obtain ⟨q1, s1, e1⟩ := shift_operator (fuel + 4) p p 0 _ 0 _ [] (expState_start p)
    (Or.inr hn) (by rw [stackIndex_nil, hn]; exact tn0) (slots_bound _ (by simp))
    (hcode 0 (by decide))
  obtain ⟨q2, s2, e2⟩ := shift_atom (fuel + 3) p q1 1 _ 0 _
    [AstNode.bin p.nodeTypes.length AstNodeType.AST_OPERATOR p.current none none] s1 ha
    (by rw [stackIndex_operator, hn]; exact tn1) (slots_bound _ (by simp))
    (hcode 1 (by decide))
  obtain ⟨q3, s3, e3⟩ := reduce_not (fuel + 2) p q2 2 _ 0 p.nodeTypes.length _ p.current
    (atomLeaf (p.nodeTypes.length + 1) (tokenAt 0 p.scanner)) [] s2 (Or.inl ⟨c, hc⟩) hn
    (la _) (by rw [ec]; exact tn2 c c6) (slots_bound _ (by simp)) (hcode 2 (by decide))
  obtain ⟨q4, s4, e4⟩ := shift_atom (fuel + 1) p q3 3 _ 0 _
    [AstNode.bin p.nodeTypes.length AstNodeType.AST_EXPRESSION p.current none
      (some (atomLeaf (p.nodeTypes.length + 1) (tokenAt 0 p.scanner)))] s3 hb
    (by rw [stackIndex_skip _ _ hnot, stackIndex_nil]; exact tb0) (slots_bound _ (by simp))
    (hcode 3 (by decide))
  have e5 := parseExpLoop_eol fuel q4
    [atomLeaf (p.nodeTypes.length + 1 + 1 + 1) (tokenAt 2 p.scanner),
     AstNode.bin p.nodeTypes.length AstNodeType.AST_EXPRESSION p.current none
      (some (atomLeaf (p.nodeTypes.length + 1) (tokenAt 0 p.scanner)))] 0
    (by rw [s4.2.1]; exact he)
  have hloop := e1.trans (e2.trans (e3.trans (e4.trans e5)))
  refine ⟨⟨q4, hloop⟩, ?_⟩
  have hnext : astStackNextOp
      [atomLeaf (p.nodeTypes.length + 1 + 1 + 1) (tokenAt 2 p.scanner),
       AstNode.bin p.nodeTypes.length AstNodeType.AST_EXPRESSION p.current none
        (some (atomLeaf (p.nodeTypes.length + 1) (tokenAt 0 p.scanner)))] = none := by
    rw [astStackNextOp, if_neg (lb _), astStackNextOp, if_neg hnot, astStackNextOp]
  have hdrain : parseExpDrain (2 + 1)
      [atomLeaf (p.nodeTypes.length + 1 + 1 + 1) (tokenAt 2 p.scanner),
       AstNode.bin p.nodeTypes.length AstNodeType.AST_EXPRESSION p.current none
        (some (atomLeaf (p.nodeTypes.length + 1) (tokenAt 0 p.scanner)))] =
      Except.error Err.undefinedBehaviour := by
    rw [parseExpDrain, if_neg (by simp), hnext]
  simp only [parseExp, hloop, ok_bind, List.length_cons, List.length_nil]
  rw [hdrain]
  rfl

set_option maxRecDepth 100000 in
/-- The theorem `not_before_and_drops_operator` on `!1 && 2`, and the program that
assigns `!1 && 2` to a variable. -/
theorem not_before_and_drops_operator_witness :
    parseExp (95 + 5) (expressionParser "!1 && 2\n") = Except.error Err.undefinedBehaviour ∧
      compile runFuel notAndProgram.data = Except.error Err.undefinedBehaviour :=
  ⟨(not_before_and_drops_operator 95 (expressionParser "!1 && 2\n")
      ⟨by decide!, by decide!, Or.inl (by decide!), by decide!, by decide!, by decide!⟩).2,
   by decide!⟩

/-- One round of the loop of `parseExp` in which the read of the table is an error. -/
theorem parseExpLoop_table_error (fuel : Nat) (p : Parser) (stack : AstStack) (pc : Nat)
    (e : Err)
    (h1 : p.current.type ≠ TokenType.LCURLY) (h2 : p.current.type ≠ TokenType.EOL)
    (h3 : p.current.type ≠ TokenType.RPAR) (h4 : p.current.type ≠ TokenType.LPAR)
    (h5 : p.current.type ≠ TokenType.KW_IS)
    (hact : tableAction (stackIndex stack) (getPrecedenceSymbol p.current.type) =
      Except.error e) :
    parseExpLoop (fuel + 1) p stack pc = Except.error e := by
  unfold stackIndex at hact
  rw [parseExpLoop]
  simp only [if_neg h1, if_neg h2, if_neg (fun h : p.current.type = TokenType.RPAR ∧ pc = 0 => h3 h.1),
    if_neg h4, if_neg h3, if_neg h5, ok_bind]
  generalize astStackNextOp stack = top at hact ⊢
  cases top with
  | none => simp only at hact ⊢; rw [hact]; rfl
  | some t => simp only at hact ⊢; rw [hact]; rfl

/-! ## The tokens `true` and `false` in an expression -/

/-- Claim C27 fails on the code: `getPrecedenceSymbol` has no case for the tokens `true`
and `false` and gives `NUM_PRECEDENCE`, 13, for them, so `parseExp` reads
`PRECEDENCE_TABLE[12][13]`, outside the table of 13 columns, which is undefined
behaviour; no node is returned.  `assignTypeFromToken` does have the two cases and gives
the type BOOL. -/
theorem boolean_token_outside_table (fuel : Nat) (p : Parser)
    (h : p.current.type = TokenType.KW_VAL_TRUE ∨ p.current.type = TokenType.KW_VAL_FALSE) :
    getPrecedenceSymbol p.current.type = 13 ∧
      tableAction PREC_END (getPrecedenceSymbol p.current.type) =
        Except.error Err.undefinedBehaviour ∧
      parseExp (fuel + 1) p = Except.error Err.undefinedBehaviour ∧
      (∀ (node : AstNode) (q : Parser), node.token.type = p.current.type →
        assignTypeFromToken node q = Except.ok (q.setType node TYPE_BOOL)) := by
  have key : ∀ t : TokenType, t = TokenType.KW_VAL_TRUE ∨ t = TokenType.KW_VAL_FALSE →
      t ≠ TokenType.LCURLY ∧ t ≠ TokenType.EOL ∧ t ≠ TokenType.RPAR ∧ t ≠ TokenType.LPAR ∧
        t ≠ TokenType.KW_IS ∧ getPrecedenceSymbol t = 13 ∧
        tableAction PREC_END (getPrecedenceSymbol t) = Except.error Err.undefinedBehaviour ∧
        (∀ (node : AstNode) (q : Parser), node.token.type = t →
          assignTypeFromToken node q = Except.ok (q.setType node TYPE_BOOL)) := by
    intro t ht
    rcases ht with e | e <;> subst e <;>
      exact ⟨by simp, by simp, by simp, by simp, by simp, rfl, rfl,
        fun node q hn => by simp only [assignTypeFromToken, hn]⟩
  obtain ⟨t1, t2, t3, t4, t5, k1, k2, k4⟩ := key p.current.type h
  refine ⟨k1, k2, ?_, k4⟩
  have k3 := parseExpLoop_table_error fuel p [] 0 _ t1 t2 t3 t4 t5
    (by rw [stackIndex_nil]; exact k2)
  simp only [parseExp, k3]
  rfl

set_option maxRecDepth 100000 in
/-- The theorem `boolean_token_outside_table` on the expression `true`, and the program
that assigns `true` to a variable. -/
theorem boolean_token_outside_table_witness :
    (expressionParser "true\n").current.type = TokenType.KW_VAL_TRUE ∧
      parseExp (0 + 1) (expressionParser "true\n") = Except.error Err.undefinedBehaviour ∧
      compile runFuel trueProgram.data = Except.error Err.undefinedBehaviour :=
  ⟨by decide!,
   (boolean_token_outside_table 0 (expressionParser "true\n") (Or.inl (by decide!))).2.2.1,
   by decide!⟩

/-! ## The statement `return` with no expression -/

set_option maxRecDepth 100000 in
/-- Claim C28 fails as it is written: the program whose function `main` has the statement
`return` followed by the end of the line ends with the syntax error code 2. -/
theorem bare_return_rejected :
    compile runFuel bareReturnProgram.data = Except.error (Err.exit SYNTAX_ERROR) := by
  decide!

/-- Claim C28, amended: when the token after `return` is the end of the line,
`parseReturn` ends with the syntax error code 2; for a return node with no expression
child `genReturn` emits `PUSHS nil@nil`, `POPFRAME` and `RETURN` with an empty line. -/
theorem parseReturn_without_expression (fuel funSym : Nat) (p p1 p2 : Parser)
    (h1 : parserAdvance p = Except.ok p1) (h2 : parserAdvance p1 = Except.ok p2)
    (heol : p2.current.type = TokenType.EOL) :
    parseReturn (fuel + 1) funSym p = Except.error (Err.exit SYNTAX_ERROR) ∧
      ∀ (gen : Gen) (i : Nat) (ty : AstNodeType) (tok : Token) (left : Option AstNode)
        (codeGen : CodeGenerator),
        genReturn gen (AstNode.bin i ty tok left none) codeGen =
          Except.ok (["PUSHS nil@nil", "POPFRAME", "RETURN", ""], codeGen) := by
  constructor
  · have hc : (astCreateNode p2 AstNodeType.AST_RETURN).2.current.type = TokenType.EOL := heol
    have hloop := parseExpLoop_eol fuel (astCreateNode p2 AstNodeType.AST_RETURN).2 [] 0 hc
    have hexp : parseExp (fuel + 1) (astCreateNode p2 AstNodeType.AST_RETURN).2 =
        Except.ok (none, (astCreateNode p2 AstNodeType.AST_RETURN).2) :=
      parseExp_of_loop _ _ _ [] [] hloop rfl
    simp only [parseReturn, h1, h2, ok_bind, hexp]
    rfl
  · intro gen i ty tok left codeGen
    rfl

set_option maxRecDepth 100000 in
/-- The theorem `parseReturn_without_expression` on the text `return` with the end of the
line after it. -/
theorem parseReturn_without_expression_witness :
    parseReturn (99 + 1) 0 (declarationParser "return\n") =
      Except.error (Err.exit SYNTAX_ERROR) :=
  (parseReturn_without_expression 99 0 (declarationParser "return\n")
    (expressionParser "return\n")
    (resultOr (parserAdvance (expressionParser "return\n")) (expressionParser "return\n"))
    (value_resultOr _ _ (by decide!)) (value_resultOr _ _ (by decide!)) (by decide!)).1

/-! ## The operand of a string literal -/

theorem string_mk_append (a b : List Char) : String.mk a ++ String.mk b = String.mk (a ++ b) :=
  rfl

/-- The loop of `genLiteral` writes the codes of the bytes in order. -/
theorem escapeLiteral_eq (s : List Char) : escapeLiteral s = String.mk (encodeBytes s) := by
  induction s with
  | nil => rfl
  | cons c rest ih =>
    rw [escapeLiteral, ih, encodeBytes, encodeByte]
    by_cases h : c.toNat ≤ 32 ∨ c.toNat = 35 ∨ c.toNat = 92
    · rw [if_pos h, if_pos h, escapeByte, string_mk_append]; rfl
    · rw [if_neg h, if_neg h, string_mk_append]

theorem toNat_ofNat_digit (d : Nat) (h : d < 10) : (Char.ofNat (48 + d)).toNat = 48 + d := by
  interval_cases d <;> rfl

theorem threeDigits_spec (n : Nat) :
    ∃ d1 d2 d3, threeDigits n = [d1, d2, d3] ∧
      d1.toNat = 48 + n / 100 % 10 ∧ d2.toNat = 48 + n / 10 % 10 ∧ d3.toNat = 48 + n % 10 :=
  ⟨_, _, _, rfl, toNat_ofNat_digit _ (Nat.mod_lt _ (by decide)),
    toNat_ofNat_digit _ (Nat.mod_lt _ (by decide)), toNat_ofNat_digit _ (Nat.mod_lt _ (by decide))⟩

theorem isdigit_of_toNat (d : Char) (k : Nat) (h : d.toNat = 48 + k) (hk : k < 10) :
    isdigit d = true := by
  unfold isdigit
  simp only [Bool.and_eq_true, decide_eq_true_eq]
  omega

theorem backslash_toNat : chBackslash.toNat = 92 := rfl

theorem ne_backslash_of_toNat (c : Char) (h : c.toNat ≠ 92) : c ≠ chBackslash :=
  fun e => h (by rw [e]; rfl)

/-- The code of a byte, in front of any text: what it is made of and how it is read
back. -/
theorem encodeByte_facts (c : Char) (tail : List Char)
    (htail : ∀ x ∈ tail, 32 < x.toNat ∧ x.toNat ≠ 35) (hok : operandOK tail = true) :
    (∀ x ∈ encodeByte c ++ tail, 32 < x.toNat ∧ x.toNat ≠ 35) ∧
      operandOK (encodeByte c ++ tail) = true ∧
      decodeOperand (encodeByte c ++ tail) = c :: decodeOperand tail := by
  unfold encodeByte
  by_cases h : c.toNat ≤ 32 ∨ c.toNat = 35 ∨ c.toNat = 92
  · rw [if_pos h]
    obtain ⟨d1, d2, d3, e, h1, h2, h3⟩ := threeDigits_spec c.toNat
    rw [e]
    have hc : c.toNat ≤ 92 := by omega
    refine ⟨?_, ?_, ?_⟩
    · intro x hx
      simp only [List.cons_append, List.nil_append, List.mem_cons] at hx
      rcases hx with hx | hx | hx | hx | hx
      · rw [hx, backslash_toNat]; omega
      · rw [hx, h1]; omega
      · rw [hx, h2]; omega
      · rw [hx, h3]; omega
      · exact htail x hx
    · have i1 : isdigit d1 = true := isdigit_of_toNat d1 _ h1 (Nat.mod_lt _ (by decide))
      have i2 : isdigit d2 = true := isdigit_of_toNat d2 _ h2 (Nat.mod_lt _ (by decide))
      have i3 : isdigit d3 = true := isdigit_of_toNat d3 _ h3 (Nat.mod_lt _ (by decide))
      simp [operandOK, hok, i1, i2, i3]
    · simp only [List.cons_append, List.nil_append, decodeOperand, if_true, codeValue, h1, h2, h3]
      congr 1
      have : 48 + c.toNat / 100 % 10 - 48 = 0 := by omega
      rw [show (48 + c.toNat / 100 % 10 - 48) * 100 + (48 + c.toNat / 10 % 10 - 48) * 10 +
        (48 + c.toNat % 10 - 48) = c.toNat by omega]
      exact Char.ofNat_toNat c
  · rw [if_neg h]
    have hne : c ≠ chBackslash := ne_backslash_of_toNat c (by omega)
    refine ⟨?_, ?_, ?_⟩
    · intro x hx
      simp only [List.cons_append, List.nil_append, List.mem_cons] at hx
      rcases hx with hx | hx
      · rw [hx]; omega
      · exact htail x hx
    · have h32 : 32 < c.toNat := by omega
      have h35 : c.toNat ≠ 35 := by omega
      cases tail with
      | nil => simp [operandOK, hne, h32, h35]
      | cons a t1 =>
        cases t1 with
        | nil => simpa [operandOK, hne, h32, h35] using hok
        | cons b t2 =>
          cases t2 with
          | nil => simpa [operandOK, hne, h32, h35] using hok
          | cons d t3 => simpa [operandOK, hne, h32, h35] using hok
    · cases tail with
      | nil => simp [decodeOperand, hne]
      | cons a t1 =>
        cases t1 with
        | nil => simp [decodeOperand, hne]
        | cons b t2 =>
          cases t2 with
          | nil => simp [decodeOperand, hne]
          | cons d t3 => simp [decodeOperand, hne]

/-- The operand for a sequence of bytes has no byte up to 32 and no `#`, a backslash in it
stands only before three digits, and the bytes are read back from it. -/
theorem encodeBytes_facts (s : List Char) :
    (∀ x ∈ encodeBytes s, 32 < x.toNat ∧ x.toNat ≠ 35) ∧ operandOK (encodeBytes s) = true ∧
      decodeOperand (encodeBytes s) = s := by
  induction s with
  | nil => exact ⟨(fun x hx => by cases hx), rfl, rfl⟩
  | cons c rest ih =>
    obtain ⟨h1, h2, h3⟩ := encodeByte_facts c (encodeBytes rest) ih.1 ih.2.1
    rw [encodeBytes]
    exact ⟨h1, h2, by rw [h3, ih.2.2]⟩

/-- Claim C29, amended: for a node of a string literal with the payload `s`, `genLiteral`
emits the one line `PUSHS string@` followed by the codes, in order, of the bytes of `s`
before its first zero byte (`cstr s`, all of `s` when it has no zero byte), where the code
of a byte is a backslash and its three decimal digits when the byte is at most 32, 35 or
92, and the byte itself otherwise.  The operand has no byte up to 32 and no `#`, a
backslash stands in it only before three decimal digits, and the bytes of `s` before its
first zero byte are read back from it. -/
theorem genLiteral_string_operand (node : AstNode) (v : TokenValue) (s : String)
    (hty : node.token.type = TokenType.STRING_LITERAL ∨
      node.token.type = TokenType.MULTILINE_STRING_LITERAL)
    (hv : node.token.value = some v) (hs : v.stringVal = some s) :
    genLiteral node = Except.ok ["PUSHS string@" ++ String.mk (encodeBytes (cstr s).data)] ∧
      (∀ x ∈ encodeBytes (cstr s).data, 32 < x.toNat ∧ x.toNat ≠ 35) ∧
      operandOK (encodeBytes (cstr s).data) = true ∧
      decodeOperand (encodeBytes (cstr s).data) = (cstr s).data := by
  refine ⟨?_, encodeBytes_facts _⟩
  have ht : tokenString node.token = Except.ok (cstr s) := by
    simp only [tokenString, hv, hs]
  rcases hty with h | h
  · simp only [genLiteral, h, ht, escapeLiteral_eq]; rfl
  · simp only [genLiteral, h, ht, escapeLiteral_eq]; rfl

/-- The theorem `genLiteral_string_operand` on the literal with the bytes `a`, space,
`#`, backslash, line feed and `b`. -/
theorem genLiteral_string_operand_witness :
    genLiteral (stringLiteralNode "a #\\\nb") =
        Except.ok ["PUSHS string@" ++ String.mk (encodeBytes (cstr "a #\\\nb").data)] ∧
      (∀ x ∈ encodeBytes (cstr "a #\\\nb").data, 32 < x.toNat ∧ x.toNat ≠ 35) ∧
      operandOK (encodeBytes (cstr "a #\\\nb").data) = true ∧
      decodeOperand (encodeBytes (cstr "a #\\\nb").data) = (cstr "a #\\\nb").data ∧
      String.mk (encodeBytes (cstr "a #\\\nb").data) = "a\\032\\035\\092\\010b" :=
  have h := genLiteral_string_operand (stringLiteralNode "a #\\\nb")
    { allocTokenValue with stringVal := some "a #\\\nb" } "a #\\\nb" (Or.inl rfl) rfl rfl
  ⟨h.1, h.2.1, h.2.2.1, h.2.2.2, by decide⟩

set_option maxRecDepth 100000 in
/-- Claim C29 as it is worded fails on the payload of the three bytes `a`, 0, `b`, which
the scanner delivers for the literal `"a\0b"`: the operand that the rule gives for the
three bytes is `a\000b`, but `genLiteral` reads the payload as a C string and emits
`PUSHS string@a`, the line that it emits for the payload `a`, so the payload is not
recovered from the operand.  The compiler writes that line for the program with the
literal. -/
theorem string_operand_ends_at_zero_byte :
    tokenPayload (getNextToken (initScanner "\"a\\0b\"".data)).2.1 = some "a\x00b" ∧
      String.mk (encodeBytes "a\x00b".data) = "a\\000b" ∧
      genLiteral (stringLiteralNode "a\x00b") = Except.ok ["PUSHS string@a"] ∧
      genLiteral (stringLiteralNode "a") = Except.ok ["PUSHS string@a"] ∧
      (resultOr (compile runFuel zeroByteStringProgram.data) []).filter
          (fun l => startsWith "PUSHS string@".data l.data) = ["PUSHS string@a"] := by
  refine ⟨by decide, by decide, by decide, by decide, by decide!⟩

/-! ## The two encoders of strings -/

theorem escapeString_cons (c : Char) (rest : List Char) :
    (escapeString (c :: rest)).data = escapeStringByte c ++ (escapeString rest).data := by
  unfold escapeStringByte
  rw [escapeString, escapeString, escapeString, String.data_append, String.data_append]
  simp

theorem escapeLiteral_cons (c : Char) (rest : List Char) :
    (escapeLiteral (c :: rest)).data = escapeLiteralByte c ++ (escapeLiteral rest).data := by
  unfold escapeLiteralByte
  rw [escapeLiteral, escapeLiteral, escapeLiteral, String.data_append, String.data_append]
  simp

theorem char_eq_of_toNat (c : Char) (n : Nat) (h : c.toNat = n) : c = Char.ofNat n := by
  rw [← h, Char.ofNat_toNat]

/-- The two encoders write the same text for a byte that is no `"`, no `#` and no
backslash. -/
theorem escapeByte_agree (c : Char) (h : c.toNat ≠ 34 ∧ c.toNat ≠ 35 ∧ c.toNat ≠ 92) :
    escapeStringByte c = escapeLiteralByte c := by
  have hb : c ≠ chBackslash := fun e => h.2.2 (by rw [e]; rfl)
  have hq : c ≠ chQuote := fun e => h.1 (by rw [e]; rfl)
  unfold escapeStringByte escapeLiteralByte
  rw [escapeString, escapeLiteral, if_neg hb, if_neg hq]
  by_cases h10 : c = chNewline
  · subst h10; decide
  · rw [if_neg h10]
    by_cases h9 : c.toNat = 9
    · rw [char_eq_of_toNat c 9 h9]; decide
    · rw [if_neg h9]
      by_cases h32 : c.toNat ≤ 32
      · rw [if_pos h32, if_pos (Or.inl h32)]; rfl
      · rw [if_neg h32, if_neg (by omega)]; rfl

/-- The two encoders write different texts for `"`, `#` and the backslash, from the first
or the second byte on. -/
theorem escapeByte_differ (c : Char) (h : ¬ (c.toNat ≠ 34 ∧ c.toNat ≠ 35 ∧ c.toNat ≠ 92))
    (x y : List Char) : escapeStringByte c ++ x ≠ escapeLiteralByte c ++ y := by
  have hc : c = Char.ofNat 34 ∨ c = Char.ofNat 35 ∨ c = Char.ofNat 92 := by
    by_cases h1 : c.toNat = 34
    · exact Or.inl (char_eq_of_toNat c 34 h1)
    · by_cases h2 : c.toNat = 35
      · exact Or.inr (Or.inl (char_eq_of_toNat c 35 h2))
      · by_cases h3 : c.toNat = 92
        · exact Or.inr (Or.inr (char_eq_of_toNat c 92 h3))
        · exact absurd ⟨h1, h2, h3⟩ h
  have e1 : escapeStringByte (Char.ofNat 34) = [chBackslash, chQuote] := by decide
  have e2 : escapeLiteralByte (Char.ofNat 34) = [chQuote] := by decide
  have e3 : escapeStringByte (Char.ofNat 35) = ['#'] := by decide
  have e4 : escapeLiteralByte (Char.ofNat 35) = [chBackslash, '0', '3', '5'] := by decide
  have e5 : escapeStringByte (Char.ofNat 92) = [chBackslash, chBackslash] := by decide
  have e6 : escapeLiteralByte (Char.ofNat 92) = [chBackslash, '0', '9', '2'] := by decide
  rcases hc with e | e | e
  · subst e
    rw [e1, e2]
    intro heq
    exact absurd (List.cons.inj heq).1 (by decide)
  · subst e
    rw [e3, e4]
    intro heq
    exact absurd (List.cons.inj heq).1 (by decide)
  · subst e
    rw [e5, e6]
    intro heq
    exact absurd (List.cons.inj (List.cons.inj heq).2).1 (by decide)

/-- The texts of the two encoders are equal exactly for the strings without `"`, `#`
and backslash. -/
theorem escapeString_eq_iff (s : List Char) :
    escapeString s = escapeLiteral s ↔ ∀ c ∈ s, c.toNat ≠ 34 ∧ c.toNat ≠ 35 ∧ c.toNat ≠ 92 := by
  induction s with
  | nil => exact ⟨(fun _ c hc => by cases hc), (fun _ => rfl)⟩
  | cons c rest ih =>
    constructor
    · intro heq
      have hd := congrArg String.data heq
      rw [escapeString_cons, escapeLiteral_cons] at hd
      by_cases hc : c.toNat ≠ 34 ∧ c.toNat ≠ 35 ∧ c.toNat ≠ 92
      · rw [escapeByte_agree c hc] at hd
        have hr := List.append_cancel_left hd
        have hrest := ih.1 (String.ext hr)
        intro x hx
        rcases List.mem_cons.1 hx with e | hx
        · rw [e]; exact hc
        · exact hrest x hx
      · exact absurd hd (escapeByte_differ c hc _ _)
    · intro hall
      apply String.ext
      rw [escapeString_cons, escapeLiteral_cons,
        escapeByte_agree c (hall c (List.mem_cons_self _ _)),
        ih.2 (fun x hx => hall x (List.mem_cons_of_mem _ hx))]

set_option maxRecDepth 100000 in
/-- Claim C30 fails on the code: `escapeString` writes `"` as a backslash and `"`, the
backslash as two backslashes and `#` as itself, where the loop of `genLiteral` writes
`"` as itself and the other two as a backslash and three digits; the two texts are equal
exactly for the strings without these three bytes.  For the string `a#b` the program
that hands it to `Ifj.write` gets the line `MOVE LF@$$tmp_0$1 string@a#b`, and the
program that assigns it gets the line `PUSHS string@a\035b`. -/
theorem string_encoders_disagree :
    (∀ s : List Char, escapeString s = escapeLiteral s ↔
        ∀ c ∈ s, c.toNat ≠ 34 ∧ c.toNat ≠ 35 ∧ c.toNat ≠ 92) ∧
      escapeString [chQuote, '#', chBackslash] = String.mk
        [chBackslash, chQuote, '#', chBackslash, chBackslash] ∧
      escapeLiteral [chQuote, '#', chBackslash] = String.mk
        [chQuote, chBackslash, '0', '3', '5', chBackslash, '0', '9', '2'] ∧
      (compile runFuel hashArgumentProgram.data).map
          (fun out => decide ("MOVE LF@$$tmp_0$1 string@a#b" ∈ out)) = Except.ok true ∧
      (compile runFuel hashLiteralProgram.data).map
          (fun out => decide ("PUSHS string@a\\035b" ∈ out)) = Except.ok true :=
  ⟨escapeString_eq_iff, by decide, by decide, by decide!, by decide!⟩

/-! ## Escape sequences in a string literal -/

/-- The function `parserAdvance` when `getRawToken` gives the result 1. -/
theorem parserAdvance_lexical (p : Parser) (h1 : p.scanner.isLookingAhead = false)
    (h2 : (getRawToken p.scanner).1 = 1) :
    parserAdvance p = Except.error (Err.exit LEXICAL_ERROR) := by
  unfold parserAdvance getNextToken
  rw [getNextTokenFuel]
  simp only [h1, Bool.false_eq_true, if_false]
  cases hg : getRawToken p.scanner with
  | mk r rest =>
    cases rest with
    | mk tok sc =>
      rw [hg] at h2
      simp only at h2
      subst h2
      rfl

theorem hasTripleQuote_tail (c : Char) (b : List Char) (h : hasTripleQuote (c :: b) = false) :
    hasTripleQuote b = false := by
  cases b with
  | nil => rfl
  | cons x b1 =>
    cases b1 with
    | nil => rfl
    | cons y b2 =>
      rw [hasTripleQuote, Bool.or_eq_false_iff] at h
      exact h.2

theorem getLast_tail (c : Char) (b : List Char) (h : (c :: b).getLast? ≠ some chQuote) :
    b.getLast? ≠ some chQuote := by
  cases b with
  | nil => simp
  | cons x b1 => rwa [List.getLast?_cons_cons] at h

/-- The loop of `readMultilineString` over a body without three `"` in a row that does
not end with `"`, up to the closing `"""`. -/
theorem readMultilineLoop_body (n : Nat) :
    ∀ b : List Char, b.length = n → hasTripleQuote b = false →
      b.getLast? ≠ some chQuote →
      ∀ fuel, b.length + 1 ≤ fuel → ∀ (tail : List Char) (line : Nat) (firstLine : Bool)
        (buf : List Char),
        readMultilineLoop fuel (b ++ chQuote :: chQuote :: chQuote :: tail) line firstLine buf =
          (tail, line + b.count chNewline,
            some (String.mk (buf ++ (if firstLine then b.erase chNewline else b)))) := by
  induction n using Nat.strong_induction_on with
  | _ n ih =>
    intro b hn ht hl fuel hf tail line firstLine buf
    obtain ⟨f, rfl⟩ : ∃ f, fuel = f + 1 := ⟨fuel - 1, by omega⟩
    have qn : (chQuote == chNewline) = false := by decide
    cases b with
    | nil =>
      rw [List.nil_append, readMultilineLoop]
      simp
    | cons c b1 =>
      have ht1 := hasTripleQuote_tail c b1 ht
      have hl1 := getLast_tail c b1 hl
      simp only [List.length_cons] at hn hf
      by_cases hc : c = chQuote
      · subst hc
        cases b1 with
        | nil => exact absurd rfl hl
        | cons n1 b2 =>
          have ht2 := hasTripleQuote_tail n1 b2 ht1
          have hl2 := getLast_tail n1 b2 hl1
          simp only [List.length_cons] at hn hf
          by_cases hn1 : n1 = chQuote
          · subst hn1
            cases b2 with
            | nil => exact absurd rfl hl1
            | cons n2 b3 =>
              have hn2 : (n2 == chQuote) = false := by
                rw [hasTripleQuote, Bool.or_eq_false_iff] at ht
                simpa using ht.1
              have hne : n2 ≠ chQuote := by simpa using hn2
              simp only [List.length_cons] at hn hf
              have key := ih (n2 :: b3).length (by simp only [List.length_cons]; omega)
                (n2 :: b3) rfl ht2 hl2 f (by simp only [List.length_cons]; omega) tail line
                firstLine (buf ++ [chQuote, chQuote])
              rw [List.cons_append, List.cons_append, readMultilineLoop.eq_def]
              simp only [List.cons_append, beq_self_eq_true, if_true, hn2, Bool.false_eq_true,
                if_false]
              rw [List.cons_append] at key
              rw [key]
              have e1 : (chQuote :: chQuote :: n2 :: b3).erase chNewline =
                  chQuote :: chQuote :: (n2 :: b3).erase chNewline := by
                rw [List.erase_cons, qn, List.erase_cons, qn]; rfl
              have e2 : (chQuote :: chQuote :: n2 :: b3).count chNewline =
                  (n2 :: b3).count chNewline := by
                rw [List.count_cons, List.count_cons, qn]; simp
              rw [e1, e2]
              cases firstLine <;> simp
          · have hn1b : (n1 == chQuote) = false := by simpa using hn1
            have key := ih (n1 :: b2).length (by simp only [List.length_cons]; omega)
              (n1 :: b2) rfl ht1 hl1 f (by simp only [List.length_cons]; omega) tail line
              firstLine (buf ++ [chQuote])
            rw [List.cons_append, List.cons_append, readMultilineLoop.eq_def]
            simp only [beq_self_eq_true, if_true, hn1b, Bool.false_eq_true, if_false]
            rw [List.cons_append] at key
            rw [key]
            have e1 : (chQuote :: n1 :: b2).erase chNewline =
                chQuote :: (n1 :: b2).erase chNewline := by
              rw [List.erase_cons, qn]; rfl
            have e2 : (chQuote :: n1 :: b2).count chNewline = (n1 :: b2).count chNewline := by
              rw [List.count_cons, qn]; simp
            rw [e1, e2]
            cases firstLine <;> simp
      · have hcb : (c == chQuote) = false := by simpa using hc
        have key := fun fl bf => ih b1.length (by omega) b1 rfl ht1 hl1 f (by omega) tail
          (line + 1) fl bf
        have key0 := fun bf => ih b1.length (by omega) b1 rfl ht1 hl1 f (by omega) tail
          line firstLine bf
        rw [List.cons_append, readMultilineLoop.eq_def]
        simp only [hcb, Bool.false_eq_true, if_false]
        by_cases hnl : c = chNewline
        · subst hnl
          simp only [beq_self_eq_true, if_true]
          cases firstLine
          · simp only [Bool.false_eq_true, if_false]
            rw [key]
            simp [List.count_cons]
            omega
          · simp only [if_true]
            rw [key]
            simp [List.count_cons]
            omega
        · have hnlb : (c == chNewline) = false := by simpa using hnl
          simp only [hnlb, Bool.false_eq_true, if_false]
          rw [key0]
          have e1 : (c :: b1).erase chNewline = c :: b1.erase chNewline := by
            rw [List.erase_cons, hnlb]; rfl
          have e2 : (c :: b1).count chNewline = b1.count chNewline := by
            rw [List.count_cons, hnlb]; simp
          rw [e1, e2]
          cases firstLine <;> simp

/-- The switch of `getRawToken` at a `"` that two `"` follow calls
`readMultilineString`. -/
theorem processToken_triple (sc : Scanner) (tok : Token) (rest2 : List Char)
    (hs : sc.source = chQuote :: chQuote :: rest2) :
    processToken chQuote sc tok =
      ((readMultilineString rest2 sc.line tok).1, (readMultilineString rest2 sc.line tok).2.1,
        { sc with source := (readMultilineString rest2 sc.line tok).2.2.1,
                  line := (readMultilineString rest2 sc.line tok).2.2.2 }) := by
  unfold processToken
  simp only [hs]
  simp +decide only [Bool.false_eq_true, if_false, if_true]

/-- The function `getRawToken` at three `"`. -/
theorem getRawToken_triple (sc : Scanner) (rest2 : List Char)
    (hs : sc.source = chQuote :: chQuote :: chQuote :: rest2) :
    getRawToken sc =
      ((readMultilineString rest2 sc.line { Token.zero with line := sc.line }).1,
        (readMultilineString rest2 sc.line { Token.zero with line := sc.line }).2.1,
        { sc with
            source := (readMultilineString rest2 sc.line { Token.zero with line := sc.line }).2.2.1,
            line :=
              (readMultilineString rest2 sc.line { Token.zero with line := sc.line }).2.2.2 }) := by
  unfold getRawToken
  rw [hs, List.length_cons, getRawTokenLoop]
  simp only [hs]
  have w : isWhiteSpace chQuote = false := by decide
  have c13 : (chQuote.toNat == 13) = false := by decide
  have cn : (chQuote == chNewline) = false := by decide
  have cs : (chQuote == '/') = false := by decide
  simp only [w, c13, cn, cs, Bool.false_eq_true, if_false]
  rw [processToken_triple _ _ rest2 rfl]

set_option maxRecDepth 100000 in
/-- Claim C22 fails as it is written: the body `a"` has no three `"` in a row, and for
the literal with this body `getRawToken` gives a token with the string `a` and leaves
the last `"` of the literal in the input, because the first three `"` in a row after the
opening close the literal. -/
theorem multiline_body_ending_in_quote :
    hasTripleQuote "a\"".data = false ∧
      ("a\"".data).erase chNewline = "a\"".data ∧
      (getRawToken (initScanner (multilineLiteral "a\"".data []))).1 = 0 ∧
      (getRawToken (initScanner (multilineLiteral "a\"".data []))).2.1 =
        { type := TokenType.MULTILINE_STRING_LITERAL,
          value := some { allocTokenValue with stringVal := some "a" }, line := 1 } ∧
      (getRawToken (initScanner (multilineLiteral "a\"".data []))).2.2.source = [chQuote] := by
  decide

/-- Claim C22, amended: for a body `b` without three `"` in a row that does not end with
`"`, `getRawToken` on the literal `"""` `b` `"""` gives with the result 0 one token of the
kind of a multi-line string whose string is `b` without its first line feed, with every
`"` of `b` in it, and leaves the input after the literal, with the line counter raised
by the line feeds of `b`. -/
theorem multiline_literal_token (b tail : List Char) (sc : Scanner)
    (hs : sc.source = multilineLiteral b tail) (ht : hasTripleQuote b = false)
    (hl : b.getLast? ≠ some chQuote) :
    getRawToken sc =
        (0, { type := TokenType.MULTILINE_STRING_LITERAL,
              value := some { allocTokenValue with
                stringVal := some (String.mk (b.erase chNewline)) },
              line := sc.line },
          { sc with source := tail, line := sc.line + b.count chNewline }) ∧
      (b.erase chNewline).count chQuote = b.count chQuote := by
  constructor
  · have hsrc : sc.source =
        chQuote :: chQuote :: chQuote :: (b ++ chQuote :: chQuote :: chQuote :: tail) := by
      rw [hs]; simp [multilineLiteral]
    rw [getRawToken_triple sc _ hsrc]
    unfold readMultilineString
    rw [readMultilineLoop_body b.length b rfl ht hl _ (by simp)]
    simp [Token.zero]
  · exact List.count_erase_of_ne (by decide) b

/-- The theorem `multiline_literal_token` on the literal with the body of a line feed,
`a`, two `"`, `b`, a line feed and `c`, with ` d` after the literal. -/
theorem multiline_literal_token_witness :
    getRawToken (initScanner (multilineLiteral "\na\"\"b\nc".data " d".data)) =
      (0, { type := TokenType.MULTILINE_STRING_LITERAL,
            value := some { allocTokenValue with stringVal := some "a\"\"b\nc" },
            line := 1 },
        { initScanner (multilineLiteral "\na\"\"b\nc".data " d".data) with
            source := " d".data, line := 1 + 2 }) :=
  (multiline_literal_token "\na\"\"b\nc".data " d".data
    (initScanner (multilineLiteral "\na\"\"b\nc".data " d".data)) rfl (by decide)
    (by decide)).1

/-! ## Block comments -/

/-- The loop of `skipBlockComment` leaves the bytes after the comment with the result 0,
or gives the result 1 when the input ends at a positive depth. -/
theorem skipBlockCommentLoop_spec (n : Nat) :
    ∀ (src : List Char), src.length = n → ∀ (d line fuel : Nat), src.length + 1 ≤ fuel →
      (∀ rest, commentRest d src = some rest →
        rest.length ≤ src.length ∧
          ∃ line2, skipBlockCommentLoop fuel src d line = (0, rest, line2)) ∧
      (commentRest d src = none → (skipBlockCommentLoop fuel src d line).1 = 1) := by
  induction n using Nat.strong_induction_on with
  | _ n ih =>
    intro src hn d line fuel hf
    obtain ⟨f, rfl⟩ : ∃ f, fuel = f + 1 := ⟨fuel - 1, by omega⟩
    cases d with
    | zero =>
      rw [commentRest]
      refine ⟨fun rest h => ?_, fun h => by cases h⟩
      cases h
      exact ⟨Nat.le_refl _, line, by rw [skipBlockCommentLoop]⟩
    | succ d =>
      cases src with
      | nil =>
        rw [commentRest]
        exact ⟨(fun rest h => by cases h), (fun _ => by rw [skipBlockCommentLoop])⟩
      | cons c tail =>
        simp only [List.length_cons] at hn hf
        obtain ⟨g, rfl⟩ : ∃ g, f = g + 1 := ⟨f - 1, by omega⟩
        cases tail with
        | nil =>
          rw [commentRest]
          refine ⟨(fun rest h => by cases h), (fun _ => ?_)⟩
          rw [skipBlockCommentLoop.eq_def]
          simp only
          split_ifs <;> rw [skipBlockCommentLoop]
        | cons m rest0 =>
          simp only [List.length_cons] at hn hf
          have ihTail := fun d2 line2 =>
            ih (m :: rest0).length (by simp only [List.length_cons]; omega) (m :: rest0) rfl
              d2 line2 (g + 1) (by simp only [List.length_cons]; omega)
          have ihRest := fun d2 line2 =>
            ih rest0.length (by omega) rest0 rfl d2 line2 (g + 1) (by omega)
          have lenTail : ∀ r : List Char, r.length ≤ (m :: rest0).length →
              r.length ≤ (c :: m :: rest0).length := by
            intro r h; simp only [List.length_cons] at h ⊢; omega
          have lenRest : ∀ r : List Char, r.length ≤ rest0.length →
              r.length ≤ (c :: m :: rest0).length := by
            intro r h; simp only [List.length_cons]; omega
          rw [commentRest, skipBlockCommentLoop.eq_def]
          simp only
          by_cases h1 : c = chNewline
          · have hs : ¬ (c = '/' ∧ m = '*') := fun h => by
              rw [h1] at h; exact absurd h.1 (by decide)
            have ht : ¬ (c = '*' ∧ m = '/') := fun h => by
              rw [h1] at h; exact absurd h.1 (by decide)
            have hb : (c == chNewline) = true := by simpa using h1
            simp only [if_neg hs, if_neg ht, hb, if_true]
            obtain ⟨a, b⟩ := ihTail (d + 1) (line + 1)
            exact ⟨fun rest h => ⟨lenTail _ (a rest h).1, (a rest h).2⟩, b⟩
          · have hb : (c == chNewline) = false := by simpa using h1
            simp only [hb, Bool.false_eq_true, if_false]
            by_cases h2 : c = '/'
            · subst h2
              simp only [beq_self_eq_true, if_true, true_and]
              have ht : ¬ ('/' = '*' ∧ m = '/') := fun h => absurd h.1 (by decide)
              by_cases h3 : m = '*'
              · subst h3
                simp only [if_true, beq_self_eq_true]
                obtain ⟨a, b⟩ := ihRest (d + 2) line
                exact ⟨fun rest h => ⟨lenRest _ (a rest h).1, (a rest h).2⟩, b⟩
              · have hm : (m == '*') = false := by simpa using h3
                simp only [if_neg h3, if_neg ht, hm, Bool.false_eq_true, if_false]
                obtain ⟨a, b⟩ := ihTail (d + 1) line
                exact ⟨fun rest h => ⟨lenTail _ (a rest h).1, (a rest h).2⟩, b⟩
            · have hsl : (c == '/') = false := by simpa using h2
              have hs : ¬ (c = '/' ∧ m = '*') := fun h => h2 h.1
              simp only [hsl, Bool.false_eq_true, if_false, if_neg hs]
              by_cases h4 : c = '*'
              · subst h4
                simp only [beq_self_eq_true, if_true, true_and]
                by_cases h5 : m = '/'
                · subst h5
                  simp only [if_true, beq_self_eq_true]
                  obtain ⟨a, b⟩ := ihRest d line
                  exact ⟨fun rest h => ⟨lenRest _ (a rest h).1, (a rest h).2⟩, b⟩
                · have hm : (m == '/') = false := by simpa using h5
                  simp only [if_neg h5, hm, Bool.false_eq_true, if_false]
                  obtain ⟨a, b⟩ := ihTail (d + 1) line
                  exact ⟨fun rest h => ⟨lenTail _ (a rest h).1, (a rest h).2⟩, b⟩
              · have hst : (c == '*') = false := by simpa using h4
                have ht : ¬ (c = '*' ∧ m = '/') := fun h => h4 h.1
                simp only [hst, Bool.false_eq_true, if_false, if_neg ht]
                obtain ⟨a, b⟩ := ihTail (d + 1) line
                exact ⟨fun rest h => ⟨lenTail _ (a rest h).1, (a rest h).2⟩, b⟩

/-- A comment that was skipped leaves no more bytes than it was given. -/
theorem skipBlockComment_length (src : List Char) (line : Nat)
    (h : (skipBlockComment src line).1 = 0) :
    (skipBlockComment src line).2.1.length ≤ src.length := by
  have hspec := skipBlockCommentLoop_spec src.length src rfl 1 line (src.length + 2) (by omega)
  cases hc : commentRest 1 src with
  | none =>
    have h1 := hspec.2 hc
    rw [skipBlockComment] at h
    omega
  | some rest =>
    obtain ⟨hl, line2, he⟩ := hspec.1 rest hc
    rw [skipBlockComment, he]
    exact hl

/-- The loop of `getRawToken` reads a byte in every round: any fuel above the length of
the input gives the same result. -/
theorem getRawTokenLoop_fuel (n : Nat) :
    ∀ (sc : Scanner) (tok : Token) (f1 f2 : Nat), sc.source.length = n →
      n + 1 ≤ f1 → n + 1 ≤ f2 → getRawTokenLoop f1 sc tok = getRawTokenLoop f2 sc tok := by
  induction n using Nat.strong_induction_on with
  | _ n ih =>
    intro sc tok f1 f2 hn h1 h2
    obtain ⟨a, rfl⟩ : ∃ a, f1 = a + 1 := ⟨f1 - 1, by omega⟩
    obtain ⟨b, rfl⟩ : ∃ b, f2 = b + 1 := ⟨f2 - 1, by omega⟩
    rw [getRawTokenLoop.eq_def, getRawTokenLoop.eq_def (b + 1)]
    simp only
    cases hsrc : sc.source with
    | nil => rfl
    | cons c rest =>
      rw [hsrc] at hn
      simp only [List.length_cons] at hn
      have ihr := ih rest.length (by omega) { sc with source := rest } tok a b rfl
        (by omega) (by omega)
      simp only [ihr]
      cases rest with
      | nil => rfl
      | cons m rest1 =>
        simp only [List.length_cons] at hn
        have hlen := skipBlockComment_length rest1 sc.line
        by_cases hr : (skipBlockComment rest1 sc.line).1 = 0
        · have ihc := ih (skipBlockComment rest1 sc.line).2.1.length
            (by have := hlen hr; omega)
            { sc with source := (skipBlockComment rest1 sc.line).2.1,
                      line := (skipBlockComment rest1 sc.line).2.2 } tok a b rfl
            (by have := hlen hr; omega) (by have := hlen hr; omega)
          simp only [ihc]
        · have hb : ((skipBlockComment rest1 sc.line).1 != 0) = true := by simpa using hr
          simp only [hb, if_true]

/-- One round of the loop of `getRawToken` on an input that starts with `/*`. -/
theorem getRawTokenLoop_comment (sc : Scanner) (src : List Char) (tok : Token) (f : Nat)
    (hs : sc.source = '/' :: '*' :: src) :
    getRawTokenLoop (f + 1) sc tok =
      if (skipBlockComment src sc.line).1 != 0 then
        (1, { tok with type := TokenType.TOKEN_ERROR },
         { sc with source := (skipBlockComment src sc.line).2.1,
                   line := (skipBlockComment src sc.line).2.2 })
      else
        getRawTokenLoop f
          { sc with source := (skipBlockComment src sc.line).2.1,
                    line := (skipBlockComment src sc.line).2.2 } tok := by
  rw [getRawTokenLoop.eq_def]
  simp only [hs]
  rfl

/-- Claim C23: a block comment is skipped with any nesting.  After the opening `/*` the bytes
are read from left to right, `/*` raises the depth by one and `*/` lowers it by one
(`commentRest`).  When the depth comes back to zero, `skipBlockComment` returns 0 with the
bytes after that `*/`, and `getRawToken` goes on with its loop on these bytes, with the
token it started with: the comment gives no token.  When the input ends at a positive
depth, `getRawToken` returns 1 with a token of the type `TOKEN_ERROR`, and `parserAdvance`
ends with the lexical error. -/
theorem block_comment_skipped (sc : Scanner) (src : List Char)
    (hs : sc.source = '/' :: '*' :: src) :
    (∀ rest, commentRest 1 src = some rest →
        ∃ line2, skipBlockComment src sc.line = (0, rest, line2) ∧
          getRawToken sc =
            getRawTokenLoop (rest.length + 1) { sc with source := rest, line := line2 }
              { Token.zero with line := sc.line }) ∧
      (commentRest 1 src = none →
        (getRawToken sc).1 = 1 ∧ (getRawToken sc).2.1.type = TokenType.TOKEN_ERROR ∧
          ∀ p : Parser, p.scanner = sc → sc.isLookingAhead = false →
            parserAdvance p = Except.error (Err.exit LEXICAL_ERROR)) := by
  have hspec := skipBlockCommentLoop_spec src.length src rfl 1 sc.line (src.length + 2)
    (by omega)
  have hraw : getRawToken sc =
      getRawTokenLoop (src.length + 2 + 1) sc { Token.zero with line := sc.line } := by
    rw [getRawToken, hs]
    rfl
  refine ⟨fun rest hc => ?_, fun hc => ?_⟩
  · obtain ⟨hl, line2, he⟩ := hspec.1 rest hc
    have hk : skipBlockComment src sc.line = (0, rest, line2) := he
    refine ⟨line2, hk, ?_⟩
    rw [hraw, getRawTokenLoop_comment sc src _ _ hs, hk]
    exact getRawTokenLoop_fuel rest.length _ _ _ _ rfl (by omega) (by omega)
  · have h1 : (skipBlockComment src sc.line).1 = 1 := hspec.2 hc
    have hb : ((skipBlockComment src sc.line).1 != 0) = true := by rw [h1]; rfl
    have hg : getRawToken sc =
        (1, { Token.zero with type := TokenType.TOKEN_ERROR, line := sc.line },
         { sc with source := (skipBlockComment src sc.line).2.1,
                   line := (skipBlockComment src sc.line).2.2 }) := by
      rw [hraw, getRawTokenLoop_comment sc src _ _ hs, if_pos hb]
    refine ⟨by rw [hg], by rw [hg], fun p hp hla => ?_⟩
    subst hp
    exact parserAdvance_lexical p hla (by rw [hg])

/-- The theorem `block_comment_skipped` on a comment with a comment inside, after which
the literal `1` is the token, and on a comment whose inner comment alone is closed. -/
theorem block_comment_skipped_witness :
    (∃ line2, skipBlockComment " a /* b\n */ c */ 1\n".data 1 = (0, " 1\n".data, line2) ∧
        getRawToken (initScanner "/* a /* b\n */ c */ 1\n".data) =
          getRawTokenLoop 4
            { initScanner "/* a /* b\n */ c */ 1\n".data with
                source := " 1\n".data, line := line2 }
            { Token.zero with line := 1 }) ∧
      (getRawToken (initScanner "/* a /* b\n */ c */ 1\n".data)).2.1.type =
        TokenType.INT_LITERAL ∧
      (getRawToken (initScanner "/* a /* b */ c".data)).1 = 1 :=
  ⟨(block_comment_skipped (initScanner "/* a /* b\n */ c */ 1\n".data)
      " a /* b\n */ c */ 1\n".data rfl).1 " 1\n".data (by decide!),
   by decide!,
   ((block_comment_skipped (initScanner "/* a /* b */ c".data) " a /* b */ c".data rfl).2
      (by decide!)).1⟩

/-! ## Mangled names -/

/-- What stands before the first character that is not of an identifier. -/
theorem takeWhile_ident (b rest : List Char) (c : Char)
    (hb : ∀ x ∈ b, isIdentifierPart x = true) (hc : isIdentifierPart c = false) :
    (b ++ c :: rest).takeWhile isIdentifierPart = b := by
  induction b with
  | nil => simp [List.takeWhile, hc]
  | cons x xs ih =>
    have hx := hb x (List.mem_cons_self _ _)
    simp [List.takeWhile, hx, ih (fun y hy => hb y (List.mem_cons_of_mem _ hy))]

/-- What stands from the first character on that is not of an identifier. -/
theorem dropWhile_ident (b rest : List Char) (c : Char)
    (hb : ∀ x ∈ b, isIdentifierPart x = true) (hc : isIdentifierPart c = false) :
    (b ++ c :: rest).dropWhile isIdentifierPart = c :: rest := by
  induction b with
  | nil => simp [List.dropWhile, hc]
  | cons x xs ih =>
    have hx := hb x (List.mem_cons_self _ _)
    simp [List.dropWhile, hx, ih (fun y hy => hb y (List.mem_cons_of_mem _ hy))]

/-- The name that `symbolGetUniqueName` returns is the base name with the suffix. -/
theorem symbolGetUniqueName_data (b : String) (k : SymbolKind) (n : Nat) :
    (symbolGetUniqueName b k n).data = b.data ++ mangleSuffix k n := by
  unfold symbolGetUniqueName mangleSuffix
  split
  · simp [String.data_append]
  · split
    · simp [String.data_append]
    · simp [String.data_append]

/-- The suffix starts with `#` or `$`, which is no character of an identifier. -/
theorem mangleSuffix_head (k : SymbolKind) (n : Nat) :
    ∃ c rest, mangleSuffix k n = c :: rest ∧ isIdentifierPart c = false := by
  unfold mangleSuffix
  split
  · exact ⟨'#', "get".data, rfl, by decide⟩
  · split
    · exact ⟨'#', "set".data, rfl, by decide⟩
    · exact ⟨'$', _, rfl, by decide⟩

/-- The suffix gives back the kind, and the number of parameters of a function. -/
theorem mangleSuffix_inj (k1 k2 : SymbolKind) (n1 n2 : Nat)
    (hk1 : mangledKind k1) (hk2 : mangledKind k2)
    (h : mangleSuffix k1 n1 = mangleSuffix k2 n2) :
    k1 = k2 ∧ (k1 = SymbolKind.SYM_FUNC → n1 = n2) := by
  rcases hk1 with rfl | rfl | rfl <;> rcases hk2 with rfl | rfl | rfl <;>
    simp only [mangleSuffix, reduceCtorEq, if_true, if_false] at h
  · refine ⟨rfl, fun _ => ?_⟩
    exact toString_nat_inj _ _ (String.ext (List.cons.inj h).2)
  all_goals first
    | exact ⟨rfl, fun hf => by cases hf⟩
    | exact absurd (List.cons.inj h).1 (by decide)
    | exact absurd h (by decide)

/-- Claim C40: for base names of letters, digits and underscores and kinds among function,
getter and setter, two equal names of `symbolGetUniqueName` come from the same base name
and the same kind, and for a function from the same number of parameters.  A name of
`symbolGetUniqueName` is no identifier of the source, so the name of a symbol that
`symbolCreate` makes for a function, a getter or a setter differs from the name of every
symbol it makes for a variable or a parameter with an identifier as its name. -/
theorem symbolGetUniqueName_injective (b1 b2 : String) (k1 k2 : SymbolKind) (n1 n2 : Nat)
    (h1 : baseChars b1) (h2 : baseChars b2) (hk1 : mangledKind k1) (hk2 : mangledKind k2) :
    (symbolGetUniqueName b1 k1 n1 = symbolGetUniqueName b2 k2 n2 →
        b1 = b2 ∧ k1 = k2 ∧ (k1 = SymbolKind.SYM_FUNC → n1 = n2)) ∧
      ¬ sourceIdentifier (symbolGetUniqueName b1 k1 n1) ∧
      (∀ (v : String) (kv : SymbolKind) (t tv : ExprType) (nv : Nat),
        sourceIdentifier v → kv = SymbolKind.SYM_VAR ∨ kv = SymbolKind.SYM_PARAM →
          (symbolCreate b1 t k1 n1).name ≠ (symbolCreate v tv kv nv).name) := by
  have hnot : ¬ sourceIdentifier (symbolGetUniqueName b1 k1 n1) := by
    rintro ⟨c, rest, hd, hc, hrest⟩
    obtain ⟨s, tail, hs, hsc⟩ := mangleSuffix_head k1 n1
    have hmem : s ∈ (symbolGetUniqueName b1 k1 n1).data := by
      rw [symbolGetUniqueName_data, hs]
      simp
    rw [hd] at hmem
    rcases List.mem_cons.mp hmem with rfl | hm
    · have : isIdentifierPart s = true := by
        unfold isIdentifierStart at hc
        unfold isIdentifierPart isalnum
        simp only [Bool.or_eq_true] at hc ⊢
        rcases hc with hc | hc
        · exact Or.inl (Or.inl hc)
        · exact Or.inr hc
      rw [this] at hsc
      cases hsc
    · rw [hrest s hm] at hsc
      cases hsc
  refine ⟨fun h => ?_, hnot, ?_⟩
  · have hd := congrArg String.data h
    rw [symbolGetUniqueName_data, symbolGetUniqueName_data] at hd
    obtain ⟨c1, r1, e1, hc1⟩ := mangleSuffix_head k1 n1
    obtain ⟨c2, r2, e2, hc2⟩ := mangleSuffix_head k2 n2
    have ht := congrArg (List.takeWhile isIdentifierPart) hd
    have hdr := congrArg (List.dropWhile isIdentifierPart) hd
    rw [e1, e2, takeWhile_ident _ _ _ h1 hc1, takeWhile_ident _ _ _ h2 hc2] at ht
    rw [e1, e2, dropWhile_ident _ _ _ h1 hc1, dropWhile_ident _ _ _ h2 hc2, ← e1, ← e2] at hdr
    obtain ⟨hk, hn⟩ := mangleSuffix_inj k1 k2 n1 n2 hk1 hk2 hdr
    exact ⟨String.ext ht, hk, hn⟩
  · intro v kv t tv nv hv hkv heq
    have hname1 : (symbolCreate b1 t k1 n1).name = symbolGetUniqueName b1 k1 n1 := by
      unfold symbolCreate
      exact if_pos hk1
    have hname2 : (symbolCreate v tv kv nv).name = v := by
      unfold symbolCreate
      rcases hkv with rfl | rfl <;> simp
    rw [hname1, hname2] at heq
    rw [heq] at hnot
    exact hnot hv

/-- The theorem `symbolGetUniqueName_injective` on the function `f` with two parameters
and the getter `f`. -/
theorem symbolGetUniqueName_injective_witness :
    symbolGetUniqueName "f" SymbolKind.SYM_FUNC 2 = "f$2" ∧
      symbolGetUniqueName "f" SymbolKind.SYM_GET 0 = "f#get" ∧
      ¬ sourceIdentifier "f$2" ∧
      (symbolGetUniqueName "f" SymbolKind.SYM_FUNC 2 =
          symbolGetUniqueName "f" SymbolKind.SYM_FUNC 2 →
        "f" = "f" ∧ SymbolKind.SYM_FUNC = SymbolKind.SYM_FUNC ∧
          (SymbolKind.SYM_FUNC = SymbolKind.SYM_FUNC → 2 = 2)) :=
  ⟨by decide, by decide,
   (symbolGetUniqueName_injective "f" "f" SymbolKind.SYM_FUNC SymbolKind.SYM_FUNC 2 2
      (by unfold baseChars; decide) (by unfold baseChars; decide) (Or.inl rfl) (Or.inl rfl)).2.1,
   (symbolGetUniqueName_injective "f" "f" SymbolKind.SYM_FUNC SymbolKind.SYM_FUNC 2 2
      (by unfold baseChars; decide) (by unfold baseChars; decide) (Or.inl rfl) (Or.inl rfl)).1⟩

/-! ## A sequence of insertions into one scope -/

/-- One call of `scopeAddSymbol` for a symbol whose name is not in the table: the call
returns 0, the memory is as before, and the table holds the symbol and what it held. -/
theorem scopeAddSymbol_fresh (mem : List Symbol) (sc : Scope) (sym : Nat)
    (hok : TableOK mem sc) (hsym : sym < mem.length) (hsize : 2 ≤ sc.size)
    (hload : 10 * sc.currentSize ≤ 7 * sc.size)
    (hfresh : ∀ b, Slot.sym b ∈ sc.symbols → (symAt mem b).name ≠ (symAt mem sym).name) :
    ∃ sc2, scopeAddSymbol sc sym mem = Except.ok (0, sc2, mem) ∧ TableOK mem sc2 ∧
      (∀ a, Slot.sym a ∈ sc2.symbols ↔ (a = sym ∨ Slot.sym a ∈ sc.symbols)) ∧
      sc2.currentSize = sc.currentSize + 1 ∧ 2 ≤ sc2.size ∧
      10 * sc2.currentSize ≤ 7 * sc2.size ∧
      (sc2.size = sc.size ∨ sc2.size = sc.size * 2) := by
  have key : ∀ sc1 : Scope, TableOK mem sc1 → sc1.currentSize + 1 < sc1.size →
      (∀ a, Slot.sym a ∈ sc1.symbols ↔ Slot.sym a ∈ sc.symbols) →
      ∃ sc2, addProbe sym (getHash (symAt mem sym).name sc1.size) sc1.size 0 sc1 mem =
          (0, sc2, mem) ∧ TableOK mem sc2 ∧
        (∀ a, Slot.sym a ∈ sc2.symbols ↔ (a = sym ∨ Slot.sym a ∈ sc.symbols)) ∧
        sc2.currentSize = sc1.currentSize + 1 ∧ sc2.size = sc1.size := by
    intro sc1 hok1 hroom hmem
    rcases addProbe_ok mem sc1 sym hok1 hsym hroom with
      ⟨_, t, ht, hnull, hres, hok2⟩ | ⟨p, b, hp, hb, _⟩
    · refine ⟨_, hres, hok2, fun a => ?_, rfl, rfl⟩
      show Slot.sym a ∈ sc1.symbols.set t (Slot.sym sym) ↔ _
      rw [mem_set_null _ _ _ _ (by rw [← hok1.1]; exact ht) hnull, hmem]
    · exact absurd hb (hfresh b ((hmem b).mp (mem_of_getD_sym _ _ _ hp)))
  unfold scopeAddSymbol
  simp only
  by_cases hl : loadExceeded sc.currentSize sc.size = true
  · obtain ⟨sc1, hd⟩ := scopeDoubleCapacity_some mem sc hok
    obtain ⟨h1, h2, h3, h4⟩ := scopeDoubleCapacity_ok mem sc sc1 hok hd
    simp only [hl, if_true, hd]
    obtain ⟨sc2, hres, hok2, hmem2, hcur, hsz⟩ :=
      key sc1 h1 (by have := hok.2.1; omega) h4
    refine ⟨sc2, by rw [hres], hok2, hmem2, by omega, by omega, by omega, Or.inr (by omega)⟩
  · have hl2 : loadExceeded sc.currentSize sc.size = false := by simpa using hl
    simp only [hl2, Bool.false_eq_true, if_false]
    simp only [loadExceeded, decide_eq_true_eq, not_lt] at hl
    obtain ⟨sc2, hres, hok2, hmem2, hcur, hsz⟩ :=
      key sc hok (by omega) (fun a => Iff.rfl)
    refine ⟨sc2, by rw [hres], hok2, hmem2, hcur, by omega, by omega, Or.inl hsz⟩

/-- Insertions of symbols with names that differ from each other and from the names in
the table: every call returns 0, and the table holds the symbols and what it held. -/
theorem addSymbols_fresh (mem : List Symbol) :
    ∀ (syms : List Nat) (sc : Scope), TableOK mem sc → 2 ≤ sc.size →
      10 * sc.currentSize ≤ 7 * sc.size →
      (∀ a ∈ syms, a < mem.length) →
      (syms.map (fun a => (symAt mem a).name)).Nodup →
      (∀ b, Slot.sym b ∈ sc.symbols → ∀ a ∈ syms, (symAt mem b).name ≠ (symAt mem a).name) →
      ∃ sc2, addSymbols syms sc mem =
          Except.ok (List.replicate syms.length 0, sc2, mem) ∧ TableOK mem sc2 ∧
        (∀ a, Slot.sym a ∈ sc2.symbols ↔ (a ∈ syms ∨ Slot.sym a ∈ sc.symbols)) ∧
        sc2.currentSize = sc.currentSize + syms.length ∧
        10 * sc2.currentSize ≤ 7 * sc2.size ∧ ∃ k, sc2.size = sc.size * 2 ^ k := by
  intro syms
  induction syms with
  | nil =>
    intro sc hok _ hload _ _ _
    exact ⟨sc, rfl, hok, fun a => by simp, rfl, hload, 0, by simp⟩
  | cons s rest ih =>
    intro sc hok hsize hload hmem hnodup hfresh
    simp only [List.map_cons, List.nodup_cons, List.mem_map, not_exists, not_and] at hnodup
    obtain ⟨sc1, hres, hok1, hmem1, hcur1, hsize1, hload1, hsz1⟩ :=
      scopeAddSymbol_fresh mem sc s hok (hmem s (List.mem_cons_self _ _)) hsize hload
        (fun b hb => hfresh b hb s (List.mem_cons_self _ _))
    obtain ⟨sc2, hres2, hok2, hmem2, hcur2, hload2, k, hk⟩ :=
      ih sc1 hok1 hsize1 hload1 (fun a ha => hmem a (List.mem_cons_of_mem _ ha)) hnodup.2
        (fun b hb a ha => by
          rcases (hmem1 b).mp hb with rfl | hb0
          · exact fun h => hnodup.1 a ha h.symm
          · exact hfresh b hb0 a (List.mem_cons_of_mem _ ha))
    refine ⟨sc2, ?_, hok2, fun a => ?_, ?_, hload2, ?_⟩
    · rw [addSymbols, hres]
      simp only [hres2, List.length_cons, List.replicate_succ]
    · rw [hmem2, hmem1, List.mem_cons]
      tauto
    · rw [hcur2, hcur1, List.length_cons]
      omega
    · rcases hsz1 with h | h
      · exact ⟨k, by rw [hk, h]⟩
      · exact ⟨k + 1, by rw [hk, h, pow_succ]; ring⟩

/-- Claim C39: symbols with names that differ from each other are added by successive
calls of `scopeAddSymbol` to a scope as `scopeCreate(16)` makes it.  Every call returns 0
and leaves the symbols as they are, however many times the table is doubled on the way;
afterwards `scopeFindSymbol` returns for the name of each added symbol the address of
that symbol, and the null pointer for every other name.  The table has grown to hold
them: its size is 16 times a power of two and at least ten sevenths of their number. -/
theorem find_after_insertions (mem : List Symbol) (syms : List Nat)
    (hmem : ∀ a ∈ syms, a < mem.length)
    (hnames : (syms.map (fun a => (symAt mem a).name)).Nodup) :
    ∃ sc, addSymbols syms (scopeCreate 16) mem =
        Except.ok (List.replicate syms.length 0, sc, mem) ∧
      (∀ a ∈ syms, scopeFindSymbol mem sc (symAt mem a).name = some a) ∧
      (∀ X, (∀ a ∈ syms, (symAt mem a).name ≠ X) → scopeFindSymbol mem sc X = none) ∧
      sc.currentSize = syms.length ∧ 10 * syms.length ≤ 7 * sc.size ∧
      ∃ k, sc.size = 16 * 2 ^ k := by
  have hempty : ∀ b, Slot.sym b ∉ (scopeCreate 16).symbols := by
    intro b hb
    have := List.eq_of_mem_replicate hb
    cases this
  obtain ⟨sc, hres, hok, hmem2, hcur, hload, k, hk⟩ :=
    addSymbols_fresh mem syms (scopeCreate 16) (tableOK_empty mem 16 (by decide))
      (by decide) (by decide) hmem hnames (fun b hb => absurd hb (hempty b))
  have hcur2 : sc.currentSize = syms.length := by
    rw [hcur]
    show 0 + syms.length = syms.length
    omega
  refine ⟨sc, hres, fun a ha => ?_, fun X hX => ?_, hcur2, by rw [← hcur2]; exact hload,
    k, hk⟩
  · rw [scopeFindSymbol_iff mem sc _ a hok]
    obtain ⟨p, hp⟩ := mem_sym_getD _ _ ((hmem2 a).mpr (Or.inl ha))
    exact ⟨p, hp, rfl⟩
  · cases hf : scopeFindSymbol mem sc X with
    | none => rfl
    | some b =>
      obtain ⟨p, hp, hb⟩ := (scopeFindSymbol_iff mem sc X b hok).mp hf
      rcases (hmem2 b).mp (mem_of_getD_sym _ _ _ hp) with hin | hin
      · exact absurd hb (hX b hin)
      · exact absurd hin (hempty b)

/-- The theorem `find_after_insertions` on thirteen variables: the twelfth insertion
doubles the table of 16 entries, and all thirteen are found afterwards. -/
theorem find_after_insertions_witness :
    (∃ sc, addSymbols (List.range 13) (scopeCreate 16) thirteenSymbols =
        Except.ok (List.replicate 13 0, sc, thirteenSymbols) ∧
      (∀ a ∈ List.range 13,
        scopeFindSymbol thirteenSymbols sc (symAt thirteenSymbols a).name = some a) ∧
      (∀ X, (∀ a ∈ List.range 13, (symAt thirteenSymbols a).name ≠ X) →
        scopeFindSymbol thirteenSymbols sc X = none) ∧
      sc.currentSize = 13 ∧ 10 * 13 ≤ 7 * sc.size ∧ ∃ k, sc.size = 16 * 2 ^ k) ∧
      (addSymbols (List.range 11) (scopeCreate 16) thirteenSymbols).map
          (fun r => r.2.1.size) = Except.ok 16 ∧
      (addSymbols (List.range 12) (scopeCreate 16) thirteenSymbols).map
          (fun r => r.2.1.size) = Except.ok 32 :=
  ⟨find_after_insertions thirteenSymbols (List.range 13) (by decide) (by decide),
   by decide, by decide⟩

/-! ## The nil path of `Ifj.substring` -/

/-- Claim C31 fails on the code: the template of `Ifj.substring` has the five conditional
jumps of the range checks, all to the label `$substr_nil_k`, but no line `LABEL` of that
label and no line `PUSHS nil@nil`: its lines that define a label are the label of the
type checks three times, `$substr_loop_` and `$substr_end_`.  In the code of the program
with `Ifj.substring("abc", 2, 1)` the jumps go to `$substr_nil_3` and no line defines
it. -/
theorem substring_nil_label_missing (s i j : String) (g cg : CodeGenerator) :
    (genIfjSubstring s i j (genUniqueLabel g "ifj_ok").1 cg).1.filter
        (fun l => startsWith "JUMPIFEQ $substr_nil_".data l.data) =
      ["JUMPIFEQ " ++ ("$substr_nil_" ++ toString (cg.labelCounter + 1)) ++ " " ++
          lfVar ("$$tmp_" ++ toString cg.tempVarCounter) cg.frameDepth ++ " bool@true",
       "JUMPIFEQ " ++ ("$substr_nil_" ++ toString (cg.labelCounter + 1)) ++ " " ++
          lfVar ("$$tmp_" ++ toString cg.tempVarCounter) cg.frameDepth ++ " bool@true",
       "JUMPIFEQ " ++ ("$substr_nil_" ++ toString (cg.labelCounter + 1)) ++ " " ++
          lfVar ("$$tmp_" ++ toString cg.tempVarCounter) cg.frameDepth ++ " bool@true",
       "JUMPIFEQ " ++ ("$substr_nil_" ++ toString (cg.labelCounter + 1)) ++ " " ++
          lfVar ("$$tmp_" ++ toString cg.tempVarCounter) cg.frameDepth ++ " bool@false",
       "JUMPIFEQ " ++ ("$substr_nil_" ++ toString (cg.labelCounter + 1)) ++ " " ++
          lfVar ("$$tmp_" ++ toString cg.tempVarCounter) cg.frameDepth ++ " bool@true"] ∧
      (genIfjSubstring s i j (genUniqueLabel g "ifj_ok").1 cg).1.filter
        (fun l => startsWith "LABEL $substr_nil_".data l.data) = [] ∧
      (genIfjSubstring s i j (genUniqueLabel g "ifj_ok").1 cg).1.filter
        (fun l => startsWith "PUSHS nil@nil".data l.data) = [] ∧
      labelLines (genIfjSubstring s i j (genUniqueLabel g "ifj_ok").1 cg).1 =
        ["LABEL " ++ (genUniqueLabel g "ifj_ok").1, "LABEL " ++ (genUniqueLabel g "ifj_ok").1,
         "LABEL " ++ (genUniqueLabel g "ifj_ok").1,
         "LABEL " ++ ("$substr_loop_" ++ toString (cg.labelCounter + 2)),
         "LABEL " ++ ("$substr_end_" ++ toString (cg.labelCounter + 3))] ∧
      (compile runFuel substringProgram.data).map
          (fun out => (out.count "JUMPIFEQ $substr_nil_3 LF@$$tmp_3$1 bool@true",
            out.count "JUMPIFEQ $substr_nil_3 LF@$$tmp_3$1 bool@false",
            out.count "LABEL $substr_nil_3")) = Except.ok (4, 1, 0) :=
  ⟨rfl, rfl, rfl, rfl, by decide!⟩

/-! ## Labels defined more than once -/

/-- Claim C34 fails on the code.  `genUniqueLabel` returns `$`, the base, `_` and the
counter, and advances the counter, as claimed.  But `genIfj` makes one label
`$ifj_ok_k` for the type checks of a call, and the templates of `Ifj.strcmp` and
`Ifj.ord` write the line `LABEL` of it twice, the template of `Ifj.substring` three
times: the lines of each template that define a label are listed, and two of them are the
same line.  The code of the program with `Ifj.strcmp("a", "b")` has the line
`LABEL $ifj_ok_1` twice, the one with `Ifj.ord("a", 0)` twice, and the one with
`Ifj.substring("abc", 2, 1)` three times. -/
theorem type_check_label_repeated (a b c endLabel base : String) (gen cg : CodeGenerator) :
    genUniqueLabel gen base =
        ("$" ++ base ++ "_" ++ toString gen.labelCounter,
         { gen with labelCounter := gen.labelCounter + 1 }) ∧
      genIfjTemplate "strcmp" [a, b] endLabel cg = Except.ok (genIfjStrcmp a b endLabel cg) ∧
      genIfjTemplate "ord" [a, b] endLabel cg = Except.ok (genIfjOrd a b endLabel cg) ∧
      genIfjTemplate "substring" [a, b, c] endLabel cg =
        Except.ok (genIfjSubstring a b c endLabel cg) ∧
      labelLines (genIfjStrcmp a b endLabel cg).1 =
        ["LABEL " ++ endLabel, "LABEL " ++ endLabel,
         "LABEL " ++ ("$strcmp_lt_" ++ toString cg.labelCounter),
         "LABEL " ++ ("$strcmp_eq_" ++ toString (cg.labelCounter + 1)),
         "LABEL " ++ ("$strcmp_done_" ++ toString (cg.labelCounter + 2))] ∧
      labelLines (genIfjOrd a b endLabel cg).1 =
        ["LABEL " ++ endLabel, "LABEL " ++ endLabel,
         "LABEL " ++ ("$ord_zero_" ++ toString cg.labelCounter),
         "LABEL " ++ ("$ord_do_" ++ toString (cg.labelCounter + 1))] ∧
      labelLines (genIfjSubstring a b c endLabel cg).1 =
        ["LABEL " ++ endLabel, "LABEL " ++ endLabel, "LABEL " ++ endLabel,
         "LABEL " ++ ("$substr_loop_" ++ toString (cg.labelCounter + 2)),
         "LABEL " ++ ("$substr_end_" ++ toString (cg.labelCounter + 3))] ∧
      ¬ (labelLines (genIfjStrcmp a b endLabel cg).1).Nodup ∧
      ¬ (labelLines (genIfjOrd a b endLabel cg).1).Nodup ∧
      ¬ (labelLines (genIfjSubstring a b c endLabel cg).1).Nodup ∧
      (compile runFuel strcmpProgram.data).map (fun out => out.count "LABEL $ifj_ok_1") =
        Except.ok 2 ∧
      (compile runFuel ordProgram.data).map (fun out => out.count "LABEL $ifj_ok_1") =
        Except.ok 2 ∧
      (compile runFuel substringProgram.data).map (fun out => out.count "LABEL $ifj_ok_1") =
        Except.ok 3 := by
  have h1 : labelLines (genIfjStrcmp a b endLabel cg).1 =
      ["LABEL " ++ endLabel, "LABEL " ++ endLabel,
       "LABEL " ++ ("$strcmp_lt_" ++ toString cg.labelCounter),
       "LABEL " ++ ("$strcmp_eq_" ++ toString (cg.labelCounter + 1)),
       "LABEL " ++ ("$strcmp_done_" ++ toString (cg.labelCounter + 2))] := rfl
  have h2 : labelLines (genIfjOrd a b endLabel cg).1 =
      ["LABEL " ++ endLabel, "LABEL " ++ endLabel,
       "LABEL " ++ ("$ord_zero_" ++ toString cg.labelCounter),
       "LABEL " ++ ("$ord_do_" ++ toString (cg.labelCounter + 1))] := rfl
  have h3 : labelLines (genIfjSubstring a b c endLabel cg).1 =
      ["LABEL " ++ endLabel, "LABEL " ++ endLabel, "LABEL " ++ endLabel,
       "LABEL " ++ ("$substr_loop_" ++ toString (cg.labelCounter + 2)),
       "LABEL " ++ ("$substr_end_" ++ toString (cg.labelCounter + 3))] := rfl
  refine ⟨rfl, rfl, rfl, rfl, h1, h2, h3, ?_, ?_, ?_, by decide!, by decide!, by decide!⟩
  · rw [h1]
    exact fun h => (List.nodup_cons.mp h).1 (List.mem_cons_self _ _)
  · rw [h2]
    exact fun h => (List.nodup_cons.mp h).1 (List.mem_cons_self _ _)
  · rw [h3]
    exact fun h => (List.nodup_cons.mp h).1 (List.mem_cons_self _ _)

/-! ## Variables of nested blocks -/

/-- Claim C35 fails on the code: `genVarDec` names the variable `LF@name$depth` with the
field `frameDepth`, which only `genFunDec`, `genFunGet` and `genFunSet` change, and the
code of a block is the code of its statements in the same state.  So a declaration in a
nested block gives the same two lines as the declaration outside of it, and the code of
the program that declares `x` in the body of `main` and again in a block inside it, which
the parser accepts, has the line `DEFVAR LF@x$1` twice. -/
theorem nested_block_same_variable (fuel id blockId : Nat) (tok blockTok : Token)
    (name : String) (cg : CodeGenerator) (ht : tok.type = TokenType.IDENTIFIER)
    (hn : tokenString tok = Except.ok name) :
    genNode (fuel + 1) (AstNode.leaf id AstNodeType.AST_VAR_DEC tok) cg =
        Except.ok (["DEFVAR " ++ lfVar name cg.frameDepth,
                    "MOVE " ++ lfVar name cg.frameDepth ++ " nil@nil"], cg) ∧
      genNode (fuel + 2)
          (AstNode.list blockId AstNodeType.AST_BLOCK blockTok
            [AstNode.leaf id AstNodeType.AST_VAR_DEC tok]) cg =
        Except.ok (["DEFVAR " ++ lfVar name cg.frameDepth,
                    "MOVE " ++ lfVar name cg.frameDepth ++ " nil@nil"], cg) ∧
      (compile runFuel shadowProgram.data).map (fun out => out.count "DEFVAR LF@x$1") =
        Except.ok 2 := by
  have hdec : ∀ f, genNode (f + 1) (AstNode.leaf id AstNodeType.AST_VAR_DEC tok) cg =
      Except.ok (["DEFVAR " ++ lfVar name cg.frameDepth,
                  "MOVE " ++ lfVar name cg.frameDepth ++ " nil@nil"], cg) := by
    intro f
    have hg : genVarDec (AstNode.leaf id AstNodeType.AST_VAR_DEC tok) cg =
        Except.ok ["DEFVAR " ++ lfVar name cg.frameDepth,
                   "MOVE " ++ lfVar name cg.frameDepth ++ " nil@nil"] := by
      unfold genVarDec
      simp only [AstNode.token, ht, reduceCtorEq, if_false, if_true, hn]
      rfl
    rw [genNode]
    simp only [AstNode.type, hg]
  refine ⟨hdec fuel, ?_, by decide!⟩
  rw [genNode]
  simp only [AstNode.type, genNodeChildren, genChildrenList]
  exact hdec fuel

/-- The theorem `nested_block_same_variable` on the variable `x` at the depth 1 of the
body of a function. -/
theorem nested_block_same_variable_witness :
    genNode 2 (AstNode.list 1 AstNodeType.AST_BLOCK Token.zero
        [AstNode.leaf 0 AstNodeType.AST_VAR_DEC tokenX])
        { codeGeneratorInit builtinStack with frameDepth := 1 } =
      Except.ok (["DEFVAR LF@x$1", "MOVE LF@x$1 nil@nil"],
        { codeGeneratorInit builtinStack with frameDepth := 1 }) :=
  (nested_block_same_variable 0 0 1 tokenX Token.zero "x"
    { codeGeneratorInit builtinStack with frameDepth := 1 } rfl rfl).2.1

/-! ## The code of `&&` -/

/-- Claim C32: for a node of `&&` with the operands `l` and `r`, `genOperator` emits the
code of `l`, then `DEFVAR` and `POPS` of a new temporary, a `JUMPIFEQ` to the label
`$and_false_` that compares the temporary with `bool@false`, a `JUMPIFEQ` to the same
label that compares it with `nil@nil`, the code of `r`, a `JUMP` to the label
`$and_end_`, the line `LABEL` of `$and_false_`, `PUSHS bool@false` and the line `LABEL` of
`$and_end_`.  The lines up to the second conditional jump are the code of `l` and these
four lines: no line of `r` is among them. -/
theorem logical_and_code (rec : Gen) (id : Nat) (ty : AstNodeType) (tok : Token)
    (l r : AstNode) (cg cgL cgR : CodeGenerator) (outL outR : List String)
    (htok : tok.type = TokenType.LOGICAL_AND)
    (hl : rec l { cg with labelCounter := cg.labelCounter + 2 } = Except.ok (outL, cgL))
    (hr : rec r { cgL with tempVarCounter := cgL.tempVarCounter + 1 } =
      Except.ok (outR, cgR)) :
    genOperator rec (AstNode.bin id ty tok (some l) (some r)) cg =
        Except.ok (outL ++
          ["DEFVAR " ++ lfVar ("$$tmp_" ++ toString cgL.tempVarCounter) cgL.frameDepth,
           "POPS " ++ lfVar ("$$tmp_" ++ toString cgL.tempVarCounter) cgL.frameDepth,
           "JUMPIFEQ " ++ ("$and_false_" ++ toString (cg.labelCounter + 1)) ++ " " ++
             lfVar ("$$tmp_" ++ toString cgL.tempVarCounter) cgL.frameDepth ++ " bool@false",
           "JUMPIFEQ " ++ ("$and_false_" ++ toString (cg.labelCounter + 1)) ++ " " ++
             lfVar ("$$tmp_" ++ toString cgL.tempVarCounter) cgL.frameDepth ++ " nil@nil"] ++
          outR ++
          ["JUMP " ++ ("$and_end_" ++ toString cg.labelCounter),
           "LABEL " ++ ("$and_false_" ++ toString (cg.labelCounter + 1)),
           "PUSHS bool@false",
           "LABEL " ++ ("$and_end_" ++ toString cg.labelCounter)], cgR) ∧
      ∀ out cg2, genOperator rec (AstNode.bin id ty tok (some l) (some r)) cg =
          Except.ok (out, cg2) →
        out.take (outL.length + 4) = outL ++
          ["DEFVAR " ++ lfVar ("$$tmp_" ++ toString cgL.tempVarCounter) cgL.frameDepth,
           "POPS " ++ lfVar ("$$tmp_" ++ toString cgL.tempVarCounter) cgL.frameDepth,
           "JUMPIFEQ " ++ ("$and_false_" ++ toString (cg.labelCounter + 1)) ++ " " ++
             lfVar ("$$tmp_" ++ toString cgL.tempVarCounter) cgL.frameDepth ++ " bool@false",
           "JUMPIFEQ " ++ ("$and_false_" ++ toString (cg.labelCounter + 1)) ++ " " ++
             lfVar ("$$tmp_" ++ toString cgL.tempVarCounter) cgL.frameDepth ++ " nil@nil"] ∧
        out.drop (outL.length + 4) = outR ++
          ["JUMP " ++ ("$and_end_" ++ toString cg.labelCounter),
           "LABEL " ++ ("$and_false_" ++ toString (cg.labelCounter + 1)),
           "PUSHS bool@false",
           "LABEL " ++ ("$and_end_" ++ toString cg.labelCounter)] := by
  have hgen : genOperator rec (AstNode.bin id ty tok (some l) (some r)) cg =
        Except.ok (outL ++
          ["DEFVAR " ++ lfVar ("$$tmp_" ++ toString cgL.tempVarCounter) cgL.frameDepth,
           "POPS " ++ lfVar ("$$tmp_" ++ toString cgL.tempVarCounter) cgL.frameDepth,
           "JUMPIFEQ " ++ ("$and_false_" ++ toString (cg.labelCounter + 1)) ++ " " ++
             lfVar ("$$tmp_" ++ toString cgL.tempVarCounter) cgL.frameDepth ++ " bool@false",
           "JUMPIFEQ " ++ ("$and_false_" ++ toString (cg.labelCounter + 1)) ++ " " ++
             lfVar ("$$tmp_" ++ toString cgL.tempVarCounter) cgL.frameDepth ++ " nil@nil"] ++
          outR ++
          ["JUMP " ++ ("$and_end_" ++ toString cg.labelCounter),
           "LABEL " ++ ("$and_false_" ++ toString (cg.labelCounter + 1)),
           "PUSHS bool@false",
           "LABEL " ++ ("$and_end_" ++ toString cg.labelCounter)], cgR) := by
    unfold genOperator
    simp only [htok, if_true]
    unfold genLogicalAnd
    simp only [genUniqueLabel, genChild, genTempVar, bind, Except.bind, hl, hr]
    rfl
  refine ⟨hgen, fun out cg2 h => ?_⟩
  rw [hgen] at h
  injection h with h
  injection h with h1 h2
  subst h1
  constructor
  · rw [List.append_assoc, List.append_assoc, ← List.append_assoc outL, List.take_left']
    simp
  · rw [List.append_assoc, List.append_assoc, ← List.append_assoc outL, List.drop_left']
    simp

/-- The theorem `logical_and_code` on the node of `1 && 2` with `genNode` for the
operands. -/
theorem logical_and_code_witness :
    genOperator (genNode 1)
        (AstNode.bin 0 AstNodeType.AST_EXPRESSION (operatorToken TokenType.LOGICAL_AND)
          (some (AstNode.leaf 1 AstNodeType.AST_LITERAL (intToken 1)))
          (some (AstNode.leaf 2 AstNodeType.AST_LITERAL (intToken 2))))
        (codeGeneratorInit builtinStack) =
      Except.ok (["PUSHS int@1", "DEFVAR LF@$$tmp_0$0", "POPS LF@$$tmp_0$0",
        "JUMPIFEQ $and_false_1 LF@$$tmp_0$0 bool@false",
        "JUMPIFEQ $and_false_1 LF@$$tmp_0$0 nil@nil", "PUSHS int@2", "JUMP $and_end_0",
        "LABEL $and_false_1", "PUSHS bool@false", "LABEL $and_end_0"],
        { codeGeneratorInit builtinStack with labelCounter := 2, tempVarCounter := 1 }) :=
  (logical_and_code (genNode 1) 0 AstNodeType.AST_EXPRESSION
    (operatorToken TokenType.LOGICAL_AND)
    (AstNode.leaf 1 AstNodeType.AST_LITERAL (intToken 1))
    (AstNode.leaf 2 AstNodeType.AST_LITERAL (intToken 2))
    (codeGeneratorInit builtinStack)
    { codeGeneratorInit builtinStack with labelCounter := 2 }
    { codeGeneratorInit builtinStack with labelCounter := 2, tempVarCounter := 1 }
    ["PUSHS int@1"] ["PUSHS int@2"] rfl rfl rfl).1

/-! ## Runs of `parseExp` that leave the table or the stack -/

/-- The second loop of `parseExp` on a stack of two or more nodes without an operator. -/
theorem parseExpDrain_no_operator (fuel : Nat) (stack : AstStack) (h : 1 < stack.length)
    (hop : astStackNextOp stack = none) :
    parseExpDrain (fuel + 1) stack = Except.error Err.undefinedBehaviour := by
  rw [parseExpDrain, if_neg (by omega), hop]

/-- Claim C38 fails on the code.  For two atoms `a b` in a row before the end of the line
the table is read at the row of `$` both times, both atoms are shifted, and the second
loop of `parseExp` finds no operator on the stack of two nodes: it reads the token of the
null pointer that `astStackNextOp` returns, which is undefined behaviour, and no syntax
error is reported.  For a current token that `getPrecedenceSymbol` maps to
`NUM_PRECEDENCE`, 13, and that does not end the loop, the table is read at the column 13,
outside of it. -/
theorem adjacent_atoms_null_operator (fuel : Nat) (p : Parser) (h : TwoAtoms p) :
    (∃ q, parseExpLoop (fuel + 3) p [] 0 =
        Except.ok (q, [atomLeaf (p.nodeTypes.length + 1) (tokenAt 0 p.scanner),
          atomLeaf p.nodeTypes.length p.current], 0)) ∧
      astStackNextOp [atomLeaf (p.nodeTypes.length + 1) (tokenAt 0 p.scanner),
        atomLeaf p.nodeTypes.length p.current] = none ∧
      parseExp (fuel + 3) p = Except.error Err.undefinedBehaviour ∧
      (∀ (f : Nat) (q : Parser) (stack : AstStack) (pc : Nat),
        getPrecedenceSymbol q.current.type = NUM_PRECEDENCE →
        q.current.type ≠ TokenType.LCURLY →
          parseExpLoop (f + 1) q stack pc = Except.error Err.undefinedBehaviour) := by
  obtain ⟨ha, hb, he, hcode⟩ := h
  obtain ⟨tb0, _, _⟩ := table_binary
  have la := fun n => atomLeaf_type _ n _ ha
  have lb := fun n => atomLeaf_type _ n _ hb
  obtain ⟨q1, hs1, e1⟩ := shift_atom (fuel + 2) p p 0 p.nodeTypes.length 0 p.current []
    (expState_start p) ha (by rw [stackIndex_nil]; exact tb0) (slots_bound _ (by simp))
    (hcode 0 (by omega))
  obtain ⟨q2, hs2, e2⟩ := shift_atom (fuel + 1) p q1 1 (p.nodeTypes.length + 1) 0
    (tokenAt 0 p.scanner) [atomLeaf p.nodeTypes.length p.current] hs1 hb
    (by rw [stackIndex_skip _ _ (la _), stackIndex_nil]; exact tb0)
    (slots_bound _ (by simp)) (hcode 1 (by omega))
  have e3 := parseExpLoop_eol fuel q2
    [atomLeaf (p.nodeTypes.length + 1) (tokenAt 0 p.scanner),
      atomLeaf p.nodeTypes.length p.current] 0 (by rw [hs2.2.1]; exact he)
  have hloop : parseExpLoop (fuel + 3) p [] 0 =
      Except.ok (q2, [atomLeaf (p.nodeTypes.length + 1) (tokenAt 0 p.scanner),
        atomLeaf p.nodeTypes.length p.current], 0) := by
    rw [e1, e2, e3]
  have hnone : astStackNextOp [atomLeaf (p.nodeTypes.length + 1) (tokenAt 0 p.scanner),
      atomLeaf p.nodeTypes.length p.current] = none := by
    rw [astStackNextOp, if_neg (lb _), astStackNextOp, if_neg (la _), astStackNextOp]
  refine ⟨⟨q2, hloop⟩, hnone, ?_, ?_⟩
  · simp only [parseExp, hloop, ok_bind]
    rw [parseExpDrain_no_operator _ _ (by simp) hnone]
    rfl
  · intro f q stack pc hsym hcur
    have h2 : q.current.type ≠ TokenType.EOL := by
      intro hx; rw [hx] at hsym; revert hsym; decide
    have h3 : q.current.type ≠ TokenType.RPAR := by
      intro hx; rw [hx] at hsym; revert hsym; decide
    have h4 : q.current.type ≠ TokenType.LPAR := by
      intro hx; rw [hx] at hsym; revert hsym; decide
    have h5 : q.current.type ≠ TokenType.KW_IS := by
      intro hx; rw [hx] at hsym; revert hsym; decide
    refine parseExpLoop_table_error f q stack pc _ hcur h2 h3 h4 h5 ?_
    rw [hsym]
    unfold tableAction
    have hrow : ∀ row, PRECEDENCE_TABLE.get? row = none ∨
        ∃ r, PRECEDENCE_TABLE.get? row = some r ∧ r.get? NUM_PRECEDENCE = none := by
      intro row
      by_cases hr : row < 13
      · right
        interval_cases row <;> exact ⟨_, rfl, rfl⟩
      · left
        exact List.get?_eq_none.mpr (by simp only [PRECEDENCE_TABLE, List.length_cons, List.length_nil]; omega)
    rcases hrow (stackIndex stack) with h0 | ⟨r, h0, h1⟩
    · rw [h0]
    · rw [h0]
      simp only [h1]

set_option maxRecDepth 100000 in
/-- The theorem `adjacent_atoms_null_operator` on the expression `1 2`, with the program
that assigns it, and on an expression that starts with a comma. -/
theorem adjacent_atoms_null_operator_witness :
    parseExp runFuel (expressionParser "1 2\n") = Except.error Err.undefinedBehaviour ∧
      compile runFuel adjacentAtomsProgram.data = Except.error Err.undefinedBehaviour ∧
      parseExpLoop 1 (expressionParser ", 1\n") [] 0 =
        Except.error Err.undefinedBehaviour :=
  ⟨(adjacent_atoms_null_operator 97 (expressionParser "1 2\n")
      ⟨by decide!, by decide!, by decide!, by decide!⟩).2.2.1,
   by decide!,
   (adjacent_atoms_null_operator 97 (expressionParser "1 2\n")
      ⟨by decide!, by decide!, by decide!, by decide!⟩).2.2.2 0
        (expressionParser ", 1\n") [] 0 (by decide!) (by decide!)⟩

/-! ## The end of an assignment -/

/-- The loop of `parseExp` at `)` outside of parentheses and at `\x7b`. -/
theorem parseExpLoop_stray (fuel : Nat) (p : Parser) (stack : AstStack)
    (h : p.current.type = TokenType.RPAR ∨ p.current.type = TokenType.LCURLY) :
    parseExpLoop (fuel + 1) p stack 0 = Except.ok (p, stack, 0) := by
  rw [parseExpLoop]
  rcases h with h | h <;> simp [h]

/-- Claim C37 fails on the code: `parseExp` ends at a `)` outside of parentheses and at a
`\x7b` as it does at the end of the line, and returns the expression with that token as
the current one; `parseVarAssign` does not look at the token, and `parseStList` goes on
with the token after it.  So the program with the line `x = 1 ) x = 2` and the one with
the line `x = 1 \x7b x = 2` are compiled, with the code of both assignments.  When the end
of the line follows the `)`, and after a declaration `var x`, whose token after the name
`parseVarDec` does check, the syntax error 2 is reported. -/
theorem assignment_end_not_checked (fuel : Nat) (p : Parser) (h : AtomThenStray p) :
    (∃ q, parseExp (fuel + 2) p =
        Except.ok (some (atomLeaf p.nodeTypes.length p.current), q) ∧
      q.current = tokenAt 0 p.scanner) ∧
      (compile runFuel strayParenProgram.data).map bodyLines =
        Except.ok ["", "", "DEFVAR LF@x$1", "MOVE LF@x$1 nil@nil", "PUSHS int@1",
          "POPS LF@x$1", "", "PUSHS int@2", "POPS LF@x$1", "", "PUSHS nil@nil"] ∧
      (compile runFuel strayBraceProgram.data).map bodyLines =
        Except.ok ["", "", "DEFVAR LF@x$1", "MOVE LF@x$1 nil@nil", "PUSHS int@1",
          "POPS LF@x$1", "", "PUSHS int@2", "POPS LF@x$1", "", "PUSHS nil@nil"] ∧
      compile runFuel strayParenLineProgram.data = Except.error (Err.exit SYNTAX_ERROR) ∧
      compile runFuel strayParenDeclarationProgram.data =
        Except.error (Err.exit SYNTAX_ERROR) := by
  obtain ⟨ha, hstray, hcode⟩ := h
  obtain ⟨tb0, _, _⟩ := table_binary
  obtain ⟨q1, hs1, e1⟩ := shift_atom (fuel + 1) p p 0 p.nodeTypes.length 0 p.current []
    (expState_start p) ha (by rw [stackIndex_nil]; exact tb0) (slots_bound _ (by simp)) hcode
  have e2 := parseExpLoop_stray fuel q1 [atomLeaf p.nodeTypes.length p.current]
    (by rw [hs1.2.1]; exact hstray)
  have hloop : parseExpLoop (fuel + 2) p [] 0 =
      Except.ok (q1, [atomLeaf p.nodeTypes.length p.current], 0) := by
    rw [e1, e2]
  refine ⟨⟨q1, ?_, hs1.2.1⟩, by decide!, by decide!, by decide!, by decide!⟩
  exact parseExp_of_loop _ _ _ _ _ hloop (parseExpDrain_single _ _)

set_option maxRecDepth 100000 in
/-- The theorem `assignment_end_not_checked` on the expression `1` followed by `)`. -/
theorem assignment_end_not_checked_witness :
    ∃ q, parseExp runFuel (expressionParser "1 ) x = 2\n") =
        Except.ok (some (atomLeaf 0 (expressionParser "1 ) x = 2\n").current), q) ∧
      q.current = tokenAt 0 (expressionParser "1 ) x = 2\n").scanner :=
  (assignment_end_not_checked 98 (expressionParser "1 ) x = 2\n")
    ⟨by decide!, Or.inl (by decide!), by decide!⟩).1

/-! ## The look ahead of the scanner -/

/-- A list starts itself. -/
theorem starts_self (a : List Token) : a <+: a := ⟨[], List.append_nil a⟩

/-- The empty list starts every list. -/
theorem starts_nil (a : List Token) : [] <+: a := ⟨a, rfl⟩

/-- A token before both lists. -/
theorem starts_cons (t : Token) (a b : List Token) (h : a <+: b) : (t :: a) <+: (t :: b) := by
  obtain ⟨r, hr⟩ := h
  exact ⟨r, by rw [List.cons_append, hr]⟩

/-- A choice between two results that keep the buffer. -/
theorem keepsLook_ite (sc : Scanner) (c : Prop) [Decidable c] (a b : Nat × Token × Scanner)
    (ha : c → KeepsLook sc a) (hb : ¬c → KeepsLook sc b) :
    KeepsLook sc (if c then a else b) := by
  split
  · exact ha (by assumption)
  · exact hb (by assumption)

/-- The function `twoCharToken` keeps the buffer. -/
theorem twoCharToken_look (sc : Scanner) (token : Token) (c : Char) (two one : TokenType) :
    KeepsLook sc (twoCharToken sc token c two one) := by
  unfold twoCharToken
  split
  · rfl
  · split
    · rfl
    · rfl

/-- The function `processToken` keeps the buffer. -/
theorem processToken_look (c : Char) (sc : Scanner) (token : Token) :
    KeepsLook sc (processToken c sc token) := by
  unfold processToken
  repeat' (first | (apply keepsLook_ite <;> intro _) | split)
  all_goals first
    | exact twoCharToken_look _ _ _ _ _
    | rfl

/-- The loop of `getRawToken` keeps the buffer. -/
theorem getRawTokenLoop_look :
    ∀ (fuel : Nat) (sc : Scanner) (token : Token),
      KeepsLook sc (getRawTokenLoop fuel sc token) := by
  intro fuel
  induction fuel with
  | zero => intro sc token; rfl
  | succ fuel ih =>
    intro sc token
    unfold getRawTokenLoop
    repeat' (first
      | exact ih _ _
      | exact processToken_look _ _ _
      | (apply keepsLook_ite <;> intro _)
      | split)
    all_goals rfl

/-- A call of `getNextToken` without a token in the buffer that returns 0: no token is
in the buffer afterwards, the buffer is as it was, and the flag `lastWasEOL` says whether
the token returned is `EOL`. -/
theorem getNextTokenFuel_fresh :
    ∀ (fuel : Nat) (sc : Scanner), sc.isLookingAhead = false →
      (getNextTokenFuel fuel sc).1 = 0 →
      (getNextTokenFuel fuel sc).2.2.isLookingAhead = false ∧
        (getNextTokenFuel fuel sc).2.2.lookAheadToken = sc.lookAheadToken ∧
        (getNextTokenFuel fuel sc).2.2.lastWasEOL =
          ((getNextTokenFuel fuel sc).2.1.type == TokenType.EOL) := by
  intro fuel
  induction fuel with
  | zero =>
    intro sc _ h0
    simp [getNextTokenFuel] at h0
  | succ fuel ih =>
    intro sc hla
    unfold getNextTokenFuel
    rw [if_neg (by rw [hla]; exact Bool.false_ne_true)]
    have hraw := getRawTokenLoop_flag (sc.source.length + 1) sc
      { Token.zero with line := sc.line }
    have hlook := getRawTokenLoop_look (sc.source.length + 1) sc
      { Token.zero with line := sc.line }
    unfold getRawToken
    obtain ⟨hf1, hf2⟩ := hraw
    unfold KeepsLook at hlook
    generalize getRawTokenLoop (sc.source.length + 1) sc { Token.zero with line := sc.line }
      = res at hf1 hf2 hlook
    obtain ⟨r, token, sc1⟩ := res
    simp only at hf1 hf2 hlook ⊢
    by_cases hr : (r != 0) = true
    · rw [if_pos hr]
      intro h0
      simp only at h0
      simp [h0] at hr
    · rw [if_neg hr]
      by_cases he : (token.type == TokenType.EOL) = true
      · rw [if_pos he]
        by_cases hl : sc1.lastWasEOL = true
        · rw [if_pos hl]
          intro h0
          obtain ⟨i1, i2, i3⟩ := ih sc1 (by rw [hf2, hla]) h0
          exact ⟨i1, by rw [i2, hlook], i3⟩
        · rw [if_neg hl]
          intro _
          exact ⟨by simp only; rw [hf2, hla], hlook, by simp only; rw [he]⟩
      · rw [if_neg he]
        intro _
        have he2 : (token.type == TokenType.EOL) = false := by simpa using he
        exact ⟨by simp only; rw [hf2, hla], hlook, by simp only; rw [he2]⟩

/-- A call of `getNextToken` in the state without a token in the buffer that returns 0
leaves the scanner in such a state, with the flag of the token returned. -/
theorem getNextToken_noLook (sc : Scanner) (h : NoLook sc) (h0 : (getNextToken sc).1 = 0) :
    NoLook (getNextToken sc).2.2 ∧
      (getNextToken sc).2.2.lastWasEOL = ((getNextToken sc).2.1.type == TokenType.EOL) := by
  obtain ⟨i1, i2, i3⟩ := getNextTokenFuel_fresh (sc.source.length + 2) sc h.1 h0
  exact ⟨⟨i1, by rw [getNextToken, i2, h.2]⟩, i3⟩

/-- A call of `getNextToken` with a token in the buffer. -/
theorem getNextToken_buffered (sc : Scanner) (h : sc.isLookingAhead = true) :
    getNextToken sc =
      (0, sc.lookAheadToken,
       { sc with isLookingAhead := false, lookAheadToken := Token.zero,
                 lastWasEOL := sc.lookAheadToken.type == TokenType.EOL }) := by
  unfold getNextToken
  rw [getNextTokenFuel, if_pos h]

/-- A call of `lookAhead` with a token in the buffer. -/
theorem lookAhead_buffered (sc : Scanner) (h : sc.isLookingAhead = true) :
    lookAhead sc = (0, sc.lookAheadToken, sc) := by
  unfold lookAhead
  rw [if_pos h]

/-- A call of `lookAhead` without a token in the buffer, when `getNextToken` returns 0. -/
theorem lookAhead_fresh (sc : Scanner) (h : sc.isLookingAhead = false)
    (h0 : (getNextToken sc).1 = 0) :
    lookAhead sc =
      (0, (getNextToken sc).2.1,
       { (getNextToken sc).2.2 with
           lookAheadToken := (getNextToken sc).2.1, isLookingAhead := true }) := by
  unfold lookAhead
  rw [if_neg (by rw [h]; exact Bool.false_ne_true)]
  generalize getNextToken sc = res at h0
  obtain ⟨r, token, sc1⟩ := res
  simp only at h0 ⊢
  subst h0
  rfl

/-- A call of `lookAhead` without a token in the buffer, when `getNextToken` reports an
error. -/
theorem lookAhead_error (sc : Scanner) (h : sc.isLookingAhead = false)
    (h0 : (getNextToken sc).1 ≠ 0) : (lookAhead sc).1 ≠ 0 := by
  unfold lookAhead
  rw [if_neg (by rw [h]; exact Bool.false_ne_true)]
  generalize getNextToken sc = res at h0
  obtain ⟨r, token, sc1⟩ := res
  simp only at h0 ⊢
  have hr : (r != 0) = true := by simpa using h0
  rw [if_pos hr]
  exact h0

/-- The calls of a sequence from two scanners in the relation: the tokens of the run with
the calls of `lookAhead` start the tokens of the run without them, and the runs give the
same when no call of the first reports an error. -/
theorem scanCalls_lookRel :
    ∀ (calls : List ScanCall) (w s : Scanner), LookRel w s →
      (scanCalls calls w).1 <+: (scanCalls (nextCalls calls) s).1 ∧
        ((scanCalls calls w).2 = true → scanCalls calls w = scanCalls (nextCalls calls) s) := by
  intro calls
  induction calls with
  | nil =>
    intro w s _
    exact ⟨starts_self _, fun _ => rfl⟩
  | cons c rest ih =>
    intro w s hrel
    obtain ⟨hno, hcase⟩ := hrel
    cases c with
    | next =>
      have hfilter : nextCalls (ScanCall.next :: rest) = ScanCall.next :: nextCalls rest := by
        simp [nextCalls]
      rw [hfilter]
      rcases hcase with rfl | ⟨h0, hw⟩
      · by_cases hr : (getNextToken w).1 = 0
        · obtain ⟨hno1, _⟩ := getNextToken_noLook w hno hr
          have hb : ((getNextToken w).1 != 0) = false := by simp [hr]
          obtain ⟨i1, i2⟩ := ih (getNextToken w).2.2 (getNextToken w).2.2 ⟨hno1, Or.inl rfl⟩
          simp only [scanCalls, hb, Bool.false_eq_true, if_false]
          refine ⟨starts_cons _ _ _ i1, fun h => ?_⟩
          rw [i2 h]
        · have hb : ((getNextToken w).1 != 0) = true := by simpa using hr
          simp only [scanCalls, hb, if_true]
          exact ⟨starts_self _, fun h => by cases h⟩
      · obtain ⟨hno1, hflag⟩ := getNextToken_noLook s hno h0
        have hw1 : getNextToken w = (0, (getNextToken s).2.1, (getNextToken s).2.2) := by
          rw [getNextToken_buffered w (by rw [hw])]
          rw [hw]
          simp only
          refine Prod.ext rfl (Prod.ext rfl ?_)
          simp only
          obtain ⟨k1, k2⟩ := hno1
          generalize (getNextToken s).2.1 = t at hflag ⊢
          generalize (getNextToken s).2.2 = s1 at hflag k1 k2 ⊢
          cases s1
          simp only at hflag k1 k2 ⊢
          subst hflag k1 k2
          rfl
        have hb : ((getNextToken s).1 != 0) = false := by simp [h0]
        obtain ⟨i1, i2⟩ := ih (getNextToken s).2.2 (getNextToken s).2.2 ⟨hno1, Or.inl rfl⟩
        simp only [scanCalls, hw1, hb, bne_self_eq_false, Bool.false_eq_true, if_false]
        refine ⟨starts_cons _ _ _ i1, fun h => ?_⟩
        rw [i2 h]
    | peek =>
      have hfilter : nextCalls (ScanCall.peek :: rest) = nextCalls rest := by
        simp [nextCalls]
      rw [hfilter]
      rcases hcase with rfl | ⟨h0, hw⟩
      · by_cases hr : (getNextToken w).1 = 0
        · have hl := lookAhead_fresh w hno.1 hr
          have hb : ((lookAhead w).1 != 0) = false := by rw [hl]; rfl
          simp only [scanCalls, hb, Bool.false_eq_true, if_false]
          rw [hl]
          exact ih _ w ⟨hno, Or.inr ⟨hr, rfl⟩⟩
        · have hl := lookAhead_error w hno.1 hr
          have hb : ((lookAhead w).1 != 0) = true := by simpa using hl
          simp only [scanCalls, hb, if_true]
          exact ⟨starts_nil _, fun h => by cases h⟩
      · have hl := lookAhead_buffered w (by rw [hw])
        have hb : ((lookAhead w).1 != 0) = false := by rw [hl]; rfl
        simp only [scanCalls, hb, Bool.false_eq_true, if_false]
        rw [hl]
        exact ih w s ⟨hno, Or.inr ⟨h0, hw⟩⟩

/-- Claim C36, amended: after a call of `lookAhead` that returns 0, the next call of
`getNextToken` returns 0 with the same token, and a further call of `lookAhead` returns
the same token and leaves the scanner as it is.  For every input and every sequence of
calls of `getNextToken` and `lookAhead` from the start of the input, the tokens that the
calls of `getNextToken` return up to the first call that reports an error are the first
tokens that the calls of `getNextToken` return without the calls of `lookAhead`, and when
no call reports an error they are the same tokens. -/
theorem lookAhead_keeps_stream (sc : Scanner) (src : List Char) (calls : List ScanCall) :
    ((lookAhead sc).1 = 0 →
        (getNextToken (lookAhead sc).2.2).1 = 0 ∧
          (getNextToken (lookAhead sc).2.2).2.1 = (lookAhead sc).2.1 ∧
          lookAhead (lookAhead sc).2.2 = (0, (lookAhead sc).2.1, (lookAhead sc).2.2)) ∧
      (scanCalls calls (initScanner src)).1 <+:
        (scanCalls (nextCalls calls) (initScanner src)).1 ∧
      ((scanCalls calls (initScanner src)).2 = true →
        scanCalls calls (initScanner src) = scanCalls (nextCalls calls) (initScanner src)) := by
  refine ⟨fun h0 => ?_, scanCalls_lookRel calls (initScanner src) (initScanner src)
    ⟨⟨rfl, rfl⟩, Or.inl rfl⟩⟩
  rcases lookAhead_synced sc with h1 | h1 | ⟨h1, h2⟩
  · rw [h0] at h1
    cases h1
  · rw [h0] at h1
    cases h1
  · rw [getNextToken_buffered _ h1, lookAhead_buffered _ h1, h2]
    exact ⟨rfl, rfl, rfl⟩

/-- The theorem `lookAhead_keeps_stream` on the input `a = 1`: the token looked ahead is
the identifier that `getNextToken` returns next, and three calls of `getNextToken` with
calls of `lookAhead` before and between them return the tokens of three calls alone. -/
theorem lookAhead_keeps_stream_witness :
    (lookAhead (initScanner "a = 1\n".data)).2.1.type = TokenType.IDENTIFIER ∧
      (getNextToken (lookAhead (initScanner "a = 1\n".data)).2.2).2.1 =
        (lookAhead (initScanner "a = 1\n".data)).2.1 ∧
      scanCalls [ScanCall.peek, ScanCall.next, ScanCall.peek, ScanCall.peek, ScanCall.next,
          ScanCall.next] (initScanner "a = 1\n".data) =
        scanCalls [ScanCall.next, ScanCall.next, ScanCall.next]
          (initScanner "a = 1\n".data) :=
  ⟨by decide,
   ((lookAhead_keeps_stream (initScanner "a = 1\n".data) [] []).1 (by decide)).2.1,
   (lookAhead_keeps_stream (initScanner "a = 1\n".data) "a = 1\n".data
      [ScanCall.peek, ScanCall.next, ScanCall.peek, ScanCall.peek, ScanCall.next,
        ScanCall.next]).2.2 (by decide)⟩

/-- Claim C36 as it is worded fails on the input `& a`: the call of `lookAhead` reads
`&` and the space and reports a lexical error, and the two calls of `getNextToken` after
it return the identifier and `EOL`; without the call of `lookAhead` the first call of
`getNextToken` reports the error and the second returns the identifier.  So the tokens
that the calls of `getNextToken` return differ. -/
theorem peek_at_error_changes_stream :
    (lookAhead (initScanner "& a\n".data)).1 = 1 ∧
      (getNextToken (initScanner "& a\n".data)).1 = 1 ∧
      (returnedTokens [ScanCall.peek, ScanCall.next, ScanCall.next]
          (initScanner "& a\n".data)).map (fun t => t.type) =
        [TokenType.IDENTIFIER, TokenType.EOL] ∧
      (returnedTokens (nextCalls [ScanCall.peek, ScanCall.next, ScanCall.next])
          (initScanner "& a\n".data)).map (fun t => t.type) = [TokenType.IDENTIFIER] := by
  decide

/-! ## The flow of control in the code of `||` -/

/-- A decimal digit is no space. -/
theorem digitChar_ne_space (n : Nat) (h : n < 10) : Nat.digitChar n ≠ ' ' := by
  interval_cases n <;> decide

/-- The digits of a number hold no space. -/
theorem toDigitsCore_no_space (fuel n : Nat) (ds : List Char) (hds : ' ' ∉ ds) :
    ' ' ∉ Nat.toDigitsCore 10 fuel n ds := by
  induction fuel generalizing n ds with
  | zero => simpa [Nat.toDigitsCore] using hds
  | succ fuel ih =>
    have hd : ' ' ∉ Nat.digitChar (n % 10) :: ds := by
      simp only [List.mem_cons, not_or]
      exact ⟨fun h => digitChar_ne_space (n % 10) (Nat.mod_lt _ (by decide)) h.symm, hds⟩
    unfold Nat.toDigitsCore
    simp only
    split
    · exact hd
    · exact ih _ _ hd

/-- The decimal text of a number holds no space. -/
theorem toString_no_space (n : Nat) : ' ' ∉ (toString n).data := by
  show ' ' ∉ (Nat.repr n).data
  unfold Nat.repr Nat.toDigits
  exact toDigitsCore_no_space _ _ _ (by simp)

/-- Two texts without a space joined hold no space. -/
theorem no_space_append (a b : String) (ha : ' ' ∉ a.data) (hb : ' ' ∉ b.data) :
    ' ' ∉ (a ++ b).data := by
  rw [String.data_append, List.mem_append]
  exact fun h => h.elim ha hb

/-- A label of `genUniqueLabel` holds no space when its base holds none. -/
theorem genUniqueLabel_no_space (cg : CodeGenerator) (base : String)
    (hb : ' ' ∉ base.data) : ' ' ∉ (genUniqueLabel cg base).1.data := by
  unfold genUniqueLabel
  exact no_space_append _ _ (no_space_append _ _ (no_space_append _ _ (by decide) hb)
    (by decide)) (toString_no_space _)

/-- The operand of a temporary of `genTempVar` holds no space. -/
theorem lfVar_no_space (cg : CodeGenerator) (d : Nat) :
    ' ' ∉ (lfVar (genTempVar cg).1 d).data := by
  unfold lfVar genTempVar
  exact no_space_append _ _ (no_space_append _ _ (no_space_append _ _ (by decide)
    (no_space_append _ _ (by decide) (toString_no_space _))) (by decide))
    (toString_no_space _)

/-- The words of a text without a space: the text. -/
theorem words_last (w : List Char) (hw : ' ' ∉ w) : words w = [w] := by
  induction w with
  | nil => rfl
  | cons c w ih =>
    simp only [List.mem_cons, not_or] at hw
    rw [words, if_neg (fun h => hw.1 h.symm), ih hw.2]

/-- The words of a text that starts with a word and a space. -/
theorem words_word (w rest : List Char) (hw : ' ' ∉ w) :
    words (w ++ ' ' :: rest) = w :: words rest := by
  induction w with
  | nil => simp [words]
  | cons c w ih =>
    simp only [List.mem_cons, not_or] at hw
    rw [List.cons_append, words, if_neg (fun h => hw.1 h.symm), ih hw.2]

/-- The instruction of a line `JUMP label`. -/
theorem flowOf_jump (l : String) (hl : ' ' ∉ l.data) :
    flowOf ("JUMP " ++ l) = Flow.jump l.data := by
  have hd : ("JUMP " ++ l).data = "JUMP".data ++ ' ' :: l.data := by
    rw [String.data_append]; rfl
  unfold flowOf
  rw [hd, words_word _ _ (by decide), words_last _ hl]
  rfl

/-- The instruction of a line `LABEL label`. -/
theorem flowOf_label (l : String) (hl : ' ' ∉ l.data) :
    flowOf ("LABEL " ++ l) = Flow.label l.data := by
  have hd : ("LABEL " ++ l).data = "LABEL".data ++ ' ' :: l.data := by
    rw [String.data_append]; rfl
  unfold flowOf
  rw [hd, words_word _ _ (by decide), words_last _ hl]
  rfl

/-- The instruction of a line `JUMPIFEQ label a b` with a constant as `b`. -/
theorem flowOf_jumpIfEq (l a : String) (b : List Char) (tail : String)
    (hl : ' ' ∉ l.data) (ha : ' ' ∉ a.data) (hb : ' ' ∉ b) (ht : tail.data = ' ' :: b) :
    flowOf ("JUMPIFEQ " ++ l ++ " " ++ a ++ tail) = Flow.jumpIfEq l.data a.data b := by
  have hd : ("JUMPIFEQ " ++ l ++ " " ++ a ++ tail).data =
      "JUMPIFEQ".data ++ ' ' :: (l.data ++ ' ' :: (a.data ++ ' ' :: b)) := by
    simp only [String.data_append, ht, List.append_assoc]
    rfl
  unfold flowOf
  rw [hd, words_word _ _ (by decide), words_word _ _ hl, words_word _ _ ha, words_last _ hb]
  rfl

/-- The instruction of the line `PUSHS bool@true`. -/
theorem flowOf_push : flowOf "PUSHS bool@true" = Flow.other := by decide

/-- The index of a label behind lines that do not define it. -/
theorem labelIndex_append (l : List Char) (a b : List String)
    (h : ∀ x ∈ a, flowOf x ≠ Flow.label l) :
    labelIndex l (a ++ b) = (labelIndex l b).map (fun i => i + a.length) := by
  induction a with
  | nil => simp
  | cons x xs ih =>
    rw [List.cons_append, labelIndex, if_neg (h x (List.mem_cons_self _ _)),
      ih (fun y hy => h y (List.mem_cons_of_mem _ hy))]
    cases labelIndex l b with
    | none => rfl
    | some i => simp only [Option.map_some', List.length_cons]; congr 1

/-- The index of a label at the line that defines it. -/
theorem labelIndex_here (l : List Char) (x : String) (rest : List String)
    (h : flowOf x = Flow.label l) : labelIndex l (x :: rest) = some 0 := by
  rw [labelIndex, if_pos h]

/-- The index of a label behind a line that does not define it. -/
theorem labelIndex_skip (l : List Char) (x : String) (rest : List String)
    (h : flowOf x ≠ Flow.label l) :
    labelIndex l (x :: rest) = (labelIndex l rest).map (fun i => i + 1) := by
  rw [labelIndex, if_neg h]

/-- The line at an index behind a list of lines. -/
theorem get?_append_add (a b : List String) (k : Nat) :
    (a ++ b).get? (a.length + k) = b.get? k := by
  induction a with
  | nil => simp
  | cons x xs ih =>
    rw [List.cons_append, List.length_cons, Nat.add_right_comm, List.get?_cons_succ, ih]

/-- A step of the run at another instruction. -/
theorem runFlow_other (prog : List String) (env : List Char → Option Value) (f pc : Nat)
    (line : String) (hg : prog.get? pc = some line) (hf : flowOf line = Flow.other) :
    runFlow prog env (f + 1) pc = ([], FlowEnd.reached pc) := by
  rw [runFlow, hg]
  simp only [hf]

/-- A step of the run at a label. -/
theorem runFlow_label (prog : List String) (env : List Char → Option Value) (f pc : Nat)
    (line : String) (n : List Char) (hg : prog.get? pc = some line)
    (hf : flowOf line = Flow.label n) :
    runFlow prog env (f + 1) pc =
      (pc :: (runFlow prog env f (pc + 1)).1, (runFlow prog env f (pc + 1)).2) := by
  rw [runFlow, hg]
  simp only [hf]

/-- A step of the run at a jump. -/
theorem runFlow_jump (prog : List String) (env : List Char → Option Value) (f pc i : Nat)
    (line : String) (l : List Char) (hg : prog.get? pc = some line)
    (hf : flowOf line = Flow.jump l) (hi : labelIndex l prog = some i) :
    runFlow prog env (f + 1) pc =
      (pc :: (runFlow prog env f i).1, (runFlow prog env f i).2) := by
  rw [runFlow, hg]
  simp only [hf, hi]

/-- A step of the run at a conditional jump with equal operands. -/
theorem runFlow_equal (prog : List String) (env : List Char → Option Value) (f pc i : Nat)
    (line : String) (l a b : List Char) (x y : Value) (hg : prog.get? pc = some line)
    (hf : flowOf line = Flow.jumpIfEq l a b) (ha : operandValue env a = some x)
    (hb : operandValue env b = some y) (hs : sameValue x y = some true)
    (hi : labelIndex l prog = some i) :
    runFlow prog env (f + 1) pc =
      (pc :: (runFlow prog env f i).1, (runFlow prog env f i).2) := by
  rw [runFlow, hg]
  simp only [hf, ha, hb, hs, hi]

/-- A step of the run at a conditional jump with operands that are not equal. -/
theorem runFlow_unequal (prog : List String) (env : List Char → Option Value) (f pc : Nat)
    (line : String) (l a b : List Char) (x y : Value) (hg : prog.get? pc = some line)
    (hf : flowOf line = Flow.jumpIfEq l a b) (ha : operandValue env a = some x)
    (hb : operandValue env b = some y) (hs : sameValue x y = some false) :
    runFlow prog env (f + 1) pc =
      (pc :: (runFlow prog env f (pc + 1)).1, (runFlow prog env f (pc + 1)).2) := by
  rw [runFlow, hg]
  simp only [hf, ha, hb, hs]

/-- A step of the run at a conditional jump with operands of two types. -/
theorem runFlow_mismatch (prog : List String) (env : List Char → Option Value) (f pc : Nat)
    (line : String) (l a b : List Char) (x y : Value) (hg : prog.get? pc = some line)
    (hf : flowOf line = Flow.jumpIfEq l a b) (ha : operandValue env a = some x)
    (hb : operandValue env b = some y) (hs : sameValue x y = none) :
    runFlow prog env (f + 1) pc = ([pc], FlowEnd.exit 53) := by
  rw [runFlow, hg]
  simp only [hf, ha, hb, hs]

/-- The run of the code of `||` from its first conditional jump, for every value of the
temporary: the code of the right operand is not reached. -/
theorem orLines_run (pre outR : List String) (labEnd labTrue checkNil goCalcB tmp : String)
    (env : List Char → Option Value) (v : Value)
    (hE : ' ' ∉ labEnd.data) (hT : ' ' ∉ labTrue.data) (hC : ' ' ∉ checkNil.data)
    (hG : ' ' ∉ goCalcB.data) (hV : ' ' ∉ tmp.data)
    (hCT : checkNil ≠ labTrue) (hGT : goCalcB ≠ labTrue)
    (hpre : ∀ x ∈ pre, flowOf x ≠ Flow.label checkNil.data ∧
      flowOf x ≠ Flow.label labTrue.data)
    (hR : ∀ x ∈ outR, flowOf x ≠ Flow.label labTrue.data)
    (henv : operandValue env tmp.data = some v) :
    runFlow (pre ++ orLines labEnd labTrue checkNil goCalcB tmp outR) env 6 pre.length =
      orOutcome pre.length outR.length v := by
  have f0 := flowOf_jumpIfEq checkNil tmp "bool@false".data " bool@false" hC hV (by decide) rfl
  have f1 := flowOf_jump labTrue hT
  have f2 := flowOf_label checkNil hC
  have f3 := flowOf_jumpIfEq goCalcB tmp "nil@nil".data " nil@nil" hG hV (by decide) rfl
  have f5 := flowOf_label goCalcB hG
  have f7 := flowOf_label labTrue hT
  have neLabel : ∀ a b : String, a ≠ b → Flow.label a.data ≠ Flow.label b.data := by
    intro a b hab h
    injection h with h
    exact hab (String.ext h)
  have g : ∀ k, (pre ++ orLines labEnd labTrue checkNil goCalcB tmp outR).get?
      (pre.length + k) = (orLines labEnd labTrue checkNil goCalcB tmp outR).get? k :=
    fun k => get?_append_add _ _ k
  have gR : ∀ k, (orLines labEnd labTrue checkNil goCalcB tmp outR).get?
      (6 + (outR.length + k)) =
      ["JUMP " ++ labEnd, "LABEL " ++ labTrue, "PUSHS bool@true", "LABEL " ++ labEnd].get?
        k := by
    intro k
    unfold orLines
    rw [show (6 : Nat) = ["JUMPIFEQ " ++ checkNil ++ " " ++ tmp ++ " bool@false",
        "JUMP " ++ labTrue, "LABEL " ++ checkNil,
        "JUMPIFEQ " ++ goCalcB ++ " " ++ tmp ++ " nil@nil", "JUMP " ++ labTrue,
        "LABEL " ++ goCalcB].length from rfl, get?_append_add, get?_append_add]
  have iC : labelIndex checkNil.data
      (pre ++ orLines labEnd labTrue checkNil goCalcB tmp outR) = some (pre.length + 2) := by
    rw [labelIndex_append _ _ _ (fun x hx => (hpre x hx).1)]
    unfold orLines
    rw [List.cons_append, labelIndex_skip _ _ _ (by rw [f0]; exact fun h => nomatch h),
      List.cons_append, labelIndex_skip _ _ _ (by rw [f1]; exact fun h => nomatch h),
      List.cons_append, labelIndex_here _ _ _ f2]
    simp only [Option.map_some']
    congr 1
    omega
  have iT : labelIndex labTrue.data
      (pre ++ orLines labEnd labTrue checkNil goCalcB tmp outR) =
      some (pre.length + 7 + outR.length) := by
    rw [labelIndex_append _ _ _ (fun x hx => (hpre x hx).2)]
    unfold orLines
    rw [List.cons_append, labelIndex_skip _ _ _ (by rw [f0]; exact fun h => nomatch h),
      List.cons_append, labelIndex_skip _ _ _ (by rw [f1]; exact fun h => nomatch h),
      List.cons_append, labelIndex_skip _ _ _ (by rw [f2]; exact neLabel _ _ hCT),
      List.cons_append, labelIndex_skip _ _ _ (by rw [f3]; exact fun h => nomatch h),
      List.cons_append, labelIndex_skip _ _ _ (by rw [f1]; exact fun h => nomatch h),
      List.cons_append, labelIndex_skip _ _ _ (by rw [f5]; exact neLabel _ _ hGT),
      List.nil_append, labelIndex_append _ _ _ hR,
      labelIndex_skip _ _ _ (by rw [flowOf_jump labEnd hE]; exact fun h => nomatch h),
      labelIndex_here _ _ _ f7]
    simp only [Option.map_some']
    congr 1
    omega
  have c0 : operandValue env "bool@false".data = some (Value.bool false) := rfl
  have c1 : operandValue env "nil@nil".data = some Value.nil := rfl
  have s0 : (pre ++ orLines labEnd labTrue checkNil goCalcB tmp outR).get? pre.length =
      some ("JUMPIFEQ " ++ checkNil ++ " " ++ tmp ++ " bool@false") := g 0
  have s1 : (pre ++ orLines labEnd labTrue checkNil goCalcB tmp outR).get? (pre.length + 1) =
      some ("JUMP " ++ labTrue) := g 1
  have s2 : (pre ++ orLines labEnd labTrue checkNil goCalcB tmp outR).get? (pre.length + 2) =
      some ("LABEL " ++ checkNil) := g 2
  have s3 : (pre ++ orLines labEnd labTrue checkNil goCalcB tmp outR).get?
      (pre.length + 2 + 1) = some ("JUMPIFEQ " ++ goCalcB ++ " " ++ tmp ++ " nil@nil") := g 3
  have s4 : (pre ++ orLines labEnd labTrue checkNil goCalcB tmp outR).get?
      (pre.length + 2 + 1 + 1) = some ("JUMP " ++ labTrue) := g 4
  have e7 : pre.length + 7 + outR.length = pre.length + (6 + (outR.length + 1)) := by omega
  have e8 : pre.length + 7 + outR.length + 1 = pre.length + (6 + (outR.length + 2)) := by
    omega
  have s7 : (pre ++ orLines labEnd labTrue checkNil goCalcB tmp outR).get?
      (pre.length + 7 + outR.length) = some ("LABEL " ++ labTrue) := by
    rw [e7, g, gR]; rfl
  have s8 : (pre ++ orLines labEnd labTrue checkNil goCalcB tmp outR).get?
      (pre.length + 7 + outR.length + 1) = some "PUSHS bool@true" := by
    rw [e8, g, gR]; rfl
  have hend : ∀ f, runFlow (pre ++ orLines labEnd labTrue checkNil goCalcB tmp outR) env
      (f + 2) (pre.length + 7 + outR.length) =
      ([pre.length + 7 + outR.length], FlowEnd.reached (pre.length + 7 + outR.length + 1)) := by
    intro f
    rw [runFlow_label _ _ _ _ _ _ s7 f7, runFlow_other _ _ _ _ _ s8 flowOf_push]
  have hjump : ∀ f, runFlow (pre ++ orLines labEnd labTrue checkNil goCalcB tmp outR) env
      (f + 3) (pre.length + 1) =
      ([pre.length + 1, pre.length + 7 + outR.length],
        FlowEnd.reached (pre.length + 7 + outR.length + 1)) := by
    intro f
    rw [runFlow_jump _ _ _ _ _ _ _ s1 f1 iT, hend]
  have hjump4 : ∀ f, runFlow (pre ++ orLines labEnd labTrue checkNil goCalcB tmp outR) env
      (f + 3) (pre.length + 2 + 1 + 1) =
      ([pre.length + 2 + 1 + 1, pre.length + 7 + outR.length],
        FlowEnd.reached (pre.length + 7 + outR.length + 1)) := by
    intro f
    rw [runFlow_jump _ _ _ _ _ _ _ s4 f1 iT, hend]
  cases v with
  | nil =>
    rw [runFlow_unequal _ _ _ _ _ _ _ _ _ _ s0 f0 henv c0 rfl, hjump]
    rfl
  | bool b =>
    cases b with
    | true =>
      rw [runFlow_unequal _ _ _ _ _ _ _ _ _ _ s0 f0 henv c0 rfl, hjump]
      rfl
    | false =>
      rw [runFlow_equal _ _ _ _ _ _ _ _ _ _ _ s0 f0 henv c0 rfl iC,
        runFlow_label _ _ _ _ _ _ s2 f2,
        runFlow_unequal _ _ _ _ _ _ _ _ _ _ s3 f3 henv c1 rfl, hjump4]
      rfl
  | int n => rw [runFlow_mismatch _ _ _ _ _ _ _ _ _ _ s0 f0 henv c0 rfl]; rfl
  | float t => rw [runFlow_mismatch _ _ _ _ _ _ _ _ _ _ s0 f0 henv c0 rfl]; rfl
  | string t => rw [runFlow_mismatch _ _ _ _ _ _ _ _ _ _ s0 f0 henv c0 rfl]; rfl

/-- The instruction of a line `DEFVAR x`. -/
theorem flowOf_defvar (x : String) (hx : ' ' ∉ x.data) :
    flowOf ("DEFVAR " ++ x) = Flow.other := by
  have hd : ("DEFVAR " ++ x).data = "DEFVAR".data ++ ' ' :: x.data := by
    rw [String.data_append]; rfl
  unfold flowOf
  rw [hd, words_word _ _ (by decide), words_last _ hx]
  rfl

/-- The instruction of a line `POPS x`. -/
theorem flowOf_pops (x : String) (hx : ' ' ∉ x.data) :
    flowOf ("POPS " ++ x) = Flow.other := by
  have hd : ("POPS " ++ x).data = "POPS".data ++ ' ' :: x.data := by
    rw [String.data_append]; rfl
  unfold flowOf
  rw [hd, words_word _ _ (by decide), words_last _ hx]
  rfl

/-- The operand of a temporary is no constant: its value is the value of the variable. -/
theorem operandValue_lfVar (name : String) (d : Nat) (v : Value) :
    operandValue (oneVariable (lfVar name d) v) (lfVar name d).data = some v := by
  have hL : ∀ c : List Char, c.head? ≠ some 'L' → (lfVar name d).data ≠ c := by
    intro c hc h
    apply hc
    rw [← h]
    simp [lfVar, String.data_append]
  unfold operandValue
  rw [if_neg (hL _ (by decide)), if_neg (hL _ (by decide)), if_neg (hL _ (by decide))]
  unfold oneVariable
  rw [if_pos rfl]

/-- The lines executed by the code of `||` are none of the right operand, and the run
ends at the line `PUSHS bool@true` or with the error 53. -/
theorem orOutcome_facts (n m : Nat) (v : Value) :
    (∀ i ∈ (orOutcome n m v).1, i < n + 5 ∨ n + 6 + m < i) ∧
      ((orOutcome n m v).2 = FlowEnd.reached (n + 7 + m + 1) ∨
        (orOutcome n m v).2 = FlowEnd.exit 53) ∧
      ((v = Value.bool false ∨ v = Value.nil) →
        (orOutcome n m v).2 = FlowEnd.reached (n + 7 + m + 1)) := by
  cases v with
  | bool b =>
    cases b
    · refine ⟨fun i hi => ?_, Or.inl rfl, fun _ => rfl⟩
      simp only [orOutcome, List.mem_cons, List.mem_singleton, List.not_mem_nil,
        or_false] at hi
      omega
    · refine ⟨fun i hi => ?_, Or.inl rfl, fun _ => rfl⟩
      simp only [orOutcome, List.mem_cons, List.mem_singleton, List.not_mem_nil,
        or_false] at hi
      omega
  | nil =>
    refine ⟨fun i hi => ?_, Or.inl rfl, fun _ => rfl⟩
    simp only [orOutcome, List.mem_cons, List.mem_singleton, List.not_mem_nil,
      or_false] at hi
    omega
  | int k =>
    refine ⟨fun i hi => ?_, Or.inr rfl, fun h => by rcases h with h | h <;> cases h⟩
    simp only [orOutcome, List.mem_singleton] at hi
    omega
  | float k =>
    refine ⟨fun i hi => ?_, Or.inr rfl, fun h => by rcases h with h | h <;> cases h⟩
    simp only [orOutcome, List.mem_singleton] at hi
    omega
  | string k =>
    refine ⟨fun i hi => ?_, Or.inr rfl, fun h => by rcases h with h | h <;> cases h⟩
    simp only [orOutcome, List.mem_singleton] at hi
    omega

/-- Claim C33 fails on the code.  For a node of `||`, `genOperator` emits the code of the
left operand, `DEFVAR` and `POPS` of a temporary and the lines of `orLines`: a `JUMPIFEQ`
to `$or_check_nil_` when the temporary is `bool@false`, else a `JUMP` to `$or_true_`; at
`$or_check_nil_` a `JUMPIFEQ` to `$or_calc_b_`, the label before the code of the right
operand, when the temporary is `nil@nil`, else a `JUMP` to `$or_true_`.  The second test
is reached only with `bool@false` in the temporary, which is not `nil@nil`: under the
meaning of the three instructions the run from the first jump, for every value of the
temporary, executes no line of the right operand and ends at `PUSHS bool@true`, or with
the error 53 for a value that is neither a boolean nor `nil`.  In particular the right
operand is not reached for `bool@false` and not for `nil@nil`. -/
theorem logical_or_skips_right (rec : Gen) (id : Nat) (ty : AstNodeType) (tok : Token)
    (l r : AstNode) (cg cgL cgR : CodeGenerator) (outL outR : List String)
    (htok : tok.type = TokenType.LOGICAL_OR)
    (hl : rec l { cg with labelCounter := cg.labelCounter + 2 } = Except.ok (outL, cgL))
    (hr : rec r { cgL with tempVarCounter := cgL.tempVarCounter + 1,
                           labelCounter := cgL.labelCounter + 2 } = Except.ok (outR, cgR))
    (hL : ∀ x ∈ outL,
      flowOf x ≠ Flow.label ("$or_check_nil_" ++ toString cgL.labelCounter).data ∧
      flowOf x ≠ Flow.label ("$or_true_" ++ toString (cg.labelCounter + 1)).data)
    (hR : ∀ x ∈ outR,
      flowOf x ≠ Flow.label ("$or_true_" ++ toString (cg.labelCounter + 1)).data) :
    genOperator rec (AstNode.bin id ty tok (some l) (some r)) cg =
        Except.ok (outL ++
          ["DEFVAR " ++ lfVar ("$$tmp_" ++ toString cgL.tempVarCounter) cgL.frameDepth,
           "POPS " ++ lfVar ("$$tmp_" ++ toString cgL.tempVarCounter) cgL.frameDepth] ++
          orLines ("$or_end_" ++ toString cg.labelCounter)
            ("$or_true_" ++ toString (cg.labelCounter + 1))
            ("$or_check_nil_" ++ toString cgL.labelCounter)
            ("$or_calc_b_" ++ toString (cgL.labelCounter + 1))
            (lfVar ("$$tmp_" ++ toString cgL.tempVarCounter) cgL.frameDepth) outR, cgR) ∧
      ∀ v : Value,
        runFlow (outL ++
          ["DEFVAR " ++ lfVar ("$$tmp_" ++ toString cgL.tempVarCounter) cgL.frameDepth,
           "POPS " ++ lfVar ("$$tmp_" ++ toString cgL.tempVarCounter) cgL.frameDepth] ++
          orLines ("$or_end_" ++ toString cg.labelCounter)
            ("$or_true_" ++ toString (cg.labelCounter + 1))
            ("$or_check_nil_" ++ toString cgL.labelCounter)
            ("$or_calc_b_" ++ toString (cgL.labelCounter + 1))
            (lfVar ("$$tmp_" ++ toString cgL.tempVarCounter) cgL.frameDepth) outR)
          (oneVariable (lfVar ("$$tmp_" ++ toString cgL.tempVarCounter) cgL.frameDepth) v)
          6 (outL.length + 2) = orOutcome (outL.length + 2) outR.length v ∧
        (∀ i ∈ (orOutcome (outL.length + 2) outR.length v).1,
          i < outL.length + 2 + 5 ∨ outL.length + 2 + 6 + outR.length < i) ∧
        ((orOutcome (outL.length + 2) outR.length v).2 =
            FlowEnd.reached (outL.length + 2 + 7 + outR.length + 1) ∨
          (orOutcome (outL.length + 2) outR.length v).2 = FlowEnd.exit 53) ∧
        ((v = Value.bool false ∨ v = Value.nil) →
          (orOutcome (outL.length + 2) outR.length v).2 =
            FlowEnd.reached (outL.length + 2 + 7 + outR.length + 1)) := by
  constructor
  · unfold genOperator
    simp only [htok, reduceCtorEq, if_false, if_true]
    unfold genLogicalOr
    simp only [genUniqueLabel, genChild, genTempVar, bind, Except.bind, hl, hr]
    refine congrArg (fun x : List String => Except.ok (x, cgR)) ?_
    simp only [orLines, List.append_assoc, List.cons_append, List.nil_append]
    rfl
  · intro v
    have hs1 := genUniqueLabel_no_space cg "or_end" (by decide)
    have hs2 := genUniqueLabel_no_space { cg with labelCounter := cg.labelCounter + 1 }
      "or_true" (by decide)
    have hs3 := genUniqueLabel_no_space cgL "or_check_nil" (by decide)
    have hs4 := genUniqueLabel_no_space { cgL with labelCounter := cgL.labelCounter + 1 }
      "or_calc_b" (by decide)
    have hs5 : ' ' ∉ (lfVar ("$$tmp_" ++ toString cgL.tempVarCounter) cgL.frameDepth).data :=
      lfVar_no_space cgL cgL.frameDepth
    have hrun := orLines_run
      (outL ++
        ["DEFVAR " ++ lfVar ("$$tmp_" ++ toString cgL.tempVarCounter) cgL.frameDepth,
         "POPS " ++ lfVar ("$$tmp_" ++ toString cgL.tempVarCounter) cgL.frameDepth])
      outR ("$or_end_" ++ toString cg.labelCounter)
      ("$or_true_" ++ toString (cg.labelCounter + 1))
      ("$or_check_nil_" ++ toString cgL.labelCounter)
      ("$or_calc_b_" ++ toString (cgL.labelCounter + 1))
      (lfVar ("$$tmp_" ++ toString cgL.tempVarCounter) cgL.frameDepth)
      (oneVariable (lfVar ("$$tmp_" ++ toString cgL.tempVarCounter) cgL.frameDepth) v) v
      hs1 hs2 hs3 hs4 hs5
      (fun h => absurd (congrArg (fun s : String => startsWith "$or_c".data s.data) h)
        (by simp only; exact Bool.noConfusion))
      (fun h => absurd (congrArg (fun s : String => startsWith "$or_c".data s.data) h)
        (by simp only; exact Bool.noConfusion))
      (fun x hx => by
        rcases List.mem_append.mp hx with hx | hx
        · exact hL x hx
        · simp only [List.mem_cons, List.mem_singleton, List.not_mem_nil, or_false] at hx
          rcases hx with rfl | rfl
          · rw [flowOf_defvar _ hs5]; exact ⟨(fun h => nomatch h), (fun h => nomatch h)⟩
          · rw [flowOf_pops _ hs5]; exact ⟨(fun h => nomatch h), (fun h => nomatch h)⟩)
      hR (operandValue_lfVar _ _ v)
    have hlen : (outL ++
        ["DEFVAR " ++ lfVar ("$$tmp_" ++ toString cgL.tempVarCounter) cgL.frameDepth,
         "POPS " ++ lfVar ("$$tmp_" ++ toString cgL.tempVarCounter) cgL.frameDepth]).length =
        outL.length + 2 := by simp
    rw [hlen] at hrun
    exact ⟨hrun, orOutcome_facts _ _ v⟩

set_option maxRecDepth 100000 in
/-- The theorem `logical_or_skips_right` on the node of `null || 1`: with `nil@nil` in the
temporary the run goes from the first jump to `PUSHS bool@true` past the code of the
right operand.  In the code of the program with `2 < 1 || 2 < 1` the run from the first
jump of `||` reaches `PUSHS bool@true` at the line 80 for `bool@false` and for `nil@nil`,
and the label `$or_calc_b_7` at the line 47, before the code of the right operand, is
not among the lines executed.  In the code of the program with `1 < 2 && 2 < 1` the run
from the first jump of `&&` reaches the code of the right operand at the line 44 for
`bool@true`, and `PUSHS bool@false` at the line 76 for `bool@false` and for `nil@nil`. -/
theorem logical_or_skips_right_witness :
    runFlow
        ["PUSHS nil@nil", "DEFVAR LF@$$tmp_0$0", "POPS LF@$$tmp_0$0",
         "JUMPIFEQ $or_check_nil_2 LF@$$tmp_0$0 bool@false", "JUMP $or_true_1",
         "LABEL $or_check_nil_2", "JUMPIFEQ $or_calc_b_3 LF@$$tmp_0$0 nil@nil",
         "JUMP $or_true_1", "LABEL $or_calc_b_3", "PUSHS int@1", "JUMP $or_end_0",
         "LABEL $or_true_1", "PUSHS bool@true", "LABEL $or_end_0"]
        (oneVariable "LF@$$tmp_0$0" Value.nil) 6 3 =
      ([3, 4, 11], FlowEnd.reached 12) ∧
      ((compiledLines orProgram).get? 42, (compiledLines orProgram).get? 47,
        (compiledLines orProgram).get? 48, (compiledLines orProgram).get? 80) =
        (some "JUMPIFEQ $or_check_nil_6 LF@$$tmp_4$1 bool@false", some "LABEL $or_calc_b_7",
         some "PUSHS int@2", some "PUSHS bool@true") ∧
      runFlow (compiledLines orProgram) (oneVariable "LF@$$tmp_4$1" (Value.bool false))
        10 42 = ([42, 44, 45, 46, 79], FlowEnd.reached 80) ∧
      runFlow (compiledLines orProgram) (oneVariable "LF@$$tmp_4$1" Value.nil) 10 42 =
        ([42, 43, 79], FlowEnd.reached 80) ∧
      ((compiledLines andProgram).get? 42, (compiledLines andProgram).get? 44,
        (compiledLines andProgram).get? 76) =
        (some "JUMPIFEQ $and_false_1 LF@$$tmp_4$1 bool@false", some "PUSHS int@2",
         some "PUSHS bool@false") ∧
      runFlow (compiledLines andProgram) (oneVariable "LF@$$tmp_4$1" (Value.bool true))
        10 42 = ([42, 43], FlowEnd.reached 44) ∧
      runFlow (compiledLines andProgram) (oneVariable "LF@$$tmp_4$1" (Value.bool false))
        10 42 = ([42, 75], FlowEnd.reached 76) ∧
      runFlow (compiledLines andProgram) (oneVariable "LF@$$tmp_4$1" Value.nil) 10 42 =
        ([42, 43, 75], FlowEnd.reached 76) :=
  ⟨((logical_or_skips_right (genNode 1) 0 AstNodeType.AST_EXPRESSION
      (operatorToken TokenType.LOGICAL_OR)
      (AstNode.leaf 1 AstNodeType.AST_LITERAL nullToken)
      (AstNode.leaf 2 AstNodeType.AST_LITERAL (intToken 1))
      (codeGeneratorInit builtinStack)
      { codeGeneratorInit builtinStack with labelCounter := 2 }
      { codeGeneratorInit builtinStack with labelCounter := 4, tempVarCounter := 1 }
      ["PUSHS nil@nil"] ["PUSHS int@1"] rfl rfl rfl (by decide) (by decide)).2 Value.nil).1,
   by decide!, by decide!, by decide!, by decide!, by decide!, by decide!, by decide!⟩

end IFJ
